import Mathlib

/-! # Bytecode verifier core (`runtime/bcverify/bcverify.c`)

A shallow embedding of the branch-map builder, the stack-map decompressor and
the per-method driver of the verifier, followed by theorems about them.

Conventions of the embedding.

* `UDATA` / `IDATA` are 64-bit words.  Unsigned quantities are `Nat`, signed
  ones are `Int`; where the C code relies on wrap-around the reduction modulo
  `2 ^ 64` is written out.
* A C array that the code only reads (`bytecodes`, the stack-map attribute) is
  a function `Nat → Nat` giving the byte stored at each offset from its base.
* The bytecode map is a `List Nat` holding one `U_32` per bytecode offset.  An
  access outside the list has no defined behaviour in C; the functions return
  `none` there.  `none` is also the answer for a scan that never ends.
* `stackElements` of a frame is addressed by the signed offsets the C code
  uses, hence `Int → Nat`.
* Tables, macros and helpers that live in headers or files outside
  `bcverify.c` are fields of `Collaborators`.
-/

namespace BCV

/-! ## Constants -/

/-- Modelled from the spec: flag of a bytecode-map entry marking a branch target
(the header defining it is outside `bcverify.c`; the spec lists the four flags
and the packed frame index above them). -/
def BRANCH_TARGET : Nat := 1

/-- Modelled from the spec: flag of a bytecode-map entry marking the start of a
protected range. -/
def BRANCH_EXCEPTION_START : Nat := 2

/-- Modelled from the spec: flag "on the unwalked queue". -/
def BRANCH_ON_UNWALKED_QUEUE : Nat := 4

/-- Modelled from the spec: flag "on the rewalk queue". -/
def BRANCH_ON_REWALK_QUEUE : Nat := 8

/-- Modelled from the spec: the frame index is packed above the four flag bits. -/
def BRANCH_INDEX_SHIFT : Nat := 4

/-- Opcode of `tableswitch`. -/
def JBtableswitch : Nat := 170

/-- Opcode of `lookupswitch`. -/
def JBlookupswitch : Nat := 171

/-- Opcode of `goto_w`. -/
def JBgotow : Nat := 200

/-- Number of values of a machine word (`UDATA`). -/
def UDATA_RANGE : Nat := 2 ^ 64

/-- Number of values of a bytecode-map entry (`U_32`). -/
def U32_RANGE : Nat := 2 ^ 32

/-- Stack-map frame tags of the class-file format. -/
def CFR_STACKMAP_SAME_LOCALS_1_STACK : Nat := 64
def CFR_STACKMAP_SAME_LOCALS_1_STACK_END : Nat := 128
def CFR_STACKMAP_SAME_LOCALS_1_STACK_EXTENDED : Nat := 247
def CFR_STACKMAP_SAME_EXTENDED : Nat := 251
def CFR_STACKMAP_FULL : Nat := 255

/-- Stack-map element tags of the class-file format. -/
def CFR_STACKMAP_TYPE_INIT_OBJECT : Nat := 6
def CFR_STACKMAP_TYPE_OBJECT : Nat := 7
def CFR_STACKMAP_TYPE_NEW_OBJECT : Nat := 8

/-- Modelled from the spec: lattice word tags (the header defining them is outside
`bcverify.c`): bit 0 marks a base type or `top`, bit 3 an uninitialized-new
marker. -/
def BCV_TAG_BASE_TYPE_OR_TOP : Nat := 1
def BCV_SPECIAL_INIT : Nat := 4
def BCV_SPECIAL_NEW : Nat := 8
def BCV_CLASS_INDEX_SHIFT : Nat := 4
def BCV_ARITY_SHIFT : Nat := 24

/-- Modelled from the spec: bit 1 of a lattice word marks a base-type array or
`null`. -/
def BCV_TAG_BASE_ARRAY_OR_NULL : Nat := 2

/-- Modelled from the spec: the bits of a lattice word that mark a base type, `top`
or one of the two uninitialized markers
(`BCV_TAG_BASE_TYPE_OR_TOP | BCV_SPECIAL_INIT | BCV_SPECIAL_NEW`). -/
def BCV_BASE_OR_SPECIAL : Nat := 13

/-- Modelled from the spec: the bits of the two uninitialized markers
(`BCV_SPECIAL_INIT | BCV_SPECIAL_NEW`). -/
def BCV_SPECIAL : Nat := 12

/-- Modelled from the spec: the arity field of a lattice word. -/
def BCV_ARITY_MASK : Nat := 0xFF000000

/-- Modelled from the spec: the class-index field of a lattice word. -/
def BCV_CLASS_INDEX_MASK : Nat := 0x00FFFFF0

/-- Modelled from the spec: index of `java/lang/Object` in the class-name list. -/
def BCV_JAVA_LANG_OBJECT_INDEX : Nat := 0

/-- Modelled from the spec: the `top` lattice word. -/
def BCV_BASE_TYPE_TOP : Nat := 1

/-- Modelled from the spec: the `null` lattice word. -/
def BCV_BASE_TYPE_NULL : Nat := 2

/-- Modelled from the spec: the `int` lattice word. -/
def BCV_BASE_TYPE_INT : Nat := 0x11

/-- Size of a machine word in bytes (`sizeof (UDATA)`). -/
def SIZEOF_UDATA : Nat := 8

/-- Modelled from the spec: the `long` lattice word. -/
def BCV_BASE_TYPE_LONG : Nat := 0x41

/-- Modelled from the spec: the `double` lattice word. -/
def BCV_BASE_TYPE_DOUBLE : Nat := 0x81

/-- Return codes of the verifier functions. -/
inductive RC where
  | BCV_SUCCESS
  | BCV_FAIL
  | BCV_ERR_INTERNAL_ERROR
  | BCV_ERR_INSUFFICIENT_MEMORY
  deriving DecidableEq, Repr

/-- Detail codes stored in `errorDetailCode`. -/
inductive DetailCode where
  | none
  | BCV_ERR_STACKMAP_FRAME_LOCALS_UNDERFLOW
  | BCV_ERR_STACKMAP_FRAME_LOCALS_OVERFLOW
  | BCV_ERR_STACKMAP_FRAME_STACK_OVERFLOW
  deriving DecidableEq, Repr

/-! ## Data model -/

/-- One entry of the exception table of a method. -/
structure J9ExceptionHandler where
  startPC : Nat
  endPC : Nat
  handlerPC : Nat
  exceptionClassIndex : Nat
  deriving DecidableEq, Repr

/-- The fields of a ROM method that the verifier core reads. -/
structure J9ROMMethod where
  /-- Byte at each offset from `J9_BYTECODE_START_FROM_ROM_METHOD`. -/
  bytecodes : Nat → Nat
  /-- `J9_BYTECODE_SIZE_FROM_ROM_METHOD`. -/
  bytecodeSize : Nat
  /-- `modifiers & J9AccMethodHasExceptionInfo`. -/
  hasExceptionInfo : Bool
  /-- The handlers of the exception info; `catchCount` is the length. -/
  handlers : List J9ExceptionHandler
  maxStack : Nat
  argCount : Nat
  tempCount : Nat
  isNative : Bool
  isAbstract : Bool
  /-- `getStackMapInfoForROMMethod`: the bytes after the size word, if any. -/
  stackMapInfo : Option (Nat → Nat)

/-- A frame (`J9BranchTargetStack`). -/
structure J9BranchTargetStack where
  pc : Nat
  uninitializedThis : Bool
  stackBaseIndex : Int
  stackTopIndex : Int
  stackElements : Int → Nat

/-- The class-name list of the verifier: ordered, append-only. -/
abbrev ClassNameList := List (List Nat)

/-- The mutable verifier state (`J9BytecodeVerificationData`). -/
structure VerifyData where
  romMethod : J9ROMMethod
  bytecodeMap : List Nat
  stackMapsCount : Nat
  stackMaps : List J9BranchTargetStack
  liveStack : J9BranchTargetStack
  classNameList : ClassNameList
  errorPC : Nat
  errorModule : Nat
  errorCode : Nat
  errorDetailCode : DetailCode
  errorCurrentFramePosition : Nat
  errorTempData : Nat
  ignoreStackMaps : Bool
  createdStackMap : Bool
  /-- The ring of PCs whose frame was reached for the first time. -/
  unwalkedQueue : List Nat := []
  unwalkedQueueHead : Nat := 0
  unwalkedQueueTail : Nat := 0
  /-- The ring of PCs whose stored frame was changed by a merge. -/
  rewalkQueue : List Nat := []
  rewalkQueueHead : Nat := 0
  rewalkQueueTail : Nat := 0
  /-- Size in bytes of each of the two rings. -/
  rootQueueSize : Nat := 0
  /-- `verificationFlags & J9_VERIFY_OPTIMIZE`. -/
  optimize : Bool := false

/-- Tables, macros and helpers defined outside `bcverify.c`. -/
structure Collaborators where
  /-- `J9JavaInstructionSizeAndBranchActionTable`, indexed by opcode. -/
  J9JavaInstructionSizeAndBranchActionTable : Nat → Nat
  /-- Byte order of the multi-byte operands read by `PARAM_16` / `PARAM_32`. -/
  bytecodeBigEndian : Bool
  /-- Byte order of `NEXT_U16` on the stack-map attribute. -/
  stackMapBigEndian : Bool
  /-- `verificationTokenDecode`, indexed by element tag. -/
  verificationTokenDecode : Nat → Nat
  /-- `convertClassNameToStackMapType` applied to the name of the current
  class with `BCV_SPECIAL_INIT`: the lattice word and the class-name list
  after the lookup. -/
  initObjectType : ClassNameList → Nat × ClassNameList
  /-- `pushClassType` on the constant-pool entry `cpIndex`. -/
  pushClassType : ClassNameList → Nat → Nat × ClassNameList

/-! ## Reading bytes -/

/-- The byte at offset `i`. -/
def byteAt (mem : Nat → Nat) (i : Nat) : Nat := mem i % 256

/-- Two bytes combined in the given byte order. -/
def u16 (bigEndian : Bool) (b0 b1 : Nat) : Nat :=
  if bigEndian then b0 * 256 + b1 else b1 * 256 + b0

/-- Four bytes combined in the given byte order. -/
def u32 (bigEndian : Bool) (b0 b1 b2 b3 : Nat) : Nat :=
  if bigEndian then ((b0 * 256 + b1) * 256 + b2) * 256 + b3
  else ((b3 * 256 + b2) * 256 + b1) * 256 + b0

/-- `PARAM_16(ip, offset)`. -/
def PARAM_16 (c : Collaborators) (code : Nat → Nat) (ip offset : Nat) : Nat :=
  u16 c.bytecodeBigEndian (byteAt code (ip + offset)) (byteAt code (ip + offset + 1))

/-- `PARAM_32(ip, offset)`. -/
def PARAM_32 (c : Collaborators) (code : Nat → Nat) (ip offset : Nat) : Nat :=
  u32 c.bytecodeBigEndian (byteAt code (ip + offset)) (byteAt code (ip + offset + 1))
    (byteAt code (ip + offset + 2)) (byteAt code (ip + offset + 3))

/-- The cast `(I_16)`. -/
def toI16 (v : Nat) : Int := if v < 2 ^ 15 then (v : Int) else (v : Int) - 2 ^ 16

/-- The cast `(I_32)`. -/
def toI32 (v : Nat) : Int := if v < 2 ^ 31 then (v : Int) else (v : Int) - 2 ^ 32

/-- The cast `(UDATA)` of a signed word. -/
def toUDATA (v : Int) : Nat := (v % (UDATA_RANGE : Int)).toNat

/-! ## buildBranchMap -/

/-- Read of `bytecodeMap[i]`. -/
def mapGet (bytecodeMap : List Nat) (i : Int) : Option Nat :=
  if 0 ≤ i then bytecodeMap[i.toNat]? else none

/-- The statement `if (bytecodeMap[t] == 0) { bytecodeMap[t] = BRANCH_TARGET; count++; }`. -/
def markBranchTarget (bytecodeMap : List Nat) (count : Nat) (t : Int) :
    Option (List Nat × Nat) :=
  match mapGet bytecodeMap t with
  | none => none
  | some v =>
    if v = 0 then some (bytecodeMap.set t.toNat BRANCH_TARGET, count + 1)
    else some (bytecodeMap, count)

/-- The loop `for (temp = 0; temp < npairs; temp++)` over the entries of a switch. -/
def switchEntries (c : Collaborators) (code : Nat → Nat) (start : Int) (pcs : Nat) :
    Nat → Nat → List Nat → Nat → Option (Nat × List Nat × Nat)
  | 0, bcIndex, bytecodeMap, count => some (bcIndex, bytecodeMap, count)
  | npairs + 1, bcIndex, bytecodeMap, count =>
    let bcIndex := bcIndex + pcs
    let longBranch := toI32 (PARAM_32 c code bcIndex 0)
    let bcIndex := bcIndex + 4
    match markBranchTarget bytecodeMap count (start + longBranch) with
    | none => none
    | some (bytecodeMap, count) => switchEntries c code start pcs npairs bcIndex bytecodeMap count

/-- Outcome of the bytecode scan of `buildBranchMap`. -/
inductive ScanOutcome where
  /-- The scan reached `bcEnd`. -/
  | finished (bytecodeMap : List Nat) (count : Nat)
  /-- An opcode with size-table entry 0 at offset `errorPC`. -/
  | unknownOpcode (errorPC : Nat) (bytecodeMap : List Nat)

/-- The loop `while (bcIndex < bcEnd)` of `buildBranchMap`; `fuel` bounds the
number of iterations. -/
def scanBytecodes (c : Collaborators) (m : J9ROMMethod) :
    Nat → Nat → List Nat → Nat → Option ScanOutcome
  | 0, _, _, _ => none
  | fuel + 1, bcIndex, bytecodeMap, count =>
    if bcIndex < m.bytecodeSize then
      let bc := byteAt m.bytecodes bcIndex
      let size := c.J9JavaInstructionSizeAndBranchActionTable bc
      if size = 0 then
        some (ScanOutcome.unknownOpcode bcIndex bytecodeMap)
      else if size >>> 4 = 5 then
        -- switches
        let start : Int := bcIndex
        let pc := (bcIndex + 4) / 4 * 4
        let bcIndex := pc
        let longBranch := toI32 (PARAM_32 c m.bytecodes bcIndex 0)
        let bcIndex := bcIndex + 4
        match markBranchTarget bytecodeMap count (start + longBranch) with
        | none => none
        | some (bytecodeMap, count) =>
          let low := toI32 (PARAM_32 c m.bytecodes bcIndex 0)
          let bcIndex := bcIndex + 4
          if bc = JBtableswitch then
            let high := toI32 (PARAM_32 c m.bytecodes bcIndex 0)
            let bcIndex := bcIndex + 4
            let npairs := toUDATA (high - low + 1)
            match switchEntries c m.bytecodes start 0 npairs bcIndex bytecodeMap count with
            | none => none
            | some (bcIndex, bytecodeMap, count) => scanBytecodes c m fuel bcIndex bytecodeMap count
          else
            let npairs := toUDATA low
            match switchEntries c m.bytecodes start 4 npairs bcIndex bytecodeMap count with
            | none => none
            | some (bcIndex, bytecodeMap, count) => scanBytecodes c m fuel bcIndex bytecodeMap count
      else if size >>> 4 = 2 ∧ bc = JBgotow then
        -- goto_w
        let start : Int := bcIndex
        let longBranch := toI32 (PARAM_32 c m.bytecodes bcIndex 1)
        match markBranchTarget bytecodeMap count (start + longBranch) with
        | none => none
        | some (bytecodeMap, count) =>
          scanBytecodes c m fuel (bcIndex + (size &&& 7)) bytecodeMap count
      else if size >>> 4 = 2 ∨ size >>> 4 = 1 then
        -- goto (falling through from case 2) and ifs
        let shortBranch := toI16 (PARAM_16 c m.bytecodes bcIndex 1)
        let start : Int := bcIndex
        match markBranchTarget bytecodeMap count (start + shortBranch) with
        | none => none
        | some (bytecodeMap, count) =>
          scanBytecodes c m fuel (bcIndex + (size &&& 7)) bytecodeMap count
      else
        scanBytecodes c m fuel (bcIndex + (size &&& 7)) bytecodeMap count
    else
      some (ScanOutcome.finished bytecodeMap count)

/-- The loop over the exception handlers at the end of `buildBranchMap`. -/
def walkHandlers : List J9ExceptionHandler → List Nat → Nat → Option (List Nat × Nat)
  | [], bytecodeMap, count => some (bytecodeMap, count)
  | handler :: rest, bytecodeMap, count =>
    let pc : Int := handler.startPC
    let pcs : Int := handler.handlerPC
    -- Avoid re-walking a handler that handles itself
    let marked : Option (List Nat) :=
      if pc ≠ pcs then
        match mapGet bytecodeMap pc with
        | none => none
        | some v => some (bytecodeMap.set pc.toNat (v ||| BRANCH_EXCEPTION_START))
      else some bytecodeMap
    match marked with
    | none => none
    | some bytecodeMap =>
      match mapGet bytecodeMap pcs with
      | none => none
      | some v =>
        if v &&& BRANCH_TARGET = 0 then
          walkHandlers rest (bytecodeMap.set pcs.toNat (v ||| BRANCH_TARGET)) (count + 1)
        else
          walkHandlers rest bytecodeMap count

/-- Value returned by `buildBranchMap`. -/
inductive BranchMapResult where
  | count (n : Nat)
  | BCV_ERR_INTERNAL_ERROR
  deriving DecidableEq, Repr

/-- `buildBranchMap`.  The scan needs at most `bytecodeSize` iterations when it
ends, because an iteration that does not advance `bcIndex` repeats for ever. -/
def buildBranchMap (c : Collaborators) (verifyData : VerifyData) :
    Option (BranchMapResult × VerifyData) :=
  let romMethod := verifyData.romMethod
  match scanBytecodes c romMethod (romMethod.bytecodeSize + 1) 0 verifyData.bytecodeMap 0 with
  | none => none
  | some (ScanOutcome.unknownOpcode errorPC bytecodeMap) =>
    some (BranchMapResult.BCV_ERR_INTERNAL_ERROR,
      { verifyData with bytecodeMap := bytecodeMap, errorPC := errorPC })
  | some (ScanOutcome.finished bytecodeMap count) =>
    if romMethod.hasExceptionInfo then
      match walkHandlers romMethod.handlers bytecodeMap count with
      | none => none
      | some (bytecodeMap, count) =>
        some (BranchMapResult.count count, { verifyData with bytecodeMap := bytecodeMap })
    else
      some (BranchMapResult.count count, { verifyData with bytecodeMap := bytecodeMap })

/-! ## decompressStackMaps -/

/-- `NEXT_U8(value, index)`: the byte read and the advanced index. -/
def NEXT_U8 (data : Nat → Nat) (index : Nat) : Nat × Nat :=
  (byteAt data index, index + 1)

/-- `NEXT_U16(value, index)`: the 16-bit word read and the advanced index. -/
def NEXT_U16 (c : Collaborators) (data : Nat → Nat) (index : Nat) : Nat × Nat :=
  (u16 c.stackMapBigEndian (byteAt data index) (byteAt data (index + 1)), index + 2)

/-- Modelled from the spec: the macro `BUILD_VERIFY_ERROR(module, code)` is defined
outside `bcverify.c`; it records the error module and code together with the PC
held in the caller's variable `start`. -/
def BUILD_VERIFY_ERROR (verifyData : VerifyData) (module code start : Nat) : VerifyData :=
  { verifyData with errorModule := module, errorCode := code, errorPC := start }

/-- Message catalogue identifiers (their numeric values play no role). -/
def J9NLS_BCV_ERR_NO_ERROR__MODULE : Nat := 0
def J9NLS_BCV_ERR_INCONSISTENT_STACK__ID : Nat := 1
def J9NLS_BCV_ERR_BYTECODES_INVALID__MODULE : Nat := 0
def J9NLS_BCV_ERR_BYTECODES_INVALID__ID : Nat := 2

/-- `parseElement`: the lattice word of the next stack-map element, the advanced
index and the verifier state (the class-name list may grow). -/
def parseElement (c : Collaborators) (verifyData : VerifyData) (data : Nat → Nat)
    (stackMapData : Nat) : Nat × Nat × VerifyData :=
  let (entryType, mapData) := NEXT_U8 data stackMapData
  if entryType < CFR_STACKMAP_TYPE_INIT_OBJECT then
    (c.verificationTokenDecode entryType, mapData, verifyData)
  else if entryType = CFR_STACKMAP_TYPE_INIT_OBJECT then
    let (stackEntry, names) := c.initObjectType verifyData.classNameList
    (stackEntry, mapData, { verifyData with classNameList := names })
  else if entryType = CFR_STACKMAP_TYPE_OBJECT then
    let (cpIndex, mapData) := NEXT_U16 c data mapData
    let (stackEntry, names) := c.pushClassType verifyData.classNameList cpIndex
    (stackEntry, mapData, { verifyData with classNameList := names })
  else if entryType = CFR_STACKMAP_TYPE_NEW_OBJECT then
    let (cpIndex, mapData) := NEXT_U16 c data mapData
    (BCV_SPECIAL_NEW ||| (cpIndex <<< BCV_CLASS_INDEX_SHIFT), mapData, verifyData)
  else
    let stackEntry := c.verificationTokenDecode entryType
    let (arity, mapData) := NEXT_U16 c data mapData
    (stackEntry ||| (arity <<< BCV_ARITY_SHIFT), mapData, verifyData)

/-- `copyStack`: the header words other than `pc` and the first `stackTopIndex`
slots of `source` overwrite those of `destination`. -/
def copyStack (source destination : J9BranchTargetStack) : J9BranchTargetStack :=
  { pc := destination.pc
    uninitializedThis := source.uninitializedThis
    stackBaseIndex := source.stackBaseIndex
    stackTopIndex := source.stackTopIndex
    stackElements := fun i =>
      if 0 ≤ i ∧ i < source.stackTopIndex then source.stackElements i
      else destination.stackElements i }

/-- The entry is `long` or `double`. -/
def isWide (stackEntry : Nat) : Bool :=
  decide (BCV_BASE_TYPE_DOUBLE = stackEntry ∨ BCV_BASE_TYPE_LONG = stackEntry)

/-- The loop of `parseLocals` for `localDelta < 0`, run for `-localDelta`
iterations.  The first component is `none` after `goto _underflow`. -/
def chopLocals : Nat → Int → (Int → Nat) → Option Int × (Int → Nat)
  | 0, localsCount, stackElements => (some localsCount, stackElements)
  | k + 1, localsCount, stackElements =>
    let localsCount := localsCount - 1
    if localsCount < 0 then (none, stackElements)
    else
      let stackElements := Function.update stackElements localsCount BCV_BASE_TYPE_TOP
      if localsCount > 0 then
        let stackEntry := stackElements (localsCount - 1)
        if isWide stackEntry then
          let localsCount := localsCount - 1
          if localsCount < 0 then (none, stackElements)
          else
            chopLocals k localsCount (Function.update stackElements localsCount BCV_BASE_TYPE_TOP)
        else chopLocals k localsCount stackElements
      else chopLocals k localsCount stackElements

/-- The first loop of `parseLocals` for `localDelta >= 0`, run for `localDelta`
iterations.  The first component is `none` after `goto _overflow`. -/
def appendLocals (c : Collaborators) (data : Nat → Nat) (maxLocals : Int) :
    Nat → Nat → Int → VerifyData → Option Int × Nat × VerifyData
  | 0, stackMapData, localsCount, verifyData => (some localsCount, stackMapData, verifyData)
  | k + 1, stackMapData, localsCount, verifyData =>
    let (stackEntry, stackMapData, verifyData) := parseElement c verifyData data stackMapData
    if localsCount ≥ maxLocals then (none, stackMapData, verifyData)
    else
      let liveStack := verifyData.liveStack
      let liveStack := { liveStack with
        stackElements := Function.update liveStack.stackElements localsCount stackEntry }
      let localsCount := localsCount + 1
      if isWide stackEntry then
        if localsCount ≥ maxLocals then
          (none, stackMapData, { verifyData with liveStack := liveStack })
        else
          let liveStack := { liveStack with
            stackElements := Function.update liveStack.stackElements localsCount BCV_BASE_TYPE_TOP }
          appendLocals c data maxLocals k stackMapData (localsCount + 1)
            { verifyData with liveStack := liveStack }
      else
        appendLocals c data maxLocals k stackMapData localsCount
          { verifyData with liveStack := liveStack }

/-- The loop `for (i = localsCount; i < unusedLocals + localsCount; i++)` of
`parseLocals`, run for the given number of iterations from index `i`. -/
def clearLocals : Nat → Nat → (Int → Nat) → (Int → Nat)
  | 0, _, stackElements => stackElements
  | n + 1, i, stackElements =>
    clearLocals n (i + 1) (Function.update stackElements (i : Int) BCV_BASE_TYPE_TOP)

/-- Value returned by `parseLocals`. -/
inductive LocalsResult where
  | localsCount (n : Int)
  | BCV_ERR_INTERNAL_ERROR

/-- `parseLocals`: the result, the advanced stack-map index and the verifier
state (live stack and error fields). -/
def parseLocals (c : Collaborators) (verifyData : VerifyData) (data : Nat → Nat)
    (stackMapData : Nat) (localDelta localsCount maxLocals : Int) :
    LocalsResult × Nat × VerifyData :=
  if localDelta < 0 then
    -- Clear the chopped elements
    match chopLocals localDelta.natAbs localsCount verifyData.liveStack.stackElements with
    | (some localsCount, stackElements) =>
      (LocalsResult.localsCount localsCount, stackMapData,
        { verifyData with
          liveStack := { verifyData.liveStack with stackElements := stackElements } })
    | (none, stackElements) =>
      -- _underflow
      (LocalsResult.BCV_ERR_INTERNAL_ERROR, stackMapData,
        { verifyData with
          liveStack := { verifyData.liveStack with stackElements := stackElements }
          errorDetailCode := DetailCode.BCV_ERR_STACKMAP_FRAME_LOCALS_UNDERFLOW })
  else
    match appendLocals c data maxLocals localDelta.natAbs stackMapData localsCount verifyData with
    | (some localsCount, stackMapData, verifyData) =>
      -- Clear the remaining locals
      let liveStack := verifyData.liveStack
      let unusedLocals := toUDATA (liveStack.stackBaseIndex - localsCount)
      let i := toUDATA localsCount
      let bound := (unusedLocals + toUDATA localsCount) % UDATA_RANGE
      (LocalsResult.localsCount localsCount, stackMapData,
        { verifyData with
          liveStack := { liveStack with
            stackElements := clearLocals (bound - i) i liveStack.stackElements } })
    | (none, stackMapData, verifyData) =>
      -- _overflow
      (LocalsResult.BCV_ERR_INTERNAL_ERROR, stackMapData,
        { verifyData with
          errorDetailCode := DetailCode.BCV_ERR_STACKMAP_FRAME_LOCALS_OVERFLOW
          errorCurrentFramePosition :=
            if maxLocals > 0 then ((maxLocals - 1) % (U32_RANGE : Int)).toNat else 0
          errorTempData := toUDATA maxLocals })

/-- The loop of `parseStack`, run for `stackCount` iterations; `stackTop` is the
index of the next free slot.  The first component is `none` when the stack
would exceed `maxStack`. -/
def pushStackEntries (c : Collaborators) (data : Nat → Nat) (stackBase : Int) (maxStack : Nat) :
    Nat → Nat → Int → VerifyData → Option Int × Nat × VerifyData
  | 0, stackMapData, stackTop, verifyData => (some stackTop, stackMapData, verifyData)
  | k + 1, stackMapData, stackTop, verifyData =>
    let (stackEntry, stackMapData, verifyData) := parseElement c verifyData data stackMapData
    if stackTop - stackBase ≥ (maxStack : Int) then (none, stackMapData, verifyData)
    else
      let liveStack := verifyData.liveStack
      let liveStack := { liveStack with
        stackElements := Function.update liveStack.stackElements stackTop stackEntry }
      let stackTop := stackTop + 1
      if isWide stackEntry then
        if stackTop - stackBase ≥ (maxStack : Int) then
          (none, stackMapData, { verifyData with liveStack := liveStack })
        else
          let liveStack := { liveStack with
            stackElements := Function.update liveStack.stackElements stackTop BCV_BASE_TYPE_TOP }
          pushStackEntries c data stackBase maxStack k stackMapData (stackTop + 1)
            { verifyData with liveStack := liveStack }
      else
        pushStackEntries c data stackBase maxStack k stackMapData stackTop
          { verifyData with liveStack := liveStack }

/-- `parseStack`: the return code, the advanced stack-map index and the verifier
state. -/
def parseStack (c : Collaborators) (verifyData : VerifyData) (data : Nat → Nat)
    (stackMapData : Nat) (stackCount maxStack : Nat) : RC × Nat × VerifyData :=
  -- RELOAD_STACKBASE clears the stack
  let stackBase := verifyData.liveStack.stackBaseIndex
  match pushStackEntries c data stackBase maxStack stackCount stackMapData stackBase verifyData with
  | (some stackTop, stackMapData, verifyData) =>
    -- SAVE_STACKTOP
    (RC.BCV_SUCCESS, stackMapData,
      { verifyData with liveStack := { verifyData.liveStack with stackTopIndex := stackTop } })
  | (none, stackMapData, verifyData) =>
    let position := (stackBase % (U32_RANGE : Int)).toNat
    (RC.BCV_ERR_INTERNAL_ERROR, stackMapData,
      { verifyData with
        errorDetailCode := DetailCode.BCV_ERR_STACKMAP_FRAME_STACK_OVERFLOW
        errorCurrentFramePosition :=
          if maxStack > 0 then (position + (maxStack - 1) % U32_RANGE) % U32_RANGE else position
        errorTempData := maxStack })

/-- The variables of the loop of `decompressStackMaps`. -/
structure DecompressState where
  verifyData : VerifyData
  /-- Index of the next byte of the stack-map attribute. -/
  stackMapData : Nat
  localsCount : Int
  mapPC : Nat
  mapIndex : Nat
  /-- Index in the frame store of the frame `branchTargetStack` points to. -/
  branchTargetStack : Nat

/-- What one iteration of the loop of `decompressStackMaps` does. -/
inductive FrameOutcome where
  /-- The frame was stored; the loop goes on. -/
  | stored (next : DecompressState)
  /-- `rc = BCV_FAIL; break`. -/
  | failed (verifyData : VerifyData)

/-- The values fixed by the tag of a stack-map entry before `parseLocals` runs. -/
structure FrameHeader where
  mapType : Nat
  mapPC : Nat
  stackCount : Nat
  localDelta : Int
  localsCount : Int
  /-- Index of the next byte of the attribute. -/
  stackMapData : Nat

/-- The start of the body of the loop of `decompressStackMaps`: the tag is read
and `mapPC`, `stackCount`, `localDelta` and `localsCount` are set from it. -/
def decodeFrameTag (c : Collaborators) (data : Nat → Nat) (st : DecompressState) : FrameHeader :=
  let (mapType, stackMapData) := NEXT_U8 data st.stackMapData
  let mapPC := (st.mapPC + 1) % UDATA_RANGE
  if mapType < CFR_STACKMAP_SAME_LOCALS_1_STACK then
    -- Same frame 0-63
    { mapType := mapType, mapPC := (mapPC + mapType) % UDATA_RANGE, stackCount := 0,
      localDelta := 0, localsCount := st.localsCount, stackMapData := stackMapData }
  else if mapType < CFR_STACKMAP_SAME_LOCALS_1_STACK_END then
    -- Same with one stack entry frame 64-127
    { mapType := mapType
      mapPC := (mapPC + (mapType - CFR_STACKMAP_SAME_LOCALS_1_STACK)) % UDATA_RANGE
      stackCount := 1, localDelta := 0, localsCount := st.localsCount
      stackMapData := stackMapData }
  else
    let (temp, stackMapData) := NEXT_U16 c data stackMapData
    let mapPC := (mapPC + temp) % UDATA_RANGE
    if mapType = CFR_STACKMAP_SAME_LOCALS_1_STACK_EXTENDED then
      -- Same with one stack entry extended address frame 247
      { mapType := mapType, mapPC := mapPC, stackCount := 1, localDelta := 0,
        localsCount := st.localsCount, stackMapData := stackMapData }
    else if mapType < CFR_STACKMAP_FULL then
      -- Chop 3-1 locals frame 248-250, same with extended address frame 251,
      -- append 1-3 locals frame 252-254
      { mapType := mapType, mapPC := mapPC, stackCount := 0
        localDelta := (mapType : Int) - CFR_STACKMAP_SAME_EXTENDED
        localsCount := st.localsCount, stackMapData := stackMapData }
    else if mapType = CFR_STACKMAP_FULL then
      -- Full frame 255
      let (temp, stackMapData) := NEXT_U16 c data stackMapData
      { mapType := mapType, mapPC := mapPC, stackCount := 0, localDelta := (temp : Int),
        localsCount := 0, stackMapData := stackMapData }
    else
      { mapType := mapType, mapPC := mapPC, stackCount := 0, localDelta := 0,
        localsCount := st.localsCount, stackMapData := stackMapData }

/-- The error exit shared by the failures of `parseLocals` and `parseStack` in
`decompressStackMaps`: the verify error is built and the PC of the frame is
recorded. -/
def inconsistentStackAt (verifyData : VerifyData) (mapPC : Nat) : VerifyData :=
  let verifyData := BUILD_VERIFY_ERROR verifyData J9NLS_BCV_ERR_NO_ERROR__MODULE
    J9NLS_BCV_ERR_INCONSISTENT_STACK__ID 0
  { verifyData with liveStack := { verifyData.liveStack with pc := mapPC }, errorPC := mapPC }

/-- The end of the body of the loop of `decompressStackMaps`: `mapPC` is checked
against the bytecode size, the bytecode map is tagged with the frame index and the
live stack is copied into the frame store. -/
def storeFrame (st : DecompressState) (mapPC : Nat) (localsCount : Int) (stackMapData : Nat)
    (verifyData : VerifyData) : Option FrameOutcome :=
  let length := verifyData.romMethod.bytecodeSize
  if mapPC ≥ length then
    -- should never get here - caught in staticverify.c checkStackMap
    some (FrameOutcome.failed (BUILD_VERIFY_ERROR verifyData J9NLS_BCV_ERR_NO_ERROR__MODULE
      J9NLS_BCV_ERR_INCONSISTENT_STACK__ID 0))
  else
    match verifyData.bytecodeMap[mapPC]?, verifyData.stackMaps[st.branchTargetStack]? with
    | some v, some branchTargetStack =>
      let bytecodeMap := verifyData.bytecodeMap.set mapPC
        ((v ||| ((st.mapIndex <<< BRANCH_INDEX_SHIFT) ||| BRANCH_TARGET)) % U32_RANGE)
      let branchTargetStack := copyStack verifyData.liveStack branchTargetStack
      let branchTargetStack := { branchTargetStack with pc := mapPC }
      some (FrameOutcome.stored
        { verifyData := { verifyData with
            bytecodeMap := bytecodeMap
            stackMaps := verifyData.stackMaps.set st.branchTargetStack branchTargetStack }
          stackMapData := stackMapData
          localsCount := localsCount
          mapPC := mapPC
          mapIndex := st.mapIndex + 1
          branchTargetStack := st.branchTargetStack + 1 })
    | _, _ => none

/-- The body of the loop of `decompressStackMaps`. -/
def decompressFrame (c : Collaborators) (data : Nat → Nat) (st : DecompressState) :
    Option FrameOutcome :=
  let verifyData := st.verifyData
  let romMethod := verifyData.romMethod
  let maxStack := romMethod.maxStack
  let maxLocals : Int := romMethod.argCount + romMethod.tempCount
  let hdr := decodeFrameTag c data st
  let mapPC := hdr.mapPC
  match parseLocals c verifyData data hdr.stackMapData hdr.localDelta hdr.localsCount maxLocals with
  | (LocalsResult.BCV_ERR_INTERNAL_ERROR, _, verifyData) =>
    some (FrameOutcome.failed (inconsistentStackAt verifyData mapPC))
  | (LocalsResult.localsCount localsCount, stackMapData, verifyData) =>
    if localsCount < 0 then
      some (FrameOutcome.failed (inconsistentStackAt verifyData mapPC))
    else
      let (stackCount, stackMapData) :=
        if hdr.mapType = CFR_STACKMAP_FULL then NEXT_U16 c data stackMapData
        else (hdr.stackCount, stackMapData)
      match parseStack c verifyData data stackMapData stackCount maxStack with
      | (RC.BCV_SUCCESS, stackMapData, verifyData) =>
        storeFrame st mapPC localsCount stackMapData verifyData
      | (_, _, verifyData) =>
        some (FrameOutcome.failed (inconsistentStackAt verifyData mapPC))

/-- The loop `for (i = 0; i < stackMapsCount; i++)` of `decompressStackMaps`, with
`n` iterations left. -/
def decompressFrames (c : Collaborators) (data : Nat → Nat) :
    Nat → DecompressState → Option (RC × VerifyData)
  | 0, st => some (RC.BCV_SUCCESS, st.verifyData)
  | n + 1, st =>
    match decompressFrame c data st with
    | none => none
    | some (FrameOutcome.failed verifyData) => some (RC.BCV_FAIL, verifyData)
    | some (FrameOutcome.stored next) => decompressFrames c data n next

/-- `decompressStackMaps (verifyData, localsCount, stackMapData)`; `data` and
`stackMapData` are the attribute bytes and the index of the first frame. -/
def decompressStackMaps (c : Collaborators) (verifyData : VerifyData) (localsCount : Int)
    (data : Nat → Nat) (stackMapData : Nat) : Option (RC × VerifyData) :=
  decompressFrames c data verifyData.stackMapsCount
    { verifyData := verifyData
      stackMapData := stackMapData
      localsCount := localsCount
      mapPC := UDATA_RANGE - 1
      mapIndex := 0
      branchTargetStack := 0 }

/-! ## j9bcv_verifyBytecodes -/

/-- The bits of `verificationFlags` read by the driver. -/
structure VerificationFlags where
  /-- `J9_VERIFY_IGNORE_STACK_MAPS`. -/
  ignoreStackMaps : Bool
  /-- `J9_VERIFY_NO_FALLBACK`. -/
  noFallback : Bool
  /-- `J9_VERIFY_VERBOSE_VERIFICATION`. -/
  verboseVerification : Bool

/-- The fields of a ROM class read by the driver. -/
structure J9ROMClass where
  romMethods : List J9ROMMethod
  /-- `J9ROMCLASS_HAS_VERIFY_DATA(romClass) != 0`. -/
  hasVerifyData : Bool
  majorVersion : Nat

/-- First class-file major version whose classes must carry stack maps. -/
def CFR_MAJOR_VERSION_REQUIRING_STACKMAPS : Nat := 51

/-- The calls and jumps of the driver that the theorems speak about, in the
order in which they happen. -/
inductive Event where
  | buildBranchMap
  | decompressStackMaps
  | simulateStack
  | j9rtv_verifyBytecodes
  /-- `goto _fallBack`. -/
  | fallBack
  deriving DecidableEq, Repr

/-- What the driver calls but does not define in the part embedded here: the
simulator, the second pass, the signature walker, the error reset macro and the
outcome of the buffer allocations of `ALLOC_BUFFER`. -/
structure Passes where
  /-- `simulateStack (verifyData)`. -/
  simulateStack : VerifyData → RC × VerifyData
  /-- `j9rtv_verifyBytecodes (verifyData)`. -/
  j9rtv_verifyBytecodes : VerifyData → RC × VerifyData
  /-- `buildStackFromMethodSignature (verifyData, &stackTop, &argCount)`:
  `isInitMethod`, the index `stackTop` ends at, `argCount` and the state with the
  argument slots written into the live stack. -/
  buildStackFromMethodSignature : VerifyData → Bool × Int × Nat × VerifyData
  /-- `initializeClassNameList (verifyData)`. -/
  initializeClassNameList : VerifyData → VerifyData
  /-- `RESET_VERIFY_ERROR (verifyData)`. -/
  RESET_VERIFY_ERROR : VerifyData → VerifyData
  /-- `ALLOC_BUFFER (verifyData->liveStack, stackSize)`: `none` when out of
  memory, otherwise the live stack the buffer then holds. -/
  allocLiveStack : VerifyData → Option J9BranchTargetStack
  /-- `ALLOC_BUFFER (verifyData->bytecodeMap, mapLength)` succeeds. -/
  allocBytecodeMap : VerifyData → Bool
  /-- `ALLOC_BUFFER (verifyData->stackMaps, stackMapsSize)`: `none` when out of
  memory, otherwise the frame found at each index of the buffer. -/
  allocStackMaps : VerifyData → Option (Nat → J9BranchTargetStack)
  /-- The two calls `bcvalloc (verifyData, rootQueueSize)` for the unwalked and the
  rewalk queue: for each of them `none` when out of memory, otherwise the word found
  in each slot of the block. -/
  allocRootQueues : VerifyData → Option (Nat → Nat) × Option (Nat → Nat)

/-- `setInitializedThisStatus`: the loop over the first `stackMapsCount` frames. -/
def setInitializedThisStatus (verifyData : VerifyData) : VerifyData :=
  { verifyData with
    stackMaps := verifyData.stackMaps.enum.map fun (nextMapIndex, currentStack) =>
      if nextMapIndex < verifyData.stackMapsCount then
        -- Ensure we're not a stack map for dead code
        if currentStack.stackBaseIndex ≠ -1 then
          { currentStack with
            uninitializedThis :=
              (List.range currentStack.stackTopIndex.toNat).any fun i =>
                decide (currentStack.stackElements (i : Int) &&& BCV_SPECIAL_INIT = BCV_SPECIAL_INIT) }
        else currentStack
      else currentStack }

/-- The loop `for (j = 0; j < length; j++)` that initialises the frame store after
`buildBranchMap`, with `n` iterations left; `mapIndex` is also the index of the
frame the cursor `liveStack` points to. -/
def initStackMaps :
    Nat → Nat → Nat → List Nat → List J9BranchTargetStack →
      Option (List Nat × List J9BranchTargetStack)
  | 0, _, _, bytecodeMap, stackMaps => some (bytecodeMap, stackMaps)
  | n + 1, j, mapIndex, bytecodeMap, stackMaps =>
    match bytecodeMap[j]? with
    | none => none
    | some v =>
      if v &&& BRANCH_TARGET ≠ 0 then
        match stackMaps[mapIndex]? with
        | none => none
        | some liveStack =>
          let liveStack := { liveStack with pc := j, stackBaseIndex := -1, stackTopIndex := -1 }
          initStackMaps n (j + 1) (mapIndex + 1)
            (bytecodeMap.set j ((v ||| (mapIndex <<< BRANCH_INDEX_SHIFT)) % U32_RANGE))
            (stackMaps.set mapIndex liveStack)
      else initStackMaps n (j + 1) mapIndex bytecodeMap stackMaps

/-- How the body of the method loop is left. -/
inductive LoopExit where
  /-- The end of the body is reached: the next method is verified. -/
  | nextMethod
  /-- `break` or `goto _done`. -/
  | done
  deriving DecidableEq, Repr

/-- State of the driver after (part of) a method: `result`, the verifier state
and the events so far. -/
structure DriverState where
  result : RC
  verifyData : VerifyData
  events : List Event

/-- `createStackMaps = !classVersionRequiresStackmaps && (ignoreStackMaps || !hasStackMaps)`. -/
def createStackMaps (romClass : J9ROMClass) (verifyData : VerifyData) : Bool :=
  !decide (romClass.majorVersion ≥ CFR_MAJOR_VERSION_REQUIRING_STACKMAPS) &&
    (verifyData.ignoreStackMaps || !romClass.hasVerifyData)

/-- The stack-map attribute handed to `decompressStackMaps`: its bytes and the
index of the first frame. -/
structure MapSource where
  data : Nat → Nat
  stackMapData : Nat

/-- First part of the body after `_fallBack`: the bytecode map is cleared, then
either `buildBranchMap` runs or the frame count of the stack-map attribute is
read.  `Except.error` stands for the `break` after an unknown opcode. -/
def prepareMaps (c : Collaborators) (romClass : J9ROMClass) (verifyData : VerifyData) :
    Option (Except VerifyData (VerifyData × MapSource)) :=
  let romMethod := verifyData.romMethod
  let length := romMethod.bytecodeSize
  -- memset(bytecodeMap, 0, mapLength)
  let verifyData := { verifyData with bytecodeMap := List.replicate length 0 }
  if createStackMaps romClass verifyData then
    match buildBranchMap c verifyData with
    | none => none
    | some (BranchMapResult.BCV_ERR_INTERNAL_ERROR, verifyData) =>
      -- `stackMapsCount` now holds the error code; it is not read before it is
      -- assigned again
      some (Except.error (BUILD_VERIFY_ERROR verifyData
        J9NLS_BCV_ERR_BYTECODES_INVALID__MODULE J9NLS_BCV_ERR_BYTECODES_INVALID__ID 0))
    | some (BranchMapResult.count n, verifyData) =>
      some (Except.ok ({ verifyData with stackMapsCount := n }, ⟨fun _ => 0, 0⟩))
  else
    match romMethod.stackMapInfo with
    | none => some (Except.ok ({ verifyData with stackMapsCount := 0 }, ⟨fun _ => 0, 0⟩))
    | some data =>
      let (count, stackMapData) := NEXT_U16 c data 0
      some (Except.ok ({ verifyData with stackMapsCount := count }, ⟨data, stackMapData⟩))

/-- The slots of a root queue of `rootQueueSize` bytes in the block that `bcvalloc`
returned; no slot when it returned `NULL`. -/
def newRootQueue (rootQueueSize : Nat) (block : Option (Nat → Nat)) : List Nat :=
  match block with
  | some raw => (List.range (rootQueueSize / SIZEOF_UDATA)).map raw
  | none => []

/-- What `buildStackFromMethodSignature` tells the driver. -/
structure SignatureInfo where
  isInitMethod : Bool
  argCount : Nat

/-- Second part: the frame store is allocated and, when the maps are created
here, initialised; the queues are allocated; the live stack is built from the
method signature.  `Except.error` stands for the `break` on insufficient
memory. -/
def setUpFrames (p : Passes) (created : Bool) (verifyData : VerifyData) :
    Option (Except VerifyData (VerifyData × SignatureInfo)) :=
  let length := verifyData.romMethod.bytecodeSize
  -- ALLOC_BUFFER(verifyData->stackMaps, stackMapsSize)
  match p.allocStackMaps verifyData with
  | none => some (Except.error verifyData)
  | some raw =>
    let verifyData :=
      { verifyData with stackMaps := (List.range verifyData.stackMapsCount).map raw }
    let initialised : Option (Except VerifyData VerifyData) :=
      if created && decide (verifyData.stackMapsCount ≠ 0) then
        -- Non-empty internal stackMap created
        match initStackMaps length 0 0 verifyData.bytecodeMap verifyData.stackMaps with
        | none => none
        | some (bytecodeMap, stackMaps) =>
          let verifyData :=
            { verifyData with
              createdStackMap := true, bytecodeMap := bytecodeMap, stackMaps := stackMaps }
          let rootQueueSize := ((verifyData.stackMapsCount + 1) * SIZEOF_UDATA) % UDATA_RANGE
          if rootQueueSize > verifyData.rootQueueSize then
            -- both queues are freed and allocated again
            let blocks := p.allocRootQueues verifyData
            let verifyData :=
              { verifyData with
                unwalkedQueue := newRootQueue rootQueueSize blocks.1
                rewalkQueue := newRootQueue rootQueueSize blocks.2
                rootQueueSize := rootQueueSize }
            if blocks.1.isSome && blocks.2.isSome then some (Except.ok verifyData)
            else some (Except.error verifyData)
          else some (Except.ok verifyData)
      else some (Except.ok verifyData)
    match initialised with
    | none => none
    | some (Except.error verifyData) => some (Except.error verifyData)
    | some (Except.ok verifyData) =>
      let (isInitMethod, stackTop, argCount, verifyData) :=
        p.buildStackFromMethodSignature verifyData
      -- SAVE_STACKTOP(liveStack, stackTop); stackBaseIndex = stackTopIndex
      let verifyData :=
        { verifyData with
          liveStack := { verifyData.liveStack with
            stackTopIndex := stackTop, stackBaseIndex := stackTop } }
      some (Except.ok (verifyData, ⟨isInitMethod, argCount⟩))

/-- Third part: `simulateStack` or `decompressStackMaps` when there is at least
one frame.  The result, the state and the event of the call made, if any. -/
def runMapPass (c : Collaborators) (p : Passes) (created : Bool) (src : MapSource)
    (argCount : Nat) (verifyData : VerifyData) : Option (RC × VerifyData × List Event) :=
  if verifyData.stackMapsCount ≠ 0 then
    if created then
      let (result, verifyData) := p.simulateStack verifyData
      some (result, verifyData, [Event.simulateStack])
    else
      match decompressStackMaps c verifyData argCount src.data src.stackMapData with
      | none => none
      | some (result, verifyData) => some (result, verifyData, [Event.decompressStackMaps])
  else some (RC.BCV_SUCCESS, verifyData, [])

/-- Fourth part: the second pass, run only with a valid `clazz` after success. -/
def runSecondPass (p : Passes) (hasClazz isInitMethod : Bool) (result : RC)
    (verifyData : VerifyData) : RC × VerifyData × List Event :=
  if result = RC.BCV_SUCCESS ∧ hasClazz = true then
    let verifyData := if isInitMethod then setInitializedThisStatus verifyData else verifyData
    let (result, verifyData) := p.j9rtv_verifyBytecodes verifyData
    (result, verifyData, [Event.j9rtv_verifyBytecodes])
  else (result, verifyData, [])

/-- The state with which `_fallBack` is entered again: the verification failure
is reset and `ignoreStackMaps` is enabled. -/
def resetForFallBack (p : Passes) (verifyData : VerifyData) : VerifyData :=
  let verifyData := p.RESET_VERIFY_ERROR verifyData
  { verifyData with errorPC := 0, errorModule := 0, errorCode := 0, ignoreStackMaps := true }

/-- How one pass through the code after the label `_fallBack` ends. -/
inductive AttemptOutcome where
  /-- The body of the method loop is left. -/
  | exit (how : LoopExit) (ds : DriverState)
  /-- `goto _fallBack` with the given state. -/
  | fallBack (ds : DriverState)

/-- One pass through the method body from the label `_fallBack` to the end of the
body or to `goto _fallBack`. -/
def verifyAttempt (c : Collaborators) (p : Passes) (romClass : J9ROMClass)
    (hasClazz : Bool) (flags : VerificationFlags) (ds : DriverState) : Option AttemptOutcome :=
  let classVersionRequiresStackmaps :=
    decide (romClass.majorVersion ≥ CFR_MAJOR_VERSION_REQUIRING_STACKMAPS)
  let created := createStackMaps romClass ds.verifyData
  let events := if created then ds.events ++ [Event.buildBranchMap] else ds.events
  match prepareMaps c romClass ds.verifyData with
  | none => none
  | some (Except.error verifyData) =>
    some (AttemptOutcome.exit LoopExit.done
      { result := RC.BCV_ERR_INTERNAL_ERROR, verifyData := verifyData, events := events })
  | some (Except.ok (verifyData, src)) =>
    match setUpFrames p created verifyData with
    | none => none
    | some (Except.error verifyData) =>
      some (AttemptOutcome.exit LoopExit.done
        { result := RC.BCV_ERR_INSUFFICIENT_MEMORY, verifyData := verifyData,
          events := events })
    | some (Except.ok (verifyData, sig)) =>
      match runMapPass c p created src sig.argCount verifyData with
      | none => none
      | some (result, verifyData, called) =>
        let events := events ++ called
        if result = RC.BCV_ERR_INSUFFICIENT_MEMORY then
          some (AttemptOutcome.exit LoopExit.done
            { result := result, verifyData := verifyData, events := events })
        else
          let (result, verifyData, called) :=
            runSecondPass p hasClazz sig.isInitMethod result verifyData
          let events := events ++ called
          if result = RC.BCV_ERR_INSUFFICIENT_MEMORY then
            some (AttemptOutcome.exit LoopExit.done
              { result := result, verifyData := verifyData, events := events })
          else if result ≠ RC.BCV_SUCCESS then
            -- Check verification fallback criteria
            if classVersionRequiresStackmaps || created || flags.noFallback then
              -- no retry
              some (AttemptOutcome.exit LoopExit.done
                { result := RC.BCV_ERR_INTERNAL_ERROR, verifyData := verifyData,
                  events := events })
            else
              -- retry with ignoreStackMaps enabled
              some (AttemptOutcome.fallBack
                { result := result, verifyData := resetForFallBack p verifyData,
                  events := events ++ [Event.fallBack] })
          else
            some (AttemptOutcome.exit LoopExit.nextMethod
              { result := result, verifyData := verifyData, events := events })

/-- The part of the method body from the label `_fallBack` on, `goto _fallBack`
included.  `fuel` bounds the number of passes through the label. -/
def verifyFromFallBack (c : Collaborators) (p : Passes) (romClass : J9ROMClass)
    (hasClazz : Bool) (flags : VerificationFlags) :
    Nat → DriverState → Option (LoopExit × DriverState)
  | 0, _ => none
  | fuel + 1, ds =>
    match verifyAttempt c p romClass hasClazz flags ds with
    | none => none
    | some (AttemptOutcome.exit how ds) => some (how, ds)
    | some (AttemptOutcome.fallBack ds) => verifyFromFallBack c p romClass hasClazz flags fuel ds

/-- The assignments at the top of the body of the method loop. -/
def enterMethod (flags : VerificationFlags) (romMethod : J9ROMMethod) (verifyData : VerifyData) :
    VerifyData :=
  { verifyData with
    ignoreStackMaps := flags.ignoreStackMaps, createdStackMap := false, romMethod := romMethod }

/-- The body of the loop `for (i = 0; i < romMethodCount; i++)` for the method
`romMethod`. -/
def verifyMethod (c : Collaborators) (p : Passes) (romClass : J9ROMClass) (hasClazz : Bool)
    (flags : VerificationFlags) (romMethod : J9ROMMethod) (ds : DriverState) :
    Option (LoopExit × DriverState) :=
  let verifyData := enterMethod flags romMethod ds.verifyData
  -- If native or abstract method, do nothing
  if !(romMethod.isNative || romMethod.isAbstract) then
    match p.allocLiveStack verifyData with
    | none =>
      some (LoopExit.done, { ds with result := RC.BCV_ERR_INSUFFICIENT_MEMORY, verifyData := verifyData })
    | some liveStack =>
      let verifyData := { verifyData with liveStack := liveStack }
      if p.allocBytecodeMap verifyData then
        -- a second pass through `_fallBack` always builds the branch map, and
        -- a failure then is not retried: two passes are enough
        verifyFromFallBack c p romClass hasClazz flags 2 { ds with verifyData := verifyData }
      else
        some (LoopExit.done,
          { ds with result := RC.BCV_ERR_INSUFFICIENT_MEMORY, verifyData := verifyData })
  else some (LoopExit.nextMethod, { ds with verifyData := verifyData })

/-- The loop over the methods of the class. -/
def verifyMethods (c : Collaborators) (p : Passes) (romClass : J9ROMClass) (hasClazz : Bool)
    (flags : VerificationFlags) : List J9ROMMethod → DriverState → Option DriverState
  | [], ds => some ds
  | romMethod :: rest, ds =>
    match verifyMethod c p romClass hasClazz flags romMethod ds with
    | none => none
    | some (LoopExit.done, ds) => some ds
    | some (LoopExit.nextMethod, ds) => verifyMethods c p romClass hasClazz flags rest ds

/-- `j9bcv_verifyBytecodes (portLib, clazz, romClass, verifyData)`; `hasClazz`
tells whether `clazz` is non-null. -/
def j9bcv_verifyBytecodes (c : Collaborators) (p : Passes) (hasClazz : Bool)
    (romClass : J9ROMClass) (flags : VerificationFlags) (verifyData : VerifyData) :
    Option DriverState :=
  let verifyData := { verifyData with errorPC := 0 }
  -- List is used for the whole class
  let verifyData := p.initializeClassNameList verifyData
  verifyMethods c p romClass hasClazz flags romClass.romMethods
    { result := RC.BCV_SUCCESS, verifyData := verifyData, events := [] }

/-! ## mergeClasses and mergeObjectTypes -/

/-- The class lookups and the local mapper, all defined outside `bcverify.c`.
Classes (`J9Class *`) are numbered; a class name is the list of its bytes. -/
structure ClassOracle where
  /-- `isClassCompatible (verifyData, sourceType, targetType, &reasonCode)`: the
  answer and the reason code it leaves (`BCV_SUCCESS` stands for a reason code that
  is none of the error codes). -/
  isClassCompatible : ClassNameList → Nat → Nat → Bool × RC
  /-- `findClassName (verifyData, name, length)`: the index of the name and the
  class-name list after the lookup. -/
  findClassName : ClassNameList → List Nat → Nat × ClassNameList
  /-- `j9rtv_verifierGetRAMClass`: the class, or the reason code left by a lookup
  that returns `NULL`. -/
  j9rtv_verifierGetRAMClass : List Nat → Except RC Nat
  /-- `J9_CURRENT_CLASS (clazz)`. -/
  J9_CURRENT_CLASS : Nat → Nat
  /-- `J9CLASS_DEPTH (clazz)`. -/
  J9CLASS_DEPTH : Nat → Nat
  /-- `clazz->superclasses[i]`; `none` is `NULL`. -/
  superclasses : Nat → Int → Option Nat
  /-- `J9ROMCLASS_CLASSNAME (clazz->romClass)`. -/
  className : Nat → List Nat
  /-- `j9localmap_LocalBitsForPC (portLib, romClass, romMethod, pc, &resultArrayBase,
  ...)`: the return value and the word written to `resultArrayBase`. -/
  j9localmap_LocalBitsForPC : J9ROMMethod → Nat → Int × Nat

/-- The macro `SUPERCLASS (clazz)`. -/
def SUPERCLASS (o : ClassOracle) (clazz : Nat) : Option Nat :=
  o.superclasses clazz ((o.J9CLASS_DEPTH clazz : Int) - 1)

/-- The loop `while (sourceRAM != targetRAM)` of `mergeClasses`; `Except.error` is
`return NULL` with the reason code set. -/
def walkToCommonClass (o : ClassOracle) : Nat → Nat → Nat → Nat → Nat → Option (Except RC Nat)
  | 0, _, _, _, _ => none
  | fuel + 1, sourceRAM, targetRAM, sourceDepth, targetDepth =>
    if sourceRAM = targetRAM then some (Except.ok targetRAM)
    else
      let source : Option Nat × Nat :=
        if sourceDepth ≥ targetDepth then
          match SUPERCLASS o sourceRAM with
          | some s => (some s, o.J9CLASS_DEPTH s)
          | none => (none, sourceDepth)
        else (some sourceRAM, sourceDepth)
      if source.1 = some targetRAM then some (Except.ok targetRAM)
      else
        let target : Option Nat × Nat :=
          if source.2 ≤ targetDepth then
            match SUPERCLASS o targetRAM with
            | some t => (some t, o.J9CLASS_DEPTH t)
            | none => (none, targetDepth)
          else (some targetRAM, targetDepth)
        match source.1, target.1 with
        | some s, some t => walkToCommonClass o fuel s t source.2 target.2
        | _, _ => some (Except.error RC.BCV_FAIL)

/-- `mergeClasses`: the name of the first common class, or the reason code of the
failure.  In a hierarchy where `SUPERCLASS` lowers the depth by one the loop ends
within `sourceDepth + targetDepth + 1` iterations. -/
def mergeClasses (o : ClassOracle) (firstClass secondClass : List Nat) :
    Option (Except RC (List Nat)) :=
  match o.j9rtv_verifierGetRAMClass firstClass with
  | Except.error reasonCode => some (Except.error reasonCode)
  | Except.ok sourceRAM =>
    match o.j9rtv_verifierGetRAMClass secondClass with
    | Except.error reasonCode => some (Except.error reasonCode)
    | Except.ok targetRAM =>
      let sourceRAM := o.J9_CURRENT_CLASS sourceRAM
      let sourceDepth := o.J9CLASS_DEPTH sourceRAM
      let targetDepth := o.J9CLASS_DEPTH targetRAM
      match walkToCommonClass o (sourceDepth + targetDepth + 1) sourceRAM targetRAM
          sourceDepth targetDepth with
      | none => none
      | some (Except.error reasonCode) => some (Except.error reasonCode)
      | some (Except.ok targetRAM) => some (Except.ok (o.className targetRAM))

/-- The lattice word of `java/lang/Object` at arity 0:
`(U_32)BCV_JAVA_LANG_OBJECT_INDEX << BCV_CLASS_INDEX_SHIFT`. -/
def objectType : Nat := (BCV_JAVA_LANG_OBJECT_INDEX <<< BCV_CLASS_INDEX_SHIFT) % U32_RANGE

/-- A base-type array decays to an `Object` array that keeps the arity field. -/
def decayBaseArray (type : Nat) : Nat :=
  if type &&& BCV_TAG_BASE_ARRAY_OR_NULL ≠ 0 then (type &&& BCV_ARITY_MASK) ||| objectType
  else type

/-- `mergeObjectTypes (verifyData, sourceType, targetTypePointer)`: the return
code, the word in `*targetTypePointer` on return and the verifier state (the
class-name list may grow). -/
def mergeObjectTypes (o : ClassOracle) (verifyData : VerifyData) (sourceType targetType : Nat) :
    Option (RC × Nat × VerifyData) :=
  -- if target is more general than source, then its fine
  let compatible := o.isClassCompatible verifyData.classNameList sourceType targetType
  if compatible.1 = true then some (RC.BCV_SUCCESS, targetType, verifyData)
  else if compatible.2 = RC.BCV_ERR_INTERNAL_ERROR then
    some (RC.BCV_FAIL, objectType, verifyData)
  else if compatible.2 = RC.BCV_ERR_INSUFFICIENT_MEMORY then
    some (RC.BCV_ERR_INSUFFICIENT_MEMORY, targetType, verifyData)
  -- NULL always loses to objects
  else if targetType = BCV_BASE_TYPE_NULL then some (RC.BCV_FAIL, sourceType, verifyData)
  else
    let sourceType := decayBaseArray sourceType
    let decayedTarget := decayBaseArray targetType
    let classArity := sourceType &&& BCV_ARITY_MASK
    let targetArity := decayedTarget &&& BCV_ARITY_MASK
    if classArity = targetArity then
      -- Find the common parent class if the same arity
      let sourceIndex := (sourceType &&& BCV_CLASS_INDEX_MASK) >>> BCV_CLASS_INDEX_SHIFT
      let targetIndex := (decayedTarget &&& BCV_CLASS_INDEX_MASK) >>> BCV_CLASS_INDEX_SHIFT
      match verifyData.classNameList[sourceIndex]?, verifyData.classNameList[targetIndex]? with
      | some sourceName, some targetName =>
        match mergeClasses o sourceName targetName with
        | none => none
        | some (Except.error reasonCode) =>
          if reasonCode = RC.BCV_ERR_INSUFFICIENT_MEMORY then
            some (RC.BCV_ERR_INSUFFICIENT_MEMORY, targetType, verifyData)
          else some (RC.BCV_FAIL, sourceType, verifyData)
        | some (Except.ok name) =>
          let found := o.findClassName verifyData.classNameList name
          some (RC.BCV_FAIL,
            (classArity ||| ((found.1 <<< BCV_CLASS_INDEX_SHIFT) % UDATA_RANGE)) % UDATA_RANGE,
            { verifyData with classNameList := found.2 })
      | _, _ => none
    else
      -- Different arity means common parent class is the minimum arity of class Object
      let classArity := if targetArity < classArity then targetArity else classArity
      some (RC.BCV_FAIL,
        (classArity ||| ((BCV_JAVA_LANG_OBJECT_INDEX <<< BCV_CLASS_INDEX_SHIFT) % UDATA_RANGE))
          % UDATA_RANGE,
        verifyData)

/-! ## mergeStacks -/

/-- Number of slots of each root queue: `rootQueueSize / sizeof (UDATA)`. -/
def queueSlots (verifyData : VerifyData) : Nat := verifyData.rootQueueSize / SIZEOF_UDATA

/-- The statements `queue[tail++] = pc; tail %= rootQueueSize / sizeof (UDATA)`:
the ring and its tail afterwards. -/
def enqueue (queue : List Nat) (tail slots pc : Nat) : Option (List Nat × Nat) :=
  if tail < queue.length ∧ slots ≠ 0 then
    some (queue.set tail pc, (tail + 1) % UDATA_RANGE % slots)
  else none

/-- The statements `pc = queue[head++]; head %= rootQueueSize / sizeof (UDATA)`:
the PC read and the head afterwards. -/
def dequeue (queue : List Nat) (head slots : Nat) : Option (Nat × Nat) :=
  match queue[head]? with
  | none => none
  | some pc => if slots ≠ 0 then some (pc, (head + 1) % UDATA_RANGE % slots) else none

/-- The statement `bytecodeMap[pc] &= ~flag` on a 32-bit entry. -/
def clearFlag (v flag : Nat) : Nat := v &&& (U32_RANGE - 1 - flag)

/-- What the body of the loop of `mergeStacks` does with one slot. -/
inductive SlotOutcome where
  /-- The loop goes on: the word now in the target slot, whether `rewalk = TRUE`
  was executed, and the verifier state. -/
  | merged (targetItem : Nat) (rewalk : Bool) (verifyData : VerifyData)
  /-- `rc = BCV_ERR_INSUFFICIENT_MEMORY; goto _finished`. -/
  | outOfMemory (targetItem : Nat) (verifyData : VerifyData)

/-- The test of `tempRC` after a call of `mergeObjectTypes` in `mergeStacks`. -/
def afterMergeObjectTypes (merged : Option (RC × Nat × VerifyData)) : Option SlotOutcome :=
  match merged with
  | none => none
  | some (RC.BCV_FAIL, targetItem, verifyData) =>
    some (SlotOutcome.merged targetItem true verifyData)
  | some (RC.BCV_ERR_INSUFFICIENT_MEMORY, targetItem, verifyData) =>
    some (SlotOutcome.outOfMemory targetItem verifyData)
  | some (_, targetItem, verifyData) => some (SlotOutcome.merged targetItem false verifyData)

/-- The word `resultArrayBase` of `mergeStacks` once it is filled in: the live
bits of the locals at `mergePC = target`, all ones after a local map error.  The
local mapper is a function of the method and the PC, so asking it at every use
gives the word the source caches in `resultArrayBase`. -/
def liveLocalBits (o : ClassOracle) (verifyData : VerifyData) (target : Nat) : Nat :=
  let result := o.j9localmap_LocalBitsForPC verifyData.romMethod target
  if result.1 ≠ 0 then U32_RANGE - 1 else result.2 % U32_RANGE

/-- The body of the loop of `mergeStacks` for the slot at `index`, holding
`sourceItem` in the live frame and `targetItem` in the stored frame. -/
def mergeSlot (o : ClassOracle) (verifyData : VerifyData) (target index : Nat)
    (sourceItem targetItem : Nat) : Option SlotOutcome :=
  let maxIndex := verifyData.romMethod.argCount + verifyData.romMethod.tempCount
  -- Merge if the source and target slots are not identical
  if sourceItem ≠ targetItem then
    if (index : Int) < verifyData.liveStack.stackBaseIndex then
      -- Merge in the locals
      if (sourceItem ||| targetItem) &&& BCV_BASE_OR_SPECIAL ≠ 0 then
        -- Mismatch results in undefined local - rewalk if modified stack
        if targetItem ≠ BCV_BASE_TYPE_TOP ∧ targetItem &&& BCV_SPECIAL = 0 then
          some (SlotOutcome.merged BCV_BASE_TYPE_TOP true verifyData)
        else some (SlotOutcome.merged targetItem false verifyData)
      -- Null source or java/lang/Object targets always work trivially
      else if sourceItem ≠ BCV_BASE_TYPE_NULL ∧
          targetItem ≠ BCV_JAVA_LANG_OBJECT_INDEX <<< BCV_CLASS_INDEX_SHIFT then
        -- Null target always causes a re-walk - source is never null here
        if targetItem = BCV_BASE_TYPE_NULL then
          some (SlotOutcome.merged sourceItem true verifyData)
        else if verifyData.optimize = true ∧ maxIndex ≤ 32 then
          -- `1 << index` is undefined from 32 on
          if index < 32 then
            if liveLocalBits o verifyData target &&& (1 <<< index) ≠ 0 then
              afterMergeObjectTypes (mergeObjectTypes o verifyData sourceItem targetItem)
            else
              -- Tag undefined - local variable is dead
              some (SlotOutcome.merged BCV_BASE_TYPE_TOP true verifyData)
          else none
        else afterMergeObjectTypes (mergeObjectTypes o verifyData sourceItem targetItem)
      else some (SlotOutcome.merged targetItem false verifyData)
    -- Merge is on the stack
    else if (sourceItem ||| targetItem) &&& BCV_BASE_OR_SPECIAL = 0 then
      -- Merge two objects
      afterMergeObjectTypes (mergeObjectTypes o verifyData sourceItem targetItem)
    else some (SlotOutcome.merged targetItem false verifyData)
  else some (SlotOutcome.merged targetItem false verifyData)

/-- The variables of the loop of `mergeStacks` that change. -/
structure MergeState where
  verifyData : VerifyData
  /-- The slots of the stored frame `targetStack`. -/
  targetElements : Int → Nat
  rewalk : Bool

/-- The loop `while (sourceStackPtr != sourceStackTop)` of `mergeStacks` with `n`
slots left, the next one at `index`; `Except.error` is the exit through
`goto _finished` with `rc = BCV_ERR_INSUFFICIENT_MEMORY`. -/
def mergeSlots (o : ClassOracle) (target : Nat) :
    Nat → Nat → MergeState → Option (Except MergeState MergeState)
  | 0, _, st => some (Except.ok st)
  | n + 1, index, st =>
    match mergeSlot o st.verifyData target index
        (st.verifyData.liveStack.stackElements (index : Int)) (st.targetElements (index : Int)) with
    | none => none
    | some (SlotOutcome.outOfMemory targetItem verifyData) =>
      some (Except.error
        { verifyData := verifyData
          targetElements := Function.update st.targetElements (index : Int) targetItem
          rewalk := st.rewalk })
    | some (SlotOutcome.merged targetItem rewalk verifyData) =>
      mergeSlots o target n (index + 1)
        { verifyData := verifyData
          targetElements := Function.update st.targetElements (index : Int) targetItem
          rewalk := st.rewalk || rewalk }

/-- The stored frame at `stackIndex` with the slots the loop of `mergeStacks` left
in it. -/
def storeMerged (st : MergeState) (stackIndex : Nat) (targetStack : J9BranchTargetStack) :
    VerifyData :=
  { st.verifyData with
    stackMaps := st.verifyData.stackMaps.set stackIndex
      { targetStack with stackElements := st.targetElements } }

/-- `mergeStacks (verifyData, target)`. -/
def mergeStacks (o : ClassOracle) (verifyData : VerifyData) (target : Nat) :
    Option (RC × VerifyData) :=
  match verifyData.bytecodeMap[target]? with
  | none => none
  | some v =>
    let stackIndex := v >>> BRANCH_INDEX_SHIFT
    match verifyData.stackMaps[stackIndex]? with
    | none => none
    | some targetStack =>
      if targetStack.stackBaseIndex = -1 then
        -- Target location does not have a stack, so give the target our current stack
        match enqueue verifyData.unwalkedQueue verifyData.unwalkedQueueTail
            (queueSlots verifyData) target with
        | none => none
        | some (queue, tail) =>
          some (RC.BCV_SUCCESS,
            { verifyData with
              stackMaps :=
                verifyData.stackMaps.set stackIndex (copyStack verifyData.liveStack targetStack)
              unwalkedQueue := queue
              unwalkedQueueTail := tail
              bytecodeMap :=
                verifyData.bytecodeMap.set target ((v ||| BRANCH_ON_UNWALKED_QUEUE) % U32_RANGE) })
      -- Check stack size equality
      else if targetStack.stackTopIndex ≠ verifyData.liveStack.stackTopIndex then
        -- `rc = BCV_FAIL`, then `*((UDATA *)-1) = 0x321`: a store through an invalid
        -- address, before `goto _finished` is reached
        none
      else if verifyData.liveStack.stackTopIndex < 0 then
        -- the loop would run past the end of the frames
        none
      else
        -- Now we have to merge stacks
        match mergeSlots o target verifyData.liveStack.stackTopIndex.toNat 0
            { verifyData := verifyData, targetElements := targetStack.stackElements
              rewalk := false } with
        | none => none
        | some (Except.error st) =>
          some (RC.BCV_ERR_INSUFFICIENT_MEMORY, storeMerged st stackIndex targetStack)
        | some (Except.ok st) =>
          let verifyData := storeMerged st stackIndex targetStack
          -- add to the root set if we changed the target stack
          if st.rewalk = true then
            if v &&& BRANCH_ON_REWALK_QUEUE = 0 then
              match enqueue verifyData.rewalkQueue verifyData.rewalkQueueTail
                  (queueSlots verifyData) target with
              | none => none
              | some (queue, tail) =>
                some (RC.BCV_SUCCESS,
                  { verifyData with
                    rewalkQueue := queue
                    rewalkQueueTail := tail
                    bytecodeMap := verifyData.bytecodeMap.set target
                      (clearFlag ((v ||| BRANCH_ON_REWALK_QUEUE) % U32_RANGE)
                        BRANCH_ON_UNWALKED_QUEUE) })
            else some (RC.BCV_SUCCESS, verifyData)
          else some (RC.BCV_SUCCESS, verifyData)

/-! ## Queue servicing in simulateStack -/

/-- How the code at `_checkFinished` is left. -/
inductive ServiceOutcome where
  /-- A frame was loaded into the live frame (`justLoadedStack = TRUE`): the walk
  goes on at `pc`. -/
  | walk (pc : Nat) (verifyData : VerifyData)
  /-- Both queues are empty: `return BCV_SUCCESS`. -/
  | finished (verifyData : VerifyData)

/-- The code at the label `_checkFinished` of `simulateStack`; one unit of fuel is
used each time the label is reached. -/
def checkFinished : Nat → VerifyData → Option ServiceOutcome
  | 0, _ => none
  | fuel + 1, verifyData =>
    if verifyData.unwalkedQueueHead ≠ verifyData.unwalkedQueueTail then
      match dequeue verifyData.unwalkedQueue verifyData.unwalkedQueueHead
          (queueSlots verifyData) with
      | none => none
      | some (pc, head) =>
        let verifyData := { verifyData with unwalkedQueueHead := head }
        match verifyData.bytecodeMap[pc]? with
        | none => none
        | some v =>
          if v &&& BRANCH_ON_UNWALKED_QUEUE = 0 then checkFinished fuel verifyData
          else
            let v := clearFlag v BRANCH_ON_UNWALKED_QUEUE
            match verifyData.stackMaps[v >>> BRANCH_INDEX_SHIFT]? with
            | none => none
            | some branch =>
              some (ServiceOutcome.walk pc
                { verifyData with
                  bytecodeMap := verifyData.bytecodeMap.set pc v
                  liveStack := copyStack branch verifyData.liveStack })
    else if verifyData.rewalkQueueHead ≠ verifyData.rewalkQueueTail then
      match dequeue verifyData.rewalkQueue verifyData.rewalkQueueHead
          (queueSlots verifyData) with
      | none => none
      | some (pc, head) =>
        let verifyData := { verifyData with rewalkQueueHead := head }
        match verifyData.bytecodeMap[pc]? with
        | none => none
        | some v =>
          if v &&& BRANCH_ON_REWALK_QUEUE = 0 then checkFinished fuel verifyData
          else
            let v := clearFlag v BRANCH_ON_REWALK_QUEUE
            match verifyData.stackMaps[v >>> BRANCH_INDEX_SHIFT]? with
            | none => none
            | some branch =>
              some (ServiceOutcome.walk pc
                { verifyData with
                  bytecodeMap := verifyData.bytecodeMap.set pc v
                  liveStack := copyStack branch verifyData.liveStack })
    else
      -- else we are done the rootSet -- return
      some (ServiceOutcome.finished verifyData)

/-! ## The arena: bcvalloc and bcvfree -/

/-- Size in bytes of the chunk of the arena (`#define BCV_INTERNAL_DEFAULT_SIZE
(32*1024)`). -/
def BCV_INTERNAL_DEFAULT_SIZE : Nat := 32 * 1024

/-- The fields of `J9BytecodeVerificationData` that `bcvalloc` and `bcvfree` use,
the memory their pointers address, and the host allocator behind
`j9mem_allocate_memory` and `j9mem_free_memory`.  Pointers are byte addresses. -/
structure ArenaData where
  internalBufferStart : Nat
  internalBufferEnd : Nat
  currentAlloc : Nat
  /-- The `UDATA` stored at each address; a header `J9BCVAlloc` is the word `prev`
  followed by `data`. -/
  memory : Nat → Nat
  /-- The pointers the coming calls of `j9mem_allocate_memory` return, in order; 0
  is a failed allocation, as is every call once the list is used up. -/
  hostResults : List Nat
  /-- The addresses passed to `j9mem_free_memory`, latest first. -/
  hostFreed : List Nat

/-- `j9mem_allocate_memory (byteCount, J9MEM_CATEGORY_CLASSES)`. -/
def j9mem_allocate_memory (verifyData : ArenaData) (_byteCount : Nat) : Nat × ArenaData :=
  match verifyData.hostResults with
  | [] => (0, verifyData)
  | address :: rest => (address, { verifyData with hostResults := rest })

/-- `j9mem_free_memory (address)`. -/
def j9mem_free_memory (verifyData : ArenaData) (address : Nat) : ArenaData :=
  { verifyData with hostFreed := address :: verifyData.hostFreed }

/-- `bcvalloc (verifyData, byteCount)`: the pointer returned (0 when the allocation
fails) and the state afterwards. -/
def bcvalloc (verifyData : ArenaData) (byteCount : Nat) : Nat × ArenaData :=
  -- Round to UDATA multiple
  let byteCount :=
    ((byteCount + (SIZEOF_UDATA - 1)) % UDATA_RANGE) &&& (UDATA_RANGE - 1 - (SIZEOF_UDATA - 1))
  -- Allow room for the linking header
  let byteCount := (byteCount + SIZEOF_UDATA) % UDATA_RANGE
  let chunk : Nat × ArenaData :=
    if verifyData.internalBufferStart = 0 then
      let allocated := j9mem_allocate_memory verifyData BCV_INTERNAL_DEFAULT_SIZE
      if allocated.1 = 0 then (0, { allocated.2 with internalBufferStart := 0 })
      else
        (allocated.1,
          { allocated.2 with
            internalBufferStart := allocated.1
            internalBufferEnd := (allocated.1 + BCV_INTERNAL_DEFAULT_SIZE) % UDATA_RANGE
            currentAlloc := allocated.1
            memory := Function.update allocated.2.memory allocated.1 allocated.1 })
    else (verifyData.internalBufferStart, verifyData)
  if chunk.1 = 0 then (0, chunk.2)
  else
    let verifyData := chunk.2
    let temp1 := verifyData.currentAlloc
    let temp2 := (temp1 + byteCount) % UDATA_RANGE
    if temp2 ≥ verifyData.internalBufferEnd then
      j9mem_allocate_memory verifyData byteCount
    else
      -- tag the back pointer as the block following this pointer is in use
      let memory := Function.update verifyData.memory temp1 (verifyData.memory temp1 ||| 1)
      -- the address returned is `temp1->data`
      ((temp1 + SIZEOF_UDATA) % UDATA_RANGE,
        { verifyData with
          memory := Function.update memory temp2 temp1
          currentAlloc := temp2 })

/-- The loop `while (temp1 == temp2->prev)` of `bcvfree`; one unit of fuel is used
by each iteration. -/
def releaseBlocks : Nat → ArenaData → Nat → Nat → Option ArenaData
  | 0, _, _, _ => none
  | fuel + 1, verifyData, temp1, temp2 =>
    if temp1 = verifyData.memory temp2 then
      -- Release most recent alloc and any preceding contiguous already freed allocs
      let temp2 := verifyData.memory temp2
      let temp1 := verifyData.memory temp2
      if verifyData.memory temp1 &&& 1 ≠ 0 then
        -- stop if an in-use block is found
        some { verifyData with currentAlloc := temp2 }
      else if temp1 = temp2 then
        -- all blocks unused - release the buffer
        some
          { j9mem_free_memory verifyData verifyData.internalBufferStart with
            internalBufferStart := 0
            internalBufferEnd := 0 }
      else releaseBlocks fuel verifyData temp1 temp2
    else some verifyData

/-- `bcvfree (verifyData, address)`; `fuel` bounds the iterations of its loop. -/
def bcvfree (fuel : Nat) (verifyData : ArenaData) (address : Nat) : Option ArenaData :=
  if address ≥ verifyData.internalBufferEnd ∨ address < verifyData.internalBufferStart then
    some (j9mem_free_memory verifyData address)
  else
    let temp1 := (address + UDATA_RANGE - SIZEOF_UDATA) % UDATA_RANGE
    -- flag block following the pointer as free
    let verifyData :=
      { verifyData with
        memory := Function.update verifyData.memory temp1
          (verifyData.memory temp1 &&& (UDATA_RANGE - 2)) }
    releaseBlocks fuel verifyData temp1 verifyData.currentAlloc

/-! ## simulateStack: the sends -/

/-- What the case `RTV_SEND` of `simulateStack` uses that is defined outside
`bcverify.c`: the opcode numbers, the accessors of the ROM class and the helpers. -/
structure SendCollaborators where
  JBinvokeinterface2 : Nat
  JBinvokestatic : Nat
  JBinvokestaticsplit : Nat
  JBinvokespecial : Nat
  JBinvokespecialsplit : Nat
  JBinvokedynamic : Nat
  /-- `*(U_16 *)(J9ROMCLASS_STATICSPLITMETHODREFINDEXES (romClass) + index)`. -/
  staticSplitMethodRefIndex : Nat → Nat
  /-- `*(U_16 *)(J9ROMCLASS_SPECIALSPLITMETHODREFINDEXES (romClass) + index)`. -/
  specialSplitMethodRefIndex : Nat → Nat
  /-- The signature of the name and signature at `callSiteData + index`. -/
  callSiteSignature : Nat → List Nat
  /-- The signature of the method reference `constantPool[index]`. -/
  methodRefSignature : Nat → List Nat
  /-- The byte `J9UTF8_DATA (...)[0]` of the name of the method reference
  `constantPool[index]`. -/
  methodRefNameFirstByte : Nat → Nat
  /-- `getSendSlotsFromSignature (signature)`. -/
  getSendSlotsFromSignature : List Nat → Nat
  /-- `getSpecialType (verifyData, type, code)`: the initialised type and the
  class-name list after the lookup. -/
  getSpecialType : ClassNameList → Nat → Nat × ClassNameList
  /-- `pushReturnType (verifyData, utf8string, stackTop)`: the words it pushes and
  the class-name list after the lookup. -/
  pushReturnType : ClassNameList → List Nat → List Nat × ClassNameList

/-- Modelled from the spec: the index in `stackElements` of the slot the pointer
`temps` of `simulateStack` points to; the macro `RELOAD_LIVESTACK` that sets it is
not in `bcverify.c`, and the locals occupy the indices from 0 up to
`stackBaseIndex`. -/
def temps : Int := 0

/-- The words `words` pushed one after the other from the slot at `stackTop`: the
slots and the index `stackTop` ends at. -/
def pushWords (stackElements : Int → Nat) (stackTop : Int) : List Nat → (Int → Nat) × Int
  | [] => (stackElements, stackTop)
  | word :: words => pushWords (Function.update stackElements stackTop word) (stackTop + 1) words

/-- The loop `while (ptr != stackTop) { if (*ptr == type) *ptr = temp1; ptr++; }`
with `n` slots left, the next one at `ptr`. -/
def initializeCopies (type temp1 : Nat) : Nat → Int → (Int → Nat) → (Int → Nat)
  | 0, _, stackElements => stackElements
  | n + 1, ptr, stackElements =>
    initializeCopies type temp1 n (ptr + 1)
      (if stackElements ptr = type then Function.update stackElements ptr temp1
        else stackElements)

/-- The statement `stackTop = pushReturnType (verifyData, utf8string, stackTop)`
followed by `break`; a store below `stackElements` is undefined. -/
def pushReturn (s : SendCollaborators) (verifyData : VerifyData) (utf8string : List Nat)
    (stackTop : Int) : Option (Int × VerifyData) :=
  let pushed := s.pushReturnType verifyData.classNameList utf8string
  if pushed.1 ≠ [] ∧ stackTop < 0 then none
  else
    let written := pushWords verifyData.liveStack.stackElements stackTop pushed.1
    some (written.2,
      { verifyData with
        classNameList := pushed.2
        liveStack := { verifyData.liveStack with stackElements := written.1 } })

/-- The case `RTV_SEND` of `simulateStack` for the opcode `bc` at `bcIndex`, the
pointer `stackTop` being an index into `liveStack->stackElements`: the index
`stackTop` and the state at the `break` that ends the case. -/
def sendAction (c : Collaborators) (s : SendCollaborators) (verifyData : VerifyData)
    (bc bcIndex : Nat) (stackTop : Int) : Option (Int × VerifyData) :=
  -- Set to point to JBinvokeinterface
  let bcIndex := if bc = s.JBinvokeinterface2 then bcIndex + 2 else bcIndex
  let index := PARAM_16 c verifyData.romMethod.bytecodes bcIndex 1
  let index :=
    if s.JBinvokestaticsplit = bc then s.staticSplitMethodRefIndex index
    else if s.JBinvokespecialsplit = bc then s.specialSplitMethodRefIndex index
    else index
  let utf8string :=
    if bc = s.JBinvokedynamic then s.callSiteSignature index else s.methodRefSignature index
  let stackTop := stackTop - (s.getSendSlotsFromSignature utf8string : Int)
  if s.JBinvokestatic ≠ bc ∧ s.JBinvokedynamic ≠ bc ∧ s.JBinvokestaticsplit ≠ bc then
    if s.JBinvokespecial = bc ∨ s.JBinvokespecialsplit = bc then
      -- `type = POP`; a read below `stackElements` is undefined
      if stackTop - 1 < 0 then none
      else
        let stackTop := stackTop - 1
        let type := verifyData.liveStack.stackElements stackTop
        -- This is <init>, verify that this is a NEW or INIT object
        if s.methodRefNameFirstByte index = 60 ∧ type &&& BCV_SPECIAL ≠ 0 then
          let temp1 := s.getSpecialType verifyData.classNameList type
          -- This invoke special will make all copies of this "type" on the stack a real
          -- object, find all copies of this object and initialize them
          some (stackTop,
            { verifyData with
              classNameList := temp1.2
              liveStack :=
                { verifyData.liveStack with
                  stackElements :=
                    initializeCopies type temp1.1 (stackTop - temps).toNat temps
                      verifyData.liveStack.stackElements } })
        else pushReturn s verifyData utf8string stackTop
    else
      -- virtual or interface: `DROP (1)`
      pushReturn s verifyData utf8string (stackTop - 1)
  else pushReturn s verifyData utf8string stackTop

/-! ## setVerifyState and parseOptions -/

/-- A C string literal as the list of its character codes, without the
terminating NUL. -/
def literal (s : String) : List Nat := s.toList.map Char.toNat

def OPT_ALL : List Nat := literal "all"
def OPT_OPT : List Nat := literal "opt"
def OPT_NO_OPT : List Nat := literal "noopt"
def OPT_NO_FALLBACK : List Nat := literal "nofallback"
def OPT_IGNORE_STACK_MAPS : List Nat := literal "ignorestackmaps"
def OPT_EXCLUDEATTRIBUTE_EQUAL : List Nat := literal "excludeattribute="
def OPT_BOOTCLASSPATH_STATIC : List Nat := literal "bootclasspathstatic"
def OPT_DO_PROTECTED_ACCESS_CHECK : List Nat := literal "doProtectedAccessCheck"

/-- `sizeof` of a string literal: its characters and the terminating NUL. -/
def sizeofLiteral (lit : List Nat) : Nat := lit.length + 1

/-- `strlen (s)` for the memory `s` points to, given as the list of its bytes;
`none` when no NUL is found inside it. -/
def strlen : List Nat → Option Nat
  | [] => none
  | ch :: rest => if ch = 0 then some 0 else (strlen rest).map (· + 1)

/-- `0 == strcmp (s, lit)` for a literal `lit`: the bytes of `s` are those of
`lit` followed by NUL. -/
def strcmpEqual (s lit : List Nat) : Bool :=
  decide (s.take (lit.length + 1) = lit ++ [0])

/-- `0 == strncmp (s, lit, n)` for a literal `lit` of at least `n` characters:
the first `n` bytes of `s` are those of `lit`. -/
def strncmpEqual (s lit : List Nat) (n : Nat) : Bool :=
  decide (s.take n = lit.take n)

/-- The flag constants used by `setVerifyState`; they are defined outside
`bcverify.c`. -/
structure OptionFlags where
  J9_RUNTIME_XFUTURE : Nat
  J9_VERIFY_SKIP_BOOTSTRAP_CLASSES : Nat
  J9_VERIFY_OPTIMIZE : Nat
  J9_VERIFY_NO_FALLBACK : Nat
  J9_VERIFY_IGNORE_STACK_MAPS : Nat
  J9_VERIFY_EXCLUDE_ATTRIBUTE : Nat
  J9_VERIFY_BOOTCLASSPATH_STATIC : Nat
  J9_VERIFY_DO_PROTECTED_ACCESS_CHECK : Nat

/-- The fields of `J9JavaVM` and of its `bytecodeVerificationData` written by
`setVerifyState`.  `excludeAttribute` is `none` for `NULL` and otherwise the
bytes of the block it points to. -/
structure J9JavaVM where
  runtimeFlags : Nat
  verificationFlags : Nat
  excludeAttribute : Option (List Nat)

/-- `flags &= ~bit` on a `UDATA`. -/
def clearBits (flags bit : Nat) : Nat := flags &&& ((UDATA_RANGE - 1) ^^^ (bit % UDATA_RANGE))

/-- `setVerifyState (vm, option, errorString)`.  `option` is the memory the pointer
refers to, `errorString` is `none` for a null pointer and otherwise the message it
refers to, `allocate n` tells whether `j9mem_allocate_memory (n, ...)` succeeds.
The result is the value returned (`TRUE` or `FALSE`), the fields of `vm` and the
message; `none` stands for a read outside the memory of `option`. -/
def setVerifyState (k : OptionFlags) (allocate : Nat → Bool) (vm : J9JavaVM)
    (option : List Nat) (errorString : Option String) :
    Option (Bool × J9JavaVM × Option String) :=
  if strcmpEqual option OPT_ALL then
    some (true,
      { vm with
        runtimeFlags := (vm.runtimeFlags ||| k.J9_RUNTIME_XFUTURE) % UDATA_RANGE
        verificationFlags := clearBits vm.verificationFlags k.J9_VERIFY_SKIP_BOOTSTRAP_CLASSES },
      errorString)
  else if strcmpEqual option OPT_OPT then
    -- on by default - will override a "noopt" before it
    some (true,
      { vm with
        verificationFlags := (vm.verificationFlags ||| k.J9_VERIFY_OPTIMIZE) % UDATA_RANGE },
      errorString)
  else if strcmpEqual option OPT_NO_OPT then
    some (true,
      { vm with verificationFlags := clearBits vm.verificationFlags k.J9_VERIFY_OPTIMIZE },
      errorString)
  else if strcmpEqual option OPT_NO_FALLBACK then
    some (true,
      { vm with
        verificationFlags := (vm.verificationFlags ||| k.J9_VERIFY_NO_FALLBACK) % UDATA_RANGE },
      errorString)
  else if strcmpEqual option OPT_IGNORE_STACK_MAPS then
    some (true,
      { vm with
        verificationFlags :=
          (vm.verificationFlags ||| k.J9_VERIFY_IGNORE_STACK_MAPS) % UDATA_RANGE },
      errorString)
  else if strncmpEqual option OPT_EXCLUDEATTRIBUTE_EQUAL
      (sizeofLiteral OPT_EXCLUDEATTRIBUTE_EQUAL - 1) then
    match option[sizeofLiteral OPT_EXCLUDEATTRIBUTE_EQUAL]? with
    | none => none
    | some ch =>
      if 0 ≠ ch then
        let vm := { vm with
          verificationFlags :=
            (vm.verificationFlags ||| k.J9_VERIFY_EXCLUDE_ATTRIBUTE) % UDATA_RANGE }
        -- Save the parameter string, NULL terminated and the length excluding the NULL
        match strlen option with
        | none => none
        | some n =>
          let length :=
            (n + (UDATA_RANGE - sizeofLiteral OPT_EXCLUDEATTRIBUTE_EQUAL) + 1) % UDATA_RANGE
          if allocate ((length + 1) % UDATA_RANGE) then
            -- memcpy of `length + 1` bytes from `&option[sizeof - 1]`
            if sizeofLiteral OPT_EXCLUDEATTRIBUTE_EQUAL - 1 + (length + 1) % UDATA_RANGE
                ≤ option.length then
              some (true,
                { vm with
                  excludeAttribute :=
                    some ((option.drop (sizeofLiteral OPT_EXCLUDEATTRIBUTE_EQUAL - 1)).take
                      ((length + 1) % UDATA_RANGE)) },
                errorString)
            else none
          else
            some (false, { vm with excludeAttribute := none },
              errorString.map fun _ => "Out of memory processing -Xverify:<opt>")
      else some (true, vm, errorString)
  else if strcmpEqual option OPT_BOOTCLASSPATH_STATIC then
    some (true,
      { vm with
        verificationFlags :=
          (vm.verificationFlags ||| k.J9_VERIFY_BOOTCLASSPATH_STATIC) % UDATA_RANGE },
      errorString)
  else if strcmpEqual option OPT_DO_PROTECTED_ACCESS_CHECK then
    some (true,
      { vm with
        verificationFlags :=
          (vm.verificationFlags ||| k.J9_VERIFY_DO_PROTECTED_ACCESS_CHECK) % UDATA_RANGE },
      errorString)
  else
    some (false, vm, errorString.map fun _ => "Unrecognised option(s) for -Xverify:<opt>")

/-- The loop of `parseOptions`; `fuel` bounds the number of options read. -/
def parseOptionsLoop (k : OptionFlags) (allocate : Nat → Bool) :
    Nat → J9JavaVM → List Nat → Option String → Option (Bool × J9JavaVM × Option String)
  | 0, _, _, _ => none
  | fuel + 1, vm, optionValue, errorString =>
    match optionValue with
    | [] => none
    | ch :: _ =>
      if ch ≠ 0 then
        -- call setVerifyState on each individual option
        match setVerifyState k allocate vm optionValue errorString with
        | none => none
        | some (false, vm, errorString) => some (false, vm, errorString)
        | some (true, vm, errorString) =>
          -- Step past null separator to next element
          match strlen optionValue with
          | none => none
          | some n => parseOptionsLoop k allocate fuel vm (optionValue.drop (n + 1)) errorString
      else some (true, vm, errorString)

/-- `parseOptions (vm, optionValues, errorString)`: the values are separated by
single NUL characters.  Every pass of the loop moves past at least one byte, so
one unit of fuel per byte and one more are enough. -/
def parseOptions (k : OptionFlags) (allocate : Nat → Bool) (vm : J9JavaVM)
    (optionValues : List Nat) (errorString : Option String) :
    Option (Bool × J9JavaVM × Option String) :=
  parseOptionsLoop k allocate (optionValues.length + 1) vm optionValues errorString

/-! ## simulateStack: decoding an instruction, branches and switches -/

/-- Values of the variable `verboseErrorCode` of `simulateStack` in the parts
embedded here; `unset` is its initial value 0. -/
inductive VerboseErrorCode where
  | unset
  | BCV_ERR_STACK_UNDERFLOW
  | BCV_ERR_UNEXPECTED_EOF
  deriving DecidableEq, Repr

def J9NLS_BCV_ERR_UNEXPECTED_EOF__ID : Nat := 4
def J9NLS_BCV_ERR_VERIFY_OUT_OF_MEMORY__ID : Nat := 5

/-- Tables and helpers that `simulateStack` uses and that are defined outside
`bcverify.c`. -/
structure SimulateTables where
  /-- `JavaStackActionTable`, indexed by opcode. -/
  JavaStackActionTable : Nat → Nat
  /-- `J9JavaBytecodeVerificationTable`, indexed by opcode. -/
  J9JavaBytecodeVerificationTable : Nat → Nat
  /-- `decodeTable`, indexed by a 4-bit type code. -/
  decodeTable : Nat → Nat
  /-- The action code `RTV_BRANCH`. -/
  RTV_BRANCH : Nat
  /-- The action code `RTV_MISC`. -/
  RTV_MISC : Nat
  /-- `storeVerifyErrorData (verifyData, errorDetailCode, errorCurrentFramePosition,
  errorTargetType, errorTempData, currentPC)`. -/
  storeVerifyErrorData : VerifyData → VerboseErrorCode → Nat → Nat → Nat → Int → VerifyData

/-- Modelled from the spec: the index in `stackElements` of the slot the pointer
`stackBase` of `simulateStack` points to; the macro `RELOAD_LIVESTACK` that sets it
is not in `bcverify.c`, and the operand stack starts at `stackBaseIndex`. -/
def stackBase (verifyData : VerifyData) : Int := verifyData.liveStack.stackBaseIndex

/-- Modelled from the spec: the macro `SAVE_STACKTOP (liveStack, stackTop)` is not
in `bcverify.c`; it stores the index of the slot `stackTop` points to in
`stackTopIndex`. -/
def SAVE_STACKTOP (verifyData : VerifyData) (stackTop : Int) : VerifyData :=
  { verifyData with liveStack := { verifyData.liveStack with stackTopIndex := stackTop } }

/-- The code from the label `_verifyError` to `return BCV_ERR_INTERNAL_ERROR`. -/
def verifyError (t : SimulateTables) (verifyData : VerifyData) (errorModule errorType : Nat)
    (verboseErrorCode : VerboseErrorCode) (errorStackIndex errorTargetType errorTempData : Nat)
    (start : Int) : RC × VerifyData :=
  -- Store the verification error data here when error occurs
  let verifyData := t.storeVerifyErrorData verifyData verboseErrorCode
    (errorStackIndex % U32_RANGE) errorTargetType errorTempData start
  (RC.BCV_ERR_INTERNAL_ERROR, BUILD_VERIFY_ERROR verifyData errorModule errorType start.toNat)

/-- The code from the label `_outOfMemoryError` to
`return BCV_ERR_INSUFFICIENT_MEMORY`. -/
def outOfMemoryError (verifyData : VerifyData) (errorModule errorType : Nat) (start : Int) :
    RC × VerifyData :=
  (RC.BCV_ERR_INSUFFICIENT_MEMORY, BUILD_VERIFY_ERROR verifyData errorModule errorType start.toNat)

/-- The macro `CHECK_END` of `simulateStack`: the value returned through
`_verifyError` when `pc > length`. -/
def CHECK_END (t : SimulateTables) (verifyData : VerifyData) (pc : Nat) (start : Int) :
    Option (RC × VerifyData) :=
  if pc > verifyData.romMethod.bytecodeSize then
    some (verifyError t verifyData J9NLS_BCV_ERR_NO_ERROR__MODULE J9NLS_BCV_ERR_UNEXPECTED_EOF__ID
      VerboseErrorCode.BCV_ERR_UNEXPECTED_EOF (UDATA_RANGE - 1) (UDATA_RANGE - 1)
      (UDATA_RANGE - 1) start)
  else none

/-- How a case of the `switch (action)` of `simulateStack` is left. -/
inductive CaseExit where
  /-- `break`: the loop goes on with the instruction at `pc`, the pointer
  `stackTop` at the given index. -/
  | next (pc : Nat) (stackTop : Int)
  /-- `goto _checkFinished`. -/
  | checkFinished
  /-- `simulateStack` returns the given value through `_verifyError` or
  `_outOfMemoryError`. -/
  | returned (result : RC)
  deriving DecidableEq, Repr

/-- What a case leaves: how it is left, the verifier state, and the targets of the
calls of `mergeStacks` it made, in the order of the calls. -/
structure CaseResult where
  exit : CaseExit
  verifyData : VerifyData
  merged : List Nat

/-- The statement `if (BCV_ERR_INSUFFICIENT_MEMORY == mergeStacks (verifyData,
target)) { errorType = ...; goto _outOfMemoryError; }`: `Except.error` is the value
returned through `_outOfMemoryError`. -/
def mergeOrOutOfMemory (o : ClassOracle) (verifyData : VerifyData) (target : Nat)
    (start : Int) : Option (Except VerifyData VerifyData) :=
  match mergeStacks o verifyData target with
  | none => none
  | some (rc, verifyData) =>
    if rc = RC.BCV_ERR_INSUFFICIENT_MEMORY then
      some (Except.error (outOfMemoryError verifyData J9NLS_BCV_ERR_NO_ERROR__MODULE
        J9NLS_BCV_ERR_VERIFY_OUT_OF_MEMORY__ID start).2)
    else some (Except.ok verifyData)

/-- The case `RTV_BRANCH` of `simulateStack` for the opcode `bc` at `start`, entered
with the given `pc`, `type2` and `stackTop`. -/
def branchAction (c : Collaborators) (o : ClassOracle) (verifyData : VerifyData)
    (bc start pc type2 : Nat) (stackTop : Int) : Option CaseResult :=
  let popCount := type2 &&& 0x07
  let stackTop := stackTop - popCount
  let bcIndex := start
  let target :=
    if bc = JBgotow then
      toUDATA ((start : Int) + toI32 (PARAM_32 c verifyData.romMethod.bytecodes bcIndex 1))
    else
      toUDATA ((start : Int) + toI16 (PARAM_16 c verifyData.romMethod.bytecodes bcIndex 1))
  let verifyData := SAVE_STACKTOP verifyData stackTop
  -- Merge our stack to the target
  match mergeOrOutOfMemory o verifyData target start with
  | none => none
  | some (Except.error verifyData) =>
    some ⟨CaseExit.returned RC.BCV_ERR_INSUFFICIENT_MEMORY, verifyData, [target]⟩
  | some (Except.ok verifyData) =>
    -- Unconditional branch (goto family)
    if popCount = 0 then some ⟨CaseExit.checkFinished, verifyData, [target]⟩
    else some ⟨CaseExit.next pc stackTop, verifyData, [target]⟩

/-- The loop over the entries of a `tableswitch` in `simulateStack`, with `n`
iterations left and `bcIndex` at the entry to read in the bytes `code` of the
method: the entries are read from the last to the first. -/
def mergeTableEntries (c : Collaborators) (o : ClassOracle) (code : Nat → Nat) (start : Int) :
    Nat → Nat → VerifyData → List Nat → Option (Except VerifyData VerifyData × List Nat)
  | 0, _, verifyData, merged => some (Except.ok verifyData, merged)
  | n + 1, bcIndex, verifyData, merged =>
    let offset32 := toI32 (PARAM_32 c code bcIndex 1)
    -- back up to point at the previous table switch entry
    let bcIndexNext := bcIndex - 4
    let target := toUDATA (offset32 + start)
    match mergeOrOutOfMemory o verifyData target start with
    | none => none
    | some (Except.error verifyData) => some (Except.error verifyData, merged ++ [target])
    | some (Except.ok verifyData) =>
      mergeTableEntries c o code start n bcIndexNext verifyData (merged ++ [target])

/-- The loop over the pairs of a `lookupswitch` in `simulateStack`, with `n`
iterations left. -/
def mergeLookupEntries (c : Collaborators) (o : ClassOracle) (code : Nat → Nat) (start : Int) :
    Nat → Nat → VerifyData → List Nat → Option (Except VerifyData VerifyData × List Nat)
  | 0, _, verifyData, merged => some (Except.ok verifyData, merged)
  | n + 1, bcIndex, verifyData, merged =>
    let bcIndex := bcIndex + 4
    let offset32 := toI32 (PARAM_32 c code bcIndex 1)
    let bcIndex := bcIndex + 4
    let target := toUDATA (offset32 + start)
    match mergeOrOutOfMemory o verifyData target start with
    | none => none
    | some (Except.error verifyData) => some (Except.error verifyData, merged ++ [target])
    | some (Except.ok verifyData) =>
      mergeLookupEntries c o code start n bcIndex verifyData (merged ++ [target])

/-- The cast `(I_32)` of a signed word. -/
def wrapI32 (v : Int) : Int := toI32 (v % (U32_RANGE : Int)).toNat

/-- The cases `JBtableswitch` and `JBlookupswitch` of the case `RTV_MISC` of
`simulateStack` for the opcode `bc` at `start`, entered with the given `pc` and
`stackTop`. -/
def switchAction (c : Collaborators) (t : SimulateTables) (o : ClassOracle)
    (verifyData : VerifyData) (bc start pc : Nat) (stackTop : Int) : Option CaseResult :=
  let code := verifyData.romMethod.bytecodes
  let bcIndex := start
  -- DROP (1)
  let stackTop := stackTop - 1
  -- consume padding
  let index := (4 - (pc &&& 3)) &&& 3
  let pc := (pc + index) % UDATA_RANGE
  let bcIndex := bcIndex + index
  let pc := (pc + 8) % UDATA_RANGE
  match CHECK_END t verifyData pc start with
  | some result => some ⟨CaseExit.returned result.1, result.2, []⟩
  | none =>
    let offset32 := toI32 (PARAM_32 c code bcIndex 1)
    let bcIndex := bcIndex + 4
    let target := toUDATA (offset32 + (start : Int))
    let verifyData := SAVE_STACKTOP verifyData stackTop
    match mergeOrOutOfMemory o verifyData target start with
    | none => none
    | some (Except.error verifyData) =>
      some ⟨CaseExit.returned RC.BCV_ERR_INSUFFICIENT_MEMORY, verifyData, [target]⟩
    | some (Except.ok verifyData) =>
      if bc = JBtableswitch then
        let i1 := toI32 (PARAM_32 c code bcIndex 1)
        let bcIndex := bcIndex + 4
        let pc := (pc + 4) % UDATA_RANGE
        let i2 := toI32 (PARAM_32 c code bcIndex 1)
        let bcIndex := bcIndex + 4
        let pc := toUDATA ((pc : Int) + wrapI32 (i2 - i1 + 1) * 4)
        match CHECK_END t verifyData pc start with
        | some result => some ⟨CaseExit.returned result.1, result.2, [target]⟩
        | none =>
          -- point at the last table switch entry
          let bcIndex := ((bcIndex : Int) + wrapI32 (i2 - i1) * 4).toNat
          -- Count the entries
          let i2 := wrapI32 (i2 - i1 + 1)
          match mergeTableEntries c o code start i2.toNat bcIndex verifyData [target] with
          | none => none
          | some (Except.error verifyData, merged) =>
            some ⟨CaseExit.returned RC.BCV_ERR_INSUFFICIENT_MEMORY, verifyData, merged⟩
          | some (Except.ok verifyData, merged) =>
            some ⟨CaseExit.checkFinished, verifyData, merged⟩
      else
        let i2 := toI32 (PARAM_32 c code bcIndex 1)
        let bcIndex := bcIndex + 4
        let pc := toUDATA ((pc : Int) + i2 * 8)
        match CHECK_END t verifyData pc start with
        | some result => some ⟨CaseExit.returned result.1, result.2, [target]⟩
        | none =>
          match mergeLookupEntries c o code start i2.toNat bcIndex verifyData [target] with
          | none => none
          | some (Except.error verifyData, merged) =>
            some ⟨CaseExit.returned RC.BCV_ERR_INSUFFICIENT_MEMORY, verifyData, merged⟩
          | some (Except.ok verifyData, merged) =>
            some ⟨CaseExit.checkFinished, verifyData, merged⟩

/-! ## Branch targets of a method, stated without the bytecode map -/

/-- Size-table entry of the opcode at offset `start`. -/
def sizeAt (c : Collaborators) (m : J9ROMMethod) (start : Nat) : Nat :=
  c.J9JavaInstructionSizeAndBranchActionTable (byteAt m.bytecodes start)

/-- Offset of the first operand word of a switch at `start` (after the padding). -/
def switchBase (start : Nat) : Nat := (start + 4) / 4 * 4

/-- Number of entries of the switch at `start`: `high - low + 1` for a
`tableswitch`, the pair count for a `lookupswitch`. -/
def switchCount (c : Collaborators) (m : J9ROMMethod) (start : Nat) : Nat :=
  if byteAt m.bytecodes start = JBtableswitch then
    toUDATA (toI32 (PARAM_32 c m.bytecodes (switchBase start + 8) 0)
      - toI32 (PARAM_32 c m.bytecodes (switchBase start + 4) 0) + 1)
  else toUDATA (toI32 (PARAM_32 c m.bytecodes (switchBase start + 4) 0))

/-- Bytes skipped before the offset word of each switch entry. -/
def switchSkip (m : J9ROMMethod) (start : Nat) : Nat :=
  if byteAt m.bytecodes start = JBtableswitch then 0 else 4

/-- Offset of the first entry of the switch at `start`. -/
def switchTable (m : J9ROMMethod) (start : Nat) : Nat :=
  if byteAt m.bytecodes start = JBtableswitch then switchBase start + 12 else switchBase start + 8

/-- Targets of `n` consecutive switch entries stored from offset `at0` on. -/
def entryTargets (c : Collaborators) (code : Nat → Nat) (start : Int) (pcs : Nat) :
    Nat → Nat → List Int
  | 0, _ => []
  | n + 1, at0 =>
    (start + toI32 (PARAM_32 c code (at0 + pcs) 0)) :: entryTargets c code start pcs n (at0 + pcs + 4)

/-- The branch targets named by the instruction at offset `start`: the default
and the entries of a switch, the 32-bit target of `goto_w`, the 16-bit target of
`goto` and of a conditional branch, nothing for any other instruction. -/
def instructionTargets (c : Collaborators) (m : J9ROMMethod) (start : Nat) : List Int :=
  let size := sizeAt c m start
  if size >>> 4 = 5 then
    ((start : Int) + toI32 (PARAM_32 c m.bytecodes (switchBase start) 0)) ::
      entryTargets c m.bytecodes start (switchSkip m start) (switchCount c m start)
        (switchTable m start)
  else if size >>> 4 = 2 ∧ byteAt m.bytecodes start = JBgotow then
    [(start : Int) + toI32 (PARAM_32 c m.bytecodes start 1)]
  else if size >>> 4 = 2 ∨ size >>> 4 = 1 then
    [(start : Int) + toI16 (PARAM_16 c m.bytecodes start 1)]
  else []

/-- Offset of the instruction that follows the one at `start`. -/
def instructionEnd (c : Collaborators) (m : J9ROMMethod) (start : Nat) : Nat :=
  let size := sizeAt c m start
  if size >>> 4 = 5 then
    switchTable m start + switchCount c m start * (switchSkip m start + 4)
  else start + (size &&& 7)

/-- `ScanReaches c m p s`: decoding the bytecodes instruction by instruction from
offset `p` arrives at offset `s`. -/
inductive ScanReaches (c : Collaborators) (m : J9ROMMethod) : Nat → Nat → Prop where
  | here (p : Nat) : ScanReaches c m p p
  | step (p s : Nat) : p < m.bytecodeSize → sizeAt c m p ≠ 0 →
      ScanReaches c m (instructionEnd c m p) s → ScanReaches c m p s

/-- `pc` is a branch target of the method: the target of a branch or switch
instruction of the linear instruction stream, or the handler PC of an entry of
the exception table. -/
def IsBranchTarget (c : Collaborators) (m : J9ROMMethod) (pc : Nat) : Prop :=
  (∃ s, ScanReaches c m 0 s ∧ s < m.bytecodeSize ∧ sizeAt c m s ≠ 0 ∧
      (pc : Int) ∈ instructionTargets c m s) ∨
  (m.hasExceptionInfo = true ∧ ∃ h ∈ m.handlers, h.handlerPC = pc)

/-- The entry `v` of the bytecode map carries `BRANCH_TARGET`. -/
def hasBranchTarget (v : Nat) : Bool := decide (v &&& BRANCH_TARGET ≠ 0)

/-- Marking a list of targets one after the other. -/
def markTargets : List Int → List Nat → Nat → Option (List Nat × Nat)
  | [], bytecodeMap, count => some (bytecodeMap, count)
  | t :: ts, bytecodeMap, count =>
    match markBranchTarget bytecodeMap count t with
    | none => none
    | some (bytecodeMap, count) => markTargets ts bytecodeMap count

/-- The entry at index `i` of the bytecode map carries `BRANCH_TARGET`. -/
def FlaggedAt (bm : List Nat) (i : Nat) : Prop :=
  ∃ v, bm[i]? = some v ∧ hasBranchTarget v = true

/-! ## Stack-map frames, stated without the loops of the decompressor -/

/-- The stack-map element stored at index `stackMapData`: its lattice word, the
index after it and the class-name list after the lookup it needs. -/
def elementAt (c : Collaborators) (names : ClassNameList) (data : Nat → Nat)
    (stackMapData : Nat) : Nat × Nat × ClassNameList :=
  let entryType := byteAt data stackMapData
  if entryType < CFR_STACKMAP_TYPE_INIT_OBJECT then
    (c.verificationTokenDecode entryType, stackMapData + 1, names)
  else if entryType = CFR_STACKMAP_TYPE_INIT_OBJECT then
    ((c.initObjectType names).1, stackMapData + 1, (c.initObjectType names).2)
  else if entryType = CFR_STACKMAP_TYPE_OBJECT then
    ((c.pushClassType names (NEXT_U16 c data (stackMapData + 1)).1).1, stackMapData + 3,
      (c.pushClassType names (NEXT_U16 c data (stackMapData + 1)).1).2)
  else if entryType = CFR_STACKMAP_TYPE_NEW_OBJECT then
    (BCV_SPECIAL_NEW ||| ((NEXT_U16 c data (stackMapData + 1)).1 <<< BCV_CLASS_INDEX_SHIFT),
      stackMapData + 3, names)
  else
    (c.verificationTokenDecode entryType |||
      ((NEXT_U16 c data (stackMapData + 1)).1 <<< BCV_ARITY_SHIFT), stackMapData + 3, names)

/-- The lattice words of `k` consecutive stack-map elements stored from index
`stackMapData` on, the index after them and the class-name list after their
lookups. -/
def elementsAt (c : Collaborators) (data : Nat → Nat) :
    Nat → ClassNameList → Nat → List Nat × Nat × ClassNameList
  | 0, names, stackMapData => ([], stackMapData, names)
  | k + 1, names, stackMapData =>
    let first := elementAt c names data stackMapData
    let others := elementsAt c data k first.2.2 first.2.1
    (first.1 :: others.1, others.2.1, others.2.2)

/-- The slots that a list of entries occupies: a long or double entry is followed
by a `top` slot. -/
def expandWide : List Nat → List Nat
  | [] => []
  | e :: es => if isWide e then e :: BCV_BASE_TYPE_TOP :: expandWide es else e :: expandWide es

/-- The slots `stackElements` with the list `slots` written from index `at0` on. -/
def writeSlots (stackElements : Int → Nat) (at0 : Int) : List Nat → (Int → Nat)
  | [] => stackElements
  | x :: xs => writeSlots (Function.update stackElements at0 x) (at0 + 1) xs

/-- The local slots that the frame with header `hdr` appends: the slots of its
`localDelta` entries. -/
def localSlots (c : Collaborators) (data : Nat → Nat) (names : ClassNameList)
    (hdr : FrameHeader) : List Nat :=
  expandWide (elementsAt c data hdr.localDelta.natAbs names hdr.stackMapData).1

/-- The number of stack entries of the frame with header `hdr`, the index of the
first of them and the class-name list before they are parsed. -/
def stackSource (c : Collaborators) (data : Nat → Nat) (names : ClassNameList)
    (hdr : FrameHeader) : Nat × Nat × ClassNameList :=
  let locals := elementsAt c data hdr.localDelta.natAbs names hdr.stackMapData
  if hdr.mapType = CFR_STACKMAP_FULL then
    ((NEXT_U16 c data locals.2.1).1, (NEXT_U16 c data locals.2.1).2, locals.2.2)
  else (hdr.stackCount, locals.2.1, locals.2.2)

/-- The operand-stack slots of the frame with header `hdr`. -/
def stackSlots (c : Collaborators) (data : Nat → Nat) (names : ClassNameList)
    (hdr : FrameHeader) : List Nat :=
  expandWide (elementsAt c data (stackSource c data names hdr).1
    (stackSource c data names hdr).2.2 (stackSource c data names hdr).2.1).1

/-- `DecompressReaches c data n st n' st'`: the loop of `decompressStackMaps`, in
state `st` with `n` frames left, stores frames until it is in state `st'` with `n'`
frames left. -/
inductive DecompressReaches (c : Collaborators) (data : Nat → Nat) :
    Nat → DecompressState → Nat → DecompressState → Prop where
  | here (n : Nat) (st : DecompressState) : DecompressReaches c data n st n st
  | step (n : Nat) (st next : DecompressState) (n' : Nat) (st' : DecompressState) :
      decompressFrame c data st = some (FrameOutcome.stored next) →
      DecompressReaches c data n next n' st' → DecompressReaches c data (n + 1) st n' st'

/-- The state in which `decompressStackMaps` enters its loop. -/
def decompressStart (verifyData : VerifyData) (localsCount : Int) (stackMapData : Nat) :
    DecompressState :=
  { verifyData := verifyData, stackMapData := stackMapData, localsCount := localsCount,
    mapPC := UDATA_RANGE - 1, mapIndex := 0, branchTargetStack := 0 }

/-- Dropping one local from `count` locals: one slot is removed and set to `top`,
and when the slot now exposed beneath it holds long or double that slot is removed
and set to `top` as well. -/
def chopOneLocal (count : Int) (stackElements : Int → Nat) : Int × (Int → Nat) :=
  let removed := Function.update stackElements (count - 1) BCV_BASE_TYPE_TOP
  if 0 < count - 1 ∧ isWide (removed (count - 2)) = true then
    (count - 2, Function.update removed (count - 2) BCV_BASE_TYPE_TOP)
  else (count - 1, removed)

/-- Dropping `k` locals one after the other. -/
def chopSpec : Nat → Int → (Int → Nat) → Int × (Int → Nat)
  | 0, count, stackElements => (count, stackElements)
  | k + 1, count, stackElements =>
    chopSpec k (chopOneLocal count stackElements).1 (chopOneLocal count stackElements).2

/-- Every PC flagged `BRANCH_TARGET` in the map has exactly one frame in the store
with that `pc`, and the index packed in the map entry is the index of that frame. -/
def FrameStoreMatches (bytecodeMap : List Nat) (stackMaps : List J9BranchTargetStack) : Prop :=
  ∀ pc : Nat, hasBranchTarget (bytecodeMap.getD pc 0) = true →
    (∃ f, stackMaps[bytecodeMap.getD pc 0 >>> BRANCH_INDEX_SHIFT]? = some f ∧ f.pc = pc) ∧
    ∀ k f, stackMaps[k]? = some f → f.pc = pc → k = bytecodeMap.getD pc 0 >>> BRANCH_INDEX_SHIFT

/-! ## The root queues, stated without head and tail arithmetic -/

/-- The entries read from a ring of `slots` slots by `count` successive reads
starting at `head`. -/
def pendingFrom (queue : List Nat) (slots : Nat) : Nat → Nat → List Nat
  | 0, _ => []
  | count + 1, head => queue.getD head 0 :: pendingFrom queue slots count ((head + 1) % slots)

/-- The PCs waiting in a ring, oldest first: the entries from `head` up to `tail`. -/
def pending (queue : List Nat) (slots head tail : Nat) : List Nat :=
  pendingFrom queue slots ((tail + slots - head) % slots) head

/-- The PCs waiting in the unwalked queue. -/
def pendingUnwalked (verifyData : VerifyData) : List Nat :=
  pending verifyData.unwalkedQueue (queueSlots verifyData) verifyData.unwalkedQueueHead
    verifyData.unwalkedQueueTail

/-- The PCs waiting in the rewalk queue. -/
def pendingRewalk (verifyData : VerifyData) : List Nat :=
  pending verifyData.rewalkQueue (queueSlots verifyData) verifyData.rewalkQueueHead
    verifyData.rewalkQueueTail

/-- Head and tail of a ring are inside it and one more entry does not make the tail
meet the head. -/
def RingHasRoom (queue : List Nat) (slots head tail : Nat) : Prop :=
  head < slots ∧ tail < slots ∧ slots ≤ queue.length ∧ slots < UDATA_RANGE ∧
    (tail + 1) % slots ≠ head

/-- One step of the walk of `simulateStack` as far as the bytecode map, the frame
store and the queues are concerned: an instruction is simulated (only the live
frame and the class-name list change), `mergeStacks` is called for some target, or
the queues are serviced at `_checkFinished`. -/
inductive WalkStep (o : ClassOracle) : VerifyData → VerifyData → Prop where
  | simulate (verifyData : VerifyData) (liveStack : J9BranchTargetStack)
      (names : ClassNameList) :
      WalkStep o verifyData { verifyData with liveStack := liveStack, classNameList := names }
  | merge (verifyData : VerifyData) (target : Nat) (rc : RC) (next : VerifyData) :
      mergeStacks o verifyData target = some (rc, next) → WalkStep o verifyData next
  | service (verifyData : VerifyData) (fuel pc : Nat) (next : VerifyData) :
      checkFinished fuel verifyData = some (ServiceOutcome.walk pc next) →
      WalkStep o verifyData next
  | drained (verifyData : VerifyData) (fuel : Nat) (next : VerifyData) :
      checkFinished fuel verifyData = some (ServiceOutcome.finished next) →
      WalkStep o verifyData next

/-- The states the walk of `simulateStack` can be in after any number of steps. -/
inductive WalkReaches (o : ClassOracle) : VerifyData → VerifyData → Prop where
  | start (verifyData : VerifyData) : WalkReaches o verifyData verifyData
  | step (verifyData middle next : VerifyData) :
      WalkReaches o verifyData middle → WalkStep o middle next →
      WalkReaches o verifyData next

/-- No entry of the bytecode map carries both queue flags. -/
def OnAtMostOneQueue (bytecodeMap : List Nat) : Prop :=
  ∀ (pc v : Nat), bytecodeMap[pc]? = some v →
    ¬ (v &&& BRANCH_ON_UNWALKED_QUEUE ≠ 0 ∧ v &&& BRANCH_ON_REWALK_QUEUE ≠ 0)

/-- No entry of the bytecode map carries a queue flag, and every entry fits 32
bits: the map as `buildBranchMap` or `decompressStackMaps` leaves it, the cleared
map included. -/
def NoQueueFlags (bytecodeMap : List Nat) : Prop :=
  ∀ v ∈ bytecodeMap, v < U32_RANGE ∧ v &&& BRANCH_ON_UNWALKED_QUEUE = 0 ∧
    v &&& BRANCH_ON_REWALK_QUEUE = 0

/-- The invariant of the walk behind `OnAtMostOneQueue`: entries fit 32 bits, and
an entry flagged for re-walk is not flagged unwalked and indexes a frame that was
reached. -/
def QueueFlagsConsistent (verifyData : VerifyData) : Prop :=
  ∀ (pc v : Nat), verifyData.bytecodeMap[pc]? = some v →
    v < U32_RANGE ∧
    (v &&& BRANCH_ON_REWALK_QUEUE ≠ 0 →
      v &&& BRANCH_ON_UNWALKED_QUEUE = 0 ∧
      ∃ f, verifyData.stackMaps[v >>> BRANCH_INDEX_SHIFT]? = some f ∧ f.stackBaseIndex ≠ -1)

/-! ## The class hierarchy, stated without the loop of mergeClasses -/

/-- The class reached from `clazz` by `k` applications of `SUPERCLASS`. -/
def superclassAt (o : ClassOracle) (clazz : Nat) : Nat → Option Nat
  | 0 => some clazz
  | k + 1 =>
    match SUPERCLASS o clazz with
    | none => none
    | some parent => superclassAt o parent k

/-- The class `ancestor` is `clazz` itself or one of its superclasses: it is reached
from `clazz` within `J9CLASS_DEPTH (clazz)` applications of `SUPERCLASS`. -/
def IsSuperclassOrEqual (o : ClassOracle) (ancestor clazz : Nat) : Prop :=
  ∃ k, k ≤ o.J9CLASS_DEPTH clazz ∧ superclassAt o clazz k = some ancestor

/-- The classes in `classes` form a single-inheritance hierarchy: each class of
depth other than 0 has a superclass in `classes` whose depth is one less, and
there is one class of depth 0, the root. -/
def SingleInheritance (o : ClassOracle) (classes : Nat → Prop) : Prop :=
  (∀ c, classes c → o.J9CLASS_DEPTH c ≠ 0 →
    ∃ p, SUPERCLASS o c = some p ∧ classes p ∧ o.J9CLASS_DEPTH p + 1 = o.J9CLASS_DEPTH c) ∧
  ∀ c d, classes c → classes d → o.J9CLASS_DEPTH c = 0 → o.J9CLASS_DEPTH d = 0 → c = d

/-- The class `common` is the deepest common superclass of `first` and `second`:
it is a superclass of, or equal to, both, and every class with that property is a
superclass of, or equal to, `common` and so is no deeper. -/
def DeepestCommonSuperclass (o : ClassOracle) (common first second : Nat) : Prop :=
  IsSuperclassOrEqual o common first ∧ IsSuperclassOrEqual o common second ∧
  ∀ other, IsSuperclassOrEqual o other first → IsSuperclassOrEqual o other second →
    IsSuperclassOrEqual o other common ∧ o.J9CLASS_DEPTH other ≤ o.J9CLASS_DEPTH common

/-! ## The arena, stated as a list of blocks -/

/-- A block of the chunk: the address of its header, its size in bytes (header
included) and whether it is in use. -/
structure ArenaBlock where
  header : Nat
  size : Nat
  inUse : Bool
  deriving DecidableEq

/-- The low bit of the back pointer in the header of a block in use. -/
def tagBit (inUse : Bool) : Nat := if inUse then 1 else 0

/-- The back-pointer chain below the header at `position`, whose low bit is
`tagBit tag`: the header points to the newest block of the list (newest first) and
so on down to the oldest header, which is at `start` and points to itself; each
block ends where the next header lies. -/
def BackChain (memory : Nat → Nat) (start : Nat) : Nat → Bool → List ArenaBlock → Prop
  | position, tag, [] => position = start ∧ memory position = position ||| tagBit tag
  | position, tag, block :: older =>
    memory position = block.header ||| tagBit tag ∧ block.header + block.size = position ∧
      SIZEOF_UDATA ≤ block.size ∧ block.size % SIZEOF_UDATA = 0 ∧
      BackChain memory start block.header block.inUse older

/-- The word a chain expects at the position it starts from, without the tag. -/
def chainTarget (position : Nat) (blocks : List ArenaBlock) : Nat :=
  match blocks with
  | [] => position
  | block :: _ => block.header

/-- The arena holds a chunk whose blocks, newest first, are `blocks`: the chain
from `currentAlloc` is consistent, the header at `currentAlloc` lies inside the
chunk, and the newest block is in use. -/
def ArenaChain (a : ArenaData) (blocks : List ArenaBlock) : Prop :=
  a.internalBufferStart ≠ 0 ∧ a.internalBufferStart % SIZEOF_UDATA = 0 ∧
    a.currentAlloc < a.internalBufferEnd ∧ a.internalBufferEnd ≤ UDATA_RANGE / 2 ∧
    BackChain a.memory a.internalBufferStart a.currentAlloc false blocks ∧
    ∀ block ∈ blocks.head?, block.inUse = true

/-- The arena is consistent with the list of blocks: it holds no chunk and no
block, or it holds a chunk with a consistent chain. -/
def ArenaConsistent (a : ArenaData) (blocks : List ArenaBlock) : Prop :=
  (a.internalBufferStart = 0 ∧ a.internalBufferEnd = 0 ∧ blocks = []) ∨ ArenaChain a blocks

/-- The headers met by following `count` back pointers from `position`, the low
bit of each pointer ignored. -/
def followPrev (memory : Nat → Nat) : Nat → Nat → List Nat
  | 0, _ => []
  | count + 1, position =>
    (memory position &&& (UDATA_RANGE - 2)) ::
      followPrev memory count (memory position &&& (UDATA_RANGE - 2))

/-- The block with its header at `header` marked as freed. -/
def markFreed (header : Nat) (blocks : List ArenaBlock) : List ArenaBlock :=
  blocks.map fun block => if block.header = header then { block with inUse := false } else block

/-- The blocks left once the newest ones that are freed have been given back. -/
def dropFreed (blocks : List ArenaBlock) : List ArenaBlock :=
  blocks.dropWhile fun block => !block.inUse

/-- The blocks of the chunk after `bcvalloc` returned `result`: a pointer into the
chunk is a new block, the newest. -/
def blocksAfterAlloc (result : Nat × ArenaData) (blocks : List ArenaBlock) : List ArenaBlock :=
  if result.1 ≠ 0 ∧ result.2.internalBufferStart ≤ result.1 ∧
      result.1 < result.2.internalBufferEnd then
    { header := result.1 - SIZEOF_UDATA
      size := result.2.currentAlloc - (result.1 - SIZEOF_UDATA)
      inUse := true } :: blocks
  else blocks

/-- The state `bcvalloc` works on once a chunk was obtained at `chunk`. -/
def withChunk (a : ArenaData) (chunk : Nat) (rest : List Nat) : ArenaData :=
  { a with
    hostResults := rest
    internalBufferStart := chunk
    internalBufferEnd := (chunk + BCV_INTERNAL_DEFAULT_SIZE) % UDATA_RANGE
    currentAlloc := chunk
    memory := Function.update a.memory chunk chunk }

/-- The in-arena branch of `bcvalloc` on a state with a chunk. -/
def carve (a : ArenaData) (size : Nat) : Nat × ArenaData :=
  ((a.currentAlloc + SIZEOF_UDATA) % UDATA_RANGE,
    { a with
      memory := Function.update
        (Function.update a.memory a.currentAlloc (a.memory a.currentAlloc ||| 1))
        ((a.currentAlloc + size) % UDATA_RANGE) a.currentAlloc
      currentAlloc := (a.currentAlloc + size) % UDATA_RANGE })

/-- What is assumed of the host allocator at a call of `bcvalloc`: a chunk it
returns is aligned to `sizeof (UDATA)` and ends in the lower half of the address
space, and a block it returns does not lie inside the chunk. -/
def HostSane (a : ArenaData) : Prop :=
  if a.internalBufferStart = 0 then
    match a.hostResults with
    | [] => True
    | chunk :: rest =>
      chunk % SIZEOF_UDATA = 0 ∧ chunk + BCV_INTERNAL_DEFAULT_SIZE ≤ UDATA_RANGE / 2 ∧
        ∀ address ∈ rest.head?, address < chunk ∨ chunk + BCV_INTERNAL_DEFAULT_SIZE ≤ address
  else
    ∀ address ∈ a.hostResults.head?,
      address < a.internalBufferStart ∨ a.internalBufferEnd ≤ address

/-- The states of the arena reached from one without a chunk by calls of
`bcvalloc` for fewer than `2 ^ 62` bytes and calls of `bcvfree` on blocks that are
in use or lie outside the chunk, each with the list of the blocks of the chunk, newest first. -/
inductive ArenaReaches : ArenaData → List ArenaBlock → Prop where
  | fresh (a : ArenaData) :
      a.internalBufferStart = 0 → a.internalBufferEnd = 0 → ArenaReaches a []
  | alloc (a : ArenaData) (blocks : List ArenaBlock) (byteCount : Nat) :
      ArenaReaches a blocks → byteCount < UDATA_RANGE / 4 → HostSane a →
      ArenaReaches (bcvalloc a byteCount).2 (blocksAfterAlloc (bcvalloc a byteCount) blocks)
  | freeBlock (a : ArenaData) (blocks : List ArenaBlock) (block : ArenaBlock) (fuel : Nat)
      (next : ArenaData) :
      ArenaReaches a blocks → block ∈ blocks → block.inUse = true →
      bcvfree fuel a (block.header + SIZEOF_UDATA) = some next →
      ArenaReaches next (dropFreed (markFreed block.header blocks))
  | freeOutside (a : ArenaData) (blocks : List ArenaBlock) (fuel address : Nat)
      (next : ArenaData) :
      ArenaReaches a blocks →
      (address ≥ a.internalBufferEnd ∨ address < a.internalBufferStart) →
      bcvfree fuel a address = some next → ArenaReaches next blocks

/-! ## The lattice order -/

/-- The lattice order on the words of a frame, read with the class-name list
`names`: a word is below itself, `top` is above every word, `null` is below every
reference, and a reference is below a reference it is assignable to according to
`isClassCompatible`.  A reference is a word without a bit of `BCV_BASE_OR_SPECIAL`. -/
def LatticeLe (o : ClassOracle) (names : ClassNameList) (lower upper : Nat) : Prop :=
  lower = upper ∨ upper = BCV_BASE_TYPE_TOP ∨
    (lower = BCV_BASE_TYPE_NULL ∧ upper &&& BCV_BASE_OR_SPECIAL = 0) ∨
    (lower &&& BCV_BASE_OR_SPECIAL = 0 ∧ upper &&& BCV_BASE_OR_SPECIAL = 0 ∧
      (o.isClassCompatible names lower upper).1 = true)

/-- The class-name lists that `findClassName` makes of the list `names` in any
number of calls for the name of a class of `classes`. -/
inductive Later (o : ClassOracle) (classes : Nat → Prop) (names : ClassNameList) :
    ClassNameList → Prop
  | same : Later o classes names names
  | interned (current : ClassNameList) (clazz : Nat) :
      classes clazz → Later o classes names current →
      Later o classes names (o.findClassName current (o.className clazz)).2

/-- What is assumed of the class lookups, for the class-name lists that come after
`names` and the classes of `classes`. -/
structure LookupsSound (o : ClassOracle) (classes : Nat → Prop) (names : ClassNameList) :
    Prop where
  /-- The classes form a single-inheritance hierarchy. -/
  hierarchy : SingleInheritance o classes
  /-- Every name of the list loads. -/
  loads : ∀ current, Later o classes names current → ∀ (i : Nat) (name : List Nat),
    current[i]? = some name →
    ∃ clazz, o.j9rtv_verifierGetRAMClass name = Except.ok clazz ∧ classes clazz ∧
      classes (o.J9_CURRENT_CLASS clazz)
  /-- A type that is assignable to another one stays so when a name is interned. -/
  stable : ∀ current, Later o classes names current →
    ∀ (clazz : Nat) (sourceType targetType : Nat), classes clazz →
    (o.isClassCompatible current sourceType targetType).1 = true →
    (o.isClassCompatible (o.findClassName current (o.className clazz)).2 sourceType
      targetType).1 = true
  /-- The type `null` is assignable to every reference. -/
  nullBelow : ∀ current, Later o classes names current → ∀ targetType : Nat,
    targetType &&& BCV_BASE_OR_SPECIAL = 0 →
    (o.isClassCompatible current BCV_BASE_TYPE_NULL targetType).1 = true
  /-- A reference is assignable to `java/lang/Object` of its own arity or less, a
  base-type array counting as an array of `java/lang/Object`. -/
  objectAbove : ∀ current, Later o classes names current → ∀ sourceType arity : Nat,
    sourceType &&& BCV_BASE_OR_SPECIAL = 0 → arity &&& BCV_ARITY_MASK = arity →
    arity ≤ decayBaseArray sourceType &&& BCV_ARITY_MASK →
    (o.isClassCompatible current sourceType
      ((arity ||| ((BCV_JAVA_LANG_OBJECT_INDEX <<< BCV_CLASS_INDEX_SHIFT) % UDATA_RANGE)) %
        UDATA_RANGE)).1 = true
  /-- A reference is assignable to the type of the same arity made of the index
  `findClassName` gives the name of a superclass of its class. -/
  superclassAbove : ∀ current, Later o classes names current →
    ∀ (sourceType : Nat) (name : List Nat) (clazz ancestor : Nat),
    sourceType &&& BCV_BASE_OR_SPECIAL = 0 →
    current[(decayBaseArray sourceType &&& BCV_CLASS_INDEX_MASK) >>> BCV_CLASS_INDEX_SHIFT]? =
      some name →
    o.j9rtv_verifierGetRAMClass name = Except.ok clazz →
    IsSuperclassOrEqual o ancestor clazz ∨
      IsSuperclassOrEqual o ancestor (o.J9_CURRENT_CLASS clazz) →
    (o.isClassCompatible (o.findClassName current (o.className ancestor)).2 sourceType
      (((decayBaseArray sourceType &&& BCV_ARITY_MASK) |||
        (((o.findClassName current (o.className ancestor)).1 <<< BCV_CLASS_INDEX_SHIFT) %
          UDATA_RANGE)) % UDATA_RANGE)).1 = true

/-- In the slot, the code keeps the word of the stored frame although the word of
the live frame differs from it and one of the two is primitive or special: the slot
is on the operand stack, or the stored word carries a special marker. -/
def KeepsStoredWord (stackBaseIndex : Int) (index : Nat) (sourceItem targetItem merged : Nat) :
    Prop :=
  sourceItem ≠ targetItem ∧ (sourceItem ||| targetItem) &&& BCV_BASE_OR_SPECIAL ≠ 0 ∧
    merged = targetItem ∧ (stackBaseIndex ≤ (index : Int) ∨ targetItem &&& BCV_SPECIAL ≠ 0)

/-! ## simulateStack, stated without its loops -/

/-- The targets that a `tableswitch` at offset `start` names, in the order default,
then the `high - low + 1` table entries from the last to the first; each is `start`
plus the signed 32-bit offset. -/
def tableSwitchTargets (c : Collaborators) (code : Nat → Nat) (start : Nat) : List Nat :=
  let low := toI32 (PARAM_32 c code (switchBase start + 4) 0)
  let high := toI32 (PARAM_32 c code (switchBase start + 8) 0)
  toUDATA ((start : Int) + toI32 (PARAM_32 c code (switchBase start) 0)) ::
    (List.range (high - low + 1).toNat).reverse.map fun i =>
      toUDATA ((start : Int) + toI32 (PARAM_32 c code (switchBase start + 12 + 4 * i) 0))

/-- The targets that a `lookupswitch` at offset `start` names: the default, then the
targets of its pairs from the first to the last. -/
def lookupSwitchTargets (c : Collaborators) (code : Nat → Nat) (start : Nat) : List Nat :=
  let npairs := toI32 (PARAM_32 c code (switchBase start + 4) 0)
  toUDATA ((start : Int) + toI32 (PARAM_32 c code (switchBase start) 0)) ::
    (List.range npairs.toNat).map fun i =>
      toUDATA ((start : Int) + toI32 (PARAM_32 c code (switchBase start + 12 + 8 * i) 0))

/-- The live frame merged into each of a list of targets, one call of `mergeStacks`
after the other, followed by `goto _checkFinished`; a call that runs out of memory
ends the run. -/
def mergeAll (o : ClassOracle) (start : Int) : List Nat → VerifyData → List Nat → Option CaseResult
  | [], verifyData, merged => some ⟨CaseExit.checkFinished, verifyData, merged⟩
  | target :: rest, verifyData, merged =>
    match mergeOrOutOfMemory o verifyData target start with
    | none => none
    | some (Except.error verifyData) =>
      some ⟨CaseExit.returned RC.BCV_ERR_INSUFFICIENT_MEMORY, verifyData, merged ++ [target]⟩
    | some (Except.ok verifyData) => mergeAll o start rest verifyData (merged ++ [target])

/-- The frame stored for the target `pc` has been reached. -/
def Reached (verifyData : VerifyData) (pc : Nat) : Prop :=
  ∃ v f, verifyData.bytecodeMap[pc]? = some v ∧
    verifyData.stackMaps[v >>> BRANCH_INDEX_SHIFT]? = some f ∧ f.stackBaseIndex ≠ -1

/-! ## The rings during the walk of simulateStack -/

/-- One step of the walk of `simulateStack` as far as the rings are concerned, with
what the source fixes about it.  Simulating an instruction writes the slots and
`stackTopIndex` of the live frame and may add class names; `stackBaseIndex` of the
live frame is written by `j9bcv_verifyBytecodes` only.  `mergeStacks` is called for
a PC that carries `BRANCH_TARGET`: a handler PC, the PC of the instruction when it
is flagged, the target of a branch or the target of a switch.  At `_checkFinished`
the queues are serviced: a frame is loaded, or both queues are empty. -/
inductive SimulateStep (o : ClassOracle) : VerifyData → VerifyData → Prop where
  | simulate (verifyData : VerifyData) (liveStack : J9BranchTargetStack)
      (names : ClassNameList) :
      liveStack.stackBaseIndex = verifyData.liveStack.stackBaseIndex →
      SimulateStep o verifyData { verifyData with liveStack := liveStack, classNameList := names }
  | merge (verifyData : VerifyData) (target : Nat) (rc : RC) (next : VerifyData) :
      FlaggedAt verifyData.bytecodeMap target →
      mergeStacks o verifyData target = some (rc, next) → SimulateStep o verifyData next
  | service (verifyData : VerifyData) (fuel pc : Nat) (next : VerifyData) :
      checkFinished fuel verifyData = some (ServiceOutcome.walk pc next) →
      SimulateStep o verifyData next
  | drained (verifyData : VerifyData) (fuel : Nat) (next : VerifyData) :
      checkFinished fuel verifyData = some (ServiceOutcome.finished next) →
      SimulateStep o verifyData next

/-- The states `simulateStack` can be in after any number of steps. -/
inductive SimulateReaches (o : ClassOracle) : VerifyData → VerifyData → Prop where
  | start (verifyData : VerifyData) : SimulateReaches o verifyData verifyData
  | step (verifyData middle next : VerifyData) :
      SimulateReaches o verifyData middle → SimulateStep o middle next →
      SimulateReaches o verifyData next

/-- The state in which the walk of `simulateStack` begins.  The four ring indices
have been set to 0; the frame store holds `stackMapsCount` frames, one for each
flagged PC, as the initialisation loop of `j9bcv_verifyBytecodes` leaves it; each
ring has `rootQueueSize / sizeof (UDATA)` slots, at least `stackMapsCount + 1` as
`j9bcv_verifyBytecodes` sizes them, and `rootQueueSize` is a `UDATA`; no entry of
the map carries a queue flag; the live frame has the `stackBaseIndex` that
`j9bcv_verifyBytecodes` gave it, which is an index of a slot. -/
def RingsAtEntry (verifyData : VerifyData) : Prop :=
  verifyData.unwalkedQueueHead = 0 ∧ verifyData.unwalkedQueueTail = 0 ∧
  verifyData.rewalkQueueHead = 0 ∧ verifyData.rewalkQueueTail = 0 ∧
  verifyData.stackMaps.length = verifyData.stackMapsCount ∧
  verifyData.stackMapsCount + 1 ≤ queueSlots verifyData ∧
  queueSlots verifyData ≤ verifyData.unwalkedQueue.length ∧
  queueSlots verifyData ≤ verifyData.rewalkQueue.length ∧
  verifyData.rootQueueSize < UDATA_RANGE ∧
  NoQueueFlags verifyData.bytecodeMap ∧
  FrameStoreMatches verifyData.bytecodeMap verifyData.stackMaps ∧
  verifyData.liveStack.stackBaseIndex ≠ -1

/-- The entry of `pc` in the bytecode map carries the flag `flag`. -/
def HasFlag (bytecodeMap : List Nat) (pc flag : Nat) : Prop :=
  ∃ v, bytecodeMap[pc]? = some v ∧ v &&& flag ≠ 0

/-- What holds of the rings in every state of the walk.  The rings are as large as
sized and the indices are inside them; the frame store matches the map, whose
entries fit 32 bits; the live frame has a `stackBaseIndex`; a PC whose entry carries
a queue flag has a frame that was reached; the PCs waiting in the unwalked queue
are distinct, flagged and reached; the PCs waiting in the rewalk queue are
distinct, flagged and carry `BRANCH_ON_REWALK_QUEUE`. -/
structure RingInvariant (verifyData : VerifyData) : Prop where
  frames : verifyData.stackMaps.length = verifyData.stackMapsCount
  slots : verifyData.stackMapsCount + 1 ≤ queueSlots verifyData
  unwalkedLength : queueSlots verifyData ≤ verifyData.unwalkedQueue.length
  rewalkLength : queueSlots verifyData ≤ verifyData.rewalkQueue.length
  word : queueSlots verifyData < UDATA_RANGE
  unwalkedHead : verifyData.unwalkedQueueHead < queueSlots verifyData
  unwalkedTail : verifyData.unwalkedQueueTail < queueSlots verifyData
  rewalkHead : verifyData.rewalkQueueHead < queueSlots verifyData
  rewalkTail : verifyData.rewalkQueueTail < queueSlots verifyData
  store : FrameStoreMatches verifyData.bytecodeMap verifyData.stackMaps
  entries : ∀ (pc v : Nat), verifyData.bytecodeMap[pc]? = some v → v < U32_RANGE
  live : verifyData.liveStack.stackBaseIndex ≠ -1
  queued : ∀ (pc : Nat),
    HasFlag verifyData.bytecodeMap pc BRANCH_ON_UNWALKED_QUEUE ∨
      HasFlag verifyData.bytecodeMap pc BRANCH_ON_REWALK_QUEUE → Reached verifyData pc
  unwalkedDistinct : (pendingUnwalked verifyData).Nodup
  unwalkedReached : ∀ pc ∈ pendingUnwalked verifyData,
    FlaggedAt verifyData.bytecodeMap pc ∧ Reached verifyData pc
  rewalkDistinct : (pendingRewalk verifyData).Nodup
  rewalkFlagged : ∀ pc ∈ pendingRewalk verifyData,
    FlaggedAt verifyData.bytecodeMap pc ∧
      HasFlag verifyData.bytecodeMap pc BRANCH_ON_REWALK_QUEUE

/-! ## Concrete inputs used to exercise the definitions -/

/-- A size table with the entries of `nop`, `ifeq`, `goto`, `tableswitch`,
`lookupswitch`, `return` and `goto_w`; every other opcode is unknown. -/
def exampleSizeTable (bc : Nat) : Nat :=
  if bc = 0 then 0x01 else if bc = 153 then 0x13 else if bc = 167 then 0x23
  else if bc = 170 then 0x50 else if bc = 171 then 0x50 else if bc = 177 then 0x01
  else if bc = 200 then 0x25 else 0

/-- Collaborators for the examples: little-endian bytecode operands, big-endian
stack-map words, element tags decoded as in the class-file format. -/
def exampleCollaborators : Collaborators where
  J9JavaInstructionSizeAndBranchActionTable := exampleSizeTable
  bytecodeBigEndian := false
  stackMapBigEndian := true
  verificationTokenDecode := fun tag =>
    if tag = 0 then BCV_BASE_TYPE_TOP else if tag = 1 then 0x11 else if tag = 2 then 0x21
    else if tag = 3 then BCV_BASE_TYPE_DOUBLE else if tag = 4 then BCV_BASE_TYPE_LONG
    else if tag = 5 then 2 else 0
  initObjectType := fun names => (BCV_SPECIAL_INIT, names)
  pushClassType := fun names cpIndex => (cpIndex <<< BCV_CLASS_INDEX_SHIFT, names)

/-- A method made of the given bytes and handlers. -/
def exampleMethod (code : List Nat) (handlers : List J9ExceptionHandler) : J9ROMMethod where
  bytecodes := fun i => code.getD i 0
  bytecodeSize := code.length
  hasExceptionInfo := true
  handlers := handlers
  maxStack := 2
  argCount := 1
  tempCount := 1
  isNative := false
  isAbstract := false
  stackMapInfo := none

/-- A frame with the given shape whose slots are read from a list (`top` elsewhere). -/
def exampleFrame (pc : Nat) (base top : Int) (slots : List Nat) : J9BranchTargetStack where
  pc := pc
  uninitializedThis := false
  stackBaseIndex := base
  stackTopIndex := top
  stackElements := fun i => if 0 ≤ i then slots.getD i.toNat BCV_BASE_TYPE_TOP else 0

/-- Verifier state at the start of a method with a cleared bytecode map. -/
def exampleVerifyData (m : J9ROMMethod) : VerifyData where
  romMethod := m
  bytecodeMap := List.replicate m.bytecodeSize 0
  stackMapsCount := 0
  stackMaps := []
  liveStack := exampleFrame 0 0 0 []
  classNameList := []
  errorPC := 0
  errorModule := 0
  errorCode := 0
  errorDetailCode := DetailCode.none
  errorCurrentFramePosition := 0
  errorTempData := 0
  ignoreStackMaps := false
  createdStackMap := false

/-- The method `ifeq +4; nop; goto -4; return` with a handler at 7 for the range
starting at 0 and a handler at 3 that protects itself. -/
def branchyMethod : J9ROMMethod :=
  exampleMethod [153, 4, 0, 0, 167, 0xfc, 0xff, 177] [⟨0, 4, 7, 0⟩, ⟨3, 4, 3, 0⟩]

/-- A method of 20 `nop` bytes with `maxStack = 2`, one argument and three
temporaries. -/
def mappedMethod : J9ROMMethod :=
  { exampleMethod (List.replicate 20 0) [] with maxStack := 2, argCount := 1, tempCount := 3 }

/-- Verifier state before `decompressStackMaps` for `mappedMethod` with `count`
frames to decode: a cleared bytecode map, `count` unused frames in the store and a
live stack holding one reference argument and three `top` temporaries. -/
def mappedVerifyData (count : Nat) : VerifyData :=
  { exampleVerifyData mappedMethod with
    stackMapsCount := count
    stackMaps := (List.range count).map fun n => exampleFrame 99 (-7) (-7) [1000 + n]
    liveStack := exampleFrame 0 4 4 [0x70, 1, 1, 1] }

/-- A stack-map attribute given by its bytes. -/
def mapBytes (bytes : List Nat) : Nat → Nat := fun i => bytes.getD i 0

/-- The state after a stored frame, or the given state when no frame is stored. -/
def nextOrSelf (outcome : Option FrameOutcome) (st : DecompressState) : DecompressState :=
  match outcome with
  | some (FrameOutcome.stored next) => next
  | _ => st

/-- The verifier state after `decompressStackMaps`, or the given state when there
is no result. -/
def stateAfter (result : Option (RC × VerifyData)) (verifyData : VerifyData) : VerifyData :=
  match result with
  | some (_, after) => after
  | none => verifyData

/-- Two frames: same-locals-1-stack with delta 2 and an `int` on the stack, then a
same frame with tag 3. -/
def sameFrameBytes : List Nat := [66, 1, 3]

/-- The loop state before the second frame of `sameFrameBytes`. -/
def sameFrameState : DecompressState :=
  nextOrSelf (decompressFrame exampleCollaborators (mapBytes sameFrameBytes)
    (decompressStart (mappedVerifyData 2) 1 0)) (decompressStart (mappedVerifyData 2) 1 0)

/-- Two frames: append one `long` local at PC 5, then chop one local. -/
def chopFrameBytes : List Nat := [252, 0, 5, 4, 250, 0, 1]

/-- The loop state before the second frame of `chopFrameBytes`. -/
def chopFrameState : DecompressState :=
  nextOrSelf (decompressFrame exampleCollaborators (mapBytes chopFrameBytes)
    (decompressStart (mappedVerifyData 2) 1 0)) (decompressStart (mappedVerifyData 2) 1 0)

/-- One frame: append two locals, a `long` and an `int`, at PC 5. -/
def appendFrameBytes : List Nat := [253, 0, 5, 4, 1]

/-- One frame: a full frame at PC 5 with the locals `int`, `double` and the stack
`long`. -/
def fullFrameBytes : List Nat := [255, 0, 5, 0, 2, 1, 3, 0, 1, 4]

/-- One frame: append three locals `long`, `long`, `int` at PC 5; the second
`long` does not fit below `maxLocals = 4`. -/
def localsOverflowBytes : List Nat := [254, 0, 5, 4, 4, 1]

/-- One frame: a full frame at PC 5 without locals and with the stack `long`, `int`;
the `int` does not fit on a stack of `maxStack = 2`. -/
def stackOverflowBytes : List Nat := [255, 0, 5, 0, 0, 0, 2, 4, 1]

/-- A stack-map attribute of one frame, as stored with the method: the frame count
followed by a chop of two locals at PC 5. -/
def chopTwoAttribute : List Nat := [0, 1, 249, 0, 5]

/-- `mappedMethod` carrying the stack-map attribute `chopTwoAttribute`. -/
def chopTwoMethod : J9ROMMethod :=
  { mappedMethod with stackMapInfo := some (mapBytes chopTwoAttribute) }

/-- A class of version 50 that ships stack maps and has the single method
`chopTwoMethod`. -/
def chopTwoClass : J9ROMClass :=
  { romMethods := [chopTwoMethod], hasVerifyData := true, majorVersion := 50 }

/-- Passes for the examples: the simulator and the second pass succeed without
touching the state, every allocation succeeds, and the signature walker leaves one
reference argument and three `top` temporaries in the live stack. -/
def examplePasses : Passes where
  simulateStack := fun verifyData => (RC.BCV_SUCCESS, verifyData)
  j9rtv_verifyBytecodes := fun verifyData => (RC.BCV_SUCCESS, verifyData)
  buildStackFromMethodSignature := fun verifyData =>
    (false, 4, 1, { verifyData with liveStack := exampleFrame 0 0 0 [0x70, 1, 1, 1] })
  initializeClassNameList := fun verifyData => verifyData
  RESET_VERIFY_ERROR := fun verifyData => { verifyData with errorDetailCode := DetailCode.none }
  allocLiveStack := fun verifyData => some verifyData.liveStack
  allocBytecodeMap := fun _ => true
  allocStackMaps := fun _ => some fun n => exampleFrame 99 (-7) (-7) [1000 + n]
  allocRootQueues := fun _ => (some fun _ => 0, some fun _ => 0)

/-- Default verification flags: stack maps are used and fallback is allowed. -/
def exampleFlags : VerificationFlags :=
  { ignoreStackMaps := false, noFallback := false, verboseVerification := false }

/-- The driver state when the method loop arrives at `romMethod`. -/
def exampleDriverState (romMethod : J9ROMMethod) : DriverState :=
  { result := RC.BCV_SUCCESS, verifyData := exampleVerifyData romMethod, events := [] }

/-- The state and attribute that `prepareMaps` hands on, or the given state. -/
def preparedOrSelf (r : Option (Except VerifyData (VerifyData × MapSource)))
    (verifyData : VerifyData) : VerifyData × MapSource :=
  match r with
  | some (Except.ok prepared) => prepared
  | _ => (verifyData, ⟨fun _ => 0, 0⟩)

/-- The state and signature information that `setUpFrames` hands on, or the given
state. -/
def framesOrSelf (r : Option (Except VerifyData (VerifyData × SignatureInfo)))
    (verifyData : VerifyData) : VerifyData × SignatureInfo :=
  match r with
  | some (Except.ok ready) => ready
  | _ => (verifyData, ⟨false, 0⟩)

/-- What `prepareMaps` hands on for `chopTwoMethod`. -/
def chopTwoPrepared : VerifyData × MapSource :=
  preparedOrSelf
    (prepareMaps exampleCollaborators chopTwoClass (exampleDriverState chopTwoMethod).verifyData)
    (exampleDriverState chopTwoMethod).verifyData

/-- What `setUpFrames` hands on for `chopTwoMethod`. -/
def chopTwoReady : VerifyData × SignatureInfo :=
  framesOrSelf (setUpFrames examplePasses false chopTwoPrepared.1) chopTwoPrepared.1

/-- The method `nop; <opcode 99>; nop`, whose second opcode has no size-table
entry. -/
def unknownOpcodeMethod : J9ROMMethod := exampleMethod [0, 99, 0] []

/-- A class of version 50 without stack maps whose first method is
`unknownOpcodeMethod`. -/
def unknownOpcodeClass : J9ROMClass :=
  { romMethods := [unknownOpcodeMethod, branchyMethod], hasVerifyData := false,
    majorVersion := 50 }

/-- A hierarchy of three classes: `O` (class 0, the root), `A` (class 1) and `B`
(class 2), both direct subclasses of `O`; a type is compatible with itself, `null`
with every type and every type with the root; no lookup fails; only local 0 is
live. -/
def exampleOracle : ClassOracle where
  isClassCompatible := fun _ sourceType targetType =>
    (decide (sourceType = targetType ∨ sourceType = BCV_BASE_TYPE_NULL ∨ targetType = 0),
      RC.BCV_SUCCESS)
  findClassName := fun names name =>
    if names.indexOf name < names.length then (names.indexOf name, names)
    else (names.length, names ++ [name])
  j9rtv_verifierGetRAMClass := fun name =>
    if name = [79] then Except.ok 0 else if name = [65] then Except.ok 1
    else if name = [66] then Except.ok 2 else Except.error RC.BCV_ERR_INTERNAL_ERROR
  J9_CURRENT_CLASS := fun clazz => clazz
  J9CLASS_DEPTH := fun clazz => if clazz = 0 then 0 else 1
  superclasses := fun clazz i => if clazz ≠ 0 ∧ i = 0 then some 0 else none
  className := fun clazz => if clazz = 0 then [79] else if clazz = 1 then [65] else [66]
  j9localmap_LocalBitsForPC := fun _ _ => (0, 1)

/-- The oracle `exampleOracle` with a compatibility lookup that always fails with
the given reason code. -/
def failingOracle (reasonCode : RC) : ClassOracle :=
  { exampleOracle with isClassCompatible := fun _ _ _ => (false, reasonCode) }

/-- Verifier state in the middle of a walk of a method of four `nop` bytes with two
locals: PC 0 has frame 0, reached, holding `int` and `A` in the locals and `A` on
the stack; PC 2 has frame 1, never reached; the live frame holds `A`, `B` and `B`;
both rings have three slots and are empty. -/
def mergeVerifyData : VerifyData :=
  { exampleVerifyData (exampleMethod [0, 0, 0, 0] []) with
    bytecodeMap := [0x01, 0, 0x11, 0]
    stackMapsCount := 2
    stackMaps := [exampleFrame 0 2 3 [0x11, 0x10, 0x10], exampleFrame 2 (-1) (-1) []]
    liveStack := exampleFrame 1 2 3 [0x10, 0x20, 0x20]
    classNameList := [[79], [65], [66]]
    unwalkedQueue := [0, 0, 0]
    rewalkQueue := [0, 0, 0]
    rootQueueSize := 24 }

/-- The state `mergeVerifyData` with a live frame one slot lower than frame 0. -/
def depthMismatchData : VerifyData :=
  { mergeVerifyData with liveStack := exampleFrame 1 2 2 [0x10, 0x20] }

/-- The state after a call of `mergeStacks`, or the given state when the call does
not return. -/
def mergedOrSelf (result : Option (RC × VerifyData)) (verifyData : VerifyData) : VerifyData :=
  match result with
  | some (_, after) => after
  | none => verifyData

/-- Verifier state of a constructor after the walk: frame 0 was reached and holds
*uninitialized-this* of class 1 in local 0 under an empty operand stack; frame 1
was never reached. -/
def initThisData : VerifyData :=
  { exampleVerifyData (exampleMethod [0, 0, 0, 0] []) with
    stackMapsCount := 2
    stackMaps := [exampleFrame 0 1 1 [0x14], exampleFrame 2 (-1) (-1) []] }

/-- An arena without a chunk; the host allocator will return a chunk at 4096 and
then a block at 65536. -/
def exampleArena : ArenaData where
  internalBufferStart := 0
  internalBufferEnd := 0
  currentAlloc := 0
  memory := fun _ => 0
  hostResults := [4096, 65536]
  hostFreed := []

/-- The arena `exampleArena` after two calls of `bcvalloc` for 8 bytes: the chunk
holds the blocks at 4096 and 4112, and `currentAlloc` is 4128. -/
def twoBlocks : ArenaData := (bcvalloc (bcvalloc exampleArena 8).2 8).2

/-- The blocks of `twoBlocks`, newest first. -/
def twoBlocksList : List ArenaBlock :=
  [{ header := 4112, size := 16, inUse := true }, { header := 4096, size := 16, inUse := true }]

/-- The state after a call of `bcvfree`, or the given state when the call does not
return. -/
def freedOrSelf (result : Option ArenaData) (a : ArenaData) : ArenaData :=
  match result with
  | some next => next
  | none => a

/-- Collaborators of the sends: the constant-pool entry 1 is `<init>()V`, every
other one is a method `f()I`; no send takes arguments; `getSpecialType` gives an
*uninitialized-this* marker the class it carries and any other marker the class
`B`. -/
def exampleSends : SendCollaborators where
  JBinvokeinterface2 := 231
  JBinvokestatic := 184
  JBinvokestaticsplit := 232
  JBinvokespecial := 183
  JBinvokespecialsplit := 233
  JBinvokedynamic := 186
  staticSplitMethodRefIndex := fun index => index
  specialSplitMethodRefIndex := fun index => index
  callSiteSignature := fun _ => [40, 41, 73]
  methodRefSignature := fun index => if index = 1 then [40, 41, 86] else [40, 41, 73]
  methodRefNameFirstByte := fun index => if index = 1 then 60 else 102
  getSendSlotsFromSignature := fun _ => 0
  getSpecialType := fun names type =>
    (if type &&& BCV_SPECIAL_INIT ≠ 0 then type &&& BCV_CLASS_INDEX_MASK else 0x20, names)
  pushReturnType := fun names signature =>
    (if signature.getLast? = some 86 then [] else [BCV_BASE_TYPE_INT], names)

/-- Verifier state in the constructor `aload_0; invokespecial #1; return` of class
1, at the `invokespecial`: local 0 and the top of the stack hold
*uninitialized-this*. -/
def constructorData : VerifyData :=
  { exampleVerifyData (exampleMethod [42, 183, 1, 0, 177] []) with
    liveStack := exampleFrame 1 1 2 [0x14, 0x14] }

/-- The state `constructorData` with the class `A` in local 0 and on the stack in
place of *uninitialized-this*. -/
def initializedData : VerifyData :=
  { exampleVerifyData (exampleMethod [42, 183, 1, 0, 177] []) with
    liveStack := exampleFrame 1 1 2 [0x10, 0x10] }

/-- The oracle `exampleOracle` with a compatibility lookup that knows arrays: a
type is assignable to itself, `null` to every type, and a type to
`java/lang/Object` of its own arity or less and to the type made of its own class
and arity, a base-type array counting as an array of `java/lang/Object`. -/
def latticeOracle : ClassOracle :=
  { exampleOracle with
    isClassCompatible := fun _ sourceType targetType =>
      (decide (sourceType = targetType ∨ sourceType = BCV_BASE_TYPE_NULL ∨
          (targetType &&& BCV_ARITY_MASK = targetType ∧
            targetType ≤ decayBaseArray sourceType &&& BCV_ARITY_MASK) ∨
          targetType = decayBaseArray sourceType &&& (BCV_ARITY_MASK ||| BCV_CLASS_INDEX_MASK)),
        RC.BCV_SUCCESS) }

/-- The state `mergeVerifyData` with a live frame that holds `int`, `A` and, on the
operand stack, `int`, where frame 0 holds `int`, `A` and `A`. -/
def mixedStackData : VerifyData :=
  { mergeVerifyData with liveStack := exampleFrame 1 2 3 [0x11, 0x10, 0x11] }

/-- A state whose live stack has one local holding a reference, three more local
slots and the operand stack from slot 4 on. -/
def roundTripData : VerifyData :=
  { exampleVerifyData (exampleMethod [0] []) with
    liveStack := exampleFrame 0 4 4 [0x20, 0x11, 0x11, 0x11, 0x11] }

/-- The stack-map entries `long` and `int`. -/
def roundTripBytes : List Nat := [4, 1]

/-- The passes of `examplePasses` with a simulator and a second pass that both
report a verification failure. -/
def failingPasses : Passes :=
  { examplePasses with
    simulateStack := fun verifyData => (RC.BCV_FAIL, verifyData)
    j9rtv_verifyBytecodes := fun verifyData => (RC.BCV_FAIL, verifyData) }

/-- A class of version 50 without stack maps whose single method is
`branchyMethod`. -/
def branchyClass : J9ROMClass :=
  { romMethods := [branchyMethod], hasVerifyData := false, majorVersion := 50 }

/-- What a run of the driver leaves to look at: the result, the events and the
field `ignoreStackMaps`. -/
def runSummary (r : Option DriverState) : Option (RC × List Event × Bool) :=
  r.map fun ds => (ds.result, ds.events, ds.verifyData.ignoreStackMaps)

/-- Flag constants, one bit each. -/
def exampleOptionFlags : OptionFlags where
  J9_RUNTIME_XFUTURE := 0x1
  J9_VERIFY_SKIP_BOOTSTRAP_CLASSES := 0x1
  J9_VERIFY_OPTIMIZE := 0x2
  J9_VERIFY_NO_FALLBACK := 0x4
  J9_VERIFY_IGNORE_STACK_MAPS := 0x8
  J9_VERIFY_EXCLUDE_ATTRIBUTE := 0x10
  J9_VERIFY_BOOTCLASSPATH_STATIC := 0x20
  J9_VERIFY_DO_PROTECTED_ACCESS_CHECK := 0x40

/-- The fields as `j9bcv_initializeVerificationData` leaves them: the flags
`J9_VERIFY_SKIP_BOOTSTRAP_CLASSES | J9_VERIFY_OPTIMIZE` and no attribute name. -/
def exampleVM : J9JavaVM :=
  { runtimeFlags := 0, verificationFlags := 0x3, excludeAttribute := none }

/-- Tables for the examples: `ifeq` (153) pops one slot and branches, `goto` (167)
and `goto_w` (200) branch without a pop, `pop` (87) pops one slot, `tableswitch` and
`lookupswitch` pop one slot and belong to `RTV_MISC`; of the error data the frame
position and the word `errorTempData` are stored. -/
def exampleTables : SimulateTables where
  JavaStackActionTable := fun bc =>
    if bc = 153 ∨ bc = 87 ∨ bc = 170 ∨ bc = 171 then 1 else 0
  J9JavaBytecodeVerificationTable := fun bc =>
    if bc = 153 then 0x0110 else if bc = 167 ∨ bc = 200 then 0x0100
    else if bc = 170 ∨ bc = 171 then 0x0200 else 0
  decodeTable := fun code => code
  RTV_BRANCH := 1
  RTV_MISC := 2
  storeVerifyErrorData := fun verifyData _ errorCurrentFramePosition _ errorTempData _ =>
    { verifyData with
      errorCurrentFramePosition := errorCurrentFramePosition, errorTempData := errorTempData }

/-- The collaborators of the examples with the size-table entries of `iconst_0`
(size 1) and of the two switches (one opcode byte before the padding). -/
def switchCollaborators : Collaborators :=
  { exampleCollaborators with
    J9JavaInstructionSizeAndBranchActionTable := fun bc =>
      if bc = 3 then 0x01 else if bc = 170 ∨ bc = 171 then 0x51 else exampleSizeTable bc }

/-- The method `iconst_0; tableswitch` with `low = 0`, `high = 2`, the entries
leading to the offsets 28, 29 and 30 and the default to 31, each holding `return`. -/
def tableSwitchMethod : J9ROMMethod :=
  exampleMethod
    [3, 170, 0, 0, 30, 0, 0, 0, 0, 0, 0, 0, 2, 0, 0, 0, 27, 0, 0, 0, 28, 0, 0, 0, 29, 0, 0, 0,
      177, 177, 177, 177] []

/-- A class of version 50 without stack maps whose single method is
`tableSwitchMethod`. -/
def tableSwitchClass : J9ROMClass :=
  { romMethods := [tableSwitchMethod], hasVerifyData := false, majorVersion := 50 }

/-- The state that `buildBranchMap` leaves, or the given state. -/
def builtOrSelf (r : Option (BranchMapResult × VerifyData)) (verifyData : VerifyData) :
    VerifyData :=
  match r with
  | some (_, after) => after
  | none => verifyData

/-- The state after `buildBranchMap` for `tableSwitchMethod`. -/
def tableSwitchBuilt : VerifyData :=
  builtOrSelf (buildBranchMap switchCollaborators (exampleVerifyData tableSwitchMethod))
    (exampleVerifyData tableSwitchMethod)

/-- What `prepareMaps` hands on for `tableSwitchMethod`: the state after
`buildBranchMap` with the count of branch targets. -/
def tableSwitchPrepared : VerifyData :=
  (preparedOrSelf (prepareMaps switchCollaborators tableSwitchClass
    (exampleVerifyData tableSwitchMethod)) (exampleVerifyData tableSwitchMethod)).1

/-- The state in which `simulateStack` arrives at the `tableswitch`: the frames and
queues as `setUpFrames` leaves them, and the `int` pushed by `iconst_0` on the
operand stack. -/
def tableSwitchData : VerifyData :=
  let ready := (framesOrSelf (setUpFrames examplePasses true tableSwitchPrepared)
    tableSwitchPrepared).1
  { ready with
    liveStack := { ready.liveStack with
      stackTopIndex := 5
      stackElements := Function.update ready.liveStack.stackElements 4 BCV_BASE_TYPE_INT } }

/-- What a case of `simulateStack` leaves to look at: how it is left, the targets
merged into, the `stackBaseIndex` and `stackTopIndex` of every stored frame, and the
PCs waiting in the unwalked queue. -/
def caseSummary (r : Option CaseResult) :
    Option (CaseExit × List Nat × List (Int × Int) × List Nat) :=
  r.map fun result =>
    (result.exit, result.merged,
      result.verifyData.stackMaps.map (fun f => (f.stackBaseIndex, f.stackTopIndex)),
      pendingUnwalked result.verifyData)

/-- The result of a case of `simulateStack`, or an empty result with the given
state. -/
def caseOrSelf (r : Option CaseResult) (verifyData : VerifyData) : CaseResult :=
  match r with
  | some result => result
  | none => ⟨CaseExit.checkFinished, verifyData, []⟩

/-- The state after `buildBranchMap` for `branchyMethod`. -/
def branchyBuilt : VerifyData :=
  builtOrSelf (buildBranchMap exampleCollaborators (exampleVerifyData branchyMethod))
    (exampleVerifyData branchyMethod)

/-- The state in which `simulateStack` arrives at the `ifeq` of `branchyMethod` with
an `int` on the operand stack: the frames and queues as `setUpFrames` leaves them. -/
def branchyData : VerifyData :=
  let prepared := (preparedOrSelf (prepareMaps exampleCollaborators branchyClass
    (exampleVerifyData branchyMethod)) (exampleVerifyData branchyMethod)).1
  let ready := (framesOrSelf (setUpFrames examplePasses true prepared) prepared).1
  { ready with
    liveStack := { ready.liveStack with
      stackTopIndex := 5
      stackElements := Function.update ready.liveStack.stackElements 4 BCV_BASE_TYPE_INT } }

/-- The state after `mergeStacks` has been called for each of `targets` in turn. -/
def afterMerges (targets : List Nat) (verifyData : VerifyData) : VerifyData :=
  targets.foldl (fun d target => mergedOrSelf (mergeStacks exampleOracle d target) d) verifyData

/-- The state `mergeVerifyData` with `java/lang/Object` on the operand stack of
frame 0 and the class `A` there in the live frame, the locals of the two frames
being the same. -/
def objectStackData : VerifyData :=
  { mergeVerifyData with
    stackMaps := [exampleFrame 0 2 3 [0x11, 0x10, 0x00], exampleFrame 2 (-1) (-1) []]
    liveStack := exampleFrame 1 2 3 [0x11, 0x10, 0x10] }

/-- The state `mergeVerifyData` with a fourth class name, `C`, that does not load,
and a live frame that holds the locals of frame 0 and the class `C` on the operand
stack. -/
def unloadableData : VerifyData :=
  { mergeVerifyData with
    classNameList := [[79], [65], [66], [67]]
    liveStack := exampleFrame 1 2 3 [0x11, 0x10, 0x30] }

/-- The state `verifyData` once the simulation of an instruction has stored an `int`
in local 0 of the live frame. -/
def intInLocalZero (verifyData : VerifyData) : VerifyData :=
  { verifyData with
    liveStack := { verifyData.liveStack with
      stackElements := Function.update verifyData.liveStack.stackElements 0 BCV_BASE_TYPE_INT }
    classNameList := verifyData.classNameList }

/-- The walk of `tableSwitchMethod` after a first merge into 31 and the store of an
`int` in local 0. -/
def storedIntData : VerifyData := intInLocalZero (afterMerges [31] tableSwitchData)

theorem mapGet_eq_some {bm : List Nat} {i : Int} {v : Nat} (h : mapGet bm i = some v) :
    0 ≤ i ∧ bm[i.toNat]? = some v := by
  unfold mapGet at h
  split at h
  · exact ⟨by assumption, h⟩
  · cases h

theorem countP_set_add (p : Nat → Bool) (l : List Nat) (i : Nat) (v w : Nat)
    (h : l[i]? = some w) :
    (l.set i v).countP p + (if p w then 1 else 0) = l.countP p + (if p v then 1 else 0) := by
  induction l generalizing i with
  | nil => simp at h
  | cons a l ih =>
    cases i with
    | zero =>
      simp at h
      subst h
      simp only [List.set_cons_zero, List.countP_cons]
      omega
    | succ i =>
      simp at h
      have := ih i h
      simp only [List.set_cons_succ, List.countP_cons]
      omega

theorem markBranchTarget_spec {bm : List Nat} {count : Nat} {t : Int} {bm' : List Nat}
    {count' : Nat} (h : markBranchTarget bm count t = some (bm', count'))
    (hf : ∀ v ∈ bm, v = 0 ∨ v = 1) (hc : count = bm.countP hasBranchTarget) :
    (∀ v ∈ bm', v = 0 ∨ v = 1) ∧ count' = bm'.countP hasBranchTarget ∧
    bm'.length = bm.length ∧ (0 ≤ t ∧ t.toNat < bm.length) ∧
    ∀ i : Nat, (bm'[i]? = some 1 ↔ bm[i]? = some 1 ∨ (i : Int) = t) := by
  unfold markBranchTarget at h
  split at h
  · cases h
  · rename_i v hv
    obtain ⟨ht0, hget⟩ := mapGet_eq_some hv
    have hlt : t.toNat < bm.length := by
      rcases Nat.lt_or_ge t.toNat bm.length with h1 | h1
      · exact h1
      · rw [List.getElem?_eq_none h1] at hget; cases hget
    have hti : ∀ i : Nat, ((i : Int) = t ↔ i = t.toNat) := by
      intro i; omega
    split at h
    · rename_i hv0
      subst hv0
      simp only [Option.some.injEq, Prod.mk.injEq] at h
      obtain ⟨rfl, rfl⟩ := h
      refine ⟨?_, ?_, by simp, ⟨ht0, hlt⟩, ?_⟩
      · intro v hv
        rcases List.mem_or_eq_of_mem_set hv with h1 | h1
        · exact hf v h1
        · right; exact h1
      · have := countP_set_add hasBranchTarget bm t.toNat BRANCH_TARGET 0 hget
        have h0 : hasBranchTarget 0 = false := by decide
        have h1 : hasBranchTarget BRANCH_TARGET = true := by decide
        rw [h0, h1] at this
        simp at this
        omega
      · intro i
        rw [hti i]
        by_cases hi : i = t.toNat
        · subst hi
          simp [List.getElem?_set, hlt, BRANCH_TARGET]
        · have hi' : ¬ t.toNat = i := fun h => hi h.symm
          simp [List.getElem?_set, hi, hi']
    · rename_i hv0
      simp only [Option.some.injEq, Prod.mk.injEq] at h
      obtain ⟨rfl, rfl⟩ := h
      refine ⟨hf, hc, rfl, ⟨ht0, hlt⟩, ?_⟩
      intro i
      rw [hti i]
      constructor
      · intro h1; exact Or.inl h1
      · rintro (h1 | h1)
        · exact h1
        · subst h1
          have hv1 : v = 0 ∨ v = 1 := hf v (List.getElem?_mem hget)
          rcases hv1 with h2 | h2
          · exact absurd h2 hv0
          · rw [hget, h2]

theorem markTargets_spec {ts : List Int} {bm : List Nat} {count : Nat} {bm' : List Nat}
    {count' : Nat} (h : markTargets ts bm count = some (bm', count'))
    (hf : ∀ v ∈ bm, v = 0 ∨ v = 1) (hc : count = bm.countP hasBranchTarget) :
    (∀ v ∈ bm', v = 0 ∨ v = 1) ∧ count' = bm'.countP hasBranchTarget ∧
    bm'.length = bm.length ∧
    ∀ i : Nat, (bm'[i]? = some 1 ↔ bm[i]? = some 1 ∨ (i : Int) ∈ ts) := by
  induction ts generalizing bm count with
  | nil =>
    simp only [markTargets, Option.some.injEq, Prod.mk.injEq] at h
    obtain ⟨rfl, rfl⟩ := h
    exact ⟨hf, hc, rfl, by simp⟩
  | cons t ts ih =>
    simp only [markTargets] at h
    split at h
    · cases h
    · rename_i bm1 count1 h1
      obtain ⟨hf1, hc1, hl1, _, hi1⟩ := markBranchTarget_spec h1 hf hc
      obtain ⟨hf2, hc2, hl2, hi2⟩ := ih h hf1 hc1
      refine ⟨hf2, hc2, by omega, ?_⟩
      intro i
      rw [hi2 i, hi1 i, List.mem_cons]
      tauto

/-! ## The scan of `buildBranchMap` -/

theorem switchEntries_eq (c : Collaborators) (code : Nat → Nat) (start : Int) (pcs : Nat) :
    ∀ (n at0 : Nat) (bm : List Nat) (count : Nat),
      switchEntries c code start pcs n at0 bm count =
        (markTargets (entryTargets c code start pcs n at0) bm count).map
          (fun r => (at0 + n * (pcs + 4), r.1, r.2)) := by
  intro n
  induction n with
  | zero => intro at0 bm count; simp [switchEntries, entryTargets, markTargets]
  | succ n ih =>
    intro at0 bm count
    simp only [switchEntries, entryTargets, markTargets]
    cases hm : markBranchTarget bm count (start + toI32 (PARAM_32 c code (at0 + pcs) 0)) with
    | none => simp
    | some r =>
      obtain ⟨bm1, count1⟩ := r
      simp only [ih]
      have : at0 + pcs + 4 + n * (pcs + 4) = at0 + (n + 1) * (pcs + 4) := by ring
      rw [this]

/-- One iteration of the scan: the targets of the instruction are marked in
order, then the scan goes on at the next instruction. -/
theorem scanBytecodes_succ (c : Collaborators) (m : J9ROMMethod) (fuel pc : Nat)
    (bm : List Nat) (count : Nat) :
    scanBytecodes c m (fuel + 1) pc bm count =
      if pc < m.bytecodeSize then
        if sizeAt c m pc = 0 then some (ScanOutcome.unknownOpcode pc bm)
        else
          match markTargets (instructionTargets c m pc) bm count with
          | none => none
          | some (bm1, count1) => scanBytecodes c m fuel (instructionEnd c m pc) bm1 count1
      else some (ScanOutcome.finished bm count) := by
  rw [scanBytecodes]
  unfold instructionTargets instructionEnd switchSkip switchCount switchTable switchBase sizeAt
  dsimp only
  generalize byteAt m.bytecodes pc = bc
  generalize c.J9JavaInstructionSizeAndBranchActionTable bc = size
  have e1 : (pc + 4) / 4 * 4 + 4 + 4 = (pc + 4) / 4 * 4 + 8 := by omega
  have e2 : (pc + 4) / 4 * 4 + 4 + 4 + 4 = (pc + 4) / 4 * 4 + 12 := by omega
  split_ifs
  all_goals simp only [markTargets, switchEntries_eq, e1, e2]
  all_goals first
    | rfl
    | (generalize markBranchTarget _ _ _ = r0
       rcases r0 with _ | ⟨bm1, count1⟩
       · rfl
       · first
          | rfl
          | (dsimp only
             generalize markTargets _ _ _ = r
             rcases r with _ | ⟨bm2, count2⟩ <;> rfl))

theorem scanBytecodes_finished (c : Collaborators) (m : J9ROMMethod) :
    ∀ (fuel pc : Nat) (bm : List Nat) (count : Nat) (bm' : List Nat) (count' : Nat),
      scanBytecodes c m fuel pc bm count = some (ScanOutcome.finished bm' count') →
      (∀ v ∈ bm, v = 0 ∨ v = 1) → count = bm.countP hasBranchTarget →
      (∀ v ∈ bm', v = 0 ∨ v = 1) ∧ count' = bm'.countP hasBranchTarget ∧
      bm'.length = bm.length ∧
      ∀ i : Nat, (bm'[i]? = some 1 ↔ bm[i]? = some 1 ∨
        ∃ s, ScanReaches c m pc s ∧ s < m.bytecodeSize ∧ sizeAt c m s ≠ 0 ∧
          (i : Int) ∈ instructionTargets c m s) := by
  intro fuel
  induction fuel with
  | zero => intro pc bm count bm' count' h; simp [scanBytecodes] at h
  | succ fuel ih =>
    intro pc bm count bm' count' h hf hc
    rw [scanBytecodes_succ] at h
    by_cases hpc : pc < m.bytecodeSize
    · simp only [hpc, if_true] at h
      by_cases hs0 : sizeAt c m pc = 0
      · simp [hs0] at h
      · simp only [hs0, if_false] at h
        split at h
        · cases h
        · rename_i bm1 count1 hm
          obtain ⟨hf1, hc1, hl1, hi1⟩ := markTargets_spec hm hf hc
          obtain ⟨hf2, hc2, hl2, hi2⟩ := ih _ bm1 count1 bm' count' h hf1 hc1
          refine ⟨hf2, hc2, by omega, ?_⟩
          intro i
          rw [hi2 i, hi1 i]
          constructor
          · rintro ((h1 | h1) | ⟨s, hr, hs⟩)
            · exact Or.inl h1
            · exact Or.inr ⟨pc, ScanReaches.here pc, hpc, hs0, h1⟩
            · exact Or.inr ⟨s, ScanReaches.step pc s hpc hs0 hr, hs⟩
          · rintro (h1 | ⟨s, hr, hs⟩)
            · exact Or.inl (Or.inl h1)
            · cases hr with
              | here => exact Or.inl (Or.inr hs.2.2)
              | step _ _ _ _ hr' => exact Or.inr ⟨s, hr', hs⟩
    · simp only [hpc, if_false, Option.some.injEq, ScanOutcome.finished.injEq] at h
      obtain ⟨rfl, rfl⟩ := h
      refine ⟨hf, hc, rfl, ?_⟩
      intro i
      constructor
      · intro h1; exact Or.inl h1
      · rintro (h1 | ⟨s, hr, hs, _⟩)
        · exact h1
        · cases hr with
          | here => exact absurd hs hpc
          | step _ _ hp _ _ => exact absurd hp hpc

/-! ## The exception-handler pass of `buildBranchMap` -/

theorem flag_bits : ∀ v < 4,
    (v ||| BRANCH_EXCEPTION_START) < 4 ∧ (v ||| BRANCH_TARGET) < 4 ∧
    hasBranchTarget (v ||| BRANCH_EXCEPTION_START) = hasBranchTarget v ∧
    hasBranchTarget (v ||| BRANCH_TARGET) = true ∧
    (v &&& BRANCH_TARGET = 0 ↔ hasBranchTarget v = false) := by
  decide

theorem set_keeps_flags {bm : List Nat} {j v w : Nat} (hget : bm[j]? = some v)
    (hv : ∀ x ∈ bm, x < 4) (hw : w < 4) (hb : hasBranchTarget w = hasBranchTarget v) :
    (∀ x ∈ bm.set j w, x < 4) ∧
    (bm.set j w).countP hasBranchTarget = bm.countP hasBranchTarget ∧
    ∀ i, FlaggedAt (bm.set j w) i ↔ FlaggedAt bm i := by
  refine ⟨?_, ?_, ?_⟩
  · intro x hx
    rcases List.mem_or_eq_of_mem_set hx with h1 | h1
    · exact hv x h1
    · omega
  · have := countP_set_add hasBranchTarget bm j w v hget
    rw [hb] at this
    omega
  · intro i
    unfold FlaggedAt
    by_cases hi : j = i
    · subst hi
      have hlt : j < bm.length := by
        rcases Nat.lt_or_ge j bm.length with h1 | h1
        · exact h1
        · rw [List.getElem?_eq_none h1] at hget; cases hget
      simp [List.getElem?_set, hlt, hget, hb]
    · simp [List.getElem?_set, hi]

theorem set_adds_flag {bm : List Nat} {j v w : Nat} (hget : bm[j]? = some v)
    (hv : ∀ x ∈ bm, x < 4) (hw : w < 4) (hb : hasBranchTarget w = true)
    (hb0 : hasBranchTarget v = false) :
    (∀ x ∈ bm.set j w, x < 4) ∧
    (bm.set j w).countP hasBranchTarget = bm.countP hasBranchTarget + 1 ∧
    ∀ i, FlaggedAt (bm.set j w) i ↔ FlaggedAt bm i ∨ j = i := by
  refine ⟨?_, ?_, ?_⟩
  · intro x hx
    rcases List.mem_or_eq_of_mem_set hx with h1 | h1
    · exact hv x h1
    · omega
  · have := countP_set_add hasBranchTarget bm j w v hget
    rw [hb, hb0] at this
    simpa using this
  · intro i
    unfold FlaggedAt
    by_cases hi : j = i
    · subst hi
      have hlt : j < bm.length := by
        rcases Nat.lt_or_ge j bm.length with h1 | h1
        · exact h1
        · rw [List.getElem?_eq_none h1] at hget; cases hget
      simp [List.getElem?_set, hlt, hb]
    · simp [List.getElem?_set, hi]

theorem walkHandlers_spec :
    ∀ (hs : List J9ExceptionHandler) (bm : List Nat) (count : Nat) (bm' : List Nat)
      (count' : Nat), walkHandlers hs bm count = some (bm', count') →
      (∀ v ∈ bm, v < 4) → count = bm.countP hasBranchTarget →
      (∀ v ∈ bm', v < 4) ∧ count' = bm'.countP hasBranchTarget ∧
      bm'.length = bm.length ∧
      ∀ i : Nat, (FlaggedAt bm' i ↔ FlaggedAt bm i ∨ ∃ h ∈ hs, h.handlerPC = i) := by
  intro hs
  induction hs with
  | nil =>
    intro bm count bm' count' h hv hc
    simp only [walkHandlers, Option.some.injEq, Prod.mk.injEq] at h
    obtain ⟨rfl, rfl⟩ := h
    exact ⟨hv, hc, rfl, by simp⟩
  | cons hd rest ih =>
    intro bm count bm' count' h hv hc
    simp only [walkHandlers] at h
    -- the protected-range start
    have step1 : ∀ bm1, (if (hd.startPC : Int) ≠ (hd.handlerPC : Int) then
          match mapGet bm (hd.startPC : Int) with
          | none => none
          | some v => some (bm.set (hd.startPC : Int).toNat (v ||| BRANCH_EXCEPTION_START))
        else some bm) = some bm1 →
        (∀ x ∈ bm1, x < 4) ∧ bm1.countP hasBranchTarget = bm.countP hasBranchTarget ∧
        bm1.length = bm.length ∧ ∀ i, FlaggedAt bm1 i ↔ FlaggedAt bm i := by
      intro bm1 h1
      split at h1
      · split at h1
        · cases h1
        · rename_i v hg
          obtain ⟨_, hget⟩ := mapGet_eq_some hg
          simp only [Option.some.injEq] at h1
          subst h1
          have hv4 : v < 4 := hv v (List.getElem?_mem hget)
          obtain ⟨a, _, b, _, _⟩ := flag_bits v hv4
          obtain ⟨r1, r2, r3⟩ := set_keeps_flags hget hv a b
          exact ⟨r1, r2, by simp, r3⟩
      · simp only [Option.some.injEq] at h1
        subst h1
        exact ⟨hv, rfl, rfl, fun _ => Iff.rfl⟩
    split at h
    · cases h
    · rename_i bm1 hbm1
      obtain ⟨hv1, hc1, hl1, hi1⟩ := step1 bm1 hbm1
      split at h
      · cases h
      · rename_i v hg
        obtain ⟨hpos, hget⟩ := mapGet_eq_some hg
        have hv4 : v < 4 := hv1 v (List.getElem?_mem hget)
        obtain ⟨_, a, _, b, d⟩ := flag_bits v hv4
        have htn : ((hd.handlerPC : Int)).toNat = hd.handlerPC := by simp
        rw [htn] at hget
        split at h
        · rename_i hz
          rw [htn] at h
          obtain ⟨r1, r2, r3⟩ := set_adds_flag hget hv1 a b (d.1 hz)
          obtain ⟨q1, q2, q3, q4⟩ := ih _ _ _ _ h r1 (by omega)
          refine ⟨q1, q2, by simp at q3; omega, ?_⟩
          intro i
          rw [q4 i, r3 i, hi1 i]
          simp only [List.mem_cons, exists_eq_or_imp]
          tauto
        · rename_i hz
          obtain ⟨q1, q2, q3, q4⟩ := ih _ _ _ _ h hv1 (by omega)
          refine ⟨q1, q2, by omega, ?_⟩
          intro i
          rw [q4 i, hi1 i]
          simp only [List.mem_cons, exists_eq_or_imp]
          have hfl : FlaggedAt bm1 hd.handlerPC := by
            refine ⟨v, hget, ?_⟩
            cases hb : hasBranchTarget v with
            | true => rfl
            | false => exact absurd (d.2 hb) hz
          constructor
          · rintro (h1 | h1)
            · exact Or.inl h1
            · exact Or.inr (Or.inr h1)
          · rintro (h1 | h1 | h1)
            · exact Or.inl h1
            · subst h1; exact Or.inl ((hi1 _).1 hfl)
            · exact Or.inr h1

/-! ## Results on `buildBranchMap` -/

theorem buildBranchMap_count_spec (c : Collaborators) (vd : VerifyData) (n : Nat)
    (vd' : VerifyData) (hzero : ∀ v ∈ vd.bytecodeMap, v = 0)
    (h : buildBranchMap c vd = some (BranchMapResult.count n, vd')) :
    n = vd'.bytecodeMap.countP hasBranchTarget ∧
    vd'.bytecodeMap.length = vd.bytecodeMap.length ∧
    (∀ v ∈ vd'.bytecodeMap, v < 4) ∧
    ∀ i, FlaggedAt vd'.bytecodeMap i ↔ IsBranchTarget c vd.romMethod i := by
  have hf0 : ∀ v ∈ vd.bytecodeMap, v = 0 ∨ v = 1 := fun v hv => Or.inl (hzero v hv)
  have hc0 : (0 : Nat) = vd.bytecodeMap.countP hasBranchTarget := by
    symm
    rw [List.countP_eq_zero]
    intro v hv
    rw [hzero v hv]
    decide
  have hnone : ∀ i : Nat, ¬ vd.bytecodeMap[i]? = some 1 := by
    intro i hi
    have := hzero 1 (List.getElem?_mem hi)
    omega
  have hflag : ∀ bm : List Nat, (∀ v ∈ bm, v = 0 ∨ v = 1) →
      ∀ i, FlaggedAt bm i ↔ bm[i]? = some 1 := by
    intro bm hbm i
    constructor
    · rintro ⟨v, hv, hb⟩
      rcases hbm v (List.getElem?_mem hv) with h0 | h1
      · subst h0; exact absurd hb (by decide)
      · subst h1; exact hv
    · intro hv; exact ⟨1, hv, by decide⟩
  unfold buildBranchMap at h
  dsimp only at h
  split at h
  · cases h
  · cases h
  · rename_i bm1 count1 hscan
    obtain ⟨hf1, hc1, hl1, hi1⟩ := scanBytecodes_finished c _ _ _ _ _ _ _ hscan hf0 hc0
    have hlt1 : ∀ v ∈ bm1, v < 4 := by
      intro v hv
      rcases hf1 v hv with h0 | h0 <;> omega
    split at h
    · rename_i hex
      split at h
      · cases h
      · rename_i bm2 count2 hwalk
        simp only [Option.some.injEq, Prod.mk.injEq, BranchMapResult.count.injEq] at h
        obtain ⟨rfl, rfl⟩ := h
        obtain ⟨q1, q2, q3, q4⟩ := walkHandlers_spec _ _ _ _ _ hwalk hlt1 hc1
        refine ⟨q2, by simp only; omega, q1, ?_⟩
        intro i
        simp only
        rw [q4 i, hflag bm1 hf1 i, hi1 i]
        unfold IsBranchTarget
        simp [hnone i, hex]
    · rename_i hex
      simp only [Option.some.injEq, Prod.mk.injEq, BranchMapResult.count.injEq] at h
      obtain ⟨rfl, rfl⟩ := h
      refine ⟨hc1, hl1, hlt1, ?_⟩
      intro i
      simp only
      rw [hflag bm1 hf1 i, hi1 i]
      unfold IsBranchTarget
      simp [hnone i, hex]

theorem flaggedAt_iff_getD (bm : List Nat) (i : Nat) :
    FlaggedAt bm i ↔ hasBranchTarget (bm.getD i 0) = true := by
  unfold FlaggedAt
  rcases Nat.lt_or_ge i bm.length with h | h
  · simp [List.getElem?_eq_getElem h]
  · simp [List.getElem?_eq_none h]
    decide

/-- C1: starting from an all-zero bytecode map, after `buildBranchMap` succeeds
the entry of a PC carries `BRANCH_TARGET` exactly when the PC is the target of a
conditional branch, `goto`, `goto_w`, a switch entry or default, or the handler
PC of an exception-table entry. -/
theorem buildBranchMap_flags_exactly_targets (c : Collaborators) (vd : VerifyData) (n : Nat)
    (vd' : VerifyData) (hzero : ∀ v ∈ vd.bytecodeMap, v = 0)
    (h : buildBranchMap c vd = some (BranchMapResult.count n, vd')) (pc : Nat) :
    hasBranchTarget (vd'.bytecodeMap.getD pc 0) = true ↔ IsBranchTarget c vd.romMethod pc := by
  rw [← flaggedAt_iff_getD]
  exact (buildBranchMap_count_spec c vd n vd' hzero h).2.2.2 pc

theorem buildBranchMap_flags_exactly_targets_witness :
    hasBranchTarget
        (({ exampleVerifyData branchyMethod with
            bytecodeMap := [3, 0, 0, 1, 1, 0, 0, 1] } : VerifyData).bytecodeMap.getD 4 0) = true ↔
      IsBranchTarget exampleCollaborators (exampleVerifyData branchyMethod).romMethod 4 :=
  buildBranchMap_flags_exactly_targets exampleCollaborators (exampleVerifyData branchyMethod) 4
    { exampleVerifyData branchyMethod with bytecodeMap := [3, 0, 0, 1, 1, 0, 0, 1] }
    (by decide) (by rfl) 4

/-- C2: starting from an all-zero bytecode map, the count returned by
`buildBranchMap` is the number of entries of the bytecode map that carry
`BRANCH_TARGET` on return, each PC counted once. -/
theorem buildBranchMap_returns_flagged_count (c : Collaborators) (vd : VerifyData) (n : Nat)
    (vd' : VerifyData) (hzero : ∀ v ∈ vd.bytecodeMap, v = 0)
    (h : buildBranchMap c vd = some (BranchMapResult.count n, vd')) :
    n = ((List.range vd'.bytecodeMap.length).filter
      (fun pc => hasBranchTarget (vd'.bytecodeMap.getD pc 0))).length := by
  rw [(buildBranchMap_count_spec c vd n vd' hzero h).1]
  generalize vd'.bytecodeMap = bm
  induction bm using List.reverseRecOn with
  | nil => rfl
  | append_singleton l a ih =>
    rw [List.countP_append, ih, List.length_append, List.length_singleton, List.range_succ,
      List.filter_append, List.length_append]
    have h1 : (List.filter (fun pc => hasBranchTarget ((l ++ [a]).getD pc 0)) (List.range l.length))
        = List.filter (fun pc => hasBranchTarget (l.getD pc 0)) (List.range l.length) := by
      apply List.filter_congr
      intro x hx
      rw [List.mem_range] at hx
      simp [List.getElem?_append_left hx]
    rw [h1]
    congr 1
    by_cases ha : hasBranchTarget a = true
    · simp [ha]
    · simp [ha]

theorem buildBranchMap_returns_flagged_count_witness :
    4 = ((List.range ({ exampleVerifyData branchyMethod with
            bytecodeMap := [3, 0, 0, 1, 1, 0, 0, 1] } : VerifyData).bytecodeMap.length).filter
      (fun pc => hasBranchTarget (({ exampleVerifyData branchyMethod with
            bytecodeMap := [3, 0, 0, 1, 1, 0, 0, 1] } : VerifyData).bytecodeMap.getD pc 0))).length :=
  buildBranchMap_returns_flagged_count exampleCollaborators (exampleVerifyData branchyMethod) 4
    { exampleVerifyData branchyMethod with bytecodeMap := [3, 0, 0, 1, 1, 0, 0, 1] }
    (by decide) (by rfl)

/-! ## Parsing stack-map elements -/

theorem parseElement_eq (c : Collaborators) (vd : VerifyData) (data : Nat → Nat) (idx : Nat) :
    parseElement c vd data idx =
      ((elementAt c vd.classNameList data idx).1, (elementAt c vd.classNameList data idx).2.1,
        { vd with classNameList := (elementAt c vd.classNameList data idx).2.2 }) := by
  unfold parseElement elementAt NEXT_U8 NEXT_U16
  dsimp only
  split_ifs <;> rfl

theorem expandWide_length (es : List Nat) :
    (expandWide es).length = es.length + es.countP isWide := by
  induction es with
  | nil => rfl
  | cons e es ih =>
    by_cases h : isWide e = true
    · simp only [expandWide, h, if_true, List.length_cons, List.countP_cons_of_pos, ih]
      omega
    · simp only [expandWide, h, if_false, List.length_cons, ih, Bool.false_eq_true]
      rw [List.countP_cons_of_neg _ _ h]
      omega

theorem elementsAt_length (c : Collaborators) (data : Nat → Nat) :
    ∀ (k : Nat) (names : ClassNameList) (idx : Nat),
      (elementsAt c data k names idx).1.length = k := by
  intro k
  induction k with
  | zero => intro names idx; rfl
  | succ k ih => intro names idx; simp [elementsAt, ih]

theorem writeSlots_apply (slots : List Nat) :
    ∀ (els : Int → Nat) (at0 i : Int),
      writeSlots els at0 slots i =
        if at0 ≤ i ∧ i < at0 + slots.length then slots.getD (i - at0).toNat 0 else els i := by
  induction slots with
  | nil =>
    intro els at0 i
    simp only [writeSlots, List.length_nil, Nat.cast_zero, add_zero]
    rw [if_neg]
    omega
  | cons x xs ih =>
    intro els at0 i
    simp only [writeSlots, ih, List.length_cons, Nat.cast_add, Nat.cast_one]
    by_cases h1 : at0 + 1 ≤ i ∧ i < at0 + 1 + (xs.length : Int)
    · have h2 : at0 ≤ i ∧ i < at0 + ((xs.length : Int) + 1) := by omega
      rw [if_pos h1, if_pos h2]
      have : (i - at0).toNat = (i - (at0 + 1)).toNat + 1 := by omega
      rw [this, List.getD_cons_succ]
    · rw [if_neg h1]
      by_cases h3 : i = at0
      · subst h3
        have h2 : i ≤ i ∧ i < i + ((xs.length : Int) + 1) := by omega
        rw [if_pos h2]
        simp
      · have h2 : ¬ (at0 ≤ i ∧ i < at0 + ((xs.length : Int) + 1)) := by omega
        rw [if_neg h2, Function.update_noteq h3]

/-- `appendLocals` when the slots of the `k` entries fit below `maxLocals`. -/
theorem appendLocals_ok (c : Collaborators) (data : Nat → Nat) (maxLocals : Int) :
    ∀ (k idx : Nat) (c0 : Int) (vd : VerifyData),
      (expandWide (elementsAt c data k vd.classNameList idx).1 = [] ∨
        c0 + (expandWide (elementsAt c data k vd.classNameList idx).1).length ≤ maxLocals) →
      appendLocals c data maxLocals k idx c0 vd =
        (some (c0 + (expandWide (elementsAt c data k vd.classNameList idx).1).length),
          (elementsAt c data k vd.classNameList idx).2.1,
          { vd with
            classNameList := (elementsAt c data k vd.classNameList idx).2.2
            liveStack := { vd.liveStack with
              stackElements := writeSlots vd.liveStack.stackElements c0
                (expandWide (elementsAt c data k vd.classNameList idx).1) } }) := by
  intro k
  induction k with
  | zero =>
    intro idx c0 vd _
    simp [appendLocals, elementsAt, expandWide, writeSlots]
  | succ k ih =>
    intro idx c0 vd hfit
    simp only [appendLocals, parseElement_eq, elementsAt] at hfit ⊢
    generalize hel : elementAt c vd.classNameList data idx = el at hfit ⊢
    obtain ⟨e, idx1, names1⟩ := el
    dsimp only at hfit ⊢
    by_cases hw : isWide e = true
    · simp only [expandWide, hw, if_true, List.length_cons, Nat.cast_add, Nat.cast_one] at hfit ⊢
      have hfit' : c0 + ((expandWide (elementsAt c data k names1 idx1).1).length + 1 + 1 : Int)
          ≤ maxLocals := by
        rcases hfit with h | h
        · cases h
        · exact h
      have h1 : ¬ c0 ≥ maxLocals := by omega
      have h2 : ¬ c0 + 1 ≥ maxLocals := by omega
      rw [if_neg h1, if_neg h2]
      rw [ih idx1 (c0 + 1 + 1) _ (Or.inr (by simp only; omega))]
      simp only [writeSlots]
      congr 2
      omega
    · simp only [expandWide, hw, if_false, List.length_cons, Nat.cast_add, Nat.cast_one,
        Bool.false_eq_true] at hfit ⊢
      have hfit' : c0 + ((expandWide (elementsAt c data k names1 idx1).1).length + 1 : Int)
          ≤ maxLocals := by
        rcases hfit with h | h
        · cases h
        · exact h
      have h1 : ¬ c0 ≥ maxLocals := by omega
      rw [if_neg h1]
      rw [ih idx1 (c0 + 1) _ (Or.inr (by simp only; omega))]
      simp only [writeSlots]
      congr 2
      omega

/-- `appendLocals` when a slot of the `k` entries would land at or above `maxLocals`. -/
theorem appendLocals_overflow (c : Collaborators) (data : Nat → Nat) (maxLocals : Int) :
    ∀ (k idx : Nat) (c0 : Int) (vd : VerifyData),
      expandWide (elementsAt c data k vd.classNameList idx).1 ≠ [] →
      maxLocals < c0 + (expandWide (elementsAt c data k vd.classNameList idx).1).length →
      (appendLocals c data maxLocals k idx c0 vd).1 = none := by
  intro k
  induction k with
  | zero =>
    intro idx c0 vd hne
    simp [elementsAt, expandWide] at hne
  | succ k ih =>
    intro idx c0 vd hne hover
    simp only [appendLocals, parseElement_eq, elementsAt] at hne hover ⊢
    generalize hel : elementAt c vd.classNameList data idx = el at hne hover ⊢
    obtain ⟨e, idx1, names1⟩ := el
    dsimp only at hne hover ⊢
    by_cases h1 : c0 ≥ maxLocals
    · rw [if_pos h1]
    · rw [if_neg h1]
      by_cases hw : isWide e = true
      · simp only [expandWide, hw, if_true, List.length_cons, Nat.cast_add, Nat.cast_one]
          at hover ⊢
        by_cases h2 : c0 + 1 ≥ maxLocals
        · rw [if_pos h2]
        · rw [if_neg h2]
          apply ih
          · intro hnil
            simp only at hnil
            rw [hnil] at hover
            simp at hover
            omega
          · simp only
            omega
      · simp only [expandWide, hw, if_false, List.length_cons, Nat.cast_add, Nat.cast_one,
          Bool.false_eq_true] at hover ⊢
        apply ih
        · intro hnil
          simp only at hnil
          rw [hnil] at hover
          simp at hover
          omega
        · simp only
          omega

theorem pushStackEntries_eq (c : Collaborators) (data : Nat → Nat) (stackBase : Int)
    (maxStack : Nat) :
    ∀ (k idx : Nat) (top : Int) (vd : VerifyData),
      pushStackEntries c data stackBase maxStack k idx top vd =
        appendLocals c data (stackBase + maxStack) k idx top vd := by
  intro k
  induction k with
  | zero => intro idx top vd; rfl
  | succ k ih =>
    intro idx top vd
    simp only [pushStackEntries, appendLocals, ih]
    have e1 : (top - stackBase ≥ (maxStack : Int)) ↔ (top ≥ stackBase + maxStack) := by
      constructor <;> intro h <;> omega
    have e2 : (top + 1 - stackBase ≥ (maxStack : Int)) ↔ (top + 1 ≥ stackBase + maxStack) := by
      constructor <;> intro h <;> omega
    simp only [e1, e2]

theorem appendLocals_cases (c : Collaborators) (data : Nat → Nat) (maxLocals : Int)
    (k idx : Nat) (c0 : Int) (vd : VerifyData) :
    ((expandWide (elementsAt c data k vd.classNameList idx).1 = [] ∨
        c0 + (expandWide (elementsAt c data k vd.classNameList idx).1).length ≤ maxLocals) ∧
      appendLocals c data maxLocals k idx c0 vd =
        (some (c0 + (expandWide (elementsAt c data k vd.classNameList idx).1).length),
          (elementsAt c data k vd.classNameList idx).2.1,
          { vd with
            classNameList := (elementsAt c data k vd.classNameList idx).2.2
            liveStack := { vd.liveStack with
              stackElements := writeSlots vd.liveStack.stackElements c0
                (expandWide (elementsAt c data k vd.classNameList idx).1) } })) ∨
    ((expandWide (elementsAt c data k vd.classNameList idx).1 ≠ [] ∧
        maxLocals < c0 + (expandWide (elementsAt c data k vd.classNameList idx).1).length) ∧
      (appendLocals c data maxLocals k idx c0 vd).1 = none) := by
  by_cases h : expandWide (elementsAt c data k vd.classNameList idx).1 = [] ∨
      c0 + (expandWide (elementsAt c data k vd.classNameList idx).1).length ≤ maxLocals
  · exact Or.inl ⟨h, appendLocals_ok c data maxLocals k idx c0 vd h⟩
  · have h1 : expandWide (elementsAt c data k vd.classNameList idx).1 ≠ [] := fun e => h (Or.inl e)
    have h2 : maxLocals < c0 + (expandWide (elementsAt c data k vd.classNameList idx).1).length := by
      by_contra h3
      exact h (Or.inr (by omega))
    exact Or.inr ⟨⟨h1, h2⟩, appendLocals_overflow c data maxLocals k idx c0 vd h1 h2⟩

/-! ## Chopping and clearing locals -/

theorem chopOneLocal_bounds (count : Int) (els : Int → Nat) :
    count - 2 ≤ (chopOneLocal count els).1 ∧ (chopOneLocal count els).1 ≤ count - 1 := by
  unfold chopOneLocal
  dsimp only
  split_ifs <;> constructor <;> simp only <;> omega

theorem chopSpec_bounds :
    ∀ (k : Nat) (count : Int) (els : Int → Nat),
      count - 2 * k ≤ (chopSpec k count els).1 ∧ (chopSpec k count els).1 ≤ count - k := by
  intro k
  induction k with
  | zero => intro count els; simp [chopSpec]
  | succ k ih =>
    intro count els
    have h1 := chopOneLocal_bounds count els
    have h2 := ih (chopOneLocal count els).1 (chopOneLocal count els).2
    simp only [chopSpec, Nat.cast_add, Nat.cast_one]
    omega

theorem chopOneLocal_slots (count : Int) (els : Int → Nat) (i : Int) :
    (chopOneLocal count els).2 i =
      if (chopOneLocal count els).1 ≤ i ∧ i < count then BCV_BASE_TYPE_TOP else els i := by
  unfold chopOneLocal
  dsimp only
  split_ifs with h1 h2 h3
  · simp only [Function.update_apply] ; split_ifs <;> first | rfl | omega
  · simp only [Function.update_apply] ; split_ifs <;> first | rfl | omega
  · simp only [Function.update_apply] ; split_ifs <;> first | rfl | omega
  · simp only [Function.update_apply] ; split_ifs <;> first | rfl | omega

/-- The slots removed by `chopSpec` are `top`; every other slot is unchanged. -/
theorem chopSpec_slots :
    ∀ (k : Nat) (count : Int) (els : Int → Nat) (i : Int),
      (chopSpec k count els).2 i =
        if (chopSpec k count els).1 ≤ i ∧ i < count then BCV_BASE_TYPE_TOP else els i := by
  intro k
  induction k with
  | zero =>
    intro count els i
    simp only [chopSpec]
    rw [if_neg]
    omega
  | succ k ih =>
    intro count els i
    simp only [chopSpec]
    rw [ih, chopOneLocal_slots]
    have h1 := chopOneLocal_bounds count els
    have h2 := chopSpec_bounds k (chopOneLocal count els).1 (chopOneLocal count els).2
    split_ifs <;> first | rfl | omega

/-- `chopLocals` follows `chopSpec` and underflows exactly when `chopSpec` ends
below zero. -/
theorem chopLocals_spec :
    ∀ (k : Nat) (count : Int) (els : Int → Nat), 0 ≤ count →
      ((chopSpec k count els).1 < 0 ∧ (chopLocals k count els).1 = none) ∨
      (0 ≤ (chopSpec k count els).1 ∧ chopLocals k count els =
        (some (chopSpec k count els).1, (chopSpec k count els).2)) := by
  intro k
  induction k with
  | zero =>
    intro count els h0
    right
    exact ⟨h0, rfl⟩
  | succ k ih =>
    intro count els h0
    have hb := chopSpec_bounds k (chopOneLocal count els).1 (chopOneLocal count els).2
    have hb1 := chopOneLocal_bounds count els
    simp only [chopLocals, chopSpec]
    by_cases h1 : count - 1 < 0
    · left
      rw [if_pos h1]
      exact ⟨by omega, rfl⟩
    · rw [if_neg h1]
      by_cases h2 : count - 1 > 0
      · rw [if_pos h2]
        by_cases hw : isWide (Function.update els (count - 1) BCV_BASE_TYPE_TOP (count - 1 - 1)) = true
        · have hone : chopOneLocal count els =
              (count - 1 - 1, Function.update (Function.update els (count - 1) BCV_BASE_TYPE_TOP)
                (count - 1 - 1) BCV_BASE_TYPE_TOP) := by
            unfold chopOneLocal
            dsimp only
            have e : count - 2 = count - 1 - 1 := by omega
            rw [e, if_pos ⟨by omega, hw⟩]
          rw [if_pos hw, if_neg (by omega), hone]
          exact ih _ _ (by omega)
        · have hone : chopOneLocal count els =
              (count - 1, Function.update els (count - 1) BCV_BASE_TYPE_TOP) := by
            unfold chopOneLocal
            dsimp only
            have e : count - 2 = count - 1 - 1 := by omega
            rw [e, if_neg (fun h => hw h.2)]
          rw [if_neg hw, hone]
          exact ih _ _ (by omega)
      · have hone : chopOneLocal count els =
            (count - 1, Function.update els (count - 1) BCV_BASE_TYPE_TOP) := by
          unfold chopOneLocal
          dsimp only
          rw [if_neg (fun h => h2 (by omega))]
        rw [if_neg h2, hone]
        exact ih _ _ (by omega)

theorem clearLocals_apply :
    ∀ (n i : Nat) (els : Int → Nat) (j : Int),
      clearLocals n i els j =
        if (i : Int) ≤ j ∧ j < (i : Int) + n then BCV_BASE_TYPE_TOP else els j := by
  intro n
  induction n with
  | zero =>
    intro i els j
    simp only [clearLocals, Nat.cast_zero, add_zero]
    rw [if_neg]
    omega
  | succ n ih =>
    intro i els j
    simp only [clearLocals, ih, Nat.cast_add, Nat.cast_one, Function.update_apply]
    split_ifs <;> first | rfl | omega

/-! ## `parseStack` and `parseLocals` -/

theorem parseStack_cases (c : Collaborators) (vd : VerifyData) (data : Nat → Nat)
    (idx sc maxStack : Nat) :
    ((expandWide (elementsAt c data sc vd.classNameList idx).1 = [] ∨
        (expandWide (elementsAt c data sc vd.classNameList idx).1).length ≤ maxStack) ∧
      parseStack c vd data idx sc maxStack =
        (RC.BCV_SUCCESS, (elementsAt c data sc vd.classNameList idx).2.1,
          { vd with
            classNameList := (elementsAt c data sc vd.classNameList idx).2.2
            liveStack := { vd.liveStack with
              stackElements := writeSlots vd.liveStack.stackElements vd.liveStack.stackBaseIndex
                (expandWide (elementsAt c data sc vd.classNameList idx).1)
              stackTopIndex := vd.liveStack.stackBaseIndex +
                (expandWide (elementsAt c data sc vd.classNameList idx).1).length } })) ∨
    ((expandWide (elementsAt c data sc vd.classNameList idx).1 ≠ [] ∧
        maxStack < (expandWide (elementsAt c data sc vd.classNameList idx).1).length) ∧
      ∃ idx' vd', parseStack c vd data idx sc maxStack = (RC.BCV_ERR_INTERNAL_ERROR, idx', vd') ∧
        vd'.errorDetailCode = DetailCode.BCV_ERR_STACKMAP_FRAME_STACK_OVERFLOW ∧
        vd'.errorTempData = maxStack) := by
  unfold parseStack
  simp only [pushStackEntries_eq]
  by_cases h : expandWide (elementsAt c data sc vd.classNameList idx).1 = [] ∨
      (expandWide (elementsAt c data sc vd.classNameList idx).1).length ≤ maxStack
  · left
    refine ⟨h, ?_⟩
    rw [appendLocals_ok c data _ sc idx _ vd (by
      rcases h with h | h
      · exact Or.inl h
      · right; omega)]
  · right
    have h1 : expandWide (elementsAt c data sc vd.classNameList idx).1 ≠ [] := fun e => h (Or.inl e)
    have h2 : maxStack < (expandWide (elementsAt c data sc vd.classNameList idx).1).length := by
      by_contra h3
      exact h (Or.inr (by omega))
    refine ⟨⟨h1, h2⟩, ?_⟩
    have hnone := appendLocals_overflow c data (vd.liveStack.stackBaseIndex + maxStack) sc idx
      vd.liveStack.stackBaseIndex vd h1 (by omega)
    generalize appendLocals c data (vd.liveStack.stackBaseIndex + maxStack) sc idx
      vd.liveStack.stackBaseIndex vd = r at hnone ⊢
    obtain ⟨a, b, d⟩ := r
    simp only at hnone
    subst hnone
    exact ⟨_, _, rfl, rfl, rfl⟩

theorem parseLocals_append_cases (c : Collaborators) (vd : VerifyData) (data : Nat → Nat)
    (idx : Nat) (localDelta c0 maxLocals : Int) (hd : 0 ≤ localDelta) :
    ((expandWide (elementsAt c data localDelta.natAbs vd.classNameList idx).1 = [] ∨
        c0 + (expandWide (elementsAt c data localDelta.natAbs vd.classNameList idx).1).length
          ≤ maxLocals) ∧
      parseLocals c vd data idx localDelta c0 maxLocals =
        (LocalsResult.localsCount
            (c0 + (expandWide (elementsAt c data localDelta.natAbs vd.classNameList idx).1).length),
          (elementsAt c data localDelta.natAbs vd.classNameList idx).2.1,
          { vd with
            classNameList := (elementsAt c data localDelta.natAbs vd.classNameList idx).2.2
            liveStack := { vd.liveStack with
              stackElements :=
                clearLocals
                  ((toUDATA (vd.liveStack.stackBaseIndex -
                      (c0 + (expandWide
                        (elementsAt c data localDelta.natAbs vd.classNameList idx).1).length)) +
                    toUDATA (c0 + (expandWide
                      (elementsAt c data localDelta.natAbs vd.classNameList idx).1).length))
                      % UDATA_RANGE -
                    toUDATA (c0 + (expandWide
                      (elementsAt c data localDelta.natAbs vd.classNameList idx).1).length))
                  (toUDATA (c0 + (expandWide
                    (elementsAt c data localDelta.natAbs vd.classNameList idx).1).length))
                  (writeSlots vd.liveStack.stackElements c0
                    (expandWide (elementsAt c data localDelta.natAbs vd.classNameList idx).1)) } })) ∨
    ((expandWide (elementsAt c data localDelta.natAbs vd.classNameList idx).1 ≠ [] ∧
        maxLocals <
          c0 + (expandWide (elementsAt c data localDelta.natAbs vd.classNameList idx).1).length) ∧
      ∃ idx' vd', parseLocals c vd data idx localDelta c0 maxLocals =
          (LocalsResult.BCV_ERR_INTERNAL_ERROR, idx', vd') ∧
        vd'.errorDetailCode = DetailCode.BCV_ERR_STACKMAP_FRAME_LOCALS_OVERFLOW ∧
        vd'.errorTempData = toUDATA maxLocals) := by
  unfold parseLocals
  rw [if_neg (by omega)]
  rcases appendLocals_cases c data maxLocals localDelta.natAbs idx c0 vd with ⟨hfit, heq⟩ | ⟨hov, hnone⟩
  · left
    refine ⟨hfit, ?_⟩
    rw [heq]
  · right
    refine ⟨hov, ?_⟩
    generalize appendLocals c data maxLocals localDelta.natAbs idx c0 vd = r at hnone ⊢
    obtain ⟨a, b, d⟩ := r
    simp only at hnone
    subst hnone
    exact ⟨_, _, rfl, rfl, rfl⟩

theorem parseLocals_chop_cases (c : Collaborators) (vd : VerifyData) (data : Nat → Nat)
    (idx : Nat) (localDelta c0 maxLocals : Int) (hd : localDelta < 0) (h0 : 0 ≤ c0) :
    ((chopSpec localDelta.natAbs c0 vd.liveStack.stackElements).1 < 0 ∧
      ∃ els, parseLocals c vd data idx localDelta c0 maxLocals =
        (LocalsResult.BCV_ERR_INTERNAL_ERROR, idx,
          { vd with
            liveStack := { vd.liveStack with stackElements := els }
            errorDetailCode := DetailCode.BCV_ERR_STACKMAP_FRAME_LOCALS_UNDERFLOW })) ∨
    (0 ≤ (chopSpec localDelta.natAbs c0 vd.liveStack.stackElements).1 ∧
      parseLocals c vd data idx localDelta c0 maxLocals =
        (LocalsResult.localsCount (chopSpec localDelta.natAbs c0 vd.liveStack.stackElements).1, idx,
          { vd with
            liveStack := { vd.liveStack with
              stackElements := (chopSpec localDelta.natAbs c0 vd.liveStack.stackElements).2 } })) := by
  unfold parseLocals
  rw [if_pos hd]
  rcases chopLocals_spec localDelta.natAbs c0 vd.liveStack.stackElements h0 with ⟨hneg, hnone⟩ | ⟨hpos, heq⟩
  · left
    refine ⟨hneg, ?_⟩
    generalize chopLocals localDelta.natAbs c0 vd.liveStack.stackElements = r at hnone ⊢
    obtain ⟨a, b⟩ := r
    simp only at hnone
    subst hnone
    exact ⟨b, rfl⟩
  · right
    refine ⟨hpos, ?_⟩
    rw [heq]

/-! ## One iteration of `decompressStackMaps` -/

theorem storeFrame_stored {st : DecompressState} {mapPC : Nat} {n : Int} {idx : Nat}
    {vd : VerifyData} {next : DecompressState}
    (h : storeFrame st mapPC n idx vd = some (FrameOutcome.stored next)) :
    mapPC < vd.romMethod.bytecodeSize ∧
    ∃ v old, vd.bytecodeMap[mapPC]? = some v ∧ vd.stackMaps[st.branchTargetStack]? = some old ∧
      next =
        { verifyData := { vd with
            bytecodeMap := vd.bytecodeMap.set mapPC
              ((v ||| ((st.mapIndex <<< BRANCH_INDEX_SHIFT) ||| BRANCH_TARGET)) % U32_RANGE)
            stackMaps := vd.stackMaps.set st.branchTargetStack
              { copyStack vd.liveStack old with pc := mapPC } }
          stackMapData := idx
          localsCount := n
          mapPC := mapPC
          mapIndex := st.mapIndex + 1
          branchTargetStack := st.branchTargetStack + 1 } := by
  unfold storeFrame at h
  dsimp only at h
  split at h
  · cases h
  · rename_i hlt
    split at h
    · rename_i v old hv hold
      simp only [Option.some.injEq, FrameOutcome.stored.injEq] at h
      exact ⟨by omega, v, old, hv, hold, h.symm⟩
    · cases h

theorem decompressFrame_of_locals_error {c : Collaborators} {data : Nat → Nat}
    {st : DecompressState} {idx' : Nat} {vd' : VerifyData}
    (h : parseLocals c st.verifyData data (decodeFrameTag c data st).stackMapData
      (decodeFrameTag c data st).localDelta (decodeFrameTag c data st).localsCount
      ((st.verifyData.romMethod.argCount : Int) + st.verifyData.romMethod.tempCount) =
        (LocalsResult.BCV_ERR_INTERNAL_ERROR, idx', vd')) :
    decompressFrame c data st =
      some (FrameOutcome.failed (inconsistentStackAt vd' (decodeFrameTag c data st).mapPC)) := by
  unfold decompressFrame
  simp only [h]

theorem decompressFrame_of_locals {c : Collaborators} {data : Nat → Nat}
    {st : DecompressState} {n : Int} {idx' : Nat} {vd' : VerifyData}
    (h : parseLocals c st.verifyData data (decodeFrameTag c data st).stackMapData
      (decodeFrameTag c data st).localDelta (decodeFrameTag c data st).localsCount
      ((st.verifyData.romMethod.argCount : Int) + st.verifyData.romMethod.tempCount) =
        (LocalsResult.localsCount n, idx', vd')) (hn : 0 ≤ n) :
    decompressFrame c data st =
      match parseStack c vd' data
        (if (decodeFrameTag c data st).mapType = CFR_STACKMAP_FULL then NEXT_U16 c data idx'
          else ((decodeFrameTag c data st).stackCount, idx')).2
        (if (decodeFrameTag c data st).mapType = CFR_STACKMAP_FULL then NEXT_U16 c data idx'
          else ((decodeFrameTag c data st).stackCount, idx')).1
        st.verifyData.romMethod.maxStack with
      | (RC.BCV_SUCCESS, stackMapData, verifyData) =>
        storeFrame st (decodeFrameTag c data st).mapPC n stackMapData verifyData
      | (_, _, verifyData) =>
        some (FrameOutcome.failed
          (inconsistentStackAt verifyData (decodeFrameTag c data st).mapPC)) := by
  unfold decompressFrame
  simp only [h]
  rw [if_neg (by omega)]

theorem decompressFrame_of_locals_negative {c : Collaborators} {data : Nat → Nat}
    {st : DecompressState} {n : Int} {idx' : Nat} {vd' : VerifyData}
    (h : parseLocals c st.verifyData data (decodeFrameTag c data st).stackMapData
      (decodeFrameTag c data st).localDelta (decodeFrameTag c data st).localsCount
      ((st.verifyData.romMethod.argCount : Int) + st.verifyData.romMethod.tempCount) =
        (LocalsResult.localsCount n, idx', vd')) (hn : n < 0) :
    decompressFrame c data st =
      some (FrameOutcome.failed (inconsistentStackAt vd' (decodeFrameTag c data st).mapPC)) := by
  unfold decompressFrame
  simp only [h]
  rw [if_pos hn]

/-- A stored frame whose tag does not chop locals: the live stack it leaves and
what is written to the bytecode map and the frame store. -/
theorem decompressFrame_stored_append {c : Collaborators} {data : Nat → Nat}
    {st next : DecompressState}
    (h : decompressFrame c data st = some (FrameOutcome.stored next))
    (hd : 0 ≤ (decodeFrameTag c data st).localDelta) :
    (localSlots c data st.verifyData.classNameList (decodeFrameTag c data st) = [] ∨
      (decodeFrameTag c data st).localsCount +
        (localSlots c data st.verifyData.classNameList (decodeFrameTag c data st)).length ≤
        (st.verifyData.romMethod.argCount : Int) + st.verifyData.romMethod.tempCount) ∧
    (stackSlots c data st.verifyData.classNameList (decodeFrameTag c data st) = [] ∨
      (stackSlots c data st.verifyData.classNameList (decodeFrameTag c data st)).length ≤
        st.verifyData.romMethod.maxStack) ∧
    (decodeFrameTag c data st).mapPC < st.verifyData.romMethod.bytecodeSize ∧
    next.localsCount = (decodeFrameTag c data st).localsCount +
      (localSlots c data st.verifyData.classNameList (decodeFrameTag c data st)).length ∧
    next.mapPC = (decodeFrameTag c data st).mapPC ∧
    next.mapIndex = st.mapIndex + 1 ∧
    next.branchTargetStack = st.branchTargetStack + 1 ∧
    next.verifyData.liveStack =
      { st.verifyData.liveStack with
        stackElements :=
          writeSlots
            (clearLocals
              ((toUDATA (st.verifyData.liveStack.stackBaseIndex -
                  ((decodeFrameTag c data st).localsCount +
                    (localSlots c data st.verifyData.classNameList
                      (decodeFrameTag c data st)).length)) +
                toUDATA ((decodeFrameTag c data st).localsCount +
                  (localSlots c data st.verifyData.classNameList
                    (decodeFrameTag c data st)).length)) % UDATA_RANGE -
                toUDATA ((decodeFrameTag c data st).localsCount +
                  (localSlots c data st.verifyData.classNameList
                    (decodeFrameTag c data st)).length))
              (toUDATA ((decodeFrameTag c data st).localsCount +
                (localSlots c data st.verifyData.classNameList
                  (decodeFrameTag c data st)).length))
              (writeSlots st.verifyData.liveStack.stackElements
                (decodeFrameTag c data st).localsCount
                (localSlots c data st.verifyData.classNameList (decodeFrameTag c data st))))
            st.verifyData.liveStack.stackBaseIndex
            (stackSlots c data st.verifyData.classNameList (decodeFrameTag c data st))
        stackTopIndex := st.verifyData.liveStack.stackBaseIndex +
          (stackSlots c data st.verifyData.classNameList (decodeFrameTag c data st)).length } ∧
    ∃ v old, st.verifyData.bytecodeMap[(decodeFrameTag c data st).mapPC]? = some v ∧
      st.verifyData.stackMaps[st.branchTargetStack]? = some old ∧
      next.verifyData.bytecodeMap = st.verifyData.bytecodeMap.set (decodeFrameTag c data st).mapPC
        ((v ||| ((st.mapIndex <<< BRANCH_INDEX_SHIFT) ||| BRANCH_TARGET)) % U32_RANGE) ∧
      next.verifyData.stackMaps = st.verifyData.stackMaps.set st.branchTargetStack
        { copyStack next.verifyData.liveStack old with pc := (decodeFrameTag c data st).mapPC } := by
  rcases parseLocals_append_cases c st.verifyData data (decodeFrameTag c data st).stackMapData
    (decodeFrameTag c data st).localDelta (decodeFrameTag c data st).localsCount
    ((st.verifyData.romMethod.argCount : Int) + st.verifyData.romMethod.tempCount) hd with
    ⟨hfit, hL⟩ | ⟨_, idx', vd', hL, _⟩
  · by_cases hn : (decodeFrameTag c data st).localsCount +
        ((expandWide (elementsAt c data (decodeFrameTag c data st).localDelta.natAbs
          st.verifyData.classNameList (decodeFrameTag c data st).stackMapData).1).length : Int) < 0
    · rw [decompressFrame_of_locals_negative hL hn] at h
      cases h
    · rw [decompressFrame_of_locals hL (by omega)] at h
      rcases parseStack_cases c _ data
          (if (decodeFrameTag c data st).mapType = CFR_STACKMAP_FULL then
            NEXT_U16 c data (elementsAt c data (decodeFrameTag c data st).localDelta.natAbs
              st.verifyData.classNameList (decodeFrameTag c data st).stackMapData).2.1
          else ((decodeFrameTag c data st).stackCount,
            (elementsAt c data (decodeFrameTag c data st).localDelta.natAbs
              st.verifyData.classNameList (decodeFrameTag c data st).stackMapData).2.1)).2
          (if (decodeFrameTag c data st).mapType = CFR_STACKMAP_FULL then
            NEXT_U16 c data (elementsAt c data (decodeFrameTag c data st).localDelta.natAbs
              st.verifyData.classNameList (decodeFrameTag c data st).stackMapData).2.1
          else ((decodeFrameTag c data st).stackCount,
            (elementsAt c data (decodeFrameTag c data st).localDelta.natAbs
              st.verifyData.classNameList (decodeFrameTag c data st).stackMapData).2.1)).1
          st.verifyData.romMethod.maxStack with ⟨hsfit, hS⟩ | ⟨_, idx2, vd2, hS, _⟩
      · rw [hS] at h
        obtain ⟨hlt, v, old, hv, hold, hnext⟩ := storeFrame_stored h
        have hsrc : stackSlots c data st.verifyData.classNameList (decodeFrameTag c data st) =
            expandWide (elementsAt c data
              (if (decodeFrameTag c data st).mapType = CFR_STACKMAP_FULL then
                NEXT_U16 c data (elementsAt c data (decodeFrameTag c data st).localDelta.natAbs
                  st.verifyData.classNameList (decodeFrameTag c data st).stackMapData).2.1
              else ((decodeFrameTag c data st).stackCount,
                (elementsAt c data (decodeFrameTag c data st).localDelta.natAbs
                  st.verifyData.classNameList (decodeFrameTag c data st).stackMapData).2.1)).1
              (elementsAt c data (decodeFrameTag c data st).localDelta.natAbs
                  st.verifyData.classNameList (decodeFrameTag c data st).stackMapData).2.2
              (if (decodeFrameTag c data st).mapType = CFR_STACKMAP_FULL then
                NEXT_U16 c data (elementsAt c data (decodeFrameTag c data st).localDelta.natAbs
                  st.verifyData.classNameList (decodeFrameTag c data st).stackMapData).2.1
              else ((decodeFrameTag c data st).stackCount,
                (elementsAt c data (decodeFrameTag c data st).localDelta.natAbs
                  st.verifyData.classNameList (decodeFrameTag c data st).stackMapData).2.1)).2).1 := by
          unfold stackSlots stackSource
          dsimp only
          split_ifs <;> rfl
        subst hnext
        refine ⟨hfit, ?_, hlt, rfl, rfl, rfl, rfl, ?_, v, old, hv, hold, rfl, rfl⟩
        · rw [hsrc]
          exact hsfit
        · simp only [hsrc, localSlots]
      · rw [hS] at h
        cases h
  · rw [decompressFrame_of_locals_error hL] at h
    cases h

/-! ## Frames by tag -/

theorem udata_range_eq : UDATA_RANGE = 18446744073709551616 := by
  norm_num [UDATA_RANGE]

theorem clearLocals_range (els : Int → Nat) (c1 base : Int) (h0 : 0 ≤ c1)
    (h1 : c1 < UDATA_RANGE) (hb0 : 0 ≤ base) (hb1 : base < UDATA_RANGE) (j : Int) :
    clearLocals ((toUDATA (base - c1) + toUDATA c1) % UDATA_RANGE - toUDATA c1) (toUDATA c1) els j
      = if c1 ≤ j ∧ j < base then BCV_BASE_TYPE_TOP else els j := by
  rw [clearLocals_apply]
  unfold toUDATA
  rw [udata_range_eq] at h1 hb1 ⊢
  push_cast at h1 hb1 ⊢
  split_ifs <;> first | rfl | omega

theorem decodeFrameTag_same {c : Collaborators} {data : Nat → Nat} {st : DecompressState}
    (ht : byteAt data st.stackMapData < 64) :
    decodeFrameTag c data st =
      { mapType := byteAt data st.stackMapData
        mapPC := ((st.mapPC + 1) % UDATA_RANGE + byteAt data st.stackMapData) % UDATA_RANGE
        stackCount := 0, localDelta := 0, localsCount := st.localsCount
        stackMapData := st.stackMapData + 1 } := by
  unfold decodeFrameTag NEXT_U8
  simp only [CFR_STACKMAP_SAME_LOCALS_1_STACK, if_pos ht]

theorem stored_frame_lookup {frames : List J9BranchTargetStack} {k : Nat}
    {old f : J9BranchTargetStack} (h : frames[k]? = some old) :
    (frames.set k f)[k]? = some f := by
  have hlt : k < frames.length := by
    rcases Nat.lt_or_ge k frames.length with h1 | h1
    · exact h1
    · rw [List.getElem?_eq_none h1] at h; cases h
  simp [List.getElem?_set, hlt]

/-- C5, amended: for a stack-map entry whose tag `t` is in 0..63 the map PC becomes
the previous map PC plus `1 + t` (modulo the word size, so that the first entry
lands at `t`), the locals count is kept, the local slots from the locals count up
to `stackBaseIndex` are set to `top` and no other slot changes, the operand stack
of the live stack is emptied, and the stored frame is the copy of that live
stack at the new PC. -/
theorem same_frame_advances_and_clears_stack (c : Collaborators) (data : Nat → Nat)
    (st next : DecompressState) (ht : byteAt data st.stackMapData < 64)
    (h : decompressFrame c data st = some (FrameOutcome.stored next))
    (hc0 : 0 ≤ st.localsCount) (hc1 : st.localsCount < UDATA_RANGE)
    (hb0 : 0 ≤ st.verifyData.liveStack.stackBaseIndex)
    (hb1 : st.verifyData.liveStack.stackBaseIndex < UDATA_RANGE) :
    next.mapPC = (st.mapPC + 1 + byteAt data st.stackMapData) % UDATA_RANGE ∧
    next.localsCount = st.localsCount ∧
    (∀ i : Int, next.verifyData.liveStack.stackElements i =
      if st.localsCount ≤ i ∧ i < st.verifyData.liveStack.stackBaseIndex then BCV_BASE_TYPE_TOP
      else st.verifyData.liveStack.stackElements i) ∧
    next.verifyData.liveStack.stackBaseIndex = st.verifyData.liveStack.stackBaseIndex ∧
    next.verifyData.liveStack.stackTopIndex = st.verifyData.liveStack.stackBaseIndex ∧
    ∃ f, next.verifyData.stackMaps[st.branchTargetStack]? = some f ∧ f.pc = next.mapPC ∧
      f.stackBaseIndex = st.verifyData.liveStack.stackBaseIndex ∧
      f.stackTopIndex = st.verifyData.liveStack.stackBaseIndex ∧
      ∀ i : Int, 0 ≤ i → i < f.stackTopIndex →
        f.stackElements i = next.verifyData.liveStack.stackElements i := by
  have hdr := decodeFrameTag_same (c := c) ht
  have hd : 0 ≤ (decodeFrameTag c data st).localDelta := by rw [hdr]
  obtain ⟨_, _, _, hcnt, hpc, _, _, hlive, v, old, _, hold, _, hmaps⟩ :=
    decompressFrame_stored_append h hd
  have hls : localSlots c data st.verifyData.classNameList (decodeFrameTag c data st) = [] := by
    rw [hdr]; rfl
  have hss : stackSlots c data st.verifyData.classNameList (decodeFrameTag c data st) = [] := by
    unfold stackSlots stackSource
    rw [hdr]
    dsimp only
    have : ¬ byteAt data st.stackMapData = CFR_STACKMAP_FULL := by
      unfold CFR_STACKMAP_FULL; omega
    simp only [this, if_false]
    rfl
  rw [hls, hss] at hlive
  rw [hls] at hcnt
  rw [hdr] at hcnt hpc hlive
  simp only [List.length_nil, Nat.cast_zero, add_zero, writeSlots] at hcnt hlive
  have hels : ∀ i : Int, next.verifyData.liveStack.stackElements i =
      if st.localsCount ≤ i ∧ i < st.verifyData.liveStack.stackBaseIndex then BCV_BASE_TYPE_TOP
      else st.verifyData.liveStack.stackElements i := by
    intro i
    rw [hlive]
    exact clearLocals_range _ _ _ hc0 hc1 hb0 hb1 i
  have hpc' : next.mapPC = (st.mapPC + 1 + byteAt data st.stackMapData) % UDATA_RANGE := by
    rw [hpc]
    simp only [Nat.add_mod, Nat.mod_mod]
  refine ⟨hpc', hcnt, hels, by rw [hlive], by rw [hlive], ?_⟩
  refine ⟨_, by rw [hmaps]; exact stored_frame_lookup hold, ?_, ?_, ?_, ?_⟩
  · simp only [hpc, hdr]
  · simp only [copyStack, hlive]
  · simp only [copyStack, hlive]
  · intro i hi0 hi1
    simp only [copyStack] at hi1 ⊢
    rw [if_pos ⟨hi0, hi1⟩]

theorem same_frame_advances_and_clears_stack_witness :
    (nextOrSelf (decompressFrame exampleCollaborators (mapBytes sameFrameBytes) sameFrameState)
        sameFrameState).mapPC = (sameFrameState.mapPC + 1 +
        byteAt (mapBytes sameFrameBytes) sameFrameState.stackMapData) % UDATA_RANGE :=
  (same_frame_advances_and_clears_stack exampleCollaborators (mapBytes sameFrameBytes)
    sameFrameState
    (nextOrSelf (decompressFrame exampleCollaborators (mapBytes sameFrameBytes) sameFrameState)
        sameFrameState)
    (by decide) (by rfl) (by decide) (by decide) (by decide) (by decide)).1

/-- C5 as stated fails: after a same-locals-1-stack frame at PC 2 holding one
`int` on the stack, a same frame with tag 3 is stored at PC 6, not at 2 + 3, and
its operand stack is empty, not equal to that of the previous frame. -/
theorem same_frame_counterexample :
    ¬ (∀ (after : VerifyData) (f0 f1 : J9BranchTargetStack),
        decompressStackMaps exampleCollaborators (mappedVerifyData 2) 1
          (mapBytes sameFrameBytes) 0 = some (RC.BCV_SUCCESS, after) →
        after.stackMaps[0]? = some f0 → after.stackMaps[1]? = some f1 →
        f1.pc = f0.pc + 3 ∧ f1.stackTopIndex = f0.stackTopIndex) := by
  intro hclaim
  have hrun : decompressStackMaps exampleCollaborators (mappedVerifyData 2) 1
      (mapBytes sameFrameBytes) 0 = some (RC.BCV_SUCCESS,
        stateAfter (decompressStackMaps exampleCollaborators (mappedVerifyData 2) 1
          (mapBytes sameFrameBytes) 0) (mappedVerifyData 2)) := by rfl
  have h := hclaim _ _ _ hrun rfl rfl
  exact absurd h.1 (by decide)

theorem decodeFrameTag_extended {c : Collaborators} {data : Nat → Nat} {st : DecompressState}
    (h1 : 248 ≤ byteAt data st.stackMapData) (h2 : byteAt data st.stackMapData ≤ 254) :
    decodeFrameTag c data st =
      { mapType := byteAt data st.stackMapData
        mapPC := ((st.mapPC + 1) % UDATA_RANGE + (NEXT_U16 c data (st.stackMapData + 1)).1)
          % UDATA_RANGE
        stackCount := 0
        localDelta := (byteAt data st.stackMapData : Int) - 251
        localsCount := st.localsCount
        stackMapData := st.stackMapData + 3 } := by
  unfold decodeFrameTag NEXT_U8 NEXT_U16
  simp only [CFR_STACKMAP_SAME_LOCALS_1_STACK, CFR_STACKMAP_SAME_LOCALS_1_STACK_END,
    CFR_STACKMAP_SAME_LOCALS_1_STACK_EXTENDED, CFR_STACKMAP_FULL, CFR_STACKMAP_SAME_EXTENDED]
  rw [if_neg (by omega), if_neg (by omega), if_neg (by omega), if_pos (by omega)]
  rfl

theorem parseStack_zero (c : Collaborators) (vd : VerifyData) (data : Nat → Nat)
    (idx maxStack : Nat) :
    parseStack c vd data idx 0 maxStack =
      (RC.BCV_SUCCESS, idx,
        { vd with liveStack := { vd.liveStack with stackTopIndex := vd.liveStack.stackBaseIndex } }) := by
  rfl

/-- A stored frame whose tag chops locals. -/
theorem decompressFrame_stored_chop {c : Collaborators} {data : Nat → Nat}
    {st next : DecompressState}
    (h : decompressFrame c data st = some (FrameOutcome.stored next))
    (h1 : 248 ≤ byteAt data st.stackMapData) (h2 : byteAt data st.stackMapData ≤ 250)
    (hc0 : 0 ≤ st.localsCount) :
    0 ≤ (chopSpec (251 - byteAt data st.stackMapData) st.localsCount
      st.verifyData.liveStack.stackElements).1 ∧
    next.localsCount = (chopSpec (251 - byteAt data st.stackMapData) st.localsCount
      st.verifyData.liveStack.stackElements).1 ∧
    next.mapPC = (decodeFrameTag c data st).mapPC ∧
    next.verifyData.liveStack =
      { st.verifyData.liveStack with
        stackElements := (chopSpec (251 - byteAt data st.stackMapData) st.localsCount
          st.verifyData.liveStack.stackElements).2
        stackTopIndex := st.verifyData.liveStack.stackBaseIndex } ∧
    ∃ old, st.verifyData.stackMaps[st.branchTargetStack]? = some old ∧
      next.verifyData.stackMaps = st.verifyData.stackMaps.set st.branchTargetStack
        { copyStack next.verifyData.liveStack old with pc := (decodeFrameTag c data st).mapPC } := by
  have hdr := decodeFrameTag_extended (c := c) h1 (by omega : byteAt data st.stackMapData ≤ 254)
  have hneg : (decodeFrameTag c data st).localDelta < 0 := by rw [hdr]; simp only; omega
  have habs : (decodeFrameTag c data st).localDelta.natAbs = 251 - byteAt data st.stackMapData := by
    rw [hdr]; simp only; omega
  have hcnt : (decodeFrameTag c data st).localsCount = st.localsCount := by rw [hdr]
  have htype : (decodeFrameTag c data st).mapType ≠ CFR_STACKMAP_FULL := by
    rw [hdr]; simp only [CFR_STACKMAP_FULL]; omega
  have hsc : (decodeFrameTag c data st).stackCount = 0 := by rw [hdr]
  rcases parseLocals_chop_cases c st.verifyData data (decodeFrameTag c data st).stackMapData
    (decodeFrameTag c data st).localDelta (decodeFrameTag c data st).localsCount
    ((st.verifyData.romMethod.argCount : Int) + st.verifyData.romMethod.tempCount) hneg
    (by rw [hcnt]; exact hc0) with ⟨_, els, hL⟩ | ⟨hpos, hL⟩
  · rw [decompressFrame_of_locals_error hL] at h
    cases h
  · rw [decompressFrame_of_locals hL hpos] at h
    simp only [if_neg htype, hsc, parseStack_zero] at h
    obtain ⟨_, v, old, _, hold, hnext⟩ := storeFrame_stored h
    subst hnext
    rw [habs, hcnt] at hpos
    refine ⟨hpos, ?_, rfl, ?_, old, hold, rfl⟩
    · simp only [habs, hcnt]
    · simp only [habs, hcnt]

/-- C6: for a stack-map entry with tag `t` in 248..250 that is stored,
`k = 251 - t` locals are dropped from the current locals, each one as `chopOneLocal`
describes (one slot, or two when the slot exposed beneath holds long or double);
between `k` and `2 * k` slots are removed, every removed slot is `top`, every other
slot is unchanged, and the new locals count is the previous count minus the
number of removed slots. -/
theorem chop_frame_drops_locals (c : Collaborators) (data : Nat → Nat)
    (st next : DecompressState)
    (h1 : 248 ≤ byteAt data st.stackMapData) (h2 : byteAt data st.stackMapData ≤ 250)
    (h : decompressFrame c data st = some (FrameOutcome.stored next))
    (hc0 : 0 ≤ st.localsCount) :
    (next.localsCount, next.verifyData.liveStack.stackElements) =
      chopSpec (251 - byteAt data st.stackMapData) st.localsCount
        st.verifyData.liveStack.stackElements ∧
    0 ≤ next.localsCount ∧
    st.localsCount - 2 * (251 - byteAt data st.stackMapData : Nat) ≤ next.localsCount ∧
    next.localsCount ≤ st.localsCount - (251 - byteAt data st.stackMapData : Nat) ∧
    ∀ i : Int, next.verifyData.liveStack.stackElements i =
      if next.localsCount ≤ i ∧ i < st.localsCount then BCV_BASE_TYPE_TOP
      else st.verifyData.liveStack.stackElements i := by
  obtain ⟨hpos, hcnt, _, hlive, _⟩ := decompressFrame_stored_chop h h1 h2 hc0
  have hb := chopSpec_bounds (251 - byteAt data st.stackMapData) st.localsCount
    st.verifyData.liveStack.stackElements
  refine ⟨?_, ?_, ?_, ?_, ?_⟩
  · rw [hcnt, hlive]
  · rw [hcnt]; exact hpos
  · rw [hcnt]; exact hb.1
  · rw [hcnt]; exact hb.2
  · intro i
    rw [hcnt, hlive]
    exact chopSpec_slots _ _ _ i

theorem chop_frame_drops_locals_witness :
    ((nextOrSelf (decompressFrame exampleCollaborators (mapBytes chopFrameBytes) chopFrameState)
        chopFrameState).localsCount,
      (nextOrSelf (decompressFrame exampleCollaborators (mapBytes chopFrameBytes) chopFrameState)
        chopFrameState).verifyData.liveStack.stackElements) =
      chopSpec (251 - byteAt (mapBytes chopFrameBytes) chopFrameState.stackMapData)
        chopFrameState.localsCount chopFrameState.verifyData.liveStack.stackElements :=
  (chop_frame_drops_locals exampleCollaborators (mapBytes chopFrameBytes) chopFrameState
    (nextOrSelf (decompressFrame exampleCollaborators (mapBytes chopFrameBytes) chopFrameState)
        chopFrameState)
    (by decide) (by decide) (by rfl) (by decide)).1

theorem toUDATA_of_nonneg (v : Int) (h0 : 0 ≤ v) (h1 : v < UDATA_RANGE) :
    ((toUDATA v : Nat) : Int) = v := by
  unfold toUDATA
  rw [udata_range_eq] at h1 ⊢
  push_cast at h1 ⊢
  omega

/-- C7: for a stack-map entry with tag `t = 251 + k` in 252..254 that is stored,
exactly `k = t - 251` entries are parsed and their slots (a long or double entry
followed by `top`) are written after the current locals in order; the locals below
the previous count are unchanged and the new count is the previous count plus `k`
plus the number of long/double entries. -/
theorem append_frame_appends_locals (c : Collaborators) (data : Nat → Nat)
    (st next : DecompressState) (k : Nat) (hk1 : 1 ≤ k) (hk3 : k ≤ 3)
    (ht : byteAt data st.stackMapData = 251 + k)
    (h : decompressFrame c data st = some (FrameOutcome.stored next))
    (hc0 : 0 ≤ st.localsCount)
    (hmax : st.verifyData.romMethod.argCount + st.verifyData.romMethod.tempCount < UDATA_RANGE) :
    (elementsAt c data k st.verifyData.classNameList (st.stackMapData + 3)).1.length = k ∧
    next.stackMapData =
      (elementsAt c data k st.verifyData.classNameList (st.stackMapData + 3)).2.1 ∧
    next.localsCount = st.localsCount + k +
      ((elementsAt c data k st.verifyData.classNameList
        (st.stackMapData + 3)).1.countP isWide : Nat) ∧
    (∀ i : Int, i < st.localsCount →
      next.verifyData.liveStack.stackElements i = st.verifyData.liveStack.stackElements i) ∧
    ∀ j : Nat, j < (expandWide (elementsAt c data k
        st.verifyData.classNameList (st.stackMapData + 3)).1).length →
      next.verifyData.liveStack.stackElements (st.localsCount + j) =
        (expandWide (elementsAt c data k
          st.verifyData.classNameList (st.stackMapData + 3)).1).getD j 0 := by
  have hdr := decodeFrameTag_extended (c := c) (by omega : 248 ≤ byteAt data st.stackMapData)
    (by omega : byteAt data st.stackMapData ≤ 254)
  have hd : 0 ≤ (decodeFrameTag c data st).localDelta := by rw [hdr]; simp only; omega
  have habs : (decodeFrameTag c data st).localDelta.natAbs = k := by
    rw [hdr]; simp only; omega
  have hcnt0 : (decodeFrameTag c data st).localsCount = st.localsCount := by rw [hdr]
  have hidx : (decodeFrameTag c data st).stackMapData = st.stackMapData + 3 := by rw [hdr]
  have htype : ¬ (decodeFrameTag c data st).mapType = CFR_STACKMAP_FULL := by
    rw [hdr]; simp only [CFR_STACKMAP_FULL]; omega
  have hsc : (decodeFrameTag c data st).stackCount = 0 := by rw [hdr]
  have hls : localSlots c data st.verifyData.classNameList (decodeFrameTag c data st) =
      expandWide (elementsAt c data k st.verifyData.classNameList (st.stackMapData + 3)).1 := by
    unfold localSlots; rw [habs, hidx]
  have hss : stackSlots c data st.verifyData.classNameList (decodeFrameTag c data st) = [] := by
    unfold stackSlots stackSource
    simp only [htype, if_false, hsc]
    rfl
  have hnextidx : next.stackMapData =
      (elementsAt c data k st.verifyData.classNameList (st.stackMapData + 3)).2.1 := by
    rcases parseLocals_append_cases c st.verifyData data (decodeFrameTag c data st).stackMapData
      (decodeFrameTag c data st).localDelta (decodeFrameTag c data st).localsCount
      ((st.verifyData.romMethod.argCount : Int) + st.verifyData.romMethod.tempCount) hd with
      ⟨_, hL⟩ | ⟨_, idx', vd', hL, _⟩
    · have h' := h
      rw [decompressFrame_of_locals hL (by rw [hcnt0]; omega)] at h'
      simp only [if_neg htype, hsc, parseStack_zero] at h'
      obtain ⟨_, v, old, _, _, hnext⟩ := storeFrame_stored h'
      subst hnext
      simp only [habs, hidx]
    · rw [decompressFrame_of_locals_error hL] at h
      cases h
  obtain ⟨hfit, _, _, hcnt, _, _, _, hlive, _⟩ := decompressFrame_stored_append h hd
  rw [hls, hcnt0] at hfit hcnt
  rw [hls, hss, hcnt0] at hlive
  have hlen := elementsAt_length c data k st.verifyData.classNameList (st.stackMapData + 3)
  have hexp := expandWide_length
    (elementsAt c data k st.verifyData.classNameList (st.stackMapData + 3)).1
  generalize expandWide (elementsAt c data k st.verifyData.classNameList
    (st.stackMapData + 3)).1 = slots at hfit hcnt hlive hexp ⊢
  have hne : slots ≠ [] := by
    intro hnil
    rw [hnil] at hexp
    simp only [List.length_nil] at hexp
    omega
  have hfit' : st.localsCount + (slots.length : Int) ≤
      (st.verifyData.romMethod.argCount : Int) + st.verifyData.romMethod.tempCount := by
    rcases hfit with hf | hf
    · exact absurd hf hne
    · exact hf
  have hc1 : st.localsCount + (slots.length : Int) < UDATA_RANGE := by
    have : ((st.verifyData.romMethod.argCount + st.verifyData.romMethod.tempCount : Nat) : Int)
        < (UDATA_RANGE : Int) := by exact_mod_cast hmax
    push_cast at this
    omega
  have hu := toUDATA_of_nonneg _ (by omega : 0 ≤ st.localsCount + (slots.length : Int)) hc1
  have hw : ∀ (e : Int → Nat) (b : Int), writeSlots e b [] = e := fun _ _ => rfl
  have hels : ∀ i : Int, i < st.localsCount + (slots.length : Int) →
      next.verifyData.liveStack.stackElements i =
        writeSlots st.verifyData.liveStack.stackElements st.localsCount slots i := by
    intro i hi
    rw [hlive]
    simp only [hw]
    rw [clearLocals_apply, if_neg]
    rw [hu]
    omega
  refine ⟨hlen, hnextidx, ?_, ?_, ?_⟩
  · rw [hcnt, hexp, hlen]
    push_cast
    omega
  · intro i hi
    rw [hels i (by omega), writeSlots_apply, if_neg (by omega)]
  · intro j hj
    rw [hels _ (by omega), writeSlots_apply, if_pos (by omega)]
    congr 1
    omega

theorem append_frame_appends_locals_witness :
    (nextOrSelf (decompressFrame exampleCollaborators (mapBytes appendFrameBytes)
        (decompressStart (mappedVerifyData 1) 1 0)) (decompressStart (mappedVerifyData 1) 1 0)).localsCount
      = (decompressStart (mappedVerifyData 1) 1 0).localsCount + (2 : Nat) +
        ((elementsAt exampleCollaborators (mapBytes appendFrameBytes) 2
          (decompressStart (mappedVerifyData 1) 1 0).verifyData.classNameList
          ((decompressStart (mappedVerifyData 1) 1 0).stackMapData + 3)).1.countP isWide : Nat) :=
  (append_frame_appends_locals exampleCollaborators (mapBytes appendFrameBytes)
    (decompressStart (mappedVerifyData 1) 1 0)
    (nextOrSelf (decompressFrame exampleCollaborators (mapBytes appendFrameBytes)
        (decompressStart (mappedVerifyData 1) 1 0)) (decompressStart (mappedVerifyData 1) 1 0))
    2 (by decide) (by decide) (by decide) (by rfl) (by decide) (by decide)).2.2.1

theorem decodeFrameTag_full {c : Collaborators} {data : Nat → Nat} {st : DecompressState}
    (ht : byteAt data st.stackMapData = 255) :
    decodeFrameTag c data st =
      { mapType := 255
        mapPC := ((st.mapPC + 1) % UDATA_RANGE + (NEXT_U16 c data (st.stackMapData + 1)).1)
          % UDATA_RANGE
        stackCount := 0
        localDelta := ((NEXT_U16 c data (st.stackMapData + 3)).1 : Int)
        localsCount := 0
        stackMapData := st.stackMapData + 5 } := by
  unfold decodeFrameTag NEXT_U8 NEXT_U16
  simp only [CFR_STACKMAP_SAME_LOCALS_1_STACK, CFR_STACKMAP_SAME_LOCALS_1_STACK_END,
    CFR_STACKMAP_SAME_LOCALS_1_STACK_EXTENDED, CFR_STACKMAP_FULL, ht]
  rw [if_neg (by omega), if_neg (by omega), if_neg (by omega), if_neg (by omega)]
  simp only [if_true]

/-- C8: for a stored stack-map entry with tag 255 the locals are exactly the slots of
the u16-counted entries parsed after the offset (a long or double entry followed by
`top`) from slot 0 on, every local slot from the new locals count up to
`stackBaseIndex` is `top` whatever the previous frame held, and the operand stack is
exactly the slots of the u16-counted stack entries parsed after the locals. -/
theorem full_frame_resets_locals_and_stack (c : Collaborators) (data : Nat → Nat)
    (st next : DecompressState) (ht : byteAt data st.stackMapData = 255)
    (h : decompressFrame c data st = some (FrameOutcome.stored next))
    (hb1 : st.verifyData.liveStack.stackBaseIndex < UDATA_RANGE)
    (hbase : (st.verifyData.romMethod.argCount : Int) + st.verifyData.romMethod.tempCount ≤
      st.verifyData.liveStack.stackBaseIndex) :
    (elementsAt c data (NEXT_U16 c data (st.stackMapData + 3)).1 st.verifyData.classNameList
      (st.stackMapData + 5)).1.length = (NEXT_U16 c data (st.stackMapData + 3)).1 ∧
    next.localsCount = (localSlots c data st.verifyData.classNameList
      (decodeFrameTag c data st)).length ∧
    localSlots c data st.verifyData.classNameList (decodeFrameTag c data st) =
      expandWide (elementsAt c data (NEXT_U16 c data (st.stackMapData + 3)).1
        st.verifyData.classNameList (st.stackMapData + 5)).1 ∧
    stackSlots c data st.verifyData.classNameList (decodeFrameTag c data st) =
      expandWide (elementsAt c data
        (NEXT_U16 c data (elementsAt c data (NEXT_U16 c data (st.stackMapData + 3)).1
          st.verifyData.classNameList (st.stackMapData + 5)).2.1).1
        (elementsAt c data (NEXT_U16 c data (st.stackMapData + 3)).1
          st.verifyData.classNameList (st.stackMapData + 5)).2.2
        ((elementsAt c data (NEXT_U16 c data (st.stackMapData + 3)).1
          st.verifyData.classNameList (st.stackMapData + 5)).2.1 + 2)).1 ∧
    (∀ j : Nat, j < (localSlots c data st.verifyData.classNameList
        (decodeFrameTag c data st)).length →
      next.verifyData.liveStack.stackElements j =
        (localSlots c data st.verifyData.classNameList (decodeFrameTag c data st)).getD j 0) ∧
    (∀ i : Int, ((localSlots c data st.verifyData.classNameList
        (decodeFrameTag c data st)).length : Int) ≤ i →
      i < st.verifyData.liveStack.stackBaseIndex →
      next.verifyData.liveStack.stackElements i = BCV_BASE_TYPE_TOP) ∧
    next.verifyData.liveStack.stackBaseIndex = st.verifyData.liveStack.stackBaseIndex ∧
    next.verifyData.liveStack.stackTopIndex = st.verifyData.liveStack.stackBaseIndex +
      (stackSlots c data st.verifyData.classNameList (decodeFrameTag c data st)).length ∧
    ∀ j : Nat, j < (stackSlots c data st.verifyData.classNameList
        (decodeFrameTag c data st)).length →
      next.verifyData.liveStack.stackElements (st.verifyData.liveStack.stackBaseIndex + j) =
        (stackSlots c data st.verifyData.classNameList (decodeFrameTag c data st)).getD j 0 := by
  have hdr := decodeFrameTag_full (c := c) ht
  have hd : 0 ≤ (decodeFrameTag c data st).localDelta := by rw [hdr]; simp only; omega
  have hcnt0 : (decodeFrameTag c data st).localsCount = 0 := by rw [hdr]
  have hls : localSlots c data st.verifyData.classNameList (decodeFrameTag c data st) =
      expandWide (elementsAt c data (NEXT_U16 c data (st.stackMapData + 3)).1
        st.verifyData.classNameList (st.stackMapData + 5)).1 := by
    unfold localSlots
    rw [hdr]
    simp only [Int.natAbs_ofNat]
  have hss : stackSlots c data st.verifyData.classNameList (decodeFrameTag c data st) =
      expandWide (elementsAt c data
        (NEXT_U16 c data (elementsAt c data (NEXT_U16 c data (st.stackMapData + 3)).1
          st.verifyData.classNameList (st.stackMapData + 5)).2.1).1
        (elementsAt c data (NEXT_U16 c data (st.stackMapData + 3)).1
          st.verifyData.classNameList (st.stackMapData + 5)).2.2
        ((elementsAt c data (NEXT_U16 c data (st.stackMapData + 3)).1
          st.verifyData.classNameList (st.stackMapData + 5)).2.1 + 2)).1 := by
    unfold stackSlots stackSource
    rw [hdr]
    simp only [Int.natAbs_ofNat, CFR_STACKMAP_FULL, if_true]
    rfl
  obtain ⟨hfit, _, _, hcnt, _, _, _, hlive, _⟩ := decompressFrame_stored_append h hd
  rw [hcnt0] at hfit hcnt hlive
  have hlen := elementsAt_length c data (NEXT_U16 c data (st.stackMapData + 3)).1
    st.verifyData.classNameList (st.stackMapData + 5)
  refine ⟨hlen, by rw [hcnt]; omega, hls, hss, ?_⟩
  generalize localSlots c data st.verifyData.classNameList (decodeFrameTag c data st) = ls
    at hfit hcnt hlive ⊢
  generalize stackSlots c data st.verifyData.classNameList (decodeFrameTag c data st) = ss
    at hlive ⊢
  have hmaxpos : (0 : Int) ≤ (st.verifyData.romMethod.argCount : Int) +
      st.verifyData.romMethod.tempCount := by omega
  have hfit' : (ls.length : Int) ≤ st.verifyData.liveStack.stackBaseIndex := by
    rcases hfit with hf | hf
    · rw [hf]; simp only [List.length_nil, Nat.cast_zero]; omega
    · omega
  have hels : ∀ i : Int, next.verifyData.liveStack.stackElements i =
      if st.verifyData.liveStack.stackBaseIndex ≤ i ∧
          i < st.verifyData.liveStack.stackBaseIndex + ss.length then
        ss.getD (i - st.verifyData.liveStack.stackBaseIndex).toNat 0
      else if (0 : Int) + (ls.length : Int) ≤ i ∧ i < st.verifyData.liveStack.stackBaseIndex then
        BCV_BASE_TYPE_TOP
      else if (0 : Int) ≤ i ∧ i < 0 + (ls.length : Int) then ls.getD (i - 0).toNat 0
      else st.verifyData.liveStack.stackElements i := by
    intro i
    rw [hlive]
    simp only
    rw [writeSlots_apply, clearLocals_range _ _ _ (by omega) (by omega) (by omega) hb1,
      writeSlots_apply]
  refine ⟨?_, ?_, by rw [hlive], by rw [hlive], ?_⟩
  · intro j hj
    rw [hels, if_neg (by omega), if_neg (by omega), if_pos (by omega)]
    congr 1
  · intro i hi1 hi2
    rw [hels, if_neg (by omega), if_pos (by omega)]
  · intro j hj
    rw [hels, if_pos (by omega)]
    congr 1
    omega

theorem full_frame_resets_locals_and_stack_witness :
    (nextOrSelf (decompressFrame exampleCollaborators (mapBytes fullFrameBytes)
        (decompressStart (mappedVerifyData 1) 1 0))
        (decompressStart (mappedVerifyData 1) 1 0)).verifyData.liveStack.stackTopIndex =
      (decompressStart (mappedVerifyData 1) 1 0).verifyData.liveStack.stackBaseIndex +
        (stackSlots exampleCollaborators (mapBytes fullFrameBytes)
          (decompressStart (mappedVerifyData 1) 1 0).verifyData.classNameList
          (decodeFrameTag exampleCollaborators (mapBytes fullFrameBytes)
            (decompressStart (mappedVerifyData 1) 1 0))).length :=
  (full_frame_resets_locals_and_stack exampleCollaborators (mapBytes fullFrameBytes)
    (decompressStart (mappedVerifyData 1) 1 0)
    (nextOrSelf (decompressFrame exampleCollaborators (mapBytes fullFrameBytes)
        (decompressStart (mappedVerifyData 1) 1 0)) (decompressStart (mappedVerifyData 1) 1 0))
    (by decide) (by rfl) (by decide) (by decide)).2.2.2.2.2.2.2.1

/-! ## Failing frames -/

theorem decompressFrames_of_reaches_failed {c : Collaborators} {data : Nat → Nat}
    {n n' : Nat} {st st' : DecompressState} {vd' : VerifyData}
    (hr : DecompressReaches c data n st (n' + 1) st')
    (hf : decompressFrame c data st' = some (FrameOutcome.failed vd')) :
    decompressFrames c data n st = some (RC.BCV_FAIL, vd') := by
  generalize hm : n' + 1 = m at hr
  induction hr with
  | here n st =>
    subst hm
    simp only [decompressFrames, hf]
  | step n st next n' st' hstep _ ih =>
    simp only [decompressFrames, hstep]
    exact ih hf hm

theorem stackSlots_eq (c : Collaborators) (data : Nat → Nat) (names : ClassNameList)
    (hdr : FrameHeader) :
    stackSlots c data names hdr =
      expandWide (elementsAt c data
        (if hdr.mapType = CFR_STACKMAP_FULL then
          NEXT_U16 c data (elementsAt c data hdr.localDelta.natAbs names hdr.stackMapData).2.1
        else (hdr.stackCount,
          (elementsAt c data hdr.localDelta.natAbs names hdr.stackMapData).2.1)).1
        (elementsAt c data hdr.localDelta.natAbs names hdr.stackMapData).2.2
        (if hdr.mapType = CFR_STACKMAP_FULL then
          NEXT_U16 c data (elementsAt c data hdr.localDelta.natAbs names hdr.stackMapData).2.1
        else (hdr.stackCount,
          (elementsAt c data hdr.localDelta.natAbs names hdr.stackMapData).2.1)).2).1 := by
  unfold stackSlots stackSource
  dsimp only
  split_ifs <;> rfl

/-- C9: when the loop of `decompressStackMaps` arrives at a frame that would store a
local slot (an entry or the `top` half of a long/double) at an index at or above
`maxLocals`, `decompressStackMaps` returns `BCV_FAIL` with the locals-overflow
detail code, `errorTempData = maxLocals` and `errorPC` the map PC of that frame; when
the locals fit but a stack slot would be pushed on a stack already holding
`maxStack` slots, it returns `BCV_FAIL` with the stack-overflow detail code,
`errorTempData = maxStack` and `errorPC` the map PC of that frame. -/
theorem overflowing_frame_fails (c : Collaborators) (data : Nat → Nat) (vd : VerifyData)
    (c0 : Int) (idx0 n : Nat) (st : DecompressState)
    (hreach : DecompressReaches c data vd.stackMapsCount (decompressStart vd c0 idx0) (n + 1) st)
    (hd : 0 ≤ (decodeFrameTag c data st).localDelta)
    (hmax : st.verifyData.romMethod.argCount + st.verifyData.romMethod.tempCount < UDATA_RANGE) :
    ((∃ j : Nat,
        j < (localSlots c data st.verifyData.classNameList (decodeFrameTag c data st)).length ∧
        (st.verifyData.romMethod.argCount : Int) + st.verifyData.romMethod.tempCount ≤
          (decodeFrameTag c data st).localsCount + j) →
      ∃ vd', decompressStackMaps c vd c0 data idx0 = some (RC.BCV_FAIL, vd') ∧
        vd'.errorDetailCode = DetailCode.BCV_ERR_STACKMAP_FRAME_LOCALS_OVERFLOW ∧
        vd'.errorTempData =
          st.verifyData.romMethod.argCount + st.verifyData.romMethod.tempCount ∧
        vd'.errorPC = (decodeFrameTag c data st).mapPC) ∧
    ((localSlots c data st.verifyData.classNameList (decodeFrameTag c data st) = [] ∨
        (decodeFrameTag c data st).localsCount +
          (localSlots c data st.verifyData.classNameList (decodeFrameTag c data st)).length ≤
          (st.verifyData.romMethod.argCount : Int) + st.verifyData.romMethod.tempCount) →
      0 ≤ (decodeFrameTag c data st).localsCount +
        ((localSlots c data st.verifyData.classNameList (decodeFrameTag c data st)).length : Int) →
      (∃ j : Nat,
        j < (stackSlots c data st.verifyData.classNameList (decodeFrameTag c data st)).length ∧
        st.verifyData.romMethod.maxStack ≤ j) →
      ∃ vd', decompressStackMaps c vd c0 data idx0 = some (RC.BCV_FAIL, vd') ∧
        vd'.errorDetailCode = DetailCode.BCV_ERR_STACKMAP_FRAME_STACK_OVERFLOW ∧
        vd'.errorTempData = st.verifyData.romMethod.maxStack ∧
        vd'.errorPC = (decodeFrameTag c data st).mapPC) := by
  have hrun : ∀ vd', decompressFrame c data st = some (FrameOutcome.failed vd') →
      decompressStackMaps c vd c0 data idx0 = some (RC.BCV_FAIL, vd') := by
    intro vd' hf
    exact decompressFrames_of_reaches_failed hreach hf
  constructor
  · rintro ⟨j, hj1, hj2⟩
    rcases parseLocals_append_cases c st.verifyData data (decodeFrameTag c data st).stackMapData
      (decodeFrameTag c data st).localDelta (decodeFrameTag c data st).localsCount
      ((st.verifyData.romMethod.argCount : Int) + st.verifyData.romMethod.tempCount) hd with
      ⟨hfit, _⟩ | ⟨_, idx', vd', hL, hcode, htemp⟩
    · exfalso
      unfold localSlots at hj1
      rcases hfit with hf | hf
      · rw [hf] at hj1
        simp at hj1
      · omega
    · refine ⟨_, hrun _ (decompressFrame_of_locals_error hL), ?_, ?_, ?_⟩
      · simp only [inconsistentStackAt, BUILD_VERIFY_ERROR, hcode]
      · simp only [inconsistentStackAt, BUILD_VERIFY_ERROR, htemp]
        have h0 : (0 : Int) ≤ (st.verifyData.romMethod.argCount : Int) +
            st.verifyData.romMethod.tempCount := by omega
        have h1 : (st.verifyData.romMethod.argCount : Int) +
            st.verifyData.romMethod.tempCount < UDATA_RANGE := by exact_mod_cast hmax
        have := toUDATA_of_nonneg _ h0 h1
        omega
      · simp only [inconsistentStackAt, BUILD_VERIFY_ERROR]
  · intro hfit hn ⟨j, hj1, hj2⟩
    rcases parseLocals_append_cases c st.verifyData data (decodeFrameTag c data st).stackMapData
      (decodeFrameTag c data st).localDelta (decodeFrameTag c data st).localsCount
      ((st.verifyData.romMethod.argCount : Int) + st.verifyData.romMethod.tempCount) hd with
      ⟨_, hL⟩ | ⟨⟨hne, hov⟩, _⟩
    · have hframe := decompressFrame_of_locals hL hn
      rw [stackSlots_eq] at hj1
      rcases parseStack_cases c _ data
          (if (decodeFrameTag c data st).mapType = CFR_STACKMAP_FULL then
            NEXT_U16 c data (elementsAt c data (decodeFrameTag c data st).localDelta.natAbs
              st.verifyData.classNameList (decodeFrameTag c data st).stackMapData).2.1
          else ((decodeFrameTag c data st).stackCount,
            (elementsAt c data (decodeFrameTag c data st).localDelta.natAbs
              st.verifyData.classNameList (decodeFrameTag c data st).stackMapData).2.1)).2
          (if (decodeFrameTag c data st).mapType = CFR_STACKMAP_FULL then
            NEXT_U16 c data (elementsAt c data (decodeFrameTag c data st).localDelta.natAbs
              st.verifyData.classNameList (decodeFrameTag c data st).stackMapData).2.1
          else ((decodeFrameTag c data st).stackCount,
            (elementsAt c data (decodeFrameTag c data st).localDelta.natAbs
              st.verifyData.classNameList (decodeFrameTag c data st).stackMapData).2.1)).1
          st.verifyData.romMethod.maxStack with ⟨hsfit, hS⟩ | ⟨_, idx2, vd2, hS, hcode, htemp⟩
      · exfalso
        rw [hS] at hframe
        rcases hsfit with hf | hf
        · simp only at hf
          rw [hf] at hj1
          simp at hj1
        · simp only at hf
          omega
      · rw [hS] at hframe
        refine ⟨_, hrun _ hframe, ?_, ?_, ?_⟩
        · simp only [inconsistentStackAt, BUILD_VERIFY_ERROR, hcode]
        · simp only [inconsistentStackAt, BUILD_VERIFY_ERROR, htemp]
        · simp only [inconsistentStackAt, BUILD_VERIFY_ERROR]
    · exfalso
      unfold localSlots at hfit
      rcases hfit with hf | hf
      · exact hne hf
      · omega

theorem overflowing_frame_fails_witness :
    (∃ vd', decompressStackMaps exampleCollaborators (mappedVerifyData 1) 1
        (mapBytes localsOverflowBytes) 0 = some (RC.BCV_FAIL, vd') ∧
      vd'.errorDetailCode = DetailCode.BCV_ERR_STACKMAP_FRAME_LOCALS_OVERFLOW ∧
      vd'.errorTempData = 4 ∧ vd'.errorPC = 5) ∧
    (∃ vd', decompressStackMaps exampleCollaborators (mappedVerifyData 1) 1
        (mapBytes stackOverflowBytes) 0 = some (RC.BCV_FAIL, vd') ∧
      vd'.errorDetailCode = DetailCode.BCV_ERR_STACKMAP_FRAME_STACK_OVERFLOW ∧
      vd'.errorTempData = 2 ∧ vd'.errorPC = 5) :=
  ⟨(overflowing_frame_fails exampleCollaborators (mapBytes localsOverflowBytes)
      (mappedVerifyData 1) 1 0 0 (decompressStart (mappedVerifyData 1) 1 0)
      (DecompressReaches.here _ _) (by decide) (by decide)).1 ⟨3, by decide, by decide⟩,
    (overflowing_frame_fails exampleCollaborators (mapBytes stackOverflowBytes)
      (mappedVerifyData 1) 1 0 0 (decompressStart (mappedVerifyData 1) 1 0)
      (DecompressReaches.here _ _) (by decide) (by decide)).2 (Or.inl (by decide)) (by decide)
      ⟨2, by decide, by decide⟩⟩

theorem decompressReaches_count {c : Collaborators} {data : Nat → Nat} {n n' : Nat}
    {st st' : DecompressState} (hr : DecompressReaches c data n st n' st') : n' ≤ n := by
  induction hr with
  | here n st => exact Nat.le_refl _
  | step n st next n' st' _ _ ih => omega

/-- C10: when the loop of `decompressStackMaps` arrives at a chop frame (tag
`251 - k`) that asks to drop more local slots than the current locals count,
`decompressStackMaps` returns `BCV_FAIL` with the locals-underflow detail code and
`errorPC` the map PC of that frame, the frame store and the bytecode map are as
they were before that entry (no frame is stored for it or after it), and the pass
of `j9bcv_verifyBytecodes` through the method body that made the call ends without a
call of `simulateStack`: it calls `decompressStackMaps` only and then either leaves
the method loop with `BCV_ERR_INTERNAL_ERROR` or jumps to `_fallBack`. -/
theorem chop_underflow_fails_before_simulation (c : Collaborators) (p : Passes)
    (romClass : J9ROMClass) (hasClazz : Bool) (flags : VerificationFlags) (ds : DriverState)
    (vd1 : VerifyData) (src : MapSource) (vd2 : VerifyData) (sig : SignatureInfo)
    (n : Nat) (st : DecompressState) (k : Nat)
    (hcreate : createStackMaps romClass ds.verifyData = false)
    (hprep : prepareMaps c romClass ds.verifyData = some (Except.ok (vd1, src)))
    (hset : setUpFrames p false vd1 = some (Except.ok (vd2, sig)))
    (hreach : DecompressReaches c src.data vd2.stackMapsCount
      (decompressStart vd2 sig.argCount src.stackMapData) (n + 1) st)
    (hk1 : 1 ≤ k) (hk3 : k ≤ 3) (ht : byteAt src.data st.stackMapData + k = 251)
    (hc0 : 0 ≤ st.localsCount)
    (hunder : st.localsCount <
      st.localsCount - (chopSpec k st.localsCount st.verifyData.liveStack.stackElements).1) :
    ∃ vd', decompressFrame c src.data st = some (FrameOutcome.failed vd') ∧
      decompressStackMaps c vd2 sig.argCount src.data src.stackMapData = some (RC.BCV_FAIL, vd') ∧
      vd'.errorDetailCode = DetailCode.BCV_ERR_STACKMAP_FRAME_LOCALS_UNDERFLOW ∧
      vd'.errorPC = (decodeFrameTag c src.data st).mapPC ∧
      vd'.stackMaps = st.verifyData.stackMaps ∧
      vd'.bytecodeMap = st.verifyData.bytecodeMap ∧
      (verifyAttempt c p romClass hasClazz flags ds =
          some (AttemptOutcome.exit LoopExit.done
            { result := RC.BCV_ERR_INTERNAL_ERROR, verifyData := vd'
              events := ds.events ++ [Event.decompressStackMaps] }) ∨
        verifyAttempt c p romClass hasClazz flags ds =
          some (AttemptOutcome.fallBack
            { result := RC.BCV_FAIL, verifyData := resetForFallBack p vd'
              events := ds.events ++ [Event.decompressStackMaps, Event.fallBack] })) := by
  have hdr := @decodeFrameTag_extended c src.data st (by omega) (by omega)
  have hneg : (decodeFrameTag c src.data st).localDelta < 0 := by rw [hdr]; simp only; omega
  have habs : (decodeFrameTag c src.data st).localDelta.natAbs = k := by
    rw [hdr]; simp only; omega
  have hcnt : (decodeFrameTag c src.data st).localsCount = st.localsCount := by rw [hdr]
  rcases parseLocals_chop_cases c st.verifyData src.data (decodeFrameTag c src.data st).stackMapData
    (decodeFrameTag c src.data st).localDelta (decodeFrameTag c src.data st).localsCount
    ((st.verifyData.romMethod.argCount : Int) + st.verifyData.romMethod.tempCount) hneg
    (by rw [hcnt]; exact hc0) with ⟨_, els, hL⟩ | ⟨hpos, _⟩
  · have hframe := decompressFrame_of_locals_error hL
    have hrun : decompressStackMaps c vd2 sig.argCount src.data src.stackMapData =
        some (RC.BCV_FAIL, _) := decompressFrames_of_reaches_failed hreach hframe
    have hcount : vd2.stackMapsCount ≠ 0 := by
      have := decompressReaches_count hreach
      omega
    refine ⟨_, hframe, hrun, rfl, rfl, rfl, rfl, ?_⟩
    generalize inconsistentStackAt _ _ = vd' at hrun ⊢
    have hpass : runMapPass c p false src sig.argCount vd2 =
        some (RC.BCV_FAIL, vd', [Event.decompressStackMaps]) := by
      unfold runMapPass
      rw [if_pos hcount]
      simp only [hrun, Bool.false_eq_true, if_false]
    have hsecond : runSecondPass p hasClazz sig.isInitMethod RC.BCV_FAIL vd' =
        (RC.BCV_FAIL, vd', []) := by
      unfold runSecondPass
      rw [if_neg (by simp)]
    unfold verifyAttempt
    simp only [hcreate, hprep, hset, hpass, hsecond, Bool.false_eq_true, if_false]
    rw [if_neg (by simp), if_neg (by simp), if_pos (by simp)]
    simp only [List.append_nil, List.append_assoc, List.singleton_append, Bool.or_false]
    by_cases hstop : (decide (romClass.majorVersion ≥ CFR_MAJOR_VERSION_REQUIRING_STACKMAPS) ||
        flags.noFallback) = true
    · left
      rw [if_pos hstop]
    · right
      rw [if_neg hstop]
  · exfalso
    rw [habs, hcnt] at hpos
    omega

theorem chop_underflow_fails_before_simulation_witness :
    ∃ vd', decompressStackMaps exampleCollaborators chopTwoReady.1 chopTwoReady.2.argCount
        chopTwoPrepared.2.data chopTwoPrepared.2.stackMapData = some (RC.BCV_FAIL, vd') ∧
      vd'.errorDetailCode = DetailCode.BCV_ERR_STACKMAP_FRAME_LOCALS_UNDERFLOW ∧
      vd'.errorPC = 5 ∧
      (verifyAttempt exampleCollaborators examplePasses chopTwoClass true exampleFlags
          (exampleDriverState chopTwoMethod) =
          some (AttemptOutcome.exit LoopExit.done
            { result := RC.BCV_ERR_INTERNAL_ERROR, verifyData := vd'
              events := (exampleDriverState chopTwoMethod).events ++
                [Event.decompressStackMaps] }) ∨
        verifyAttempt exampleCollaborators examplePasses chopTwoClass true exampleFlags
          (exampleDriverState chopTwoMethod) =
          some (AttemptOutcome.fallBack
            { result := RC.BCV_FAIL, verifyData := resetForFallBack examplePasses vd'
              events := (exampleDriverState chopTwoMethod).events ++
                [Event.decompressStackMaps, Event.fallBack] })) :=
  let ⟨vd', _, h2, h3, h4, _, _, h7⟩ :=
    chop_underflow_fails_before_simulation exampleCollaborators examplePasses chopTwoClass true
      exampleFlags (exampleDriverState chopTwoMethod) chopTwoPrepared.1 chopTwoPrepared.2
      chopTwoReady.1 chopTwoReady.2 0
      (decompressStart chopTwoReady.1 chopTwoReady.2.argCount chopTwoPrepared.2.stackMapData) 2
      (by rfl) (by rfl) (by rfl) (DecompressReaches.here _ _) (by decide) (by decide)
      (by decide) (by decide) (by decide)
  ⟨vd', h2, h3, h4, h7⟩

/-! ## Unknown opcodes -/

theorem instructionEnd_ge (c : Collaborators) (m : J9ROMMethod) (p : Nat) :
    p ≤ instructionEnd c m p := by
  unfold instructionEnd switchTable switchBase
  dsimp only
  split_ifs
  · have : p < (p + 4) / 4 * 4 := by omega
    exact Nat.le_trans (by omega) (Nat.le_add_right _ _)
  · have : p < (p + 4) / 4 * 4 := by omega
    exact Nat.le_trans (by omega) (Nat.le_add_right _ _)
  · omega

theorem scanReaches_le {c : Collaborators} {m : J9ROMMethod} {p s : Nat}
    (h : ScanReaches c m p s) : p ≤ s := by
  induction h with
  | here p => exact Nat.le_refl _
  | step p s _ _ _ ih => exact Nat.le_trans (instructionEnd_ge c m p) ih

theorem scanReaches_progress {c : Collaborators} {m : J9ROMMethod} {p s : Nat}
    (h : ScanReaches c m p s) (hs : sizeAt c m s = 0) (hp : sizeAt c m p ≠ 0) :
    instructionEnd c m p ≠ p := by
  induction h with
  | here p => exact absurd hs hp
  | step p s _ _ _ ih =>
    intro heq
    rw [heq] at ih
    exact ih hs hp heq

theorem markTargets_succeeds :
    ∀ (ts : List Int) (bm : List Nat) (count : Nat),
      (∀ t ∈ ts, 0 ≤ t ∧ t < (bm.length : Int)) →
      ∃ bm' count', markTargets ts bm count = some (bm', count') ∧ bm'.length = bm.length := by
  intro ts
  induction ts with
  | nil => intro bm count _; exact ⟨bm, count, rfl, rfl⟩
  | cons t ts ih =>
    intro bm count hr
    obtain ⟨ht0, ht1⟩ := hr t (List.mem_cons_self _ _)
    have hlt : t.toNat < bm.length := by omega
    have hget : mapGet bm t = some bm[t.toNat] := by
      unfold mapGet
      rw [if_pos ht0, List.getElem?_eq_getElem hlt]
    simp only [markTargets, markBranchTarget, hget]
    split_ifs
    · obtain ⟨bm', count', h1, h2⟩ := ih (bm.set t.toNat BRANCH_TARGET) (count + 1) (by
        intro t' ht'
        rw [List.length_set]
        exact hr t' (List.mem_cons_of_mem _ ht'))
      exact ⟨bm', count', h1, by rw [h2, List.length_set]⟩
    · exact ih bm count (fun t' ht' => hr t' (List.mem_cons_of_mem _ ht'))

theorem scanBytecodes_unknown (c : Collaborators) (m : J9ROMMethod) (L : Nat) {p s : Nat}
    (h : ScanReaches c m p s) (hs : s < m.bytecodeSize) (hzero : sizeAt c m s = 0) :
    ∀ (fuel : Nat) (bm : List Nat) (count : Nat), s - p < fuel → bm.length = L →
      (∀ s', ScanReaches c m p s' → s' < s →
        ∀ t ∈ instructionTargets c m s', 0 ≤ t ∧ t < (L : Int)) →
      ∃ bm', scanBytecodes c m fuel p bm count = some (ScanOutcome.unknownOpcode s bm') := by
  induction h with
  | here p =>
    intro fuel bm count hfuel _ _
    obtain ⟨f, rfl⟩ : ∃ f, fuel = f + 1 := ⟨fuel - 1, by omega⟩
    rw [scanBytecodes_succ, if_pos hs, if_pos hzero]
    exact ⟨bm, rfl⟩
  | step p s hp hsz hr ih =>
    intro fuel bm count hfuel hlen hrange
    obtain ⟨f, rfl⟩ : ∃ f, fuel = f + 1 := ⟨fuel - 1, by omega⟩
    have hle := scanReaches_le hr
    have hge := instructionEnd_ge c m p
    have hne := scanReaches_progress (ScanReaches.step p s hp hsz hr) hzero hsz
    have hps : p < s := by omega
    obtain ⟨bm1, count1, hm, hl1⟩ := markTargets_succeeds (instructionTargets c m p) bm count (by
      intro t ht
      rw [hlen]
      exact hrange p (ScanReaches.here p) hps t ht)
    rw [scanBytecodes_succ, if_pos hp, if_neg hsz, hm]
    exact ih hs hzero f bm1 count1 (by omega) (by omega)
      (fun s' hs' hlt t ht => hrange s' (ScanReaches.step p s' hp hsz hs') hlt t ht)

theorem buildBranchMap_unknown (c : Collaborators) (vd : VerifyData) (s : Nat)
    (hreach : ScanReaches c vd.romMethod 0 s) (hs : s < vd.romMethod.bytecodeSize)
    (hzero : sizeAt c vd.romMethod s = 0)
    (hrange : ∀ s', ScanReaches c vd.romMethod 0 s' → s' < s →
      ∀ t ∈ instructionTargets c vd.romMethod s', 0 ≤ t ∧ t < (vd.bytecodeMap.length : Int)) :
    ∃ bm', buildBranchMap c vd = some (BranchMapResult.BCV_ERR_INTERNAL_ERROR,
      { vd with bytecodeMap := bm', errorPC := s }) := by
  obtain ⟨bm', h⟩ := scanBytecodes_unknown c vd.romMethod vd.bytecodeMap.length hreach hs hzero
    (vd.romMethod.bytecodeSize + 1) vd.bytecodeMap 0 (by omega) rfl hrange
  exact ⟨bm', by unfold buildBranchMap; simp only [h]⟩

theorem verifyAttempt_unknown (c : Collaborators) (p : Passes) (romClass : J9ROMClass)
    (hasClazz : Bool) (flags : VerificationFlags) (ds : DriverState) (s : Nat)
    (hcreate : createStackMaps romClass ds.verifyData = true)
    (hreach : ScanReaches c ds.verifyData.romMethod 0 s)
    (hs : s < ds.verifyData.romMethod.bytecodeSize)
    (hzero : sizeAt c ds.verifyData.romMethod s = 0)
    (hrange : ∀ s', ScanReaches c ds.verifyData.romMethod 0 s' → s' < s →
      ∀ t ∈ instructionTargets c ds.verifyData.romMethod s',
        0 ≤ t ∧ t < (ds.verifyData.romMethod.bytecodeSize : Int)) :
    ∃ vd', verifyAttempt c p romClass hasClazz flags ds =
      some (AttemptOutcome.exit LoopExit.done
        { result := RC.BCV_ERR_INTERNAL_ERROR, verifyData := vd'
          events := ds.events ++ [Event.buildBranchMap] }) := by
  obtain ⟨bm', hb⟩ := buildBranchMap_unknown c
    { ds.verifyData with bytecodeMap := List.replicate ds.verifyData.romMethod.bytecodeSize 0 } s
    hreach hs hzero (by
      intro s' h1 h2 t ht
      simp only [List.length_replicate]
      exact hrange s' h1 h2 t ht)
  have hcreate' : createStackMaps romClass
      { ds.verifyData with
        bytecodeMap := List.replicate ds.verifyData.romMethod.bytecodeSize 0 } = true := hcreate
  obtain ⟨vdE, hprep⟩ : ∃ vdE, prepareMaps c romClass ds.verifyData = some (Except.error vdE) := by
    refine ⟨BUILD_VERIFY_ERROR
      { ({ ds.verifyData with
            bytecodeMap := List.replicate ds.verifyData.romMethod.bytecodeSize 0 } : VerifyData) with
        bytecodeMap := bm', errorPC := s }
      J9NLS_BCV_ERR_BYTECODES_INVALID__MODULE J9NLS_BCV_ERR_BYTECODES_INVALID__ID 0, ?_⟩
    unfold prepareMaps
    simp only [hcreate', if_true, hb]
  refine ⟨vdE, ?_⟩
  unfold verifyAttempt
  simp only [hprep, hcreate, if_true]

/-- C3: when the linear scan of `buildBranchMap` arrives at an opcode whose
size-table entry is 0 (every branch target met before lying inside the method),
`buildBranchMap` returns `BCV_ERR_INTERNAL_ERROR` with `errorPC` the offset of that
opcode; the pass of `j9bcv_verifyBytecodes` that called it leaves the method loop
with `BCV_ERR_INTERNAL_ERROR` instead of jumping to `_fallBack`, so the method loop
and `j9bcv_verifyBytecodes` return `BCV_ERR_INTERNAL_ERROR` after the single call of
`buildBranchMap`. -/
theorem unknown_opcode_is_internal_error (c : Collaborators) (p : Passes)
    (romClass : J9ROMClass) (hasClazz : Bool) (flags : VerificationFlags) (m : J9ROMMethod)
    (s : Nat) (hreach : ScanReaches c m 0 s) (hs : s < m.bytecodeSize)
    (hzero : sizeAt c m s = 0)
    (hrange : ∀ s', ScanReaches c m 0 s' → s' < s →
      ∀ t ∈ instructionTargets c m s', 0 ≤ t ∧ t < (m.bytecodeSize : Int)) :
    (∀ vd : VerifyData, vd.romMethod = m → vd.bytecodeMap.length = m.bytecodeSize →
      ∃ vd', buildBranchMap c vd = some (BranchMapResult.BCV_ERR_INTERNAL_ERROR, vd') ∧
        vd'.errorPC = s) ∧
    (∀ ds : DriverState, ds.verifyData.romMethod = m →
      createStackMaps romClass ds.verifyData = true →
      ∃ vd', verifyAttempt c p romClass hasClazz flags ds =
        some (AttemptOutcome.exit LoopExit.done
          { result := RC.BCV_ERR_INTERNAL_ERROR, verifyData := vd'
            events := ds.events ++ [Event.buildBranchMap] })) ∧
    (∀ (ds : DriverState) (rest : List J9ROMMethod) (liveStack : J9BranchTargetStack),
      m.isNative = false → m.isAbstract = false →
      p.allocLiveStack (enterMethod flags m ds.verifyData) = some liveStack →
      p.allocBytecodeMap { enterMethod flags m ds.verifyData with liveStack := liveStack } = true →
      createStackMaps romClass (enterMethod flags m ds.verifyData) = true →
      ∃ vd', verifyMethods c p romClass hasClazz flags (m :: rest) ds =
        some { result := RC.BCV_ERR_INTERNAL_ERROR, verifyData := vd'
               events := ds.events ++ [Event.buildBranchMap] }) ∧
    (∀ (vd0 : VerifyData) (rest : List J9ROMMethod) (liveStack : J9BranchTargetStack),
      romClass.romMethods = m :: rest → m.isNative = false → m.isAbstract = false →
      p.allocLiveStack
        (enterMethod flags m (p.initializeClassNameList { vd0 with errorPC := 0 })) =
          some liveStack →
      p.allocBytecodeMap
        { enterMethod flags m (p.initializeClassNameList { vd0 with errorPC := 0 }) with
          liveStack := liveStack } = true →
      createStackMaps romClass
        (enterMethod flags m (p.initializeClassNameList { vd0 with errorPC := 0 })) = true →
      ∃ vd', j9bcv_verifyBytecodes c p hasClazz romClass flags vd0 =
        some { result := RC.BCV_ERR_INTERNAL_ERROR, verifyData := vd'
               events := [Event.buildBranchMap] }) := by
  have hloop : ∀ (ds : DriverState) (rest : List J9ROMMethod) (liveStack : J9BranchTargetStack),
      m.isNative = false → m.isAbstract = false →
      p.allocLiveStack (enterMethod flags m ds.verifyData) = some liveStack →
      p.allocBytecodeMap { enterMethod flags m ds.verifyData with liveStack := liveStack } = true →
      createStackMaps romClass (enterMethod flags m ds.verifyData) = true →
      ∃ vd', verifyMethods c p romClass hasClazz flags (m :: rest) ds =
        some { result := RC.BCV_ERR_INTERNAL_ERROR, verifyData := vd'
               events := ds.events ++ [Event.buildBranchMap] } := by
    intro ds rest liveStack hnat habs hlive hmap hcreate
    obtain ⟨vd', hatt⟩ := verifyAttempt_unknown c p romClass hasClazz flags
      { ds with verifyData := { enterMethod flags m ds.verifyData with liveStack := liveStack } }
      s hcreate hreach hs hzero hrange
    refine ⟨vd', ?_⟩
    simp only [verifyMethods, verifyMethod, hnat, habs, hlive, hmap, verifyFromFallBack, hatt,
      Bool.or_self, Bool.not_false, if_true]
  refine ⟨?_, ?_, hloop, ?_⟩
  · intro vd hm hlen
    subst hm
    obtain ⟨bm', hb⟩ := buildBranchMap_unknown c vd s hreach hs hzero (by
      intro s' h1 h2 t ht
      rw [hlen]
      exact hrange s' h1 h2 t ht)
    exact ⟨_, hb, rfl⟩
  · intro ds hm hcreate
    subst hm
    exact verifyAttempt_unknown c p romClass hasClazz flags ds s hcreate hreach hs hzero hrange
  · intro vd0 rest liveStack hms hnat habs hlive hmap hcreate
    obtain ⟨vd', h⟩ := hloop
      { result := RC.BCV_SUCCESS, verifyData := p.initializeClassNameList { vd0 with errorPC := 0 }
        events := [] } rest liveStack hnat habs hlive hmap hcreate
    refine ⟨vd', ?_⟩
    unfold j9bcv_verifyBytecodes
    simp only [hms]
    exact h

theorem unknown_opcode_is_internal_error_witness :
    (∃ vd', buildBranchMap exampleCollaborators (exampleVerifyData unknownOpcodeMethod) =
        some (BranchMapResult.BCV_ERR_INTERNAL_ERROR, vd') ∧ vd'.errorPC = 1) ∧
    ∃ vd', j9bcv_verifyBytecodes exampleCollaborators examplePasses true unknownOpcodeClass
        exampleFlags (exampleVerifyData branchyMethod) =
      some { result := RC.BCV_ERR_INTERNAL_ERROR, verifyData := vd'
             events := [Event.buildBranchMap] } :=
  ⟨(unknown_opcode_is_internal_error exampleCollaborators examplePasses unknownOpcodeClass true
      exampleFlags unknownOpcodeMethod 1
      (ScanReaches.step 0 1 (by decide) (by decide) (ScanReaches.here 1)) (by decide) (by decide)
      (fun s' _ hlt t ht => by
        have h0 : s' = 0 := by omega
        subst h0
        exact absurd ht (List.not_mem_nil t))).1
      (exampleVerifyData unknownOpcodeMethod) rfl (by decide),
    (unknown_opcode_is_internal_error exampleCollaborators examplePasses unknownOpcodeClass true
      exampleFlags unknownOpcodeMethod 1
      (ScanReaches.step 0 1 (by decide) (by decide) (ScanReaches.here 1)) (by decide) (by decide)
      (fun s' _ hlt t ht => by
        have h0 : s' = 0 := by omega
        subst h0
        exact absurd ht (List.not_mem_nil t))).2.2.2
      (exampleVerifyData branchyMethod) [branchyMethod]
      (exampleVerifyData branchyMethod).liveStack rfl rfl rfl rfl rfl rfl⟩

/-! ## The frame store and the bytecode map -/

theorem or_shift_index (v k : Nat) (hv : v < 16) :
    v ||| (k <<< BRANCH_INDEX_SHIFT) = 16 * k + v := by
  have h := @Nat.mul_add_lt_is_or 4 v (by omega) k
  rw [Nat.lor_comm, BRANCH_INDEX_SHIFT, Nat.shiftLeft_eq, Nat.mul_comm, ← h]

theorem packed_flag (v k : Nat) : hasBranchTarget (16 * k + v) = hasBranchTarget v := by
  unfold hasBranchTarget BRANCH_TARGET
  rw [Nat.and_one_is_mod, Nat.and_one_is_mod]
  have : (16 * k + v) % 2 = v % 2 := by omega
  rw [this]

theorem packed_index (v k : Nat) (hv : v < 16) : (16 * k + v) >>> BRANCH_INDEX_SHIFT = k := by
  rw [BRANCH_INDEX_SHIFT, Nat.shiftRight_eq_div_pow]
  omega

theorem getD_of_getElem? {bm : List Nat} {i v : Nat} (h : bm[i]? = some v) : bm.getD i 0 = v := by
  simp [List.getD_eq_getElem?_getD, h]

theorem frameStoreMatches_of {bm : List Nat} {fs : List J9BranchTargetStack}
    (h : ∀ pc v, bm[pc]? = some v → hasBranchTarget v = true →
      (∃ f, fs[v >>> BRANCH_INDEX_SHIFT]? = some f ∧ f.pc = pc) ∧
      ∀ k f, fs[k]? = some f → f.pc = pc → k = v >>> BRANCH_INDEX_SHIFT) :
    FrameStoreMatches bm fs := by
  intro pc hflag
  obtain ⟨v, hv, hb⟩ := (flaggedAt_iff_getD bm pc).2 hflag
  rw [getD_of_getElem? hv]
  exact h pc v hv hb


theorem getElem?_set_other {α : Type} {l : List α} {i j : Nat} {a : α} (h : i ≠ j) :
    (l.set i a)[j]? = l[j]? := by
  simp [List.getElem?_set, h]

theorem getElem?_set_same {α : Type} {l : List α} {i : Nat} {a b : α} (h : l[i]? = some b) :
    (l.set i a)[i]? = some a := by
  have hlt : i < l.length := by
    rcases Nat.lt_or_ge i l.length with h1 | h1
    · exact h1
    · rw [List.getElem?_eq_none h1] at h; cases h
  simp [List.getElem?_set, hlt]

/-- The initialisation loop of the frame store: from an iteration at which the
frames handed out so far match the entries already visited, the loop ends with
a store that matches the whole map, and it changes no flag. -/
theorem initStackMaps_spec : ∀ (n j k : Nat) (bm : List Nat) (fs : List J9BranchTargetStack),
    j + n = bm.length → bm.length < 2 ^ 28 → k ≤ j →
    k + (bm.drop j).countP hasBranchTarget = fs.length →
    (∀ i v, bm[i]? = some v → j ≤ i → v < 4) →
    (∀ k1, k1 < k → ∃ f v, fs[k1]? = some f ∧ f.pc < j ∧ bm[f.pc]? = some v ∧
      v >>> BRANCH_INDEX_SHIFT = k1) →
    (∀ i v, i < j → bm[i]? = some v → hasBranchTarget v = true →
      v >>> BRANCH_INDEX_SHIFT < k ∧
      ∃ f, fs[v >>> BRANCH_INDEX_SHIFT]? = some f ∧ f.pc = i) →
    ∃ bm2 fs2, initStackMaps n j k bm fs = some (bm2, fs2) ∧
      (∀ pc, hasBranchTarget (bm2.getD pc 0) = hasBranchTarget (bm.getD pc 0)) ∧
      FrameStoreMatches bm2 fs2 := by
  intro n
  induction n with
  | zero =>
    intro j k bm fs hj _ _ hk _ h5 h6
    refine ⟨bm, fs, rfl, fun _ => rfl, frameStoreMatches_of ?_⟩
    have hdrop : bm.drop j = [] := List.drop_eq_nil_of_le (by omega)
    rw [hdrop] at hk
    simp only [List.countP_nil, Nat.add_zero] at hk
    intro pc v hv hb
    have hpc : pc < bm.length := by
      rcases Nat.lt_or_ge pc bm.length with h | h
      · exact h
      · rw [List.getElem?_eq_none h] at hv; cases hv
    obtain ⟨_, hf⟩ := h6 pc v (by omega) hv hb
    refine ⟨hf, ?_⟩
    intro k1 f1 hf1 hpc1
    have hk1 : k1 < fs.length := by
      rcases Nat.lt_or_ge k1 fs.length with h | h
      · exact h
      · rw [List.getElem?_eq_none h] at hf1; cases hf1
    obtain ⟨f2, v2, hf2, _, hv2, hidx⟩ := h5 k1 (by omega)
    rw [hf1] at hf2
    cases hf2
    rw [hpc1, hv] at hv2
    cases hv2
    exact hidx.symm
  | succ n ih =>
    intro j k bm fs hj hlen hkj hk h4 h5 h6
    have hjlt : j < bm.length := by omega
    have hget : bm[j]? = some bm[j] := List.getElem?_eq_getElem hjlt
    have hdrop : bm.drop j = bm[j] :: bm.drop (j + 1) := List.drop_eq_getElem_cons hjlt
    have hv4 : bm[j] < 4 := h4 j _ hget (Nat.le_refl j)
    generalize bm[j] = v at hget hdrop hv4
    unfold initStackMaps
    simp only [hget]
    by_cases hflag : hasBranchTarget v = true
    · have hcond : v &&& BRANCH_TARGET ≠ 0 := by
        unfold hasBranchTarget at hflag
        exact of_decide_eq_true hflag
      rw [if_pos hcond]
      rw [hdrop, List.countP_cons_of_pos _ _ hflag] at hk
      have hklt : k < fs.length := by omega
      have hfs : fs[k]? = some fs[k] := List.getElem?_eq_getElem hklt
      generalize fs[k] = f0 at hfs
      simp only [hfs]
      have hpack : (v ||| (k <<< BRANCH_INDEX_SHIFT)) % U32_RANGE = 16 * k + v := by
        rw [or_shift_index v k (by omega)]
        apply Nat.mod_eq_of_lt
        unfold U32_RANGE
        omega
      rw [hpack]
      obtain ⟨bm2, fs2, hrun, hflags, hmatch⟩ := ih (j + 1) (k + 1) (bm.set j (16 * k + v))
        (fs.set k { f0 with pc := j, stackBaseIndex := -1, stackTopIndex := -1 })
        (by rw [List.length_set]; omega) (by rw [List.length_set]; exact hlen) (by omega)
        (by
          rw [List.length_set, List.drop_set_of_lt _ _ (by omega : j < j + 1)]
          omega)
        (by
          intro i w hw hi
          rw [getElem?_set_other (by omega)] at hw
          exact h4 i w hw (by omega))
        (by
          intro k1 hk1
          rcases Nat.lt_or_ge k1 k with hlt | hge
          · obtain ⟨f, w, hf, hpc, hw, hidx⟩ := h5 k1 hlt
            refine ⟨f, w, ?_, by omega, ?_, hidx⟩
            · rw [getElem?_set_other (by omega)]
              exact hf
            · rw [getElem?_set_other (by omega)]
              exact hw
          · have hkk : k1 = k := by omega
            subst hkk
            refine ⟨_, 16 * k1 + v, stored_frame_lookup hfs, ?_, ?_, packed_index v k1 (by omega)⟩
            · simp only
              omega
            · simp only
              exact getElem?_set_same hget)
        (by
          intro i w hi hw hb
          rcases Nat.lt_or_ge i j with hlt | hge
          · rw [getElem?_set_other (by omega)] at hw
            obtain ⟨hidx, f, hf, hpc⟩ := h6 i w hlt hw hb
            refine ⟨by omega, f, ?_, hpc⟩
            rw [getElem?_set_other (by omega)]
            exact hf
          · have hij : i = j := by omega
            subst hij
            rw [getElem?_set_same hget] at hw
            cases hw
            rw [packed_index v k (by omega)]
            exact ⟨by omega, _, stored_frame_lookup hfs, rfl⟩)
      refine ⟨bm2, fs2, hrun, ?_, hmatch⟩
      intro pc
      rw [hflags pc]
      rcases Nat.lt_trichotomy pc j with h | h | h
      · simp only [List.getD_eq_getElem?_getD, getElem?_set_other (Nat.ne_of_gt h)]
      · subst h
        rw [getD_of_getElem? (getElem?_set_same hget), getD_of_getElem? hget, packed_flag]
      · simp only [List.getD_eq_getElem?_getD, getElem?_set_other (Nat.ne_of_lt h)]
    · have hcond : ¬ v &&& BRANCH_TARGET ≠ 0 := by
        intro hc
        apply hflag
        unfold hasBranchTarget
        exact decide_eq_true hc
      rw [if_neg hcond]
      rw [hdrop, List.countP_cons_of_neg _ _ hflag] at hk
      exact ih (j + 1) k bm fs (by omega) hlen (by omega) hk
        (fun i w hw hi => h4 i w hw (by omega))
        (by
          intro k1 hk1
          obtain ⟨f, w, hf, hpc, hw, hidx⟩ := h5 k1 hk1
          exact ⟨f, w, hf, by omega, hw, hidx⟩)
        (by
          intro i w hi hw hb
          rcases Nat.lt_or_ge i j with hlt | hge
          · exact h6 i w hlt hw hb
          · have hij : i = j := by omega
            subst hij
            rw [hget] at hw
            cases hw
            exact absurd hb hflag)


theorem u16_lt (b : Bool) (x y : Nat → Nat) (i j : Nat) :
    u16 b (byteAt x i) (byteAt y j) < 65536 := by
  unfold u16 byteAt
  split_ifs <;> omega

/-- The map PC of a stack-map entry is the map PC of the previous entry plus one
plus an offset delta below 65536, modulo the word size. -/
theorem decodeFrameTag_mapPC (c : Collaborators) (data : Nat → Nat) (st : DecompressState) :
    ∃ d, d < 65536 ∧
      (decodeFrameTag c data st).mapPC = ((st.mapPC + 1) % UDATA_RANGE + d) % UDATA_RANGE := by
  unfold decodeFrameTag
  simp only [NEXT_U8, NEXT_U16, CFR_STACKMAP_SAME_LOCALS_1_STACK,
    CFR_STACKMAP_SAME_LOCALS_1_STACK_END]
  split_ifs with h1 h2 h3 h4 h5
  · exact ⟨_, by omega, rfl⟩
  · exact ⟨_, by omega, rfl⟩
  · exact ⟨_, u16_lt _ _ _ _ _, rfl⟩
  · exact ⟨_, u16_lt _ _ _ _ _, rfl⟩
  · exact ⟨_, u16_lt _ _ _ _ _, rfl⟩
  · exact ⟨_, u16_lt _ _ _ _ _, rfl⟩

theorem parseLocals_keeps {c : Collaborators} {vd : VerifyData} {data : Nat → Nat}
    {idx : Nat} {localDelta c0 maxLocals : Int} {n : Int} {idx1 : Nat} {vd1 : VerifyData}
    (h : parseLocals c vd data idx localDelta c0 maxLocals =
      (LocalsResult.localsCount n, idx1, vd1)) :
    vd1.romMethod = vd.romMethod ∧ vd1.bytecodeMap = vd.bytecodeMap ∧
      vd1.stackMaps = vd.stackMaps := by
  by_cases hd : 0 ≤ localDelta
  · rcases parseLocals_append_cases c vd data idx localDelta c0 maxLocals hd with
      ⟨_, hL⟩ | ⟨_, idx2, vd2, hL, _⟩
    · rw [hL] at h
      simp only [Prod.mk.injEq] at h
      obtain ⟨_, _, h3⟩ := h
      subst h3
      exact ⟨rfl, rfl, rfl⟩
    · rw [hL] at h
      simp only [Prod.mk.injEq] at h
      exact absurd h.1 (by intro e; cases e)
  · unfold parseLocals at h
    rw [if_pos (by omega)] at h
    split at h
    · simp only [Prod.mk.injEq] at h
      obtain ⟨_, _, h3⟩ := h
      subst h3
      exact ⟨rfl, rfl, rfl⟩
    · simp only [Prod.mk.injEq] at h
      exact absurd h.1 (by intro e; cases e)

theorem parseStack_keeps {c : Collaborators} {vd : VerifyData} {data : Nat → Nat}
    {idx sc maxStack : Nat} {idx1 : Nat} {vd1 : VerifyData}
    (h : parseStack c vd data idx sc maxStack = (RC.BCV_SUCCESS, idx1, vd1)) :
    vd1.romMethod = vd.romMethod ∧ vd1.bytecodeMap = vd.bytecodeMap ∧
      vd1.stackMaps = vd.stackMaps := by
  rcases parseStack_cases c vd data idx sc maxStack with ⟨_, hS⟩ | ⟨_, idx2, vd2, hS, _⟩
  · rw [hS] at h
    simp only [Prod.mk.injEq] at h
    obtain ⟨_, _, h3⟩ := h
    subst h3
    exact ⟨rfl, rfl, rfl⟩
  · rw [hS] at h
    simp only [Prod.mk.injEq] at h
    exact absurd h.1 (by intro e; cases e)

/-- A stored frame, whatever its tag: the map PC is inside the method, the entry
of the bytecode map at the map PC receives the frame index and `BRANCH_TARGET`,
and the frame at the cursor of the store receives the map PC. -/
theorem decompressFrame_stored_store {c : Collaborators} {data : Nat → Nat}
    {st next : DecompressState}
    (h : decompressFrame c data st = some (FrameOutcome.stored next)) :
    (decodeFrameTag c data st).mapPC < st.verifyData.romMethod.bytecodeSize ∧
    next.mapPC = (decodeFrameTag c data st).mapPC ∧
    next.mapIndex = st.mapIndex + 1 ∧
    next.branchTargetStack = st.branchTargetStack + 1 ∧
    next.verifyData.romMethod = st.verifyData.romMethod ∧
    ∃ v old f, st.verifyData.bytecodeMap[(decodeFrameTag c data st).mapPC]? = some v ∧
      st.verifyData.stackMaps[st.branchTargetStack]? = some old ∧
      f.pc = (decodeFrameTag c data st).mapPC ∧
      next.verifyData.bytecodeMap = st.verifyData.bytecodeMap.set (decodeFrameTag c data st).mapPC
        ((v ||| ((st.mapIndex <<< BRANCH_INDEX_SHIFT) ||| BRANCH_TARGET)) % U32_RANGE) ∧
      next.verifyData.stackMaps = st.verifyData.stackMaps.set st.branchTargetStack f := by
  unfold decompressFrame at h
  dsimp only at h
  generalize hL : parseLocals c st.verifyData data (decodeFrameTag c data st).stackMapData
    (decodeFrameTag c data st).localDelta (decodeFrameTag c data st).localsCount
    ((st.verifyData.romMethod.argCount : Int) + st.verifyData.romMethod.tempCount) = r at h
  obtain ⟨res, idx1, vd1⟩ := r
  cases res with
  | BCV_ERR_INTERNAL_ERROR =>
    simp only at h
    cases h
  | localsCount n =>
    simp only at h
    split_ifs at h with hn hfull
    · cases h
    · generalize hS : parseStack c vd1 data (NEXT_U16 c data idx1).2 (NEXT_U16 c data idx1).1
        st.verifyData.romMethod.maxStack = r2 at h
      obtain ⟨rc, idx2, vd2⟩ := r2
      cases rc <;> simp only at h <;> first | cases h | skip
      obtain ⟨hlt, v, old, hv, hold, hnext⟩ := storeFrame_stored h
      obtain ⟨k1, k2, k3⟩ := parseLocals_keeps hL
      obtain ⟨s1, s2, s3⟩ := parseStack_keeps hS
      subst hnext
      simp only [s1, s2, s3, k1, k2, k3] at hlt hv hold
      refine ⟨hlt, rfl, rfl, rfl, s1.trans k1, v, old,
        { copyStack vd2.liveStack old with pc := (decodeFrameTag c data st).mapPC },
        hv, hold, rfl, ?_, ?_⟩
      · simp only [s2, k2]
      · simp only [s3, k3]
    · generalize hS : parseStack c vd1 data idx1 (decodeFrameTag c data st).stackCount
        st.verifyData.romMethod.maxStack = r2 at h
      obtain ⟨rc, idx2, vd2⟩ := r2
      cases rc <;> simp only at h <;> first | cases h | skip
      obtain ⟨hlt, v, old, hv, hold, hnext⟩ := storeFrame_stored h
      obtain ⟨k1, k2, k3⟩ := parseLocals_keeps hL
      obtain ⟨s1, s2, s3⟩ := parseStack_keeps hS
      subst hnext
      simp only [s1, s2, s3, k1, k2, k3] at hlt hv hold
      refine ⟨hlt, rfl, rfl, rfl, s1.trans k1, v, old,
        { copyStack vd2.liveStack old with pc := (decodeFrameTag c data st).mapPC },
        hv, hold, rfl, ?_, ?_⟩
      · simp only [s2, k2]
      · simp only [s3, k3]


theorem packed_target (k : Nat) (hk : k < 2 ^ 28) :
    (0 ||| ((k <<< BRANCH_INDEX_SHIFT) ||| BRANCH_TARGET)) % U32_RANGE = 16 * k + 1 := by
  rw [Nat.zero_or, Nat.lor_comm, BRANCH_TARGET, or_shift_index 1 k (by omega)]
  apply Nat.mod_eq_of_lt
  unfold U32_RANGE
  omega

theorem getElem?_lt {α : Type} {l : List α} {i : Nat} {a : α} (h : l[i]? = some a) :
    i < l.length := by
  rcases Nat.lt_or_ge i l.length with h1 | h1
  · exact h1
  · rw [List.getElem?_eq_none h1] at h; cases h

/-- The loop of `decompressStackMaps`: from an iteration at which the frames
stored so far match the flagged entries of the map, all below the next map PC, a
run that stores every remaining frame ends with a store that matches the map. -/
theorem decompressFrames_spec (c : Collaborators) (data : Nat → Nat) :
    ∀ (n : Nat) (st : DecompressState) (vd1 : VerifyData),
      st.verifyData.romMethod.bytecodeSize < 2 ^ 28 →
      st.branchTargetStack = st.mapIndex →
      (st.mapPC + 1) % UDATA_RANGE ≤ st.verifyData.romMethod.bytecodeSize →
      st.mapIndex ≤ (st.mapPC + 1) % UDATA_RANGE →
      st.mapIndex + n = st.verifyData.stackMaps.length →
      (∀ i v, st.verifyData.bytecodeMap[i]? = some v → (st.mapPC + 1) % UDATA_RANGE ≤ i → v = 0) →
      (∀ k, k < st.mapIndex → ∃ f, st.verifyData.stackMaps[k]? = some f ∧
        st.verifyData.bytecodeMap[f.pc]? = some (16 * k + 1)) →
      (∀ i v, st.verifyData.bytecodeMap[i]? = some v → v ≠ 0 →
        ∃ k f, k < st.mapIndex ∧ st.verifyData.stackMaps[k]? = some f ∧ f.pc = i) →
      decompressFrames c data n st = some (RC.BCV_SUCCESS, vd1) →
      FrameStoreMatches vd1.bytecodeMap vd1.stackMaps := by
  intro n
  induction n with
  | zero =>
    intro st vd1 _ _ _ _ hlen _ h5 h6 h
    simp only [decompressFrames, Option.some.injEq, Prod.mk.injEq, true_and] at h
    subst h
    apply frameStoreMatches_of
    intro pc v hv hb
    have hv0 : v ≠ 0 := by
      intro e
      subst e
      exact absurd hb (by decide)
    obtain ⟨k, f, hk, hf, hpc⟩ := h6 pc v hv hv0
    have hidx : ∀ k1 f1, st.verifyData.stackMaps[k1]? = some f1 → f1.pc = pc →
        k1 = v >>> BRANCH_INDEX_SHIFT := by
      intro k1 f1 hf1 hpc1
      have hk1 : k1 < st.mapIndex := by
        have := getElem?_lt hf1
        omega
      obtain ⟨f2, hf2, hv2⟩ := h5 k1 hk1
      rw [hf1] at hf2
      cases hf2
      rw [hpc1, hv] at hv2
      cases hv2
      exact (packed_index 1 k1 (by omega)).symm
    refine ⟨⟨f, ?_, hpc⟩, hidx⟩
    rw [← hidx k f hf hpc]
    exact hf
  | succ n ih =>
    intro st vd1 hsize hbts hlo hidx hlen h4 h5 h6 h
    unfold decompressFrames at h
    generalize hframe : decompressFrame c data st = r at h
    rcases r with _ | ⟨next | vdf⟩
    · cases h
    · simp only at h
      obtain ⟨hlt, hpc, hmi, hb, hrom, v, old, f, hv, hold, hfpc, hbm, hfs⟩ :=
        decompressFrame_stored_store hframe
      obtain ⟨d, hd, htag⟩ := decodeFrameTag_mapPC c data st
      generalize (decodeFrameTag c data st).mapPC = mapPC at hlt hpc hv hfpc hbm hfs htag
      generalize hlo0 : (st.mapPC + 1) % UDATA_RANGE = lo at hlo hidx h4 htag
      have hmap : mapPC = lo + d := by
        rw [htag]
        apply Nat.mod_eq_of_lt
        rw [udata_range_eq]
        omega
      have hv0 : v = 0 := h4 mapPC v hv (by omega)
      subst hv0
      rw [packed_target st.mapIndex (by omega)] at hbm
      rw [hbts] at hold hfs
      have hlo1 : (next.mapPC + 1) % UDATA_RANGE = mapPC + 1 := by
        rw [hpc]
        apply Nat.mod_eq_of_lt
        rw [udata_range_eq]
        omega
      have hbelow : ∀ k f1, k < st.mapIndex → st.verifyData.stackMaps[k]? = some f1 →
          st.verifyData.bytecodeMap[f1.pc]? = some (16 * k + 1) → f1.pc < lo := by
        intro k f1 _ _ hw
        by_contra hge
        have := h4 f1.pc _ hw (by omega)
        omega
      apply ih next vd1
      · rw [hrom]; exact hsize
      · rw [hb, hmi, hbts]
      · rw [hlo1, hrom]; omega
      · rw [hlo1, hmi]; omega
      · rw [hmi, hfs, List.length_set]; omega
      · intro i w hw hi
        rw [hlo1] at hi
        rw [hbm, getElem?_set_other (by omega)] at hw
        exact h4 i w hw (by omega)
      · intro k hk
        rw [hmi] at hk
        rcases Nat.lt_or_ge k st.mapIndex with hklt | hkge
        · obtain ⟨f1, hf1, hw⟩ := h5 k hklt
          have := hbelow k f1 hklt hf1 hw
          refine ⟨f1, ?_, ?_⟩
          · rw [hfs, getElem?_set_other (by omega)]
            exact hf1
          · rw [hbm, getElem?_set_other (by omega)]
            exact hw
        · have hkk : k = st.mapIndex := by omega
          subst hkk
          refine ⟨f, ?_, ?_⟩
          · rw [hfs]
            exact getElem?_set_same hold
          · rw [hbm, hfpc]
            exact getElem?_set_same hv
      · intro i w hw hw0
        rw [hmi]
        rcases eq_or_ne i mapPC with hi | hi
        · subst hi
          refine ⟨st.mapIndex, f, by omega, ?_, hfpc⟩
          rw [hfs]
          exact getElem?_set_same hold
        · rw [hbm, getElem?_set_other (Ne.symm hi)] at hw
          obtain ⟨k, f1, hk, hf1, hpc1⟩ := h6 i w hw hw0
          refine ⟨k, f1, by omega, ?_, hpc1⟩
          rw [hfs, getElem?_set_other (by omega)]
          exact hf1
      · exact h
    · simp only [Option.some.injEq, Prod.mk.injEq] at h
      exact absurd h.1 (by intro e; cases e)


/-- C4: for a method whose bytecode size is below 2^28 (so that a packed frame
index fits the 32-bit map entry) and whose bytecode map starts cleared, the frame
store matches the map after either way of setting it up.  After `buildBranchMap`
returns a count `n` and the initialisation loop of `j9bcv_verifyBytecodes` runs over
a store of `n` frames, the loop ends, it leaves the `BRANCH_TARGET` flag of every
entry as `buildBranchMap` set it, and every PC flagged `BRANCH_TARGET` has a frame
with that `pc` at the index packed above `BRANCH_INDEX_SHIFT` in its map entry and
no frame with that `pc` at any other index.  The same holds of the map and the
store left by a successful `decompressStackMaps` over a store of `stackMapsCount`
frames. -/
theorem frame_store_matches_branch_targets (c : Collaborators) (vd : VerifyData)
    (hsize : vd.romMethod.bytecodeSize < 2 ^ 28)
    (hzero : vd.bytecodeMap = List.replicate vd.romMethod.bytecodeSize 0) :
    (∀ (n : Nat) (vd1 : VerifyData) (frames : List J9BranchTargetStack),
      buildBranchMap c vd = some (BranchMapResult.count n, vd1) → frames.length = n →
      ∃ bytecodeMap stackMaps,
        initStackMaps vd.romMethod.bytecodeSize 0 0 vd1.bytecodeMap frames =
          some (bytecodeMap, stackMaps) ∧
        (∀ pc, hasBranchTarget (bytecodeMap.getD pc 0) =
          hasBranchTarget (vd1.bytecodeMap.getD pc 0)) ∧
        FrameStoreMatches bytecodeMap stackMaps) ∧
    (∀ (localsCount : Int) (data : Nat → Nat) (stackMapData : Nat) (vd1 : VerifyData),
      vd.stackMaps.length = vd.stackMapsCount →
      decompressStackMaps c vd localsCount data stackMapData = some (RC.BCV_SUCCESS, vd1) →
      FrameStoreMatches vd1.bytecodeMap vd1.stackMaps) := by
  have hlen : vd.bytecodeMap.length = vd.romMethod.bytecodeSize := by
    rw [hzero, List.length_replicate]
  have hall : ∀ v ∈ vd.bytecodeMap, v = 0 := by
    intro v hv
    rw [hzero] at hv
    exact List.eq_of_mem_replicate hv
  constructor
  · intro n vd1 frames hb hframes
    obtain ⟨hcount, hlen1, hflags, _⟩ := buildBranchMap_count_spec c vd n vd1 hall hb
    apply initStackMaps_spec
    · rw [hlen1, hlen]; omega
    · rw [hlen1, hlen]; exact hsize
    · exact Nat.le_refl 0
    · rw [List.drop_zero, hframes, hcount]; omega
    · intro i v hv _
      exact hflags v (List.getElem?_mem hv)
    · intro k1 hk1
      omega
    · intro i v hi
      omega
  · intro localsCount data stackMapData vd1 hstore h
    unfold decompressStackMaps at h
    have hstart : (UDATA_RANGE - 1 + 1) % UDATA_RANGE = 0 := by decide
    refine decompressFrames_spec c data _ _ vd1 hsize rfl ?_ ?_ ?_ ?_ ?_ ?_ h
    · simp only [hstart]; omega
    · simp only [hstart]; omega
    · simp only [hstore]; omega
    · intro i v hv _
      exact hall v (List.getElem?_mem hv)
    · intro k hk
      simp only at hk
      omega
    · intro i v hv hv0
      exact absurd (hall v (List.getElem?_mem hv)) hv0

theorem frame_store_matches_branch_targets_witness :
    (∃ bytecodeMap stackMaps,
      initStackMaps (exampleVerifyData branchyMethod).romMethod.bytecodeSize 0 0
          [3, 0, 0, 1, 1, 0, 0, 1] (List.replicate 4 (exampleFrame 99 0 0 [])) =
        some (bytecodeMap, stackMaps) ∧
      (∀ pc, hasBranchTarget (bytecodeMap.getD pc 0) =
        hasBranchTarget ([3, 0, 0, 1, 1, 0, 0, 1].getD pc 0)) ∧
      FrameStoreMatches bytecodeMap stackMaps) ∧
    FrameStoreMatches
      (stateAfter (decompressStackMaps exampleCollaborators (mappedVerifyData 2) 1
        (mapBytes sameFrameBytes) 0) (mappedVerifyData 2)).bytecodeMap
      (stateAfter (decompressStackMaps exampleCollaborators (mappedVerifyData 2) 1
        (mapBytes sameFrameBytes) 0) (mappedVerifyData 2)).stackMaps :=
  ⟨(frame_store_matches_branch_targets exampleCollaborators (exampleVerifyData branchyMethod)
      (by decide) rfl).1 4
      { exampleVerifyData branchyMethod with bytecodeMap := [3, 0, 0, 1, 1, 0, 0, 1] }
      (List.replicate 4 (exampleFrame 99 0 0 [])) (by rfl) rfl,
    (frame_store_matches_branch_targets exampleCollaborators (mappedVerifyData 2)
      (by decide) rfl).2 1 (mapBytes sameFrameBytes) 0
      (stateAfter (decompressStackMaps exampleCollaborators (mappedVerifyData 2) 1
        (mapBytes sameFrameBytes) 0) (mappedVerifyData 2)) rfl (by rfl)⟩

/-! ## Bits of a bytecode-map entry -/

theorem or_ne_zero_right (a f : Nat) (hf : f ≠ 0) : a ||| f ≠ 0 := by
  intro h
  obtain ⟨i, hi⟩ := Nat.ne_zero_implies_bit_true hf
  have h1 : (a ||| f).testBit i = true := by rw [Nat.testBit_or, hi, Bool.or_true]
  rw [h, Nat.zero_testBit] at h1
  cases h1

theorem shiftRight_and (x y k : Nat) : (x &&& y) >>> k = (x >>> k) &&& (y >>> k) := by
  apply Nat.eq_of_testBit_eq
  intro i
  simp only [Nat.testBit_shiftRight, Nat.testBit_and]

theorem shiftRight_or (x y k : Nat) : (x ||| y) >>> k = (x >>> k) ||| (y >>> k) := by
  apply Nat.eq_of_testBit_eq
  intro i
  simp only [Nat.testBit_shiftRight, Nat.testBit_or]

theorem u32_mod_eq_and (x : Nat) : x % U32_RANGE = x &&& (2 ^ 32 - 1) := by
  rw [Nat.and_pow_two_sub_one_eq_mod]
  rfl

/-- Setting a flag `f` in a 32-bit entry: the flag is set, a flag `g` disjoint from
`f` is as before, and the frame index is as before. -/
theorem set_flag_bits (v f g : Nat) (hf : f ≠ 0) (hf32 : (2 ^ 32 - 1) &&& f = f)
    (hg32 : (2 ^ 32 - 1) &&& g = g) (hfg : g &&& f = 0) (hshift : f >>> BRANCH_INDEX_SHIFT = 0)
    (hflt : f < U32_RANGE) (hv : v < U32_RANGE) :
    ((v ||| f) % U32_RANGE) &&& f ≠ 0 ∧
    ((v ||| f) % U32_RANGE) &&& g = v &&& g ∧
    ((v ||| f) % U32_RANGE) >>> BRANCH_INDEX_SHIFT = v >>> BRANCH_INDEX_SHIFT ∧
    (v ||| f) % U32_RANGE < U32_RANGE := by
  have hlt : (v ||| f) % U32_RANGE < U32_RANGE := Nat.mod_lt _ (by decide)
  refine ⟨?_, ?_, ?_, hlt⟩
  · rw [u32_mod_eq_and, Nat.and_assoc, hf32, Nat.and_comm, Nat.and_or_distrib_left, Nat.and_self]
    exact or_ne_zero_right _ _ hf
  · rw [u32_mod_eq_and, Nat.and_assoc, hg32, Nat.and_comm, Nat.and_or_distrib_left, hfg,
      Nat.or_zero, Nat.and_comm]
  · have h1 : v ||| f < U32_RANGE := Nat.or_lt_two_pow hv hflt
    rw [Nat.mod_eq_of_lt h1, shiftRight_or, hshift, Nat.or_zero]

/-- Clearing a flag `f` in a 32-bit entry: the flag is clear, a flag `g` disjoint
from `f` is as before, and the frame index is as before. -/
theorem clearFlag_bits (v f g : Nat) (hf : (U32_RANGE - 1 - f) &&& f = 0)
    (hg : (U32_RANGE - 1 - f) &&& g = g)
    (hshift : (U32_RANGE - 1 - f) >>> BRANCH_INDEX_SHIFT = 2 ^ 28 - 1) (hv : v < U32_RANGE) :
    clearFlag v f &&& f = 0 ∧ clearFlag v f &&& g = v &&& g ∧
    clearFlag v f >>> BRANCH_INDEX_SHIFT = v >>> BRANCH_INDEX_SHIFT ∧
    clearFlag v f < U32_RANGE := by
  unfold clearFlag
  refine ⟨?_, ?_, ?_, ?_⟩
  · rw [Nat.and_assoc, hf, Nat.and_zero]
  · rw [Nat.and_assoc, hg]
  · rw [shiftRight_and, hshift, Nat.and_pow_two_sub_one_eq_mod]
    apply Nat.mod_eq_of_lt
    rw [BRANCH_INDEX_SHIFT, Nat.shiftRight_eq_div_pow]
    have : U32_RANGE = 4294967296 := by decide
    omega
  · exact Nat.lt_of_le_of_lt Nat.and_le_left hv


/-! ## The rings -/

theorem pendingFrom_append (queue : List Nat) (slots tail x : Nat)
    (htail : tail < queue.length) (hts : tail < slots) :
    ∀ (count head : Nat), head < slots → count < slots →
      (head + count = tail ∨ head + count = tail + slots) →
      pendingFrom (queue.set tail x) slots (count + 1) head =
        pendingFrom queue slots count head ++ [x] := by
  intro count
  induction count with
  | zero =>
    intro head hh _ hsum
    have he : head = tail := by omega
    subst he
    simp only [pendingFrom, List.nil_append, List.getD_eq_getElem?_getD,
      getElem?_set_same (List.getElem?_eq_getElem htail), Option.getD_some]
  | succ n ih =>
    intro head hh hn hsum
    have hne : tail ≠ head := by omega
    have hnext : (head + 1) % slots < slots := Nat.mod_lt _ (by omega)
    have hstep : (head + 1) % slots + n = tail ∨ (head + 1) % slots + n = tail + slots := by
      rcases Nat.lt_or_ge (head + 1) slots with h1 | h1
      · rw [Nat.mod_eq_of_lt h1]
        omega
      · have h2 : head + 1 = slots := by omega
        rw [h2, Nat.mod_self]
        omega
    have hrec := ih ((head + 1) % slots) hnext (by omega) hstep
    rw [pendingFrom, hrec]
    simp only [pendingFrom, List.cons_append, List.getD_eq_getElem?_getD,
      getElem?_set_other hne]

theorem pendingCount_spec (slots head tail : Nat) (hh : head < slots) (ht : tail < slots) :
    (tail + slots - head) % slots < slots ∧
    (head + (tail + slots - head) % slots = tail ∨
      head + (tail + slots - head) % slots = tail + slots) := by
  refine ⟨Nat.mod_lt _ (by omega), ?_⟩
  rcases Nat.lt_or_ge tail head with h | h
  · rw [Nat.mod_eq_of_lt (by omega)]
    omega
  · have h1 : tail + slots - head = tail - head + slots := by omega
    rw [h1, Nat.add_mod_right, Nat.mod_eq_of_lt (by omega)]
    omega

/-- Writing at the tail of a ring that has room appends the PC to the entries that
wait in it. -/
theorem pending_enqueue (queue : List Nat) (slots head tail x : Nat)
    (h : RingHasRoom queue slots head tail) :
    enqueue queue tail slots x = some (queue.set tail x, (tail + 1) % slots) ∧
    pending (queue.set tail x) slots head ((tail + 1) % slots) =
      pending queue slots head tail ++ [x] := by
  obtain ⟨hh, ht, hlen, hword, hroom⟩ := h
  constructor
  · unfold enqueue
    rw [if_pos ⟨by omega, by omega⟩, Nat.mod_eq_of_lt (by omega : tail + 1 < UDATA_RANGE)]
  · unfold pending
    obtain ⟨hc, hsum⟩ := pendingCount_spec slots head tail hh ht
    have ht1 : (tail + 1) % slots < slots := Nat.mod_lt _ (by omega)
    obtain ⟨hc1, hsum1⟩ := pendingCount_spec slots head ((tail + 1) % slots) hh ht1
    have hcount : ((tail + 1) % slots + slots - head) % slots =
        (tail + slots - head) % slots + 1 := by
      generalize ((tail + 1) % slots + slots - head) % slots = n1 at hc1 hsum1 ⊢
      generalize (tail + slots - head) % slots = n at hc hsum ⊢
      rcases Nat.lt_or_ge (tail + 1) slots with h1 | h1
      · rw [Nat.mod_eq_of_lt h1] at hsum1 hroom
        omega
      · have h2 : tail + 1 = slots := by omega
        rw [h2, Nat.mod_self] at hsum1 hroom
        omega
    rw [hcount]
    exact pendingFrom_append queue slots tail x (by omega) ht _ head hh (by omega) hsum


/-! ## mergeStacks: the target was never reached -/

/-- C11: when `mergeStacks` is called for a target whose stored frame has
`stackBaseIndex = -1` (the unwalked ring having room), it returns `BCV_SUCCESS`; the stored frame becomes
`copyStack` of the live frame, so it keeps its own `pc` and takes `stackBaseIndex`,
`stackTopIndex` and every slot below `stackTopIndex` from the live frame, and no
other frame changes; the target PC is appended to the PCs waiting in the unwalked
queue; `BRANCH_ON_UNWALKED_QUEUE` is set in `bytecodeMap[target]` and no other entry
changes; the rewalk queue, its head and its tail are as before. -/
theorem mergeStacks_unreached_target (o : ClassOracle) (vd : VerifyData) (target v : Nat)
    (targetStack : J9BranchTargetStack)
    (hv : vd.bytecodeMap[target]? = some v)
    (hframe : vd.stackMaps[v >>> BRANCH_INDEX_SHIFT]? = some targetStack)
    (hbase : targetStack.stackBaseIndex = -1)
    (hroom : RingHasRoom vd.unwalkedQueue (queueSlots vd) vd.unwalkedQueueHead
      vd.unwalkedQueueTail) :
    ∃ vd1, mergeStacks o vd target = some (RC.BCV_SUCCESS, vd1) ∧
      vd1.stackMaps = vd.stackMaps.set (v >>> BRANCH_INDEX_SHIFT)
        (copyStack vd.liveStack targetStack) ∧
      (∃ f, vd1.stackMaps[v >>> BRANCH_INDEX_SHIFT]? = some f ∧ f.pc = targetStack.pc ∧
        f.stackBaseIndex = vd.liveStack.stackBaseIndex ∧
        f.stackTopIndex = vd.liveStack.stackTopIndex ∧
        ∀ i : Int, 0 ≤ i → i < vd.liveStack.stackTopIndex →
          f.stackElements i = vd.liveStack.stackElements i) ∧
      pendingUnwalked vd1 = pendingUnwalked vd ++ [target] ∧
      vd1.unwalkedQueueHead = vd.unwalkedQueueHead ∧
      (∃ v1, vd1.bytecodeMap[target]? = some v1 ∧ v1 &&& BRANCH_ON_UNWALKED_QUEUE ≠ 0) ∧
      vd1.bytecodeMap = vd.bytecodeMap.set target ((v ||| BRANCH_ON_UNWALKED_QUEUE) % U32_RANGE) ∧
      vd1.rewalkQueue = vd.rewalkQueue ∧ vd1.rewalkQueueHead = vd.rewalkQueueHead ∧
      vd1.rewalkQueueTail = vd.rewalkQueueTail ∧ vd1.liveStack = vd.liveStack := by
  obtain ⟨henq, hpend⟩ := pending_enqueue vd.unwalkedQueue (queueSlots vd) vd.unwalkedQueueHead
    vd.unwalkedQueueTail target hroom
  refine ⟨{ vd with
      stackMaps := vd.stackMaps.set (v >>> BRANCH_INDEX_SHIFT) (copyStack vd.liveStack targetStack)
      unwalkedQueue := vd.unwalkedQueue.set vd.unwalkedQueueTail target
      unwalkedQueueTail := (vd.unwalkedQueueTail + 1) % queueSlots vd
      bytecodeMap := vd.bytecodeMap.set target ((v ||| BRANCH_ON_UNWALKED_QUEUE) % U32_RANGE) },
    ?_, rfl, ⟨_, getElem?_set_same hframe, rfl, rfl, rfl, ?_⟩, ?_, rfl, ?_, rfl, rfl,
    rfl, rfl, rfl⟩
  · unfold mergeStacks
    simp only [hv, hframe, hbase, if_true, henq]
  · intro i h0 h1
    simp only [copyStack]
    rw [if_pos ⟨h0, h1⟩]
  · exact hpend
  · refine ⟨_, getElem?_set_same hv, ?_⟩
    rw [u32_mod_eq_and, Nat.and_assoc]
    have h1 : (2 ^ 32 - 1) &&& BRANCH_ON_UNWALKED_QUEUE = BRANCH_ON_UNWALKED_QUEUE := by decide
    rw [h1, Nat.and_comm, Nat.and_or_distrib_left, Nat.and_self]
    exact or_ne_zero_right _ _ (by decide)

theorem mergeStacks_unreached_target_witness :
    ∃ vd1, mergeStacks exampleOracle mergeVerifyData 2 = some (RC.BCV_SUCCESS, vd1) ∧
      pendingUnwalked vd1 = pendingUnwalked mergeVerifyData ++ [2] ∧
      vd1.bytecodeMap = [0x01, 0, 0x15, 0] :=
  (mergeStacks_unreached_target exampleOracle mergeVerifyData 2 0x11
    (exampleFrame 2 (-1) (-1) []) rfl rfl rfl
    ⟨by decide, by decide, by decide, by decide, by decide⟩).elim
    fun vd1 h => ⟨vd1, h.1, h.2.2.2.1, h.2.2.2.2.2.2.1⟩

/-! ## mergeStacks: the stack depths differ -/

/-- C12, what the code does: for a target that was reached and whose stored frame
has a `stackTopIndex` other than that of the live frame, `mergeStacks` does not
return: after `rc = BCV_FAIL` it stores through the address `(UDATA *)-1`. -/
theorem mergeStacks_depth_mismatch_crashes (o : ClassOracle) (vd : VerifyData) (target v : Nat)
    (targetStack : J9BranchTargetStack)
    (hv : vd.bytecodeMap[target]? = some v)
    (hframe : vd.stackMaps[v >>> BRANCH_INDEX_SHIFT]? = some targetStack)
    (hbase : targetStack.stackBaseIndex ≠ -1)
    (hdepth : targetStack.stackTopIndex ≠ vd.liveStack.stackTopIndex) :
    mergeStacks o vd target = none := by
  unfold mergeStacks
  simp only [hv, hframe]
  rw [if_neg hbase, if_pos hdepth]

theorem mergeStacks_depth_mismatch_crashes_witness :
    mergeStacks exampleOracle depthMismatchData 0 = none :=
  mergeStacks_depth_mismatch_crashes exampleOracle depthMismatchData 0 0x01
    (exampleFrame 0 2 3 [0x11, 0x10, 0x10]) rfl rfl (by decide) (by decide)

/-! ## The loop of mergeStacks -/

theorem mergeObjectTypes_keeps {o : ClassOracle} {vd vd1 : VerifyData} {sourceType targetType : Nat}
    {rc : RC} {value : Nat}
    (h : mergeObjectTypes o vd sourceType targetType = some (rc, value, vd1)) :
    vd1 = { vd with classNameList := vd1.classNameList } := by
  unfold mergeObjectTypes at h
  dsimp only at h
  split_ifs at h
  all_goals first
    | (simp only [Option.some.injEq, Prod.mk.injEq] at h
       obtain ⟨_, _, h3⟩ := h
       subst h3
       rfl)
    | skip
  split at h
  · split at h
    · cases h
    · split_ifs at h
      all_goals
        simp only [Option.some.injEq, Prod.mk.injEq] at h
        obtain ⟨_, _, h3⟩ := h
        subst h3
        rfl
    · simp only [Option.some.injEq, Prod.mk.injEq] at h
      obtain ⟨_, _, h3⟩ := h
      subst h3
      rfl
  · cases h


/-- `mergeObjectTypes` returns `BCV_FAIL`, or it returns `BCV_SUCCESS` or
`BCV_ERR_INSUFFICIENT_MEMORY` and leaves the target word and the state alone. -/
theorem mergeObjectTypes_codes {o : ClassOracle} {vd vd1 : VerifyData}
    {sourceType targetType : Nat} {rc : RC} {value : Nat}
    (h : mergeObjectTypes o vd sourceType targetType = some (rc, value, vd1)) :
    rc = RC.BCV_FAIL ∨
      (value = targetType ∧ vd1 = vd ∧
        (rc = RC.BCV_SUCCESS ∨ rc = RC.BCV_ERR_INSUFFICIENT_MEMORY)) := by
  unfold mergeObjectTypes at h
  dsimp only at h
  split_ifs at h
  all_goals first
    | (simp only [Option.some.injEq, Prod.mk.injEq] at h
       obtain ⟨h1, h2, h3⟩ := h
       subst h1 h2 h3
       first
         | exact Or.inl rfl
         | exact Or.inr ⟨rfl, rfl, Or.inl rfl⟩
         | exact Or.inr ⟨rfl, rfl, Or.inr rfl⟩)
    | skip
  split at h
  · split at h
    · cases h
    · split_ifs at h
      all_goals
        simp only [Option.some.injEq, Prod.mk.injEq] at h
        obtain ⟨h1, h2, h3⟩ := h
        subst h1 h2 h3
        first
          | exact Or.inl rfl
          | exact Or.inr ⟨rfl, rfl, Or.inr rfl⟩
    · simp only [Option.some.injEq, Prod.mk.injEq] at h
      exact Or.inl h.1.symm
  · cases h

theorem afterMergeObjectTypes_merged {o : ClassOracle} {vd vd1 : VerifyData}
    {sourceType targetType value : Nat} {signal : Bool}
    (h : afterMergeObjectTypes (mergeObjectTypes o vd sourceType targetType) =
      some (SlotOutcome.merged value signal vd1)) :
    vd1 = { vd with classNameList := vd1.classNameList } ∧ (value ≠ targetType → signal = true) ∧
    ∃ rc, mergeObjectTypes o vd sourceType targetType = some (rc, value, vd1) ∧
      rc ≠ RC.BCV_ERR_INSUFFICIENT_MEMORY ∧ (signal = true ↔ rc = RC.BCV_FAIL) := by
  generalize hm : mergeObjectTypes o vd sourceType targetType = r at h
  rcases r with _ | ⟨rc, t, vd2⟩
  · cases h
  · have hk := mergeObjectTypes_keeps hm
    have hc := mergeObjectTypes_codes hm
    cases rc <;> simp only [afterMergeObjectTypes, Option.some.injEq, SlotOutcome.merged.injEq,
      reduceCtorEq] at h
    all_goals
      obtain ⟨h1, h2, h3⟩ := h
      subst h1 h2 h3
      refine ⟨hk, ?_, _, rfl, by decide, by decide⟩
      rcases hc with hc | ⟨hc, _, _⟩
      · first
          | exact fun _ => rfl
          | cases hc
      · intro hne
        exact absurd hc hne

theorem afterMergeObjectTypes_outOfMemory {o : ClassOracle} {vd vd1 : VerifyData}
    {sourceType targetType value : Nat}
    (h : afterMergeObjectTypes (mergeObjectTypes o vd sourceType targetType) =
      some (SlotOutcome.outOfMemory value vd1)) :
    value = targetType ∧ vd1 = vd ∧
    mergeObjectTypes o vd sourceType targetType =
      some (RC.BCV_ERR_INSUFFICIENT_MEMORY, targetType, vd) := by
  generalize hm : mergeObjectTypes o vd sourceType targetType = r at h
  rcases r with _ | ⟨rc, t, vd2⟩
  · cases h
  · have hc := mergeObjectTypes_codes hm
    cases rc <;> simp only [afterMergeObjectTypes, Option.some.injEq, SlotOutcome.outOfMemory.injEq,
      reduceCtorEq] at h
    obtain ⟨h1, h2⟩ := h
    subst h1 h2
    rcases hc with hc | ⟨hc, hv, _⟩
    · cases hc
    · subst hc hv
      exact ⟨rfl, rfl, rfl⟩

/-- A slot that the loop of `mergeStacks` leaves with another word has executed
`rewalk = TRUE`, and only the class-name list of the state can have changed. -/
theorem mergeSlot_merged {o : ClassOracle} {vd vd1 : VerifyData} {target index : Nat}
    {sourceItem targetItem value : Nat} {signal : Bool}
    (h : mergeSlot o vd target index sourceItem targetItem =
      some (SlotOutcome.merged value signal vd1)) :
    vd1 = { vd with classNameList := vd1.classNameList } ∧ (value ≠ targetItem → signal = true) := by
  unfold mergeSlot at h
  dsimp only at h
  split_ifs at h
  all_goals first
    | exact ⟨(afterMergeObjectTypes_merged h).1, (afterMergeObjectTypes_merged h).2.1⟩
    | (simp only [Option.some.injEq, SlotOutcome.merged.injEq] at h
       obtain ⟨h1, h2, h3⟩ := h
       subst h1 h2 h3
       exact ⟨rfl, fun _ => rfl⟩)
    | (simp only [Option.some.injEq, SlotOutcome.merged.injEq] at h
       obtain ⟨h1, h2, h3⟩ := h
       subst h1 h2 h3
       exact ⟨rfl, fun hne => absurd rfl hne⟩)

theorem mergeSlot_outOfMemory {o : ClassOracle} {vd vd1 : VerifyData} {target index : Nat}
    {sourceItem targetItem value : Nat}
    (h : mergeSlot o vd target index sourceItem targetItem =
      some (SlotOutcome.outOfMemory value vd1)) :
    value = targetItem ∧ vd1 = vd ∧
    mergeObjectTypes o vd sourceItem targetItem =
      some (RC.BCV_ERR_INSUFFICIENT_MEMORY, targetItem, vd) := by
  unfold mergeSlot at h
  dsimp only at h
  split_ifs at h
  all_goals first
    | exact afterMergeObjectTypes_outOfMemory h
    | cases h

/-- A run of the loop of `mergeStacks` that reaches the end of the frame: only the
class-name list of the state can have changed; the slots outside the run are as
before; every slot of the run holds what the body of the loop made of the word
it held before, and `rewalk` is set exactly when it was set before or the body
executed `rewalk = TRUE` for one of the slots. -/
theorem mergeSlots_ok (o : ClassOracle) (target : Nat) :
    ∀ (n index : Nat) (st fin : MergeState),
      mergeSlots o target n index st = some (Except.ok fin) →
      fin.verifyData = { st.verifyData with classNameList := fin.verifyData.classNameList } ∧
      (∀ j : Int, (j < index ∨ (index : Int) + n ≤ j) →
        fin.targetElements j = st.targetElements j) ∧
      (∀ j : Nat, index ≤ j → j < index + n →
        ∃ names value signal vdAfter,
          mergeSlot o { st.verifyData with classNameList := names } target j
              (st.verifyData.liveStack.stackElements (j : Int)) (st.targetElements (j : Int)) =
            some (SlotOutcome.merged value signal vdAfter) ∧
          fin.targetElements (j : Int) = value ∧ (signal = true → fin.rewalk = true)) ∧
      (st.rewalk = true → fin.rewalk = true) ∧
      (fin.rewalk = true → st.rewalk = true ∨
        ∃ j : Nat, index ≤ j ∧ j < index + n ∧ ∃ names value vdAfter,
          mergeSlot o { st.verifyData with classNameList := names } target j
              (st.verifyData.liveStack.stackElements (j : Int)) (st.targetElements (j : Int)) =
            some (SlotOutcome.merged value true vdAfter) ∧
          fin.targetElements (j : Int) = value) := by
  intro n
  induction n with
  | zero =>
    intro index st fin h
    simp only [mergeSlots, Option.some.injEq, Except.ok.injEq] at h
    subst h
    refine ⟨rfl, fun _ _ => rfl, ?_, fun h => h, fun h => Or.inl h⟩
    intro j h1 h2
    omega
  | succ n ih =>
    intro index st fin h
    unfold mergeSlots at h
    generalize hslot : mergeSlot o st.verifyData target index
      (st.verifyData.liveStack.stackElements (index : Int)) (st.targetElements (index : Int)) = r at h
    rcases r with _ | ⟨value, signal, vd1⟩ | ⟨value, vd1⟩
    · cases h
    · simp only at h
      obtain ⟨names1, hk⟩ : ∃ names1, vd1 = { st.verifyData with classNameList := names1 } :=
        ⟨_, (mergeSlot_merged hslot).1⟩
      subst hk
      obtain ⟨i1, i2, i3, i4, i5⟩ := ih (index + 1) _ fin h
      have hfin : fin.targetElements (index : Int) = value := by
        rw [i2 (index : Int) (Or.inl (by push_cast; omega))]
        simp only [Function.update_same]
      have hother : ∀ j : Int, j ≠ (index : Int) →
          Function.update st.targetElements (index : Int) value j = st.targetElements j :=
        fun j hj => Function.update_noteq hj _ _
      refine ⟨i1, ?_, ?_, ?_, ?_⟩
      · intro j hj
        rw [i2 j (by push_cast; omega)]
        exact hother j (by omega)
      · intro j h1 h2
        rcases Nat.eq_or_lt_of_le h1 with he | hlt
        · subst he
          exact ⟨st.verifyData.classNameList, value, signal, _, hslot, hfin, fun hs =>
            i4 (by simp only [hs, Bool.or_true])⟩
        · obtain ⟨names, v2, s2, vd2, hm, hv, hs⟩ := i3 j (by omega) (by omega)
          simp only at hm
          rw [hother (j : Int) (by omega)] at hm
          exact ⟨names, v2, s2, vd2, hm, hv, hs⟩
      · intro hs
        exact i4 (by simp only [hs, Bool.true_or])
      · intro hf
        rcases i5 hf with hs | ⟨j, h1, h2, names, v2, vd2, hm, hv⟩
        · simp only [Bool.or_eq_true] at hs
          rcases hs with hs | hs
          · exact Or.inl hs
          · subst hs
            exact Or.inr ⟨index, Nat.le_refl _, by omega, st.verifyData.classNameList, value, _,
              hslot, hfin⟩
        · simp only at hm
          rw [hother (j : Int) (by omega)] at hm
          exact Or.inr ⟨j, by omega, by omega, names, v2, vd2, hm, hv⟩
    · cases h

/-- A run of the loop of `mergeStacks` that is left through
`rc = BCV_ERR_INSUFFICIENT_MEMORY; goto _finished`: only the class-name list of the
state can have changed. -/
theorem mergeSlots_error (o : ClassOracle) (target : Nat) :
    ∀ (n index : Nat) (st fin : MergeState),
      mergeSlots o target n index st = some (Except.error fin) →
      fin.verifyData = { st.verifyData with classNameList := fin.verifyData.classNameList } := by
  intro n
  induction n with
  | zero =>
    intro index st fin h
    simp only [mergeSlots, Option.some.injEq, reduceCtorEq] at h
  | succ n ih =>
    intro index st fin h
    unfold mergeSlots at h
    generalize hslot : mergeSlot o st.verifyData target index
      (st.verifyData.liveStack.stackElements (index : Int)) (st.targetElements (index : Int)) = r at h
    rcases r with _ | ⟨value, signal, vd1⟩ | ⟨value, vd1⟩
    · cases h
    · simp only at h
      obtain ⟨names1, hk⟩ : ∃ names1, vd1 = { st.verifyData with classNameList := names1 } :=
        ⟨_, (mergeSlot_merged hslot).1⟩
      subst hk
      have hrec := ih (index + 1) _ fin h
      exact hrec
    · simp only [Option.some.injEq, Except.error.injEq] at h
      subst h
      rw [(mergeSlot_outOfMemory hslot).2.1]

theorem storeMerged_eq {vd : VerifyData} {fin : MergeState} (stackIndex : Nat)
    (targetStack : J9BranchTargetStack)
    (h : fin.verifyData = { vd with classNameList := fin.verifyData.classNameList }) :
    storeMerged fin stackIndex targetStack =
      { vd with
        classNameList := fin.verifyData.classNameList
        stackMaps := vd.stackMaps.set stackIndex
          { targetStack with stackElements := fin.targetElements } } := by
  unfold storeMerged
  rw [h]

/-- The ways in which a call of `mergeStacks` returns. -/
theorem mergeStacks_cases {o : ClassOracle} {vd vd1 : VerifyData} {target : Nat} {rc : RC}
    (h : mergeStacks o vd target = some (rc, vd1)) :
    ∃ v targetStack, vd.bytecodeMap[target]? = some v ∧
      vd.stackMaps[v >>> BRANCH_INDEX_SHIFT]? = some targetStack ∧
      ((targetStack.stackBaseIndex = -1 ∧ rc = RC.BCV_SUCCESS ∧
          ∃ queue tail, enqueue vd.unwalkedQueue vd.unwalkedQueueTail (queueSlots vd) target =
              some (queue, tail) ∧
            vd1 = { vd with
              stackMaps := vd.stackMaps.set (v >>> BRANCH_INDEX_SHIFT)
                (copyStack vd.liveStack targetStack)
              unwalkedQueue := queue
              unwalkedQueueTail := tail
              bytecodeMap :=
                vd.bytecodeMap.set target ((v ||| BRANCH_ON_UNWALKED_QUEUE) % U32_RANGE) }) ∨
        (targetStack.stackBaseIndex ≠ -1 ∧
          targetStack.stackTopIndex = vd.liveStack.stackTopIndex ∧
          0 ≤ vd.liveStack.stackTopIndex ∧
          ∃ fin,
            fin.verifyData = { vd with classNameList := fin.verifyData.classNameList } ∧
            ((mergeSlots o target vd.liveStack.stackTopIndex.toNat 0
                  { verifyData := vd, targetElements := targetStack.stackElements
                    rewalk := false } = some (Except.error fin) ∧
                rc = RC.BCV_ERR_INSUFFICIENT_MEMORY ∧
                vd1 = { vd with
                  classNameList := fin.verifyData.classNameList
                  stackMaps := vd.stackMaps.set (v >>> BRANCH_INDEX_SHIFT)
                    { targetStack with stackElements := fin.targetElements } }) ∨
              (mergeSlots o target vd.liveStack.stackTopIndex.toNat 0
                  { verifyData := vd, targetElements := targetStack.stackElements
                    rewalk := false } = some (Except.ok fin) ∧
                rc = RC.BCV_SUCCESS ∧
                ((fin.rewalk = true ∧ v &&& BRANCH_ON_REWALK_QUEUE = 0 ∧
                    ∃ queue tail,
                      enqueue vd.rewalkQueue vd.rewalkQueueTail (queueSlots vd) target =
                        some (queue, tail) ∧
                      vd1 = { vd with
                        classNameList := fin.verifyData.classNameList
                        stackMaps := vd.stackMaps.set (v >>> BRANCH_INDEX_SHIFT)
                          { targetStack with stackElements := fin.targetElements }
                        rewalkQueue := queue
                        rewalkQueueTail := tail
                        bytecodeMap := vd.bytecodeMap.set target
                          (clearFlag ((v ||| BRANCH_ON_REWALK_QUEUE) % U32_RANGE)
                            BRANCH_ON_UNWALKED_QUEUE) }) ∨
                  ((fin.rewalk = false ∨ v &&& BRANCH_ON_REWALK_QUEUE ≠ 0) ∧
                    vd1 = { vd with
                      classNameList := fin.verifyData.classNameList
                      stackMaps := vd.stackMaps.set (v >>> BRANCH_INDEX_SHIFT)
                        { targetStack with stackElements := fin.targetElements } })))))) := by
  unfold mergeStacks at h
  generalize hv : vd.bytecodeMap[target]? = mv at h
  rcases mv with _ | v
  · cases h
  simp only at h
  generalize hframe : vd.stackMaps[v >>> BRANCH_INDEX_SHIFT]? = mf at h
  rcases mf with _ | targetStack
  · cases h
  simp only at h
  refine ⟨v, targetStack, rfl, hframe, ?_⟩
  by_cases hbase : targetStack.stackBaseIndex = -1
  · left
    rw [if_pos hbase] at h
    generalize henq : enqueue vd.unwalkedQueue vd.unwalkedQueueTail (queueSlots vd) target = e at h
    rcases e with _ | ⟨queue, tail⟩
    · cases h
    · simp only [Option.some.injEq, Prod.mk.injEq] at h
      exact ⟨hbase, h.1.symm, queue, tail, rfl, h.2.symm⟩
  · right
    rw [if_neg hbase] at h
    by_cases hdepth : targetStack.stackTopIndex ≠ vd.liveStack.stackTopIndex
    · rw [if_pos hdepth] at h
      cases h
    · rw [if_neg hdepth] at h
      by_cases hneg : vd.liveStack.stackTopIndex < 0
      · rw [if_pos hneg] at h
        cases h
      · rw [if_neg hneg] at h
        refine ⟨hbase, not_not.mp hdepth, by omega, ?_⟩
        generalize hloop : mergeSlots o target vd.liveStack.stackTopIndex.toNat 0
          { verifyData := vd, targetElements := targetStack.stackElements, rewalk := false } = r at h
        rcases r with _ | ⟨fin⟩ | ⟨fin⟩
        · cases h
        · have hk := mergeSlots_error o target _ _ _ _ hloop
          simp only [Option.some.injEq, Prod.mk.injEq] at h
          refine ⟨fin, hk, Or.inl ⟨rfl, h.1.symm, ?_⟩⟩
          rw [← h.2]
          exact storeMerged_eq _ _ hk
        · have hk := (mergeSlots_ok o target _ _ _ _ hloop).1
          have hs := storeMerged_eq (v >>> BRANCH_INDEX_SHIFT) targetStack hk
          simp only at h
          refine ⟨fin, hk, Or.inr ⟨rfl, ?_⟩⟩
          by_cases hrw : fin.rewalk = true
          · rw [if_pos hrw] at h
            by_cases hflag : v &&& BRANCH_ON_REWALK_QUEUE = 0
            · rw [if_pos hflag] at h
              rw [hs] at h
              simp only [queueSlots] at h
              generalize henq : enqueue vd.rewalkQueue vd.rewalkQueueTail
                (vd.rootQueueSize / SIZEOF_UDATA) target = e at h
              rcases e with _ | ⟨queue, tail⟩
              · cases h
              · simp only [Option.some.injEq, Prod.mk.injEq] at h
                exact ⟨h.1.symm, Or.inl ⟨hrw, hflag, queue, tail, henq, h.2.symm⟩⟩
            · rw [if_neg hflag] at h
              simp only [Option.some.injEq, Prod.mk.injEq] at h
              exact ⟨h.1.symm, Or.inr ⟨Or.inr hflag, by rw [← h.2, hs]⟩⟩
          · rw [if_neg hrw] at h
            simp only [Option.some.injEq, Prod.mk.injEq] at h
            exact ⟨h.1.symm, Or.inr ⟨Or.inl (by simpa using hrw), by rw [← h.2, hs]⟩⟩


theorem rewalk_flag_after_enqueue (v : Nat) :
    clearFlag ((v ||| BRANCH_ON_REWALK_QUEUE) % U32_RANGE) BRANCH_ON_UNWALKED_QUEUE &&&
        BRANCH_ON_REWALK_QUEUE ≠ 0 ∧
    clearFlag ((v ||| BRANCH_ON_REWALK_QUEUE) % U32_RANGE) BRANCH_ON_UNWALKED_QUEUE &&&
        BRANCH_ON_UNWALKED_QUEUE = 0 := by
  constructor
  · unfold clearFlag
    rw [Nat.and_assoc]
    have h1 : (U32_RANGE - 1 - BRANCH_ON_UNWALKED_QUEUE) &&& BRANCH_ON_REWALK_QUEUE =
        BRANCH_ON_REWALK_QUEUE := by decide
    rw [h1, u32_mod_eq_and, Nat.and_assoc]
    have h2 : (2 ^ 32 - 1) &&& BRANCH_ON_REWALK_QUEUE = BRANCH_ON_REWALK_QUEUE := by decide
    rw [h2, Nat.and_comm, Nat.and_or_distrib_left, Nat.and_self]
    exact or_ne_zero_right _ _ (by decide)
  · unfold clearFlag
    rw [Nat.and_assoc]
    have h1 : (U32_RANGE - 1 - BRANCH_ON_UNWALKED_QUEUE) &&& BRANCH_ON_UNWALKED_QUEUE = 0 := by
      decide
    rw [h1, Nat.and_zero]

/-- A call of `mergeStacks` on a reached target that returns `BCV_SUCCESS`: the
stored frame keeps `pc`, `stackBaseIndex` and `stackTopIndex`; each slot below the
stack top holds what the body of the loop made of the word it held before, and
when the body executed `rewalk = TRUE` for a slot the entry of the target carries
`BRANCH_ON_REWALK_QUEUE` on return; the slots from the stack top on are as before. -/
theorem mergeStacks_slot {o : ClassOracle} {vd vd1 : VerifyData} {target v : Nat}
    {targetStack : J9BranchTargetStack}
    (hv : vd.bytecodeMap[target]? = some v)
    (hframe : vd.stackMaps[v >>> BRANCH_INDEX_SHIFT]? = some targetStack)
    (hbase : targetStack.stackBaseIndex ≠ -1)
    (h : mergeStacks o vd target = some (RC.BCV_SUCCESS, vd1)) :
    ∃ f v1, vd1.stackMaps[v >>> BRANCH_INDEX_SHIFT]? = some f ∧
      vd1.bytecodeMap[target]? = some v1 ∧ f.pc = targetStack.pc ∧
      f.stackBaseIndex = targetStack.stackBaseIndex ∧
      f.stackTopIndex = targetStack.stackTopIndex ∧
      (∀ j : Nat, (j : Int) < vd.liveStack.stackTopIndex →
        ∃ names value signal vdAfter,
          mergeSlot o { vd with classNameList := names } target j
              (vd.liveStack.stackElements (j : Int)) (targetStack.stackElements (j : Int)) =
            some (SlotOutcome.merged value signal vdAfter) ∧
          f.stackElements (j : Int) = value ∧
          (signal = true → v1 &&& BRANCH_ON_REWALK_QUEUE ≠ 0)) ∧
      (∀ j : Int, (j < 0 ∨ vd.liveStack.stackTopIndex ≤ j) →
        f.stackElements j = targetStack.stackElements j) := by
  obtain ⟨v0, t0, hv0, hf0, hcases⟩ := mergeStacks_cases h
  rw [hv] at hv0
  cases hv0
  rw [hframe] at hf0
  cases hf0
  rcases hcases with ⟨hb, _⟩ | ⟨_, _, htop, fin, _, hrun⟩
  · exact absurd hb hbase
  rcases hrun with ⟨_, hrc, _⟩ | ⟨hloop, _, hend⟩
  · cases hrc
  obtain ⟨_, hout, hin, _, _⟩ := mergeSlots_ok o target _ _ _ _ hloop
  have hslots : ∀ (v1 : Nat), (fin.rewalk = true → v1 &&& BRANCH_ON_REWALK_QUEUE ≠ 0) →
      (∀ j : Nat, (j : Int) < vd.liveStack.stackTopIndex →
        ∃ names value signal vdAfter,
          mergeSlot o { vd with classNameList := names } target j
              (vd.liveStack.stackElements (j : Int)) (targetStack.stackElements (j : Int)) =
            some (SlotOutcome.merged value signal vdAfter) ∧
          fin.targetElements (j : Int) = value ∧
          (signal = true → v1 &&& BRANCH_ON_REWALK_QUEUE ≠ 0)) ∧
      (∀ j : Int, (j < 0 ∨ vd.liveStack.stackTopIndex ≤ j) →
        fin.targetElements j = targetStack.stackElements j) := by
    intro v1 hflag
    constructor
    · intro j hj
      obtain ⟨names, value, signal, vdAfter, hm, hval, hsig⟩ := hin j (Nat.zero_le j) (by omega)
      exact ⟨names, value, signal, vdAfter, hm, hval, fun hs => hflag (hsig hs)⟩
    · intro j hj
      exact hout j (by
        rcases hj with hj | hj
        · left; simpa using hj
        · right; simp only [Nat.cast_zero, zero_add]; omega)
  rcases hend with ⟨_, _, queue, tail, _, hvd1⟩ | ⟨hno, hvd1⟩
  · subst hvd1
    obtain ⟨h1, h2⟩ := hslots _ (fun _ => (rewalk_flag_after_enqueue v).1)
    exact ⟨_, _, getElem?_set_same hframe, getElem?_set_same hv, rfl, rfl, rfl, h1, h2⟩
  · subst hvd1
    obtain ⟨h1, h2⟩ := hslots v (fun hrw => by
      rcases hno with hno | hno
      · rw [hno] at hrw; cases hrw
      · exact hno)
    exact ⟨_, _, getElem?_set_same hframe, hv, rfl, rfl, rfl, h1, h2⟩

/-! ## mergeStacks: one slot -/

theorem or_ne_zero_left (f a : Nat) (hf : f ≠ 0) : f ||| a ≠ 0 := by
  rw [Nat.or_comm]
  exact or_ne_zero_right a f hf

/-- The body of the loop of `mergeStacks` for a local slot whose two words differ,
one of them not a reference. -/
theorem mergeSlot_local_primitive (o : ClassOracle) (vd : VerifyData) (target index : Nat)
    (sourceItem targetItem : Nat) (hlocal : (index : Int) < vd.liveStack.stackBaseIndex)
    (hne : sourceItem ≠ targetItem)
    (hprim : (sourceItem ||| targetItem) &&& BCV_BASE_OR_SPECIAL ≠ 0) :
    mergeSlot o vd target index sourceItem targetItem =
      some (if targetItem ≠ BCV_BASE_TYPE_TOP ∧ targetItem &&& BCV_SPECIAL = 0 then
          SlotOutcome.merged BCV_BASE_TYPE_TOP true vd
        else SlotOutcome.merged targetItem false vd) := by
  unfold mergeSlot
  dsimp only
  rw [if_pos hne, if_pos hlocal, if_pos hprim]
  split_ifs <;> rfl

/-- C13: in the loop of `mergeStacks`, for a local slot (index below the
`stackBaseIndex` of the live frame) whose source and target words differ and of
which at least one has a bit of `BCV_BASE_OR_SPECIAL`: when the target word is not
`top` and has no bit of `BCV_SPECIAL`, the body of the loop writes `top` to the
target slot and executes `rewalk = TRUE`; otherwise it leaves the target slot
alone.  For a call on a reached target that returns `BCV_SUCCESS` the stored frame
then holds `top` in that slot and `bytecodeMap[target]` carries
`BRANCH_ON_REWALK_QUEUE`, or the slot is as before.  In particular merging `int`
into a local holding a reference, or a reference into a local holding `int`, gives
`top`. -/
theorem local_primitive_mismatch_becomes_top (o : ClassOracle) (vd : VerifyData)
    (target index : Nat) (hlocal : (index : Int) < vd.liveStack.stackBaseIndex) :
    (∀ sourceItem targetItem names, sourceItem ≠ targetItem →
      (sourceItem ||| targetItem) &&& BCV_BASE_OR_SPECIAL ≠ 0 →
      mergeSlot o { vd with classNameList := names } target index sourceItem targetItem =
        some (if targetItem ≠ BCV_BASE_TYPE_TOP ∧ targetItem &&& BCV_SPECIAL = 0 then
            SlotOutcome.merged BCV_BASE_TYPE_TOP true { vd with classNameList := names }
          else SlotOutcome.merged targetItem false { vd with classNameList := names })) ∧
    (∀ (v : Nat) (targetStack : J9BranchTargetStack) (vd1 : VerifyData),
      vd.bytecodeMap[target]? = some v →
      vd.stackMaps[v >>> BRANCH_INDEX_SHIFT]? = some targetStack →
      targetStack.stackBaseIndex ≠ -1 → (index : Int) < vd.liveStack.stackTopIndex →
      vd.liveStack.stackElements (index : Int) ≠ targetStack.stackElements (index : Int) →
      (vd.liveStack.stackElements (index : Int) ||| targetStack.stackElements (index : Int)) &&&
        BCV_BASE_OR_SPECIAL ≠ 0 →
      mergeStacks o vd target = some (RC.BCV_SUCCESS, vd1) →
      ∃ f v1, vd1.stackMaps[v >>> BRANCH_INDEX_SHIFT]? = some f ∧
        vd1.bytecodeMap[target]? = some v1 ∧
        if targetStack.stackElements (index : Int) ≠ BCV_BASE_TYPE_TOP ∧
            targetStack.stackElements (index : Int) &&& BCV_SPECIAL = 0 then
          f.stackElements (index : Int) = BCV_BASE_TYPE_TOP ∧ v1 &&& BRANCH_ON_REWALK_QUEUE ≠ 0
        else f.stackElements (index : Int) = targetStack.stackElements (index : Int)) ∧
    (∀ reference, reference &&& BCV_BASE_OR_SPECIAL = 0 →
      mergeSlot o vd target index BCV_BASE_TYPE_INT reference =
        some (SlotOutcome.merged BCV_BASE_TYPE_TOP true vd) ∧
      mergeSlot o vd target index reference BCV_BASE_TYPE_INT =
        some (SlotOutcome.merged BCV_BASE_TYPE_TOP true vd)) := by
  refine ⟨?_, ?_, ?_⟩
  · intro sourceItem targetItem names hne hprim
    exact mergeSlot_local_primitive o _ target index sourceItem targetItem hlocal hne hprim
  · intro v targetStack vd1 hv hframe hbase htop hne hprim h
    obtain ⟨f, v1, hf, hv1, _, _, _, hin, _⟩ := mergeStacks_slot hv hframe hbase h
    obtain ⟨names, value, signal, vdAfter, hm, hval, hsig⟩ := hin index htop
    rw [mergeSlot_local_primitive o { vd with classNameList := names } target index _ _ hlocal hne
      hprim] at hm
    refine ⟨f, v1, hf, hv1, ?_⟩
    split_ifs at hm ⊢ with hc
    · simp only [Option.some.injEq, SlotOutcome.merged.injEq] at hm
      obtain ⟨h1, h2, _⟩ := hm
      exact ⟨by rw [hval, ← h1], hsig h2.symm⟩
    · simp only [Option.some.injEq, SlotOutcome.merged.injEq] at hm
      rw [hval, ← hm.1]
  · intro reference href
    have hspecial : reference &&& BCV_SPECIAL = 0 := by
      have h1 : BCV_SPECIAL = BCV_BASE_OR_SPECIAL &&& BCV_SPECIAL := by decide
      rw [h1, ← Nat.and_assoc, href, Nat.zero_and]
    have hint : BCV_BASE_TYPE_INT &&& BCV_BASE_OR_SPECIAL ≠ 0 := by decide
    have hnei : BCV_BASE_TYPE_INT ≠ reference := by
      intro e
      rw [← e] at href
      exact hint href
    have hnet : reference ≠ BCV_BASE_TYPE_TOP := by
      intro e
      rw [e] at href
      exact absurd href (by decide)
    have hor1 : (BCV_BASE_TYPE_INT ||| reference) &&& BCV_BASE_OR_SPECIAL ≠ 0 := by
      rw [Nat.and_comm, Nat.and_or_distrib_left, Nat.and_comm BCV_BASE_OR_SPECIAL reference, href,
        Nat.or_zero, Nat.and_comm]
      exact hint
    have hor2 : (reference ||| BCV_BASE_TYPE_INT) &&& BCV_BASE_OR_SPECIAL ≠ 0 := by
      rw [Nat.or_comm]
      exact hor1
    constructor
    · rw [mergeSlot_local_primitive o vd target index _ _ hlocal hnei hor1,
        if_pos ⟨hnet, hspecial⟩]
    · rw [mergeSlot_local_primitive o vd target index _ _ hlocal (Ne.symm hnei) hor2,
        if_pos ⟨by decide, by decide⟩]

theorem local_primitive_mismatch_becomes_top_witness :
    (∃ f v1, (mergedOrSelf (mergeStacks exampleOracle mergeVerifyData 0)
          mergeVerifyData).stackMaps[0x01 >>> BRANCH_INDEX_SHIFT]? = some f ∧
        (mergedOrSelf (mergeStacks exampleOracle mergeVerifyData 0)
          mergeVerifyData).bytecodeMap[0]? = some v1 ∧
        if (exampleFrame 0 2 3 [0x11, 0x10, 0x10]).stackElements ((0 : Nat) : Int) ≠
              BCV_BASE_TYPE_TOP ∧
            (exampleFrame 0 2 3 [0x11, 0x10, 0x10]).stackElements ((0 : Nat) : Int) &&&
              BCV_SPECIAL = 0 then
          f.stackElements ((0 : Nat) : Int) = BCV_BASE_TYPE_TOP ∧
            v1 &&& BRANCH_ON_REWALK_QUEUE ≠ 0
        else f.stackElements ((0 : Nat) : Int) =
          (exampleFrame 0 2 3 [0x11, 0x10, 0x10]).stackElements ((0 : Nat) : Int)) ∧
    mergeSlot exampleOracle mergeVerifyData 0 0 BCV_BASE_TYPE_INT 0x10 =
      some (SlotOutcome.merged BCV_BASE_TYPE_TOP true mergeVerifyData) :=
  ⟨(local_primitive_mismatch_becomes_top exampleOracle mergeVerifyData 0 0 (by decide)).2.1
      0x01 (exampleFrame 0 2 3 [0x11, 0x10, 0x10])
      (mergedOrSelf (mergeStacks exampleOracle mergeVerifyData 0) mergeVerifyData)
      rfl rfl (by decide) (by decide) (by decide) (by decide) (by rfl),
    ((local_primitive_mismatch_becomes_top exampleOracle mergeVerifyData 0 0 (by decide)).2.2
      0x10 (by decide)).1⟩

/-- The body of the loop of `mergeStacks` for a local slot holding two different
references. -/
theorem mergeSlot_local_references (o : ClassOracle) (vd : VerifyData) (target index : Nat)
    (sourceItem targetItem : Nat) (hlocal : (index : Int) < vd.liveStack.stackBaseIndex)
    (hne : sourceItem ≠ targetItem)
    (href : (sourceItem ||| targetItem) &&& BCV_BASE_OR_SPECIAL = 0) :
    (sourceItem = BCV_BASE_TYPE_NULL →
      mergeSlot o vd target index sourceItem targetItem =
        some (SlotOutcome.merged targetItem false vd)) ∧
    (sourceItem ≠ BCV_BASE_TYPE_NULL →
      targetItem = BCV_JAVA_LANG_OBJECT_INDEX <<< BCV_CLASS_INDEX_SHIFT →
      mergeSlot o vd target index sourceItem targetItem =
        some (SlotOutcome.merged targetItem false vd)) ∧
    (sourceItem ≠ BCV_BASE_TYPE_NULL → targetItem = BCV_BASE_TYPE_NULL →
      mergeSlot o vd target index sourceItem targetItem =
        some (SlotOutcome.merged sourceItem true vd)) ∧
    (sourceItem ≠ BCV_BASE_TYPE_NULL →
      targetItem ≠ BCV_JAVA_LANG_OBJECT_INDEX <<< BCV_CLASS_INDEX_SHIFT →
      targetItem ≠ BCV_BASE_TYPE_NULL →
      (¬ (vd.optimize = true ∧ vd.romMethod.argCount + vd.romMethod.tempCount ≤ 32) →
        mergeSlot o vd target index sourceItem targetItem =
          afterMergeObjectTypes (mergeObjectTypes o vd sourceItem targetItem)) ∧
      (vd.optimize = true ∧ vd.romMethod.argCount + vd.romMethod.tempCount ≤ 32 → index < 32 →
        mergeSlot o vd target index sourceItem targetItem =
          if liveLocalBits o vd target &&& (1 <<< index) ≠ 0 then
            afterMergeObjectTypes (mergeObjectTypes o vd sourceItem targetItem)
          else some (SlotOutcome.merged BCV_BASE_TYPE_TOP true vd))) := by
  have hnot : ¬ (sourceItem ||| targetItem) &&& BCV_BASE_OR_SPECIAL ≠ 0 := fun h => h href
  refine ⟨?_, ?_, ?_, ?_⟩
  · intro hs
    unfold mergeSlot
    dsimp only
    rw [if_pos hne, if_pos hlocal, if_neg hnot, if_neg (fun h => h.1 hs)]
  · intro _ ht
    unfold mergeSlot
    dsimp only
    rw [if_pos hne, if_pos hlocal, if_neg hnot, if_neg (fun h => h.2 ht)]
  · intro hs ht
    have hobj : targetItem ≠ BCV_JAVA_LANG_OBJECT_INDEX <<< BCV_CLASS_INDEX_SHIFT := by
      rw [ht]
      decide
    unfold mergeSlot
    dsimp only
    rw [if_pos hne, if_pos hlocal, if_neg hnot, if_pos ⟨hs, hobj⟩, if_pos ht]
  · intro hs hobj hnull
    constructor
    · intro hopt
      unfold mergeSlot
      dsimp only
      rw [if_pos hne, if_pos hlocal, if_neg hnot, if_pos ⟨hs, hobj⟩, if_neg hnull, if_neg hopt]
    · intro hopt hidx
      unfold mergeSlot
      dsimp only
      rw [if_pos hne, if_pos hlocal, if_neg hnot, if_pos ⟨hs, hobj⟩, if_neg hnull, if_pos hopt,
        if_pos hidx]


/-- C14: in the loop of `mergeStacks`, for a local slot whose source and target
words differ and are both references (no bit of `BCV_BASE_OR_SPECIAL`): when the
source is `null` the target slot is kept and `rewalk` is not set; else when the
target is `java/lang/Object` at arity 0 it is kept and `rewalk` is not set; else
when the target is `null` the source is written to it and `rewalk = TRUE` is
executed; otherwise `mergeObjectTypes` decides, except that with
`J9_VERIFY_OPTIMIZE` and at most 32 locals a local whose live bit is clear gets
`top` and `rewalk = TRUE` without a call of `mergeObjectTypes`.  For a call on a
reached target that returns `BCV_SUCCESS` the stored frame holds in that slot the
word so decided, and `bytecodeMap[target]` carries `BRANCH_ON_REWALK_QUEUE` when
`rewalk = TRUE` was executed for the slot. -/
theorem local_reference_merge_cases (o : ClassOracle) (vd : VerifyData) (target index : Nat)
    (hlocal : (index : Int) < vd.liveStack.stackBaseIndex) :
    (∀ sourceItem targetItem names, sourceItem ≠ targetItem →
      (sourceItem ||| targetItem) &&& BCV_BASE_OR_SPECIAL = 0 →
      (sourceItem = BCV_BASE_TYPE_NULL →
        mergeSlot o { vd with classNameList := names } target index sourceItem targetItem =
          some (SlotOutcome.merged targetItem false { vd with classNameList := names })) ∧
      (sourceItem ≠ BCV_BASE_TYPE_NULL →
        targetItem = BCV_JAVA_LANG_OBJECT_INDEX <<< BCV_CLASS_INDEX_SHIFT →
        mergeSlot o { vd with classNameList := names } target index sourceItem targetItem =
          some (SlotOutcome.merged targetItem false { vd with classNameList := names })) ∧
      (sourceItem ≠ BCV_BASE_TYPE_NULL → targetItem = BCV_BASE_TYPE_NULL →
        mergeSlot o { vd with classNameList := names } target index sourceItem targetItem =
          some (SlotOutcome.merged sourceItem true { vd with classNameList := names })) ∧
      (sourceItem ≠ BCV_BASE_TYPE_NULL →
        targetItem ≠ BCV_JAVA_LANG_OBJECT_INDEX <<< BCV_CLASS_INDEX_SHIFT →
        targetItem ≠ BCV_BASE_TYPE_NULL →
        (¬ (vd.optimize = true ∧ vd.romMethod.argCount + vd.romMethod.tempCount ≤ 32) →
          mergeSlot o { vd with classNameList := names } target index sourceItem targetItem =
            afterMergeObjectTypes
              (mergeObjectTypes o { vd with classNameList := names } sourceItem targetItem)) ∧
        (vd.optimize = true ∧ vd.romMethod.argCount + vd.romMethod.tempCount ≤ 32 →
          index < 32 →
          mergeSlot o { vd with classNameList := names } target index sourceItem targetItem =
            if liveLocalBits o vd target &&& (1 <<< index) ≠ 0 then
              afterMergeObjectTypes
                (mergeObjectTypes o { vd with classNameList := names } sourceItem targetItem)
            else
              some (SlotOutcome.merged BCV_BASE_TYPE_TOP true { vd with classNameList := names })))) ∧
    (∀ (v : Nat) (targetStack : J9BranchTargetStack) (vd1 : VerifyData),
      vd.bytecodeMap[target]? = some v →
      vd.stackMaps[v >>> BRANCH_INDEX_SHIFT]? = some targetStack →
      targetStack.stackBaseIndex ≠ -1 → (index : Int) < vd.liveStack.stackTopIndex →
      vd.liveStack.stackElements (index : Int) ≠ targetStack.stackElements (index : Int) →
      (vd.liveStack.stackElements (index : Int) ||| targetStack.stackElements (index : Int)) &&&
        BCV_BASE_OR_SPECIAL = 0 →
      mergeStacks o vd target = some (RC.BCV_SUCCESS, vd1) →
      ∃ f v1, vd1.stackMaps[v >>> BRANCH_INDEX_SHIFT]? = some f ∧
        vd1.bytecodeMap[target]? = some v1 ∧
        (vd.liveStack.stackElements (index : Int) = BCV_BASE_TYPE_NULL →
          f.stackElements (index : Int) = targetStack.stackElements (index : Int)) ∧
        (vd.liveStack.stackElements (index : Int) ≠ BCV_BASE_TYPE_NULL →
          targetStack.stackElements (index : Int) =
            BCV_JAVA_LANG_OBJECT_INDEX <<< BCV_CLASS_INDEX_SHIFT →
          f.stackElements (index : Int) = targetStack.stackElements (index : Int)) ∧
        (vd.liveStack.stackElements (index : Int) ≠ BCV_BASE_TYPE_NULL →
          targetStack.stackElements (index : Int) = BCV_BASE_TYPE_NULL →
          f.stackElements (index : Int) = vd.liveStack.stackElements (index : Int) ∧
            v1 &&& BRANCH_ON_REWALK_QUEUE ≠ 0) ∧
        ∃ names value signal vdAfter,
          mergeSlot o { vd with classNameList := names } target index
              (vd.liveStack.stackElements (index : Int)) (targetStack.stackElements (index : Int)) =
            some (SlotOutcome.merged value signal vdAfter) ∧
          f.stackElements (index : Int) = value ∧
          (signal = true → v1 &&& BRANCH_ON_REWALK_QUEUE ≠ 0)) := by
  constructor
  · intro sourceItem targetItem names hne href
    have h := mergeSlot_local_references o { vd with classNameList := names } target index
      sourceItem targetItem hlocal hne href
    exact h
  · intro v targetStack vd1 hv hframe hbase htop hne href h
    obtain ⟨f, v1, hf, hv1, _, _, _, hin, _⟩ := mergeStacks_slot hv hframe hbase h
    obtain ⟨names, value, signal, vdAfter, hm, hval, hsig⟩ := hin index htop
    obtain ⟨c1, c2, c3, _⟩ := mergeSlot_local_references o { vd with classNameList := names }
      target index _ _ hlocal hne href
    refine ⟨f, v1, hf, hv1, ?_, ?_, ?_, names, value, signal, vdAfter, hm, hval, hsig⟩
    · intro hs
      rw [c1 hs] at hm
      simp only [Option.some.injEq, SlotOutcome.merged.injEq] at hm
      rw [hval, ← hm.1]
    · intro hs ht
      rw [c2 hs ht] at hm
      simp only [Option.some.injEq, SlotOutcome.merged.injEq] at hm
      rw [hval, ← hm.1]
    · intro hs ht
      rw [c3 hs ht] at hm
      simp only [Option.some.injEq, SlotOutcome.merged.injEq] at hm
      exact ⟨by rw [hval, ← hm.1], hsig hm.2.1.symm⟩

theorem local_reference_merge_cases_witness :
    ∃ f v1, (mergedOrSelf (mergeStacks exampleOracle mergeVerifyData 0)
          mergeVerifyData).stackMaps[0x01 >>> BRANCH_INDEX_SHIFT]? = some f ∧
      (mergedOrSelf (mergeStacks exampleOracle mergeVerifyData 0)
          mergeVerifyData).bytecodeMap[0]? = some v1 ∧
      ∃ names value signal vdAfter,
        mergeSlot exampleOracle { mergeVerifyData with classNameList := names } 0 1
            (mergeVerifyData.liveStack.stackElements ((1 : Nat) : Int))
            ((exampleFrame 0 2 3 [0x11, 0x10, 0x10]).stackElements ((1 : Nat) : Int)) =
          some (SlotOutcome.merged value signal vdAfter) ∧
        f.stackElements ((1 : Nat) : Int) = value ∧
        (signal = true → v1 &&& BRANCH_ON_REWALK_QUEUE ≠ 0) :=
  ((local_reference_merge_cases exampleOracle mergeVerifyData 0 1 (by decide)).2
    0x01 (exampleFrame 0 2 3 [0x11, 0x10, 0x10])
    (mergedOrSelf (mergeStacks exampleOracle mergeVerifyData 0) mergeVerifyData)
    rfl rfl (by decide) (by decide) (by decide) (by decide) (by rfl)).elim
    fun f h => h.elim fun v1 h => ⟨f, v1, h.1, h.2.1, h.2.2.2.2.2⟩

/-! ## mergeStacks: a slot of the operand stack -/

/-- The body of the loop of `mergeStacks` for a slot of the operand stack holding
two different references. -/
theorem mergeSlot_stack_references (o : ClassOracle) (vd : VerifyData) (target index : Nat)
    (sourceItem targetItem : Nat) (hstack : vd.liveStack.stackBaseIndex ≤ (index : Int))
    (hne : sourceItem ≠ targetItem)
    (href : (sourceItem ||| targetItem) &&& BCV_BASE_OR_SPECIAL = 0) :
    mergeSlot o vd target index sourceItem targetItem =
      afterMergeObjectTypes (mergeObjectTypes o vd sourceItem targetItem) := by
  unfold mergeSlot
  dsimp only
  rw [if_pos hne, if_neg (by omega), if_pos href]

/-- C15: in the loop of `mergeStacks`, for a slot of the operand stack (index at
or above the `stackBaseIndex` of the live frame) whose source and target words
differ and are both references, the body of the loop is the call of
`mergeObjectTypes` on the slot followed by the test of its return code, whatever
`J9_VERIFY_OPTIMIZE`, the number of locals and the local map are.  For a call on a
reached target that returns `BCV_SUCCESS`, `mergeObjectTypes` returned for that slot
and the stored frame holds in the slot the word it wrote; when it returned
`BCV_FAIL`, `bytecodeMap[target]` carries `BRANCH_ON_REWALK_QUEUE`. -/
theorem stack_references_use_mergeObjectTypes (o : ClassOracle) (vd : VerifyData)
    (target index : Nat) (hstack : vd.liveStack.stackBaseIndex ≤ (index : Int)) :
    (∀ sourceItem targetItem names flag, sourceItem ≠ targetItem →
      (sourceItem ||| targetItem) &&& BCV_BASE_OR_SPECIAL = 0 →
      mergeSlot o { vd with classNameList := names, optimize := flag } target index
          sourceItem targetItem =
        afterMergeObjectTypes
          (mergeObjectTypes o { vd with classNameList := names, optimize := flag }
            sourceItem targetItem)) ∧
    (∀ (v : Nat) (targetStack : J9BranchTargetStack) (vd1 : VerifyData),
      vd.bytecodeMap[target]? = some v →
      vd.stackMaps[v >>> BRANCH_INDEX_SHIFT]? = some targetStack →
      targetStack.stackBaseIndex ≠ -1 → (index : Int) < vd.liveStack.stackTopIndex →
      vd.liveStack.stackElements (index : Int) ≠ targetStack.stackElements (index : Int) →
      (vd.liveStack.stackElements (index : Int) ||| targetStack.stackElements (index : Int)) &&&
        BCV_BASE_OR_SPECIAL = 0 →
      mergeStacks o vd target = some (RC.BCV_SUCCESS, vd1) →
      ∃ f v1 names rc value vdAfter,
        vd1.stackMaps[v >>> BRANCH_INDEX_SHIFT]? = some f ∧
        vd1.bytecodeMap[target]? = some v1 ∧
        mergeObjectTypes o { vd with classNameList := names }
            (vd.liveStack.stackElements (index : Int)) (targetStack.stackElements (index : Int)) =
          some (rc, value, vdAfter) ∧
        f.stackElements (index : Int) = value ∧
        (rc = RC.BCV_FAIL → v1 &&& BRANCH_ON_REWALK_QUEUE ≠ 0)) := by
  constructor
  · intro sourceItem targetItem names flag hne href
    exact mergeSlot_stack_references o { vd with classNameList := names, optimize := flag } target
      index sourceItem targetItem hstack hne href
  · intro v targetStack vd1 hv hframe hbase htop hne href h
    obtain ⟨f, v1, hf, hv1, _, _, _, hin, _⟩ := mergeStacks_slot hv hframe hbase h
    obtain ⟨names, value, signal, vdAfter, hm, hval, hsig⟩ := hin index htop
    rw [mergeSlot_stack_references o { vd with classNameList := names } target index _ _ hstack hne
      href] at hm
    obtain ⟨_, _, rc, hcall, _, hiff⟩ := afterMergeObjectTypes_merged hm
    exact ⟨f, v1, names, rc, value, vdAfter, hf, hv1, hcall, hval, fun hrc => hsig (hiff.2 hrc)⟩

theorem stack_references_use_mergeObjectTypes_witness :
    ∃ f v1 names rc value vdAfter,
      (mergedOrSelf (mergeStacks exampleOracle mergeVerifyData 0)
          mergeVerifyData).stackMaps[0x01 >>> BRANCH_INDEX_SHIFT]? = some f ∧
      (mergedOrSelf (mergeStacks exampleOracle mergeVerifyData 0)
          mergeVerifyData).bytecodeMap[0]? = some v1 ∧
      mergeObjectTypes exampleOracle { mergeVerifyData with classNameList := names }
          (mergeVerifyData.liveStack.stackElements ((2 : Nat) : Int))
          ((exampleFrame 0 2 3 [0x11, 0x10, 0x10]).stackElements ((2 : Nat) : Int)) =
        some (rc, value, vdAfter) ∧
      f.stackElements ((2 : Nat) : Int) = value ∧
      (rc = RC.BCV_FAIL → v1 &&& BRANCH_ON_REWALK_QUEUE ≠ 0) :=
  (stack_references_use_mergeObjectTypes exampleOracle mergeVerifyData 0 2 (by decide)).2
    0x01 (exampleFrame 0 2 3 [0x11, 0x10, 0x10])
    (mergedOrSelf (mergeStacks exampleOracle mergeVerifyData 0) mergeVerifyData)
    rfl rfl (by decide) (by decide) (by decide) (by decide) (by rfl)

/-! ## mergeStacks: the re-walk request -/

theorem reference_ne_top {sourceItem targetItem : Nat}
    (href : (sourceItem ||| targetItem) &&& BCV_BASE_OR_SPECIAL = 0) :
    targetItem ≠ BCV_BASE_TYPE_TOP := by
  intro e
  subst e
  rw [Nat.and_comm, Nat.and_or_distrib_left] at href
  have h1 : BCV_BASE_OR_SPECIAL &&& BCV_BASE_TYPE_TOP ≠ 0 := by decide
  exact or_ne_zero_right _ _ h1 href

/-- When the body of the loop of `mergeStacks` executes `rewalk = TRUE` for a slot,
the word of the target slot has changed, provided `mergeObjectTypes` changes the
target word whenever it returns `BCV_FAIL`. -/
theorem mergeSlot_signal {o : ClassOracle} {vd vd1 : VerifyData} {target index : Nat}
    {sourceItem targetItem value : Nat}
    (hsound : ∀ value vdAfter, sourceItem ≠ targetItem →
      mergeObjectTypes o vd sourceItem targetItem = some (RC.BCV_FAIL, value, vdAfter) →
      value ≠ targetItem)
    (h : mergeSlot o vd target index sourceItem targetItem =
      some (SlotOutcome.merged value true vd1)) :
    value ≠ targetItem := by
  have hcall : afterMergeObjectTypes (mergeObjectTypes o vd sourceItem targetItem) =
      some (SlotOutcome.merged value true vd1) → sourceItem ≠ targetItem → value ≠ targetItem := by
    intro hm hne
    obtain ⟨_, _, rc, hc, _, hiff⟩ := afterMergeObjectTypes_merged hm
    have hrc : rc = RC.BCV_FAIL := hiff.1 rfl
    subst hrc
    exact hsound _ _ hne hc
  by_cases hne : sourceItem = targetItem
  · unfold mergeSlot at h
    dsimp only at h
    rw [if_neg (fun hn => hn hne)] at h
    simp only [Option.some.injEq, SlotOutcome.merged.injEq, Bool.false_eq_true, false_and,
      and_false] at h
  by_cases hlocal : (index : Int) < vd.liveStack.stackBaseIndex
  · by_cases hprim : (sourceItem ||| targetItem) &&& BCV_BASE_OR_SPECIAL ≠ 0
    · rw [mergeSlot_local_primitive o vd target index _ _ hlocal hne hprim] at h
      split_ifs at h with hc
      · simp only [Option.some.injEq, SlotOutcome.merged.injEq] at h
        rw [← h.1]
        exact fun e => hc.1 e.symm
      · simp only [Option.some.injEq, SlotOutcome.merged.injEq, Bool.false_eq_true, false_and,
          and_false] at h
    · have href : (sourceItem ||| targetItem) &&& BCV_BASE_OR_SPECIAL = 0 := not_not.mp hprim
      obtain ⟨c1, c2, c3, c4⟩ := mergeSlot_local_references o vd target index _ _ hlocal hne href
      by_cases hs : sourceItem = BCV_BASE_TYPE_NULL
      · rw [c1 hs] at h
        simp only [Option.some.injEq, SlotOutcome.merged.injEq, Bool.false_eq_true, false_and,
          and_false] at h
      by_cases ht : targetItem = BCV_JAVA_LANG_OBJECT_INDEX <<< BCV_CLASS_INDEX_SHIFT
      · rw [c2 hs ht] at h
        simp only [Option.some.injEq, SlotOutcome.merged.injEq, Bool.false_eq_true, false_and,
          and_false] at h
      by_cases hn : targetItem = BCV_BASE_TYPE_NULL
      · rw [c3 hs hn] at h
        simp only [Option.some.injEq, SlotOutcome.merged.injEq] at h
        rw [← h.1]
        exact hne
      obtain ⟨d1, d2⟩ := c4 hs ht hn
      by_cases hopt : vd.optimize = true ∧ vd.romMethod.argCount + vd.romMethod.tempCount ≤ 32
      · by_cases hidx : index < 32
        · rw [d2 hopt hidx] at h
          split_ifs at h
          · exact hcall h hne
          · simp only [Option.some.injEq, SlotOutcome.merged.injEq] at h
            rw [← h.1]
            exact fun e => reference_ne_top href e.symm
        · unfold mergeSlot at h
          dsimp only at h
          rw [if_pos hne, if_pos hlocal, if_neg hprim, if_pos ⟨hs, ht⟩, if_neg hn, if_pos hopt,
            if_neg hidx] at h
          cases h
      · rw [d1 hopt] at h
        exact hcall h hne
  · by_cases href : (sourceItem ||| targetItem) &&& BCV_BASE_OR_SPECIAL = 0
    · rw [mergeSlot_stack_references o vd target index _ _ (by omega) hne href] at h
      exact hcall h hne
    · unfold mergeSlot at h
      dsimp only at h
      rw [if_pos hne, if_neg hlocal, if_neg href] at h
      simp only [Option.some.injEq, SlotOutcome.merged.injEq, Bool.false_eq_true, false_and,
        and_false] at h


/-! ## mergeObjectTypes: the early exits -/

/-- C18: when `isClassCompatible` answers that the source type is assignable to
the target type, `mergeObjectTypes` returns `BCV_SUCCESS` with the word at
`targetTypePointer` and the verifier state as they were, and the test of its return
code in `mergeStacks` does not set `rewalk`. -/
theorem compatible_source_keeps_target (o : ClassOracle) (vd : VerifyData)
    (sourceType targetType : Nat)
    (h : (o.isClassCompatible vd.classNameList sourceType targetType).1 = true) :
    mergeObjectTypes o vd sourceType targetType = some (RC.BCV_SUCCESS, targetType, vd) ∧
    afterMergeObjectTypes (mergeObjectTypes o vd sourceType targetType) =
      some (SlotOutcome.merged targetType false vd) := by
  have h1 : mergeObjectTypes o vd sourceType targetType =
      some (RC.BCV_SUCCESS, targetType, vd) := by
    unfold mergeObjectTypes
    dsimp only
    rw [if_pos h]
  exact ⟨h1, by rw [h1]; rfl⟩

theorem compatible_source_keeps_target_witness :
    mergeObjectTypes exampleOracle mergeVerifyData 0x10 0 =
      some (RC.BCV_SUCCESS, 0, mergeVerifyData) :=
  (compatible_source_keeps_target exampleOracle mergeVerifyData 0x10 0 (by decide)).1

/-- C20: when `isClassCompatible` answers that the source is not assignable to the
target, with a reason code that is neither `BCV_ERR_INTERNAL_ERROR` nor
`BCV_ERR_INSUFFICIENT_MEMORY`, and the target word is `null`, `mergeObjectTypes`
writes the source word to `targetTypePointer` and returns `BCV_FAIL`; the test of
its return code in `mergeStacks` then sets `rewalk`. -/
theorem null_target_takes_source (o : ClassOracle) (vd : VerifyData) (sourceType : Nat)
    (hcompatible :
      (o.isClassCompatible vd.classNameList sourceType BCV_BASE_TYPE_NULL).1 = false)
    (hinternal : (o.isClassCompatible vd.classNameList sourceType BCV_BASE_TYPE_NULL).2 ≠
      RC.BCV_ERR_INTERNAL_ERROR)
    (hmemory : (o.isClassCompatible vd.classNameList sourceType BCV_BASE_TYPE_NULL).2 ≠
      RC.BCV_ERR_INSUFFICIENT_MEMORY) :
    mergeObjectTypes o vd sourceType BCV_BASE_TYPE_NULL =
      some (RC.BCV_FAIL, sourceType, vd) ∧
    afterMergeObjectTypes (mergeObjectTypes o vd sourceType BCV_BASE_TYPE_NULL) =
      some (SlotOutcome.merged sourceType true vd) := by
  have h1 : mergeObjectTypes o vd sourceType BCV_BASE_TYPE_NULL =
      some (RC.BCV_FAIL, sourceType, vd) := by
    unfold mergeObjectTypes
    dsimp only
    rw [if_neg (by rw [hcompatible]; decide), if_neg hinternal, if_neg hmemory, if_pos rfl]
  exact ⟨h1, by rw [h1]; rfl⟩

theorem null_target_takes_source_witness :
    mergeObjectTypes exampleOracle mergeVerifyData 0x10 BCV_BASE_TYPE_NULL =
      some (RC.BCV_FAIL, 0x10, mergeVerifyData) :=
  (null_target_takes_source exampleOracle mergeVerifyData 0x10 (by decide) (by decide)
    (by decide)).1

/-! ## Lookup failures -/

/-- The loop of `mergeStacks` over `a + b` slots is the loop over the first `a`
slots followed, when that one reaches its end, by the loop over the other `b`. -/
theorem mergeSlots_append (o : ClassOracle) (target : Nat) (b : Nat) :
    ∀ (a index : Nat) (st : MergeState),
      mergeSlots o target (a + b) index st =
        match mergeSlots o target a index st with
        | some (Except.ok middle) => mergeSlots o target b (index + a) middle
        | other => other := by
  intro a
  induction a with
  | zero =>
    intro index st
    simp only [Nat.zero_add, mergeSlots, Nat.add_zero]
  | succ a ih =>
    intro index st
    have hsum : a + 1 + b = (a + b) + 1 := by omega
    rw [hsum]
    simp only [mergeSlots]
    generalize mergeSlot o st.verifyData target index
      (st.verifyData.liveStack.stackElements (index : Int)) (st.targetElements (index : Int)) = r
    rcases r with _ | ⟨value, signal, vd1⟩ | ⟨value, vd1⟩
    · rfl
    · simp only
      rw [ih]
      have hidx : index + 1 + a = index + (a + 1) := by omega
      rw [hidx]
    · rfl


theorem mergeObjectTypes_out_of_memory (o : ClassOracle) (vd : VerifyData)
    (sourceType targetType : Nat)
    (h : o.isClassCompatible vd.classNameList sourceType targetType =
      (false, RC.BCV_ERR_INSUFFICIENT_MEMORY)) :
    mergeObjectTypes o vd sourceType targetType =
      some (RC.BCV_ERR_INSUFFICIENT_MEMORY, targetType, vd) := by
  unfold mergeObjectTypes
  dsimp only
  rw [h]
  rfl

/-- C19: when the compatibility lookup of `mergeObjectTypes` fails with reason
`BCV_ERR_INTERNAL_ERROR`, the target word becomes `java/lang/Object` at arity 0 and
`BCV_FAIL` is returned; when it fails with `BCV_ERR_INSUFFICIENT_MEMORY`,
`BCV_ERR_INSUFFICIENT_MEMORY` is returned and the target word is as before.  A call
of `mergeStacks` that returns `BCV_ERR_INSUFFICIENT_MEMORY` leaves the bytecode map
and both queues as they were; and `mergeStacks` does return
`BCV_ERR_INSUFFICIENT_MEMORY` when, on a reached target of the same depth, the loop
has merged the first `k` slots and the lookup fails with that reason in the call of
`mergeObjectTypes` for slot `k`. -/
theorem lookup_failure_in_merge (o : ClassOracle) (vd : VerifyData) :
    (∀ sourceType targetType,
      o.isClassCompatible vd.classNameList sourceType targetType =
        (false, RC.BCV_ERR_INTERNAL_ERROR) →
      mergeObjectTypes o vd sourceType targetType = some (RC.BCV_FAIL, objectType, vd) ∧
      objectType = BCV_JAVA_LANG_OBJECT_INDEX <<< BCV_CLASS_INDEX_SHIFT ∧
      objectType &&& BCV_ARITY_MASK = 0) ∧
    (∀ sourceType targetType,
      o.isClassCompatible vd.classNameList sourceType targetType =
        (false, RC.BCV_ERR_INSUFFICIENT_MEMORY) →
      mergeObjectTypes o vd sourceType targetType =
        some (RC.BCV_ERR_INSUFFICIENT_MEMORY, targetType, vd)) ∧
    (∀ target vd1, mergeStacks o vd target = some (RC.BCV_ERR_INSUFFICIENT_MEMORY, vd1) →
      vd1.bytecodeMap = vd.bytecodeMap ∧
      vd1.unwalkedQueue = vd.unwalkedQueue ∧ vd1.unwalkedQueueHead = vd.unwalkedQueueHead ∧
      vd1.unwalkedQueueTail = vd.unwalkedQueueTail ∧
      vd1.rewalkQueue = vd.rewalkQueue ∧ vd1.rewalkQueueHead = vd.rewalkQueueHead ∧
      vd1.rewalkQueueTail = vd.rewalkQueueTail) ∧
    (∀ (target v k : Nat) (targetStack : J9BranchTargetStack) (st : MergeState),
      vd.bytecodeMap[target]? = some v →
      vd.stackMaps[v >>> BRANCH_INDEX_SHIFT]? = some targetStack →
      targetStack.stackBaseIndex ≠ -1 →
      targetStack.stackTopIndex = vd.liveStack.stackTopIndex →
      (k : Int) < vd.liveStack.stackTopIndex →
      mergeSlots o target k 0
        { verifyData := vd, targetElements := targetStack.stackElements, rewalk := false } =
          some (Except.ok st) →
      mergeSlot o st.verifyData target k (st.verifyData.liveStack.stackElements (k : Int))
          (st.targetElements (k : Int)) =
        afterMergeObjectTypes (mergeObjectTypes o st.verifyData
          (st.verifyData.liveStack.stackElements (k : Int)) (st.targetElements (k : Int))) →
      o.isClassCompatible st.verifyData.classNameList
          (st.verifyData.liveStack.stackElements (k : Int)) (st.targetElements (k : Int)) =
        (false, RC.BCV_ERR_INSUFFICIENT_MEMORY) →
      ∃ vd1, mergeStacks o vd target = some (RC.BCV_ERR_INSUFFICIENT_MEMORY, vd1)) := by
  refine ⟨?_, mergeObjectTypes_out_of_memory o vd, ?_, ?_⟩
  · intro sourceType targetType h
    refine ⟨?_, by decide, by decide⟩
    unfold mergeObjectTypes
    dsimp only
    rw [h]
    rfl
  · intro target vd1 h
    obtain ⟨v, targetStack, _, _, hcases⟩ := mergeStacks_cases h
    rcases hcases with ⟨_, hrc, _⟩ | ⟨_, _, _, fin, _, hrun⟩
    · cases hrc
    rcases hrun with ⟨_, _, hvd1⟩ | ⟨_, hrc, _⟩
    · subst hvd1
      exact ⟨rfl, rfl, rfl, rfl, rfl, rfl, rfl⟩
    · cases hrc
  · intro target v k targetStack st hv hframe hbase hdepth hk hfirst hslot hlookup
    have hcount : vd.liveStack.stackTopIndex.toNat =
        k + ((vd.liveStack.stackTopIndex.toNat - k - 1) + 1) := by omega
    have hloop : ∃ fin, mergeSlots o target vd.liveStack.stackTopIndex.toNat 0
        { verifyData := vd, targetElements := targetStack.stackElements, rewalk := false } =
          some (Except.error fin) := by
      rw [hcount, mergeSlots_append, hfirst]
      simp only [Nat.zero_add, mergeSlots]
      rw [hslot, mergeObjectTypes_out_of_memory o st.verifyData _ _ hlookup]
      exact ⟨_, rfl⟩
    obtain ⟨fin, hfin⟩ := hloop
    refine ⟨storeMerged fin (v >>> BRANCH_INDEX_SHIFT) targetStack, ?_⟩
    unfold mergeStacks
    simp only [hv, hframe]
    rw [if_neg hbase, if_neg (fun hne => hne hdepth), if_neg (by omega)]
    simp only [hfin]

theorem lookup_failure_in_merge_witness :
    mergeObjectTypes (failingOracle RC.BCV_ERR_INTERNAL_ERROR) mergeVerifyData 0x20 0x10 =
      some (RC.BCV_FAIL, objectType, mergeVerifyData) ∧
    mergeObjectTypes (failingOracle RC.BCV_ERR_INSUFFICIENT_MEMORY) mergeVerifyData 0x20 0x10 =
      some (RC.BCV_ERR_INSUFFICIENT_MEMORY, 0x10, mergeVerifyData) ∧
    (mergedOrSelf (mergeStacks (failingOracle RC.BCV_ERR_INSUFFICIENT_MEMORY) mergeVerifyData 0)
        mergeVerifyData).rewalkQueueTail = mergeVerifyData.rewalkQueueTail ∧
    ∃ vd1, mergeStacks (failingOracle RC.BCV_ERR_INSUFFICIENT_MEMORY) mergeVerifyData 0 =
      some (RC.BCV_ERR_INSUFFICIENT_MEMORY, vd1) :=
  ⟨((lookup_failure_in_merge (failingOracle RC.BCV_ERR_INTERNAL_ERROR) mergeVerifyData).1
      0x20 0x10 rfl).1,
    (lookup_failure_in_merge (failingOracle RC.BCV_ERR_INSUFFICIENT_MEMORY) mergeVerifyData).2.1
      0x20 0x10 rfl,
    ((lookup_failure_in_merge (failingOracle RC.BCV_ERR_INSUFFICIENT_MEMORY)
      mergeVerifyData).2.2.1 0
      (mergedOrSelf (mergeStacks (failingOracle RC.BCV_ERR_INSUFFICIENT_MEMORY) mergeVerifyData 0)
        mergeVerifyData) (by rfl)).2.2.2.2.2.2,
    (lookup_failure_in_merge (failingOracle RC.BCV_ERR_INSUFFICIENT_MEMORY)
      mergeVerifyData).2.2.2 0 0x01 1 (exampleFrame 0 2 3 [0x11, 0x10, 0x10])
      { verifyData := mergeVerifyData
        targetElements := Function.update (exampleFrame 0 2 3 [0x11, 0x10, 0x10]).stackElements
          ((0 : Nat) : Int) BCV_BASE_TYPE_TOP
        rewalk := false || true }
      rfl rfl (by decide) (by decide) (by decide) (by rfl) (by rfl) (by rfl)⟩

/-! ## A PC is on at most one queue -/

/-- The ways in which the code at `_checkFinished` is left: only the two heads
have moved, and either both queues are empty, or the entry of the PC taken from a
queue carried the flag of that queue, which is cleared, and its frame is loaded. -/
theorem checkFinished_cases :
    ∀ (fuel : Nat) (vd : VerifyData) (out : ServiceOutcome),
      checkFinished fuel vd = some out →
      ∃ unwalkedHead rewalkHead,
        out = ServiceOutcome.finished
          { vd with unwalkedQueueHead := unwalkedHead, rewalkQueueHead := rewalkHead } ∨
        ∃ pc v flag branch,
          (flag = BRANCH_ON_UNWALKED_QUEUE ∨ flag = BRANCH_ON_REWALK_QUEUE) ∧
          vd.bytecodeMap[pc]? = some v ∧ v &&& flag ≠ 0 ∧
          vd.stackMaps[clearFlag v flag >>> BRANCH_INDEX_SHIFT]? = some branch ∧
          out = ServiceOutcome.walk pc
            { vd with
              unwalkedQueueHead := unwalkedHead
              rewalkQueueHead := rewalkHead
              bytecodeMap := vd.bytecodeMap.set pc (clearFlag v flag)
              liveStack := copyStack branch vd.liveStack } := by
  intro fuel
  induction fuel with
  | zero =>
    intro vd out h
    cases h
  | succ fuel ih =>
    intro vd out h
    unfold checkFinished at h
    split_ifs at h with hu hr
    · generalize hd : dequeue vd.unwalkedQueue vd.unwalkedQueueHead (queueSlots vd) = d at h
      rcases d with _ | ⟨pc, head⟩
      · cases h
      simp only at h
      generalize hv : vd.bytecodeMap[pc]? = mv at h
      rcases mv with _ | v
      · cases h
      simp only at h
      split_ifs at h with hflag
      · obtain ⟨uh, rh, hcase⟩ := ih _ out h
        exact ⟨uh, rh, hcase⟩
      · generalize hb : vd.stackMaps[clearFlag v BRANCH_ON_UNWALKED_QUEUE >>> BRANCH_INDEX_SHIFT]? =
          mb at h
        rcases mb with _ | branch
        · cases h
        simp only [Option.some.injEq] at h
        exact ⟨head, vd.rewalkQueueHead, Or.inr ⟨pc, v, BRANCH_ON_UNWALKED_QUEUE, branch,
          Or.inl rfl, hv, hflag, hb, h.symm⟩⟩
    · generalize hd : dequeue vd.rewalkQueue vd.rewalkQueueHead (queueSlots vd) = d at h
      rcases d with _ | ⟨pc, head⟩
      · cases h
      simp only at h
      generalize hv : vd.bytecodeMap[pc]? = mv at h
      rcases mv with _ | v
      · cases h
      simp only at h
      split_ifs at h with hflag
      · obtain ⟨uh, rh, hcase⟩ := ih _ out h
        exact ⟨uh, rh, hcase⟩
      · generalize hb : vd.stackMaps[clearFlag v BRANCH_ON_REWALK_QUEUE >>> BRANCH_INDEX_SHIFT]? =
          mb at h
        rcases mb with _ | branch
        · cases h
        simp only [Option.some.injEq] at h
        exact ⟨vd.unwalkedQueueHead, head, Or.inr ⟨pc, v, BRANCH_ON_REWALK_QUEUE, branch,
          Or.inr rfl, hv, hflag, hb, h.symm⟩⟩
    · simp only [Option.some.injEq] at h
      exact ⟨vd.unwalkedQueueHead, vd.rewalkQueueHead, Or.inl h.symm⟩


theorem unwalked_flag_set_bits (v : Nat) (hv : v < U32_RANGE) :
    ((v ||| BRANCH_ON_UNWALKED_QUEUE) % U32_RANGE) &&& BRANCH_ON_REWALK_QUEUE =
        v &&& BRANCH_ON_REWALK_QUEUE ∧
    ((v ||| BRANCH_ON_UNWALKED_QUEUE) % U32_RANGE) >>> BRANCH_INDEX_SHIFT =
        v >>> BRANCH_INDEX_SHIFT ∧
    (v ||| BRANCH_ON_UNWALKED_QUEUE) % U32_RANGE < U32_RANGE := by
  obtain ⟨_, h2, h3, h4⟩ := set_flag_bits v BRANCH_ON_UNWALKED_QUEUE BRANCH_ON_REWALK_QUEUE
    (by decide) (by decide) (by decide) (by decide) (by decide) (by decide) hv
  exact ⟨h2, h3, h4⟩

theorem rewalk_entry_after_enqueue (v : Nat) (hv : v < U32_RANGE) :
    clearFlag ((v ||| BRANCH_ON_REWALK_QUEUE) % U32_RANGE) BRANCH_ON_UNWALKED_QUEUE >>>
        BRANCH_INDEX_SHIFT = v >>> BRANCH_INDEX_SHIFT ∧
    clearFlag ((v ||| BRANCH_ON_REWALK_QUEUE) % U32_RANGE) BRANCH_ON_UNWALKED_QUEUE <
        U32_RANGE := by
  obtain ⟨_, _, h3, h4⟩ := set_flag_bits v BRANCH_ON_REWALK_QUEUE BRANCH_ON_UNWALKED_QUEUE
    (by decide) (by decide) (by decide) (by decide) (by decide) (by decide) hv
  obtain ⟨_, _, c3, c4⟩ := clearFlag_bits ((v ||| BRANCH_ON_REWALK_QUEUE) % U32_RANGE)
    BRANCH_ON_UNWALKED_QUEUE BRANCH_ON_REWALK_QUEUE (by decide) (by decide) (by decide) h4
  exact ⟨by rw [c3, h3], c4⟩

/-- A map without queue flags satisfies the invariant of the walk. -/
theorem queueFlagsConsistent_start (vd : VerifyData) (h : NoQueueFlags vd.bytecodeMap) :
    QueueFlagsConsistent vd := by
  intro pc v hv
  obtain ⟨h1, _, h3⟩ := h v (List.getElem?_mem hv)
  exact ⟨h1, fun hne => absurd h3 hne⟩

/-- Replacing a frame of the store by one that was reached keeps the frames
indexed by the flagged entries reached. -/
theorem reached_after_set {stackMaps : List J9BranchTargetStack} {index k : Nat}
    {old new f : J9BranchTargetStack} (hold : stackMaps[index]? = some old)
    (hnew : old.stackBaseIndex ≠ -1 → new.stackBaseIndex ≠ -1)
    (hf : stackMaps[k]? = some f) (hreached : f.stackBaseIndex ≠ -1) :
    ∃ g, (stackMaps.set index new)[k]? = some g ∧ g.stackBaseIndex ≠ -1 := by
  rcases eq_or_ne index k with he | hne
  · subst he
    rw [hold] at hf
    cases hf
    exact ⟨new, getElem?_set_same hold, hnew hreached⟩
  · exact ⟨f, by rw [getElem?_set_other hne]; exact hf, hreached⟩

/-- Every step of the walk keeps the invariant. -/
theorem queueFlagsConsistent_step {o : ClassOracle} {vd next : VerifyData}
    (hinv : QueueFlagsConsistent vd) (hstep : WalkStep o vd next) :
    QueueFlagsConsistent next := by
  cases hstep with
  | simulate liveStack names => exact hinv
  | merge target rc _ h =>
    obtain ⟨v, targetStack, hv, hframe, hcases⟩ := mergeStacks_cases h
    obtain ⟨hv32, hvflag⟩ := hinv target v hv
    have hkeep : ∀ (new : J9BranchTargetStack) (bm : List Nat),
        (targetStack.stackBaseIndex ≠ -1 → new.stackBaseIndex ≠ -1) →
        (∀ (pc w : Nat), bm[pc]? = some w → w < U32_RANGE ∧
          (w &&& BRANCH_ON_REWALK_QUEUE ≠ 0 → w &&& BRANCH_ON_UNWALKED_QUEUE = 0 ∧
            ∃ f, vd.stackMaps[w >>> BRANCH_INDEX_SHIFT]? = some f ∧ f.stackBaseIndex ≠ -1)) →
        ∀ (pc w : Nat), bm[pc]? = some w → w < U32_RANGE ∧
          (w &&& BRANCH_ON_REWALK_QUEUE ≠ 0 → w &&& BRANCH_ON_UNWALKED_QUEUE = 0 ∧
            ∃ f, (vd.stackMaps.set (v >>> BRANCH_INDEX_SHIFT) new)[w >>> BRANCH_INDEX_SHIFT]? =
              some f ∧ f.stackBaseIndex ≠ -1) := by
      intro new bm hnew hbm pc w hw
      obtain ⟨h1, h2⟩ := hbm pc w hw
      refine ⟨h1, fun hne => ?_⟩
      obtain ⟨h3, f, hf, hreached⟩ := h2 hne
      exact ⟨h3, reached_after_set hframe hnew hf hreached⟩
    rcases hcases with ⟨hbase, _, queue, tail, _, hnext⟩ | ⟨hbase, _, _, fin, _, hrun⟩
    · subst hnext
      apply hkeep _ _ (fun hne => absurd hbase hne)
      intro pc w hw
      rcases eq_or_ne target pc with he | hne
      · subst he
        rw [getElem?_set_same hv] at hw
        cases hw
        obtain ⟨b1, _, b3⟩ := unwalked_flag_set_bits v hv32
        refine ⟨b3, fun hset => ?_⟩
        rw [b1] at hset
        obtain ⟨_, f, hf, hreached⟩ := hvflag hset
        rw [hframe] at hf
        cases hf
        exact absurd hbase hreached
      · rw [getElem?_set_other hne] at hw
        exact hinv pc w hw
    · have hsame : ∀ (pc w : Nat), vd.bytecodeMap[pc]? = some w → w < U32_RANGE ∧
          (w &&& BRANCH_ON_REWALK_QUEUE ≠ 0 → w &&& BRANCH_ON_UNWALKED_QUEUE = 0 ∧
            ∃ f, (vd.stackMaps.set (v >>> BRANCH_INDEX_SHIFT)
              { targetStack with stackElements := fin.targetElements })[w >>>
                BRANCH_INDEX_SHIFT]? = some f ∧ f.stackBaseIndex ≠ -1) :=
        hkeep _ _ (fun hne => hne) hinv
      rcases hrun with ⟨_, _, hnext⟩ | ⟨_, _, hend⟩
      · subst hnext
        exact hsame
      rcases hend with ⟨_, _, queue, tail, _, hnext⟩ | ⟨_, hnext⟩
      · subst hnext
        intro pc w hw
        rcases eq_or_ne target pc with he | hne
        · subst he
          have hw1 : (vd.bytecodeMap.set target
              (clearFlag ((v ||| BRANCH_ON_REWALK_QUEUE) % U32_RANGE)
                BRANCH_ON_UNWALKED_QUEUE))[target]? = some w := hw
          rw [getElem?_set_same hv] at hw1
          cases hw1
          obtain ⟨r1, r2⟩ := rewalk_entry_after_enqueue v hv32
          refine ⟨r2, fun _ => ⟨(rewalk_flag_after_enqueue v).2,
            { targetStack with stackElements := fin.targetElements }, ?_, hbase⟩⟩
          rw [r1]
          exact getElem?_set_same hframe
        · have hw1 : (vd.bytecodeMap.set target
              (clearFlag ((v ||| BRANCH_ON_REWALK_QUEUE) % U32_RANGE)
                BRANCH_ON_UNWALKED_QUEUE))[pc]? = some w := hw
          rw [getElem?_set_other hne] at hw1
          exact hsame pc w hw1
      · subst hnext
        exact hsame
  | service fuel pc _ h =>
    obtain ⟨uh, rh, hfin | ⟨pc1, v, flag, branch, hflag, hv, _, _, hout⟩⟩ :=
      checkFinished_cases fuel vd _ h
    · cases hfin
    · simp only [ServiceOutcome.walk.injEq] at hout
      obtain ⟨_, hnext⟩ := hout
      subst hnext
      obtain ⟨hv32, hvflag⟩ := hinv pc1 v hv
      intro pc w hw
      rcases eq_or_ne pc1 pc with he | hne
      · subst he
        have hw1 : (vd.bytecodeMap.set pc1 (clearFlag v flag))[pc1]? = some w := hw
        rw [getElem?_set_same hv] at hw1
        cases hw1
        rcases hflag with hf | hf
        · subst hf
          obtain ⟨c1, c2, c3, c4⟩ := clearFlag_bits v BRANCH_ON_UNWALKED_QUEUE
            BRANCH_ON_REWALK_QUEUE (by decide) (by decide) (by decide) hv32
          refine ⟨c4, fun hset => ?_⟩
          rw [c2] at hset
          obtain ⟨_, f, hf, hreached⟩ := hvflag hset
          exact ⟨c1, f, by rw [c3]; exact hf, hreached⟩
        · subst hf
          obtain ⟨c1, _, _, c4⟩ := clearFlag_bits v BRANCH_ON_REWALK_QUEUE
            BRANCH_ON_UNWALKED_QUEUE (by decide) (by decide) (by decide) hv32
          exact ⟨c4, fun hset => absurd c1 hset⟩
      · have hw1 : (vd.bytecodeMap.set pc1 (clearFlag v flag))[pc]? = some w := hw
        rw [getElem?_set_other hne] at hw1
        exact hinv pc w hw1
  | drained fuel _ h =>
    obtain ⟨uh, rh, hfin | ⟨pc1, v, flag, branch, _, _, _, _, hout⟩⟩ :=
      checkFinished_cases fuel vd _ h
    · simp only [ServiceOutcome.finished.injEq] at hfin
      subst hfin
      exact hinv
    · cases hout

/-- C17: along every sequence of simulated instructions, calls of `mergeStacks`
and passes through `_checkFinished` that starts from a bytecode map without queue
flags (the cleared map, or the map as `buildBranchMap` and the initialisation of
the frame store leave it), after each step no entry of the bytecode map carries
both `BRANCH_ON_UNWALKED_QUEUE` and `BRANCH_ON_REWALK_QUEUE`. -/
theorem pc_on_at_most_one_queue (o : ClassOracle) (start vd : VerifyData)
    (hstart : NoQueueFlags start.bytecodeMap) (hreach : WalkReaches o start vd) :
    OnAtMostOneQueue vd.bytecodeMap := by
  have hinv : QueueFlagsConsistent vd := by
    induction hreach with
    | start => exact queueFlagsConsistent_start start hstart
    | step middle next _ hstep ih => exact queueFlagsConsistent_step ih hstep
  intro pc v hv hboth
  exact absurd ((hinv pc v hv).2 hboth.2).1 hboth.1


theorem pc_on_at_most_one_queue_witness :
    OnAtMostOneQueue
      (mergedOrSelf
        (mergeStacks exampleOracle
          (mergedOrSelf (mergeStacks exampleOracle mergeVerifyData 2) mergeVerifyData) 0)
        mergeVerifyData).bytecodeMap :=
  pc_on_at_most_one_queue exampleOracle mergeVerifyData
    (mergedOrSelf
      (mergeStacks exampleOracle
        (mergedOrSelf (mergeStacks exampleOracle mergeVerifyData 2) mergeVerifyData) 0)
      mergeVerifyData)
    (by unfold NoQueueFlags; decide)
    (WalkReaches.step mergeVerifyData
      (mergedOrSelf (mergeStacks exampleOracle mergeVerifyData 2) mergeVerifyData) _
      (WalkReaches.step mergeVerifyData mergeVerifyData _ (WalkReaches.start mergeVerifyData)
        (WalkStep.merge mergeVerifyData 2 RC.BCV_SUCCESS _ (by rfl)))
      (WalkStep.merge _ 0 RC.BCV_SUCCESS _ (by rfl)))

/-! ## mergeObjectTypes: base-type arrays and differing arities -/

theorem and_mask_idem (a m : Nat) : (a &&& m) &&& m = a &&& m := by
  rw [Nat.and_assoc, Nat.and_self]

theorem objectType_eq_zero : objectType = 0 := by decide

/-- A word with a bit of `BCV_TAG_BASE_ARRAY_OR_NULL` decays to the arity field
alone, which is `java/lang/Object` (class index 0) at that arity. -/
theorem decayBaseArray_tagged (type : Nat) (h : type &&& BCV_TAG_BASE_ARRAY_OR_NULL ≠ 0) :
    decayBaseArray type = type &&& BCV_ARITY_MASK := by
  unfold decayBaseArray
  rw [if_pos h, objectType_eq_zero, Nat.or_zero]

theorem decayBaseArray_arity (type : Nat) :
    decayBaseArray type &&& BCV_ARITY_MASK = type &&& BCV_ARITY_MASK := by
  unfold decayBaseArray
  split_ifs with h
  · rw [objectType_eq_zero, Nat.or_zero, and_mask_idem]
  · rfl

theorem arity_and_index (x : Nat) : (x &&& BCV_ARITY_MASK) &&& BCV_CLASS_INDEX_MASK = 0 := by
  rw [Nat.and_assoc]
  have h : BCV_ARITY_MASK &&& BCV_CLASS_INDEX_MASK = 0 := by decide
  rw [h, Nat.and_zero]

theorem arity_and_tag (x : Nat) : (x &&& BCV_ARITY_MASK) &&& BCV_TAG_BASE_ARRAY_OR_NULL = 0 := by
  rw [Nat.and_assoc]
  have h : BCV_ARITY_MASK &&& BCV_TAG_BASE_ARRAY_OR_NULL = 0 := by decide
  rw [h, Nat.and_zero]

theorem arity_lt (x : Nat) : x &&& BCV_ARITY_MASK < U32_RANGE := by
  have h : BCV_ARITY_MASK < U32_RANGE := by decide
  exact lt_of_le_of_lt Nat.and_le_right h

/-- The word `mergeObjectTypes` writes when the arity fields differ. -/
theorem mergeObjectTypes_arity_mismatch (o : ClassOracle) (vd : VerifyData)
    (sourceType targetType : Nat)
    (hcompatible : (o.isClassCompatible vd.classNameList sourceType targetType).1 = false)
    (hinternal : (o.isClassCompatible vd.classNameList sourceType targetType).2 ≠
      RC.BCV_ERR_INTERNAL_ERROR)
    (hmemory : (o.isClassCompatible vd.classNameList sourceType targetType).2 ≠
      RC.BCV_ERR_INSUFFICIENT_MEMORY)
    (htarget : targetType ≠ BCV_BASE_TYPE_NULL)
    (harity : sourceType &&& BCV_ARITY_MASK ≠ targetType &&& BCV_ARITY_MASK) :
    mergeObjectTypes o vd sourceType targetType =
      some (RC.BCV_FAIL, min (sourceType &&& BCV_ARITY_MASK) (targetType &&& BCV_ARITY_MASK),
        vd) := by
  unfold mergeObjectTypes
  dsimp only
  rw [if_neg (by rw [hcompatible]; decide), if_neg hinternal, if_neg hmemory, if_neg htarget,
    decayBaseArray_arity, decayBaseArray_arity, if_neg harity]
  have h0 : (BCV_JAVA_LANG_OBJECT_INDEX <<< BCV_CLASS_INDEX_SHIFT) % UDATA_RANGE = 0 := by decide
  rw [h0, Nat.or_zero]
  have hlt : ∀ x : Nat, x &&& BCV_ARITY_MASK < UDATA_RANGE := fun x =>
    lt_trans (arity_lt x) (by decide)
  split_ifs with hlt2
  · rw [Nat.mod_eq_of_lt (hlt _), Nat.min_eq_right (Nat.le_of_lt hlt2)]
  · rw [Nat.mod_eq_of_lt (hlt _), Nat.min_eq_left (Nat.le_of_not_lt hlt2)]

/-- After the early exits, `mergeObjectTypes` uses its operands only through
`decayBaseArray`, except for the word it leaves in the target when it returns
`BCV_ERR_INSUFFICIENT_MEMORY`. -/
theorem mergeObjectTypes_of_decayed (o : ClassOracle) (vd : VerifyData)
    (sourceType targetType otherSource otherTarget : Nat)
    (hcompatible : (o.isClassCompatible vd.classNameList sourceType targetType).1 = false)
    (hinternal : (o.isClassCompatible vd.classNameList sourceType targetType).2 ≠
      RC.BCV_ERR_INTERNAL_ERROR)
    (hmemory : (o.isClassCompatible vd.classNameList sourceType targetType).2 ≠
      RC.BCV_ERR_INSUFFICIENT_MEMORY)
    (htarget : targetType ≠ BCV_BASE_TYPE_NULL)
    (hcompatible2 : (o.isClassCompatible vd.classNameList otherSource otherTarget).1 = false)
    (hinternal2 : (o.isClassCompatible vd.classNameList otherSource otherTarget).2 ≠
      RC.BCV_ERR_INTERNAL_ERROR)
    (hmemory2 : (o.isClassCompatible vd.classNameList otherSource otherTarget).2 ≠
      RC.BCV_ERR_INSUFFICIENT_MEMORY)
    (htarget2 : otherTarget ≠ BCV_BASE_TYPE_NULL)
    (hsource : decayBaseArray otherSource = decayBaseArray sourceType)
    (hdecayed : decayBaseArray otherTarget = decayBaseArray targetType)
    (rc : RC) (value : Nat) (vd1 : VerifyData) (hrc : rc ≠ RC.BCV_ERR_INSUFFICIENT_MEMORY)
    (h : mergeObjectTypes o vd sourceType targetType = some (rc, value, vd1)) :
    mergeObjectTypes o vd otherSource otherTarget = some (rc, value, vd1) := by
  unfold mergeObjectTypes at h ⊢
  dsimp only at h ⊢
  rw [if_neg (by rw [hcompatible]; decide), if_neg hinternal, if_neg hmemory,
    if_neg htarget] at h
  rw [if_neg (by rw [hcompatible2]; decide), if_neg hinternal2, if_neg hmemory2,
    if_neg htarget2, hsource, hdecayed]
  by_cases harity : decayBaseArray sourceType &&& BCV_ARITY_MASK =
      decayBaseArray targetType &&& BCV_ARITY_MASK
  · rw [if_pos harity] at h ⊢
    generalize vd.classNameList[(decayBaseArray sourceType &&& BCV_CLASS_INDEX_MASK) >>>
      BCV_CLASS_INDEX_SHIFT]? = sourceName at h ⊢
    generalize vd.classNameList[(decayBaseArray targetType &&& BCV_CLASS_INDEX_MASK) >>>
      BCV_CLASS_INDEX_SHIFT]? = targetName at h ⊢
    rcases sourceName with _ | sourceName
    · cases h
    rcases targetName with _ | targetName
    · cases h
    dsimp only at h ⊢
    generalize mergeClasses o sourceName targetName = merged at h ⊢
    rcases merged with _ | (reasonCode | name)
    · cases h
    · dsimp only at h ⊢
      by_cases hreason : reasonCode = RC.BCV_ERR_INSUFFICIENT_MEMORY
      · rw [if_pos hreason] at h
        simp only [Option.some.injEq, Prod.mk.injEq] at h
        exact absurd h.1.symm hrc
      · rw [if_neg hreason] at h ⊢
        exact h
    · exact h
  · rw [if_neg harity] at h ⊢
    exact h

/-- C21: in `mergeObjectTypes`, once the compatibility lookup has answered no
without a lookup error and the target is not `null`: an operand with the bit
`BCV_TAG_BASE_ARRAY_OR_NULL` (a base-type array) is replaced by `java/lang/Object`
with the arity field of the operand, and what follows depends on the operands only
through the replaced words; then, when the two arity fields differ, the word
written to the target is `java/lang/Object` with the smaller of the two arity
fields, and `BCV_FAIL` is returned. -/
theorem base_array_decays_then_lesser_arity (o : ClassOracle) (vd : VerifyData)
    (sourceType targetType : Nat)
    (hcompatible : (o.isClassCompatible vd.classNameList sourceType targetType).1 = false)
    (hinternal : (o.isClassCompatible vd.classNameList sourceType targetType).2 ≠
      RC.BCV_ERR_INTERNAL_ERROR)
    (hmemory : (o.isClassCompatible vd.classNameList sourceType targetType).2 ≠
      RC.BCV_ERR_INSUFFICIENT_MEMORY)
    (htarget : targetType ≠ BCV_BASE_TYPE_NULL) :
    (∀ type, type &&& BCV_TAG_BASE_ARRAY_OR_NULL ≠ 0 →
      decayBaseArray type =
        (type &&& BCV_ARITY_MASK) |||
          (BCV_JAVA_LANG_OBJECT_INDEX <<< BCV_CLASS_INDEX_SHIFT) % U32_RANGE ∧
      decayBaseArray type &&& BCV_ARITY_MASK = type &&& BCV_ARITY_MASK ∧
      (decayBaseArray type &&& BCV_CLASS_INDEX_MASK) >>> BCV_CLASS_INDEX_SHIFT =
        BCV_JAVA_LANG_OBJECT_INDEX ∧
      decayBaseArray type &&& BCV_TAG_BASE_ARRAY_OR_NULL = 0) ∧
    (∀ type, type &&& BCV_TAG_BASE_ARRAY_OR_NULL = 0 → decayBaseArray type = type) ∧
    (∀ otherSource otherTarget rc value vd1,
      (o.isClassCompatible vd.classNameList otherSource otherTarget).1 = false →
      (o.isClassCompatible vd.classNameList otherSource otherTarget).2 ≠
        RC.BCV_ERR_INTERNAL_ERROR →
      (o.isClassCompatible vd.classNameList otherSource otherTarget).2 ≠
        RC.BCV_ERR_INSUFFICIENT_MEMORY →
      otherTarget ≠ BCV_BASE_TYPE_NULL →
      decayBaseArray otherSource = decayBaseArray sourceType →
      decayBaseArray otherTarget = decayBaseArray targetType →
      rc ≠ RC.BCV_ERR_INSUFFICIENT_MEMORY →
      mergeObjectTypes o vd sourceType targetType = some (rc, value, vd1) →
      mergeObjectTypes o vd otherSource otherTarget = some (rc, value, vd1)) ∧
    (sourceType &&& BCV_ARITY_MASK ≠ targetType &&& BCV_ARITY_MASK →
      ∃ value, mergeObjectTypes o vd sourceType targetType = some (RC.BCV_FAIL, value, vd) ∧
        value &&& BCV_ARITY_MASK =
          min (sourceType &&& BCV_ARITY_MASK) (targetType &&& BCV_ARITY_MASK) ∧
        (value &&& BCV_CLASS_INDEX_MASK) >>> BCV_CLASS_INDEX_SHIFT =
          BCV_JAVA_LANG_OBJECT_INDEX ∧
        value = min (sourceType &&& BCV_ARITY_MASK) (targetType &&& BCV_ARITY_MASK) |||
          BCV_JAVA_LANG_OBJECT_INDEX <<< BCV_CLASS_INDEX_SHIFT) := by
  refine ⟨?_, ?_, ?_, ?_⟩
  · intro type htag
    have h := decayBaseArray_tagged type htag
    refine ⟨?_, decayBaseArray_arity type, ?_, ?_⟩
    · rw [h]
      have h0 : (BCV_JAVA_LANG_OBJECT_INDEX <<< BCV_CLASS_INDEX_SHIFT) % U32_RANGE = 0 := by
        decide
      rw [h0, Nat.or_zero]
    · rw [h, arity_and_index]
      rfl
    · rw [h, arity_and_tag]
  · intro type htag
    unfold decayBaseArray
    rw [if_neg (by rw [htag]; decide)]
  · intro otherSource otherTarget rc value vd1 h1 h2 h3 h4 h5 h6 hrc h
    exact mergeObjectTypes_of_decayed o vd sourceType targetType otherSource otherTarget
      hcompatible hinternal hmemory htarget h1 h2 h3 h4 h5 h6 rc value vd1 hrc h
  · intro harity
    refine ⟨_, mergeObjectTypes_arity_mismatch o vd sourceType targetType hcompatible hinternal
      hmemory htarget harity, ?_, ?_, ?_⟩
    · rcases Nat.le_total (sourceType &&& BCV_ARITY_MASK) (targetType &&& BCV_ARITY_MASK)
        with hle | hle
      · rw [Nat.min_eq_left hle, and_mask_idem]
      · rw [Nat.min_eq_right hle, and_mask_idem]
    · rcases Nat.le_total (sourceType &&& BCV_ARITY_MASK) (targetType &&& BCV_ARITY_MASK)
        with hle | hle
      · rw [Nat.min_eq_left hle, arity_and_index]
        rfl
      · rw [Nat.min_eq_right hle, arity_and_index]
        rfl
    · have h0 : BCV_JAVA_LANG_OBJECT_INDEX <<< BCV_CLASS_INDEX_SHIFT = 0 := by decide
      rw [h0, Nat.or_zero]

theorem base_array_decays_then_lesser_arity_witness :
    ∃ value, mergeObjectTypes exampleOracle mergeVerifyData 0x01000012 0x20 =
        some (RC.BCV_FAIL, value, mergeVerifyData) ∧
      value &&& BCV_ARITY_MASK = min (0x01000012 &&& BCV_ARITY_MASK) (0x20 &&& BCV_ARITY_MASK) ∧
      (value &&& BCV_CLASS_INDEX_MASK) >>> BCV_CLASS_INDEX_SHIFT = BCV_JAVA_LANG_OBJECT_INDEX ∧
      value = min (0x01000012 &&& BCV_ARITY_MASK) (0x20 &&& BCV_ARITY_MASK) |||
        BCV_JAVA_LANG_OBJECT_INDEX <<< BCV_CLASS_INDEX_SHIFT :=
  (base_array_decays_then_lesser_arity exampleOracle mergeVerifyData 0x01000012 0x20
    (by decide) (by decide) (by decide) (by decide)).2.2.2 (by decide)

/-! ## mergeClasses finds the deepest common superclass -/

theorem superclassAt_spec {o : ClassOracle} {classes : Nat → Prop}
    (h : SingleInheritance o classes) :
    ∀ (k c : Nat), classes c → k ≤ o.J9CLASS_DEPTH c →
      ∃ a, superclassAt o c k = some a ∧ classes a ∧
        o.J9CLASS_DEPTH a + k = o.J9CLASS_DEPTH c := by
  intro k
  induction k with
  | zero =>
    intro c hc _
    exact ⟨c, rfl, hc, rfl⟩
  | succ k ih =>
    intro c hc hk
    obtain ⟨p, hp, hpc, hd⟩ := h.1 c hc (by omega)
    obtain ⟨a, ha, hac, had⟩ := ih p hpc (by omega)
    refine ⟨a, ?_, hac, by omega⟩
    simp only [superclassAt, hp]
    exact ha

theorem isSuperclassOrEqual_refl (o : ClassOracle) (c : Nat) : IsSuperclassOrEqual o c c :=
  ⟨0, Nat.zero_le _, rfl⟩

theorem isSuperclassOrEqual_depth {o : ClassOracle} {classes : Nat → Prop}
    (h : SingleInheritance o classes) {m c : Nat} (hc : classes c)
    (hm : IsSuperclassOrEqual o m c) :
    classes m ∧ o.J9CLASS_DEPTH m ≤ o.J9CLASS_DEPTH c ∧
      (o.J9CLASS_DEPTH m = o.J9CLASS_DEPTH c → m = c) := by
  obtain ⟨k, hk, hkm⟩ := hm
  obtain ⟨a, ha, hac, had⟩ := superclassAt_spec h k c hc hk
  rw [hkm] at ha
  cases ha
  refine ⟨hac, by omega, ?_⟩
  intro heq
  have hk0 : k = 0 := by omega
  subst hk0
  simp only [superclassAt, Option.some.injEq] at hkm
  exact hkm.symm

theorem isSuperclassOrEqual_of_parent {o : ClassOracle} {classes : Nat → Prop}
    (h : SingleInheritance o classes) {m c p : Nat} (hc : classes c)
    (hd : o.J9CLASS_DEPTH c ≠ 0) (hp : SUPERCLASS o c = some p)
    (hm : IsSuperclassOrEqual o m p) : IsSuperclassOrEqual o m c := by
  obtain ⟨q, hq, _, hqd⟩ := h.1 c hc hd
  rw [hp] at hq
  cases hq
  obtain ⟨k, hk, hkm⟩ := hm
  refine ⟨k + 1, by omega, ?_⟩
  simp only [superclassAt, hp]
  exact hkm

theorem isSuperclassOrEqual_parent {o : ClassOracle} {classes : Nat → Prop}
    (h : SingleInheritance o classes) {m c p : Nat} (hc : classes c)
    (hp : SUPERCLASS o c = some p) (hm : IsSuperclassOrEqual o m c) (hne : m ≠ c) :
    IsSuperclassOrEqual o m p := by
  obtain ⟨k, hk, hkm⟩ := hm
  cases k with
  | zero =>
    simp only [superclassAt, Option.some.injEq] at hkm
    exact absurd hkm.symm hne
  | succ k =>
    obtain ⟨q, hq, _, hqd⟩ := h.1 c hc (by omega)
    rw [hp] at hq
    cases hq
    simp only [superclassAt, hp] at hkm
    exact ⟨k, by omega, hkm⟩

theorem isSuperclassOrEqual_trans {o : ClassOracle} {classes : Nat → Prop}
    (h : SingleInheritance o classes) :
    ∀ (n : Nat) {a b c : Nat}, classes c → o.J9CLASS_DEPTH c ≤ n →
      IsSuperclassOrEqual o a b → IsSuperclassOrEqual o b c → IsSuperclassOrEqual o a c := by
  intro n
  induction n with
  | zero =>
    intro a b c hc hn hab hbc
    obtain ⟨k, hk, hkm⟩ := hbc
    have hk0 : k = 0 := by omega
    subst hk0
    simp only [superclassAt, Option.some.injEq] at hkm
    subst hkm
    exact hab
  | succ n ih =>
    intro a b c hc hn hab hbc
    by_cases hbceq : b = c
    · subst hbceq
      exact hab
    · have hd : o.J9CLASS_DEPTH c ≠ 0 := by
        intro h0
        obtain ⟨k, hk, hkm⟩ := hbc
        have hk0 : k = 0 := by omega
        subst hk0
        simp only [superclassAt, Option.some.injEq] at hkm
        exact hbceq hkm.symm
      obtain ⟨p, hp, hpc, hpd⟩ := h.1 c hc hd
      exact isSuperclassOrEqual_of_parent h hc hd hp
        (ih hpc (by omega) hab (isSuperclassOrEqual_parent h hc hp hbc hbceq))

/-- In a single-inheritance hierarchy the loop of `mergeClasses` ends, with fuel
above the sum of the two depths, at a common superclass that every common
superclass is a superclass of. -/
theorem walkToCommonClass_spec {o : ClassOracle} {classes : Nat → Prop}
    (h : SingleInheritance o classes) :
    ∀ (fuel s t : Nat), classes s → classes t →
      o.J9CLASS_DEPTH s + o.J9CLASS_DEPTH t < fuel →
      ∃ m, walkToCommonClass o fuel s t (o.J9CLASS_DEPTH s) (o.J9CLASS_DEPTH t) =
          some (Except.ok m) ∧
        IsSuperclassOrEqual o m s ∧ IsSuperclassOrEqual o m t ∧
        ∀ other, IsSuperclassOrEqual o other s → IsSuperclassOrEqual o other t →
          IsSuperclassOrEqual o other m := by
  intro fuel
  induction fuel with
  | zero =>
    intro s t _ _ hlt
    omega
  | succ fuel ih =>
    intro s t hs ht hlt
    by_cases hst : s = t
    · subst hst
      refine ⟨s, ?_, isSuperclassOrEqual_refl o s, isSuperclassOrEqual_refl o s,
        fun other h1 _ => h1⟩
      unfold walkToCommonClass
      rw [if_pos rfl]
    · unfold walkToCommonClass
      rw [if_neg hst]
      dsimp only
      by_cases hge : o.J9CLASS_DEPTH s ≥ o.J9CLASS_DEPTH t
      · -- the source steps up
        have hds : o.J9CLASS_DEPTH s ≠ 0 := by
          intro h0
          exact hst (h.2 s t hs ht h0 (by omega))
        obtain ⟨p, hp, hpc, hpd⟩ := h.1 s hs hds
        rw [if_pos hge, hp]
        dsimp only
        have hnots : ∀ other, IsSuperclassOrEqual o other s →
            IsSuperclassOrEqual o other t → other ≠ s := by
          intro other _ h2 heq
          subst heq
          obtain ⟨_, hle, heq2⟩ := isSuperclassOrEqual_depth h ht h2
          exact hst (heq2 (by omega))
        by_cases hpt : p = t
        · subst hpt
          rw [if_pos rfl]
          exact ⟨p, rfl, ⟨1, by omega, by simp only [superclassAt, hp]⟩,
            isSuperclassOrEqual_refl o p, fun other _ h2 => h2⟩
        · rw [if_neg (by simpa using hpt)]
          by_cases hle : o.J9CLASS_DEPTH p ≤ o.J9CLASS_DEPTH t
          · -- the target steps up too
            have hdt : o.J9CLASS_DEPTH t ≠ 0 := by
              intro h0
              exact hpt (h.2 p t hpc ht (by omega) h0)
            obtain ⟨q, hq, hqc, hqd⟩ := h.1 t ht hdt
            rw [if_pos hle, hq]
            dsimp only
            obtain ⟨m, hm, hms, hmt, hgreatest⟩ := ih p q hpc hqc (by omega)
            refine ⟨m, hm, isSuperclassOrEqual_of_parent h hs hds hp hms,
              isSuperclassOrEqual_of_parent h ht hdt hq hmt, ?_⟩
            intro other h1 h2
            have h1p := isSuperclassOrEqual_parent h hs hp h1 (hnots other h1 h2)
            have hnott : other ≠ t := by
              intro heq
              subst heq
              obtain ⟨_, hle2, heq2⟩ := isSuperclassOrEqual_depth h hpc h1p
              exact hpt (heq2 (by omega)).symm
            exact hgreatest other h1p (isSuperclassOrEqual_parent h ht hq h2 hnott)
          · rw [if_neg hle]
            dsimp only
            obtain ⟨m, hm, hms, hmt, hgreatest⟩ := ih p t hpc ht (by omega)
            refine ⟨m, hm, isSuperclassOrEqual_of_parent h hs hds hp hms, hmt, ?_⟩
            intro other h1 h2
            exact hgreatest other
              (isSuperclassOrEqual_parent h hs hp h1 (hnots other h1 h2)) h2
      · -- only the target steps up
        rw [if_neg hge]
        dsimp only
        rw [if_neg (by simpa using hst)]
        have hdt : o.J9CLASS_DEPTH t ≠ 0 := by omega
        obtain ⟨q, hq, hqc, hqd⟩ := h.1 t ht hdt
        rw [if_pos (by omega), hq]
        dsimp only
        obtain ⟨m, hm, hms, hmt, hgreatest⟩ := ih s q hs hqc (by omega)
        refine ⟨m, hm, hms, isSuperclassOrEqual_of_parent h ht hdt hq hmt, ?_⟩
        intro other h1 h2
        have hnott : other ≠ t := by
          intro heq
          subst heq
          obtain ⟨_, hle2, _⟩ := isSuperclassOrEqual_depth h hs h1
          omega
        exact hgreatest other h1 (isSuperclassOrEqual_parent h ht hq h2 hnott)

/-- C22: for two names that load, the classes lying in a single-inheritance
hierarchy (each class of depth other than 0 has a superclass of depth one less, and
there is one root), `mergeClasses` ends and returns the name of the deepest common
superclass of the two classes (of the current version of the first one); when one
of the two is a superclass of, or equal to, the other, that is the class returned.
In `mergeObjectTypes`, when the lookup answered no without a lookup error, the
target is not `null` and the arity fields are equal, the word written to the target
is the index `findClassName` gives for that name, shifted to the class-index field,
combined with the common arity field, and `BCV_FAIL` is returned. -/
theorem mergeClasses_deepest_common_superclass (o : ClassOracle) (classes : Nat → Prop)
    (h : SingleInheritance o classes) (firstClass secondClass : List Nat) (first second : Nat)
    (hfirst : o.j9rtv_verifierGetRAMClass firstClass = Except.ok first)
    (hsecond : o.j9rtv_verifierGetRAMClass secondClass = Except.ok second)
    (hfc : classes (o.J9_CURRENT_CLASS first)) (hsc : classes second) :
    ∃ common, mergeClasses o firstClass secondClass = some (Except.ok (o.className common)) ∧
      DeepestCommonSuperclass o common (o.J9_CURRENT_CLASS first) second ∧
      (IsSuperclassOrEqual o (o.J9_CURRENT_CLASS first) second →
        common = o.J9_CURRENT_CLASS first) ∧
      (IsSuperclassOrEqual o second (o.J9_CURRENT_CLASS first) → common = second) ∧
      ∀ (vd : VerifyData) (sourceType targetType : Nat),
        (o.isClassCompatible vd.classNameList sourceType targetType).1 = false →
        (o.isClassCompatible vd.classNameList sourceType targetType).2 ≠
          RC.BCV_ERR_INTERNAL_ERROR →
        (o.isClassCompatible vd.classNameList sourceType targetType).2 ≠
          RC.BCV_ERR_INSUFFICIENT_MEMORY →
        targetType ≠ BCV_BASE_TYPE_NULL →
        sourceType &&& BCV_ARITY_MASK = targetType &&& BCV_ARITY_MASK →
        vd.classNameList[(decayBaseArray sourceType &&& BCV_CLASS_INDEX_MASK) >>>
          BCV_CLASS_INDEX_SHIFT]? = some firstClass →
        vd.classNameList[(decayBaseArray targetType &&& BCV_CLASS_INDEX_MASK) >>>
          BCV_CLASS_INDEX_SHIFT]? = some secondClass →
        mergeObjectTypes o vd sourceType targetType =
          some (RC.BCV_FAIL,
            ((sourceType &&& BCV_ARITY_MASK) |||
              (((o.findClassName vd.classNameList (o.className common)).1 <<<
                BCV_CLASS_INDEX_SHIFT) % UDATA_RANGE)) % UDATA_RANGE,
            { vd with
              classNameList := (o.findClassName vd.classNameList (o.className common)).2 }) := by
  obtain ⟨common, hwalk, hcf, hcs, hgreatest⟩ :=
    walkToCommonClass_spec h
      (o.J9CLASS_DEPTH (o.J9_CURRENT_CLASS first) + o.J9CLASS_DEPTH second + 1)
      (o.J9_CURRENT_CLASS first) second hfc hsc (by omega)
  have hmerge : mergeClasses o firstClass secondClass =
      some (Except.ok (o.className common)) := by
    unfold mergeClasses
    simp only [hfirst, hsecond, hwalk]
  have hcc : classes common := (isSuperclassOrEqual_depth h hsc hcs).1
  refine ⟨common, hmerge, ⟨hcf, hcs, ?_⟩, ?_, ?_, ?_⟩
  · intro other h1 h2
    exact ⟨hgreatest other h1 h2, (isSuperclassOrEqual_depth h hcc (hgreatest other h1 h2)).2.1⟩
  · intro hsup
    have h1 := hgreatest _ (isSuperclassOrEqual_refl o _) hsup
    obtain ⟨_, hle1, _⟩ := isSuperclassOrEqual_depth h hcc h1
    obtain ⟨_, hle2, heq⟩ := isSuperclassOrEqual_depth h hfc hcf
    exact heq (by omega)
  · intro hsup
    have h1 := hgreatest _ hsup (isSuperclassOrEqual_refl o _)
    obtain ⟨_, hle1, _⟩ := isSuperclassOrEqual_depth h hcc h1
    obtain ⟨_, hle2, heq⟩ := isSuperclassOrEqual_depth h hsc hcs
    exact heq (by omega)
  · intro vd sourceType targetType hcompatible hinternal hmemory htarget harity hs ht
    unfold mergeObjectTypes
    dsimp only
    rw [if_neg (by rw [hcompatible]; decide), if_neg hinternal, if_neg hmemory, if_neg htarget,
      decayBaseArray_arity, decayBaseArray_arity, if_pos harity, hs, ht]
    simp only [hmerge]

theorem exampleOracle_singleInheritance : SingleInheritance exampleOracle (fun c => c ≤ 2) := by
  constructor
  · intro c hc hd
    have hc2 : c ≤ 2 := hc
    refine ⟨0, ?_, Nat.zero_le 2, ?_⟩
    · interval_cases c
      · exact absurd rfl hd
      · rfl
      · rfl
    · interval_cases c
      · exact absurd rfl hd
      · rfl
      · rfl
  · intro c d hc hd hc0 hd0
    have hc2 : c ≤ 2 := hc
    have hd2 : d ≤ 2 := hd
    interval_cases c <;> interval_cases d <;>
      first
        | rfl
        | exact absurd hc0 (by decide)
        | exact absurd hd0 (by decide)

theorem mergeClasses_deepest_common_superclass_witness :
    ∃ common, mergeClasses exampleOracle [65] [66] =
        some (Except.ok (exampleOracle.className common)) ∧
      DeepestCommonSuperclass exampleOracle common 1 2 :=
  (mergeClasses_deepest_common_superclass exampleOracle (fun c => c ≤ 2)
    exampleOracle_singleInheritance [65] [66] 1 2 rfl rfl (by decide) (by decide)).elim
    fun common hcommon => ⟨common, hcommon.1, hcommon.2.1⟩

/-! ## setInitializedThisStatus -/

/-- The test of the inner loop of `setInitializedThisStatus` over the slots below
`top`. -/
theorem any_slot_iff (elements : Int → Nat) (top : Int) :
    ((List.range top.toNat).any fun i =>
        decide (elements (i : Int) &&& BCV_SPECIAL_INIT = BCV_SPECIAL_INIT)) = true ↔
      ∃ j : Int, 0 ≤ j ∧ j < top ∧ elements j &&& BCV_SPECIAL_INIT = BCV_SPECIAL_INIT := by
  rw [List.any_eq_true]
  constructor
  · rintro ⟨i, hi, hp⟩
    rw [List.mem_range] at hi
    exact ⟨(i : Int), by omega, by omega, of_decide_eq_true hp⟩
  · rintro ⟨j, h0, h1, hp⟩
    refine ⟨j.toNat, ?_, ?_⟩
    · rw [List.mem_range]
      omega
    · have hj : ((j.toNat : Nat) : Int) = j := Int.toNat_of_nonneg h0
      rw [hj]
      exact decide_eq_true hp

theorem setInitializedThisStatus_frame (vd : VerifyData) (i : Nat) (f : J9BranchTargetStack)
    (hf : vd.stackMaps[i]? = some f) :
    (setInitializedThisStatus vd).stackMaps[i]? =
      some (if i < vd.stackMapsCount then
          if f.stackBaseIndex ≠ -1 then
            { f with
              uninitializedThis :=
                (List.range f.stackTopIndex.toNat).any fun i =>
                  decide (f.stackElements (i : Int) &&& BCV_SPECIAL_INIT = BCV_SPECIAL_INIT) }
          else f
        else f) := by
  unfold setInitializedThisStatus
  simp only [List.getElem?_map, List.getElem?_enum, hf, Option.map_some']

/-- C27, amended: after `setInitializedThisStatus`, every frame of the store (index
below `stackMapsCount`) that was reached (`stackBaseIndex != -1`) has
`uninitializedThis = TRUE` if and only if some slot of the frame below
`stackTopIndex`, a local or a slot of the operand stack (indices 0 up to
`stackTopIndex`), holds an *uninitialized-this* value, its other fields being as
before; frames never reached (`stackBaseIndex = -1`) are as before. -/
theorem uninitializedThis_iff_some_slot (vd : VerifyData) (i : Nat) (f : J9BranchTargetStack)
    (hi : i < vd.stackMapsCount) (hf : vd.stackMaps[i]? = some f) :
    ∃ g, (setInitializedThisStatus vd).stackMaps[i]? = some g ∧
      g.pc = f.pc ∧ g.stackBaseIndex = f.stackBaseIndex ∧ g.stackTopIndex = f.stackTopIndex ∧
      g.stackElements = f.stackElements ∧
      (f.stackBaseIndex ≠ -1 →
        (g.uninitializedThis = true ↔
          ∃ j : Int, 0 ≤ j ∧ j < f.stackTopIndex ∧
            f.stackElements j &&& BCV_SPECIAL_INIT = BCV_SPECIAL_INIT)) ∧
      (f.stackBaseIndex = -1 → g = f) := by
  have h := setInitializedThisStatus_frame vd i f hf
  rw [if_pos hi] at h
  by_cases hbase : f.stackBaseIndex = -1
  · rw [if_neg (by simpa using hbase)] at h
    exact ⟨f, h, rfl, rfl, rfl, rfl, fun hne => absurd hbase hne, fun _ => rfl⟩
  · rw [if_pos hbase] at h
    exact ⟨_, h, rfl, rfl, rfl, rfl, fun _ => any_slot_iff f.stackElements f.stackTopIndex,
      fun heq => absurd heq hbase⟩

theorem uninitializedThis_iff_some_slot_witness :
    ∃ g, (setInitializedThisStatus initThisData).stackMaps[0]? = some g ∧
      (g.uninitializedThis = true ↔
        ∃ j : Int, 0 ≤ j ∧ j < (1 : Int) ∧
          (exampleFrame 0 1 1 [0x14]).stackElements j &&& BCV_SPECIAL_INIT = BCV_SPECIAL_INIT) :=
  (uninitializedThis_iff_some_slot initThisData 0 (exampleFrame 0 1 1 [0x14]) (by decide)
    rfl).elim
    fun g hg => ⟨g, hg.1, hg.2.2.2.2.2.1 (by decide)⟩

/-- C27 as stated fails: frame 0 of `initThisData` was reached and holds
*uninitialized-this* in local 0 only, its operand stack being empty, and
`setInitializedThisStatus` sets its `uninitializedThis` to `TRUE`. -/
theorem uninitializedThis_counterexample :
    ∃ g, (setInitializedThisStatus initThisData).stackMaps[0]? = some g ∧
      g.stackBaseIndex ≠ -1 ∧ g.uninitializedThis = true ∧
      ¬ ∃ j : Int, g.stackBaseIndex ≤ j ∧ j < g.stackTopIndex ∧
        g.stackElements j &&& BCV_SPECIAL_INIT = BCV_SPECIAL_INIT := by
  refine ⟨{ exampleFrame 0 1 1 [0x14] with uninitializedThis := true }, rfl, by decide, rfl, ?_⟩
  rintro ⟨j, h1, h2, -⟩
  have h3 : (1 : Int) ≤ j := h1
  have h4 : j < (1 : Int) := h2
  omega

/-! ## Queue servicing -/

theorem clearFlag_unwalked (v : Nat) : clearFlag v BRANCH_ON_UNWALKED_QUEUE &&&
    BRANCH_ON_UNWALKED_QUEUE = 0 := by
  unfold clearFlag
  rw [Nat.and_assoc]
  have h : (U32_RANGE - 1 - BRANCH_ON_UNWALKED_QUEUE) &&& BRANCH_ON_UNWALKED_QUEUE = 0 := by
    decide
  rw [h, Nat.and_zero]

theorem clearFlag_rewalk (v : Nat) : clearFlag v BRANCH_ON_REWALK_QUEUE &&&
    BRANCH_ON_REWALK_QUEUE = 0 := by
  unfold clearFlag
  rw [Nat.and_assoc]
  have h : (U32_RANGE - 1 - BRANCH_ON_REWALK_QUEUE) &&& BRANCH_ON_REWALK_QUEUE = 0 := by
    decide
  rw [h, Nat.and_zero]

/-- C28: the code at `_checkFinished`.  While the unwalked queue is not empty
(`unwalkedQueueHead != unwalkedQueueTail`) the next PC is read from it at its head,
which moves on by one slot; the rewalk queue is read, in the same way, only when the
unwalked queue is empty.  When the entry of the PC read no longer carries the flag
of the queue it was read from, the label is reached again with nothing but the head
changed: no frame is loaded.  Otherwise the flag is cleared in the entry and the
stored frame the entry indexes is copied into the live frame, from where the walk
goes on at that PC.  When both queues are empty `simulateStack` returns
`BCV_SUCCESS`. -/
theorem queue_servicing_order (fuel : Nat) (vd : VerifyData) (hslots : queueSlots vd ≠ 0) :
    (vd.unwalkedQueueHead ≠ vd.unwalkedQueueTail →
      ∀ pc v, vd.unwalkedQueue[vd.unwalkedQueueHead]? = some pc →
        vd.bytecodeMap[pc]? = some v →
        (v &&& BRANCH_ON_UNWALKED_QUEUE = 0 →
          checkFinished (fuel + 1) vd =
            checkFinished fuel
              { vd with
                unwalkedQueueHead :=
                  (vd.unwalkedQueueHead + 1) % UDATA_RANGE % queueSlots vd }) ∧
        (v &&& BRANCH_ON_UNWALKED_QUEUE ≠ 0 →
          ∀ branch,
            vd.stackMaps[clearFlag v BRANCH_ON_UNWALKED_QUEUE >>> BRANCH_INDEX_SHIFT]? =
              some branch →
            checkFinished (fuel + 1) vd =
              some (ServiceOutcome.walk pc
                { vd with
                  unwalkedQueueHead :=
                    (vd.unwalkedQueueHead + 1) % UDATA_RANGE % queueSlots vd
                  bytecodeMap := vd.bytecodeMap.set pc (clearFlag v BRANCH_ON_UNWALKED_QUEUE)
                  liveStack := copyStack branch vd.liveStack }) ∧
            clearFlag v BRANCH_ON_UNWALKED_QUEUE &&& BRANCH_ON_UNWALKED_QUEUE = 0)) ∧
    (vd.unwalkedQueueHead = vd.unwalkedQueueTail →
      vd.rewalkQueueHead ≠ vd.rewalkQueueTail →
      ∀ pc v, vd.rewalkQueue[vd.rewalkQueueHead]? = some pc →
        vd.bytecodeMap[pc]? = some v →
        (v &&& BRANCH_ON_REWALK_QUEUE = 0 →
          checkFinished (fuel + 1) vd =
            checkFinished fuel
              { vd with
                rewalkQueueHead := (vd.rewalkQueueHead + 1) % UDATA_RANGE % queueSlots vd }) ∧
        (v &&& BRANCH_ON_REWALK_QUEUE ≠ 0 →
          ∀ branch,
            vd.stackMaps[clearFlag v BRANCH_ON_REWALK_QUEUE >>> BRANCH_INDEX_SHIFT]? =
              some branch →
            checkFinished (fuel + 1) vd =
              some (ServiceOutcome.walk pc
                { vd with
                  rewalkQueueHead := (vd.rewalkQueueHead + 1) % UDATA_RANGE % queueSlots vd
                  bytecodeMap := vd.bytecodeMap.set pc (clearFlag v BRANCH_ON_REWALK_QUEUE)
                  liveStack := copyStack branch vd.liveStack }) ∧
            clearFlag v BRANCH_ON_REWALK_QUEUE &&& BRANCH_ON_REWALK_QUEUE = 0)) ∧
    (vd.unwalkedQueueHead = vd.unwalkedQueueTail →
      vd.rewalkQueueHead = vd.rewalkQueueTail →
      checkFinished (fuel + 1) vd = some (ServiceOutcome.finished vd)) := by
  refine ⟨?_, ?_, ?_⟩
  · intro hne pc v hpc hv
    have hdq : dequeue vd.unwalkedQueue vd.unwalkedQueueHead (queueSlots vd) =
        some (pc, (vd.unwalkedQueueHead + 1) % UDATA_RANGE % queueSlots vd) := by
      unfold dequeue
      rw [hpc]
      simp only [if_pos hslots]
    constructor
    · intro hflag
      rw [checkFinished, if_pos hne, hdq]
      simp only [hv, if_pos hflag]
    · intro hflag branch hbranch
      refine ⟨?_, clearFlag_unwalked v⟩
      rw [checkFinished, if_pos hne, hdq]
      simp only [hv, if_neg hflag, hbranch]
  · intro heq hne pc v hpc hv
    have hdq : dequeue vd.rewalkQueue vd.rewalkQueueHead (queueSlots vd) =
        some (pc, (vd.rewalkQueueHead + 1) % UDATA_RANGE % queueSlots vd) := by
      unfold dequeue
      rw [hpc]
      simp only [if_pos hslots]
    constructor
    · intro hflag
      rw [checkFinished, if_neg (by simpa using heq), if_pos hne, hdq]
      simp only [hv, if_pos hflag]
    · intro hflag branch hbranch
      refine ⟨?_, clearFlag_rewalk v⟩
      rw [checkFinished, if_neg (by simpa using heq), if_pos hne, hdq]
      simp only [hv, if_neg hflag, hbranch]
  · intro h1 h2
    rw [checkFinished, if_neg (by simpa using h1), if_neg (by simpa using h2)]

theorem queue_servicing_order_witness :
    checkFinished 1 (mergedOrSelf (mergeStacks exampleOracle mergeVerifyData 2) mergeVerifyData) =
      some (ServiceOutcome.walk 2
        { mergedOrSelf (mergeStacks exampleOracle mergeVerifyData 2) mergeVerifyData with
          unwalkedQueueHead := 1
          bytecodeMap := [0x01, 0, 0x11, 0]
          liveStack := copyStack (copyStack mergeVerifyData.liveStack (exampleFrame 2 (-1) (-1) []))
            mergeVerifyData.liveStack }) :=
  ((queue_servicing_order 0
    (mergedOrSelf (mergeStacks exampleOracle mergeVerifyData 2) mergeVerifyData)
    (by decide)).1 (by decide) 2 0x15 rfl rfl).2 (by decide) _ rfl |>.1

/-! ## The arena: tag bits -/

theorem even_or_tag (h : Nat) (tag : Bool) (heven : h % 2 = 0) :
    h ||| tagBit tag = h + tagBit tag := by
  cases tag
  · simp [tagBit]
  · have h2 : h = 2 ^ 1 * (h / 2) := by omega
    have h3 := @Nat.mul_add_lt_is_or 1 1 (by decide) (h / 2)
    simp only [tagBit, if_true]
    rw [h2, ← h3]

theorem tagged_low_bit (h : Nat) (tag : Bool) (heven : h % 2 = 0) :
    (h ||| tagBit tag) &&& 1 = tagBit tag := by
  rw [even_or_tag h tag heven, Nat.and_one_is_mod]
  cases tag
  · simp only [tagBit, Bool.false_eq_true, if_false]
    omega
  · simp only [tagBit, if_true]
    omega

theorem testBit_udata_mask (i : Nat) :
    (UDATA_RANGE - 2).testBit i = (decide (1 ≤ i) && decide (i < 64)) := by
  have h : UDATA_RANGE - 2 = (2 ^ 63 - 1) <<< 1 := by decide
  rw [h, Nat.testBit_shiftLeft, Nat.testBit_two_pow_sub_one]
  by_cases h1 : 1 ≤ i <;> by_cases h2 : i < 64 <;> simp [h1, h2] <;> omega

theorem tagged_clear (h : Nat) (tag : Bool) (heven : h % 2 = 0) (hlt : h < UDATA_RANGE) :
    (h ||| tagBit tag) &&& (UDATA_RANGE - 2) = h := by
  apply Nat.eq_of_testBit_eq
  intro i
  rw [Nat.testBit_and, Nat.testBit_or, testBit_udata_mask]
  by_cases h1 : 1 ≤ i
  · have htag : (tagBit tag).testBit i = false := by
      apply Nat.testBit_lt_two_pow
      have : tagBit tag < 2 := by cases tag <;> simp [tagBit]
      calc tagBit tag < 2 := this
        _ = 2 ^ 1 := rfl
        _ ≤ 2 ^ i := Nat.pow_le_pow_right (by decide) h1
    by_cases h2 : i < 64
    · simp [h1, h2, htag]
    · have hh : h.testBit i = false := by
        apply Nat.testBit_lt_two_pow
        calc h < UDATA_RANGE := hlt
          _ = 2 ^ 64 := rfl
          _ ≤ 2 ^ i := Nat.pow_le_pow_right (by decide) (by omega)
      simp [h1, h2, htag, hh]
  · have hi : i = 0 := by omega
    subst hi
    have hh : h.testBit 0 = false := by
      rw [Nat.testBit_zero]
      simp [heven]
    simp [hh]

/-! ## The arena: the back-pointer chain -/

theorem sizeof_udata_eq : SIZEOF_UDATA = 8 := rfl

/-- Positions of a chain: every header lies at or above `start`, is aligned, and
its block ends at or below the position the chain is followed from. -/
theorem backChain_bounds (memory : Nat → Nat) (start : Nat) (hstart : start % SIZEOF_UDATA = 0) :
    ∀ (blocks : List ArenaBlock) (position : Nat) (tag : Bool),
      BackChain memory start position tag blocks →
      start ≤ position ∧ position % SIZEOF_UDATA = 0 ∧
        ∀ block ∈ blocks, start ≤ block.header ∧ block.header % SIZEOF_UDATA = 0 ∧
          block.header + block.size ≤ position ∧ SIZEOF_UDATA ≤ block.size := by
  intro blocks
  induction blocks with
  | nil =>
    intro position tag h
    obtain ⟨h1, _⟩ := h
    subst h1
    exact ⟨le_refl _, hstart, by simp⟩
  | cons block older ih =>
    intro position tag h
    obtain ⟨_, hpos, hsize, hmod, hrest⟩ := h
    obtain ⟨h1, h2, h3⟩ := ih block.header block.inUse hrest
    rw [sizeof_udata_eq] at *
    refine ⟨by omega, by omega, ?_⟩
    intro b hb
    rcases List.mem_cons.mp hb with heq | hmem
    · subst heq
      exact ⟨h1, h2, by omega, hsize⟩
    · obtain ⟨h4, h5, h6, h7⟩ := h3 b hmem
      exact ⟨h4, h5, by omega, h7⟩

/-- A chain only reads the memory at the position it starts from and at the headers
of its blocks. -/
theorem backChain_congr (memory other : Nat → Nat) (start : Nat) :
    ∀ (blocks : List ArenaBlock) (position : Nat) (tag : Bool),
      BackChain memory start position tag blocks →
      other position = memory position →
      (∀ block ∈ blocks, other block.header = memory block.header) →
      BackChain other start position tag blocks := by
  intro blocks
  induction blocks with
  | nil =>
    intro position tag h hpos _
    exact ⟨h.1, by rw [hpos]; exact h.2⟩
  | cons block older ih =>
    intro position tag h hpos hblocks
    obtain ⟨h1, h2, h3, h4, h5⟩ := h
    refine ⟨by rw [hpos]; exact h1, h2, h3, h4, ?_⟩
    exact ih block.header block.inUse h5 (hblocks block (List.mem_cons_self _ _))
      (fun b hb => hblocks b (List.mem_cons_of_mem _ hb))

theorem backChain_head (memory : Nat → Nat) (start position : Nat) (tag : Bool)
    (blocks : List ArenaBlock) (h : BackChain memory start position tag blocks) :
    memory position = chainTarget position blocks ||| tagBit tag := by
  cases blocks with
  | nil => exact h.2
  | cons block older => exact h.1

/-- Changing the tag of the header a chain starts from. -/
theorem backChain_retag (memory other : Nat → Nat) (start position : Nat) (tag newTag : Bool)
    (blocks : List ArenaBlock) (h : BackChain memory start position tag blocks)
    (hpos : other position = chainTarget position blocks ||| tagBit newTag)
    (hblocks : ∀ block ∈ blocks, other block.header = memory block.header) :
    BackChain other start position newTag blocks := by
  cases blocks with
  | nil => exact ⟨h.1, hpos⟩
  | cons block older =>
    obtain ⟨_, h2, h3, h4, h5⟩ := h
    exact ⟨hpos, h2, h3, h4,
      backChain_congr memory other start older block.header block.inUse h5
        (hblocks block (List.mem_cons_self _ _))
        (fun b hb => hblocks b (List.mem_cons_of_mem _ hb))⟩

theorem markFreed_of_above (header : Nat) :
    ∀ (blocks : List ArenaBlock), (∀ block ∈ blocks, block.header < header) →
      markFreed header blocks = blocks := by
  intro blocks h
  unfold markFreed
  conv_rhs => rw [← List.map_id blocks]
  apply List.map_congr_left
  intro b hb
  rw [if_neg (by have := h b hb; omega)]
  rfl

theorem chainTarget_bounds (memory : Nat → Nat) (start : Nat)
    (hstart : start % SIZEOF_UDATA = 0) (blocks : List ArenaBlock) (position : Nat) (tag : Bool)
    (h : BackChain memory start position tag blocks) :
    chainTarget position blocks ≤ position ∧ chainTarget position blocks % 2 = 0 ∧
      start ≤ chainTarget position blocks := by
  obtain ⟨h1, h2, h3⟩ := backChain_bounds memory start hstart blocks position tag h
  rw [sizeof_udata_eq] at *
  cases blocks with
  | nil => exact ⟨le_refl _, by simp only [chainTarget]; omega, h1⟩
  | cons block older =>
    obtain ⟨h4, h5, h6, _⟩ := h3 block (List.mem_cons_self _ _)
    simp only [chainTarget]
    exact ⟨by omega, by omega, h4⟩

/-- Clearing the tag in the header of a block marks that block of the chain as
freed. -/
theorem backChain_markFreed (memory : Nat → Nat) (start : Nat)
    (hstart : start % SIZEOF_UDATA = 0) (header : Nat) :
    ∀ (blocks : List ArenaBlock) (position : Nat) (tag : Bool),
      BackChain memory start position tag blocks → header ≠ position →
      position < UDATA_RANGE →
      BackChain (Function.update memory header (memory header &&& (UDATA_RANGE - 2))) start
        position tag (markFreed header blocks) := by
  intro blocks
  induction blocks with
  | nil =>
    intro position tag h hne _
    refine ⟨h.1, ?_⟩
    rw [Function.update_noteq (Ne.symm hne)]
    exact h.2
  | cons block older ih =>
    intro position tag h hne hlt
    have hbounds := backChain_bounds memory start hstart (block :: older) position tag h
    obtain ⟨h1, h2, h3, h4, h5⟩ := h
    have holder := backChain_bounds memory start hstart older block.header block.inUse h5
    have hsz : SIZEOF_UDATA = 8 := rfl
    by_cases hb : block.header = header
    · have hkeep : markFreed header older = older := by
        apply markFreed_of_above
        intro b hbm
        have := (holder.2.2 b hbm).2.2
        omega
      have hmark : markFreed header (block :: older) =
          { block with inUse := false } :: older := by
        simp only [markFreed, List.map_cons, if_pos hb] at hkeep ⊢
        rw [hkeep]
      rw [hmark]
      refine ⟨?_, h2, h3, h4, ?_⟩
      · rw [Function.update_noteq (Ne.symm hne)]
        exact h1
      · have htarget := chainTarget_bounds memory start hstart older block.header block.inUse h5
        apply backChain_retag memory _ start block.header block.inUse false older h5
        · rw [hb, Function.update_same, ← hb, backChain_head memory start block.header
            block.inUse older h5, tagged_clear _ _ htarget.2.1 (by omega)]
          simp [tagBit]
        · intro b hbm
          have := (holder.2.2 b hbm).2.2
          rw [Function.update_noteq (by omega)]
    · have hmark : markFreed header (block :: older) = block :: markFreed header older := by
        simp only [markFreed, List.map_cons, if_neg hb]
      rw [hmark]
      refine ⟨?_, h2, h3, h4, ih block.header block.inUse h5 (Ne.symm hb) (by omega)⟩
      rw [Function.update_noteq (Ne.symm hne)]
      exact h1

/-! ## The arena: the loop of bcvfree -/

theorem dropFreed_cons_freed (block : ArenaBlock) (older : List ArenaBlock)
    (h : block.inUse = false) : dropFreed (block :: older) = dropFreed older := by
  simp only [dropFreed, List.dropWhile_cons, h, Bool.not_false, if_true]

theorem dropFreed_cons_inUse (block : ArenaBlock) (older : List ArenaBlock)
    (h : block.inUse = true) : dropFreed (block :: older) = block :: older := by
  simp only [dropFreed, List.dropWhile_cons, h, Bool.not_true, Bool.false_eq_true, if_false]

/-- The loop of `bcvfree` entered at a freed newest block: it passes that block and
the freed blocks that follow it, and stops below the newest block still in use, or
releases the chunk when there is none. -/
theorem releaseBlocks_spec (a : ArenaData) (hstart : a.internalBufferStart % SIZEOF_UDATA = 0) :
    ∀ (older : List ArenaBlock) (block : ArenaBlock) (position fuel : Nat),
      BackChain a.memory a.internalBufferStart position false (block :: older) →
      block.inUse = false → older.length < fuel → position < UDATA_RANGE →
      (dropFreed older = [] ∧
        releaseBlocks fuel a block.header position =
          some { j9mem_free_memory a a.internalBufferStart with
            internalBufferStart := 0, internalBufferEnd := 0 }) ∨
      ∃ kept rest, dropFreed older = kept :: rest ∧ kept.inUse = true ∧
        releaseBlocks fuel a block.header position =
          some { a with currentAlloc := kept.header + kept.size } ∧
        BackChain a.memory a.internalBufferStart (kept.header + kept.size) false
          (kept :: rest) ∧
        kept.header + kept.size ≤ block.header := by
  intro older
  induction older with
  | nil =>
    intro block position fuel h hfree hfuel hlt
    obtain ⟨h1, h2, h3, h4, h5, h6⟩ := h
    left
    refine ⟨rfl, ?_⟩
    obtain ⟨fuel, rfl⟩ : ∃ f, fuel = f + 1 := ⟨fuel - 1, by simp at hfuel; omega⟩
    have hpos : a.memory position = block.header := by
      rw [h1]; simp [tagBit]
    have hself : a.memory block.header = block.header := by
      rw [h6, hfree]; simp [tagBit]
    have heven : block.header % 2 = 0 := by
      have hs := hstart
      rw [sizeof_udata_eq] at hs
      rw [h5]
      omega
    unfold releaseBlocks
    rw [hpos, if_pos rfl]
    simp only [hself]
    rw [if_neg (by rw [Nat.and_one_is_mod]; omega)]
    simp only [if_true]
  | cons y rest ih =>
    intro block position fuel h hfree hfuel hlt
    have hbounds := backChain_bounds a.memory a.internalBufferStart hstart _ _ _ h
    obtain ⟨h1, h2, h3, h4, h5⟩ := h
    obtain ⟨fuel, rfl⟩ : ∃ f, fuel = f + 1 := ⟨fuel - 1, by simp at hfuel; omega⟩
    have hpos : a.memory position = block.header := by
      rw [h1]; simp [tagBit]
    have hnext : a.memory block.header = y.header := by
      rw [h5.1, hfree]; simp [tagBit]
    obtain ⟨h51, h52, h53, h54, h55⟩ := h5
    have htarget := chainTarget_bounds a.memory a.internalBufferStart hstart rest y.header
      y.inUse h55
    have hy : a.memory y.header &&& 1 = tagBit y.inUse := by
      rw [backChain_head a.memory a.internalBufferStart y.header y.inUse rest h55,
        tagged_low_bit _ _ htarget.2.1]
    have h8 : SIZEOF_UDATA = 8 := rfl
    unfold releaseBlocks
    rw [hpos, if_pos rfl]
    simp only [hnext, hy]
    by_cases hused : y.inUse = true
    · right
      refine ⟨y, rest, dropFreed_cons_inUse y rest hused, hused, ?_, ?_, by omega⟩
      · rw [if_pos (by rw [hused]; decide), h52]
      · rw [h52]
        have h5' : BackChain a.memory a.internalBufferStart block.header block.inUse
            (y :: rest) := ⟨h51, h52, h53, h54, h55⟩
        rw [hfree] at h5'
        exact h5'
    · have hfreey : y.inUse = false := by simpa using hused
      rw [if_neg (by rw [hfreey]; decide), if_neg (by omega)]
      have h5' : BackChain a.memory a.internalBufferStart block.header false (y :: rest) := by
        have h0 : BackChain a.memory a.internalBufferStart block.header block.inUse
            (y :: rest) := ⟨h51, h52, h53, h54, h55⟩
        rw [hfree] at h0
        exact h0
      rcases ih y block.header fuel h5' hfreey (by simp at hfuel; omega) (by omega) with
        ⟨hd, hr⟩ | ⟨kept, rest2, hd, hk, hr, hc, hle⟩
      · left
        exact ⟨by rw [dropFreed_cons_freed y rest hfreey]; exact hd, hr⟩
      · right
        exact ⟨kept, rest2, by rw [dropFreed_cons_freed y rest hfreey]; exact hd, hk, hr, hc,
          by omega⟩

/-! ## The arena: bcvfree on a block of the chunk -/

theorem markFreed_head (block : ArenaBlock) (older : List ArenaBlock)
    (h : ∀ b ∈ older, b.header < block.header) :
    markFreed block.header (block :: older) = { block with inUse := false } :: older := by
  have hkeep := markFreed_of_above block.header older h
  simp only [markFreed, List.map_cons, if_true] at hkeep ⊢
  rw [hkeep]

theorem markFreed_tail (header : Nat) (block : ArenaBlock) (older : List ArenaBlock)
    (h : block.header ≠ header) :
    markFreed header (block :: older) = block :: markFreed header older := by
  simp only [markFreed, List.map_cons, if_neg h]

/-- `bcvfree` on the address of a block of the chunk: the tag of the block is
cleared; when the block is the newest, the loop gives back the freed blocks on top;
otherwise nothing else changes.  The chain stays consistent. -/
theorem bcvfree_block (a : ArenaData) (blocks : List ArenaBlock) (h : ArenaChain a blocks)
    (block : ArenaBlock) (hmem : block ∈ blocks) (fuel : Nat) (hfuel : blocks.length < fuel) :
    ∃ next, bcvfree fuel a (block.header + SIZEOF_UDATA) = some next ∧
      next.memory = Function.update a.memory block.header
        (a.memory block.header &&& (UDATA_RANGE - 2)) ∧
      next.hostResults = a.hostResults ∧
      ArenaConsistent next (dropFreed (markFreed block.header blocks)) ∧
      (blocks.head? = some block →
        (dropFreed (markFreed block.header blocks) = [] →
          next.internalBufferStart = 0 ∧ next.internalBufferEnd = 0 ∧
            next.hostFreed = a.internalBufferStart :: a.hostFreed) ∧
        ∀ kept rest, dropFreed (markFreed block.header blocks) = kept :: rest →
          next.currentAlloc = kept.header + kept.size ∧
            next.internalBufferStart = a.internalBufferStart ∧
            next.internalBufferEnd = a.internalBufferEnd ∧ next.hostFreed = a.hostFreed) ∧
      (blocks.head? ≠ some block →
        next.currentAlloc = a.currentAlloc ∧
          next.internalBufferStart = a.internalBufferStart ∧
          next.internalBufferEnd = a.internalBufferEnd ∧ next.hostFreed = a.hostFreed ∧
          dropFreed (markFreed block.header blocks) = markFreed block.header blocks) := by
  obtain ⟨hs0, hstart, hcur, hend, hchain, hhead⟩ := h
  have hbounds := backChain_bounds a.memory a.internalBufferStart hstart blocks _ _ hchain
  obtain ⟨hb1, hb2, hb3, hb4⟩ := hbounds.2.2 block hmem
  have hb4n : 8 ≤ block.size := hb4
  have hrange : UDATA_RANGE = 18446744073709551616 := udata_range_eq
  have hhalf : UDATA_RANGE / 2 = 9223372036854775808 := by rw [hrange]
  have hendn : a.internalBufferEnd ≤ 9223372036854775808 := by rw [← hhalf]; exact hend
  have hinside : ¬ (block.header + SIZEOF_UDATA ≥ a.internalBufferEnd ∨
      block.header + SIZEOF_UDATA < a.internalBufferStart) := by
    rw [sizeof_udata_eq]
    omega
  have htemp : (block.header + SIZEOF_UDATA + UDATA_RANGE - SIZEOF_UDATA) % UDATA_RANGE =
      block.header := by
    rw [sizeof_udata_eq, hrange]
    omega
  have hmarked := backChain_markFreed a.memory a.internalBufferStart hstart block.header blocks
    a.currentAlloc false hchain (by omega) (by rw [hrange]; omega)
  unfold bcvfree
  rw [if_neg hinside]
  simp only [htemp]
  generalize hmemory : Function.update a.memory block.header
    (a.memory block.header &&& (UDATA_RANGE - 2)) = cleared at hmarked ⊢
  cases blocks with
  | nil => cases hmem
  | cons c older =>
    have hcused : c.inUse = true := hhead c rfl
    have holder : ∀ b ∈ older, b.header < c.header := by
      intro b hb
      have hsub := backChain_bounds a.memory a.internalBufferStart hstart older c.header
        c.inUse hchain.2.2.2.2
      have h1 := (hsub.2.2 b hb).2.2.1
      have h2 : 8 ≤ b.size := (hsub.2.2 b hb).2.2.2
      omega
    by_cases hc : c.header = block.header
    · -- the newest block
      have hblock : block = c := by
        rcases List.mem_cons.mp hmem with heq | hin
        · exact heq
        · exact absurd hc (by have := holder block hin; omega)
      subst hblock
      rw [markFreed_head block older holder] at hmarked ⊢
      rw [dropFreed_cons_freed _ older rfl]
      have hspec := releaseBlocks_spec { a with memory := cleared }
        hstart older { block with inUse := false } a.currentAlloc fuel hmarked rfl
        (by simp only [List.length_cons] at hfuel; omega) (by rw [hrange]; omega)
      rcases hspec with ⟨hd, hr⟩ | ⟨kept, rest, hd, hk, hr, hkc, hle⟩
      · refine ⟨_, hr, rfl, rfl, ?_, ?_, ?_⟩
        · rw [hd]
          exact Or.inl ⟨rfl, rfl, rfl⟩
        · intro _
          refine ⟨fun _ => ⟨rfl, rfl, rfl⟩, ?_⟩
          intro kept rest hkept
          rw [hd] at hkept
          cases hkept
        · intro hne
          exact absurd rfl hne
      · refine ⟨_, hr, rfl, rfl, ?_, ?_, ?_⟩
        · rw [hd]
          refine Or.inr ⟨hs0, hstart, ?_, hend, hkc, ?_⟩
          · have hle2 : kept.header + kept.size ≤ block.header := hle
            show kept.header + kept.size < a.internalBufferEnd
            omega
          · intro b hb
            simp only [List.head?_cons, Option.mem_def, Option.some.injEq] at hb
            subst hb
            exact hk
        · intro _
          refine ⟨fun hnil => ?_, ?_⟩
          · rw [hd] at hnil
            cases hnil
          · intro kept2 rest2 hkept
            rw [hd] at hkept
            cases hkept
            exact ⟨rfl, rfl, rfl, rfl⟩
        · intro hne
          exact absurd rfl hne
    · -- an older block
      have hne : block.header ≠ a.memory a.currentAlloc := by
        rw [hchain.1]
        simp only [tagBit, Bool.false_eq_true, if_false, Nat.or_zero]
        exact Ne.symm hc
      have hcurne : a.currentAlloc ≠ block.header := by omega
      have hsame : cleared a.currentAlloc = a.memory a.currentAlloc := by
        rw [← hmemory, Function.update_noteq hcurne]
      have hrun : releaseBlocks fuel { a with memory := cleared } block.header
          a.currentAlloc = some { a with memory := cleared } := by
        obtain ⟨fuel, rfl⟩ : ∃ f, fuel = f + 1 := ⟨fuel - 1, by
          simp only [List.length_cons] at hfuel; omega⟩
        unfold releaseBlocks
        simp only [hsame]
        rw [if_neg hne]
      rw [markFreed_tail block.header c older hc] at hmarked ⊢
      rw [dropFreed_cons_inUse c _ hcused]
      refine ⟨_, hrun, rfl, rfl, ?_, ?_, ?_⟩
      · refine Or.inr ⟨hs0, hstart, hcur, hend, hmarked, ?_⟩
        intro b hb
        simp only [List.head?_cons, Option.mem_def, Option.some.injEq] at hb
        subst hb
        exact hcused
      · intro hh
        simp only [List.head?_cons, Option.some.injEq] at hh
        subst hh
        exact absurd rfl hc
      · intro _
        exact ⟨rfl, rfl, rfl, rfl, rfl⟩

/-! ## The arena: bcvalloc -/

theorem and_round_mask (x : Nat) (hx : x < UDATA_RANGE) :
    x &&& (UDATA_RANGE - 1 - (SIZEOF_UDATA - 1)) = x / 8 * 8 := by
  have hmask : UDATA_RANGE - 1 - (SIZEOF_UDATA - 1) = (2 ^ 61 - 1) <<< 3 := by decide
  have hdiv : x / 8 * 8 = (x >>> 3) <<< 3 := by
    rw [Nat.shiftLeft_eq, Nat.shiftRight_eq_div_pow]
  rw [hmask, hdiv]
  apply Nat.eq_of_testBit_eq
  intro i
  rw [Nat.testBit_and, Nat.testBit_shiftLeft, Nat.testBit_shiftLeft,
    Nat.testBit_two_pow_sub_one, Nat.testBit_shiftRight]
  by_cases h3 : i ≥ 3
  · have hi : 3 + (i - 3) = i := by omega
    rw [hi]
    by_cases h64 : i < 64
    · have h61 : i - 3 < 61 := by omega
      simp [h3, h61]
    · have hx0 : x.testBit i = false := by
        apply Nat.testBit_lt_two_pow
        calc x < UDATA_RANGE := hx
          _ = 2 ^ 64 := rfl
          _ ≤ 2 ^ i := Nat.pow_le_pow_right (by decide) (by omega)
      simp [hx0]
  · simp [h3]

/-- The size `bcvalloc` gives a block for a request below `2 ^ 63` bytes: the
request rounded up to a multiple of 8, plus 8 for the header. -/
theorem rounded_size (byteCount : Nat) (h : byteCount < UDATA_RANGE / 2) :
    ((((byteCount + (SIZEOF_UDATA - 1)) % UDATA_RANGE) &&&
        (UDATA_RANGE - 1 - (SIZEOF_UDATA - 1))) + SIZEOF_UDATA) % UDATA_RANGE =
      (byteCount + 7) / 8 * 8 + 8 := by
  have hrange : UDATA_RANGE = 18446744073709551616 := udata_range_eq
  have hhalf : UDATA_RANGE / 2 = 9223372036854775808 := by rw [hrange]
  rw [hhalf] at h
  have h1 : (byteCount + (SIZEOF_UDATA - 1)) % UDATA_RANGE = byteCount + 7 := by
    rw [sizeof_udata_eq, hrange]
    omega
  rw [h1, and_round_mask _ (by rw [hrange]; omega), sizeof_udata_eq, hrange]
  omega

/-- `bcvalloc` without a chunk, the host allocator failing. -/
theorem bcvalloc_no_chunk (a : ArenaData) (byteCount : Nat) (hstart : a.internalBufferStart = 0)
    (hhost : ∀ address ∈ a.hostResults.head?, address = 0) :
    (bcvalloc a byteCount).1 = 0 ∧ (bcvalloc a byteCount).2.internalBufferStart = 0 ∧
      (bcvalloc a byteCount).2.internalBufferEnd = a.internalBufferEnd := by
  unfold bcvalloc
  simp only [hstart, if_true]
  cases hr : a.hostResults with
  | nil => simp [j9mem_allocate_memory, hr]
  | cons p rest =>
    have hp : p = 0 := hhost p (by rw [hr]; rfl)
    subst hp
    simp [j9mem_allocate_memory, hr]

theorem bcvalloc_with_chunk (a : ArenaData) (byteCount : Nat) (hsize : byteCount < UDATA_RANGE / 2)
    (hstart : a.internalBufferStart ≠ 0) :
    bcvalloc a byteCount =
      if (a.currentAlloc + ((byteCount + 7) / 8 * 8 + 8)) % UDATA_RANGE ≥ a.internalBufferEnd then
        j9mem_allocate_memory a ((byteCount + 7) / 8 * 8 + 8)
      else carve a ((byteCount + 7) / 8 * 8 + 8) := by
  unfold bcvalloc
  simp only [rounded_size byteCount hsize, if_neg hstart]
  rfl

theorem bcvalloc_new_chunk (a : ArenaData) (byteCount : Nat) (hsize : byteCount < UDATA_RANGE / 2)
    (hstart : a.internalBufferStart = 0) (chunk : Nat) (rest : List Nat)
    (hhost : a.hostResults = chunk :: rest) (hchunk : chunk ≠ 0) :
    bcvalloc a byteCount =
      if ((withChunk a chunk rest).currentAlloc + ((byteCount + 7) / 8 * 8 + 8)) % UDATA_RANGE ≥
          (withChunk a chunk rest).internalBufferEnd then
        j9mem_allocate_memory (withChunk a chunk rest) ((byteCount + 7) / 8 * 8 + 8)
      else carve (withChunk a chunk rest) ((byteCount + 7) / 8 * 8 + 8) := by
  unfold bcvalloc
  simp only [rounded_size byteCount hsize, hstart, if_true, j9mem_allocate_memory, hhost,
    if_neg hchunk]
  rfl

/-- A request served on a state with a chunk: from the host allocator when the
block would reach the end of the chunk, from the chunk otherwise; the chain stays
consistent and a block carved from the chunk is its newest block. -/
theorem alloc_in_chunk (c : ArenaData) (blocks : List ArenaBlock) (h : ArenaChain c blocks)
    (size : Nat) (hsize8 : size % 8 = 0) (hsize : 8 ≤ size) (hsizelt : size ≤ UDATA_RANGE / 2)
    (hhost : ∀ address ∈ c.hostResults.head?,
      address < c.internalBufferStart ∨ c.internalBufferEnd ≤ address)
    (result : Nat × ArenaData)
    (hresult : result =
      if (c.currentAlloc + size) % UDATA_RANGE ≥ c.internalBufferEnd then
        j9mem_allocate_memory c size
      else carve c size) :
    ArenaChain result.2 (blocksAfterAlloc result blocks) ∧
      result.2.internalBufferStart = c.internalBufferStart ∧
      result.2.internalBufferEnd = c.internalBufferEnd ∧
      (c.currentAlloc + size < c.internalBufferEnd →
        result.1 = c.currentAlloc + 8 ∧
        blocksAfterAlloc result blocks =
          { header := c.currentAlloc, size := size, inUse := true } :: blocks) ∧
      (c.internalBufferEnd ≤ c.currentAlloc + size →
        blocksAfterAlloc result blocks = blocks ∧ result.2.currentAlloc = c.currentAlloc ∧
        result.2.memory = c.memory) := by
  obtain ⟨hs0, hstart, hcur, hend, hchain, hhead⟩ := h
  have hbounds := backChain_bounds c.memory c.internalBufferStart hstart blocks _ _ hchain
  have hrange : UDATA_RANGE = 18446744073709551616 := udata_range_eq
  have hhalf : UDATA_RANGE / 2 = 9223372036854775808 := by rw [hrange]
  have hendn : c.internalBufferEnd ≤ 9223372036854775808 := by rw [← hhalf]; exact hend
  rw [hhalf] at hsizelt
  have hmod : (c.currentAlloc + size) % UDATA_RANGE = c.currentAlloc + size := by
    rw [hrange]
    omega
  rw [hmod] at hresult
  by_cases hfit : c.currentAlloc + size ≥ c.internalBufferEnd
  · -- served by the host allocator
    rw [if_pos hfit] at hresult
    have hfacts : (result.1 = 0 ∨ result.1 < c.internalBufferStart ∨
        c.internalBufferEnd ≤ result.1) ∧ result.2.internalBufferStart = c.internalBufferStart ∧
        result.2.internalBufferEnd = c.internalBufferEnd ∧
        result.2.currentAlloc = c.currentAlloc ∧ result.2.memory = c.memory := by
      rw [hresult]
      unfold j9mem_allocate_memory
      cases hr : c.hostResults with
      | nil => exact ⟨Or.inl rfl, rfl, rfl, rfl, rfl⟩
      | cons q rest =>
        have hq := hhost q (by rw [hr]; rfl)
        exact ⟨Or.inr hq, rfl, rfl, rfl, rfl⟩
    obtain ⟨hout, hrs, hre, hrc, hrm⟩ := hfacts
    have hblocks : blocksAfterAlloc result blocks = blocks := by
      unfold blocksAfterAlloc
      rw [if_neg]
      rw [hrs, hre]
      omega
    rw [hblocks]
    refine ⟨⟨by rw [hrs]; exact hs0, by rw [hrs]; exact hstart, by rw [hrc, hre]; exact hcur,
      by rw [hre]; exact hend, by rw [hrm, hrs, hrc]; exact hchain, hhead⟩, hrs, hre, ?_, ?_⟩
    · intro hlt
      omega
    · intro _
      exact ⟨rfl, hrc, hrm⟩
  · -- carved from the chunk
    rw [if_neg hfit] at hresult
    have hlt : c.currentAlloc + size < c.internalBufferEnd := by omega
    have h1 : result.1 = c.currentAlloc + 8 := by
      rw [hresult]
      simp only [carve, sizeof_udata_eq]
      rw [hrange]
      omega
    have h2 : result.2.currentAlloc = c.currentAlloc + size := by
      rw [hresult]
      simp only [carve]
      exact hmod
    have h3 : result.2.internalBufferStart = c.internalBufferStart := by rw [hresult]; rfl
    have h4 : result.2.internalBufferEnd = c.internalBufferEnd := by rw [hresult]; rfl
    have h5 : result.2.memory = Function.update
        (Function.update c.memory c.currentAlloc (c.memory c.currentAlloc ||| 1))
        (c.currentAlloc + size) c.currentAlloc := by
      rw [hresult]
      simp only [carve]
      rw [hmod]
    have hblocks : blocksAfterAlloc result blocks =
        { header := c.currentAlloc, size := size, inUse := true } :: blocks := by
      unfold blocksAfterAlloc
      rw [if_pos (by rw [h1, h3, h4]; omega), h1, h2, sizeof_udata_eq]
      have e1 : c.currentAlloc + 8 - 8 = c.currentAlloc := by omega
      have e2 : c.currentAlloc + size - c.currentAlloc = size := by omega
      rw [e1, e2]
    rw [hblocks]
    refine ⟨⟨by rw [h3]; exact hs0, by rw [h3]; exact hstart, by rw [h2, h4]; exact hlt,
      by rw [h4]; exact hend, ?_, ?_⟩, h3, h4, fun _ => ⟨h1, rfl⟩, fun hle => by omega⟩
    · rw [h5, h3, h2]
      refine ⟨?_, rfl, hsize, by rw [sizeof_udata_eq]; exact hsize8, ?_⟩
      · rw [Function.update_same]
        simp [tagBit]
      · apply backChain_retag c.memory _ c.internalBufferStart c.currentAlloc false true blocks
          hchain
        · rw [Function.update_noteq (by omega), Function.update_same,
            backChain_head c.memory c.internalBufferStart c.currentAlloc false blocks hchain]
          simp [tagBit]
        · intro b hb
          obtain ⟨_, _, hb3, hb4⟩ := hbounds.2.2 b hb
          have hb4n : 8 ≤ b.size := hb4
          rw [Function.update_noteq (by omega), Function.update_noteq (by omega)]
    · intro b hb
      simp only [List.head?_cons, Option.mem_def, Option.some.injEq] at hb
      subst hb
      rfl

/-- A chunk just obtained from the host allocator is a consistent chain without
blocks. -/
theorem withChunk_chain (a : ArenaData) (chunk : Nat) (rest : List Nat) (hchunk : chunk ≠ 0)
    (haligned : chunk % SIZEOF_UDATA = 0)
    (hfits : chunk + BCV_INTERNAL_DEFAULT_SIZE ≤ UDATA_RANGE / 2) :
    ArenaChain (withChunk a chunk rest) [] ∧
      (withChunk a chunk rest).internalBufferEnd = chunk + BCV_INTERNAL_DEFAULT_SIZE := by
  have hrange : UDATA_RANGE = 18446744073709551616 := udata_range_eq
  have hhalf : UDATA_RANGE / 2 = 9223372036854775808 := by rw [hrange]
  have hsz : BCV_INTERNAL_DEFAULT_SIZE = 32768 := by decide
  rw [hhalf, hsz] at hfits
  have hend : (withChunk a chunk rest).internalBufferEnd = chunk + BCV_INTERNAL_DEFAULT_SIZE := by
    simp only [withChunk, hsz]
    rw [hrange]
    omega
  refine ⟨⟨hchunk, haligned, ?_, ?_, ?_, ?_⟩, hend⟩
  · rw [hend, hsz]
    show chunk < chunk + 32768
    omega
  · rw [hend, hhalf, hsz]
    exact hfits
  · refine ⟨rfl, ?_⟩
    show Function.update a.memory chunk chunk chunk = chunk ||| tagBit false
    rw [Function.update_same]
    simp [tagBit]
  · intro b hb
    cases hb

/-- `bcvalloc` for a request below `2 ^ 62` bytes keeps the arena consistent. -/
theorem bcvalloc_consistent (a : ArenaData) (blocks : List ArenaBlock)
    (h : ArenaConsistent a blocks) (byteCount : Nat) (hsize4 : byteCount < UDATA_RANGE / 4)
    (hhost : HostSane a) :
    ArenaConsistent (bcvalloc a byteCount).2 (blocksAfterAlloc (bcvalloc a byteCount) blocks) := by
  have hrange : UDATA_RANGE = 18446744073709551616 := udata_range_eq
  have hhalf : UDATA_RANGE / 2 = 9223372036854775808 := by rw [hrange]
  have hs8 : ((byteCount + 7) / 8 * 8 + 8) % 8 = 0 := by omega
  have hs : 8 ≤ (byteCount + 7) / 8 * 8 + 8 := by omega
  have hquarter : UDATA_RANGE / 4 = 4611686018427387904 := by rw [hrange]
  have hsize : byteCount < UDATA_RANGE / 2 := by
    rw [hhalf]
    rw [hquarter] at hsize4
    omega
  have hslt : (byteCount + 7) / 8 * 8 + 8 ≤ UDATA_RANGE / 2 := by
    rw [hquarter] at hsize4
    rw [hhalf]
    omega
  rcases h with ⟨hstart, hend, hnil⟩ | hchain
  · subst hnil
    unfold HostSane at hhost
    rw [if_pos hstart] at hhost
    cases hr : a.hostResults with
    | nil =>
      obtain ⟨h1, h2, h3⟩ := bcvalloc_no_chunk a byteCount hstart (by rw [hr]; intro x hx; cases hx)
      have hb : blocksAfterAlloc (bcvalloc a byteCount) [] = [] := by
        unfold blocksAfterAlloc
        rw [if_neg (by rw [h1]; simp)]
      rw [hb]
      exact Or.inl ⟨h2, by rw [h3]; exact hend, rfl⟩
    | cons chunk rest =>
      rw [hr] at hhost
      by_cases hchunk : chunk = 0
      · obtain ⟨h1, h2, h3⟩ := bcvalloc_no_chunk a byteCount hstart (by
          rw [hr]; intro x hx
          simp only [List.head?_cons, Option.mem_def, Option.some.injEq] at hx
          rw [← hx]; exact hchunk)
        have hb : blocksAfterAlloc (bcvalloc a byteCount) [] = [] := by
          unfold blocksAfterAlloc
          rw [if_neg (by rw [h1]; simp)]
        rw [hb]
        exact Or.inl ⟨h2, by rw [h3]; exact hend, rfl⟩
      · obtain ⟨hal, hfits, hout⟩ := hhost
        obtain ⟨hwc, hwe⟩ := withChunk_chain a chunk rest hchunk hal hfits
        have hres := bcvalloc_new_chunk a byteCount hsize hstart chunk rest hr hchunk
        exact Or.inr (alloc_in_chunk (withChunk a chunk rest) [] hwc _ hs8 hs hslt
          (by rw [hwe]; exact hout) _ hres).1
  · have hs0 := hchain.1
    unfold HostSane at hhost
    rw [if_neg hs0] at hhost
    have hres := bcvalloc_with_chunk a byteCount hsize hs0
    exact Or.inr (alloc_in_chunk a blocks hchain _ hs8 hs hslt hhost _ hres).1

/-- `bcvfree` on an address outside the chunk hands it to the host allocator and
leaves the arena alone. -/
theorem bcvfree_outside (fuel : Nat) (a : ArenaData) (address : Nat)
    (h : address ≥ a.internalBufferEnd ∨ address < a.internalBufferStart) :
    bcvfree fuel a address = some { a with hostFreed := address :: a.hostFreed } := by
  unfold bcvfree
  rw [if_pos h]
  rfl

theorem releaseBlocks_mono (a : ArenaData) (next : ArenaData) :
    ∀ (fuel extra temp1 temp2 : Nat), releaseBlocks fuel a temp1 temp2 = some next →
      releaseBlocks (fuel + extra) a temp1 temp2 = some next := by
  intro fuel
  induction fuel with
  | zero =>
    intro extra temp1 temp2 h
    cases h
  | succ fuel ih =>
    intro extra temp1 temp2 h
    have hadd : fuel + 1 + extra = (fuel + extra) + 1 := by omega
    rw [hadd]
    unfold releaseBlocks at h ⊢
    by_cases h1 : temp1 = a.memory temp2
    · rw [if_pos h1] at h ⊢
      dsimp only at h ⊢
      by_cases h2 : a.memory (a.memory (a.memory temp2)) &&& 1 ≠ 0
      · rw [if_pos h2] at h ⊢
        exact h
      · rw [if_neg h2] at h ⊢
        by_cases h3 : a.memory (a.memory temp2) = a.memory temp2
        · rw [if_pos h3] at h ⊢
          exact h
        · rw [if_neg h3] at h ⊢
          exact ih extra _ _ h
    · rw [if_neg h1] at h ⊢
      exact h

theorem bcvfree_mono (a next : ArenaData) (fuel extra address : Nat)
    (h : bcvfree fuel a address = some next) : bcvfree (fuel + extra) a address = some next := by
  unfold bcvfree at h ⊢
  split_ifs at h ⊢ with h1
  · exact h
  · exact releaseBlocks_mono _ next fuel extra _ _ h

/-- Every state the arena reaches is consistent with the list of its blocks. -/
theorem arenaReaches_consistent (a : ArenaData) (blocks : List ArenaBlock)
    (h : ArenaReaches a blocks) : ArenaConsistent a blocks := by
  induction h with
  | fresh a hstart hend => exact Or.inl ⟨hstart, hend, rfl⟩
  | alloc a blocks byteCount _ hsize hhost ih => exact bcvalloc_consistent a blocks ih _ hsize hhost
  | freeBlock a blocks block fuel next _ hmem hused hfree ih =>
    rcases ih with ⟨_, _, hnil⟩ | hchain
    · subst hnil
      cases hmem
    · obtain ⟨next2, hrun, _, _, hcons, _⟩ :=
        bcvfree_block a blocks hchain block hmem (fuel + (blocks.length + 1)) (by omega)
      rw [bcvfree_mono a next fuel (blocks.length + 1) _ hfree] at hrun
      cases hrun
      exact hcons
  | freeOutside a blocks fuel address next _ hout hfree ih =>
    rw [bcvfree_outside fuel a address hout] at hfree
    cases hfree
    rcases ih with ⟨h1, h2, h3⟩ | ⟨h1, h2, h3, h4, h5, h6⟩
    · exact Or.inl ⟨h1, h2, h3⟩
    · exact Or.inr ⟨h1, h2, h3, h4, h5, h6⟩

/-! ## The arena: what a consistent chain says -/

theorem backChain_followPrev (memory : Nat → Nat) (start : Nat)
    (hstart : start % SIZEOF_UDATA = 0) :
    ∀ (blocks : List ArenaBlock) (position : Nat) (tag : Bool),
      BackChain memory start position tag blocks → position < UDATA_RANGE →
      followPrev memory blocks.length position = blocks.map (fun block => block.header) := by
  intro blocks
  induction blocks with
  | nil =>
    intro position tag _ _
    rfl
  | cons block older ih =>
    intro position tag h hlt
    have hbounds := backChain_bounds memory start hstart _ _ _ h
    obtain ⟨_, _, hb3, hb4⟩ := hbounds.2.2 block (List.mem_cons_self _ _)
    have hb2 : block.header % 8 = 0 := (hbounds.2.2 block (List.mem_cons_self _ _)).2.1
    have hclear : memory position &&& (UDATA_RANGE - 2) = block.header := by
      rw [h.1, tagged_clear _ _ (by omega) (by omega)]
    simp only [List.length_cons, followPrev, List.map_cons, hclear]
    rw [ih block.header block.inUse h.2.2.2.2 (by omega)]

theorem backChain_oldest (memory : Nat → Nat) (start : Nat) (hstart : start % SIZEOF_UDATA = 0)
    (hlt : start < UDATA_RANGE) :
    ∀ (blocks : List ArenaBlock) (position : Nat) (tag : Bool),
      BackChain memory start position tag blocks →
      (blocks.map fun block => block.header).getLastD position = start ∧
        memory start &&& (UDATA_RANGE - 2) = start := by
  intro blocks
  induction blocks with
  | nil =>
    intro position tag h
    obtain ⟨h1, h2⟩ := h
    subst h1
    have h8 : position % 8 = 0 := hstart
    exact ⟨rfl, by rw [h2, tagged_clear _ _ (by omega) hlt]⟩
  | cons block older ih =>
    intro position tag h
    have := ih block.header block.inUse h.2.2.2.2
    simp only [List.map_cons, List.getLastD_cons]
    exact this

theorem backChain_tags (memory : Nat → Nat) (start : Nat) (hstart : start % SIZEOF_UDATA = 0) :
    ∀ (blocks : List ArenaBlock) (position : Nat) (tag : Bool),
      BackChain memory start position tag blocks →
      ∀ block ∈ blocks, memory block.header &&& 1 = tagBit block.inUse := by
  intro blocks
  induction blocks with
  | nil =>
    intro position tag _ b hb
    cases hb
  | cons block older ih =>
    intro position tag h b hb
    rcases List.mem_cons.mp hb with heq | hmem
    · subst heq
      have htarget := chainTarget_bounds memory start hstart older b.header b.inUse h.2.2.2.2
      rw [backChain_head memory start b.header b.inUse older h.2.2.2.2,
        tagged_low_bit _ _ htarget.2.1]
    · exact ih block.header block.inUse h.2.2.2.2 b hmem

theorem backChain_pairwise (memory : Nat → Nat) (start : Nat)
    (hstart : start % SIZEOF_UDATA = 0) :
    ∀ (blocks : List ArenaBlock) (position : Nat) (tag : Bool),
      BackChain memory start position tag blocks →
      List.Pairwise (fun newer older : ArenaBlock => older.header + older.size ≤ newer.header)
        blocks := by
  intro blocks
  induction blocks with
  | nil =>
    intro position tag _
    exact List.Pairwise.nil
  | cons block older ih =>
    intro position tag h
    have hsub := backChain_bounds memory start hstart older block.header block.inUse h.2.2.2.2
    exact List.Pairwise.cons (fun b hb => (hsub.2.2 b hb).2.2.1)
      (ih block.header block.inUse h.2.2.2.2)

theorem dropFreed_all_freed :
    ∀ (blocks : List ArenaBlock), (∀ block ∈ blocks, block.inUse = false) →
      dropFreed blocks = [] := by
  intro blocks
  induction blocks with
  | nil =>
    intro _
    rfl
  | cons block older ih =>
    intro h
    rw [dropFreed_cons_freed block older (h block (List.mem_cons_self _ _))]
    exact ih (fun b hb => h b (List.mem_cons_of_mem _ hb))

/-! ## bcvfree -/

theorem cleared_low_bit (x : Nat) : (x &&& (UDATA_RANGE - 2)) &&& 1 = 0 := by
  rw [Nat.and_assoc]
  have h : (UDATA_RANGE - 2) &&& 1 = 0 := by decide
  rw [h, Nat.and_zero]

/-- C29, amended: for `bcvfree` of the address of a block of the arena chunk, the
chain of the chunk being consistent: the in-use tag of the block is cleared and no
other header changes; when the block is the most recently allocated one,
`currentAlloc` is rewound to the header that follows the newest block still in use
(the header of the oldest of the freed blocks it passes, which are the block itself
and every freed block directly below it), and when no block remains in use the
chunk is handed to `j9mem_free_memory` and `internalBufferStart` and
`internalBufferEnd` become 0; when the block is not the most recent one,
`currentAlloc` and the chunk are as before.  An address outside the range of the
chunk is handed to `j9mem_free_memory` and nothing else changes. -/
theorem bcvfree_rewinds_past_freed_blocks (a : ArenaData) (blocks : List ArenaBlock)
    (h : ArenaChain a blocks) (fuel : Nat) (hfuel : blocks.length < fuel) :
    (∀ block ∈ blocks,
      ∃ next, bcvfree fuel a (block.header + SIZEOF_UDATA) = some next ∧
        a.internalBufferStart ≤ block.header + SIZEOF_UDATA ∧
        block.header + SIZEOF_UDATA < a.internalBufferEnd ∧
        next.memory block.header &&& 1 = 0 ∧
        (∀ other ∈ blocks, other.header ≠ block.header →
          next.memory other.header = a.memory other.header) ∧
        (∀ older, blocks = block :: older →
          (∀ kept rest, dropFreed older = kept :: rest →
            kept.inUse = true ∧ next.currentAlloc = kept.header + kept.size ∧
              next.internalBufferStart = a.internalBufferStart ∧
              next.internalBufferEnd = a.internalBufferEnd ∧ next.hostFreed = a.hostFreed) ∧
          (dropFreed older = [] →
            next.internalBufferStart = 0 ∧ next.internalBufferEnd = 0 ∧
              next.hostFreed = a.internalBufferStart :: a.hostFreed)) ∧
        (blocks.head? ≠ some block →
          next.currentAlloc = a.currentAlloc ∧
            next.internalBufferStart = a.internalBufferStart ∧
            next.internalBufferEnd = a.internalBufferEnd ∧ next.hostFreed = a.hostFreed)) ∧
    ∀ address, address ≥ a.internalBufferEnd ∨ address < a.internalBufferStart →
      bcvfree fuel a address = some { a with hostFreed := address :: a.hostFreed } := by
  refine ⟨?_, fun address hout => bcvfree_outside fuel a address hout⟩
  intro block hmem
  obtain ⟨next, hrun, hmemory, _, hcons, hnewest, holder⟩ :=
    bcvfree_block a blocks h block hmem fuel hfuel
  obtain ⟨hs0, hstart, hcur, hend, hchain, hhead⟩ := h
  have hbounds := backChain_bounds a.memory a.internalBufferStart hstart blocks _ _ hchain
  obtain ⟨hb1, _, hb3, hb4⟩ := hbounds.2.2 block hmem
  have hb4n : 8 ≤ block.size := hb4
  refine ⟨next, hrun, by omega, by rw [sizeof_udata_eq]; omega, ?_, ?_, ?_, ?_⟩
  · rw [hmemory, Function.update_same]
    exact cleared_low_bit _
  · intro other _ hne
    rw [hmemory, Function.update_noteq hne]
  · intro older hblocks
    subst hblocks
    have hholder : ∀ b ∈ older, b.header < block.header := by
      intro b hb
      have hsub := backChain_bounds a.memory a.internalBufferStart hstart older block.header
        block.inUse hchain.2.2.2.2
      have h1 := (hsub.2.2 b hb).2.2.1
      have h2 : 8 ≤ b.size := (hsub.2.2 b hb).2.2.2
      omega
    have hdrop : dropFreed (markFreed block.header (block :: older)) = dropFreed older := by
      rw [markFreed_head block older hholder, dropFreed_cons_freed _ older rfl]
    obtain ⟨hnil, hkept⟩ := hnewest rfl
    rw [hdrop] at hnil hkept hcons
    refine ⟨?_, hnil⟩
    intro kept rest hd
    obtain ⟨h1, h2, h3, h4⟩ := hkept kept rest hd
    refine ⟨?_, h1, h2, h3, h4⟩
    rw [hd] at hcons
    rcases hcons with ⟨_, _, hcontra⟩ | hchain2
    · cases hcontra
    · exact hchain2.2.2.2.2.2 kept rfl
  · intro hne
    obtain ⟨h1, h2, h3, h4, _⟩ := holder hne
    exact ⟨h1, h2, h3, h4⟩

theorem twoBlocks_chain : ArenaChain twoBlocks twoBlocksList := by
  refine ⟨by decide, by decide, by decide, by decide, ?_, ?_⟩
  · exact ⟨by decide, by decide, by decide, by decide, by decide, by decide, by decide,
      by decide, by decide, by decide⟩
  · intro b hb
    simp only [twoBlocksList, List.head?_cons, Option.mem_def, Option.some.injEq] at hb
    subst hb
    rfl

theorem bcvfree_rewinds_past_freed_blocks_witness :
    ∃ next, bcvfree 3 twoBlocks (4112 + SIZEOF_UDATA) = some next ∧
      next.memory 4112 &&& 1 = 0 ∧ next.currentAlloc = 4096 + 16 ∧
      next.internalBufferStart = twoBlocks.internalBufferStart :=
  ((bcvfree_rewinds_past_freed_blocks twoBlocks twoBlocksList twoBlocks_chain 3
    (by decide)).1 { header := 4112, size := 16, inUse := true } (by decide)).elim
    fun next hnext =>
      ⟨next, hnext.1, hnext.2.2.2.1,
        ((hnext.2.2.2.2.2.1 _ rfl).1 { header := 4096, size := 16, inUse := true } [] rfl).2.1,
        ((hnext.2.2.2.2.2.1 _ rfl).1 { header := 4096, size := 16, inUse := true } [] rfl).2.2.1⟩

/-- C29 as stated fails: in `twoBlocks` the block with its header at 4112 is the
most recently allocated one and the block with its header at 4096 is in use;
`bcvfree` of the newer block leaves `currentAlloc` at 4112, the header of the block
just freed, and not at 4096, the header of the newest block still in use. -/
theorem bcvfree_counterexample :
    twoBlocks.memory twoBlocks.currentAlloc = 4112 ∧
      (bcvfree 3 twoBlocks (4112 + SIZEOF_UDATA)).map
          (fun next => (next.currentAlloc, next.memory 4096 &&& 1, next.memory 4112 &&& 1)) =
        some (4112, 1, 0) ∧
      (4112 : Nat) ≠ 4096 := by
  decide

/-! ## The chain of the arena after any sequence of calls -/

/-- C30, amended: after any sequence of calls of `bcvalloc` for fewer than `2 ^ 62`
bytes and of `bcvfree` on distinct blocks in use or on addresses outside the chunk
(the host allocator returning chunks aligned to 8 bytes in the lower half of the
address space and no block inside the chunk), the arena has no chunk and no block,
or the back-pointer chain of its chunk is consistent: following the back pointers,
the tag bit ignored, from `currentAlloc` visits the headers of all blocks of the
chunk in reverse allocation order and ends at the header at `internalBufferStart`,
which points to itself; the block directly below `currentAlloc` is in use; the low
bit of each header is set exactly when its block is in use; the blocks do not
overlap and lie between `internalBufferStart` and `currentAlloc`.  Once every block
of the chunk has been freed the chunk holds no block, and the call of `bcvfree`
that frees the last block in use releases the chunk. -/
theorem arena_chain_consistent (a : ArenaData) (blocks : List ArenaBlock)
    (h : ArenaReaches a blocks) :
    ArenaConsistent a blocks ∧
    (a.internalBufferStart = 0 → a.internalBufferEnd = 0 ∧ blocks = []) ∧
    (a.internalBufferStart ≠ 0 →
      followPrev a.memory blocks.length a.currentAlloc =
        blocks.map (fun block => block.header) ∧
      (blocks.map fun block => block.header).getLastD a.currentAlloc =
        a.internalBufferStart ∧
      a.memory a.internalBufferStart &&& (UDATA_RANGE - 2) = a.internalBufferStart ∧
      (∀ block ∈ blocks.head?,
        block.inUse = true ∧ block.header + block.size = a.currentAlloc) ∧
      (∀ block ∈ blocks, a.memory block.header &&& 1 = tagBit block.inUse) ∧
      List.Pairwise (fun newer older : ArenaBlock => older.header + older.size ≤ newer.header)
        blocks ∧
      (∀ block ∈ blocks, a.internalBufferStart ≤ block.header ∧ SIZEOF_UDATA ≤ block.size ∧
        block.header + block.size ≤ a.currentAlloc) ∧
      a.currentAlloc < a.internalBufferEnd) ∧
    ((∀ block ∈ blocks, block.inUse = false) → blocks = []) ∧
    ∀ block ∈ blocks, block.inUse = true →
      (∀ other ∈ blocks, other ≠ block → other.inUse = false) →
      ∀ fuel next, bcvfree fuel a (block.header + SIZEOF_UDATA) = some next →
        next.internalBufferStart = 0 ∧ next.internalBufferEnd = 0 ∧
          next.hostFreed = a.internalBufferStart :: a.hostFreed := by
  have hcons := arenaReaches_consistent a blocks h
  have hrange : UDATA_RANGE = 18446744073709551616 := udata_range_eq
  have hhalf : UDATA_RANGE / 2 = 9223372036854775808 := by rw [hrange]
  refine ⟨hcons, ?_, ?_, ?_, ?_⟩
  · intro hstart
    rcases hcons with ⟨_, h2, h3⟩ | hchain
    · exact ⟨h2, h3⟩
    · exact absurd hstart hchain.1
  · intro hstart
    rcases hcons with ⟨h1, _, _⟩ | ⟨hs0, hal, hcur, hend, hchain, hhead⟩
    · exact absurd h1 hstart
    · rw [hhalf] at hend
      have hbounds := backChain_bounds a.memory a.internalBufferStart hal blocks _ _ hchain
      refine ⟨backChain_followPrev a.memory a.internalBufferStart hal blocks _ _ hchain
          (by rw [hrange]; omega),
        (backChain_oldest a.memory a.internalBufferStart hal (by rw [hrange]; omega) blocks _ _
          hchain).1,
        (backChain_oldest a.memory a.internalBufferStart hal (by rw [hrange]; omega) blocks _ _
          hchain).2, ?_,
        backChain_tags a.memory a.internalBufferStart hal blocks _ _ hchain,
        backChain_pairwise a.memory a.internalBufferStart hal blocks _ _ hchain, ?_, hcur⟩
      · intro b hb
        refine ⟨hhead b hb, ?_⟩
        cases blocks with
        | nil => cases hb
        | cons c older =>
          simp only [List.head?_cons, Option.mem_def, Option.some.injEq] at hb
          subst hb
          exact hchain.2.1
      · intro b hb
        obtain ⟨h1, _, h3, h4⟩ := hbounds.2.2 b hb
        exact ⟨h1, h4, h3⟩
  · intro hall
    rcases hcons with ⟨_, _, h3⟩ | ⟨_, _, _, _, _, hhead⟩
    · exact h3
    · cases blocks with
      | nil => rfl
      | cons c older =>
        have h1 := hhead c rfl
        rw [hall c (List.mem_cons_self _ _)] at h1
        cases h1
  · intro block hmem hused hothers fuel next hfree
    rcases hcons with ⟨_, _, h3⟩ | hchain
    · subst h3
      cases hmem
    · obtain ⟨next2, hrun, _, _, _, hnewest, _⟩ :=
        bcvfree_block a blocks hchain block hmem (fuel + (blocks.length + 1)) (by omega)
      rw [bcvfree_mono a next fuel (blocks.length + 1) _ hfree] at hrun
      cases hrun
      obtain ⟨hs0, hal, _, _, hchain2, hhead⟩ := hchain
      cases blocks with
      | nil => cases hmem
      | cons c older =>
        have hc : c = block := by
          by_contra hne
          have h1 := hhead c rfl
          rw [hothers c (List.mem_cons_self _ _) hne] at h1
          cases h1
        subst hc
        have holder : ∀ b ∈ older, b.header < c.header := by
          intro b hb
          have hsub := backChain_bounds a.memory a.internalBufferStart hal older c.header
            c.inUse hchain2.2.2.2.2
          have h1 := (hsub.2.2 b hb).2.2.1
          have h2 : 8 ≤ b.size := (hsub.2.2 b hb).2.2.2
          omega
        have hdrop : dropFreed (markFreed c.header (c :: older)) = [] := by
          rw [markFreed_head c older holder, dropFreed_cons_freed _ older rfl]
          apply dropFreed_all_freed
          intro b hb
          apply hothers b (List.mem_cons_of_mem _ hb)
          intro heq
          have := holder b hb
          rw [heq] at this
          omega
        exact (hnewest rfl).1 hdrop

theorem twoBlocks_reaches : ArenaReaches twoBlocks twoBlocksList :=
  ArenaReaches.alloc (bcvalloc exampleArena 8).2 (blocksAfterAlloc (bcvalloc exampleArena 8) []) 8
    (ArenaReaches.alloc exampleArena [] 8 (ArenaReaches.fresh exampleArena rfl rfl) (by decide)
      (by
        show 4096 % SIZEOF_UDATA = 0 ∧ 4096 + BCV_INTERNAL_DEFAULT_SIZE ≤ UDATA_RANGE / 2 ∧
          ∀ address ∈ [65536].head?, address < 4096 ∨ 4096 + BCV_INTERNAL_DEFAULT_SIZE ≤ address
        refine ⟨by decide, by decide, ?_⟩
        intro address haddress
        cases haddress
        right
        decide))
    (by decide)
    (by
      show ∀ address ∈ [65536].head?, address < 4096 ∨ 36864 ≤ address
      intro address haddress
      cases haddress
      right
      decide)

theorem arena_chain_consistent_witness :
    followPrev twoBlocks.memory 2 twoBlocks.currentAlloc = [4112, 4096] ∧
      twoBlocks.memory 4096 &&& (UDATA_RANGE - 2) = 4096 ∧
      twoBlocks.currentAlloc < twoBlocks.internalBufferEnd :=
  ⟨((arena_chain_consistent twoBlocks twoBlocksList twoBlocks_reaches).2.2.1 (by decide)).1,
    ((arena_chain_consistent twoBlocks twoBlocksList twoBlocks_reaches).2.2.1 (by decide)).2.2.1,
    ((arena_chain_consistent twoBlocks twoBlocksList twoBlocks_reaches).2.2.1
      (by decide)).2.2.2.2.2.2.2⟩

/-- C30 as stated fails.  After `bcvalloc` for 8 bytes and then for `2 ^ 64 - 8`
bytes, both of which return a block of the chunk, the header at `currentAlloc`
points to itself although it is not the header at `internalBufferStart`, so that the
chain from `currentAlloc` does not reach the first block, which is in use.  And
after `bcvalloc` for 40000 bytes, served by the host allocator, and `bcvfree` of
that block, every block has been freed and the chunk is still held. -/
theorem arena_chain_counterexample :
    ((bcvalloc exampleArena 8).1 = 4104 ∧
      (bcvalloc (bcvalloc exampleArena 8).2 (2 ^ 64 - 8)).1 = 4120 ∧
      (bcvalloc (bcvalloc exampleArena 8).2 (2 ^ 64 - 8)).2.internalBufferStart = 4096 ∧
      (bcvalloc (bcvalloc exampleArena 8).2 (2 ^ 64 - 8)).2.currentAlloc = 4112 ∧
      (bcvalloc (bcvalloc exampleArena 8).2 (2 ^ 64 - 8)).2.memory 4112 &&&
        (UDATA_RANGE - 2) = 4112 ∧
      (bcvalloc (bcvalloc exampleArena 8).2 (2 ^ 64 - 8)).2.memory 4096 &&& 1 = 1) ∧
    ((bcvalloc exampleArena 40000).1 = 65536 ∧
      (bcvfree 1 (bcvalloc exampleArena 40000).2 65536).map
          (fun next => (next.internalBufferStart, next.hostFreed)) =
        some (4096, [65536])) := by
  decide

/-! ## simulateStack: invokespecial of a constructor -/

theorem initializeCopies_apply (type temp1 : Nat) :
    ∀ (n : Nat) (ptr : Int) (stackElements : Int → Nat) (i : Int),
      initializeCopies type temp1 n ptr stackElements i =
        if ptr ≤ i ∧ i < ptr + n ∧ stackElements i = type then temp1 else stackElements i := by
  intro n
  induction n with
  | zero =>
    intro ptr stackElements i
    rw [initializeCopies, if_neg]
    intro h
    have h2 := h.2.1
    simp only [Nat.cast_zero, add_zero] at h2
    omega
  | succ n ih =>
    intro ptr stackElements i
    rw [initializeCopies, ih]
    by_cases hi : i = ptr
    · subst hi
      rw [if_neg (by omega)]
      by_cases hm : stackElements i = type
      · rw [if_pos hm, Function.update_same, if_pos ⟨le_refl _, by push_cast; omega, hm⟩]
      · rw [if_neg hm, if_neg (fun h => hm h.2.2)]
    · have hsame : (if stackElements ptr = type then Function.update stackElements ptr temp1
          else stackElements) i = stackElements i := by
        split_ifs
        · rw [Function.update_noteq hi]
        · rfl
      rw [hsame]
      by_cases hc : ptr ≤ i ∧ i < ptr + ((n + 1 : Nat) : Int) ∧ stackElements i = type
      · rw [if_pos hc, if_pos ⟨by omega, by push_cast at hc; omega, hc.2.2⟩]
      · rw [if_neg hc, if_neg]
        intro h
        apply hc
        exact ⟨by omega, by push_cast; omega, h.2.2⟩

/-- The case `RTV_SEND` for `invokespecial` or `invokespecialsplit`, up to the test
of the receiver. -/
theorem sendAction_special (c : Collaborators) (s : SendCollaborators) (vd : VerifyData)
    (bc bcIndex : Nat) (stackTop : Int) (index : Nat) (receiver : Int)
    (hinterface : bc ≠ s.JBinvokeinterface2) (hstatic : s.JBinvokestatic ≠ bc)
    (hdynamic : s.JBinvokedynamic ≠ bc) (hsplit : s.JBinvokestaticsplit ≠ bc)
    (hspecial : s.JBinvokespecial = bc ∨ s.JBinvokespecialsplit = bc)
    (hindex : index =
      if s.JBinvokespecialsplit = bc then
        s.specialSplitMethodRefIndex (PARAM_16 c vd.romMethod.bytecodes bcIndex 1)
      else PARAM_16 c vd.romMethod.bytecodes bcIndex 1)
    (hreceiver : receiver =
      stackTop - (s.getSendSlotsFromSignature (s.methodRefSignature index) : Int) - 1)
    (hnonneg : 0 ≤ receiver) :
    sendAction c s vd bc bcIndex stackTop =
      if s.methodRefNameFirstByte index = 60 ∧
          vd.liveStack.stackElements receiver &&& BCV_SPECIAL ≠ 0 then
        some (receiver,
          { vd with
            classNameList :=
              (s.getSpecialType vd.classNameList (vd.liveStack.stackElements receiver)).2
            liveStack :=
              { vd.liveStack with
                stackElements :=
                  initializeCopies (vd.liveStack.stackElements receiver)
                    (s.getSpecialType vd.classNameList
                      (vd.liveStack.stackElements receiver)).1
                    (receiver - temps).toNat temps vd.liveStack.stackElements } })
      else pushReturn s vd (s.methodRefSignature index) receiver := by
  unfold sendAction
  simp only [if_neg hinterface, if_neg hsplit, if_neg (Ne.symm hdynamic), ← hindex]
  rw [if_pos ⟨hstatic, hdynamic, hsplit⟩, if_pos hspecial, ← hreceiver, if_neg (by omega)]

/-- C25: when `simulateStack` executes `invokespecial` (or `invokespecialsplit`) of
a method whose name starts with `<`, and the receiver popped after the arguments
have been removed is an uninitialized marker (a bit of `BCV_SPECIAL` is set), every
slot of the locals and of what is left of the operand stack (the indices from 0 up
to the slot of the receiver) that holds that marker is given the type
`getSpecialType` returns for it, every other slot is as before, and the case ends
there: nothing is pushed and `stackTop` is left at the slot of the receiver.  In a
constructor whose slot 0 holds *uninitialized-this*, the receiver being that marker,
slot 0 holds the type `getSpecialType` returned afterwards. -/
theorem init_rewrites_every_copy (c : Collaborators) (s : SendCollaborators) (vd : VerifyData)
    (bc bcIndex : Nat) (stackTop : Int) (index : Nat) (receiver : Int)
    (hinterface : bc ≠ s.JBinvokeinterface2) (hstatic : s.JBinvokestatic ≠ bc)
    (hdynamic : s.JBinvokedynamic ≠ bc) (hsplit : s.JBinvokestaticsplit ≠ bc)
    (hspecial : s.JBinvokespecial = bc ∨ s.JBinvokespecialsplit = bc)
    (hindex : index =
      if s.JBinvokespecialsplit = bc then
        s.specialSplitMethodRefIndex (PARAM_16 c vd.romMethod.bytecodes bcIndex 1)
      else PARAM_16 c vd.romMethod.bytecodes bcIndex 1)
    (hname : s.methodRefNameFirstByte index = 60)
    (hreceiver : receiver =
      stackTop - (s.getSendSlotsFromSignature (s.methodRefSignature index) : Int) - 1)
    (hnonneg : 0 ≤ receiver)
    (hmarker : vd.liveStack.stackElements receiver &&& BCV_SPECIAL ≠ 0) :
    ∃ slots, sendAction c s vd bc bcIndex stackTop =
        some (receiver,
          { vd with
            classNameList :=
              (s.getSpecialType vd.classNameList (vd.liveStack.stackElements receiver)).2
            liveStack := { vd.liveStack with stackElements := slots } }) ∧
      (∀ i : Int, 0 ≤ i → i < receiver →
        vd.liveStack.stackElements i = vd.liveStack.stackElements receiver →
        slots i =
          (s.getSpecialType vd.classNameList (vd.liveStack.stackElements receiver)).1) ∧
      (∀ i : Int, ¬ (0 ≤ i ∧ i < receiver ∧
          vd.liveStack.stackElements i = vd.liveStack.stackElements receiver) →
        slots i = vd.liveStack.stackElements i) ∧
      (0 < receiver → vd.liveStack.stackElements 0 = vd.liveStack.stackElements receiver →
        vd.liveStack.stackElements receiver &&& BCV_SPECIAL_INIT = BCV_SPECIAL_INIT →
        slots 0 =
          (s.getSpecialType vd.classNameList (vd.liveStack.stackElements receiver)).1) := by
  have hrun := sendAction_special c s vd bc bcIndex stackTop index receiver hinterface hstatic
    hdynamic hsplit hspecial hindex hreceiver hnonneg
  rw [if_pos ⟨hname, hmarker⟩] at hrun
  have hcount : ((receiver - temps).toNat : Int) = receiver := by
    simp only [temps, sub_zero]
    exact Int.toNat_of_nonneg hnonneg
  refine ⟨_, hrun, ?_, ?_, ?_⟩
  · intro i h0 h1 heq
    rw [initializeCopies_apply, if_pos ⟨by simpa [temps] using h0, by
      rw [hcount]; simpa [temps] using h1, heq⟩]
  · intro i hnot
    rw [initializeCopies_apply, if_neg]
    intro h
    apply hnot
    refine ⟨by simpa [temps] using h.1, ?_, h.2.2⟩
    have h2 := h.2.1
    rw [hcount] at h2
    simpa [temps] using h2
  · intro hpos heq _
    rw [initializeCopies_apply, if_pos ⟨by simp [temps], by
      rw [hcount]; simpa [temps] using hpos, heq⟩]

theorem init_rewrites_every_copy_witness :
    ∃ slots, sendAction exampleCollaborators exampleSends constructorData 183 1 2 =
        some (1,
          { constructorData with
            classNameList :=
              (exampleSends.getSpecialType constructorData.classNameList
                (constructorData.liveStack.stackElements 1)).2
            liveStack := { constructorData.liveStack with stackElements := slots } }) ∧
      slots 0 = 0x10 :=
  (init_rewrites_every_copy exampleCollaborators exampleSends constructorData 183 1 2 1 1
    (by decide) (by decide) (by decide) (by decide) (by decide) (by decide) (by decide)
    (by decide) (by decide) (by decide)).elim
    fun slots hslots => ⟨slots, hslots.1, hslots.2.2.2 (by decide) (by decide) (by decide)⟩

/-! ## The lattice order and mergeStacks -/

theorem and_eq_zero_of_or {a t k : Nat} (h : (a ||| t) &&& k = 0) : a &&& k = 0 ∧ t &&& k = 0 := by
  have hbit : ∀ j, ((a.testBit j || t.testBit j) && k.testBit j) = false := by
    intro j
    have h2 := congrArg (fun x : Nat => x.testBit j) h
    simpa only [Nat.testBit_and, Nat.testBit_or, Nat.zero_testBit] using h2
  constructor
  · apply Nat.eq_of_testBit_eq
    intro j
    have h3 := hbit j
    rw [Nat.testBit_and, Nat.zero_testBit]
    cases hx : a.testBit j <;> cases hy : k.testBit j <;> simp_all
  · apply Nat.eq_of_testBit_eq
    intro j
    have h3 := hbit j
    rw [Nat.testBit_and, Nat.zero_testBit]
    cases hx : t.testBit j <;> cases hy : k.testBit j <;> simp_all

theorem or_and_eq_zero {a t k : Nat} (ha : a &&& k = 0) (ht : t &&& k = 0) :
    (a ||| t) &&& k = 0 := by
  rw [Nat.and_comm, Nat.and_or_distrib_left, Nat.and_comm k a, Nat.and_comm k t, ha, ht]; rfl

/-- The word made of an arity field and a class index has none of the four low
bits. -/
theorem built_low_bits (x i k : Nat) (hk : k < 16) :
    (((x &&& BCV_ARITY_MASK) ||| ((i <<< BCV_CLASS_INDEX_SHIFT) % UDATA_RANGE)) % UDATA_RANGE) &&&
      k = 0 := by
  apply Nat.eq_of_testBit_eq
  intro j
  have h64 : UDATA_RANGE = 2 ^ 64 := rfl
  rw [h64]
  simp only [Nat.testBit_and, Nat.testBit_or, Nat.testBit_mod_two_pow, Nat.testBit_shiftLeft,
    Nat.zero_testBit]
  by_cases hj : j < 4
  · have h1 : BCV_ARITY_MASK.testBit j = false := by
      interval_cases j <;> decide
    have h2 : ¬ BCV_CLASS_INDEX_SHIFT ≤ j := by
      have : BCV_CLASS_INDEX_SHIFT = 4 := rfl
      omega
    simp [h1, h2]
  · have h3 : k.testBit j = false := by
      apply Nat.testBit_lt_two_pow
      calc k < 16 := hk
        _ = 2 ^ 4 := by norm_num
        _ ≤ 2 ^ j := Nat.pow_le_pow_right (by norm_num) (by omega)
    simp [h3]

theorem arity_low_bits (x k : Nat) (hk : k < 16) : (x &&& BCV_ARITY_MASK) &&& k = 0 := by
  have h := built_low_bits x 0 k hk
  have h0 : (0 <<< BCV_CLASS_INDEX_SHIFT) % UDATA_RANGE = 0 := by decide
  rw [h0, Nat.or_zero, Nat.mod_eq_of_lt (lt_trans (arity_lt x) (by decide))] at h
  exact h

theorem decayBaseArray_reference {type : Nat} (h : type &&& BCV_BASE_OR_SPECIAL = 0) :
    decayBaseArray type &&& BCV_BASE_OR_SPECIAL = 0 := by
  unfold decayBaseArray
  split_ifs with htag
  · rw [objectType_eq_zero, Nat.or_zero]
    exact arity_low_bits type _ (by decide)
  · exact h

theorem decayBaseArray_not_null (type : Nat) (h : type ≠ BCV_BASE_TYPE_NULL) :
    decayBaseArray type ≠ BCV_BASE_TYPE_NULL := by
  unfold decayBaseArray
  split_ifs with htag
  · rw [objectType_eq_zero, Nat.or_zero]
    intro h2
    have h3 := arity_low_bits type 2 (by decide)
    rw [h2] at h3
    exact absurd h3 (by decide)
  · exact h

theorem built_not_null (x i : Nat) :
    ((x &&& BCV_ARITY_MASK) ||| ((i <<< BCV_CLASS_INDEX_SHIFT) % UDATA_RANGE)) % UDATA_RANGE ≠
      BCV_BASE_TYPE_NULL := by
  intro h2
  have h3 := built_low_bits x i 2 (by decide)
  rw [h2] at h3
  exact absurd h3 (by decide)

theorem later_trans {o : ClassOracle} {classes : Nat → Prop} {a b c : ClassNameList}
    (hab : Later o classes a b) (hbc : Later o classes b c) : Later o classes a c := by
  induction hbc with
  | same => exact hab
  | interned current clazz hclazz _ ih => exact Later.interned current clazz hclazz ih

theorem lookupsSound_later {o : ClassOracle} {classes : Nat → Prop} {a b : ClassNameList}
    (h : LookupsSound o classes a) (hab : Later o classes a b) : LookupsSound o classes b where
  hierarchy := h.hierarchy
  loads := fun current hc => h.loads current (later_trans hab hc)
  stable := fun current hc => h.stable current (later_trans hab hc)
  nullBelow := fun current hc => h.nullBelow current (later_trans hab hc)
  objectAbove := fun current hc => h.objectAbove current (later_trans hab hc)
  superclassAbove := fun current hc => h.superclassAbove current (later_trans hab hc)

theorem compatible_later {o : ClassOracle} {classes : Nat → Prop} {a b : ClassNameList}
    (h : LookupsSound o classes a) (hab : Later o classes a b) (s t : Nat)
    (hc : (o.isClassCompatible a s t).1 = true) : (o.isClassCompatible b s t).1 = true := by
  induction hab with
  | same => exact hc
  | interned current clazz hclazz hcur ih => exact h.stable current hcur clazz s t hclazz ih

theorem latticeLe_later {o : ClassOracle} {classes : Nat → Prop} {a b : ClassNameList}
    (h : LookupsSound o classes a) (hab : Later o classes a b) {s t : Nat}
    (hle : LatticeLe o a s t) : LatticeLe o b s t := by
  rcases hle with h1 | h1 | h1 | ⟨h1, h2, h3⟩
  · exact Or.inl h1
  · exact Or.inr (Or.inl h1)
  · exact Or.inr (Or.inr (Or.inl h1))
  · exact Or.inr (Or.inr (Or.inr ⟨h1, h2, compatible_later h hab s t h3⟩))

theorem mergeClasses_common {o : ClassOracle} {classes : Nat → Prop}
    (h : SingleInheritance o classes) {firstClass secondClass : List Nat} {first second : Nat}
    (hfirst : o.j9rtv_verifierGetRAMClass firstClass = Except.ok first)
    (hsecond : o.j9rtv_verifierGetRAMClass secondClass = Except.ok second)
    (hfc : classes (o.J9_CURRENT_CLASS first)) (hsc : classes second) :
    ∃ common, mergeClasses o firstClass secondClass = some (Except.ok (o.className common)) ∧
      classes common ∧ IsSuperclassOrEqual o common (o.J9_CURRENT_CLASS first) ∧
      IsSuperclassOrEqual o common second := by
  obtain ⟨common, hwalk, hcf, hcs, _⟩ :=
    walkToCommonClass_spec h
      (o.J9CLASS_DEPTH (o.J9_CURRENT_CLASS first) + o.J9CLASS_DEPTH second + 1)
      (o.J9_CURRENT_CLASS first) second hfc hsc (by omega)
  refine ⟨common, ?_, (isSuperclassOrEqual_depth h hsc hcs).1, hcf, hcs⟩
  unfold mergeClasses
  simp only [hfirst, hsecond, hwalk]

/-- With sound lookups, the word `mergeObjectTypes` leaves in the target for two
references, unless it runs out of memory, is a reference above both. -/
theorem mergeObjectTypes_upper {o : ClassOracle} {classes : Nat → Prop} {vd vd1 : VerifyData}
    {a t m : Nat} {rc : RC} (hs : LookupsSound o classes vd.classNameList)
    (href : (a ||| t) &&& BCV_BASE_OR_SPECIAL = 0)
    (h : mergeObjectTypes o vd a t = some (rc, m, vd1))
    (hrc : rc ≠ RC.BCV_ERR_INSUFFICIENT_MEMORY) :
    Later o classes vd.classNameList vd1.classNameList ∧ m &&& BCV_BASE_OR_SPECIAL = 0 ∧
      (t ≠ BCV_BASE_TYPE_NULL → m ≠ BCV_BASE_TYPE_NULL) ∧
      LatticeLe o vd1.classNameList a m ∧ LatticeLe o vd1.classNameList t m := by
  obtain ⟨ha, ht⟩ := and_eq_zero_of_or href
  unfold mergeObjectTypes at h
  dsimp only at h
  by_cases hc : (o.isClassCompatible vd.classNameList a t).1 = true
  · rw [if_pos hc] at h
    simp only [Option.some.injEq, Prod.mk.injEq] at h
    obtain ⟨-, rfl, rfl⟩ := h
    exact ⟨Later.same, ht, fun hn => hn, Or.inr (Or.inr (Or.inr ⟨ha, ht, hc⟩)), Or.inl rfl⟩
  rw [if_neg hc] at h
  by_cases hi : (o.isClassCompatible vd.classNameList a t).2 = RC.BCV_ERR_INTERNAL_ERROR
  · rw [if_pos hi] at h
    simp only [Option.some.injEq, Prod.mk.injEq] at h
    obtain ⟨-, rfl, rfl⟩ := h
    have hw : (0 ||| (BCV_JAVA_LANG_OBJECT_INDEX <<< BCV_CLASS_INDEX_SHIFT) % UDATA_RANGE) %
        UDATA_RANGE = objectType := by decide
    have hobj : objectType &&& BCV_BASE_OR_SPECIAL = 0 := by decide
    have h1 := hs.objectAbove vd.classNameList Later.same a 0 ha (by decide) (Nat.zero_le _)
    have h2 := hs.objectAbove vd.classNameList Later.same t 0 ht (by decide) (Nat.zero_le _)
    rw [hw] at h1 h2
    exact ⟨Later.same, hobj, fun _ => by decide, Or.inr (Or.inr (Or.inr ⟨ha, hobj, h1⟩)),
      Or.inr (Or.inr (Or.inr ⟨ht, hobj, h2⟩))⟩
  rw [if_neg hi] at h
  by_cases hmem : (o.isClassCompatible vd.classNameList a t).2 = RC.BCV_ERR_INSUFFICIENT_MEMORY
  · rw [if_pos hmem] at h
    simp only [Option.some.injEq, Prod.mk.injEq] at h
    exact absurd h.1.symm hrc
  rw [if_neg hmem] at h
  by_cases htn : t = BCV_BASE_TYPE_NULL
  · rw [if_pos htn] at h
    simp only [Option.some.injEq, Prod.mk.injEq] at h
    obtain ⟨-, rfl, rfl⟩ := h
    exact ⟨Later.same, ha, fun hn => absurd htn hn, Or.inl rfl,
      Or.inr (Or.inr (Or.inl ⟨htn, ha⟩))⟩
  rw [if_neg htn] at h
  by_cases harity : decayBaseArray a &&& BCV_ARITY_MASK = decayBaseArray t &&& BCV_ARITY_MASK
  · rw [if_pos harity] at h
    generalize hn1 : vd.classNameList[(decayBaseArray a &&& BCV_CLASS_INDEX_MASK) >>>
      BCV_CLASS_INDEX_SHIFT]? = l1 at h
    generalize hn2 : vd.classNameList[(decayBaseArray t &&& BCV_CLASS_INDEX_MASK) >>>
      BCV_CLASS_INDEX_SHIFT]? = l2 at h
    rcases l1 with _ | n1
    · cases h
    rcases l2 with _ | n2
    · cases h
    obtain ⟨c1, hl1, -, hcur1⟩ := hs.loads vd.classNameList Later.same _ n1 hn1
    obtain ⟨c2, hl2, hcl2, -⟩ := hs.loads vd.classNameList Later.same _ n2 hn2
    obtain ⟨common, hmerge, hcc, hcf, hcs⟩ := mergeClasses_common hs.hierarchy hl1 hl2 hcur1 hcl2
    simp only [hmerge, Option.some.injEq, Prod.mk.injEq] at h
    obtain ⟨-, rfl, rfl⟩ := h
    have hm := built_low_bits (decayBaseArray a)
      (o.findClassName vd.classNameList (o.className common)).1 BCV_BASE_OR_SPECIAL (by decide)
    have h1 := hs.superclassAbove vd.classNameList Later.same a n1 c1 common ha hn1 hl1
      (Or.inr hcf)
    have h2 := hs.superclassAbove vd.classNameList Later.same t n2 c2 common ht hn2 hl2
      (Or.inl hcs)
    rw [← harity] at h2
    exact ⟨Later.interned _ common hcc Later.same, hm, fun _ => built_not_null _ _,
      Or.inr (Or.inr (Or.inr ⟨ha, hm, h1⟩)), Or.inr (Or.inr (Or.inr ⟨ht, hm, h2⟩))⟩
  · rw [if_neg harity] at h
    simp only [Option.some.injEq, Prod.mk.injEq] at h
    obtain ⟨-, hm, rfl⟩ := h
    by_cases hlt : decayBaseArray t &&& BCV_ARITY_MASK < decayBaseArray a &&& BCV_ARITY_MASK
    · rw [if_pos hlt] at hm
      subst hm
      have hm := built_low_bits (decayBaseArray t) BCV_JAVA_LANG_OBJECT_INDEX
        BCV_BASE_OR_SPECIAL (by decide)
      have h1 := hs.objectAbove vd.classNameList Later.same a
        (decayBaseArray t &&& BCV_ARITY_MASK) ha (and_mask_idem _ _) (Nat.le_of_lt hlt)
      have h2 := hs.objectAbove vd.classNameList Later.same t
        (decayBaseArray t &&& BCV_ARITY_MASK) ht (and_mask_idem _ _) (Nat.le_refl _)
      exact ⟨Later.same, hm, fun _ => built_not_null _ _,
        Or.inr (Or.inr (Or.inr ⟨ha, hm, h1⟩)), Or.inr (Or.inr (Or.inr ⟨ht, hm, h2⟩))⟩
    · rw [if_neg hlt] at hm
      subst hm
      have hm := built_low_bits (decayBaseArray a) BCV_JAVA_LANG_OBJECT_INDEX
        BCV_BASE_OR_SPECIAL (by decide)
      have h1 := hs.objectAbove vd.classNameList Later.same a
        (decayBaseArray a &&& BCV_ARITY_MASK) ha (and_mask_idem _ _) (Nat.le_refl _)
      have h2 := hs.objectAbove vd.classNameList Later.same t
        (decayBaseArray a &&& BCV_ARITY_MASK) ht (and_mask_idem _ _) (Nat.le_of_not_lt hlt)
      exact ⟨Later.same, hm, fun _ => built_not_null _ _,
        Or.inr (Or.inr (Or.inr ⟨ha, hm, h1⟩)), Or.inr (Or.inr (Or.inr ⟨ht, hm, h2⟩))⟩

/-- With sound lookups, merging a reference into a different reference above it
leaves that reference and returns `BCV_SUCCESS`. -/
theorem mergeObjectTypes_settled {o : ClassOracle} {classes : Nat → Prop} {vd : VerifyData}
    {a m : Nat} (hs : LookupsSound o classes vd.classNameList)
    (hm : m &&& BCV_BASE_OR_SPECIAL = 0)
    (hne : a ≠ m) (hle : LatticeLe o vd.classNameList a m) :
    mergeObjectTypes o vd a m = some (RC.BCV_SUCCESS, m, vd) := by
  have hc : (o.isClassCompatible vd.classNameList a m).1 = true := by
    rcases hle with h1 | h1 | ⟨h1, -⟩ | ⟨-, -, h1⟩
    · exact absurd h1 hne
    · rw [h1] at hm
      exact absurd hm (by decide)
    · rw [h1]
      exact hs.nullBelow vd.classNameList Later.same m hm
    · exact h1
  unfold mergeObjectTypes
  dsimp only
  rw [if_pos hc]

theorem mergeSlot_same (o : ClassOracle) (vd : VerifyData) (target index a : Nat) :
    mergeSlot o vd target index a a = some (SlotOutcome.merged a false vd) := by
  unfold mergeSlot
  dsimp only
  rw [if_neg (fun h : a ≠ a => h rfl)]

theorem or_top_mixed (a : Nat) : (a ||| BCV_BASE_TYPE_TOP) &&& BCV_BASE_OR_SPECIAL ≠ 0 := by
  intro h
  have h2 := (and_eq_zero_of_or h).2
  exact absurd h2 (by decide)

/-- A local that holds `top` in the stored frame keeps it. -/
theorem mergeSlot_local_top (o : ClassOracle) (vd : VerifyData) (target index a : Nat)
    (hlocal : (index : Int) < vd.liveStack.stackBaseIndex) :
    mergeSlot o vd target index a BCV_BASE_TYPE_TOP =
      some (SlotOutcome.merged BCV_BASE_TYPE_TOP false vd) := by
  by_cases hne : a = BCV_BASE_TYPE_TOP
  · rw [hne]
    exact mergeSlot_same o vd target index _
  · rw [mergeSlot_local_primitive o vd target index a _ hlocal hne (or_top_mixed a),
      if_neg (fun h => h.1 rfl)]

/-- On the operand stack, two different words of which one is primitive or special
leave the stored word. -/
theorem mergeSlot_stack_mixed (o : ClassOracle) (vd : VerifyData) (target index a t : Nat)
    (hstack : ¬ (index : Int) < vd.liveStack.stackBaseIndex)
    (hmixed : ¬ (a ||| t) &&& BCV_BASE_OR_SPECIAL = 0) :
    mergeSlot o vd target index a t = some (SlotOutcome.merged t false vd) := by
  unfold mergeSlot
  dsimp only
  by_cases hne : a ≠ t
  · rw [if_pos hne, if_neg hstack, if_neg hmixed]
  · rw [if_neg hne]

/-- With sound lookups, a reference of the live frame merged into a reference above
it, in a slot where the first merge went through `mergeObjectTypes`, leaves the
stored word and asks for no rewalk. -/
theorem mergeSlot_settled {o : ClassOracle} {classes : Nat → Prop} {vd : VerifyData}
    {target index a m : Nat} (hs : LookupsSound o classes vd.classNameList)
    (ha : a &&& BCV_BASE_OR_SPECIAL = 0) (hm : m &&& BCV_BASE_OR_SPECIAL = 0)
    (hle : LatticeLe o vd.classNameList a m)
    (hnull : (index : Int) < vd.liveStack.stackBaseIndex → m ≠ BCV_BASE_TYPE_NULL)
    (hlive : (index : Int) < vd.liveStack.stackBaseIndex →
      vd.optimize = true ∧ vd.romMethod.argCount + vd.romMethod.tempCount ≤ 32 →
      index < 32 ∧ liveLocalBits o vd target &&& (1 <<< index) ≠ 0) :
    mergeSlot o vd target index a m = some (SlotOutcome.merged m false vd) := by
  by_cases hne : a = m
  · rw [hne]
    exact mergeSlot_same o vd target index m
  have href : (a ||| m) &&& BCV_BASE_OR_SPECIAL = 0 := or_and_eq_zero ha hm
  have hmerge := mergeObjectTypes_settled hs hm hne hle
  have hafter : afterMergeObjectTypes (mergeObjectTypes o vd a m) =
      some (SlotOutcome.merged m false vd) := by
    rw [hmerge]
    rfl
  by_cases hlocal : (index : Int) < vd.liveStack.stackBaseIndex
  · obtain ⟨h1, h2, -, h4⟩ := mergeSlot_local_references o vd target index a m hlocal hne href
    by_cases han : a = BCV_BASE_TYPE_NULL
    · exact h1 han
    by_cases hobj : m = BCV_JAVA_LANG_OBJECT_INDEX <<< BCV_CLASS_INDEX_SHIFT
    · exact h2 han hobj
    obtain ⟨h5, h6⟩ := h4 han hobj (hnull hlocal)
    by_cases hopt : vd.optimize = true ∧ vd.romMethod.argCount + vd.romMethod.tempCount ≤ 32
    · obtain ⟨h32, hbits⟩ := hlive hlocal hopt
      rw [h6 hopt h32, if_pos hbits, hafter]
    · rw [h5 hopt, hafter]
  · rw [mergeSlot_stack_references o vd target index a m (not_lt.mp hlocal) hne href, hafter]

/-- The slots in which the first merge calls `mergeObjectTypes`. -/
theorem mergeSlot_upper_merged {o : ClassOracle} {classes : Nat → Prop} {vd vd1 : VerifyData}
    {target index a t m : Nat} {signal : Bool}
    (hs : LookupsSound o classes vd.classNameList)
    (href : (a ||| t) &&& BCV_BASE_OR_SPECIAL = 0)
    (htn : (index : Int) < vd.liveStack.stackBaseIndex → t ≠ BCV_BASE_TYPE_NULL)
    (hlive : (index : Int) < vd.liveStack.stackBaseIndex →
      vd.optimize = true ∧ vd.romMethod.argCount + vd.romMethod.tempCount ≤ 32 →
      index < 32 ∧ liveLocalBits o vd target &&& (1 <<< index) ≠ 0)
    (h : afterMergeObjectTypes (mergeObjectTypes o vd a t) =
      some (SlotOutcome.merged m signal vd1)) :
    Later o classes vd.classNameList vd1.classNameList ∧
    LatticeLe o vd1.classNameList t m ∧
    (LatticeLe o vd1.classNameList a m ∨
      KeepsStoredWord vd.liveStack.stackBaseIndex index a t m) ∧
    ∀ vd2 : VerifyData, Later o classes vd1.classNameList vd2.classNameList →
      vd2.liveStack.stackBaseIndex = vd.liveStack.stackBaseIndex →
      vd2.romMethod = vd.romMethod → vd2.optimize = vd.optimize →
      mergeSlot o vd2 target index a m = some (SlotOutcome.merged m false vd2) := by
  obtain ⟨-, -, rc, hmo, hrc, -⟩ := afterMergeObjectTypes_merged h
  obtain ⟨hlater, hm, hnn, hla, hlt⟩ := mergeObjectTypes_upper hs href hmo hrc
  refine ⟨hlater, hlt, Or.inl hla, ?_⟩
  intro vd2 hnames hb hr ho
  have hbits : liveLocalBits o vd2 target = liveLocalBits o vd target := by
    unfold liveLocalBits
    rw [hr]
  refine mergeSlot_settled (lookupsSound_later hs (later_trans hlater hnames))
    (and_eq_zero_of_or href).1 hm (latticeLe_later (lookupsSound_later hs hlater) hnames hla)
    (fun hlocal => hnn (htn (hb ▸ hlocal))) ?_
  rw [hb, hr, ho, hbits]
  exact hlive

/-- With sound lookups, the word the loop of `mergeStacks` leaves in a slot is above
the word of the stored frame, and above the word of the live frame unless the code
keeps the stored word of a mixed slot; merging the live word into it once more
leaves it and asks for no rewalk. -/
theorem mergeSlot_upper {o : ClassOracle} {classes : Nat → Prop} {vd vd1 : VerifyData}
    {target index a t m : Nat} {signal : Bool}
    (hs : LookupsSound o classes vd.classNameList)
    (h : mergeSlot o vd target index a t = some (SlotOutcome.merged m signal vd1)) :
    Later o classes vd.classNameList vd1.classNameList ∧
    LatticeLe o vd1.classNameList t m ∧
    (LatticeLe o vd1.classNameList a m ∨
      KeepsStoredWord vd.liveStack.stackBaseIndex index a t m) ∧
    ∀ vd2 : VerifyData, Later o classes vd1.classNameList vd2.classNameList →
      vd2.liveStack.stackBaseIndex = vd.liveStack.stackBaseIndex →
      vd2.romMethod = vd.romMethod → vd2.optimize = vd.optimize →
      mergeSlot o vd2 target index a m = some (SlotOutcome.merged m false vd2) := by
  by_cases hne : a = t
  · subst hne
    rw [mergeSlot_same] at h
    simp only [Option.some.injEq, SlotOutcome.merged.injEq] at h
    obtain ⟨rfl, -, rfl⟩ := h
    exact ⟨Later.same, Or.inl rfl, Or.inl (Or.inl rfl), fun vd2 _ _ _ _ => mergeSlot_same o vd2 _ _ _⟩
  by_cases hlocal : (index : Int) < vd.liveStack.stackBaseIndex
  · by_cases hmixed : (a ||| t) &&& BCV_BASE_OR_SPECIAL = 0
    · obtain ⟨ha, ht⟩ := and_eq_zero_of_or hmixed
      obtain ⟨h1, h2, h3, h4⟩ := mergeSlot_local_references o vd target index a t hlocal hne hmixed
      by_cases han : a = BCV_BASE_TYPE_NULL
      · rw [h1 han] at h
        simp only [Option.some.injEq, SlotOutcome.merged.injEq] at h
        obtain ⟨rfl, -, rfl⟩ := h
        refine ⟨Later.same, Or.inl rfl, Or.inl (Or.inr (Or.inr (Or.inl ⟨han, ht⟩))), ?_⟩
        intro vd2 _ hb _ _
        exact (mergeSlot_local_references o vd2 target index a t (hb ▸ hlocal) hne hmixed).1 han
      by_cases hobj : t = BCV_JAVA_LANG_OBJECT_INDEX <<< BCV_CLASS_INDEX_SHIFT
      · rw [h2 han hobj] at h
        simp only [Option.some.injEq, SlotOutcome.merged.injEq] at h
        obtain ⟨rfl, -, rfl⟩ := h
        have hw : (0 ||| (BCV_JAVA_LANG_OBJECT_INDEX <<< BCV_CLASS_INDEX_SHIFT) % UDATA_RANGE) %
            UDATA_RANGE = BCV_JAVA_LANG_OBJECT_INDEX <<< BCV_CLASS_INDEX_SHIFT := by decide
        have hab := hs.objectAbove vd.classNameList Later.same a 0 ha (by decide) (Nat.zero_le _)
        rw [hw, ← hobj] at hab
        refine ⟨Later.same, Or.inl rfl, Or.inl (Or.inr (Or.inr (Or.inr ⟨ha, ht, hab⟩))), ?_⟩
        intro vd2 _ hb _ _
        exact (mergeSlot_local_references o vd2 target index a t (hb ▸ hlocal) hne
          hmixed).2.1 han hobj
      by_cases htn : t = BCV_BASE_TYPE_NULL
      · rw [h3 han htn] at h
        simp only [Option.some.injEq, SlotOutcome.merged.injEq] at h
        obtain ⟨rfl, -, rfl⟩ := h
        exact ⟨Later.same, Or.inr (Or.inr (Or.inl ⟨htn, ha⟩)), Or.inl (Or.inl rfl),
          fun vd2 _ _ _ _ => mergeSlot_same o vd2 _ _ _⟩
      obtain ⟨h5, h6⟩ := h4 han hobj htn
      by_cases hopt : vd.optimize = true ∧ vd.romMethod.argCount + vd.romMethod.tempCount ≤ 32
      · by_cases h32 : index < 32
        · rw [h6 hopt h32] at h
          by_cases hbits : liveLocalBits o vd target &&& (1 <<< index) ≠ 0
          · rw [if_pos hbits] at h
            exact mergeSlot_upper_merged hs hmixed (fun _ => htn) (fun _ _ => ⟨h32, hbits⟩) h
          · rw [if_neg hbits] at h
            simp only [Option.some.injEq, SlotOutcome.merged.injEq] at h
            obtain ⟨rfl, -, rfl⟩ := h
            exact ⟨Later.same, Or.inr (Or.inl rfl), Or.inl (Or.inr (Or.inl rfl)),
              fun vd2 _ hb _ _ => mergeSlot_local_top o vd2 target index a (hb ▸ hlocal)⟩
        · unfold mergeSlot at h
          dsimp only at h
          rw [if_pos hne, if_pos hlocal, if_neg (not_not.mpr hmixed), if_pos ⟨han, hobj⟩,
            if_neg htn, if_pos hopt, if_neg h32] at h
          cases h
      · rw [h5 hopt] at h
        exact mergeSlot_upper_merged hs hmixed (fun _ => htn) (fun _ h2 => absurd h2 hopt) h
    · rw [mergeSlot_local_primitive o vd target index a t hlocal hne hmixed] at h
      by_cases htop : t ≠ BCV_BASE_TYPE_TOP ∧ t &&& BCV_SPECIAL = 0
      · rw [if_pos htop] at h
        simp only [Option.some.injEq, SlotOutcome.merged.injEq] at h
        obtain ⟨rfl, -, rfl⟩ := h
        exact ⟨Later.same, Or.inr (Or.inl rfl), Or.inl (Or.inr (Or.inl rfl)),
          fun vd2 _ hb _ _ => mergeSlot_local_top o vd2 target index a (hb ▸ hlocal)⟩
      · rw [if_neg htop] at h
        simp only [Option.some.injEq, SlotOutcome.merged.injEq] at h
        obtain ⟨rfl, -, rfl⟩ := h
        refine ⟨Later.same, Or.inl rfl, ?_, ?_⟩
        · by_cases ht1 : t = BCV_BASE_TYPE_TOP
          · exact Or.inl (Or.inr (Or.inl ht1))
          · exact Or.inr ⟨hne, hmixed, rfl, Or.inr (fun hz => htop ⟨ht1, hz⟩)⟩
        · intro vd2 _ hb _ _
          rw [mergeSlot_local_primitive o vd2 target index a t (hb ▸ hlocal) hne hmixed,
            if_neg htop]
  · by_cases hmixed : (a ||| t) &&& BCV_BASE_OR_SPECIAL = 0
    · rw [mergeSlot_stack_references o vd target index a t (not_lt.mp hlocal) hne hmixed] at h
      exact mergeSlot_upper_merged hs hmixed (fun h2 => absurd h2 hlocal)
        (fun h2 _ => absurd h2 hlocal) h
    · rw [mergeSlot_stack_mixed o vd target index a t hlocal hmixed] at h
      simp only [Option.some.injEq, SlotOutcome.merged.injEq] at h
      obtain ⟨rfl, -, rfl⟩ := h
      exact ⟨Later.same, Or.inl rfl, Or.inr ⟨hne, hmixed, rfl, Or.inl (not_lt.mp hlocal)⟩,
        fun vd2 _ hb _ _ => mergeSlot_stack_mixed o vd2 target index a t (hb ▸ hlocal) hmixed⟩

/-- With sound lookups, what the loop of `mergeStacks` leaves in the slots it goes
through. -/
theorem mergeSlots_upper {o : ClassOracle} {classes : Nat → Prop} (target : Nat) :
    ∀ (n index : Nat) (st fin : MergeState),
      LookupsSound o classes st.verifyData.classNameList →
      mergeSlots o target n index st = some (Except.ok fin) →
      Later o classes st.verifyData.classNameList fin.verifyData.classNameList ∧
      ∀ j : Nat, index ≤ j → j < index + n →
        LatticeLe o fin.verifyData.classNameList (st.targetElements (j : Int))
          (fin.targetElements (j : Int)) ∧
        (LatticeLe o fin.verifyData.classNameList
            (st.verifyData.liveStack.stackElements (j : Int)) (fin.targetElements (j : Int)) ∨
          KeepsStoredWord st.verifyData.liveStack.stackBaseIndex j
            (st.verifyData.liveStack.stackElements (j : Int)) (st.targetElements (j : Int))
            (fin.targetElements (j : Int))) ∧
        ∀ vd2 : VerifyData, Later o classes fin.verifyData.classNameList vd2.classNameList →
          vd2.liveStack.stackBaseIndex = st.verifyData.liveStack.stackBaseIndex →
          vd2.romMethod = st.verifyData.romMethod → vd2.optimize = st.verifyData.optimize →
          mergeSlot o vd2 target j (st.verifyData.liveStack.stackElements (j : Int))
              (fin.targetElements (j : Int)) =
            some (SlotOutcome.merged (fin.targetElements (j : Int)) false vd2) := by
  intro n
  induction n with
  | zero =>
    intro index st fin _ h
    simp only [mergeSlots, Option.some.injEq, Except.ok.injEq] at h
    subst h
    refine ⟨Later.same, ?_⟩
    intro j h1 h2
    omega
  | succ n ih =>
    intro index st fin hs h
    have hok := mergeSlots_ok o target (n + 1) index st fin h
    unfold mergeSlots at h
    generalize hslot : mergeSlot o st.verifyData target index
      (st.verifyData.liveStack.stackElements (index : Int)) (st.targetElements (index : Int)) = r at h
    rcases r with _ | ⟨value, signal, vd1⟩ | ⟨value, vd1⟩
    · cases h
    · simp only at h
      obtain ⟨hlater1, hlt, hla, hsettle⟩ := mergeSlot_upper hs hslot
      obtain ⟨names1, hk⟩ : ∃ names1, vd1 = { st.verifyData with classNameList := names1 } :=
        ⟨_, (mergeSlot_merged hslot).1⟩
      subst hk
      have hs1 : LookupsSound o classes names1 := lookupsSound_later hs hlater1
      obtain ⟨i1, i2⟩ := ih (index + 1) _ fin hs1 h
      have i3 := (mergeSlots_ok o target n (index + 1) _ fin h).2.1
      have hfin : fin.targetElements (index : Int) = value := by
        rw [i3 (index : Int) (Or.inl (by push_cast; omega))]
        simp only [Function.update_same]
      have hother : ∀ j : Int, j ≠ (index : Int) →
          Function.update st.targetElements (index : Int) value j = st.targetElements j :=
        fun j hj => Function.update_noteq hj _ _
      refine ⟨later_trans hlater1 i1, ?_⟩
      intro j h1 h2
      rcases Nat.eq_or_lt_of_le h1 with he | hlt2
      · subst he
        rw [hfin]
        refine ⟨latticeLe_later hs1 i1 hlt, ?_, ?_⟩
        · rcases hla with hla | hla
          · exact Or.inl (latticeLe_later hs1 i1 hla)
          · exact Or.inr hla
        · intro vd2 hnames hb hr ho
          exact hsettle vd2 (later_trans i1 hnames) hb hr ho
      · obtain ⟨j1, j2, j3⟩ := i2 j (by omega) (by omega)
        simp only at j1 j2 j3
        rw [hother (j : Int) (by omega)] at j1 j2
        exact ⟨j1, j2, j3⟩
    · cases h

/-- A loop of `mergeStacks` in which every slot keeps the stored word and asks for
no rewalk changes nothing. -/
theorem mergeSlots_fixed (o : ClassOracle) (target : Nat) :
    ∀ (n index : Nat) (st : MergeState),
      (∀ j : Nat, index ≤ j → j < index + n →
        mergeSlot o st.verifyData target j (st.verifyData.liveStack.stackElements (j : Int))
            (st.targetElements (j : Int)) =
          some (SlotOutcome.merged (st.targetElements (j : Int)) false st.verifyData)) →
      mergeSlots o target n index st = some (Except.ok st) := by
  intro n
  induction n with
  | zero =>
    intro index st _
    rfl
  | succ n ih =>
    intro index st h
    unfold mergeSlots
    rw [h index (Nat.le_refl _) (by omega)]
    simp only [Function.update_eq_self, Bool.or_false]
    exact ih (index + 1) st (fun j h1 h2 => h j (by omega) (by omega))

theorem set_getElem?_self {α : Type} {l : List α} {i : Nat} {a : α} (h : l[i]? = some a) :
    l.set i a = l := by
  induction l generalizing i with
  | nil => rfl
  | cons x xs ih =>
    cases i with
    | zero =>
      simp only [List.getElem?_cons_zero, Option.some.injEq] at h
      subst h
      rfl
    | succ i =>
      simp only [List.getElem?_cons_succ] at h
      simp only [List.set_cons_succ, ih h]

/-- A call of `mergeStacks` on a reached target in which every slot keeps the
stored word and asks for no rewalk returns `BCV_SUCCESS` and changes nothing. -/
theorem mergeStacks_again (o : ClassOracle) (vd : VerifyData) (target v : Nat)
    (stored : J9BranchTargetStack) (hv : vd.bytecodeMap[target]? = some v)
    (hframe : vd.stackMaps[v >>> BRANCH_INDEX_SHIFT]? = some stored)
    (hbase : stored.stackBaseIndex ≠ -1)
    (htop : stored.stackTopIndex = vd.liveStack.stackTopIndex)
    (h0 : 0 ≤ vd.liveStack.stackTopIndex)
    (hfix : ∀ j : Nat, j < vd.liveStack.stackTopIndex.toNat →
      mergeSlot o vd target j (vd.liveStack.stackElements (j : Int))
          (stored.stackElements (j : Int)) =
        some (SlotOutcome.merged (stored.stackElements (j : Int)) false vd)) :
    mergeStacks o vd target = some (RC.BCV_SUCCESS, vd) := by
  have hloop := mergeSlots_fixed o target vd.liveStack.stackTopIndex.toNat 0
    { verifyData := vd, targetElements := stored.stackElements, rewalk := false }
    (fun j _ hj => hfix j (by omega))
  unfold mergeStacks
  simp only [hv, hframe]
  rw [if_neg hbase, if_neg (not_not.mpr htop), if_neg (not_lt.mpr h0), hloop]
  simp only [storeMerged, Bool.false_eq_true, if_false]
  have hset : vd.stackMaps.set (v >>> BRANCH_INDEX_SHIFT) stored = vd.stackMaps :=
    set_getElem?_self hframe
  show some (RC.BCV_SUCCESS,
    { vd with stackMaps := vd.stackMaps.set (v >>> BRANCH_INDEX_SHIFT) stored }) = _
  rw [hset]

theorem rewalk_entry_index (v : Nat) (hv : v < U32_RANGE) :
    clearFlag ((v ||| BRANCH_ON_REWALK_QUEUE) % U32_RANGE) BRANCH_ON_UNWALKED_QUEUE >>>
      BRANCH_INDEX_SHIFT = v >>> BRANCH_INDEX_SHIFT := by
  obtain ⟨-, -, h3, h4⟩ := set_flag_bits v BRANCH_ON_REWALK_QUEUE 0 (by decide) (by decide)
    (by decide) (by decide) (by decide) (by decide) hv
  obtain ⟨-, -, h5, -⟩ := clearFlag_bits ((v ||| BRANCH_ON_REWALK_QUEUE) % U32_RANGE)
    BRANCH_ON_UNWALKED_QUEUE 0 (by decide) (by decide) (by decide) h4
  rw [h5, h3]

/-- C23, amended: for a live frame A and a reached stored frame B, with sound class
lookups, when `mergeStacks` returns `BCV_SUCCESS` the frame M it leaves in the store
has the base and the height of B, and in every slot below the stack top the word of
B is below the word of M in the lattice order (`top` above everything, `null` below
every reference, references ordered by assignability), and the word of A is below
the word of M unless the two words of the slot differ, one of them is primitive or
special, and the slot is on the operand stack or the word of B carries a special
marker: there M keeps the word of B.  Merging A into M again returns `BCV_SUCCESS`
and changes nothing: no slot, no flag and no queue. -/
theorem merged_frame_above_both (o : ClassOracle) (classes : Nat → Prop) (vd vd1 : VerifyData)
    (target v : Nat) (targetStack : J9BranchTargetStack)
    (hs : LookupsSound o classes vd.classNameList)
    (hv : vd.bytecodeMap[target]? = some v) (hv32 : v < U32_RANGE)
    (hframe : vd.stackMaps[v >>> BRANCH_INDEX_SHIFT]? = some targetStack)
    (hreached : targetStack.stackBaseIndex ≠ -1)
    (h : mergeStacks o vd target = some (RC.BCV_SUCCESS, vd1)) :
    ∃ merged, vd1.stackMaps[v >>> BRANCH_INDEX_SHIFT]? = some merged ∧
      vd1.liveStack = vd.liveStack ∧
      targetStack.stackTopIndex = vd.liveStack.stackTopIndex ∧
      merged.stackBaseIndex = targetStack.stackBaseIndex ∧
      merged.stackTopIndex = targetStack.stackTopIndex ∧
      (∀ j : Nat, (j : Int) < vd.liveStack.stackTopIndex →
        LatticeLe o vd1.classNameList (targetStack.stackElements (j : Int))
          (merged.stackElements (j : Int)) ∧
        (LatticeLe o vd1.classNameList (vd.liveStack.stackElements (j : Int))
            (merged.stackElements (j : Int)) ∨
          KeepsStoredWord vd.liveStack.stackBaseIndex j (vd.liveStack.stackElements (j : Int))
            (targetStack.stackElements (j : Int)) (merged.stackElements (j : Int)))) ∧
      mergeStacks o vd1 target = some (RC.BCV_SUCCESS, vd1) := by
  obtain ⟨v0, t0, hv0, hf0, hcases⟩ := mergeStacks_cases h
  rw [hv] at hv0
  cases hv0
  rw [hframe] at hf0
  cases hf0
  rcases hcases with ⟨hb, _⟩ | ⟨_, htop, h0, fin, _, hrun⟩
  · exact absurd hb hreached
  rcases hrun with ⟨_, hrc, _⟩ | ⟨hloop, _, hend⟩
  · cases hrc
  obtain ⟨-, hup⟩ := mergeSlots_upper target _ 0 _ fin hs hloop
  have hslots : ∀ j : Nat, (j : Int) < vd.liveStack.stackTopIndex →
      LatticeLe o fin.verifyData.classNameList (targetStack.stackElements (j : Int))
        (fin.targetElements (j : Int)) ∧
      (LatticeLe o fin.verifyData.classNameList (vd.liveStack.stackElements (j : Int))
          (fin.targetElements (j : Int)) ∨
        KeepsStoredWord vd.liveStack.stackBaseIndex j (vd.liveStack.stackElements (j : Int))
          (targetStack.stackElements (j : Int)) (fin.targetElements (j : Int))) := by
    intro j hj
    obtain ⟨h1, h2, -⟩ := hup j (Nat.zero_le j) (by omega)
    exact ⟨h1, h2⟩
  have hfixed : ∀ vd2 : VerifyData, vd2.classNameList = fin.verifyData.classNameList →
      vd2.liveStack = vd.liveStack → vd2.romMethod = vd.romMethod →
      vd2.optimize = vd.optimize →
      ∀ j : Nat, j < vd2.liveStack.stackTopIndex.toNat →
        mergeSlot o vd2 target j (vd2.liveStack.stackElements (j : Int))
            (fin.targetElements (j : Int)) =
          some (SlotOutcome.merged (fin.targetElements (j : Int)) false vd2) := by
    intro vd2 hn hl hr ho j hj
    rw [hl] at hj ⊢
    obtain ⟨-, -, h3⟩ := hup j (Nat.zero_le j) (by omega)
    exact h3 vd2 (by rw [hn]; exact Later.same) (by rw [hl]) hr ho
  have hstack : vd1.stackMaps[v >>> BRANCH_INDEX_SHIFT]? =
      some { targetStack with stackElements := fin.targetElements } := by
    rcases hend with ⟨_, _, queue, tail, _, hvd1⟩ | ⟨_, hvd1⟩ <;>
      (rw [hvd1]; exact getElem?_set_same hframe)
  have hlive : vd1.liveStack = vd.liveStack := by
    rcases hend with ⟨_, _, queue, tail, _, hvd1⟩ | ⟨_, hvd1⟩ <;> rw [hvd1]
  have hnames : vd1.classNameList = fin.verifyData.classNameList := by
    rcases hend with ⟨_, _, queue, tail, _, hvd1⟩ | ⟨_, hvd1⟩ <;> rw [hvd1]
  have hrom : vd1.romMethod = vd.romMethod := by
    rcases hend with ⟨_, _, queue, tail, _, hvd1⟩ | ⟨_, hvd1⟩ <;> rw [hvd1]
  have hopt : vd1.optimize = vd.optimize := by
    rcases hend with ⟨_, _, queue, tail, _, hvd1⟩ | ⟨_, hvd1⟩ <;> rw [hvd1]
  have hmap : ∃ v1, vd1.bytecodeMap[target]? = some v1 ∧
      v1 >>> BRANCH_INDEX_SHIFT = v >>> BRANCH_INDEX_SHIFT := by
    rcases hend with ⟨_, _, queue, tail, _, hvd1⟩ | ⟨_, hvd1⟩
    · exact ⟨_, by rw [hvd1]; exact getElem?_set_same hv, rewalk_entry_index v hv32⟩
    · exact ⟨v, by rw [hvd1]; exact hv, rfl⟩
  obtain ⟨v1, hv1, hindex⟩ := hmap
  refine ⟨_, hstack, hlive, htop, rfl, rfl, ?_, ?_⟩
  · rw [hnames]
    exact hslots
  · exact mergeStacks_again o vd1 target v1
      { targetStack with stackElements := fin.targetElements } hv1 (by rw [hindex]; exact hstack)
      hreached (by rw [hlive]; exact htop) (by rw [hlive]; exact h0)
      (hfixed vd1 hnames hlive hrom hopt)

/-- The class-index field of a word is its class index shifted back in place. -/
theorem index_field (x : Nat) :
    x &&& BCV_CLASS_INDEX_MASK =
      ((x &&& BCV_CLASS_INDEX_MASK) >>> BCV_CLASS_INDEX_SHIFT) <<< BCV_CLASS_INDEX_SHIFT := by
  apply Nat.eq_of_testBit_eq
  intro j
  have h4 : BCV_CLASS_INDEX_SHIFT = 4 := rfl
  rw [h4]
  simp only [Nat.testBit_shiftLeft, Nat.testBit_shiftRight, Nat.testBit_and]
  by_cases hj : 4 ≤ j
  · have h1 : 4 + (j - 4) = j := by omega
    simp [hj, h1]
  · have h2 : BCV_CLASS_INDEX_MASK.testBit j = false := by
      have hlt : j < 4 := by omega
      interval_cases j <;> decide
    simp [hj, h2]

theorem latticeOracle_later {current : ClassNameList}
    (h : Later latticeOracle (fun c => c ≤ 2) [[79], [65], [66]] current) :
    current = [[79], [65], [66]] := by
  induction h with
  | same => rfl
  | interned current clazz hclazz _ ih =>
    subst ih
    have h2 : clazz ≤ 2 := hclazz
    interval_cases clazz <;> rfl

theorem latticeOracle_ancestor {ancestor clazz : Nat} (hclazz : clazz ≤ 2)
    (h : IsSuperclassOrEqual latticeOracle ancestor clazz) : ancestor = clazz ∨ ancestor = 0 := by
  obtain ⟨k, hk, hat⟩ := h
  interval_cases clazz
  · have hk0 : k = 0 := Nat.le_zero.mp hk
    subst hk0
    simp only [superclassAt, Option.some.injEq] at hat
    exact Or.inr hat.symm
  · have hk1 : k ≤ 1 := hk
    interval_cases k
    · simp only [superclassAt, Option.some.injEq] at hat
      exact Or.inl hat.symm
    · have hat2 : some 0 = some ancestor := hat
      simp only [Option.some.injEq] at hat2
      exact Or.inr hat2.symm
  · have hk1 : k ≤ 1 := hk
    interval_cases k
    · simp only [superclassAt, Option.some.injEq] at hat
      exact Or.inl hat.symm
    · have hat2 : some 0 = some ancestor := hat
      simp only [Option.some.injEq] at hat2
      exact Or.inr hat2.symm

theorem latticeOracle_compatible (names : ClassNameList) (s t : Nat)
    (h : s = t ∨ s = BCV_BASE_TYPE_NULL ∨
      (t &&& BCV_ARITY_MASK = t ∧ t ≤ decayBaseArray s &&& BCV_ARITY_MASK) ∨
      t = decayBaseArray s &&& (BCV_ARITY_MASK ||| BCV_CLASS_INDEX_MASK)) :
    (latticeOracle.isClassCompatible names s t).1 = true :=
  decide_eq_true h

theorem fields_lt (x : Nat) : x &&& (BCV_ARITY_MASK ||| BCV_CLASS_INDEX_MASK) < UDATA_RANGE :=
  lt_of_le_of_lt Nat.and_le_right (by decide)

/-- The word made of the arity field of a type and of its own class index is the
type without its tag bits. -/
theorem built_own_class (x : Nat) :
    (x &&& BCV_ARITY_MASK |||
        (((x &&& BCV_CLASS_INDEX_MASK) >>> BCV_CLASS_INDEX_SHIFT) <<< BCV_CLASS_INDEX_SHIFT) %
          UDATA_RANGE) % UDATA_RANGE =
      x &&& (BCV_ARITY_MASK ||| BCV_CLASS_INDEX_MASK) := by
  rw [← index_field x,
    Nat.mod_eq_of_lt (lt_of_le_of_lt Nat.and_le_right (by decide : BCV_CLASS_INDEX_MASK < UDATA_RANGE)),
    ← Nat.and_or_distrib_left, Nat.mod_eq_of_lt (fields_lt x)]

theorem built_object (x : Nat) :
    (x &&& BCV_ARITY_MASK ||| (0 <<< BCV_CLASS_INDEX_SHIFT) % UDATA_RANGE) % UDATA_RANGE =
      x &&& BCV_ARITY_MASK := by
  have h0 : (0 <<< BCV_CLASS_INDEX_SHIFT) % UDATA_RANGE = 0 := by decide
  rw [h0, Nat.or_zero, Nat.mod_eq_of_lt (lt_trans (arity_lt x) (by decide))]

/-- The lookups of `latticeOracle` are sound for the class-name list of
`mergeVerifyData` and the classes `O`, `A` and `B`. -/
theorem latticeOracle_sound :
    LookupsSound latticeOracle (fun c => c ≤ 2) [[79], [65], [66]] where
  hierarchy := exampleOracle_singleInheritance
  loads := by
    intro current hc i name hname
    rw [latticeOracle_later hc] at hname
    rcases i with _ | _ | _ | i
    · simp only [List.getElem?_cons_zero, Option.some.injEq] at hname
      subst hname
      exact ⟨0, rfl, by decide, by decide⟩
    · simp only [List.getElem?_cons_succ, List.getElem?_cons_zero, Option.some.injEq] at hname
      subst hname
      exact ⟨1, rfl, by decide, by decide⟩
    · simp only [List.getElem?_cons_succ, List.getElem?_cons_zero, Option.some.injEq] at hname
      subst hname
      exact ⟨2, rfl, by decide, by decide⟩
    · simp at hname
  stable := fun _ _ _ _ _ _ h => h
  nullBelow := fun current _ t _ => latticeOracle_compatible current _ t (Or.inr (Or.inl rfl))
  objectAbove := by
    intro current _ s arity _ harity hle
    have h0 : (BCV_JAVA_LANG_OBJECT_INDEX <<< BCV_CLASS_INDEX_SHIFT) % UDATA_RANGE = 0 := by
      decide
    have hlt : arity < UDATA_RANGE := by
      rw [← harity]
      exact lt_trans (arity_lt arity) (by decide)
    rw [h0, Nat.or_zero, Nat.mod_eq_of_lt hlt]
    exact latticeOracle_compatible _ _ _ (Or.inr (Or.inr (Or.inl ⟨harity, hle⟩)))
  superclassAbove := by
    intro current hc s name clazz ancestor _ hname hload hanc
    rw [latticeOracle_later hc] at hname ⊢
    have hobject : (latticeOracle.isClassCompatible [[79], [65], [66]] s
        (decayBaseArray s &&& BCV_ARITY_MASK)).1 = true :=
      latticeOracle_compatible _ _ _
        (Or.inr (Or.inr (Or.inl ⟨and_mask_idem _ _, Nat.le_refl _⟩)))
    have hown : (latticeOracle.isClassCompatible [[79], [65], [66]] s
        (decayBaseArray s &&& (BCV_ARITY_MASK ||| BCV_CLASS_INDEX_MASK))).1 = true :=
      latticeOracle_compatible _ _ _ (Or.inr (Or.inr (Or.inr rfl)))
    have hbuilt := built_own_class (decayBaseArray s)
    generalize hidx : (decayBaseArray s &&& BCV_CLASS_INDEX_MASK) >>> BCV_CLASS_INDEX_SHIFT =
      idx at hname hbuilt
    have hsame : IsSuperclassOrEqual latticeOracle ancestor clazz := hanc.elim id id
    rcases idx with _ | _ | _ | idx
    · simp only [List.getElem?_cons_zero, Option.some.injEq] at hname
      subst hname
      have hc0 : Except.ok 0 = Except.ok clazz := hload
      cases hc0
      rcases latticeOracle_ancestor (by decide) hsame with rfl | rfl <;>
        (rw [← built_object (decayBaseArray s)] at hobject; exact hobject)
    · simp only [List.getElem?_cons_succ, List.getElem?_cons_zero, Option.some.injEq] at hname
      subst hname
      have hc0 : Except.ok 1 = Except.ok clazz := hload
      cases hc0
      rcases latticeOracle_ancestor (by decide) hsame with rfl | rfl
      · rw [← hbuilt] at hown
        exact hown
      · rw [← built_object (decayBaseArray s)] at hobject
        exact hobject
    · simp only [List.getElem?_cons_succ, List.getElem?_cons_zero, Option.some.injEq] at hname
      subst hname
      have hc0 : Except.ok 2 = Except.ok clazz := hload
      cases hc0
      rcases latticeOracle_ancestor (by decide) hsame with rfl | rfl
      · rw [← hbuilt] at hown
        exact hown
      · rw [← built_object (decayBaseArray s)] at hobject
        exact hobject
    · simp at hname

theorem merged_frame_above_both_witness :
    ∃ merged, (mergedOrSelf (mergeStacks latticeOracle mergeVerifyData 0)
          mergeVerifyData).stackMaps[0x01 >>> BRANCH_INDEX_SHIFT]? = some merged ∧
      (∀ j : Nat, (j : Int) < mergeVerifyData.liveStack.stackTopIndex →
        LatticeLe latticeOracle
          (mergedOrSelf (mergeStacks latticeOracle mergeVerifyData 0)
            mergeVerifyData).classNameList
          ((exampleFrame 0 2 3 [0x11, 0x10, 0x10]).stackElements (j : Int))
          (merged.stackElements (j : Int))) ∧
      mergeStacks latticeOracle
          (mergedOrSelf (mergeStacks latticeOracle mergeVerifyData 0) mergeVerifyData) 0 =
        some (RC.BCV_SUCCESS,
          mergedOrSelf (mergeStacks latticeOracle mergeVerifyData 0) mergeVerifyData) :=
  (merged_frame_above_both latticeOracle (fun c => c ≤ 2) mergeVerifyData
    (mergedOrSelf (mergeStacks latticeOracle mergeVerifyData 0) mergeVerifyData) 0 0x01
    (exampleFrame 0 2 3 [0x11, 0x10, 0x10]) latticeOracle_sound rfl (by decide) rfl (by decide)
    (by rfl)).elim
    fun merged h => ⟨merged, h.1, fun j hj => (h.2.2.2.2.2.1 j hj).1, h.2.2.2.2.2.2⟩

/-! ## mergeStacks: the liveness filter -/

theorem all_bits_live (index : Nat) (h : index < 32) : (U32_RANGE - 1) &&& (1 <<< index) ≠ 0 := by
  interval_cases index <;> decide

/-- The word `resultArrayBase` after a local map error has every bit set. -/
theorem liveLocalBits_of_error (o : ClassOracle) (vd : VerifyData) (target : Nat)
    (h : (o.j9localmap_LocalBitsForPC vd.romMethod target).1 ≠ 0) :
    liveLocalBits o vd target = U32_RANGE - 1 := by
  unfold liveLocalBits
  simp only [h, ne_eq, not_false_eq_true, if_true]

theorem liveLocalBits_of_map (o : ClassOracle) (vd : VerifyData) (target : Nat)
    (h : (o.j9localmap_LocalBitsForPC vd.romMethod target).1 = 0) :
    liveLocalBits o vd target = (o.j9localmap_LocalBitsForPC vd.romMethod target).2 % U32_RANGE := by
  unfold liveLocalBits
  simp only [h, ne_eq, not_true_eq_false, if_false]

/-- C34: in the loop of `mergeStacks`, for a local slot (index below 32, the case
of at most 32 locals) whose source and target words differ, are both references
other than `null`, the target not being `java/lang/Object`: with
`J9_VERIFY_OPTIMIZE` set and at most 32 locals, when the local map has the bit of
the local clear at the target PC the slot gets `top` and `rewalk = TRUE` is
executed, the verifier state being as before (`mergeObjectTypes` is not called);
when the bit is set, or `j9localmap_LocalBitsForPC` fails, the body is the call of
`mergeObjectTypes` followed by the test of its return code.  With the flag clear
or more than 32 locals the body is that call, whatever the local map says.  For a
call on a reached target that returns `BCV_SUCCESS`, a dead local leaves `top` in
the stored frame and `BRANCH_ON_REWALK_QUEUE` in `bytecodeMap[target]`. -/
theorem liveness_filter_on_locals (o : ClassOracle) (vd : VerifyData) (target index : Nat)
    (sourceItem targetItem : Nat)
    (hlocal : (index : Int) < vd.liveStack.stackBaseIndex) (hne : sourceItem ≠ targetItem)
    (href : (sourceItem ||| targetItem) &&& BCV_BASE_OR_SPECIAL = 0)
    (hsource : sourceItem ≠ BCV_BASE_TYPE_NULL) (htarget : targetItem ≠ BCV_BASE_TYPE_NULL)
    (hobject : targetItem ≠ BCV_JAVA_LANG_OBJECT_INDEX <<< BCV_CLASS_INDEX_SHIFT) :
    (vd.optimize = true ∧ vd.romMethod.argCount + vd.romMethod.tempCount ≤ 32 → index < 32 →
      ((o.j9localmap_LocalBitsForPC vd.romMethod target).1 = 0 →
        (o.j9localmap_LocalBitsForPC vd.romMethod target).2 % U32_RANGE &&& (1 <<< index) = 0 →
        mergeSlot o vd target index sourceItem targetItem =
          some (SlotOutcome.merged BCV_BASE_TYPE_TOP true vd)) ∧
      ((o.j9localmap_LocalBitsForPC vd.romMethod target).1 = 0 →
        (o.j9localmap_LocalBitsForPC vd.romMethod target).2 % U32_RANGE &&& (1 <<< index) ≠ 0 →
        mergeSlot o vd target index sourceItem targetItem =
          afterMergeObjectTypes (mergeObjectTypes o vd sourceItem targetItem)) ∧
      ((o.j9localmap_LocalBitsForPC vd.romMethod target).1 ≠ 0 →
        mergeSlot o vd target index sourceItem targetItem =
          afterMergeObjectTypes (mergeObjectTypes o vd sourceItem targetItem))) ∧
    (¬ (vd.optimize = true ∧ vd.romMethod.argCount + vd.romMethod.tempCount ≤ 32) →
      mergeSlot o vd target index sourceItem targetItem =
        afterMergeObjectTypes (mergeObjectTypes o vd sourceItem targetItem)) ∧
    (∀ (v : Nat) (targetStack : J9BranchTargetStack) (vd1 : VerifyData),
      vd.bytecodeMap[target]? = some v →
      vd.stackMaps[v >>> BRANCH_INDEX_SHIFT]? = some targetStack →
      targetStack.stackBaseIndex ≠ -1 → (index : Int) < vd.liveStack.stackTopIndex →
      vd.liveStack.stackElements (index : Int) = sourceItem →
      targetStack.stackElements (index : Int) = targetItem →
      vd.optimize = true ∧ vd.romMethod.argCount + vd.romMethod.tempCount ≤ 32 → index < 32 →
      (o.j9localmap_LocalBitsForPC vd.romMethod target).1 = 0 →
      (o.j9localmap_LocalBitsForPC vd.romMethod target).2 % U32_RANGE &&& (1 <<< index) = 0 →
      mergeStacks o vd target = some (RC.BCV_SUCCESS, vd1) →
      ∃ f v1, vd1.stackMaps[v >>> BRANCH_INDEX_SHIFT]? = some f ∧
        vd1.bytecodeMap[target]? = some v1 ∧
        f.stackElements (index : Int) = BCV_BASE_TYPE_TOP ∧
        v1 &&& BRANCH_ON_REWALK_QUEUE ≠ 0) := by
  have hcases : ∀ vd0 : VerifyData, (index : Int) < vd0.liveStack.stackBaseIndex →
      (¬ (vd0.optimize = true ∧ vd0.romMethod.argCount + vd0.romMethod.tempCount ≤ 32) →
        mergeSlot o vd0 target index sourceItem targetItem =
          afterMergeObjectTypes (mergeObjectTypes o vd0 sourceItem targetItem)) ∧
      (vd0.optimize = true ∧ vd0.romMethod.argCount + vd0.romMethod.tempCount ≤ 32 →
        index < 32 →
        mergeSlot o vd0 target index sourceItem targetItem =
          if liveLocalBits o vd0 target &&& (1 <<< index) ≠ 0 then
            afterMergeObjectTypes (mergeObjectTypes o vd0 sourceItem targetItem)
          else some (SlotOutcome.merged BCV_BASE_TYPE_TOP true vd0)) := fun vd0 h0 =>
    (mergeSlot_local_references o vd0 target index sourceItem targetItem h0 hne href).2.2.2
      hsource hobject htarget
  refine ⟨?_, (hcases vd hlocal).1, ?_⟩
  · intro hopt h32
    have hslot := (hcases vd hlocal).2 hopt h32
    refine ⟨?_, ?_, ?_⟩
    · intro hmap hbit
      rw [hslot, liveLocalBits_of_map o vd target hmap, if_neg (not_not.mpr hbit)]
    · intro hmap hbit
      rw [hslot, liveLocalBits_of_map o vd target hmap, if_pos hbit]
    · intro herr
      rw [hslot, liveLocalBits_of_error o vd target herr, if_pos (all_bits_live index h32)]
  · intro v targetStack vd1 hv hframe hbase htop hs ht hopt h32 hmap hbit h
    obtain ⟨f, v1, hf, hv1, _, _, _, hin, _⟩ := mergeStacks_slot hv hframe hbase h
    obtain ⟨names, value, signal, vdAfter, hm, hval, hsig⟩ := hin index htop
    rw [hs, ht] at hm
    have hslot := (hcases { vd with classNameList := names } hlocal).2 hopt h32
    have hbits : liveLocalBits o { vd with classNameList := names } target =
        (o.j9localmap_LocalBitsForPC vd.romMethod target).2 % U32_RANGE :=
      liveLocalBits_of_map o { vd with classNameList := names } target hmap
    rw [hslot, hbits, if_neg (not_not.mpr hbit)] at hm
    simp only [Option.some.injEq, SlotOutcome.merged.injEq] at hm
    obtain ⟨h1, h2, _⟩ := hm
    exact ⟨f, v1, hf, hv1, by rw [hval, ← h1], hsig h2.symm⟩

theorem liveness_filter_on_locals_witness :
    mergeSlot exampleOracle { mergeVerifyData with optimize := true } 0 1 0x20 0x10 =
      some (SlotOutcome.merged BCV_BASE_TYPE_TOP true { mergeVerifyData with optimize := true }) :=
  ((liveness_filter_on_locals exampleOracle { mergeVerifyData with optimize := true } 0 1 0x20 0x10
    (by decide) (by decide) (by decide) (by decide) (by decide) (by decide)).1
    ⟨rfl, by decide⟩ (by decide)).1 (by decide) (by decide)

/-! ## mergeStacks: a primitive or special word on the operand stack -/

/-- C40: in the loop of `mergeStacks`, for a slot of the operand stack whose source
and target words differ, one of them primitive or special (a bit of
`BCV_BASE_OR_SPECIAL`), the body leaves the target word, does not execute
`rewalk = TRUE` and leaves the verifier state as it is.  In a call on a reached
target that returns `BCV_SUCCESS` the stored frame holds the old word in that slot;
and when every slot below the stack top either holds the same word in both frames
or is such a slot, the call returns `BCV_SUCCESS` and changes nothing: no slot, no
flag, no queue, no error field. -/
theorem stack_mismatch_keeps_target (o : ClassOracle) (vd : VerifyData) (target : Nat) :
    (∀ (index sourceItem targetItem : Nat), vd.liveStack.stackBaseIndex ≤ (index : Int) →
      sourceItem ≠ targetItem → (sourceItem ||| targetItem) &&& BCV_BASE_OR_SPECIAL ≠ 0 →
      mergeSlot o vd target index sourceItem targetItem =
        some (SlotOutcome.merged targetItem false vd)) ∧
    (∀ (v index : Nat) (targetStack : J9BranchTargetStack) (vd1 : VerifyData),
      vd.bytecodeMap[target]? = some v →
      vd.stackMaps[v >>> BRANCH_INDEX_SHIFT]? = some targetStack →
      targetStack.stackBaseIndex ≠ -1 →
      vd.liveStack.stackBaseIndex ≤ (index : Int) → (index : Int) < vd.liveStack.stackTopIndex →
      (vd.liveStack.stackElements (index : Int) ||| targetStack.stackElements (index : Int)) &&&
        BCV_BASE_OR_SPECIAL ≠ 0 →
      mergeStacks o vd target = some (RC.BCV_SUCCESS, vd1) →
      ∃ f, vd1.stackMaps[v >>> BRANCH_INDEX_SHIFT]? = some f ∧
        f.stackElements (index : Int) = targetStack.stackElements (index : Int)) ∧
    (∀ (v : Nat) (targetStack : J9BranchTargetStack),
      vd.bytecodeMap[target]? = some v →
      vd.stackMaps[v >>> BRANCH_INDEX_SHIFT]? = some targetStack →
      targetStack.stackBaseIndex ≠ -1 →
      targetStack.stackTopIndex = vd.liveStack.stackTopIndex →
      0 ≤ vd.liveStack.stackTopIndex →
      (∀ j : Nat, (j : Int) < vd.liveStack.stackTopIndex →
        vd.liveStack.stackElements (j : Int) = targetStack.stackElements (j : Int) ∨
        (vd.liveStack.stackBaseIndex ≤ (j : Int) ∧
          (vd.liveStack.stackElements (j : Int) ||| targetStack.stackElements (j : Int)) &&&
            BCV_BASE_OR_SPECIAL ≠ 0)) →
      mergeStacks o vd target = some (RC.BCV_SUCCESS, vd)) := by
  refine ⟨?_, ?_, ?_⟩
  · intro index sourceItem targetItem hstack _ hmixed
    exact mergeSlot_stack_mixed o vd target index sourceItem targetItem (not_lt.mpr hstack) hmixed
  · intro v index targetStack vd1 hv hframe hbase hstack htop hmixed h
    obtain ⟨f, v1, hf, _, _, _, _, hin, _⟩ := mergeStacks_slot hv hframe hbase h
    obtain ⟨names, value, signal, vdAfter, hm, hval, _⟩ := hin index htop
    rw [mergeSlot_stack_mixed o { vd with classNameList := names } target index _ _
      (not_lt.mpr hstack) hmixed] at hm
    simp only [Option.some.injEq, SlotOutcome.merged.injEq] at hm
    exact ⟨f, hf, by rw [hval, ← hm.1]⟩
  · intro v targetStack hv hframe hbase htop h0 hslots
    apply mergeStacks_again o vd target v targetStack hv hframe hbase htop h0
    intro j hj
    rcases hslots j (by omega) with heq | ⟨hstack, hmixed⟩
    · rw [heq]
      exact mergeSlot_same o vd target j _
    · exact mergeSlot_stack_mixed o vd target j _ _ (not_lt.mpr hstack) hmixed

theorem stack_mismatch_keeps_target_witness :
    mergeStacks latticeOracle mixedStackData 0 = some (RC.BCV_SUCCESS, mixedStackData) :=
  (stack_mismatch_keeps_target latticeOracle mixedStackData 0).2.2 0x01
    (exampleFrame 0 2 3 [0x11, 0x10, 0x10]) rfl rfl (by decide) rfl (by decide)
    (fun j hj => by
      have h3 : j < 3 := by
        have h := hj
        change (j : Int) < 3 at h
        omega
      interval_cases j
      · exact Or.inl rfl
      · exact Or.inl rfl
      · exact Or.inr ⟨by decide, by decide⟩)

/-! ## parseLocals: appending entries and chopping them again -/

theorem expandWide_append (es fs : List Nat) :
    expandWide (es ++ fs) = expandWide es ++ expandWide fs := by
  induction es with
  | nil => rfl
  | cons e es ih =>
    by_cases h : isWide e = true
    · show expandWide (e :: (es ++ fs)) = expandWide (e :: es) ++ expandWide fs
      simp only [expandWide, h, if_true, ih, List.cons_append]
    · show expandWide (e :: (es ++ fs)) = expandWide (e :: es) ++ expandWide fs
      simp only [expandWide, h, if_false, ih, Bool.false_eq_true, List.cons_append]

theorem isWide_top : isWide BCV_BASE_TYPE_TOP = false := by decide

/-- The last slot that a list of entries occupies holds neither long nor double. -/
theorem expandWide_last (es : List Nat) :
    0 < (expandWide es).length →
      isWide ((expandWide es).getD ((expandWide es).length - 1) 0) = false := by
  induction es using List.reverseRecOn with
  | nil => intro h; simp [expandWide] at h
  | append_singleton es e _ =>
    intro _
    rw [expandWide_append]
    by_cases h : isWide e = true
    · have he : expandWide [e] = [e, BCV_BASE_TYPE_TOP] := by simp [expandWide, h]
      rw [he, List.length_append]
      have hidx : (expandWide es).length + [e, BCV_BASE_TYPE_TOP].length - 1 =
          (expandWide es).length + 1 := rfl
      rw [hidx, List.getD_append_right _ _ _ _ (by omega)]
      have h1 : (expandWide es).length + 1 - (expandWide es).length = 1 := by omega
      rw [h1]
      exact isWide_top
    · have he : expandWide [e] = [e] := by simp [expandWide, h]
      rw [he, List.length_append]
      have hidx : (expandWide es).length + [e].length - 1 = (expandWide es).length := rfl
      rw [hidx, List.getD_append_right _ _ _ _ (by omega)]
      simpa using h

/-- Chopping as many locals as entries were appended gives back the count before
the append, when the slot beneath the appended ones holds neither long nor
double. -/
theorem chopSpec_appended (es : List Nat) :
    ∀ (s : Int → Nat) (c0 : Int), 0 ≤ c0 → (0 < c0 → isWide (s (c0 - 1)) = false) →
      (∀ i : Nat, i < (expandWide es).length → s (c0 + i) = (expandWide es).getD i 0) →
      (chopSpec es.length (c0 + (expandWide es).length) s).1 = c0 := by
  induction es using List.reverseRecOn with
  | nil =>
    intro s c0 _ _ _
    simp [expandWide, chopSpec]
  | append_singleton es e ih =>
    intro s c0 h0 hbelow hs
    rw [expandWide_append] at hs ⊢
    rw [List.length_append, List.length_singleton]
    simp only [chopSpec]
    have hprefix : ∀ i : Nat, i < (expandWide es).length →
        s (c0 + i) = (expandWide es).getD i 0 := by
      intro i hi
      rw [hs i (by rw [List.length_append]; omega), List.getD_append _ _ _ _ hi]
    have hbeneath : 0 < c0 + (expandWide es).length →
        isWide (s (c0 + (expandWide es).length - 1)) = false := by
      intro hpos
      rcases Nat.eq_zero_or_pos (expandWide es).length with hz | hp
      · rw [hz] at hpos ⊢
        simp only [Nat.cast_zero, add_zero] at hpos ⊢
        exact hbelow hpos
      · have e1 : c0 + ((expandWide es).length : Int) - 1 =
            c0 + (((expandWide es).length - 1 : Nat) : Int) := by omega
        rw [e1, hprefix _ (by omega)]
        exact expandWide_last es hp
    by_cases h : isWide e = true
    · have he : expandWide [e] = [e, BCV_BASE_TYPE_TOP] := by simp [expandWide, h]
      rw [he] at hs ⊢
      have hse : s (c0 + (expandWide es).length) = e := by
        have := hs (expandWide es).length (by rw [List.length_append]; simp)
        rw [List.getD_append_right _ _ _ _ (by omega)] at this
        simpa using this
      have hone : chopOneLocal (c0 + ((expandWide es ++ [e, BCV_BASE_TYPE_TOP]).length : Nat)) s =
          (c0 + (expandWide es).length,
            Function.update (Function.update s (c0 + (expandWide es).length + 1) BCV_BASE_TYPE_TOP)
              (c0 + (expandWide es).length) BCV_BASE_TYPE_TOP) := by
        unfold chopOneLocal
        dsimp only
        have e1 : c0 + ((expandWide es ++ [e, BCV_BASE_TYPE_TOP]).length : Nat) - 1 =
            c0 + (expandWide es).length + 1 := by
          rw [List.length_append]; simp; omega
        have e2 : c0 + ((expandWide es ++ [e, BCV_BASE_TYPE_TOP]).length : Nat) - 2 =
            c0 + (expandWide es).length := by
          rw [List.length_append]; simp; omega
        rw [e1, e2, Function.update_noteq (by omega), hse, if_pos ⟨by omega, h⟩]
      rw [hone]
      apply ih _ c0 h0
      · intro hpos
        show isWide (Function.update (Function.update s _ _) _ _ (c0 - 1)) = false
        rw [Function.update_noteq (by omega), Function.update_noteq (by omega)]
        exact hbelow hpos
      · intro i hi
        show Function.update (Function.update s _ _) _ _ (c0 + (i : Int)) = _
        rw [Function.update_noteq (by omega), Function.update_noteq (by omega)]
        exact hprefix i hi
    · have he : expandWide [e] = [e] := by simp [expandWide, h]
      rw [he] at hs ⊢
      have hone : chopOneLocal (c0 + ((expandWide es ++ [e]).length : Nat)) s =
          (c0 + (expandWide es).length,
            Function.update s (c0 + (expandWide es).length) BCV_BASE_TYPE_TOP) := by
        unfold chopOneLocal
        dsimp only
        have e1 : c0 + ((expandWide es ++ [e]).length : Nat) - 1 =
            c0 + (expandWide es).length := by
          rw [List.length_append]; simp; omega
        have e2 : c0 + ((expandWide es ++ [e]).length : Nat) - 2 =
            c0 + (expandWide es).length - 1 := by
          rw [List.length_append]; simp; omega
        rw [e1, e2, Function.update_noteq (by omega), if_neg]
        rintro ⟨hpos, hw⟩
        rw [hbeneath (by omega)] at hw
        cases hw
      rw [hone]
      apply ih _ c0 h0
      · intro hpos
        show isWide (Function.update s _ _ (c0 - 1)) = false
        rw [Function.update_noteq (by omega)]
        exact hbelow hpos
      · intro i hi
        show Function.update s _ _ (c0 + (i : Int)) = _
        rw [Function.update_noteq (by omega)]
        exact hprefix i hi

/-- C39: `parseLocals` round trip.  For a live stack with `c0` locals in which each
slot holding long or double is followed, among the locals, by a slot holding `top`,
and `k` stack-map entries (any `k`, in particular `k <= 3`) whose slots fit below
`maxLocals`: the call with `localDelta = k` returns the count `c0` plus the slots of
the entries, and the call with `localDelta = -k` on its result returns `c0`.  After
the two calls the slots below `c0` hold what they held, every slot from `c0` up to the
end of the locals (the appended slots and the slots below `stackBaseIndex`) holds
`top`, and the slots above the locals hold what they held. -/
theorem parseLocals_append_then_chop (c : Collaborators) (vd : VerifyData) (data : Nat → Nat)
    (idx k : Nat) (c0 maxLocals : Int)
    (h0 : 0 ≤ c0) (hmax : maxLocals < UDATA_RANGE)
    (hbase0 : 0 ≤ vd.liveStack.stackBaseIndex)
    (hbase1 : vd.liveStack.stackBaseIndex < UDATA_RANGE)
    (hwide : ∀ i : Int, 0 ≤ i → i < c0 → isWide (vd.liveStack.stackElements i) = true →
      i + 1 < c0 ∧ vd.liveStack.stackElements (i + 1) = BCV_BASE_TYPE_TOP)
    (hfit : c0 + (expandWide (elementsAt c data k vd.classNameList idx).1).length ≤ maxLocals) :
    ∃ idx1 vd1 vd2,
      parseLocals c vd data idx (k : Int) c0 maxLocals =
        (LocalsResult.localsCount
          (c0 + (expandWide (elementsAt c data k vd.classNameList idx).1).length), idx1, vd1) ∧
      parseLocals c vd1 data idx1 (-(k : Int))
          (c0 + (expandWide (elementsAt c data k vd.classNameList idx).1).length) maxLocals =
        (LocalsResult.localsCount c0, idx1, vd2) ∧
      (∀ i : Int, i < c0 →
        vd2.liveStack.stackElements i = vd.liveStack.stackElements i) ∧
      (∀ i : Int, c0 ≤ i →
        (i < c0 + (expandWide (elementsAt c data k vd.classNameList idx).1).length ∨
          i < vd.liveStack.stackBaseIndex) →
        vd2.liveStack.stackElements i = BCV_BASE_TYPE_TOP) ∧
      (∀ i : Int, c0 + (expandWide (elementsAt c data k vd.classNameList idx).1).length ≤ i →
        vd.liveStack.stackBaseIndex ≤ i →
        vd2.liveStack.stackElements i = vd.liveStack.stackElements i) := by
  have hk : ((k : Int)).natAbs = k := Int.natAbs_ofNat k
  have hnk : (-(k : Int)).natAbs = k := by rw [Int.natAbs_neg, Int.natAbs_ofNat]
  rcases parseLocals_append_cases c vd data idx (k : Int) c0 maxLocals (by omega) with
    ⟨_, heq⟩ | ⟨⟨hne, hov⟩, _⟩
  swap
  · rw [hk] at hov
    omega
  rw [hk] at heq
  generalize hL : expandWide (elementsAt c data k vd.classNameList idx).1 = L at heq hfit ⊢
  have hslots1 : ∀ j : Int,
      clearLocals
          ((toUDATA (vd.liveStack.stackBaseIndex - (c0 + L.length)) + toUDATA (c0 + L.length))
            % UDATA_RANGE - toUDATA (c0 + L.length))
          (toUDATA (c0 + L.length)) (writeSlots vd.liveStack.stackElements c0 L) j =
        if c0 + L.length ≤ j ∧ j < vd.liveStack.stackBaseIndex then BCV_BASE_TYPE_TOP
        else if c0 ≤ j ∧ j < c0 + L.length then L.getD (j - c0).toNat 0
        else vd.liveStack.stackElements j := by
    intro j
    rw [clearLocals_range _ _ _ (by omega) (by omega) hbase0 hbase1, writeSlots_apply]
  have hlen : (elementsAt c data k vd.classNameList idx).1.length = k :=
    elementsAt_length c data k vd.classNameList idx
  obtain ⟨idx1, vd1, heq1, hs1, hb1⟩ : ∃ idx1 vd1,
      parseLocals c vd data idx (k : Int) c0 maxLocals =
        (LocalsResult.localsCount (c0 + L.length), idx1, vd1) ∧
      (∀ j : Int, vd1.liveStack.stackElements j =
        if c0 + L.length ≤ j ∧ j < vd.liveStack.stackBaseIndex then BCV_BASE_TYPE_TOP
        else if c0 ≤ j ∧ j < c0 + L.length then L.getD (j - c0).toNat 0
        else vd.liveStack.stackElements j) ∧
      vd1.liveStack.stackBaseIndex = vd.liveStack.stackBaseIndex :=
    ⟨_, _, heq, hslots1, rfl⟩
  clear heq hslots1
  by_cases hzero : k = 0
  · subst hzero
    have hnil : L = [] := by rw [← hL]; rfl
    subst hnil
    rcases parseLocals_append_cases c vd1 data idx1 (-((0 : Nat) : Int))
        (c0 + ([] : List Nat).length) maxLocals (by simp) with ⟨_, heq2⟩ | ⟨⟨hne, _⟩, _⟩
    swap
    · exact absurd rfl hne
    have e0 : (-((0 : Nat) : Int)).natAbs = 0 := rfl
    rw [e0] at heq2
    have hnil2 : expandWide (elementsAt c data 0 vd1.classNameList idx1).1 = [] := rfl
    rw [hnil2] at heq2
    simp only [List.length_nil, Nat.cast_zero, add_zero, neg_zero] at heq1 heq2 hs1 ⊢
    refine ⟨idx1, vd1, _, heq1, heq2, ?_, ?_, ?_⟩
    · intro i hi
      show clearLocals _ _ _ i = _
      rw [clearLocals_range _ _ _ h0 (by omega) (by omega) (by omega), writeSlots_apply, hb1,
        hs1]
      simp only [List.length_nil, Nat.cast_zero, add_zero]
      split_ifs <;> first | rfl | omega
    · intro i hi hor
      show clearLocals _ _ _ i = _
      rw [clearLocals_range _ _ _ h0 (by omega) (by omega) (by omega), writeSlots_apply, hb1,
        hs1]
      simp only [List.length_nil, Nat.cast_zero, add_zero]
      split_ifs <;> first | rfl | omega
    · intro i hi hbase
      show clearLocals _ _ _ i = _
      rw [clearLocals_range _ _ _ h0 (by omega) (by omega) (by omega), writeSlots_apply, hb1,
        hs1]
      simp only [List.length_nil, Nat.cast_zero, add_zero]
      split_ifs <;> first | rfl | omega
  · have hchop : (chopSpec k (c0 + L.length) vd1.liveStack.stackElements).1 = c0 := by
      have h := chopSpec_appended (elementsAt c data k vd.classNameList idx).1
        vd1.liveStack.stackElements c0 h0
        (by
          intro hpos
          rw [hs1, if_neg (by omega), if_neg (by omega)]
          by_contra hw
          have hw1 : isWide (vd.liveStack.stackElements (c0 - 1)) = true := by
            simpa using hw
          have := (hwide (c0 - 1) (by omega) (by omega) hw1).1
          omega)
        (by
          rw [hL]
          intro i hi
          rw [hs1, if_neg (by omega), if_pos (by omega)]
          congr 1
          omega)
      rw [hL, hlen] at h
      exact h
    rcases parseLocals_chop_cases c vd1 data idx1 (-(k : Int)) (c0 + L.length) maxLocals
        (by omega) (by omega) with ⟨hneg, _⟩ | ⟨_, heq2⟩
    · rw [hnk, hchop] at hneg
      omega
    rw [hnk, hchop] at heq2
    refine ⟨idx1, vd1, _, heq1, heq2, ?_, ?_, ?_⟩
    · intro i hi
      show (chopSpec k (c0 + L.length) vd1.liveStack.stackElements).2 i = _
      rw [chopSpec_slots, hchop, hs1]
      split_ifs <;> first | rfl | omega
    · intro i hi hor
      show (chopSpec k (c0 + L.length) vd1.liveStack.stackElements).2 i = _
      rw [chopSpec_slots, hchop, hs1]
      split_ifs <;> first | rfl | omega
    · intro i hi hbase
      show (chopSpec k (c0 + L.length) vd1.liveStack.stackElements).2 i = _
      rw [chopSpec_slots, hchop, hs1]
      split_ifs <;> first | rfl | omega

theorem parseLocals_append_then_chop_witness :
    ∃ idx1 vd1 vd2,
      parseLocals exampleCollaborators roundTripData (mapBytes roundTripBytes) 0 ((2 : Nat) : Int)
          1 4 =
        (LocalsResult.localsCount
          (1 + (expandWide (elementsAt exampleCollaborators (mapBytes roundTripBytes) 2
            roundTripData.classNameList 0).1).length), idx1, vd1) ∧
      parseLocals exampleCollaborators vd1 (mapBytes roundTripBytes) idx1 (-((2 : Nat) : Int))
          (1 + (expandWide (elementsAt exampleCollaborators (mapBytes roundTripBytes) 2
            roundTripData.classNameList 0).1).length) 4 =
        (LocalsResult.localsCount 1, idx1, vd2) ∧
      (∀ i : Int, i < 1 →
        vd2.liveStack.stackElements i = roundTripData.liveStack.stackElements i) ∧
      (∀ i : Int, 1 ≤ i →
        (i < 1 + (expandWide (elementsAt exampleCollaborators (mapBytes roundTripBytes) 2
            roundTripData.classNameList 0).1).length ∨
          i < roundTripData.liveStack.stackBaseIndex) →
        vd2.liveStack.stackElements i = BCV_BASE_TYPE_TOP) ∧
      (∀ i : Int, 1 + (expandWide (elementsAt exampleCollaborators (mapBytes roundTripBytes) 2
            roundTripData.classNameList 0).1).length ≤ i →
        roundTripData.liveStack.stackBaseIndex ≤ i →
        vd2.liveStack.stackElements i = roundTripData.liveStack.stackElements i) :=
  parseLocals_append_then_chop exampleCollaborators roundTripData (mapBytes roundTripBytes) 0 2 1 4
    (by decide) (by rw [udata_range_eq]; decide) (by decide) (by rw [udata_range_eq]; decide)
    (fun i h0 h1 hw => by
      have hi : i = 0 := by omega
      subst hi
      exact absurd hw (by decide))
    (by decide)

/-! ## The fallback criteria of j9bcv_verifyBytecodes -/

theorem runMapPass_events {c : Collaborators} {p : Passes} {created : Bool} {src : MapSource}
    {argCount : Nat} {vd vd' : VerifyData} {result : RC} {called : List Event}
    (h : runMapPass c p created src argCount vd = some (result, vd', called)) :
    called.count Event.fallBack = 0 := by
  unfold runMapPass at h
  split_ifs at h
  · simp only [Option.some.injEq, Prod.mk.injEq] at h
    rw [← h.2.2]
    rfl
  · split at h
    · cases h
    · simp only [Option.some.injEq, Prod.mk.injEq] at h
      rw [← h.2.2]
      rfl
  · simp only [Option.some.injEq, Prod.mk.injEq] at h
    rw [← h.2.2]
    rfl

theorem runSecondPass_events (p : Passes) (hasClazz isInitMethod : Bool) (result : RC)
    (vd : VerifyData) :
    (runSecondPass p hasClazz isInitMethod result vd).2.2.count Event.fallBack = 0 := by
  unfold runSecondPass
  split_ifs <;> rfl

/-- Every way in which one pass through the method body ends. -/
theorem verifyAttempt_cases {c : Collaborators} {p : Passes} {romClass : J9ROMClass}
    {hasClazz : Bool} {flags : VerificationFlags} {ds : DriverState} {out : AttemptOutcome}
    (h : verifyAttempt c p romClass hasClazz flags ds = some out) :
    (∃ ds', out = AttemptOutcome.exit LoopExit.nextMethod ds' ∧ ds'.result = RC.BCV_SUCCESS ∧
      ds'.events.count Event.fallBack = ds.events.count Event.fallBack) ∨
    (∃ ds', out = AttemptOutcome.exit LoopExit.done ds' ∧
      (ds'.result = RC.BCV_ERR_INTERNAL_ERROR ∨ ds'.result = RC.BCV_ERR_INSUFFICIENT_MEMORY) ∧
      ds'.events.count Event.fallBack = ds.events.count Event.fallBack) ∨
    (∃ ds' vd, out = AttemptOutcome.fallBack ds' ∧
      ds'.verifyData = resetForFallBack p vd ∧
      ds'.result ≠ RC.BCV_SUCCESS ∧ ds'.result ≠ RC.BCV_ERR_INSUFFICIENT_MEMORY ∧
      ds'.events.count Event.fallBack = ds.events.count Event.fallBack + 1 ∧
      romClass.majorVersion < CFR_MAJOR_VERSION_REQUIRING_STACKMAPS ∧
      createStackMaps romClass ds.verifyData = false ∧ flags.noFallback = false) := by
  have hev : (if createStackMaps romClass ds.verifyData = true then
      ds.events ++ [Event.buildBranchMap] else ds.events).count Event.fallBack =
      ds.events.count Event.fallBack := by
    split_ifs
    · rw [List.count_append]; rfl
    · rfl
  unfold verifyAttempt at h
  dsimp only at h
  generalize (if createStackMaps romClass ds.verifyData = true then
      ds.events ++ [Event.buildBranchMap] else ds.events) = events at h hev
  rcases hprep : prepareMaps c romClass ds.verifyData with _ | ⟨vdE | ⟨vd1, src⟩⟩
  · rw [hprep] at h; cases h
  · rw [hprep] at h
    simp only [Option.some.injEq] at h
    exact Or.inr (Or.inl ⟨_, h.symm, Or.inl rfl, hev⟩)
  rw [hprep] at h
  dsimp only at h
  rcases hset : setUpFrames p (createStackMaps romClass ds.verifyData) vd1 with
    _ | ⟨vdE | ⟨vd2, sig⟩⟩
  · rw [hset] at h; cases h
  · rw [hset] at h
    simp only [Option.some.injEq] at h
    exact Or.inr (Or.inl ⟨_, h.symm, Or.inr rfl, hev⟩)
  rw [hset] at h
  dsimp only at h
  rcases hpass : runMapPass c p (createStackMaps romClass ds.verifyData) src sig.argCount vd2 with
    _ | ⟨r1, vd3, ev1⟩
  · rw [hpass] at h; cases h
  rw [hpass] at h
  dsimp only at h
  have hev1 := runMapPass_events hpass
  by_cases hoom : r1 = RC.BCV_ERR_INSUFFICIENT_MEMORY
  · rw [if_pos hoom] at h
    simp only [Option.some.injEq] at h
    refine Or.inr (Or.inl ⟨_, h.symm, Or.inr hoom, ?_⟩)
    show (events ++ ev1).count Event.fallBack = _
    rw [List.count_append, hev1, hev]
    rfl
  rw [if_neg hoom] at h
  have hev2 := runSecondPass_events p hasClazz sig.isInitMethod r1 vd3
  rcases hsecond : runSecondPass p hasClazz sig.isInitMethod r1 vd3 with ⟨r2, vd4, ev2⟩
  rw [hsecond] at h hev2
  dsimp only at h hev2
  have hcount : (events ++ ev1 ++ ev2).count Event.fallBack = ds.events.count Event.fallBack := by
    rw [List.count_append, List.count_append, hev1, hev2, hev]
    rfl
  by_cases hoom2 : r2 = RC.BCV_ERR_INSUFFICIENT_MEMORY
  · rw [if_pos hoom2] at h
    simp only [Option.some.injEq] at h
    exact Or.inr (Or.inl ⟨_, h.symm, Or.inr hoom2, hcount⟩)
  rw [if_neg hoom2] at h
  by_cases hok : r2 = RC.BCV_SUCCESS
  · rw [if_neg (not_not.mpr hok)] at h
    simp only [Option.some.injEq] at h
    exact Or.inl ⟨_, h.symm, hok, hcount⟩
  rw [if_pos hok] at h
  by_cases hstop : (decide (romClass.majorVersion ≥ CFR_MAJOR_VERSION_REQUIRING_STACKMAPS) ||
      createStackMaps romClass ds.verifyData || flags.noFallback) = true
  · rw [if_pos hstop] at h
    simp only [Option.some.injEq] at h
    exact Or.inr (Or.inl ⟨_, h.symm, Or.inl rfl, hcount⟩)
  · rw [if_neg hstop] at h
    simp only [Option.some.injEq] at h
    simp only [Bool.or_eq_true, decide_eq_true_eq, not_or, Bool.not_eq_true, not_le] at hstop
    refine Or.inr (Or.inr ⟨_, vd4, h.symm, rfl, hok, hoom2, ?_, ?_, hstop.1.2, hstop.2⟩)
    · show (events ++ ev1 ++ ev2 ++ [Event.fallBack]).count Event.fallBack = _
      rw [List.count_append, hcount]
      rfl
    · have := hstop.1.1
      omega

/-- One pass through the method body, given what its parts hand on. -/
theorem verifyAttempt_of_parts {c : Collaborators} {p : Passes} {romClass : J9ROMClass}
    {hasClazz : Bool} {flags : VerificationFlags} {ds : DriverState}
    {vd1 : VerifyData} {src : MapSource} {vd2 : VerifyData} {sig : SignatureInfo}
    {r1 : RC} {vd3 : VerifyData} {ev1 : List Event} {r2 : RC} {vd4 : VerifyData}
    {ev2 : List Event}
    (hprep : prepareMaps c romClass ds.verifyData = some (Except.ok (vd1, src)))
    (hset : setUpFrames p (createStackMaps romClass ds.verifyData) vd1 =
      some (Except.ok (vd2, sig)))
    (hpass : runMapPass c p (createStackMaps romClass ds.verifyData) src sig.argCount vd2 =
      some (r1, vd3, ev1))
    (hr1 : r1 ≠ RC.BCV_ERR_INSUFFICIENT_MEMORY)
    (hsecond : runSecondPass p hasClazz sig.isInitMethod r1 vd3 = (r2, vd4, ev2)) :
    verifyAttempt c p romClass hasClazz flags ds =
      some (
        if r2 = RC.BCV_ERR_INSUFFICIENT_MEMORY then
          AttemptOutcome.exit LoopExit.done
            { result := r2, verifyData := vd4
              events := (if createStackMaps romClass ds.verifyData = true then
                ds.events ++ [Event.buildBranchMap] else ds.events) ++ ev1 ++ ev2 }
        else if r2 ≠ RC.BCV_SUCCESS then
          if (decide (romClass.majorVersion ≥ CFR_MAJOR_VERSION_REQUIRING_STACKMAPS) ||
              createStackMaps romClass ds.verifyData || flags.noFallback) = true then
            AttemptOutcome.exit LoopExit.done
              { result := RC.BCV_ERR_INTERNAL_ERROR, verifyData := vd4
                events := (if createStackMaps romClass ds.verifyData = true then
                  ds.events ++ [Event.buildBranchMap] else ds.events) ++ ev1 ++ ev2 }
          else
            AttemptOutcome.fallBack
              { result := r2, verifyData := resetForFallBack p vd4
                events := (if createStackMaps romClass ds.verifyData = true then
                  ds.events ++ [Event.buildBranchMap] else ds.events) ++ ev1 ++ ev2 ++
                    [Event.fallBack] }
        else
          AttemptOutcome.exit LoopExit.nextMethod
            { result := r2, verifyData := vd4
              events := (if createStackMaps romClass ds.verifyData = true then
                ds.events ++ [Event.buildBranchMap] else ds.events) ++ ev1 ++ ev2 }) := by
  unfold verifyAttempt
  simp only [hprep, hset, hpass, hsecond, if_neg hr1]
  split_ifs <;> rfl

/-- After `goto _fallBack` the maps are created whenever the class-file version
leaves them optional. -/
theorem createStackMaps_after_reset (p : Passes) (romClass : J9ROMClass) (vd : VerifyData)
    (hversion : romClass.majorVersion < CFR_MAJOR_VERSION_REQUIRING_STACKMAPS) :
    createStackMaps romClass (resetForFallBack p vd) = true := by
  unfold createStackMaps resetForFallBack
  simp only [Bool.true_or, Bool.and_true, Bool.not_eq_true', decide_eq_false_iff_not, not_le,
    ge_iff_le]
  exact hversion

/-- The pass entered by `goto _fallBack` does not jump to `_fallBack` again. -/
theorem verifyAttempt_after_fallBack {c : Collaborators} {p : Passes} {romClass : J9ROMClass}
    {hasClazz : Bool} {flags : VerificationFlags} {ds ds1 : DriverState}
    (h : verifyAttempt c p romClass hasClazz flags ds = some (AttemptOutcome.fallBack ds1)) :
    createStackMaps romClass ds1.verifyData = true ∧
    ∀ ds2, verifyAttempt c p romClass hasClazz flags ds1 ≠ some (AttemptOutcome.fallBack ds2) := by
  have hcreated : createStackMaps romClass ds1.verifyData = true := by
    rcases verifyAttempt_cases h with ⟨_, ho, _⟩ | ⟨_, ho, _⟩ | ⟨ds', vd, ho, hvd, _, _, _, hver, _⟩
    · cases ho
    · cases ho
    · cases ho
      rw [hvd]
      exact createStackMaps_after_reset p romClass vd hver
  refine ⟨hcreated, ?_⟩
  intro ds2 h2
  rcases verifyAttempt_cases h2 with ⟨_, ho, _⟩ | ⟨_, ho, _⟩ | ⟨_, _, _, _, _, _, _, _, hno, _⟩
  · cases ho
  · cases ho
  · rw [hcreated] at hno
    cases hno

/-- Two passes through `_fallBack` are all that can happen. -/
theorem verifyFromFallBack_two (c : Collaborators) (p : Passes) (romClass : J9ROMClass)
    (hasClazz : Bool) (flags : VerificationFlags) (fuel : Nat) (ds : DriverState) :
    verifyFromFallBack c p romClass hasClazz flags (fuel + 2) ds =
      verifyFromFallBack c p romClass hasClazz flags 2 ds := by
  simp only [verifyFromFallBack]
  rcases h : verifyAttempt c p romClass hasClazz flags ds with _ | ⟨how, ds'⟩ | ds1
  · rfl
  · rfl
  · dsimp only
    cases fuel with
    | zero => rfl
    | succ fuel =>
      simp only [verifyFromFallBack]
      rcases h1 : verifyAttempt c p romClass hasClazz flags ds1 with _ | ⟨how, ds'⟩ | ds2
      · rfl
      · rfl
      · exact absurd h1 ((verifyAttempt_after_fallBack h).2 ds2)

/-- How the part of the method body from `_fallBack` on ends. -/
theorem verifyFromFallBack_cases {c : Collaborators} {p : Passes} {romClass : J9ROMClass}
    {hasClazz : Bool} {flags : VerificationFlags} {ds ds' : DriverState} {how : LoopExit}
    (h : verifyFromFallBack c p romClass hasClazz flags 2 ds = some (how, ds')) :
    ((how = LoopExit.nextMethod ∧ ds'.result = RC.BCV_SUCCESS) ∨
      (how = LoopExit.done ∧
        (ds'.result = RC.BCV_ERR_INTERNAL_ERROR ∨
          ds'.result = RC.BCV_ERR_INSUFFICIENT_MEMORY))) ∧
    ds'.events.count Event.fallBack ≤ ds.events.count Event.fallBack + 1 ∧
    (romClass.majorVersion ≥ CFR_MAJOR_VERSION_REQUIRING_STACKMAPS ∨ flags.noFallback = true ∨
        createStackMaps romClass ds.verifyData = true →
      verifyAttempt c p romClass hasClazz flags ds = some (AttemptOutcome.exit how ds') ∧
      ds'.events.count Event.fallBack = ds.events.count Event.fallBack) := by
  have hexit : ∀ {d d' : DriverState} {hw : LoopExit},
      verifyAttempt c p romClass hasClazz flags d = some (AttemptOutcome.exit hw d') →
      ((hw = LoopExit.nextMethod ∧ d'.result = RC.BCV_SUCCESS) ∨
        (hw = LoopExit.done ∧
          (d'.result = RC.BCV_ERR_INTERNAL_ERROR ∨
            d'.result = RC.BCV_ERR_INSUFFICIENT_MEMORY))) ∧
      d'.events.count Event.fallBack = d.events.count Event.fallBack := by
    intro d d' hw hd
    rcases verifyAttempt_cases hd with ⟨x, ho, hr, hc⟩ | ⟨x, ho, hr, hc⟩ | ⟨_, _, ho, _⟩
    · cases ho
      exact ⟨Or.inl ⟨rfl, hr⟩, hc⟩
    · cases ho
      exact ⟨Or.inr ⟨rfl, hr⟩, hc⟩
    · cases ho
  simp only [verifyFromFallBack] at h
  rcases h0 : verifyAttempt c p romClass hasClazz flags ds with _ | ⟨hw, d'⟩ | ds1
  · rw [h0] at h; cases h
  · rw [h0] at h
    simp only [Option.some.injEq, Prod.mk.injEq] at h
    obtain ⟨rfl, rfl⟩ := h
    have := hexit h0
    exact ⟨this.1, by omega, fun _ => ⟨rfl, this.2⟩⟩
  · rw [h0] at h
    dsimp only at h
    rcases verifyAttempt_cases h0 with ⟨_, ho, _⟩ | ⟨_, ho, _⟩ |
      ⟨x, vd, ho, _, _, _, hc, hver, hcr, hno⟩
    · cases ho
    · cases ho
    cases ho
    rcases h1 : verifyAttempt c p romClass hasClazz flags ds1 with _ | ⟨hw, d'⟩ | ds2
    · rw [h1] at h; cases h
    · rw [h1] at h
      simp only [Option.some.injEq, Prod.mk.injEq] at h
      obtain ⟨rfl, rfl⟩ := h
      have := hexit h1
      refine ⟨this.1, by omega, ?_⟩
      intro hstop
      exfalso
      rcases hstop with hs | hs | hs
      · omega
      · rw [hno] at hs; cases hs
      · rw [hcr] at hs; cases hs
    · exact absurd h1 ((verifyAttempt_after_fallBack h0).2 ds2)

theorem verifyMethod_cases {c : Collaborators} {p : Passes} {romClass : J9ROMClass}
    {hasClazz : Bool} {flags : VerificationFlags} {m : J9ROMMethod} {ds ds' : DriverState}
    {how : LoopExit}
    (h : verifyMethod c p romClass hasClazz flags m ds = some (how, ds')) :
    (how = LoopExit.nextMethod ∨
      (how = LoopExit.done ∧
        (ds'.result = RC.BCV_ERR_INTERNAL_ERROR ∨
          ds'.result = RC.BCV_ERR_INSUFFICIENT_MEMORY))) ∧
    ds'.events.count Event.fallBack ≤ ds.events.count Event.fallBack + 1 ∧
    (romClass.majorVersion ≥ CFR_MAJOR_VERSION_REQUIRING_STACKMAPS ∨ flags.noFallback = true →
      ds'.events.count Event.fallBack = ds.events.count Event.fallBack) := by
  unfold verifyMethod at h
  dsimp only at h
  split_ifs at h with hbody
  · rcases hl : p.allocLiveStack (enterMethod flags m ds.verifyData) with _ | liveStack
    · rw [hl] at h
      simp only [Option.some.injEq, Prod.mk.injEq] at h
      obtain ⟨rfl, rfl⟩ := h
      exact ⟨Or.inr ⟨rfl, Or.inr rfl⟩, by simp, fun _ => rfl⟩
    · rw [hl] at h
      dsimp only at h
      split_ifs at h
      · have := verifyFromFallBack_cases h
        refine ⟨?_, this.2.1, fun hstop => (this.2.2 ?_).2⟩
        · rcases this.1 with h1 | h1
          · exact Or.inl h1.1
          · exact Or.inr h1
        · rcases hstop with hs | hs
          · exact Or.inl hs
          · exact Or.inr (Or.inl hs)
      · simp only [Option.some.injEq, Prod.mk.injEq] at h
        obtain ⟨rfl, rfl⟩ := h
        exact ⟨Or.inr ⟨rfl, Or.inr rfl⟩, by simp, fun _ => rfl⟩
  · simp only [Option.some.injEq, Prod.mk.injEq] at h
    obtain ⟨rfl, rfl⟩ := h
    exact ⟨Or.inl rfl, by simp, fun _ => rfl⟩

theorem verifyMethods_no_fallBack {c : Collaborators} {p : Passes} {romClass : J9ROMClass}
    {hasClazz : Bool} {flags : VerificationFlags}
    (hstop : romClass.majorVersion ≥ CFR_MAJOR_VERSION_REQUIRING_STACKMAPS ∨
      flags.noFallback = true) :
    ∀ (methods : List J9ROMMethod) (ds dsEnd : DriverState),
      verifyMethods c p romClass hasClazz flags methods ds = some dsEnd →
      dsEnd.events.count Event.fallBack = ds.events.count Event.fallBack := by
  intro methods
  induction methods with
  | nil =>
    intro ds dsEnd h
    simp only [verifyMethods, Option.some.injEq] at h
    rw [h]
  | cons m rest ih =>
    intro ds dsEnd h
    simp only [verifyMethods] at h
    rcases hm : verifyMethod c p romClass hasClazz flags m ds with _ | ⟨how, ds'⟩
    · rw [hm] at h; cases h
    · rw [hm] at h
      have hc := (verifyMethod_cases hm).2.2 hstop
      cases how with
      | done =>
        simp only [Option.some.injEq] at h
        rw [← h]
        exact hc
      | nextMethod =>
        dsimp only at h
        rw [ih ds' dsEnd h, hc]

theorem verifyAttempt_of_frames_error {c : Collaborators} {p : Passes} {romClass : J9ROMClass}
    {hasClazz : Bool} {flags : VerificationFlags} {ds : DriverState}
    {vd1 : VerifyData} {src : MapSource} {vdE : VerifyData}
    (hprep : prepareMaps c romClass ds.verifyData = some (Except.ok (vd1, src)))
    (hset : setUpFrames p (createStackMaps romClass ds.verifyData) vd1 =
      some (Except.error vdE)) :
    verifyAttempt c p romClass hasClazz flags ds =
      some (AttemptOutcome.exit LoopExit.done
        { result := RC.BCV_ERR_INSUFFICIENT_MEMORY, verifyData := vdE
          events := if createStackMaps romClass ds.verifyData = true then
            ds.events ++ [Event.buildBranchMap] else ds.events }) := by
  unfold verifyAttempt
  simp only [hprep, hset]

theorem verifyAttempt_of_map_pass_oom {c : Collaborators} {p : Passes} {romClass : J9ROMClass}
    {hasClazz : Bool} {flags : VerificationFlags} {ds : DriverState}
    {vd1 : VerifyData} {src : MapSource} {vd2 : VerifyData} {sig : SignatureInfo}
    {vd3 : VerifyData} {ev1 : List Event}
    (hprep : prepareMaps c romClass ds.verifyData = some (Except.ok (vd1, src)))
    (hset : setUpFrames p (createStackMaps romClass ds.verifyData) vd1 =
      some (Except.ok (vd2, sig)))
    (hpass : runMapPass c p (createStackMaps romClass ds.verifyData) src sig.argCount vd2 =
      some (RC.BCV_ERR_INSUFFICIENT_MEMORY, vd3, ev1)) :
    verifyAttempt c p romClass hasClazz flags ds =
      some (AttemptOutcome.exit LoopExit.done
        { result := RC.BCV_ERR_INSUFFICIENT_MEMORY, verifyData := vd3
          events := (if createStackMaps romClass ds.verifyData = true then
            ds.events ++ [Event.buildBranchMap] else ds.events) ++ ev1 }) := by
  unfold verifyAttempt
  simp only [hprep, hset, hpass, if_true]

/-- C31 (amended): when the class-file version leaves stack maps optional, the class
shipped stack maps, neither `J9_VERIFY_IGNORE_STACK_MAPS` nor `J9_VERIFY_NO_FALLBACK`
is set, and the first pass through the body of a method ends with a result that is
neither `BCV_SUCCESS` nor `BCV_ERR_INSUFFICIENT_MEMORY`, the pass ends in
`goto _fallBack`: `RESET_VERIFY_ERROR` is applied, `errorPC`, `errorModule` and
`errorCode` are 0, `ignoreStackMaps` is `TRUE`, and the body of the loop for that
method is what the code from `_fallBack` on does in that state, where
`createStackMaps` is true. -/
theorem failed_maps_fall_back_to_created_maps (c : Collaborators) (p : Passes)
    (romClass : J9ROMClass) (hasClazz : Bool) (flags : VerificationFlags) (m : J9ROMMethod)
    (ds0 : DriverState) (liveStack : J9BranchTargetStack)
    (vd1 : VerifyData) (src : MapSource) (vd2 : VerifyData) (sig : SignatureInfo)
    (r1 : RC) (vd3 : VerifyData) (ev1 : List Event) (r2 : RC) (vd4 : VerifyData)
    (ev2 : List Event)
    (hversion : romClass.majorVersion < CFR_MAJOR_VERSION_REQUIRING_STACKMAPS)
    (hmaps : romClass.hasVerifyData = true)
    (hignore : flags.ignoreStackMaps = false) (hno : flags.noFallback = false)
    (hbody : (m.isNative || m.isAbstract) = false)
    (hlive : p.allocLiveStack (enterMethod flags m ds0.verifyData) = some liveStack)
    (hmap : p.allocBytecodeMap
      { enterMethod flags m ds0.verifyData with liveStack := liveStack } = true)
    (hprep : prepareMaps c romClass
      { enterMethod flags m ds0.verifyData with liveStack := liveStack } =
        some (Except.ok (vd1, src)))
    (hset : setUpFrames p false vd1 = some (Except.ok (vd2, sig)))
    (hpass : runMapPass c p false src sig.argCount vd2 = some (r1, vd3, ev1))
    (hr1 : r1 ≠ RC.BCV_ERR_INSUFFICIENT_MEMORY)
    (hsecond : runSecondPass p hasClazz sig.isInitMethod r1 vd3 = (r2, vd4, ev2))
    (hfail : r2 ≠ RC.BCV_SUCCESS) (hr2 : r2 ≠ RC.BCV_ERR_INSUFFICIENT_MEMORY) :
    verifyAttempt c p romClass hasClazz flags
        { ds0 with
          verifyData := { enterMethod flags m ds0.verifyData with liveStack := liveStack } } =
      some (AttemptOutcome.fallBack
        { result := r2, verifyData := resetForFallBack p vd4
          events := ds0.events ++ ev1 ++ ev2 ++ [Event.fallBack] }) ∧
    verifyMethod c p romClass hasClazz flags m ds0 =
      verifyFromFallBack c p romClass hasClazz flags 1
        { result := r2, verifyData := resetForFallBack p vd4
          events := ds0.events ++ ev1 ++ ev2 ++ [Event.fallBack] } ∧
    resetForFallBack p vd4 =
      { p.RESET_VERIFY_ERROR vd4 with
        errorPC := 0, errorModule := 0, errorCode := 0, ignoreStackMaps := true } ∧
    (resetForFallBack p vd4).ignoreStackMaps = true ∧
    (resetForFallBack p vd4).errorPC = 0 ∧ (resetForFallBack p vd4).errorModule = 0 ∧
    (resetForFallBack p vd4).errorCode = 0 ∧
    createStackMaps romClass (resetForFallBack p vd4) = true := by
  have hcreated : createStackMaps romClass
      ({ ds0 with
        verifyData := { enterMethod flags m ds0.verifyData with liveStack := liveStack } } :
        DriverState).verifyData = false := by
    unfold createStackMaps enterMethod
    simp only [hignore, hmaps, Bool.not_true, Bool.or_self, Bool.and_false]
  have hattempt : verifyAttempt c p romClass hasClazz flags
        { ds0 with
          verifyData := { enterMethod flags m ds0.verifyData with liveStack := liveStack } } =
      some (AttemptOutcome.fallBack
        { result := r2, verifyData := resetForFallBack p vd4
          events := ds0.events ++ ev1 ++ ev2 ++ [Event.fallBack] }) := by
    have h := @verifyAttempt_of_parts c p romClass hasClazz flags
      { ds0 with
        verifyData := { enterMethod flags m ds0.verifyData with liveStack := liveStack } }
      vd1 src vd2 sig r1 vd3 ev1 r2 vd4 ev2 hprep (by rw [hcreated]; exact hset)
      (by rw [hcreated]; exact hpass) hr1 hsecond
    rw [h, if_neg hr2, if_pos hfail, hcreated, hno, if_neg (by
      simp only [Bool.or_false, decide_eq_true_eq, ge_iff_le, not_le]
      exact hversion)]
    simp only [Bool.false_eq_true, if_false]
  refine ⟨hattempt, ?_, rfl, rfl, rfl, rfl, rfl, createStackMaps_after_reset p romClass vd4 hversion⟩
  unfold verifyMethod
  simp only [hbody, Bool.not_false, if_true, hlive, hmap]
  show verifyFromFallBack c p romClass hasClazz flags (0 + 2) _ = _
  simp only [verifyFromFallBack, hattempt]

theorem failed_maps_fall_back_to_created_maps_witness :
    ∃ vd4, verifyMethod exampleCollaborators examplePasses chopTwoClass true exampleFlags
        chopTwoMethod (exampleDriverState chopTwoMethod) =
      verifyFromFallBack exampleCollaborators examplePasses chopTwoClass true exampleFlags 1
        { result := RC.BCV_FAIL
          verifyData := resetForFallBack examplePasses vd4
          events := (exampleDriverState chopTwoMethod).events ++ [Event.decompressStackMaps] ++
            [] ++ [Event.fallBack] } :=
  ⟨_, (failed_maps_fall_back_to_created_maps exampleCollaborators examplePasses chopTwoClass true
    exampleFlags chopTwoMethod (exampleDriverState chopTwoMethod)
    (exampleDriverState chopTwoMethod).verifyData.liveStack
    chopTwoPrepared.1 chopTwoPrepared.2 chopTwoReady.1 chopTwoReady.2 RC.BCV_FAIL _
    [Event.decompressStackMaps] RC.BCV_FAIL _ []
    (by decide) rfl rfl rfl rfl rfl rfl (by rfl) (by rfl) (by rfl) (by decide) (by rfl)
    (by decide) (by decide)).2.1⟩

/-- C31 as stated fails: `branchyClass` has version 50 and ships no stack maps, and
the first pass through its method fails in `simulateStack` with `BCV_FAIL`; the
driver returns `BCV_ERR_INTERNAL_ERROR` after the calls of `buildBranchMap` and
`simulateStack`, without `goto _fallBack` and with `ignoreStackMaps` still `FALSE`.
The same happens for a class that ships maps when `J9_VERIFY_IGNORE_STACK_MAPS` or
`J9_VERIFY_NO_FALLBACK` is set. -/
theorem fallBack_without_maps_counterexample :
    branchyClass.majorVersion < CFR_MAJOR_VERSION_REQUIRING_STACKMAPS ∧
    branchyClass.hasVerifyData = false ∧
    runSummary (j9bcv_verifyBytecodes exampleCollaborators failingPasses true branchyClass
        exampleFlags (exampleVerifyData branchyMethod)) =
      some (RC.BCV_ERR_INTERNAL_ERROR, [Event.buildBranchMap, Event.simulateStack], false) ∧
    runSummary (j9bcv_verifyBytecodes exampleCollaborators failingPasses true chopTwoClass
        { exampleFlags with ignoreStackMaps := true } (exampleVerifyData chopTwoMethod)) =
      some (RC.BCV_ERR_INTERNAL_ERROR,
        [Event.buildBranchMap, Event.j9rtv_verifyBytecodes], true) ∧
    runSummary (j9bcv_verifyBytecodes exampleCollaborators failingPasses true chopTwoClass
        { exampleFlags with noFallback := true } (exampleVerifyData chopTwoMethod)) =
      some (RC.BCV_ERR_INTERNAL_ERROR, [Event.decompressStackMaps], false) :=
  ⟨by decide, rfl, by rfl, by rfl, by rfl⟩

/-- C32: when the class-file version mandates stack maps or `J9_VERIFY_NO_FALLBACK`
is set, no pass through a method body ends in `goto _fallBack`, a run of
`j9bcv_verifyBytecodes` has no such jump, and a pass whose result is neither
`BCV_SUCCESS` nor `BCV_ERR_INSUFFICIENT_MEMORY` leaves the method loop with
`BCV_ERR_INTERNAL_ERROR`; a method whose body leaves the loop ends the run, the
methods after it are not looked at.  In every case: the pass entered by
`goto _fallBack` creates the maps, a pass that creates the maps never jumps to
`_fallBack`, so the body of a method jumps there at most once and two passes are all
the code from `_fallBack` on can make.  A result `BCV_ERR_INSUFFICIENT_MEMORY` (from
the allocation of the frames or queues, the map pass or the second pass) leaves the
method loop at once with that result, and no jump to `_fallBack` carries it. -/
theorem no_retry_beyond_fallback_criteria (c : Collaborators) (p : Passes)
    (romClass : J9ROMClass) (hasClazz : Bool) (flags : VerificationFlags) :
    (romClass.majorVersion ≥ CFR_MAJOR_VERSION_REQUIRING_STACKMAPS ∨ flags.noFallback = true →
      (∀ ds ds1, verifyAttempt c p romClass hasClazz flags ds ≠
        some (AttemptOutcome.fallBack ds1)) ∧
      (∀ vd dsEnd, j9bcv_verifyBytecodes c p hasClazz romClass flags vd = some dsEnd →
        dsEnd.events.count Event.fallBack = 0) ∧
      (∀ (ds : DriverState) (vd1 : VerifyData) (src : MapSource) (vd2 : VerifyData)
        (sig : SignatureInfo) (r1 : RC) (vd3 : VerifyData) (ev1 : List Event) (r2 : RC)
        (vd4 : VerifyData) (ev2 : List Event),
        prepareMaps c romClass ds.verifyData = some (Except.ok (vd1, src)) →
        setUpFrames p (createStackMaps romClass ds.verifyData) vd1 =
          some (Except.ok (vd2, sig)) →
        runMapPass c p (createStackMaps romClass ds.verifyData) src sig.argCount vd2 =
          some (r1, vd3, ev1) →
        r1 ≠ RC.BCV_ERR_INSUFFICIENT_MEMORY →
        runSecondPass p hasClazz sig.isInitMethod r1 vd3 = (r2, vd4, ev2) →
        r2 ≠ RC.BCV_SUCCESS → r2 ≠ RC.BCV_ERR_INSUFFICIENT_MEMORY →
        verifyAttempt c p romClass hasClazz flags ds =
          some (AttemptOutcome.exit LoopExit.done
            { result := RC.BCV_ERR_INTERNAL_ERROR, verifyData := vd4
              events := (if createStackMaps romClass ds.verifyData = true then
                ds.events ++ [Event.buildBranchMap] else ds.events) ++ ev1 ++ ev2 }))) ∧
    (∀ m rest ds ds', verifyMethod c p romClass hasClazz flags m ds = some (LoopExit.done, ds') →
      verifyMethods c p romClass hasClazz flags (m :: rest) ds = some ds' ∧
      (ds'.result = RC.BCV_ERR_INTERNAL_ERROR ∨
        ds'.result = RC.BCV_ERR_INSUFFICIENT_MEMORY)) ∧
    (∀ ds ds1, verifyAttempt c p romClass hasClazz flags ds =
        some (AttemptOutcome.fallBack ds1) →
      createStackMaps romClass ds1.verifyData = true ∧
      ds1.result ≠ RC.BCV_ERR_INSUFFICIENT_MEMORY) ∧
    (∀ ds ds1, createStackMaps romClass ds.verifyData = true →
      verifyAttempt c p romClass hasClazz flags ds ≠ some (AttemptOutcome.fallBack ds1)) ∧
    (∀ m ds how ds', verifyMethod c p romClass hasClazz flags m ds = some (how, ds') →
      ds'.events.count Event.fallBack ≤ ds.events.count Event.fallBack + 1) ∧
    (∀ fuel ds, verifyFromFallBack c p romClass hasClazz flags (fuel + 2) ds =
      verifyFromFallBack c p romClass hasClazz flags 2 ds) ∧
    (∀ (ds : DriverState) (vd1 : VerifyData) (src : MapSource) (vdE : VerifyData),
      prepareMaps c romClass ds.verifyData = some (Except.ok (vd1, src)) →
      setUpFrames p (createStackMaps romClass ds.verifyData) vd1 = some (Except.error vdE) →
      verifyAttempt c p romClass hasClazz flags ds =
        some (AttemptOutcome.exit LoopExit.done
          { result := RC.BCV_ERR_INSUFFICIENT_MEMORY, verifyData := vdE
            events := if createStackMaps romClass ds.verifyData = true then
              ds.events ++ [Event.buildBranchMap] else ds.events })) ∧
    (∀ (ds : DriverState) (vd1 : VerifyData) (src : MapSource) (vd2 : VerifyData)
      (sig : SignatureInfo) (vd3 : VerifyData) (ev1 : List Event),
      prepareMaps c romClass ds.verifyData = some (Except.ok (vd1, src)) →
      setUpFrames p (createStackMaps romClass ds.verifyData) vd1 =
        some (Except.ok (vd2, sig)) →
      runMapPass c p (createStackMaps romClass ds.verifyData) src sig.argCount vd2 =
        some (RC.BCV_ERR_INSUFFICIENT_MEMORY, vd3, ev1) →
      verifyAttempt c p romClass hasClazz flags ds =
        some (AttemptOutcome.exit LoopExit.done
          { result := RC.BCV_ERR_INSUFFICIENT_MEMORY, verifyData := vd3
            events := (if createStackMaps romClass ds.verifyData = true then
              ds.events ++ [Event.buildBranchMap] else ds.events) ++ ev1 })) ∧
    (∀ (ds : DriverState) (vd1 : VerifyData) (src : MapSource) (vd2 : VerifyData)
      (sig : SignatureInfo) (r1 : RC) (vd3 : VerifyData) (ev1 : List Event)
      (vd4 : VerifyData) (ev2 : List Event),
      prepareMaps c romClass ds.verifyData = some (Except.ok (vd1, src)) →
      setUpFrames p (createStackMaps romClass ds.verifyData) vd1 =
        some (Except.ok (vd2, sig)) →
      runMapPass c p (createStackMaps romClass ds.verifyData) src sig.argCount vd2 =
        some (r1, vd3, ev1) →
      r1 ≠ RC.BCV_ERR_INSUFFICIENT_MEMORY →
      runSecondPass p hasClazz sig.isInitMethod r1 vd3 =
        (RC.BCV_ERR_INSUFFICIENT_MEMORY, vd4, ev2) →
      verifyAttempt c p romClass hasClazz flags ds =
        some (AttemptOutcome.exit LoopExit.done
          { result := RC.BCV_ERR_INSUFFICIENT_MEMORY, verifyData := vd4
            events := (if createStackMaps romClass ds.verifyData = true then
              ds.events ++ [Event.buildBranchMap] else ds.events) ++ ev1 ++ ev2 })) := by
  have hnever : ∀ ds ds1,
      (romClass.majorVersion ≥ CFR_MAJOR_VERSION_REQUIRING_STACKMAPS ∨ flags.noFallback = true ∨
        createStackMaps romClass ds.verifyData = true) →
      verifyAttempt c p romClass hasClazz flags ds ≠ some (AttemptOutcome.fallBack ds1) := by
    intro ds ds1 hstop h
    rcases verifyAttempt_cases h with ⟨_, ho, _⟩ | ⟨_, ho, _⟩ |
      ⟨_, _, _, _, _, _, _, hver, hcr, hno⟩
    · cases ho
    · cases ho
    · rcases hstop with hs | hs | hs
      · omega
      · rw [hno] at hs; cases hs
      · rw [hcr] at hs; cases hs
  refine ⟨?_, ?_, ?_, ?_, ?_, ?_, ?_, ?_, ?_⟩
  · intro hstop
    refine ⟨?_, ?_, ?_⟩
    · intro ds ds1
      exact hnever ds ds1 (by
        rcases hstop with hs | hs
        · exact Or.inl hs
        · exact Or.inr (Or.inl hs))
    · intro vd dsEnd h
      unfold j9bcv_verifyBytecodes at h
      rw [verifyMethods_no_fallBack hstop _ _ _ h]
      rfl
    · intro ds vd1 src vd2 sig r1 vd3 ev1 r2 vd4 ev2 hprep hset hpass hr1 hsecond hfail hr2
      rw [verifyAttempt_of_parts hprep hset hpass hr1 hsecond, if_neg hr2, if_pos hfail, if_pos]
      rcases hstop with hs | hs
      · simp only [Bool.or_eq_true, decide_eq_true_eq]
        exact Or.inl (Or.inl hs)
      · simp only [Bool.or_eq_true, decide_eq_true_eq]
        exact Or.inr hs
  · intro m rest ds ds' h
    refine ⟨?_, ?_⟩
    · simp only [verifyMethods, h]
    · rcases (verifyMethod_cases h).1 with h1 | h1
      · cases h1
      · exact h1.2
  · intro ds ds1 h
    refine ⟨(verifyAttempt_after_fallBack h).1, ?_⟩
    rcases verifyAttempt_cases h with ⟨_, ho, _⟩ | ⟨_, ho, _⟩ | ⟨_, _, ho, _, _, hoom, _⟩
    · cases ho
    · cases ho
    · cases ho
      exact hoom
  · intro ds ds1 hcr
    exact hnever ds ds1 (Or.inr (Or.inr hcr))
  · intro m ds how ds' h
    exact (verifyMethod_cases h).2.1
  · intro fuel ds
    exact verifyFromFallBack_two c p romClass hasClazz flags fuel ds
  · intro ds vd1 src vdE hprep hset
    exact verifyAttempt_of_frames_error hprep hset
  · intro ds vd1 src vd2 sig vd3 ev1 hprep hset hpass
    exact verifyAttempt_of_map_pass_oom hprep hset hpass
  · intro ds vd1 src vd2 sig r1 vd3 ev1 vd4 ev2 hprep hset hpass hr1 hsecond
    rw [verifyAttempt_of_parts hprep hset hpass hr1 hsecond, if_pos rfl]

theorem no_retry_beyond_fallback_criteria_witness :
    ∃ vd4, verifyAttempt exampleCollaborators examplePasses chopTwoClass true
        { exampleFlags with noFallback := true } (exampleDriverState chopTwoMethod) =
      some (AttemptOutcome.exit LoopExit.done
        { result := RC.BCV_ERR_INTERNAL_ERROR, verifyData := vd4
          events := (if createStackMaps chopTwoClass
              (exampleDriverState chopTwoMethod).verifyData = true then
            (exampleDriverState chopTwoMethod).events ++ [Event.buildBranchMap]
            else (exampleDriverState chopTwoMethod).events) ++ [Event.decompressStackMaps] ++
              [] }) :=
  ⟨_, ((no_retry_beyond_fallback_criteria exampleCollaborators examplePasses chopTwoClass true
      { exampleFlags with noFallback := true }).1 (Or.inr rfl)).2.2
    (exampleDriverState chopTwoMethod) chopTwoPrepared.1 chopTwoPrepared.2 chopTwoReady.1
    chopTwoReady.2 RC.BCV_FAIL _ [Event.decompressStackMaps] RC.BCV_FAIL _ []
    (by rfl) (by rfl) (by rfl) (by decide) (by rfl) (by decide) (by decide)⟩

/-! ## The option `excludeattribute=NAME` -/

theorem OPT_EXCLUDEATTRIBUTE_EQUAL_eq :
    OPT_EXCLUDEATTRIBUTE_EQUAL =
      [101, 120, 99, 108, 117, 100, 101, 97, 116, 116, 114, 105, 98, 117, 116, 101, 61] := by
  rfl

theorem strlen_append (s rest : List Nat) (h : ∀ ch ∈ s, ch ≠ 0) :
    strlen (s ++ 0 :: rest) = some s.length := by
  induction s with
  | nil => simp [strlen]
  | cons ch s ih =>
    have hch : ch ≠ 0 := h ch (List.mem_cons_self _ _)
    have ih := ih (fun x hx => h x (List.mem_cons_of_mem _ hx))
    show strlen (ch :: (s ++ 0 :: rest)) = some (s.length + 1)
    simp only [strlen, hch, if_false, ih, Option.map_some']

/-- The tests made before the one for `excludeattribute=` all fail on an option
that starts with that text. -/
theorem setVerifyState_excludeattribute (k : OptionFlags) (allocate : Nat → Bool)
    (vm : J9JavaVM) (tail : List Nat) (errorString : Option String) :
    setVerifyState k allocate vm (OPT_EXCLUDEATTRIBUTE_EQUAL ++ tail) errorString =
      match (OPT_EXCLUDEATTRIBUTE_EQUAL ++ tail)[sizeofLiteral OPT_EXCLUDEATTRIBUTE_EQUAL]? with
      | none => none
      | some ch =>
        if 0 ≠ ch then
          match strlen (OPT_EXCLUDEATTRIBUTE_EQUAL ++ tail) with
          | none => none
          | some n =>
            if allocate (((n + (UDATA_RANGE - sizeofLiteral OPT_EXCLUDEATTRIBUTE_EQUAL) + 1)
                % UDATA_RANGE + 1) % UDATA_RANGE) then
              if sizeofLiteral OPT_EXCLUDEATTRIBUTE_EQUAL - 1 +
                  ((n + (UDATA_RANGE - sizeofLiteral OPT_EXCLUDEATTRIBUTE_EQUAL) + 1)
                    % UDATA_RANGE + 1) % UDATA_RANGE
                  ≤ (OPT_EXCLUDEATTRIBUTE_EQUAL ++ tail).length then
                some (true,
                  { vm with
                    verificationFlags :=
                      (vm.verificationFlags ||| k.J9_VERIFY_EXCLUDE_ATTRIBUTE) % UDATA_RANGE
                    excludeAttribute :=
                      some (((OPT_EXCLUDEATTRIBUTE_EQUAL ++ tail).drop
                        (sizeofLiteral OPT_EXCLUDEATTRIBUTE_EQUAL - 1)).take
                          (((n + (UDATA_RANGE - sizeofLiteral OPT_EXCLUDEATTRIBUTE_EQUAL) + 1)
                            % UDATA_RANGE + 1) % UDATA_RANGE)) },
                  errorString)
              else none
            else
              some (false,
                { vm with
                  verificationFlags :=
                    (vm.verificationFlags ||| k.J9_VERIFY_EXCLUDE_ATTRIBUTE) % UDATA_RANGE
                  excludeAttribute := none },
                errorString.map fun _ => "Out of memory processing -Xverify:<opt>")
        else some (true, vm, errorString) := by
  have h1 : strcmpEqual (OPT_EXCLUDEATTRIBUTE_EQUAL ++ tail) OPT_ALL = false := by
    rw [OPT_EXCLUDEATTRIBUTE_EQUAL_eq]; simp [strcmpEqual, OPT_ALL, literal]
  have h2 : strcmpEqual (OPT_EXCLUDEATTRIBUTE_EQUAL ++ tail) OPT_OPT = false := by
    rw [OPT_EXCLUDEATTRIBUTE_EQUAL_eq]; simp [strcmpEqual, OPT_OPT, literal]
  have h3 : strcmpEqual (OPT_EXCLUDEATTRIBUTE_EQUAL ++ tail) OPT_NO_OPT = false := by
    rw [OPT_EXCLUDEATTRIBUTE_EQUAL_eq]; simp [strcmpEqual, OPT_NO_OPT, literal]
  have h4 : strcmpEqual (OPT_EXCLUDEATTRIBUTE_EQUAL ++ tail) OPT_NO_FALLBACK = false := by
    rw [OPT_EXCLUDEATTRIBUTE_EQUAL_eq]; simp [strcmpEqual, OPT_NO_FALLBACK, literal]
  have h5 : strcmpEqual (OPT_EXCLUDEATTRIBUTE_EQUAL ++ tail) OPT_IGNORE_STACK_MAPS = false := by
    rw [OPT_EXCLUDEATTRIBUTE_EQUAL_eq]; simp [strcmpEqual, OPT_IGNORE_STACK_MAPS, literal]
  have h6 : strncmpEqual (OPT_EXCLUDEATTRIBUTE_EQUAL ++ tail) OPT_EXCLUDEATTRIBUTE_EQUAL
      (sizeofLiteral OPT_EXCLUDEATTRIBUTE_EQUAL - 1) = true := by
    simp [strncmpEqual, sizeofLiteral]
  unfold setVerifyState
  simp only [h1, h2, h3, h4, h5, h6, Bool.false_eq_true, if_false, if_true]
  all_goals
    rcases (OPT_EXCLUDEATTRIBUTE_EQUAL ++ tail)[sizeofLiteral OPT_EXCLUDEATTRIBUTE_EQUAL]? with
      _ | ch
    · rfl
    · dsimp only
      split_ifs
      · rcases strlen (OPT_EXCLUDEATTRIBUTE_EQUAL ++ tail) with _ | n
        · rfl
        · rfl
      · rfl

theorem OPT_EXCLUDEATTRIBUTE_EQUAL_nonzero : ∀ ch ∈ OPT_EXCLUDEATTRIBUTE_EQUAL, ch ≠ 0 := by
  rw [OPT_EXCLUDEATTRIBUTE_EQUAL_eq]
  decide

/-- C33: the code does not do what the claim says for a name of one character.  On
the text `excludeattribute=` followed by one character and NUL, `setVerifyState`
returns `TRUE` and leaves every field as it was: `J9_VERIFY_EXCLUDE_ATTRIBUTE` is not
set and nothing is stored in `excludeAttribute`; `parseOptions` on that option alone
does the same.  For a name of two or more characters (none of them NUL) and an
allocation that succeeds, `setVerifyState` returns `TRUE`, sets the flag and stores
the name followed by NUL, as the claim says. -/
theorem excludeattribute_needs_two_characters (k : OptionFlags) (allocate : Nat → Bool)
    (vm : J9JavaVM) (errorString : Option String) :
    (∀ (ch : Nat) (rest : List Nat),
      setVerifyState k allocate vm (OPT_EXCLUDEATTRIBUTE_EQUAL ++ (ch :: 0 :: rest)) errorString =
        some (true, vm, errorString)) ∧
    (∀ (ch : Nat) (rest : List Nat), ch ≠ 0 →
      parseOptions k allocate vm (OPT_EXCLUDEATTRIBUTE_EQUAL ++ (ch :: 0 :: 0 :: rest))
          errorString =
        some (true, vm, errorString)) ∧
    (∀ (a b : Nat) (name rest : List Nat), a ≠ 0 → b ≠ 0 → (∀ x ∈ name, x ≠ 0) →
      name.length + 3 < UDATA_RANGE → allocate (name.length + 3) = true →
      setVerifyState k allocate vm
          ((OPT_EXCLUDEATTRIBUTE_EQUAL ++ (a :: b :: name)) ++ (0 :: rest)) errorString =
        some (true,
          { vm with
            verificationFlags :=
              (vm.verificationFlags ||| k.J9_VERIFY_EXCLUDE_ATTRIBUTE) % UDATA_RANGE
            excludeAttribute := some ((a :: b :: name) ++ [0]) },
          errorString)) := by
  have hsingle : ∀ (ch : Nat) (rest : List Nat),
      setVerifyState k allocate vm (OPT_EXCLUDEATTRIBUTE_EQUAL ++ (ch :: 0 :: rest)) errorString =
        some (true, vm, errorString) := by
    intro ch rest
    rw [setVerifyState_excludeattribute]
    have hidx : (OPT_EXCLUDEATTRIBUTE_EQUAL ++ (ch :: 0 :: rest))[
        sizeofLiteral OPT_EXCLUDEATTRIBUTE_EQUAL]? = some 0 := by
      rw [OPT_EXCLUDEATTRIBUTE_EQUAL_eq]
      simp [sizeofLiteral]
    rw [hidx]
    simp only [ne_eq, not_true_eq_false, if_false]
  refine ⟨hsingle, ?_, ?_⟩
  · intro ch rest hch
    unfold parseOptions
    have hlen : (OPT_EXCLUDEATTRIBUTE_EQUAL ++ (ch :: 0 :: 0 :: rest)).length + 1 =
        (rest.length + 19) + 1 + 1 := by
      rw [OPT_EXCLUDEATTRIBUTE_EQUAL_eq]
      simp only [List.length_append, List.length_cons, List.length_nil]
      omega
    rw [hlen]
    have hfirst : OPT_EXCLUDEATTRIBUTE_EQUAL ++ (ch :: 0 :: 0 :: rest) =
        101 :: ([120, 99, 108, 117, 100, 101, 97, 116, 116, 114, 105, 98, 117, 116, 101, 61] ++
          (ch :: 0 :: 0 :: rest)) := by
      rw [OPT_EXCLUDEATTRIBUTE_EQUAL_eq]
      rfl
    have hstr : strlen (OPT_EXCLUDEATTRIBUTE_EQUAL ++ (ch :: 0 :: 0 :: rest)) = some 18 := by
      have h := strlen_append (OPT_EXCLUDEATTRIBUTE_EQUAL ++ [ch]) (0 :: rest) (by
        intro x hx
        rcases List.mem_append.mp hx with h1 | h1
        · exact OPT_EXCLUDEATTRIBUTE_EQUAL_nonzero x h1
        · rw [List.mem_singleton] at h1
          rw [h1]
          exact hch)
      have e : (OPT_EXCLUDEATTRIBUTE_EQUAL ++ [ch]) ++ (0 :: 0 :: rest) =
          OPT_EXCLUDEATTRIBUTE_EQUAL ++ (ch :: 0 :: 0 :: rest) := by simp
      rw [e] at h
      rw [h, OPT_EXCLUDEATTRIBUTE_EQUAL_eq]
      rfl
    have hdrop : (OPT_EXCLUDEATTRIBUTE_EQUAL ++ (ch :: 0 :: 0 :: rest)).drop (18 + 1) =
        0 :: rest := by
      rw [OPT_EXCLUDEATTRIBUTE_EQUAL_eq]
      rfl
    have hset := hsingle ch (0 :: rest)
    rw [hfirst] at hset hstr hdrop ⊢
    simp only [parseOptionsLoop, ne_eq, OfNat.ofNat_ne_zero, not_false_eq_true, if_true, hset,
      hstr, hdrop, not_true_eq_false, if_false]
  · intro a b name rest ha hb hname hsize halloc
    rw [List.append_assoc, setVerifyState_excludeattribute]
    have hidx : (OPT_EXCLUDEATTRIBUTE_EQUAL ++ ((a :: b :: name) ++ (0 :: rest)))[
        sizeofLiteral OPT_EXCLUDEATTRIBUTE_EQUAL]? = some b := by
      rw [OPT_EXCLUDEATTRIBUTE_EQUAL_eq]
      simp [sizeofLiteral]
    have hstr : strlen (OPT_EXCLUDEATTRIBUTE_EQUAL ++ ((a :: b :: name) ++ (0 :: rest))) =
        some (name.length + 19) := by
      have h := strlen_append (OPT_EXCLUDEATTRIBUTE_EQUAL ++ (a :: b :: name)) rest (by
        intro x hx
        rcases List.mem_append.mp hx with h1 | h1
        · exact OPT_EXCLUDEATTRIBUTE_EQUAL_nonzero x h1
        · rcases List.mem_cons.mp h1 with h2 | h2
          · rw [h2]; exact ha
          · rcases List.mem_cons.mp h2 with h3 | h3
            · rw [h3]; exact hb
            · exact hname x h3)
      rw [List.append_assoc] at h
      rw [h, OPT_EXCLUDEATTRIBUTE_EQUAL_eq]
      simp only [List.length_append, List.length_cons, List.length_nil]
      congr 1
      omega
    have hlength : ((name.length + 19 + (UDATA_RANGE - sizeofLiteral OPT_EXCLUDEATTRIBUTE_EQUAL)
        + 1) % UDATA_RANGE + 1) % UDATA_RANGE = name.length + 3 := by
      have hs : sizeofLiteral OPT_EXCLUDEATTRIBUTE_EQUAL = 18 := by
        rw [sizeofLiteral, OPT_EXCLUDEATTRIBUTE_EQUAL_eq]
        rfl
      rw [hs]
      rw [udata_range_eq] at hsize ⊢
      omega
    have hdrop : ((OPT_EXCLUDEATTRIBUTE_EQUAL ++ ((a :: b :: name) ++ (0 :: rest))).drop
        (sizeofLiteral OPT_EXCLUDEATTRIBUTE_EQUAL - 1)).take (name.length + 3) =
          (a :: b :: name) ++ [0] := by
      have hd : (OPT_EXCLUDEATTRIBUTE_EQUAL ++ ((a :: b :: name) ++ (0 :: rest))).drop
          (sizeofLiteral OPT_EXCLUDEATTRIBUTE_EQUAL - 1) = (a :: b :: name) ++ (0 :: rest) := by
        rw [OPT_EXCLUDEATTRIBUTE_EQUAL_eq]
        rfl
      rw [hd]
      have e : (a :: b :: name) ++ (0 :: rest) = ((a :: b :: name) ++ [0]) ++ rest := by simp
      rw [e, List.take_left']
      simp
    have hfits : sizeofLiteral OPT_EXCLUDEATTRIBUTE_EQUAL - 1 + (name.length + 3) ≤
        (OPT_EXCLUDEATTRIBUTE_EQUAL ++ ((a :: b :: name) ++ (0 :: rest))).length := by
      rw [OPT_EXCLUDEATTRIBUTE_EQUAL_eq]
      simp only [sizeofLiteral, List.length_append, List.length_cons, List.length_nil]
      omega
    rw [hidx]
    simp only [hstr, hlength, halloc, if_true, hdrop, if_pos hfits, ne_eq]
    rw [if_pos (fun h => hb h.symm)]

theorem excludeattribute_needs_two_characters_witness :
    setVerifyState exampleOptionFlags (fun _ => true) exampleVM
        (literal "excludeattribute=X" ++ [0]) none = some (true, exampleVM, none) ∧
    parseOptions exampleOptionFlags (fun _ => true) exampleVM
        (literal "excludeattribute=X" ++ [0, 0]) none = some (true, exampleVM, none) ∧
    setVerifyState exampleOptionFlags (fun _ => true) exampleVM
        (literal "excludeattribute=XY" ++ [0]) none =
      some (true,
        { exampleVM with verificationFlags := 0x13, excludeAttribute := some [88, 89, 0] },
        none) :=
  ⟨(excludeattribute_needs_two_characters exampleOptionFlags (fun _ => true) exampleVM none).1
      88 [],
    (excludeattribute_needs_two_characters exampleOptionFlags (fun _ => true) exampleVM none).2.1
      88 [] (by decide),
    (excludeattribute_needs_two_characters exampleOptionFlags (fun _ => true) exampleVM none).2.2
      88 89 [] [] (by decide) (by decide) (by simp) (by rw [udata_range_eq]; decide) rfl⟩

/-! ## simulateStack: the stack underflow check -/

theorem and_three (n : Nat) : n &&& 3 = n % 4 :=
  Nat.and_pow_two_sub_one_eq_mod n 2

/-- The padding that `simulateStack` consumes after the opcode of a switch leads to
the operand block that `buildBranchMap` reads. -/
theorem switch_padding (s : Nat) :
    s + 1 + ((4 - ((s + 1) &&& 3)) &&& 3) = switchBase s := by
  unfold switchBase
  rw [and_three, and_three]
  have h : (s + 1) % 4 < 4 := Nat.mod_lt _ (by decide)
  omega

theorem PARAM_32_shift (c : Collaborators) (code : Nat → Nat) (ip : Nat) :
    PARAM_32 c code ip 1 = PARAM_32 c code (ip + 1) 0 := by
  unfold PARAM_32
  simp only [Nat.add_zero]

theorem mergeAll_of_ok (o : ClassOracle) (start : Int) (target : Nat) (rest : List Nat)
    (vd next : VerifyData) (merged : List Nat)
    (h : mergeOrOutOfMemory o vd target start = some (Except.ok next)) :
    mergeAll o start (target :: rest) vd merged =
      mergeAll o start rest next (merged ++ [target]) := by
  simp only [mergeAll, h]

/-- The loop over the table entries merges into the entries from the last to the
first. -/
theorem mergeTableEntries_eq (c : Collaborators) (o : ClassOracle) (code : Nat → Nat)
    (start : Nat) (q : Nat) (hq : 4 ≤ q) :
    ∀ (n bcIndex : Nat) (vd : VerifyData) (merged : List Nat),
      (1 ≤ n → bcIndex = q + 4 * (n - 1)) →
      (match mergeTableEntries c o code start n bcIndex vd merged with
        | none => none
        | some (Except.error verifyData, merged) =>
          some ⟨CaseExit.returned RC.BCV_ERR_INSUFFICIENT_MEMORY, verifyData, merged⟩
        | some (Except.ok verifyData, merged) =>
          some ⟨CaseExit.checkFinished, verifyData, merged⟩) =
      mergeAll o start
        ((List.range n).reverse.map fun i =>
          toUDATA ((start : Int) + toI32 (PARAM_32 c code (q + 1 + 4 * i) 0))) vd merged := by
  intro n
  induction n with
  | zero =>
    intro bcIndex vd merged _
    simp [mergeTableEntries, mergeAll]
  | succ n ih =>
    intro bcIndex vd merged hb
    have hbc : bcIndex = q + 4 * n := by
      have := hb (by omega)
      simpa using this
    subst hbc
    rw [List.range_succ, List.reverse_append, List.reverse_singleton, List.singleton_append,
      List.map_cons]
    have htarget : toUDATA (toI32 (PARAM_32 c code (q + 4 * n) 1) + (start : Int)) =
        toUDATA ((start : Int) + toI32 (PARAM_32 c code (q + 1 + 4 * n) 0)) := by
      rw [PARAM_32_shift, add_comm]
      have e : q + 4 * n + 1 = q + 1 + 4 * n := by omega
      rw [e]
    simp only [mergeTableEntries, mergeAll, htarget]
    rcases hm : mergeOrOutOfMemory o vd
        (toUDATA ((start : Int) + toI32 (PARAM_32 c code (q + 1 + 4 * n) 0))) start with
      _ | ⟨vdE | next⟩
    · rfl
    · rfl
    · dsimp only
      exact ih (q + 4 * n - 4) next _ (by intro h1; omega)

theorem wrapI32_of_range (v : Int) (h0 : -(2 ^ 31) ≤ v) (h1 : v < 2 ^ 31) : wrapI32 v = v := by
  unfold wrapI32 toI32
  have hU : (U32_RANGE : Int) = 4294967296 := by norm_num [U32_RANGE]
  rw [hU]
  split_ifs with h <;> omega

theorem toUDATA_of_nat (n : Nat) (h : n < UDATA_RANGE) : toUDATA (n : Int) = n := by
  unfold toUDATA
  rw [Int.emod_eq_of_lt (by omega) (by exact_mod_cast h)]
  simp

theorem mergeStacks_keeps {o : ClassOracle} {vd vd1 : VerifyData} {target : Nat} {rc : RC}
    (h : mergeStacks o vd target = some (rc, vd1)) :
    vd1.romMethod = vd.romMethod ∧ vd1.liveStack = vd.liveStack ∧
    vd1.rootQueueSize = vd.rootQueueSize ∧ vd1.stackMapsCount = vd.stackMapsCount ∧
    vd1.optimize = vd.optimize := by
  obtain ⟨v, targetStack, _, _, hcases⟩ := mergeStacks_cases h
  rcases hcases with ⟨_, _, _, _, _, hvd⟩ | ⟨_, _, _, fin, _, hrun⟩
  · rw [hvd]
    exact ⟨rfl, rfl, rfl, rfl, rfl⟩
  · rcases hrun with ⟨_, _, hvd⟩ | ⟨_, _, hend⟩
    · rw [hvd]
      exact ⟨rfl, rfl, rfl, rfl, rfl⟩
    · rcases hend with ⟨_, _, _, _, _, hvd⟩ | ⟨_, hvd⟩
      · rw [hvd]
        exact ⟨rfl, rfl, rfl, rfl, rfl⟩
      · rw [hvd]
        exact ⟨rfl, rfl, rfl, rfl, rfl⟩

theorem mergeOrOutOfMemory_ok {o : ClassOracle} {vd next : VerifyData} {target : Nat}
    {start : Int} (h : mergeOrOutOfMemory o vd target start = some (Except.ok next)) :
    ∃ rc, rc ≠ RC.BCV_ERR_INSUFFICIENT_MEMORY ∧ mergeStacks o vd target = some (rc, next) := by
  unfold mergeOrOutOfMemory at h
  rcases hm : mergeStacks o vd target with _ | ⟨rc, vd1⟩
  · rw [hm] at h; cases h
  · rw [hm] at h
    dsimp only at h
    split_ifs at h with hrc
    · cases h
    · simp only [Option.some.injEq, Except.ok.injEq] at h
      exact ⟨rc, hrc, by rw [h]⟩

/-- The case of `simulateStack` for a `tableswitch` whose table lies within the
method: one slot is popped and the live frame is merged into the default target
and then into the table entries from the last to the first. -/
theorem switchAction_tableswitch (c : Collaborators) (t : SimulateTables) (o : ClassOracle)
    (vd : VerifyData) (s : Nat) (stackTop : Int)
    (hsize : vd.romMethod.bytecodeSize < 2 ^ 28)
    (hlow : toI32 (PARAM_32 c vd.romMethod.bytecodes (switchBase s + 4) 0) ≤
      toI32 (PARAM_32 c vd.romMethod.bytecodes (switchBase s + 8) 0) + 1)
    (htable : ((switchBase s + 12 : Nat) : Int) +
      4 * (toI32 (PARAM_32 c vd.romMethod.bytecodes (switchBase s + 8) 0) -
        toI32 (PARAM_32 c vd.romMethod.bytecodes (switchBase s + 4) 0) + 1) ≤
      vd.romMethod.bytecodeSize) :
    switchAction c t o vd JBtableswitch s (s + 1) stackTop =
      mergeAll o s (tableSwitchTargets c vd.romMethod.bytecodes s)
        (SAVE_STACKTOP vd (stackTop - 1)) [] := by
  have hb := switch_padding s
  have hb1 : s + 1 ≤ switchBase s := by omega
  have hU : UDATA_RANGE = 18446744073709551616 := udata_range_eq
  have hidx : (4 - ((s + 1) &&& 3)) &&& 3 = switchBase s - (s + 1) := by omega
  have p0 : PARAM_32 c vd.romMethod.bytecodes (s + (switchBase s - (s + 1))) 1 =
      PARAM_32 c vd.romMethod.bytecodes (switchBase s) 0 := by
    rw [PARAM_32_shift]
    congr 1
    omega
  have pk : ∀ k, PARAM_32 c vd.romMethod.bytecodes (s + (switchBase s - (s + 1)) + k) 1 =
      PARAM_32 c vd.romMethod.bytecodes (switchBase s + k) 0 := by
    intro k
    rw [PARAM_32_shift]
    congr 1
    omega
  have p1 := pk 4
  have p2 : PARAM_32 c vd.romMethod.bytecodes (s + (switchBase s - (s + 1)) + 4 + 4) 1 =
      PARAM_32 c vd.romMethod.bytecodes (switchBase s + 8) 0 := by
    rw [PARAM_32_shift]
    congr 1
    omega
  unfold switchAction tableSwitchTargets
  dsimp only
  rw [hidx]
  have e1 : (s + 1 + (switchBase s - (s + 1))) % UDATA_RANGE = switchBase s := by
    rw [hU]; omega
  have e2 : (switchBase s + 8) % UDATA_RANGE = switchBase s + 8 := by rw [hU]; omega
  have e3 : (switchBase s + 8 + 4) % UDATA_RANGE = switchBase s + 12 := by rw [hU]; omega
  rw [e1, e2, e3]
  have hc1 : CHECK_END t vd (switchBase s + 8) (s : Int) = none := by
    unfold CHECK_END
    rw [if_neg (by omega)]
  rw [hc1]
  dsimp only
  simp only [p0, p1, p2, if_true]
  generalize hlowv : toI32 (PARAM_32 c vd.romMethod.bytecodes (switchBase s + 4) 0) = low
    at hlow htable ⊢
  generalize hhighv : toI32 (PARAM_32 c vd.romMethod.bytecodes (switchBase s + 8) 0) = high
    at hlow htable ⊢
  have hw1 : wrapI32 (high - low + 1) = high - low + 1 :=
    wrapI32_of_range _ (by omega) (by omega)
  have hw2 : wrapI32 (high - low) = high - low := wrapI32_of_range _ (by omega) (by omega)
  rw [hw1, hw2]
  have hdefault : toUDATA (toI32 (PARAM_32 c vd.romMethod.bytecodes (switchBase s) 0) + (s : Int)) =
      toUDATA ((s : Int) + toI32 (PARAM_32 c vd.romMethod.bytecodes (switchBase s) 0)) := by
    rw [add_comm]
  rw [hdefault]
  simp only [mergeAll]
  rcases hm : mergeOrOutOfMemory o (SAVE_STACKTOP vd (stackTop - 1))
      (toUDATA ((s : Int) + toI32 (PARAM_32 c vd.romMethod.bytecodes (switchBase s) 0))) (s : Int)
    with _ | ⟨vdE | next⟩
  · rfl
  · rfl
  dsimp only
  obtain ⟨rc, _, hmerge⟩ := mergeOrOutOfMemory_ok hm
  have hrom : next.romMethod = vd.romMethod := (mergeStacks_keeps hmerge).1
  have hpc : toUDATA (((switchBase s + 12 : Nat) : Int) + (high - low + 1) * 4) =
      switchBase s + 12 + 4 * (high - low + 1).toNat := by
    have e : ((switchBase s + 12 : Nat) : Int) + (high - low + 1) * 4 =
        ((switchBase s + 12 + 4 * (high - low + 1).toNat : Nat) : Int) := by
      push_cast
      rw [Int.toNat_of_nonneg (by omega)]
      ring
    rw [e, toUDATA_of_nat _ (by rw [hU]; omega)]
  have hc2 : CHECK_END t next
      (toUDATA (((switchBase s + 12 : Nat) : Int) + (high - low + 1) * 4)) (s : Int) = none := by
    unfold CHECK_END
    rw [hpc, hrom, if_neg (by omega)]
  rw [hc2]
  dsimp only
  have hq := mergeTableEntries_eq c o vd.romMethod.bytecodes s (switchBase s + 11) (by omega)
    (high - low + 1).toNat
    ((((s + (switchBase s - (s + 1)) + 4 + 4 + 4 : Nat) : Int) + (high - low) * 4).toNat) next
    [toUDATA ((s : Int) + toI32 (PARAM_32 c vd.romMethod.bytecodes (switchBase s) 0))]
    (by intro h1; omega)
  have e12 : ∀ i, switchBase s + 11 + 1 + 4 * i = switchBase s + 12 + 4 * i := by
    intro i; omega
  simp only [e12] at hq
  simp only [List.nil_append]
  exact hq

theorem mergeLookupEntries_eq (c : Collaborators) (o : ClassOracle) (code : Nat → Nat)
    (start : Nat) :
    ∀ (n bcIndex : Nat) (vd : VerifyData) (merged : List Nat),
      (match mergeLookupEntries c o code start n bcIndex vd merged with
        | none => none
        | some (Except.error verifyData, merged) =>
          some ⟨CaseExit.returned RC.BCV_ERR_INSUFFICIENT_MEMORY, verifyData, merged⟩
        | some (Except.ok verifyData, merged) =>
          some ⟨CaseExit.checkFinished, verifyData, merged⟩) =
      mergeAll o start
        ((List.range n).map fun i =>
          toUDATA ((start : Int) + toI32 (PARAM_32 c code (bcIndex + 5 + 8 * i) 0))) vd merged := by
  intro n
  induction n with
  | zero =>
    intro bcIndex vd merged
    simp [mergeLookupEntries, mergeAll]
  | succ n ih =>
    intro bcIndex vd merged
    rw [List.range_succ_eq_map, List.map_cons, List.map_map]
    have htarget : toUDATA (toI32 (PARAM_32 c code (bcIndex + 4) 1) + (start : Int)) =
        toUDATA ((start : Int) + toI32 (PARAM_32 c code (bcIndex + 5 + 8 * 0) 0)) := by
      rw [PARAM_32_shift, add_comm]
    simp only [mergeLookupEntries, mergeAll, htarget]
    rcases hm : mergeOrOutOfMemory o vd
        (toUDATA ((start : Int) + toI32 (PARAM_32 c code (bcIndex + 5 + 8 * 0) 0))) start with
      _ | ⟨vdE | next⟩
    · rfl
    · rfl
    · dsimp only
      rw [ih (bcIndex + 4 + 4) next _]
      have hl : (List.map (fun i => toUDATA ((start : Int) +
            toI32 (PARAM_32 c code (bcIndex + 4 + 4 + 5 + 8 * i) 0))) (List.range n)) =
          (List.map ((fun i => toUDATA ((start : Int) +
            toI32 (PARAM_32 c code (bcIndex + 5 + 8 * i) 0))) ∘ Nat.succ) (List.range n)) := by
        apply List.map_congr_left
        intro i _
        simp only [Function.comp_apply]
        have e2 : bcIndex + 4 + 4 + 5 + 8 * i = bcIndex + 5 + 8 * Nat.succ i := by omega
        rw [e2]
      rw [hl]

/-- The case of `simulateStack` for a `lookupswitch` whose pairs lie within the
method: the live frame is merged into the default target and then into the targets
of the pairs. -/
theorem switchAction_lookupswitch (c : Collaborators) (t : SimulateTables) (o : ClassOracle)
    (vd : VerifyData) (bc s : Nat) (stackTop : Int) (hbc : bc ≠ JBtableswitch)
    (hsize : vd.romMethod.bytecodeSize < 2 ^ 28)
    (hpairs : 0 ≤ toI32 (PARAM_32 c vd.romMethod.bytecodes (switchBase s + 4) 0))
    (htable : ((switchBase s + 8 : Nat) : Int) +
      8 * toI32 (PARAM_32 c vd.romMethod.bytecodes (switchBase s + 4) 0) ≤
      vd.romMethod.bytecodeSize) :
    switchAction c t o vd bc s (s + 1) stackTop =
      mergeAll o s (lookupSwitchTargets c vd.romMethod.bytecodes s)
        (SAVE_STACKTOP vd (stackTop - 1)) [] := by
  have hb := switch_padding s
  have hb1 : s + 1 ≤ switchBase s := by omega
  have hU : UDATA_RANGE = 18446744073709551616 := udata_range_eq
  have hidx : (4 - ((s + 1) &&& 3)) &&& 3 = switchBase s - (s + 1) := by omega
  have p0 : PARAM_32 c vd.romMethod.bytecodes (s + (switchBase s - (s + 1))) 1 =
      PARAM_32 c vd.romMethod.bytecodes (switchBase s) 0 := by
    rw [PARAM_32_shift]
    congr 1
    omega
  have p1 : PARAM_32 c vd.romMethod.bytecodes (s + (switchBase s - (s + 1)) + 4) 1 =
      PARAM_32 c vd.romMethod.bytecodes (switchBase s + 4) 0 := by
    rw [PARAM_32_shift]
    congr 1
    omega
  unfold switchAction lookupSwitchTargets
  dsimp only
  rw [hidx]
  have e1 : (s + 1 + (switchBase s - (s + 1))) % UDATA_RANGE = switchBase s := by
    rw [hU]; omega
  have e2 : (switchBase s + 8) % UDATA_RANGE = switchBase s + 8 := by rw [hU]; omega
  rw [e1, e2]
  have hc1 : CHECK_END t vd (switchBase s + 8) (s : Int) = none := by
    unfold CHECK_END
    rw [if_neg (by omega)]
  rw [hc1]
  dsimp only
  simp only [p0, p1, if_neg hbc]
  generalize hnv : toI32 (PARAM_32 c vd.romMethod.bytecodes (switchBase s + 4) 0) = npairs
    at hpairs htable ⊢
  have hdefault : toUDATA (toI32 (PARAM_32 c vd.romMethod.bytecodes (switchBase s) 0) + (s : Int)) =
      toUDATA ((s : Int) + toI32 (PARAM_32 c vd.romMethod.bytecodes (switchBase s) 0)) := by
    rw [add_comm]
  rw [hdefault]
  simp only [mergeAll]
  rcases hm : mergeOrOutOfMemory o (SAVE_STACKTOP vd (stackTop - 1))
      (toUDATA ((s : Int) + toI32 (PARAM_32 c vd.romMethod.bytecodes (switchBase s) 0))) (s : Int)
    with _ | ⟨vdE | next⟩
  · rfl
  · rfl
  dsimp only
  obtain ⟨rc, _, hmerge⟩ := mergeOrOutOfMemory_ok hm
  have hrom : next.romMethod = vd.romMethod := (mergeStacks_keeps hmerge).1
  have hpc : toUDATA (((switchBase s + 8 : Nat) : Int) + npairs * 8) =
      switchBase s + 8 + 8 * npairs.toNat := by
    have e : ((switchBase s + 8 : Nat) : Int) + npairs * 8 =
        ((switchBase s + 8 + 8 * npairs.toNat : Nat) : Int) := by
      push_cast
      rw [Int.toNat_of_nonneg hpairs]
      ring
    rw [e, toUDATA_of_nat _ (by rw [hU]; omega)]
  have hc2 : CHECK_END t next
      (toUDATA (((switchBase s + 8 : Nat) : Int) + npairs * 8)) (s : Int) = none := by
    unfold CHECK_END
    rw [hpc, hrom, if_neg (by omega)]
  rw [hc2]
  dsimp only
  have hq := mergeLookupEntries_eq c o vd.romMethod.bytecodes s npairs.toNat
    (s + (switchBase s - (s + 1)) + 4 + 4) next
    [toUDATA ((s : Int) + toI32 (PARAM_32 c vd.romMethod.bytecodes (switchBase s) 0))]
  have e12 : ∀ i, s + (switchBase s - (s + 1)) + 4 + 4 + 5 + 8 * i = switchBase s + 12 + 8 * i := by
    intro i; omega
  simp only [e12] at hq
  simp only [List.nil_append]
  exact hq

/-- What `mergeAll` reports as merged are targets of its list; when every call
returns, all of them. -/
theorem mergeAll_merged (o : ClassOracle) (start : Int) :
    ∀ (targets : List Nat) (vd : VerifyData) (merged : List Nat) (r : CaseResult),
      mergeAll o start targets vd merged = some r →
      (∃ done, done <+: targets ∧ r.merged = merged ++ done) ∧
      (r.exit = CaseExit.checkFinished → r.merged = merged ++ targets) ∧
      (r.exit = CaseExit.checkFinished ∨
        r.exit = CaseExit.returned RC.BCV_ERR_INSUFFICIENT_MEMORY) := by
  intro targets
  induction targets with
  | nil =>
    intro vd merged r h
    simp only [mergeAll, Option.some.injEq] at h
    subst h
    exact ⟨⟨[], List.prefix_refl _, by simp⟩, fun _ => by simp, Or.inl rfl⟩
  | cons target rest ih =>
    intro vd merged r h
    simp only [mergeAll] at h
    rcases hm : mergeOrOutOfMemory o vd target start with _ | ⟨vdE | next⟩
    · rw [hm] at h; cases h
    · rw [hm] at h
      simp only [Option.some.injEq] at h
      subst h
      refine ⟨⟨[target], ?_, rfl⟩, ?_, Or.inr rfl⟩
      · exact ⟨rest, rfl⟩
      · intro hexit
        cases hexit
    · rw [hm] at h
      dsimp only at h
      obtain ⟨⟨done, hpre, hdone⟩, hall, hexit⟩ := ih next _ r h
      refine ⟨⟨target :: done, ?_, ?_⟩, ?_, hexit⟩
      · exact List.prefix_cons_inj target |>.mpr hpre
      · rw [hdone]; simp
      · intro hfin
        rw [hall hfin]; simp

/-! ## The targets that `buildBranchMap` marks lie inside the method -/

theorem markBranchTarget_in_range {bm : List Nat} {count : Nat} {t : Int} {bm' : List Nat}
    {count' : Nat} (h : markBranchTarget bm count t = some (bm', count')) :
    (0 ≤ t ∧ t.toNat < bm.length) ∧ bm'.length = bm.length := by
  unfold markBranchTarget at h
  split at h
  · cases h
  · rename_i v hv
    obtain ⟨ht0, hget⟩ := mapGet_eq_some hv
    have hlt : t.toNat < bm.length := by
      rcases Nat.lt_or_ge t.toNat bm.length with h1 | h1
      · exact h1
      · rw [List.getElem?_eq_none h1] at hget; cases hget
    split_ifs at h
    · simp only [Option.some.injEq, Prod.mk.injEq] at h
      rw [← h.1, List.length_set]
      exact ⟨⟨ht0, hlt⟩, rfl⟩
    · simp only [Option.some.injEq, Prod.mk.injEq] at h
      rw [← h.1]
      exact ⟨⟨ht0, hlt⟩, rfl⟩

theorem markTargets_in_range :
    ∀ (ts : List Int) (bm : List Nat) (count : Nat) (bm' : List Nat) (count' : Nat),
      markTargets ts bm count = some (bm', count') →
      (∀ t ∈ ts, 0 ≤ t ∧ t.toNat < bm.length) ∧ bm'.length = bm.length := by
  intro ts
  induction ts with
  | nil =>
    intro bm count bm' count' h
    simp only [markTargets, Option.some.injEq, Prod.mk.injEq] at h
    rw [← h.1]
    exact ⟨by simp, rfl⟩
  | cons t ts ih =>
    intro bm count bm' count' h
    simp only [markTargets] at h
    rcases hm : markBranchTarget bm count t with _ | ⟨bm1, count1⟩
    · rw [hm] at h; cases h
    · rw [hm] at h
      dsimp only at h
      obtain ⟨hr, hl⟩ := markBranchTarget_in_range hm
      obtain ⟨hrs, hls⟩ := ih bm1 count1 bm' count' h
      refine ⟨?_, by rw [hls, hl]⟩
      intro x hx
      rcases List.mem_cons.mp hx with hx | hx
      · rw [hx]; exact hr
      · rw [← hl]; exact hrs x hx

theorem scanBytecodes_in_range (c : Collaborators) (m : J9ROMMethod) :
    ∀ (fuel pc : Nat) (bm : List Nat) (count : Nat) (bm' : List Nat) (count' : Nat),
      scanBytecodes c m fuel pc bm count = some (ScanOutcome.finished bm' count') →
      ∀ s, ScanReaches c m pc s → s < m.bytecodeSize → sizeAt c m s ≠ 0 →
        ∀ t ∈ instructionTargets c m s, 0 ≤ t ∧ t.toNat < bm.length := by
  intro fuel
  induction fuel with
  | zero => intro pc bm count bm' count' h; simp [scanBytecodes] at h
  | succ fuel ih =>
    intro pc bm count bm' count' h s hreach hs hknown
    rw [scanBytecodes_succ] at h
    have hstep : ∀ (hpc : pc < m.bytecodeSize) (hk : sizeAt c m pc ≠ 0),
        ∃ bm1 count1, markTargets (instructionTargets c m pc) bm count = some (bm1, count1) ∧
          scanBytecodes c m fuel (instructionEnd c m pc) bm1 count1 =
            some (ScanOutcome.finished bm' count') := by
      intro hpc hk
      rw [if_pos hpc, if_neg hk] at h
      rcases hm : markTargets (instructionTargets c m pc) bm count with _ | ⟨bm1, count1⟩
      · rw [hm] at h; cases h
      · rw [hm] at h
        exact ⟨bm1, count1, rfl, h⟩
    cases hreach with
    | here =>
      obtain ⟨bm1, count1, hm, _⟩ := hstep hs hknown
      exact (markTargets_in_range _ _ _ _ _ hm).1
    | step _ _ hpc hk hrest =>
      obtain ⟨bm1, count1, hm, hscan⟩ := hstep hpc hk
      have hl := (markTargets_in_range _ _ _ _ _ hm).2
      intro t ht
      have := ih _ bm1 count1 bm' count' hscan s hrest hs hknown t ht
      rw [hl] at this
      exact this

/-- After `buildBranchMap` succeeds, the targets of every instruction of the linear
stream are offsets inside the bytecode map. -/
theorem buildBranchMap_in_range (c : Collaborators) (vd : VerifyData) (n : Nat)
    (vd' : VerifyData) (h : buildBranchMap c vd = some (BranchMapResult.count n, vd')) :
    ∀ s, ScanReaches c vd.romMethod 0 s → s < vd.romMethod.bytecodeSize →
      sizeAt c vd.romMethod s ≠ 0 →
      ∀ t ∈ instructionTargets c vd.romMethod s, 0 ≤ t ∧ t.toNat < vd.bytecodeMap.length := by
  unfold buildBranchMap at h
  dsimp only at h
  rcases hscan : scanBytecodes c vd.romMethod (vd.romMethod.bytecodeSize + 1) 0 vd.bytecodeMap 0
    with _ | ⟨bm, count⟩ | ⟨errorPC, bm⟩
  · rw [hscan] at h; cases h
  · exact scanBytecodes_in_range c vd.romMethod _ _ _ _ _ _ hscan
  · rw [hscan] at h
    simp only [Option.some.injEq, Prod.mk.injEq] at h
    exact absurd h.1 (by intro e; cases e)

theorem entryTargets_eq_map (c : Collaborators) (code : Nat → Nat) (start : Int) (pcs : Nat) :
    ∀ (n at0 : Nat),
      entryTargets c code start pcs n at0 =
        (List.range n).map fun i => start + toI32 (PARAM_32 c code (at0 + pcs + (pcs + 4) * i) 0) := by
  intro n
  induction n with
  | zero => intro at0; rfl
  | succ n ih =>
    intro at0
    rw [List.range_succ_eq_map, List.map_cons, List.map_map]
    simp only [entryTargets, ih]
    have hl : (List.map (fun i => start +
          toI32 (PARAM_32 c code (at0 + pcs + 4 + pcs + (pcs + 4) * i) 0)) (List.range n)) =
        (List.map ((fun i => start +
          toI32 (PARAM_32 c code (at0 + pcs + (pcs + 4) * i) 0)) ∘ Nat.succ) (List.range n)) := by
      apply List.map_congr_left
      intro i _
      simp only [Function.comp_apply]
      have e : at0 + pcs + 4 + pcs + (pcs + 4) * i = at0 + pcs + (pcs + 4) * Nat.succ i := by
        rw [Nat.mul_succ]; omega
      rw [e]
    rw [hl]
    simp

/-! ## Merge targets and the bytecode map -/

theorem toUDATA_of_range (t : Int) (h0 : 0 ≤ t) (h1 : t.toNat < 2 ^ 28) :
    toUDATA t = t.toNat ∧ ((toUDATA t : Nat) : Int) = t := by
  have e : t = ((t.toNat : Nat) : Int) := (Int.toNat_of_nonneg h0).symm
  have h := toUDATA_of_nat t.toNat (by rw [udata_range_eq]; omega)
  rw [← e] at h
  exact ⟨h, by rw [h]; exact e.symm⟩

/-- A target named by an instruction of the linear stream is flagged after
`buildBranchMap`. -/
theorem flagged_of_instruction_target (c : Collaborators) (vd0 vd1 : VerifyData) (n : Nat)
    (hsize : vd0.romMethod.bytecodeSize < 2 ^ 28)
    (hmap : vd0.bytecodeMap = List.replicate vd0.romMethod.bytecodeSize 0)
    (hbuild : buildBranchMap c vd0 = some (BranchMapResult.count n, vd1))
    (s : Nat) (hreach : ScanReaches c vd0.romMethod 0 s) (hs : s < vd0.romMethod.bytecodeSize)
    (hknown : sizeAt c vd0.romMethod s ≠ 0) (t : Int)
    (ht : t ∈ instructionTargets c vd0.romMethod s) :
    FlaggedAt vd1.bytecodeMap (toUDATA t) ∧ IsBranchTarget c vd0.romMethod (toUDATA t) ∧
      ((toUDATA t : Nat) : Int) = t ∧ toUDATA t < vd0.romMethod.bytecodeSize := by
  have hall : ∀ v ∈ vd0.bytecodeMap, v = 0 := by
    intro v hv
    rw [hmap] at hv
    exact List.eq_of_mem_replicate hv
  have hlen : vd0.bytecodeMap.length = vd0.romMethod.bytecodeSize := by
    rw [hmap, List.length_replicate]
  obtain ⟨h0, h1⟩ := buildBranchMap_in_range c vd0 n vd1 hbuild s hreach hs hknown t ht
  rw [hlen] at h1
  obtain ⟨e1, e2⟩ := toUDATA_of_range t h0 (by omega)
  have htarget : IsBranchTarget c vd0.romMethod (toUDATA t) :=
    Or.inl ⟨s, hreach, hs, hknown, by rw [e2]; exact ht⟩
  exact ⟨((buildBranchMap_count_spec c vd0 n vd1 hall hbuild).2.2.2 _).2 htarget, htarget, e2,
    by rw [e1]; exact h1⟩

theorem instructionTargets_tableswitch (c : Collaborators) (m : J9ROMMethod) (s : Nat)
    (h5 : sizeAt c m s >>> 4 = 5) (hbc : byteAt m.bytecodes s = JBtableswitch)
    (h0 : 0 ≤ toI32 (PARAM_32 c m.bytecodes (switchBase s + 8) 0) -
      toI32 (PARAM_32 c m.bytecodes (switchBase s + 4) 0) + 1)
    (h1 : toI32 (PARAM_32 c m.bytecodes (switchBase s + 8) 0) -
      toI32 (PARAM_32 c m.bytecodes (switchBase s + 4) 0) + 1 < 2 ^ 28) :
    instructionTargets c m s =
      ((s : Int) + toI32 (PARAM_32 c m.bytecodes (switchBase s) 0)) ::
        (List.range (toI32 (PARAM_32 c m.bytecodes (switchBase s + 8) 0) -
          toI32 (PARAM_32 c m.bytecodes (switchBase s + 4) 0) + 1).toNat).map fun i =>
            (s : Int) + toI32 (PARAM_32 c m.bytecodes (switchBase s + 12 + 4 * i) 0) := by
  unfold instructionTargets switchSkip switchCount switchTable
  dsimp only
  rw [if_pos h5, if_pos hbc, if_pos hbc, if_pos hbc, entryTargets_eq_map,
    (toUDATA_of_range _ h0 (by omega)).1]

theorem instructionTargets_lookupswitch (c : Collaborators) (m : J9ROMMethod) (s : Nat)
    (h5 : sizeAt c m s >>> 4 = 5) (hbc : byteAt m.bytecodes s ≠ JBtableswitch)
    (h0 : 0 ≤ toI32 (PARAM_32 c m.bytecodes (switchBase s + 4) 0))
    (h1 : toI32 (PARAM_32 c m.bytecodes (switchBase s + 4) 0) < 2 ^ 28) :
    instructionTargets c m s =
      ((s : Int) + toI32 (PARAM_32 c m.bytecodes (switchBase s) 0)) ::
        (List.range (toI32 (PARAM_32 c m.bytecodes (switchBase s + 4) 0)).toNat).map fun i =>
            (s : Int) + toI32 (PARAM_32 c m.bytecodes (switchBase s + 12 + 8 * i) 0) := by
  unfold instructionTargets switchSkip switchCount switchTable
  dsimp only
  rw [if_pos h5, if_neg hbc, if_neg hbc, if_neg hbc, entryTargets_eq_map,
    (toUDATA_of_range _ h0 (by omega)).1]

/-- The targets of a `tableswitch` in the order of merging are the targets that
`buildBranchMap` marks for it, the entries reversed. -/
theorem tableSwitchTargets_mem (c : Collaborators) (m : J9ROMMethod) (s : Nat)
    (h5 : sizeAt c m s >>> 4 = 5) (hbc : byteAt m.bytecodes s = JBtableswitch)
    (h0 : 0 ≤ toI32 (PARAM_32 c m.bytecodes (switchBase s + 8) 0) -
      toI32 (PARAM_32 c m.bytecodes (switchBase s + 4) 0) + 1)
    (h1 : toI32 (PARAM_32 c m.bytecodes (switchBase s + 8) 0) -
      toI32 (PARAM_32 c m.bytecodes (switchBase s + 4) 0) + 1 < 2 ^ 28) (target : Nat) :
    target ∈ tableSwitchTargets c m.bytecodes s ↔
      ∃ t ∈ instructionTargets c m s, target = toUDATA t := by
  rw [instructionTargets_tableswitch c m s h5 hbc h0 h1]
  unfold tableSwitchTargets
  simp only [List.mem_cons, List.mem_map, List.mem_reverse, List.mem_range, exists_eq_or_imp,
    exists_exists_and_eq_and]
  constructor
  · rintro (h | ⟨i, hi, h⟩)
    · exact Or.inl h
    · exact Or.inr ⟨i, hi, h.symm⟩
  · rintro (h | ⟨i, hi, h⟩)
    · exact Or.inl h
    · exact Or.inr ⟨i, hi, h.symm⟩

theorem lookupSwitchTargets_mem (c : Collaborators) (m : J9ROMMethod) (s : Nat)
    (h5 : sizeAt c m s >>> 4 = 5) (hbc : byteAt m.bytecodes s ≠ JBtableswitch)
    (h0 : 0 ≤ toI32 (PARAM_32 c m.bytecodes (switchBase s + 4) 0))
    (h1 : toI32 (PARAM_32 c m.bytecodes (switchBase s + 4) 0) < 2 ^ 28) (target : Nat) :
    target ∈ lookupSwitchTargets c m.bytecodes s ↔
      ∃ t ∈ instructionTargets c m s, target = toUDATA t := by
  rw [instructionTargets_lookupswitch c m s h5 hbc h0 h1]
  unfold lookupSwitchTargets
  simp only [List.mem_cons, List.mem_map, List.mem_range, exists_eq_or_imp,
    exists_exists_and_eq_and]
  constructor
  · rintro (h | ⟨i, hi, h⟩)
    · exact Or.inl h
    · exact Or.inr ⟨i, hi, h.symm⟩
  · rintro (h | ⟨i, hi, h⟩)
    · exact Or.inl h
    · exact Or.inr ⟨i, hi, h.symm⟩

theorem tableSwitchTargets_length (c : Collaborators) (code : Nat → Nat) (s : Nat) :
    (tableSwitchTargets c code s).length =
      (toI32 (PARAM_32 c code (switchBase s + 8) 0) -
        toI32 (PARAM_32 c code (switchBase s + 4) 0) + 1).toNat + 1 := by
  unfold tableSwitchTargets
  simp

/-- What the case `RTV_BRANCH` merges into is the target that `buildBranchMap` reads
for the instruction, when the size table calls it a branch and `goto_w` a long one. -/
theorem branchAction_merged (c : Collaborators) (o : ClassOracle) (vd : VerifyData)
    (s pc type2 : Nat) (stackTop : Int) (r : CaseResult)
    (hkind : sizeAt c vd.romMethod s >>> 4 = 1 ∨ sizeAt c vd.romMethod s >>> 4 = 2)
    (hwide : byteAt vd.romMethod.bytecodes s = JBgotow → sizeAt c vd.romMethod s >>> 4 = 2)
    (h : branchAction c o vd (byteAt vd.romMethod.bytecodes s) s pc type2 stackTop = some r) :
    ∃ t, instructionTargets c vd.romMethod s = [t] ∧ r.merged = [toUDATA t] ∧
      (r.exit = CaseExit.returned RC.BCV_ERR_INSUFFICIENT_MEMORY ∨
        (type2 &&& 0x07 = 0 ∧ r.exit = CaseExit.checkFinished) ∨
        (type2 &&& 0x07 ≠ 0 ∧ r.exit = CaseExit.next pc (stackTop - ((type2 &&& 0x07 : Nat) : Int)))) ∧
      r.verifyData.liveStack.stackTopIndex = stackTop - ((type2 &&& 0x07 : Nat) : Int) := by
  have h5 : ¬ sizeAt c vd.romMethod s >>> 4 = 5 := by omega
  unfold branchAction at h
  dsimp only at h
  have htargets : instructionTargets c vd.romMethod s =
      [if byteAt vd.romMethod.bytecodes s = JBgotow then
          (s : Int) + toI32 (PARAM_32 c vd.romMethod.bytecodes s 1)
        else (s : Int) + toI16 (PARAM_16 c vd.romMethod.bytecodes s 1)] := by
    unfold instructionTargets
    dsimp only
    rw [if_neg h5]
    by_cases hw : byteAt vd.romMethod.bytecodes s = JBgotow
    · rw [if_pos ⟨hwide hw, hw⟩, if_pos hw]
    · rw [if_neg (fun hh => hw hh.2), if_neg hw, if_pos (Or.symm hkind)]
  have htarget : (if byteAt vd.romMethod.bytecodes s = JBgotow then
        toUDATA ((s : Int) + toI32 (PARAM_32 c vd.romMethod.bytecodes s 1))
      else toUDATA ((s : Int) + toI16 (PARAM_16 c vd.romMethod.bytecodes s 1))) =
      toUDATA (if byteAt vd.romMethod.bytecodes s = JBgotow then
          (s : Int) + toI32 (PARAM_32 c vd.romMethod.bytecodes s 1)
        else (s : Int) + toI16 (PARAM_16 c vd.romMethod.bytecodes s 1)) := by
    split_ifs <;> rfl
  rw [htarget] at h
  refine ⟨_, htargets, ?_⟩
  generalize (if byteAt vd.romMethod.bytecodes s = JBgotow then
          (s : Int) + toI32 (PARAM_32 c vd.romMethod.bytecodes s 1)
        else (s : Int) + toI16 (PARAM_16 c vd.romMethod.bytecodes s 1)) = t at h
  rcases hm : mergeOrOutOfMemory o (SAVE_STACKTOP vd (stackTop - ((type2 &&& 0x07 : Nat) : Int)))
      (toUDATA t) (s : Int) with _ | ⟨vdE | next⟩
  · rw [hm] at h; cases h
  · rw [hm] at h
    simp only [Option.some.injEq] at h
    subst h
    refine ⟨rfl, Or.inl rfl, ?_⟩
    unfold mergeOrOutOfMemory at hm
    rcases hms : mergeStacks o (SAVE_STACKTOP vd (stackTop - ((type2 &&& 0x07 : Nat) : Int)))
      (toUDATA t) with _ | ⟨rc, vd1⟩
    · rw [hms] at hm; cases hm
    · rw [hms] at hm
      dsimp only at hm
      split_ifs at hm
      · simp only [Option.some.injEq, Except.error.injEq] at hm
        rw [← hm]
        show vd1.liveStack.stackTopIndex = _
        rw [(mergeStacks_keeps hms).2.1]
        rfl
      · simp only [Option.some.injEq] at hm
        cases hm
  · rw [hm] at h
    dsimp only at h
    obtain ⟨rc, _, hmerge⟩ := mergeOrOutOfMemory_ok hm
    have hlive : next.liveStack.stackTopIndex = stackTop - ((type2 &&& 0x07 : Nat) : Int) := by
      rw [(mergeStacks_keeps hmerge).2.1]
      rfl
    split_ifs at h with hpop
    · simp only [Option.some.injEq] at h
      subst h
      exact ⟨rfl, Or.inr (Or.inl ⟨hpop, rfl⟩), hlive⟩
    · simp only [Option.some.injEq] at h
      subst h
      exact ⟨rfl, Or.inr (Or.inr ⟨hpop, rfl⟩), hlive⟩

/-- After `buildBranchMap` the initialisation loop of the frame store gives every
flagged PC a frame of its own. -/
theorem initStackMaps_after_build (c : Collaborators) (vd0 vd1 : VerifyData) (n : Nat)
    (hsize : vd0.romMethod.bytecodeSize < 2 ^ 28)
    (hmap : vd0.bytecodeMap = List.replicate vd0.romMethod.bytecodeSize 0)
    (hbuild : buildBranchMap c vd0 = some (BranchMapResult.count n, vd1))
    (frames : List J9BranchTargetStack) (hframes : frames.length = n) :
    ∃ bytecodeMap stackMaps,
      initStackMaps vd0.romMethod.bytecodeSize 0 0 vd1.bytecodeMap frames =
        some (bytecodeMap, stackMaps) ∧
      (∀ pc, hasBranchTarget (bytecodeMap.getD pc 0) =
        hasBranchTarget (vd1.bytecodeMap.getD pc 0)) ∧
      FrameStoreMatches bytecodeMap stackMaps := by
  have hlen : vd0.bytecodeMap.length = vd0.romMethod.bytecodeSize := by
    rw [hmap, List.length_replicate]
  have hall : ∀ v ∈ vd0.bytecodeMap, v = 0 := by
    intro v hv
    rw [hmap] at hv
    exact List.eq_of_mem_replicate hv
  obtain ⟨hcount, hlen1, hflags, _⟩ := buildBranchMap_count_spec c vd0 n vd1 hall hbuild
  apply initStackMaps_spec
  · rw [hlen1, hlen]; omega
  · rw [hlen1, hlen]; exact hsize
  · exact Nat.le_refl 0
  · rw [List.drop_zero, hframes, hcount]; omega
  · intro i v hv _
    exact hflags v (List.getElem?_mem hv)
  · intro k1 hk1
    omega
  · intro i v hi
    omega

/-- C35: for a `tableswitch` at offset `s` of the linear stream with `low <= high`
whose table lies within the method (of fewer than 2^28 bytes, the size-table entry
of the opcode calling it a switch), the case of `simulateStack` entered with
`pc = s + 1` pops one slot and calls `mergeStacks` with the live frame for the
default target first and then for the `high - low + 1` table entries from the last
to the first, each target being `s` plus the signed 32-bit offset, and then goes to
`_checkFinished`; a call that runs out of memory ends the run, and nothing else is
merged into.  Those `high - low + 2` targets are the targets that `buildBranchMap`
reads for the instruction, and each of them carries `BRANCH_TARGET` after
`buildBranchMap`. -/
theorem tableswitch_merges_default_then_entries (c : Collaborators) (t : SimulateTables)
    (o : ClassOracle) (vd0 vd1 : VerifyData) (n : Nat) (vd : VerifyData) (s : Nat)
    (stackTop : Int)
    (hsize : vd0.romMethod.bytecodeSize < 2 ^ 28)
    (hmap : vd0.bytecodeMap = List.replicate vd0.romMethod.bytecodeSize 0)
    (hbuild : buildBranchMap c vd0 = some (BranchMapResult.count n, vd1))
    (hreach : ScanReaches c vd0.romMethod 0 s) (hs : s < vd0.romMethod.bytecodeSize)
    (h5 : sizeAt c vd0.romMethod s >>> 4 = 5)
    (hbc : byteAt vd0.romMethod.bytecodes s = JBtableswitch)
    (hrom : vd.romMethod = vd0.romMethod)
    (hlow : toI32 (PARAM_32 c vd0.romMethod.bytecodes (switchBase s + 4) 0) ≤
      toI32 (PARAM_32 c vd0.romMethod.bytecodes (switchBase s + 8) 0))
    (htable : ((switchBase s + 12 : Nat) : Int) +
      4 * (toI32 (PARAM_32 c vd0.romMethod.bytecodes (switchBase s + 8) 0) -
        toI32 (PARAM_32 c vd0.romMethod.bytecodes (switchBase s + 4) 0) + 1) ≤
      vd0.romMethod.bytecodeSize) :
    switchAction c t o vd JBtableswitch s (s + 1) stackTop =
      mergeAll o s (tableSwitchTargets c vd0.romMethod.bytecodes s)
        (SAVE_STACKTOP vd (stackTop - 1)) [] ∧
    (tableSwitchTargets c vd0.romMethod.bytecodes s).length =
      (toI32 (PARAM_32 c vd0.romMethod.bytecodes (switchBase s + 8) 0) -
        toI32 (PARAM_32 c vd0.romMethod.bytecodes (switchBase s + 4) 0) + 1).toNat + 1 ∧
    (∀ r, switchAction c t o vd JBtableswitch s (s + 1) stackTop = some r →
      (r.exit = CaseExit.checkFinished ∨
        r.exit = CaseExit.returned RC.BCV_ERR_INSUFFICIENT_MEMORY) ∧
      (r.exit = CaseExit.checkFinished →
        r.merged = tableSwitchTargets c vd0.romMethod.bytecodes s) ∧
      ∃ done, done <+: tableSwitchTargets c vd0.romMethod.bytecodes s ∧ r.merged = done) ∧
    (∀ target, target ∈ tableSwitchTargets c vd0.romMethod.bytecodes s ↔
      ∃ branch ∈ instructionTargets c vd0.romMethod s, target = toUDATA branch) ∧
    (∀ target ∈ tableSwitchTargets c vd0.romMethod.bytecodes s,
      FlaggedAt vd1.bytecodeMap target ∧ target < vd0.romMethod.bytecodeSize) := by
  have hknown : sizeAt c vd0.romMethod s ≠ 0 := by
    intro h0
    rw [h0] at h5
    exact absurd h5 (by decide)
  have hrun : switchAction c t o vd JBtableswitch s (s + 1) stackTop =
      mergeAll o s (tableSwitchTargets c vd0.romMethod.bytecodes s)
        (SAVE_STACKTOP vd (stackTop - 1)) [] := by
    have h := switchAction_tableswitch c t o vd s stackTop (by rw [hrom]; exact hsize)
      (by rw [hrom]; omega) (by rw [hrom]; exact htable)
    rw [hrom] at h
    exact h
  have hmem := tableSwitchTargets_mem c vd0.romMethod s h5 hbc (by omega) (by omega)
  refine ⟨hrun, tableSwitchTargets_length c _ s, ?_, hmem, ?_⟩
  · intro r hr
    rw [hrun] at hr
    obtain ⟨⟨done, hpre, hdone⟩, hall, hexit⟩ := mergeAll_merged o s _ _ _ r hr
    refine ⟨hexit, ?_, ⟨done, hpre, by rw [hdone]; rfl⟩⟩
    intro hfin
    rw [hall hfin]
    rfl
  · intro target htarget
    obtain ⟨branch, hbranch, hb⟩ := (hmem target).1 htarget
    obtain ⟨hf, _, _, hlt⟩ := flagged_of_instruction_target c vd0 vd1 n hsize hmap hbuild s hreach
      hs hknown branch hbranch
    rw [hb]
    exact ⟨hf, hlt⟩

theorem tableswitch_merges_default_then_entries_witness :
    caseSummary (switchAction switchCollaborators exampleTables exampleOracle tableSwitchData
        JBtableswitch 1 (1 + 1) 5) =
      some (CaseExit.checkFinished, [31, 30, 29, 28], [(4, 4), (4, 4), (4, 4), (4, 4)],
        [31, 30, 29, 28]) ∧
    tableSwitchTargets switchCollaborators tableSwitchMethod.bytecodes 1 = [31, 30, 29, 28] ∧
    tableSwitchBuilt.bytecodeMap = List.replicate 28 0 ++ [1, 1, 1, 1] ∧
    switchAction switchCollaborators exampleTables exampleOracle tableSwitchData
        JBtableswitch 1 (1 + 1) 5 =
      mergeAll exampleOracle ((1 : Nat) : Int)
        (tableSwitchTargets switchCollaborators
          (exampleVerifyData tableSwitchMethod).romMethod.bytecodes 1)
        (SAVE_STACKTOP tableSwitchData (5 - 1)) [] :=
  ⟨by rfl, by rfl, by rfl,
    (tableswitch_merges_default_then_entries switchCollaborators exampleTables exampleOracle
      (exampleVerifyData tableSwitchMethod) tableSwitchBuilt 4 tableSwitchData 1 5
      (by decide) (by rfl) (by rfl)
      (ScanReaches.step 0 1 (by decide) (by decide) (ScanReaches.here 1))
      (by decide) (by decide) (by decide) (by rfl) (by decide) (by decide)).1⟩

theorem toI32_PARAM_32_range (c : Collaborators) (code : Nat → Nat) (ip offset : Nat) :
    -(2 ^ 31) ≤ toI32 (PARAM_32 c code ip offset) ∧ toI32 (PARAM_32 c code ip offset) < 2 ^ 31 := by
  have hb : ∀ i, byteAt code i < 256 := fun i => Nat.mod_lt _ (by decide)
  have h : PARAM_32 c code ip offset < 2 ^ 32 := by
    unfold PARAM_32 u32
    have h0 := hb (ip + offset)
    have h1 := hb (ip + offset + 1)
    have h2 := hb (ip + offset + 2)
    have h3 := hb (ip + offset + 3)
    split_ifs <;> omega
  unfold toI32
  split_ifs <;> omega

theorem toUDATA_small (k : Int) (bound : Nat) (hk0 : -(2 ^ 33) ≤ k) (hk1 : k < 2 ^ 33)
    (h : toUDATA k ≤ bound) (hbound : bound < 2 ^ 28) : 0 ≤ k ∧ k < 2 ^ 28 := by
  unfold toUDATA at h
  rw [udata_range_eq] at h
  have hnn : (0 : Int) ≤ k % ((18446744073709551616 : Nat) : Int) :=
    Int.emod_nonneg _ (by decide)
  have hto := Int.toNat_of_nonneg hnn
  generalize (k % ((18446744073709551616 : Nat) : Int)).toNat = m at h hto
  push_cast at hto
  omega

/-- C38: `buildBranchMap` and `simulateStack` agree on branch targets.  Let
`buildBranchMap` succeed on a cleared map for a method of fewer than 2^28 bytes and
let `s` be an instruction of the linear stream.  When the size table calls the opcode
a branch (and `goto_w` a long one), the target that the case `RTV_BRANCH` passes to
`mergeStacks` (`s` plus the signed 16-bit operand, the signed 32-bit operand for
`goto_w`) is the target that `buildBranchMap` read, and it carries `BRANCH_TARGET`.
When the size table calls the opcode a switch that ends within the method, every
target that the switch case entered with `pc = s + 1` passes to `mergeStacks` is one
of the targets that `buildBranchMap` read from the operand block, and it carries
`BRANCH_TARGET`; the block starts at the same offset for both:
`switchBase s = (s + 1) + ((4 - ((s + 1) & 3)) & 3)`.  The initialisation loop of the
frame store then gives every flagged PC a frame with that `pc` at the index packed in
its map entry, and two flagged PCs with the same index are the same PC. -/
theorem merge_targets_are_branch_targets (c : Collaborators) (t : SimulateTables)
    (o : ClassOracle) (vd0 vd1 : VerifyData) (n : Nat) (vd : VerifyData) (s : Nat)
    (hsize : vd0.romMethod.bytecodeSize < 2 ^ 28)
    (hmap : vd0.bytecodeMap = List.replicate vd0.romMethod.bytecodeSize 0)
    (hbuild : buildBranchMap c vd0 = some (BranchMapResult.count n, vd1))
    (hreach : ScanReaches c vd0.romMethod 0 s) (hs : s < vd0.romMethod.bytecodeSize)
    (hrom : vd.romMethod = vd0.romMethod) :
    (sizeAt c vd0.romMethod s >>> 4 = 1 ∨ sizeAt c vd0.romMethod s >>> 4 = 2 →
      (byteAt vd0.romMethod.bytecodes s = JBgotow → sizeAt c vd0.romMethod s >>> 4 = 2) →
      ∀ (pc type2 : Nat) (stackTop : Int) (r : CaseResult),
        branchAction c o vd (byteAt vd0.romMethod.bytecodes s) s pc type2 stackTop = some r →
        ∀ target ∈ r.merged, FlaggedAt vd1.bytecodeMap target ∧
          (target : Int) ∈ instructionTargets c vd0.romMethod s ∧
          ((byteAt vd0.romMethod.bytecodes s = JBgotow →
              (target : Int) = s + toI32 (PARAM_32 c vd0.romMethod.bytecodes s 1)) ∧
            (byteAt vd0.romMethod.bytecodes s ≠ JBgotow →
              (target : Int) = s + toI16 (PARAM_16 c vd0.romMethod.bytecodes s 1)))) ∧
    (sizeAt c vd0.romMethod s >>> 4 = 5 →
      instructionEnd c vd0.romMethod s ≤ vd0.romMethod.bytecodeSize →
      ∀ (stackTop : Int) (r : CaseResult),
        switchAction c t o vd (byteAt vd0.romMethod.bytecodes s) s (s + 1) stackTop = some r →
        ∀ target ∈ r.merged, FlaggedAt vd1.bytecodeMap target ∧
          (target : Int) ∈ instructionTargets c vd0.romMethod s) ∧
    switchBase s = (s + 1) + ((4 - ((s + 1) &&& 3)) &&& 3) ∧
    (∀ frames : List J9BranchTargetStack, frames.length = n →
      ∃ bytecodeMap stackMaps,
        initStackMaps vd0.romMethod.bytecodeSize 0 0 vd1.bytecodeMap frames =
          some (bytecodeMap, stackMaps) ∧
        ∀ target, FlaggedAt vd1.bytecodeMap target →
          (∃ f, stackMaps[bytecodeMap.getD target 0 >>> BRANCH_INDEX_SHIFT]? = some f ∧
            f.pc = target) ∧
          ∀ other, FlaggedAt vd1.bytecodeMap other →
            bytecodeMap.getD other 0 >>> BRANCH_INDEX_SHIFT =
              bytecodeMap.getD target 0 >>> BRANCH_INDEX_SHIFT → other = target) := by
  have hflagged := flagged_of_instruction_target c vd0 vd1 n hsize hmap hbuild s hreach hs
  refine ⟨?_, ?_, (switch_padding s).symm, ?_⟩
  · intro hkind hwide pc type2 stackTop r h target htarget
    have hknown : sizeAt c vd0.romMethod s ≠ 0 := by
      intro h0
      rw [h0] at hkind
      rcases hkind with h1 | h1 <;> exact absurd h1 (by decide)
    rw [← hrom] at h hkind hwide
    obtain ⟨b, hb, hmerged, _⟩ := branchAction_merged c o vd s pc type2 stackTop r hkind hwide h
    rw [hrom] at hb
    rw [hmerged, List.mem_singleton] at htarget
    obtain ⟨hf, _, hcast, _⟩ := hflagged hknown b (by rw [hb]; exact List.mem_singleton_self _)
    rw [htarget, hcast]
    refine ⟨hf, by rw [hb]; exact List.mem_singleton_self _, ?_, ?_⟩
    · intro hw
      unfold instructionTargets at hb
      dsimp only at hb
      rw [hrom] at hkind hwide
      rw [if_neg (by omega), if_pos ⟨hwide hw, hw⟩] at hb
      exact (List.singleton_inj.mp hb).symm
    · intro hw
      unfold instructionTargets at hb
      dsimp only at hb
      rw [hrom] at hkind
      rw [if_neg (by omega), if_neg (fun hh => hw hh.2), if_pos (Or.symm hkind)] at hb
      exact (List.singleton_inj.mp hb).symm
  · intro h5 hend stackTop r h target htarget
    have hknown : sizeAt c vd0.romMethod s ≠ 0 := by
      intro h0
      rw [h0] at h5
      exact absurd h5 (by decide)
    have hsb : s + 1 ≤ switchBase s := by
      have := switch_padding s
      omega
    have hcases : ∃ targets : List Nat,
        switchAction c t o vd (byteAt vd0.romMethod.bytecodes s) s (s + 1) stackTop =
          mergeAll o s targets (SAVE_STACKTOP vd (stackTop - 1)) [] ∧
        ∀ x, x ∈ targets ↔ ∃ b ∈ instructionTargets c vd0.romMethod s, x = toUDATA b := by
      unfold instructionEnd switchTable switchCount switchSkip at hend
      dsimp only at hend
      rw [if_pos h5] at hend
      by_cases hbc : byteAt vd0.romMethod.bytecodes s = JBtableswitch
      · rw [if_pos hbc, if_pos hbc, if_pos hbc] at hend
        have hcount : 0 ≤ toI32 (PARAM_32 c vd0.romMethod.bytecodes (switchBase s + 8) 0) -
              toI32 (PARAM_32 c vd0.romMethod.bytecodes (switchBase s + 4) 0) + 1 ∧
            toI32 (PARAM_32 c vd0.romMethod.bytecodes (switchBase s + 8) 0) -
              toI32 (PARAM_32 c vd0.romMethod.bytecodes (switchBase s + 4) 0) + 1 < 2 ^ 28 := by
          have r1 := toI32_PARAM_32_range c vd0.romMethod.bytecodes (switchBase s + 8) 0
          have r2 := toI32_PARAM_32_range c vd0.romMethod.bytecodes (switchBase s + 4) 0
          exact toUDATA_small _ (vd0.romMethod.bytecodeSize / 4) (by omega) (by omega)
            (by omega) (by omega)
        have hcountN : toUDATA (toI32 (PARAM_32 c vd0.romMethod.bytecodes (switchBase s + 8) 0) -
              toI32 (PARAM_32 c vd0.romMethod.bytecodes (switchBase s + 4) 0) + 1) =
            (toI32 (PARAM_32 c vd0.romMethod.bytecodes (switchBase s + 8) 0) -
              toI32 (PARAM_32 c vd0.romMethod.bytecodes (switchBase s + 4) 0) + 1).toNat :=
          (toUDATA_of_range _ hcount.1 (by omega)).1
        rw [hcountN] at hend
        refine ⟨tableSwitchTargets c vd0.romMethod.bytecodes s, ?_,
          tableSwitchTargets_mem c vd0.romMethod s h5 hbc hcount.1 hcount.2⟩
        have h := switchAction_tableswitch c t o vd s stackTop (by rw [hrom]; exact hsize)
          (by rw [hrom]; omega) (by rw [hrom]; omega)
        rw [hrom] at h
        rw [hbc]
        exact h
      · rw [if_neg hbc, if_neg hbc, if_neg hbc] at hend
        have hcount : 0 ≤ toI32 (PARAM_32 c vd0.romMethod.bytecodes (switchBase s + 4) 0) ∧
            toI32 (PARAM_32 c vd0.romMethod.bytecodes (switchBase s + 4) 0) < 2 ^ 28 := by
          have r2 := toI32_PARAM_32_range c vd0.romMethod.bytecodes (switchBase s + 4) 0
          exact toUDATA_small _ (vd0.romMethod.bytecodeSize / 8) (by omega) (by omega)
            (by omega) (by omega)
        have hcountN : toUDATA (toI32 (PARAM_32 c vd0.romMethod.bytecodes (switchBase s + 4) 0)) =
            (toI32 (PARAM_32 c vd0.romMethod.bytecodes (switchBase s + 4) 0)).toNat :=
          (toUDATA_of_range _ hcount.1 (by omega)).1
        rw [hcountN] at hend
        refine ⟨lookupSwitchTargets c vd0.romMethod.bytecodes s, ?_,
          lookupSwitchTargets_mem c vd0.romMethod s h5 hbc hcount.1 hcount.2⟩
        have h := switchAction_lookupswitch c t o vd (byteAt vd0.romMethod.bytecodes s) s stackTop
          hbc (by rw [hrom]; exact hsize) (by rw [hrom]; exact hcount.1) (by rw [hrom]; omega)
        rw [hrom] at h
        exact h
    obtain ⟨targets, hrun, hmem⟩ := hcases
    rw [hrun] at h
    obtain ⟨⟨done, hpre, hdone⟩, _, _⟩ := mergeAll_merged o s _ _ _ r h
    rw [hdone, List.nil_append] at htarget
    obtain ⟨b, hb, hx⟩ := (hmem target).1 (hpre.subset htarget)
    obtain ⟨hf, _, hcast, _⟩ := hflagged hknown b hb
    rw [hx, hcast]
    exact ⟨hf, hb⟩
  · intro frames hframes
    obtain ⟨bytecodeMap, stackMaps, hinit, hflags, hmatch⟩ :=
      initStackMaps_after_build c vd0 vd1 n hsize hmap hbuild frames hframes
    refine ⟨bytecodeMap, stackMaps, hinit, ?_⟩
    intro target htarget
    have hflag : hasBranchTarget (bytecodeMap.getD target 0) = true := by
      rw [hflags]
      exact (flaggedAt_iff_getD _ _).1 htarget
    obtain ⟨⟨f, hf, hpc⟩, huniq⟩ := hmatch target hflag
    refine ⟨⟨f, hf, hpc⟩, ?_⟩
    intro other hother hsame
    have hflag2 : hasBranchTarget (bytecodeMap.getD other 0) = true := by
      rw [hflags]
      exact (flaggedAt_iff_getD _ _).1 hother
    obtain ⟨⟨g, hg, hgpc⟩, _⟩ := hmatch other hflag2
    rw [hsame, hf] at hg
    cases hg
    rw [← hgpc, hpc]

theorem merge_targets_are_branch_targets_witness :
    FlaggedAt branchyBuilt.bytecodeMap 4 ∧
    (caseOrSelf (branchAction exampleCollaborators exampleOracle branchyData
      (byteAt (exampleVerifyData branchyMethod).romMethod.bytecodes 0) 0 3 1 5)
      branchyData).merged = [4] :=
  ⟨((merge_targets_are_branch_targets exampleCollaborators exampleTables exampleOracle
      (exampleVerifyData branchyMethod) branchyBuilt 4 branchyData 0 (by decide) (by rfl)
      (by rfl) (ScanReaches.here 0) (by decide) (by rfl)).1 (Or.inl (by decide))
      (fun h => absurd h (by decide)) 3 1 5
      (caseOrSelf (branchAction exampleCollaborators exampleOracle branchyData
        (byteAt (exampleVerifyData branchyMethod).romMethod.bytecodes 0) 0 3 1 5) branchyData)
      (by rfl) 4 (by decide)).1, by rfl⟩

/-! ## The rings never fill -/

theorem hasBranchTarget_congr {v w : Nat} (h : w &&& BRANCH_TARGET = v &&& BRANCH_TARGET) :
    hasBranchTarget w = hasBranchTarget v := by
  unfold hasBranchTarget
  rw [h]

/-- The entry written when a PC is put on the unwalked queue. -/
theorem unwalked_entry_bits (v : Nat) (hv : v < U32_RANGE) :
    ((v ||| BRANCH_ON_UNWALKED_QUEUE) % U32_RANGE) >>> BRANCH_INDEX_SHIFT =
        v >>> BRANCH_INDEX_SHIFT ∧
    hasBranchTarget ((v ||| BRANCH_ON_UNWALKED_QUEUE) % U32_RANGE) = hasBranchTarget v ∧
    (v ||| BRANCH_ON_UNWALKED_QUEUE) % U32_RANGE < U32_RANGE ∧
    ((v ||| BRANCH_ON_UNWALKED_QUEUE) % U32_RANGE) &&& BRANCH_ON_REWALK_QUEUE =
        v &&& BRANCH_ON_REWALK_QUEUE ∧
    ((v ||| BRANCH_ON_UNWALKED_QUEUE) % U32_RANGE) &&& BRANCH_ON_UNWALKED_QUEUE ≠ 0 := by
  obtain ⟨h1, h2, h3, h4⟩ := set_flag_bits v BRANCH_ON_UNWALKED_QUEUE BRANCH_ON_REWALK_QUEUE
    (by decide) (by decide) (by decide) (by decide) (by decide) (by decide) hv
  obtain ⟨_, t2, _, _⟩ := set_flag_bits v BRANCH_ON_UNWALKED_QUEUE BRANCH_TARGET
    (by decide) (by decide) (by decide) (by decide) (by decide) (by decide) hv
  exact ⟨h3, hasBranchTarget_congr t2, h4, h2, h1⟩

/-- The entry left when a queue flag is cleared. -/
theorem cleared_entry_bits (v flag other : Nat) (hv : v < U32_RANGE)
    (hflag : (flag = BRANCH_ON_UNWALKED_QUEUE ∧ other = BRANCH_ON_REWALK_QUEUE) ∨
      (flag = BRANCH_ON_REWALK_QUEUE ∧ other = BRANCH_ON_UNWALKED_QUEUE)) :
    clearFlag v flag >>> BRANCH_INDEX_SHIFT = v >>> BRANCH_INDEX_SHIFT ∧
    hasBranchTarget (clearFlag v flag) = hasBranchTarget v ∧
    clearFlag v flag < U32_RANGE ∧
    clearFlag v flag &&& other = v &&& other ∧
    clearFlag v flag &&& flag = 0 := by
  rcases hflag with ⟨hf, ho⟩ | ⟨hf, ho⟩
  · subst hf
    subst ho
    obtain ⟨h1, h2, h3, h4⟩ := clearFlag_bits v BRANCH_ON_UNWALKED_QUEUE BRANCH_ON_REWALK_QUEUE
      (by decide) (by decide) (by decide) hv
    obtain ⟨_, t2, _, _⟩ := clearFlag_bits v BRANCH_ON_UNWALKED_QUEUE BRANCH_TARGET (by decide)
      (by decide) (by decide) hv
    exact ⟨h3, hasBranchTarget_congr t2, h4, h2, h1⟩
  · subst hf
    subst ho
    obtain ⟨h1, h2, h3, h4⟩ := clearFlag_bits v BRANCH_ON_REWALK_QUEUE BRANCH_ON_UNWALKED_QUEUE
      (by decide) (by decide) (by decide) hv
    obtain ⟨_, t2, _, _⟩ := clearFlag_bits v BRANCH_ON_REWALK_QUEUE BRANCH_TARGET (by decide)
      (by decide) (by decide) hv
    exact ⟨h3, hasBranchTarget_congr t2, h4, h2, h1⟩

/-- The entry written when a PC is put on the rewalk queue. -/
theorem rewalk_entry_bits (v : Nat) (hv : v < U32_RANGE) :
    clearFlag ((v ||| BRANCH_ON_REWALK_QUEUE) % U32_RANGE) BRANCH_ON_UNWALKED_QUEUE >>>
        BRANCH_INDEX_SHIFT = v >>> BRANCH_INDEX_SHIFT ∧
    hasBranchTarget
        (clearFlag ((v ||| BRANCH_ON_REWALK_QUEUE) % U32_RANGE) BRANCH_ON_UNWALKED_QUEUE) =
      hasBranchTarget v ∧
    clearFlag ((v ||| BRANCH_ON_REWALK_QUEUE) % U32_RANGE) BRANCH_ON_UNWALKED_QUEUE <
        U32_RANGE ∧
    clearFlag ((v ||| BRANCH_ON_REWALK_QUEUE) % U32_RANGE) BRANCH_ON_UNWALKED_QUEUE &&&
        BRANCH_ON_REWALK_QUEUE ≠ 0 := by
  obtain ⟨h1, _, h3, h4⟩ := set_flag_bits v BRANCH_ON_REWALK_QUEUE BRANCH_ON_UNWALKED_QUEUE
    (by decide) (by decide) (by decide) (by decide) (by decide) (by decide) hv
  obtain ⟨_, t2, _, _⟩ := set_flag_bits v BRANCH_ON_REWALK_QUEUE BRANCH_TARGET
    (by decide) (by decide) (by decide) (by decide) (by decide) (by decide) hv
  obtain ⟨c1, c2, c3, c4, _⟩ := cleared_entry_bits ((v ||| BRANCH_ON_REWALK_QUEUE) % U32_RANGE)
    BRANCH_ON_UNWALKED_QUEUE BRANCH_ON_REWALK_QUEUE h4 (Or.inl ⟨rfl, rfl⟩)
  refine ⟨by rw [c1, h3], by rw [c2, hasBranchTarget_congr t2], c3, ?_⟩
  rw [c4]
  exact h1

/-- Writing an entry with the same `BRANCH_TARGET` bit keeps the flagged PCs. -/
theorem flaggedAt_set {bm : List Nat} {t v w : Nat} (hv : bm[t]? = some v)
    (hb : hasBranchTarget w = hasBranchTarget v) (i : Nat) :
    FlaggedAt (bm.set t w) i ↔ FlaggedAt bm i := by
  unfold FlaggedAt
  rcases eq_or_ne t i with he | hne
  · subst he
    rw [getElem?_set_same hv, hv]
    constructor
    · rintro ⟨x, hx, hf⟩
      cases hx
      exact ⟨v, rfl, by rw [← hb]; exact hf⟩
    · rintro ⟨x, hx, hf⟩
      cases hx
      exact ⟨w, rfl, by rw [hb]; exact hf⟩
  · rw [getElem?_set_other hne]

/-- Writing an entry with the same frame index and the same `BRANCH_TARGET` bit
keeps the frame store matching the map. -/
theorem frameStoreMatches_set {bm : List Nat} {sm : List J9BranchTargetStack} {t v w : Nat}
    (h : FrameStoreMatches bm sm) (hv : bm[t]? = some v)
    (hidx : w >>> BRANCH_INDEX_SHIFT = v >>> BRANCH_INDEX_SHIFT)
    (hb : hasBranchTarget w = hasBranchTarget v) : FrameStoreMatches (bm.set t w) sm := by
  apply frameStoreMatches_of
  intro pc x hx hflag
  rcases eq_or_ne t pc with he | hne
  · subst he
    rw [getElem?_set_same hv] at hx
    cases hx
    have h1 := h t (by rw [getD_of_getElem? hv, ← hb]; exact hflag)
    rw [getD_of_getElem? hv] at h1
    rw [hidx]
    exact h1
  · rw [getElem?_set_other hne] at hx
    have h1 := h pc (by rw [getD_of_getElem? hx]; exact hflag)
    rw [getD_of_getElem? hx] at h1
    exact h1

/-- Replacing a frame by one with the same `pc` keeps the frame store matching the
map. -/
theorem frameStoreMatches_frame {bm : List Nat} {sm : List J9BranchTargetStack} {k : Nat}
    {old new : J9BranchTargetStack} (h : FrameStoreMatches bm sm) (hold : sm[k]? = some old)
    (hpc : new.pc = old.pc) : FrameStoreMatches bm (sm.set k new) := by
  intro pc hflag
  obtain ⟨⟨f, hf, hfpc⟩, huniq⟩ := h pc hflag
  constructor
  · rcases eq_or_ne k (bm.getD pc 0 >>> BRANCH_INDEX_SHIFT) with he | hne
    · rw [← he] at hf ⊢
      rw [hold] at hf
      cases hf
      exact ⟨new, getElem?_set_same hold, by rw [hpc, hfpc]⟩
    · exact ⟨f, by rw [getElem?_set_other hne]; exact hf, hfpc⟩
  · intro j g hg hgpc
    rcases eq_or_ne k j with he | hne
    · subst he
      rw [getElem?_set_same hold] at hg
      cases hg
      exact huniq k old hold (by rw [← hpc, hgpc])
    · rw [getElem?_set_other hne] at hg
      exact huniq j g hg hgpc

/-- Writing an entry with the same frame index keeps the reached PCs reached. -/
theorem reached_set_entry {bm : List Nat} {sm : List J9BranchTargetStack} {t v w : Nat}
    (hv : bm[t]? = some v) (hidx : w >>> BRANCH_INDEX_SHIFT = v >>> BRANCH_INDEX_SHIFT)
    (pc : Nat)
    (h : ∃ x f, bm[pc]? = some x ∧ sm[x >>> BRANCH_INDEX_SHIFT]? = some f ∧
      f.stackBaseIndex ≠ -1) :
    ∃ x f, (bm.set t w)[pc]? = some x ∧ sm[x >>> BRANCH_INDEX_SHIFT]? = some f ∧
      f.stackBaseIndex ≠ -1 := by
  obtain ⟨x, f, hx, hf, hbase⟩ := h
  rcases eq_or_ne t pc with he | hne
  · subst he
    rw [hv] at hx
    cases hx
    exact ⟨w, f, getElem?_set_same hv, by rw [hidx]; exact hf, hbase⟩
  · exact ⟨x, f, by rw [getElem?_set_other hne]; exact hx, hf, hbase⟩

/-- Replacing a frame by one that is reached when the old one was keeps the reached
PCs reached. -/
theorem reached_set_frame {bm : List Nat} {sm : List J9BranchTargetStack} {k : Nat}
    {old new : J9BranchTargetStack} (hold : sm[k]? = some old)
    (hnew : old.stackBaseIndex ≠ -1 → new.stackBaseIndex ≠ -1) (pc : Nat)
    (h : ∃ x f, bm[pc]? = some x ∧ sm[x >>> BRANCH_INDEX_SHIFT]? = some f ∧
      f.stackBaseIndex ≠ -1) :
    ∃ x f, bm[pc]? = some x ∧ (sm.set k new)[x >>> BRANCH_INDEX_SHIFT]? = some f ∧
      f.stackBaseIndex ≠ -1 := by
  obtain ⟨x, f, hx, hf, hbase⟩ := h
  obtain ⟨g, hg, hgbase⟩ := reached_after_set hold hnew hf hbase
  exact ⟨x, g, hx, hg, hgbase⟩

theorem pendingFrom_length (queue : List Nat) (slots : Nat) :
    ∀ (count head : Nat), (pendingFrom queue slots count head).length = count := by
  intro count
  induction count with
  | zero => intro head; rfl
  | succ n ih =>
    intro head
    rw [pendingFrom, List.length_cons, ih]

theorem pending_length (queue : List Nat) (slots head tail : Nat) :
    (pending queue slots head tail).length = (tail + slots - head) % slots := by
  unfold pending
  rw [pendingFrom_length]

/-- A ring whose head and tail coincide holds nothing. -/
theorem pending_empty (queue : List Nat) (slots head : Nat) :
    pending queue slots head head = [] := by
  unfold pending
  have h : (head + slots - head) % slots = 0 := by
    rw [Nat.add_sub_cancel_left, Nat.mod_self]
  rw [h]
  rfl

/-- A ring with at least two slots more than entries waiting has room. -/
theorem ring_has_room (queue : List Nat) (slots head tail : Nat) (hh : head < slots)
    (ht : tail < slots) (hlen : slots ≤ queue.length) (hword : slots < UDATA_RANGE)
    (hcount : (pending queue slots head tail).length + 2 ≤ slots) :
    RingHasRoom queue slots head tail := by
  refine ⟨hh, ht, hlen, hword, ?_⟩
  rw [pending_length] at hcount
  obtain ⟨hc, hsum⟩ := pendingCount_spec slots head tail hh ht
  generalize (tail + slots - head) % slots = n at hcount hc hsum
  intro heq
  rcases Nat.lt_or_ge (tail + 1) slots with h1 | h1
  · rw [Nat.mod_eq_of_lt h1] at heq
    omega
  · have h2 : tail + 1 = slots := by omega
    rw [h2, Nat.mod_self] at heq
    omega

/-- Reading at the head of a ring that is not empty takes the oldest entry waiting
and leaves the others. -/
theorem pending_dequeue (queue : List Nat) (slots head tail : Nat) (hh : head < slots)
    (ht : tail < slots) (hlen : slots ≤ queue.length) (hword : slots < UDATA_RANGE)
    (hne : head ≠ tail) :
    dequeue queue head slots = some (queue.getD head 0, (head + 1) % slots) ∧
    pending queue slots head tail =
      queue.getD head 0 :: pending queue slots ((head + 1) % slots) tail := by
  constructor
  · unfold dequeue
    have hlt : head < queue.length := by omega
    rw [List.getElem?_eq_getElem hlt]
    simp only [List.getD_eq_getElem?_getD, List.getElem?_eq_getElem hlt, Option.getD_some]
    rw [if_pos (by omega), Nat.mod_eq_of_lt (by omega : head + 1 < UDATA_RANGE)]
  · unfold pending
    obtain ⟨hc, hsum⟩ := pendingCount_spec slots head tail hh ht
    have hh1 : (head + 1) % slots < slots := Nat.mod_lt _ (by omega)
    obtain ⟨hc1, hsum1⟩ := pendingCount_spec slots ((head + 1) % slots) tail hh1 ht
    have hcount : (tail + slots - head) % slots =
        (tail + slots - (head + 1) % slots) % slots + 1 := by
      generalize (tail + slots - (head + 1) % slots) % slots = n1 at hc1 hsum1 ⊢
      generalize (tail + slots - head) % slots = n at hc hsum ⊢
      rcases Nat.lt_or_ge (head + 1) slots with h1 | h1
      · rw [Nat.mod_eq_of_lt h1] at hsum1
        omega
      · have h2 : head + 1 = slots := by omega
        rw [h2, Nat.mod_self] at hsum1
        omega
    rw [hcount, pendingFrom]

/-- Distinct flagged PCs are no more than the frames of a store that matches the
map: each has a frame of its own. -/
theorem flagged_length_le {bm : List Nat} {sm : List J9BranchTargetStack}
    (hstore : FrameStoreMatches bm sm) (l : List Nat) (hnd : l.Nodup)
    (hfl : ∀ pc ∈ l, FlaggedAt bm pc) : l.length ≤ sm.length := by
  have hframe : ∀ pc ∈ l, ∃ f, sm[bm.getD pc 0 >>> BRANCH_INDEX_SHIFT]? = some f ∧ f.pc = pc :=
    fun pc hpc => (hstore pc ((flaggedAt_iff_getD bm pc).1 (hfl pc hpc))).1
  have hinj : ∀ x ∈ l, ∀ y ∈ l,
      bm.getD x 0 >>> BRANCH_INDEX_SHIFT = bm.getD y 0 >>> BRANCH_INDEX_SHIFT → x = y := by
    intro x hx y hy hxy
    obtain ⟨f, hf, hfpc⟩ := hframe x hx
    obtain ⟨g, hg, hgpc⟩ := hframe y hy
    rw [hxy, hg] at hf
    cases hf
    rw [← hfpc, hgpc]
  have hmap : (l.map fun pc => bm.getD pc 0 >>> BRANCH_INDEX_SHIFT).Nodup :=
    List.Nodup.map_on hinj hnd
  have hsub : (l.map fun pc => bm.getD pc 0 >>> BRANCH_INDEX_SHIFT) ⊆ List.range sm.length := by
    intro i hi
    obtain ⟨pc, hpc, hi⟩ := List.mem_map.1 hi
    obtain ⟨f, hf, _⟩ := hframe pc hpc
    rw [← hi]
    exact List.mem_range.2 (getElem?_lt hf)
  have hle := (List.Nodup.subperm hmap hsub).length_le
  rw [List.length_map, List.length_range] at hle
  exact hle

/-- The ways in which the code at `_checkFinished` is left when the indices of the
rings are inside them: each head has moved past some of the entries that waited,
and the PC whose frame is loaded is one of the entries passed in the queue whose
flag it carried. -/
theorem checkFinished_rings :
    ∀ (fuel : Nat) (vd : VerifyData) (out : ServiceOutcome),
      vd.unwalkedQueueHead < queueSlots vd → vd.unwalkedQueueTail < queueSlots vd →
      vd.rewalkQueueHead < queueSlots vd → vd.rewalkQueueTail < queueSlots vd →
      queueSlots vd ≤ vd.unwalkedQueue.length → queueSlots vd ≤ vd.rewalkQueue.length →
      queueSlots vd < UDATA_RANGE →
      checkFinished fuel vd = some out →
      ∃ unwalkedHead rewalkHead passedUnwalked passedRewalk,
        unwalkedHead < queueSlots vd ∧ rewalkHead < queueSlots vd ∧
        pendingUnwalked vd = passedUnwalked ++
          pending vd.unwalkedQueue (queueSlots vd) unwalkedHead vd.unwalkedQueueTail ∧
        pendingRewalk vd = passedRewalk ++
          pending vd.rewalkQueue (queueSlots vd) rewalkHead vd.rewalkQueueTail ∧
        (out = ServiceOutcome.finished
            { vd with unwalkedQueueHead := unwalkedHead, rewalkQueueHead := rewalkHead } ∨
          ∃ pc v flag other branch,
            ((flag = BRANCH_ON_UNWALKED_QUEUE ∧ other = BRANCH_ON_REWALK_QUEUE ∧
                pc ∈ passedUnwalked) ∨
              (flag = BRANCH_ON_REWALK_QUEUE ∧ other = BRANCH_ON_UNWALKED_QUEUE ∧
                pc ∈ passedRewalk)) ∧
            vd.bytecodeMap[pc]? = some v ∧ v &&& flag ≠ 0 ∧
            vd.stackMaps[clearFlag v flag >>> BRANCH_INDEX_SHIFT]? = some branch ∧
            out = ServiceOutcome.walk pc
              { vd with
                unwalkedQueueHead := unwalkedHead
                rewalkQueueHead := rewalkHead
                bytecodeMap := vd.bytecodeMap.set pc (clearFlag v flag)
                liveStack := copyStack branch vd.liveStack }) := by
  intro fuel
  induction fuel with
  | zero =>
    intro vd out _ _ _ _ _ _ _ h
    cases h
  | succ fuel ih =>
    intro vd out huh hut hrh hrt hul hrl hword h
    unfold checkFinished at h
    split_ifs at h with hu hr
    · obtain ⟨hdq, hpend⟩ := pending_dequeue vd.unwalkedQueue (queueSlots vd)
        vd.unwalkedQueueHead vd.unwalkedQueueTail huh hut hul hword hu
      have hnext : (vd.unwalkedQueueHead + 1) % queueSlots vd < queueSlots vd :=
        Nat.mod_lt _ (by omega)
      rw [hdq] at h
      simp only at h
      generalize hv : vd.bytecodeMap[vd.unwalkedQueue.getD vd.unwalkedQueueHead 0]? = mv at h
      rcases mv with _ | v
      · cases h
      simp only at h
      split_ifs at h with hflag
      · obtain ⟨uh, rh, pu, pr, h1, h2, h3, h4, hcase⟩ :=
          ih { vd with unwalkedQueueHead := (vd.unwalkedQueueHead + 1) % queueSlots vd } out
            hnext hut hrh hrt hul hrl hword h
        refine ⟨uh, rh, vd.unwalkedQueue.getD vd.unwalkedQueueHead 0 :: pu, pr, h1, h2, ?_, h4, ?_⟩
        · show pending _ _ _ _ = _
          rw [hpend, List.cons_append]
          exact congrArg _ h3
        · rcases hcase with hfin | ⟨pc, w, flag, other, branch, hwhich, hw, hwf, hb, hout⟩
          · exact Or.inl hfin
          · refine Or.inr ⟨pc, w, flag, other, branch, ?_, hw, hwf, hb, hout⟩
            rcases hwhich with ⟨a, b, c⟩ | ⟨a, b, c⟩
            · exact Or.inl ⟨a, b, List.mem_cons_of_mem _ c⟩
            · exact Or.inr ⟨a, b, c⟩
      · generalize hb : vd.stackMaps[clearFlag v BRANCH_ON_UNWALKED_QUEUE >>> BRANCH_INDEX_SHIFT]? =
          mb at h
        rcases mb with _ | branch
        · cases h
        simp only [Option.some.injEq] at h
        refine ⟨(vd.unwalkedQueueHead + 1) % queueSlots vd, vd.rewalkQueueHead,
          [vd.unwalkedQueue.getD vd.unwalkedQueueHead 0], [], hnext, hrh, ?_, rfl,
          Or.inr ⟨_, v, BRANCH_ON_UNWALKED_QUEUE, BRANCH_ON_REWALK_QUEUE, branch,
            Or.inl ⟨rfl, rfl, List.mem_singleton.2 rfl⟩, hv, hflag, hb, h.symm⟩⟩
        show pending _ _ _ _ = _
        rw [hpend]
        rfl
    · obtain ⟨hdq, hpend⟩ := pending_dequeue vd.rewalkQueue (queueSlots vd)
        vd.rewalkQueueHead vd.rewalkQueueTail hrh hrt hrl hword hr
      have hnext : (vd.rewalkQueueHead + 1) % queueSlots vd < queueSlots vd :=
        Nat.mod_lt _ (by omega)
      rw [hdq] at h
      simp only at h
      generalize hv : vd.bytecodeMap[vd.rewalkQueue.getD vd.rewalkQueueHead 0]? = mv at h
      rcases mv with _ | v
      · cases h
      simp only at h
      split_ifs at h with hflag
      · obtain ⟨uh, rh, pu, pr, h1, h2, h3, h4, hcase⟩ :=
          ih { vd with rewalkQueueHead := (vd.rewalkQueueHead + 1) % queueSlots vd } out
            huh hut hnext hrt hul hrl hword h
        refine ⟨uh, rh, pu, vd.rewalkQueue.getD vd.rewalkQueueHead 0 :: pr, h1, h2, h3, ?_, ?_⟩
        · show pending _ _ _ _ = _
          rw [hpend, List.cons_append]
          exact congrArg _ h4
        · rcases hcase with hfin | ⟨pc, w, flag, other, branch, hwhich, hw, hwf, hb, hout⟩
          · exact Or.inl hfin
          · refine Or.inr ⟨pc, w, flag, other, branch, ?_, hw, hwf, hb, hout⟩
            rcases hwhich with ⟨a, b, c⟩ | ⟨a, b, c⟩
            · exact Or.inl ⟨a, b, c⟩
            · exact Or.inr ⟨a, b, List.mem_cons_of_mem _ c⟩
      · generalize hb : vd.stackMaps[clearFlag v BRANCH_ON_REWALK_QUEUE >>> BRANCH_INDEX_SHIFT]? =
          mb at h
        rcases mb with _ | branch
        · cases h
        simp only [Option.some.injEq] at h
        refine ⟨vd.unwalkedQueueHead, (vd.rewalkQueueHead + 1) % queueSlots vd, [],
          [vd.rewalkQueue.getD vd.rewalkQueueHead 0], huh, hnext, rfl, ?_,
          Or.inr ⟨_, v, BRANCH_ON_REWALK_QUEUE, BRANCH_ON_UNWALKED_QUEUE, branch,
            Or.inr ⟨rfl, rfl, List.mem_singleton.2 rfl⟩, hv, hflag, hb, h.symm⟩⟩
        show pending _ _ _ _ = _
        rw [hpend]
        rfl
    · simp only [Option.some.injEq] at h
      exact ⟨vd.unwalkedQueueHead, vd.rewalkQueueHead, [], [], huh, hrh, rfl, rfl,
        Or.inl h.symm⟩

/-- The state in which the walk begins satisfies the invariant of the rings. -/
theorem ringInvariant_entry {vd : VerifyData} (h : RingsAtEntry vd) : RingInvariant vd := by
  obtain ⟨h1, h2, h3, h4, h5, h6, h7, h8, h9, h10, h11, h12⟩ := h
  have hpu : pendingUnwalked vd = [] := by
    unfold pendingUnwalked
    rw [h1, h2]
    exact pending_empty _ _ _
  have hpr : pendingRewalk vd = [] := by
    unfold pendingRewalk
    rw [h3, h4]
    exact pending_empty _ _ _
  have hnone : ∀ pc, ¬ (HasFlag vd.bytecodeMap pc BRANCH_ON_UNWALKED_QUEUE ∨
      HasFlag vd.bytecodeMap pc BRANCH_ON_REWALK_QUEUE) := by
    rintro pc (⟨v, hv, hne⟩ | ⟨v, hv, hne⟩)
    · exact hne (h10 v (List.getElem?_mem hv)).2.1
    · exact hne (h10 v (List.getElem?_mem hv)).2.2
  exact
    { frames := h5
      slots := h6
      unwalkedLength := h7
      rewalkLength := h8
      word := Nat.lt_of_le_of_lt (Nat.div_le_self _ _) h9
      unwalkedHead := by rw [h1]; omega
      unwalkedTail := by rw [h2]; omega
      rewalkHead := by rw [h3]; omega
      rewalkTail := by rw [h4]; omega
      store := h11
      entries := fun pc v hv => (h10 v (List.getElem?_mem hv)).1
      live := h12
      queued := fun pc hq => absurd hq (hnone pc)
      unwalkedDistinct := by rw [hpu]; exact List.nodup_nil
      unwalkedReached := by
        rw [hpu]
        intro pc hpc
        exact absurd hpc (List.not_mem_nil pc)
      rewalkDistinct := by rw [hpr]; exact List.nodup_nil
      rewalkFlagged := by
        rw [hpr]
        intro pc hpc
        exact absurd hpc (List.not_mem_nil pc) }

/-- In every state of the walk each ring has room for a flagged PC that is not
waiting in it: for the unwalked queue a PC whose frame was not reached, for the
rewalk queue a PC without `BRANCH_ON_REWALK_QUEUE`. -/
theorem rings_have_room {vd : VerifyData} (hinv : RingInvariant vd) (target : Nat)
    (hflag : FlaggedAt vd.bytecodeMap target) :
    (¬ Reached vd target →
      RingHasRoom vd.unwalkedQueue (queueSlots vd) vd.unwalkedQueueHead vd.unwalkedQueueTail) ∧
    (¬ HasFlag vd.bytecodeMap target BRANCH_ON_REWALK_QUEUE →
      RingHasRoom vd.rewalkQueue (queueSlots vd) vd.rewalkQueueHead vd.rewalkQueueTail) := by
  have hbound : ∀ l : List Nat, l.Nodup → (∀ pc ∈ l, FlaggedAt vd.bytecodeMap pc) →
      target ∉ l → l.length + 2 ≤ queueSlots vd := by
    intro l hnd hfl hnot
    have h1 := flagged_length_le hinv.store (target :: l) (List.nodup_cons.2 ⟨hnot, hnd⟩)
      (by
        intro pc hpc
        rcases List.mem_cons.1 hpc with he | hmem
        · rw [he]
          exact hflag
        · exact hfl pc hmem)
    rw [List.length_cons, hinv.frames] at h1
    have h2 := hinv.slots
    omega
  constructor
  · intro hnot
    exact ring_has_room _ _ _ _ hinv.unwalkedHead hinv.unwalkedTail hinv.unwalkedLength hinv.word
      (hbound (pendingUnwalked vd) hinv.unwalkedDistinct
        (fun pc hpc => (hinv.unwalkedReached pc hpc).1)
        (fun hmem => hnot (hinv.unwalkedReached _ hmem).2))
  · intro hnot
    exact ring_has_room _ _ _ _ hinv.rewalkHead hinv.rewalkTail hinv.rewalkLength hinv.word
      (hbound (pendingRewalk vd) hinv.rewalkDistinct
        (fun pc hpc => (hinv.rewalkFlagged pc hpc).1)
        (fun hmem => hnot (hinv.rewalkFlagged _ hmem).2))

/-- The entries waiting in either ring are no more than the frames. -/
theorem pending_le_frames {vd : VerifyData} (hinv : RingInvariant vd) :
    (pendingUnwalked vd).length ≤ vd.stackMapsCount ∧
    (pendingRewalk vd).length ≤ vd.stackMapsCount := by
  rw [← hinv.frames]
  exact ⟨flagged_length_le hinv.store _ hinv.unwalkedDistinct
      (fun pc hpc => (hinv.unwalkedReached pc hpc).1),
    flagged_length_le hinv.store _ hinv.rewalkDistinct
      (fun pc hpc => (hinv.rewalkFlagged pc hpc).1)⟩

/-- A step that writes one entry of the map, keeping its frame index and its
`BRANCH_TARGET` bit, and one frame of the store, keeping its `pc`, keeps the
invariant of the rings when the PCs waiting afterwards are those that waited and,
at most, the PC of the entry written. -/
theorem ringInvariant_update {vd : VerifyData} (next : VerifyData) {t v w k : Nat}
    (old new : J9BranchTargetStack) (hinv : RingInvariant vd)
    (hv : vd.bytecodeMap[t]? = some v) (hold : vd.stackMaps[k]? = some old)
    (hbm : next.bytecodeMap = vd.bytecodeMap.set t w)
    (hsm : next.stackMaps = vd.stackMaps.set k new)
    (hidx : w >>> BRANCH_INDEX_SHIFT = v >>> BRANCH_INDEX_SHIFT)
    (hb : hasBranchTarget w = hasBranchTarget v) (hw : w < U32_RANGE)
    (hpc : new.pc = old.pc) (hnew : old.stackBaseIndex ≠ -1 → new.stackBaseIndex ≠ -1)
    (hcount : next.stackMapsCount = vd.stackMapsCount)
    (hsize : next.rootQueueSize = vd.rootQueueSize)
    (hlive : next.liveStack.stackBaseIndex ≠ -1)
    (hul : next.unwalkedQueue.length = vd.unwalkedQueue.length)
    (hrl : next.rewalkQueue.length = vd.rewalkQueue.length)
    (huh : next.unwalkedQueueHead < queueSlots vd) (hut : next.unwalkedQueueTail < queueSlots vd)
    (hrh : next.rewalkQueueHead < queueSlots vd) (hrt : next.rewalkQueueTail < queueSlots vd)
    (hreached : Reached next t)
    (hpu : (pendingUnwalked next).Nodup)
    (hpu2 : ∀ pc ∈ pendingUnwalked next,
      pc ∈ pendingUnwalked vd ∨ (pc = t ∧ FlaggedAt vd.bytecodeMap t))
    (hpr : (pendingRewalk next).Nodup)
    (hpr2 : ∀ pc ∈ pendingRewalk next,
      (pc ∈ pendingRewalk vd ∨ (pc = t ∧ FlaggedAt vd.bytecodeMap t)) ∧
      (pc = t → w &&& BRANCH_ON_REWALK_QUEUE ≠ 0)) :
    RingInvariant next ∧ ∀ pc, Reached vd pc → Reached next pc := by
  have hslots : queueSlots next = queueSlots vd := by
    unfold queueSlots
    rw [hsize]
  have hreach : ∀ pc, Reached vd pc → Reached next pc := by
    intro pc h
    have h1 := reached_set_frame hold hnew pc h
    have h2 := reached_set_entry (w := w) hv hidx pc h1
    unfold Reached
    rw [hbm, hsm]
    exact h2
  have hfl : ∀ pc, FlaggedAt next.bytecodeMap pc ↔ FlaggedAt vd.bytecodeMap pc := by
    intro pc
    rw [hbm]
    exact flaggedAt_set hv hb pc
  have hsame : ∀ pc, pc ≠ t → next.bytecodeMap[pc]? = vd.bytecodeMap[pc]? := by
    intro pc hne
    rw [hbm]
    exact getElem?_set_other (Ne.symm hne)
  have hat : next.bytecodeMap[t]? = some w := by
    rw [hbm]
    exact getElem?_set_same hv
  refine ⟨?_, hreach⟩
  exact
    { frames := by rw [hsm, List.length_set, hcount]; exact hinv.frames
      slots := by rw [hslots, hcount]; exact hinv.slots
      unwalkedLength := by rw [hslots, hul]; exact hinv.unwalkedLength
      rewalkLength := by rw [hslots, hrl]; exact hinv.rewalkLength
      word := by rw [hslots]; exact hinv.word
      unwalkedHead := by rw [hslots]; exact huh
      unwalkedTail := by rw [hslots]; exact hut
      rewalkHead := by rw [hslots]; exact hrh
      rewalkTail := by rw [hslots]; exact hrt
      store := by
        rw [hbm, hsm]
        exact frameStoreMatches_frame (frameStoreMatches_set hinv.store hv hidx hb) hold hpc
      entries := by
        intro pc x hx
        rcases eq_or_ne pc t with he | hne
        · rw [he, hat] at hx
          cases hx
          exact hw
        · rw [hsame pc hne] at hx
          exact hinv.entries pc x hx
      live := hlive
      queued := by
        intro pc hq
        rcases eq_or_ne pc t with he | hne
        · rw [he]
          exact hreached
        · apply hreach
          apply hinv.queued
          unfold HasFlag at hq ⊢
          rw [hsame pc hne] at hq
          exact hq
      unwalkedDistinct := hpu
      unwalkedReached := by
        intro pc hpc
        rcases hpu2 pc hpc with hmem | ⟨he, hflag⟩
        · exact ⟨(hfl pc).2 (hinv.unwalkedReached pc hmem).1,
            hreach pc (hinv.unwalkedReached pc hmem).2⟩
        · rw [he]
          exact ⟨(hfl t).2 hflag, hreached⟩
      rewalkDistinct := hpr
      rewalkFlagged := by
        intro pc hpc
        obtain ⟨hwhere, hbit⟩ := hpr2 pc hpc
        rcases eq_or_ne pc t with he | hne
        · refine ⟨?_, w, by rw [he]; exact hat, hbit he⟩
          rcases hwhere with hmem | ⟨_, hflag⟩
          · exact (hfl pc).2 (hinv.rewalkFlagged pc hmem).1
          · rw [he]
            exact (hfl t).2 hflag
        · rcases hwhere with hmem | ⟨he, _⟩
          · refine ⟨(hfl pc).2 (hinv.rewalkFlagged pc hmem).1, ?_⟩
            unfold HasFlag
            rw [hsame pc hne]
            exact (hinv.rewalkFlagged pc hmem).2
          · exact absurd he hne }

theorem nodup_append_singleton {l : List Nat} {x : Nat} (hnd : l.Nodup) (hnot : x ∉ l) :
    (l ++ [x]).Nodup := by
  rw [List.nodup_append]
  refine ⟨hnd, List.nodup_singleton x, ?_⟩
  intro y hy hy2
  rw [List.mem_singleton] at hy2
  rw [hy2] at hy
  exact hnot hy

/-- A call of `mergeStacks` for a flagged PC keeps the invariant of the rings and
the reached PCs reached.  The unwalked queue is written only for a target that was
not reached, which is appended to the PCs waiting and is reached afterwards; the
rewalk queue is written only for a target without `BRANCH_ON_REWALK_QUEUE`, which is
appended to the PCs waiting and carries the flag afterwards. -/
theorem merge_rings {o : ClassOracle} {vd next : VerifyData} {target : Nat} {rc : RC}
    (hinv : RingInvariant vd) (hflag : FlaggedAt vd.bytecodeMap target)
    (h : mergeStacks o vd target = some (rc, next)) :
    RingInvariant next ∧ (∀ pc, Reached vd pc → Reached next pc) ∧
    ((next.unwalkedQueue = vd.unwalkedQueue ∧ next.unwalkedQueueTail = vd.unwalkedQueueTail) ∨
      (¬ Reached vd target ∧ Reached next target ∧
        pendingUnwalked next = pendingUnwalked vd ++ [target] ∧
        next.unwalkedQueueTail ≠ next.unwalkedQueueHead)) ∧
    ((next.rewalkQueue = vd.rewalkQueue ∧ next.rewalkQueueTail = vd.rewalkQueueTail) ∨
      (¬ HasFlag vd.bytecodeMap target BRANCH_ON_REWALK_QUEUE ∧
        HasFlag next.bytecodeMap target BRANCH_ON_REWALK_QUEUE ∧
        pendingRewalk next = pendingRewalk vd ++ [target] ∧
        next.rewalkQueueTail ≠ next.rewalkQueueHead)) := by
  obtain ⟨v, targetStack, hv, hframe, hcases⟩ := mergeStacks_cases h
  have hv32 := hinv.entries target v hv
  obtain ⟨roomU, roomR⟩ := rings_have_room hinv target hflag
  -- the cases in which no queue is written
  have hplain : ∀ (names : ClassNameList) (elements : Int → Nat),
      targetStack.stackBaseIndex ≠ -1 →
      next = { vd with
        classNameList := names
        stackMaps := vd.stackMaps.set (v >>> BRANCH_INDEX_SHIFT)
          { targetStack with stackElements := elements } } →
      RingInvariant next ∧ (∀ pc, Reached vd pc → Reached next pc) ∧
      ((next.unwalkedQueue = vd.unwalkedQueue ∧
          next.unwalkedQueueTail = vd.unwalkedQueueTail) ∨
        (¬ Reached vd target ∧ Reached next target ∧
          pendingUnwalked next = pendingUnwalked vd ++ [target] ∧
          next.unwalkedQueueTail ≠ next.unwalkedQueueHead)) ∧
      ((next.rewalkQueue = vd.rewalkQueue ∧ next.rewalkQueueTail = vd.rewalkQueueTail) ∨
        (¬ HasFlag vd.bytecodeMap target BRANCH_ON_REWALK_QUEUE ∧
          HasFlag next.bytecodeMap target BRANCH_ON_REWALK_QUEUE ∧
          pendingRewalk next = pendingRewalk vd ++ [target] ∧
          next.rewalkQueueTail ≠ next.rewalkQueueHead)) := by
    intro names elements hbase hnext
    subst hnext
    obtain ⟨h1, h2⟩ := ringInvariant_update
      ({ vd with
        classNameList := names
        stackMaps := vd.stackMaps.set (v >>> BRANCH_INDEX_SHIFT)
          { targetStack with stackElements := elements } })
      (t := target) (v := v)
      (w := v)
      (k := v >>> BRANCH_INDEX_SHIFT)
      targetStack
      ({ targetStack with stackElements := elements })
      hinv hv hframe (set_getElem?_self hv).symm rfl rfl rfl hv32 rfl (fun hne => hne) rfl rfl
      hinv.live rfl rfl hinv.unwalkedHead hinv.unwalkedTail hinv.rewalkHead hinv.rewalkTail
      ⟨v, { targetStack with stackElements := elements }, hv, getElem?_set_same hframe, hbase⟩
      hinv.unwalkedDistinct (fun pc hpc => Or.inl hpc) hinv.rewalkDistinct
      (fun pc hpc => ⟨Or.inl hpc, fun he => by
        obtain ⟨x, hx, hne⟩ := (hinv.rewalkFlagged pc hpc).2
        rw [he, hv] at hx
        cases hx
        exact hne⟩)
    exact ⟨h1, h2, Or.inl ⟨rfl, rfl⟩, Or.inl ⟨rfl, rfl⟩⟩
  rcases hcases with ⟨hbase, _, queue, tail, henq, hnext⟩ | ⟨hbase, _, _, fin, _, hrun⟩
  · -- the target was not reached: it goes on the unwalked queue
    have hnot : ¬ Reached vd target := by
      rintro ⟨x, f, hx, hf, hne⟩
      rw [hv] at hx
      cases hx
      rw [hframe] at hf
      cases hf
      exact hne hbase
    have hroom := roomU hnot
    obtain ⟨henq1, happ⟩ := pending_enqueue vd.unwalkedQueue (queueSlots vd)
      vd.unwalkedQueueHead vd.unwalkedQueueTail target hroom
    rw [henq1] at henq
    simp only [Option.some.injEq, Prod.mk.injEq] at henq
    obtain ⟨hq, ht⟩ := henq
    subst hq
    subst ht
    subst hnext
    obtain ⟨b1, b2, b3, b4, b5⟩ := unwalked_entry_bits v hv32
    have hreached : Reached
        { vd with
          stackMaps := vd.stackMaps.set (v >>> BRANCH_INDEX_SHIFT)
            (copyStack vd.liveStack targetStack)
          unwalkedQueue := vd.unwalkedQueue.set vd.unwalkedQueueTail target
          unwalkedQueueTail := (vd.unwalkedQueueTail + 1) % queueSlots vd
          bytecodeMap :=
            vd.bytecodeMap.set target ((v ||| BRANCH_ON_UNWALKED_QUEUE) % U32_RANGE) }
        target :=
      ⟨_, copyStack vd.liveStack targetStack, getElem?_set_same hv,
        by rw [b1]; exact getElem?_set_same hframe, hinv.live⟩
    have hmem : target ∉ pendingUnwalked vd :=
      fun hmem => hnot (hinv.unwalkedReached _ hmem).2
    obtain ⟨h1, h2⟩ := ringInvariant_update
      ({ vd with
          stackMaps := vd.stackMaps.set (v >>> BRANCH_INDEX_SHIFT)
            (copyStack vd.liveStack targetStack)
          unwalkedQueue := vd.unwalkedQueue.set vd.unwalkedQueueTail target
          unwalkedQueueTail := (vd.unwalkedQueueTail + 1) % queueSlots vd
          bytecodeMap :=
            vd.bytecodeMap.set target ((v ||| BRANCH_ON_UNWALKED_QUEUE) % U32_RANGE) })
      (t := target) (v := v)
      (w := (v ||| BRANCH_ON_UNWALKED_QUEUE) % U32_RANGE)
      (k := v >>> BRANCH_INDEX_SHIFT)
      targetStack
      (copyStack vd.liveStack targetStack)
      hinv hv hframe rfl rfl b1 b2 b3 rfl (fun hne => absurd hbase hne) rfl rfl
      hinv.live (List.length_set _ _ _) rfl hinv.unwalkedHead
      (Nat.mod_lt _ (Nat.lt_of_le_of_lt (Nat.zero_le _) hinv.unwalkedHead))
      hinv.rewalkHead hinv.rewalkTail hreached
      (by
        show (pending (vd.unwalkedQueue.set vd.unwalkedQueueTail target) (queueSlots vd)
          vd.unwalkedQueueHead ((vd.unwalkedQueueTail + 1) % queueSlots vd)).Nodup
        rw [happ]
        exact nodup_append_singleton hinv.unwalkedDistinct hmem)
      (by
        intro pc hpc
        have hpc1 : pc ∈ pending vd.unwalkedQueue (queueSlots vd) vd.unwalkedQueueHead
            vd.unwalkedQueueTail ++ [target] := by
          rw [← happ]
          exact hpc
        rcases List.mem_append.1 hpc1 with hin | hin
        · exact Or.inl hin
        · exact Or.inr ⟨List.mem_singleton.1 hin, hflag⟩)
      hinv.rewalkDistinct
      (fun pc hpc => ⟨Or.inl hpc, fun he => by
        obtain ⟨x, hx, hne⟩ := (hinv.rewalkFlagged pc hpc).2
        rw [he, hv] at hx
        cases hx
        rw [b4]
        exact hne⟩)
    exact ⟨h1, h2, Or.inr ⟨hnot, hreached, happ, hroom.2.2.2.2⟩, Or.inl ⟨rfl, rfl⟩⟩
  · rcases hrun with ⟨_, _, hnext⟩ | ⟨_, _, hend⟩
    · exact hplain _ _ hbase hnext
    rcases hend with ⟨_, hclear, queue, tail, henq, hnext⟩ | ⟨_, hnext⟩
    · -- a slot changed and the target is not on the rewalk queue: it goes there
      have hnot : ¬ HasFlag vd.bytecodeMap target BRANCH_ON_REWALK_QUEUE := by
        rintro ⟨x, hx, hne⟩
        rw [hv] at hx
        cases hx
        exact hne hclear
      have hroom := roomR hnot
      obtain ⟨henq1, happ⟩ := pending_enqueue vd.rewalkQueue (queueSlots vd)
        vd.rewalkQueueHead vd.rewalkQueueTail target hroom
      rw [henq1] at henq
      simp only [Option.some.injEq, Prod.mk.injEq] at henq
      obtain ⟨hq, ht⟩ := henq
      subst hq
      subst ht
      subst hnext
      obtain ⟨b1, b2, b3, b4⟩ := rewalk_entry_bits v hv32
      have hmem : target ∉ pendingRewalk vd :=
        fun hmem => hnot (hinv.rewalkFlagged _ hmem).2
      obtain ⟨h1, h2⟩ := ringInvariant_update
        ({ vd with
          classNameList := fin.verifyData.classNameList
          stackMaps := vd.stackMaps.set (v >>> BRANCH_INDEX_SHIFT)
            { targetStack with stackElements := fin.targetElements }
          rewalkQueue := vd.rewalkQueue.set vd.rewalkQueueTail target
          rewalkQueueTail := (vd.rewalkQueueTail + 1) % queueSlots vd
          bytecodeMap := vd.bytecodeMap.set target
            (clearFlag ((v ||| BRANCH_ON_REWALK_QUEUE) % U32_RANGE)
              BRANCH_ON_UNWALKED_QUEUE) })
        (t := target) (v := v)
        (w := clearFlag ((v ||| BRANCH_ON_REWALK_QUEUE) % U32_RANGE) BRANCH_ON_UNWALKED_QUEUE)
        (k := v >>> BRANCH_INDEX_SHIFT)
        targetStack
        ({ targetStack with stackElements := fin.targetElements })
        hinv hv hframe rfl rfl b1 b2 b3 rfl (fun hne => hne) rfl rfl
        hinv.live rfl (List.length_set _ _ _) hinv.unwalkedHead hinv.unwalkedTail
        hinv.rewalkHead
        (Nat.mod_lt _ (Nat.lt_of_le_of_lt (Nat.zero_le _) hinv.rewalkHead))
        ⟨_, { targetStack with stackElements := fin.targetElements }, getElem?_set_same hv,
          by rw [b1]; exact getElem?_set_same hframe, hbase⟩
        hinv.unwalkedDistinct (fun pc hpc => Or.inl hpc)
        (by
          show (pending (vd.rewalkQueue.set vd.rewalkQueueTail target) (queueSlots vd)
            vd.rewalkQueueHead ((vd.rewalkQueueTail + 1) % queueSlots vd)).Nodup
          rw [happ]
          exact nodup_append_singleton hinv.rewalkDistinct hmem)
        (by
          intro pc hpc
          have hpc1 : pc ∈ pending vd.rewalkQueue (queueSlots vd) vd.rewalkQueueHead
              vd.rewalkQueueTail ++ [target] := by
            rw [← happ]
            exact hpc
          refine ⟨?_, fun _ => b4⟩
          rcases List.mem_append.1 hpc1 with hin | hin
          · exact Or.inl hin
          · exact Or.inr ⟨List.mem_singleton.1 hin, hflag⟩)
      exact ⟨h1, h2, Or.inl ⟨rfl, rfl⟩,
        Or.inr ⟨hnot, ⟨_, getElem?_set_same hv, b4⟩, happ, hroom.2.2.2.2⟩⟩
    · exact hplain _ _ hbase hnext

/-- Servicing the queues at `_checkFinished` keeps the invariant of the rings and
the reached PCs reached, and writes no ring and no tail. -/
theorem service_rings {vd next : VerifyData} {fuel : Nat} {out : ServiceOutcome}
    (hinv : RingInvariant vd) (h : checkFinished fuel vd = some out)
    (hnext : out = ServiceOutcome.finished next ∨ ∃ pc, out = ServiceOutcome.walk pc next) :
    RingInvariant next ∧ (∀ pc, Reached vd pc → Reached next pc) ∧
    next.unwalkedQueue = vd.unwalkedQueue ∧ next.unwalkedQueueTail = vd.unwalkedQueueTail ∧
    next.rewalkQueue = vd.rewalkQueue ∧ next.rewalkQueueTail = vd.rewalkQueueTail := by
  obtain ⟨uh, rh, pu, pr, h1, h2, h3, h4, hcase⟩ := checkFinished_rings fuel vd out
    hinv.unwalkedHead hinv.unwalkedTail hinv.rewalkHead hinv.rewalkTail hinv.unwalkedLength
    hinv.rewalkLength hinv.word h
  have hdu : (pending vd.unwalkedQueue (queueSlots vd) uh vd.unwalkedQueueTail).Nodup := by
    have hnd := hinv.unwalkedDistinct
    rw [h3] at hnd
    exact hnd.of_append_right
  have hdr : (pending vd.rewalkQueue (queueSlots vd) rh vd.rewalkQueueTail).Nodup := by
    have hnd := hinv.rewalkDistinct
    rw [h4] at hnd
    exact hnd.of_append_right
  have hmu : ∀ pc ∈ pending vd.unwalkedQueue (queueSlots vd) uh vd.unwalkedQueueTail,
      pc ∈ pendingUnwalked vd := by
    intro pc hpc
    rw [h3]
    exact List.mem_append_right _ hpc
  have hmr : ∀ pc ∈ pending vd.rewalkQueue (queueSlots vd) rh vd.rewalkQueueTail,
      pc ∈ pendingRewalk vd := by
    intro pc hpc
    rw [h4]
    exact List.mem_append_right _ hpc
  rcases hcase with hfin | ⟨pc, v, flag, other, branch, hwhich, hv, hvf, hb, hout⟩
  · -- both queues are empty
    have he : next = { vd with unwalkedQueueHead := uh, rewalkQueueHead := rh } := by
      rcases hnext with hn | ⟨pc, hn⟩
      · rw [hfin] at hn
        simp only [ServiceOutcome.finished.injEq] at hn
        exact hn.symm
      · rw [hfin] at hn
        cases hn
    subst he
    refine ⟨?_, fun pc hpc => hpc, rfl, rfl, rfl, rfl⟩
    exact
      { frames := hinv.frames
        slots := hinv.slots
        unwalkedLength := hinv.unwalkedLength
        rewalkLength := hinv.rewalkLength
        word := hinv.word
        unwalkedHead := h1
        unwalkedTail := hinv.unwalkedTail
        rewalkHead := h2
        rewalkTail := hinv.rewalkTail
        store := hinv.store
        entries := hinv.entries
        live := hinv.live
        queued := hinv.queued
        unwalkedDistinct := hdu
        unwalkedReached := fun pc hpc => hinv.unwalkedReached pc (hmu pc hpc)
        rewalkDistinct := hdr
        rewalkFlagged := fun pc hpc => hinv.rewalkFlagged pc (hmr pc hpc) }
  · -- a frame is loaded
    have he : next =
        { vd with
          unwalkedQueueHead := uh
          rewalkQueueHead := rh
          bytecodeMap := vd.bytecodeMap.set pc (clearFlag v flag)
          liveStack := copyStack branch vd.liveStack } := by
      rcases hnext with hn | ⟨pc1, hn⟩
      · rw [hout] at hn
        cases hn
      · rw [hout] at hn
        simp only [ServiceOutcome.walk.injEq] at hn
        exact hn.2.symm
    subst he
    have hv32 := hinv.entries pc v hv
    have hflags : (flag = BRANCH_ON_UNWALKED_QUEUE ∧ other = BRANCH_ON_REWALK_QUEUE) ∨
        (flag = BRANCH_ON_REWALK_QUEUE ∧ other = BRANCH_ON_UNWALKED_QUEUE) := by
      rcases hwhich with ⟨a, b, _⟩ | ⟨a, b, _⟩
      · exact Or.inl ⟨a, b⟩
      · exact Or.inr ⟨a, b⟩
    obtain ⟨c1, c2, c3, c4, c5⟩ := cleared_entry_bits v flag other hv32 hflags
    have hwas : Reached vd pc := by
      apply hinv.queued
      rcases hflags with ⟨a, _⟩ | ⟨a, _⟩
      · exact Or.inl ⟨v, hv, by rw [← a]; exact hvf⟩
      · exact Or.inr ⟨v, hv, by rw [← a]; exact hvf⟩
    have hbase : branch.stackBaseIndex ≠ -1 := by
      obtain ⟨x, f, hx, hf, hne⟩ := hwas
      rw [hv] at hx
      cases hx
      rw [← c1, hb] at hf
      cases hf
      exact hne
    have hflagged : FlaggedAt vd.bytecodeMap pc := by
      rcases hwhich with ⟨_, _, hmem⟩ | ⟨_, _, hmem⟩
      · exact (hinv.unwalkedReached pc (by rw [h3]; exact List.mem_append_left _ hmem)).1
      · exact (hinv.rewalkFlagged pc (by rw [h4]; exact List.mem_append_left _ hmem)).1
    obtain ⟨r1, r2⟩ := ringInvariant_update
      ({ vd with
          unwalkedQueueHead := uh
          rewalkQueueHead := rh
          bytecodeMap := vd.bytecodeMap.set pc (clearFlag v flag)
          liveStack := copyStack branch vd.liveStack })
      (t := pc) (v := v)
      (w := clearFlag v flag)
      (k := clearFlag v flag >>> BRANCH_INDEX_SHIFT)
      branch
      branch
      hinv hv hb rfl (set_getElem?_self hb).symm c1 c2 c3 rfl (fun hne => hne) rfl rfl
      hbase rfl rfl h1 hinv.unwalkedTail h2 hinv.rewalkTail
      ⟨clearFlag v flag, branch, getElem?_set_same hv, hb, hbase⟩
      hdu (fun pc1 hpc1 => Or.inl (hmu pc1 hpc1)) hdr
      (by
        intro pc1 hpc1
        refine ⟨Or.inl (hmr pc1 hpc1), fun he => ?_⟩
        subst he
        rcases hwhich with ⟨a, b, _⟩ | ⟨a, b, hmem⟩
        · obtain ⟨x, hx, hne⟩ := (hinv.rewalkFlagged pc1 (hmr pc1 hpc1)).2
          rw [hv] at hx
          cases hx
          rw [← b, c4, b]
          exact hne
        · have hnd := hinv.rewalkDistinct
          rw [h4] at hnd
          exact absurd hpc1 (fun hin => (List.nodup_append.1 hnd).2.2 hmem hin))
    exact ⟨r1, r2, rfl, rfl, rfl, rfl⟩

/-- Every step of the walk keeps the invariant of the rings and the reached PCs
reached. -/
theorem simulateStep_rings {o : ClassOracle} {vd next : VerifyData} (hinv : RingInvariant vd)
    (hstep : SimulateStep o vd next) :
    RingInvariant next ∧ ∀ pc, Reached vd pc → Reached next pc := by
  cases hstep with
  | simulate liveStack names hbase =>
    refine ⟨?_, fun pc hpc => hpc⟩
    exact
      { frames := hinv.frames
        slots := hinv.slots
        unwalkedLength := hinv.unwalkedLength
        rewalkLength := hinv.rewalkLength
        word := hinv.word
        unwalkedHead := hinv.unwalkedHead
        unwalkedTail := hinv.unwalkedTail
        rewalkHead := hinv.rewalkHead
        rewalkTail := hinv.rewalkTail
        store := hinv.store
        entries := hinv.entries
        live := by
          show liveStack.stackBaseIndex ≠ -1
          rw [hbase]
          exact hinv.live
        queued := hinv.queued
        unwalkedDistinct := hinv.unwalkedDistinct
        unwalkedReached := hinv.unwalkedReached
        rewalkDistinct := hinv.rewalkDistinct
        rewalkFlagged := hinv.rewalkFlagged }
  | merge target rc _ hflag h =>
    obtain ⟨h1, h2, _, _⟩ := merge_rings hinv hflag h
    exact ⟨h1, h2⟩
  | service fuel pc _ h =>
    obtain ⟨h1, h2, _⟩ := service_rings hinv h (Or.inr ⟨pc, rfl⟩)
    exact ⟨h1, h2⟩
  | drained fuel _ h =>
    obtain ⟨h1, h2, _⟩ := service_rings hinv h (Or.inl rfl)
    exact ⟨h1, h2⟩

/-- The invariant of the rings holds in every state of the walk, and a PC that was
reached stays reached. -/
theorem simulateReaches_rings {o : ClassOracle} {start vd : VerifyData}
    (hinv : RingInvariant start) (hwalk : SimulateReaches o start vd) :
    RingInvariant vd ∧ ∀ pc, Reached start pc → Reached vd pc := by
  induction hwalk with
  | start => exact ⟨hinv, fun pc hpc => hpc⟩
  | step middle next _ hstep ih =>
    obtain ⟨h1, h2⟩ := ih
    obtain ⟨h3, h4⟩ := simulateStep_rings h1 hstep
    exact ⟨h3, fun pc hpc => h4 pc (h2 pc hpc)⟩

/-- The sizing of the rings in `j9bcv_verifyBytecodes`: when the maps are created
and there is at least one frame, the rings have at least `stackMapsCount + 1` slots
once the frames are set up. -/
theorem setUpFrames_ring_slots (p : Passes) (vd ready : VerifyData) (info : SignatureInfo)
    (h : setUpFrames p true vd = some (Except.ok (ready, info)))
    (hcount : vd.stackMapsCount ≠ 0)
    (hsmall : (vd.stackMapsCount + 1) * SIZEOF_UDATA < UDATA_RANGE)
    (hsig : ∀ d, (p.buildStackFromMethodSignature d).2.2.2.rootQueueSize = d.rootQueueSize ∧
      (p.buildStackFromMethodSignature d).2.2.2.stackMapsCount = d.stackMapsCount) :
    ready.stackMapsCount + 1 ≤ queueSlots ready := by
  unfold setUpFrames at h
  rcases halloc : p.allocStackMaps vd with _ | raw
  · rw [halloc] at h
    cases h
  rw [halloc] at h
  simp only [Bool.true_and, decide_eq_true_eq, ne_eq, hcount, not_false_eq_true, if_true] at h
  generalize hinit : initStackMaps vd.romMethod.bytecodeSize 0 0 vd.bytecodeMap
    (List.map raw (List.range vd.stackMapsCount)) = r at h
  rcases r with _ | ⟨bytecodeMap, stackMaps⟩
  · cases h
  simp only at h
  have hmod : (vd.stackMapsCount + 1) * SIZEOF_UDATA % UDATA_RANGE =
      (vd.stackMapsCount + 1) * SIZEOF_UDATA := Nat.mod_eq_of_lt hsmall
  rw [hmod] at h
  have hdiv : (vd.stackMapsCount + 1) * SIZEOF_UDATA / SIZEOF_UDATA = vd.stackMapsCount + 1 :=
    Nat.mul_div_cancel _ (by decide)
  have h1 := fun d => (hsig d).1
  have h2 := fun d => (hsig d).2
  split_ifs at h with hgt hboth
  · simp only [Option.some.injEq, Except.ok.injEq, Prod.mk.injEq] at h
    obtain ⟨hready, _⟩ := h
    rw [← hready]
    simp only [queueSlots, h1, h2]
    rw [hdiv]
  · cases h
  · simp only [Option.some.injEq, Except.ok.injEq, Prod.mk.injEq] at h
    obtain ⟨hready, _⟩ := h
    rw [← hready]
    simp only [queueSlots, h1, h2]
    rw [Nat.le_div_iff_mul_le (by decide)]
    omega

/-- The frame store of `tableSwitchData` matches its map. -/
theorem tableSwitchData_store :
    FrameStoreMatches tableSwitchData.bytecodeMap tableSwitchData.stackMaps := by
  obtain ⟨bm, sm, h1, _, h3⟩ := initStackMaps_after_build switchCollaborators
    (exampleVerifyData tableSwitchMethod) tableSwitchBuilt 4 (by decide) (by rfl) (by rfl)
    ((List.range 4).map fun n => exampleFrame 99 (-7) (-7) [1000 + n]) (by rfl)
  have h2 : initStackMaps (exampleVerifyData tableSwitchMethod).romMethod.bytecodeSize 0 0
      tableSwitchBuilt.bytecodeMap
      ((List.range 4).map fun n => exampleFrame 99 (-7) (-7) [1000 + n]) =
      some (tableSwitchData.bytecodeMap, tableSwitchData.stackMaps) := by rfl
  have h4 := h1.symm.trans h2
  simp only [Option.some.injEq, Prod.mk.injEq] at h4
  rw [← h4.1, ← h4.2]
  exact h3

/-- The walk of `tableSwitchMethod` begins with the rings as sized. -/
theorem tableSwitchData_entry : RingsAtEntry tableSwitchData :=
  ⟨by rfl, by rfl, by rfl, by rfl, by rfl, by decide, by decide, by decide, by decide,
    by unfold NoQueueFlags; decide, tableSwitchData_store, by decide⟩

/-- The walk of `tableSwitchMethod` can call `mergeStacks` for 31, 30 and 29. -/
theorem tableSwitchData_walk :
    SimulateReaches exampleOracle tableSwitchData (afterMerges [31, 30, 29] tableSwitchData) :=
  SimulateReaches.step _ (afterMerges [31, 30] tableSwitchData) _
    (SimulateReaches.step _ (afterMerges [31] tableSwitchData) _
      (SimulateReaches.step _ tableSwitchData _ (SimulateReaches.start _)
        (SimulateStep.merge _ 31 RC.BCV_SUCCESS _ ⟨49, by rfl, by rfl⟩ (by rfl)))
      (SimulateStep.merge _ 30 RC.BCV_SUCCESS _ ⟨33, by rfl, by rfl⟩ (by rfl)))
    (SimulateStep.merge _ 29 RC.BCV_SUCCESS _ ⟨17, by rfl, by rfl⟩ (by rfl))

/-- C37: the rings of `simulateStack` never fill.  When `j9bcv_verifyBytecodes` has
set up the frames of a method whose maps it creates, each ring has
`rootQueueSize / sizeof (UDATA) >= stackMapsCount + 1` slots (first part).  In every
state of a walk that begins with the rings so sized, the four indices at 0 and the
frame store as initialised, the PCs waiting in either ring are distinct and no more
than `stackMapsCount`, and for a flagged PC each ring has room whenever `mergeStacks`
can append to it.  A call of `mergeStacks` appends its target to the unwalked queue
only when the frame of the target was not reached, and the frame is reached in every
later state, so that no PC is appended to the unwalked queue twice; it appends its
target to the rewalk queue only when the entry of the target does not carry
`BRANCH_ON_REWALK_QUEUE`, which the entry carries afterwards.  Either append leaves
`tail != head` and every PC that waited still waiting, the target behind them. -/
theorem rings_never_fill (o : ClassOracle) (p : Passes) (start vd : VerifyData)
    (hentry : RingsAtEntry start) (hwalk : SimulateReaches o start vd) :
    (∀ before ready info, setUpFrames p true before = some (Except.ok (ready, info)) →
      before.stackMapsCount ≠ 0 →
      (before.stackMapsCount + 1) * SIZEOF_UDATA < UDATA_RANGE →
      (∀ d, (p.buildStackFromMethodSignature d).2.2.2.rootQueueSize = d.rootQueueSize ∧
        (p.buildStackFromMethodSignature d).2.2.2.stackMapsCount = d.stackMapsCount) →
      ready.stackMapsCount + 1 ≤ queueSlots ready) ∧
    (pendingUnwalked vd).Nodup ∧ (pendingRewalk vd).Nodup ∧
    (pendingUnwalked vd).length ≤ vd.stackMapsCount ∧
    (pendingRewalk vd).length ≤ vd.stackMapsCount ∧
    vd.stackMapsCount + 1 ≤ queueSlots vd ∧
    ∀ target, FlaggedAt vd.bytecodeMap target →
      (¬ Reached vd target →
        RingHasRoom vd.unwalkedQueue (queueSlots vd) vd.unwalkedQueueHead
          vd.unwalkedQueueTail) ∧
      (¬ HasFlag vd.bytecodeMap target BRANCH_ON_REWALK_QUEUE →
        RingHasRoom vd.rewalkQueue (queueSlots vd) vd.rewalkQueueHead vd.rewalkQueueTail) ∧
      ∀ rc next, mergeStacks o vd target = some (rc, next) →
        ((next.unwalkedQueue = vd.unwalkedQueue ∧
            next.unwalkedQueueTail = vd.unwalkedQueueTail) ∨
          (¬ Reached vd target ∧
            pendingUnwalked next = pendingUnwalked vd ++ [target] ∧
            next.unwalkedQueueTail ≠ next.unwalkedQueueHead ∧
            ∀ later, SimulateReaches o next later → Reached later target)) ∧
        ((next.rewalkQueue = vd.rewalkQueue ∧ next.rewalkQueueTail = vd.rewalkQueueTail) ∨
          (¬ HasFlag vd.bytecodeMap target BRANCH_ON_REWALK_QUEUE ∧
            HasFlag next.bytecodeMap target BRANCH_ON_REWALK_QUEUE ∧
            pendingRewalk next = pendingRewalk vd ++ [target] ∧
            next.rewalkQueueTail ≠ next.rewalkQueueHead)) := by
  obtain ⟨hinv, _⟩ := simulateReaches_rings (ringInvariant_entry hentry) hwalk
  obtain ⟨hu, hr⟩ := pending_le_frames hinv
  refine ⟨fun before ready info h hcount hsmall hsig =>
      setUpFrames_ring_slots p before ready info h hcount hsmall hsig,
    hinv.unwalkedDistinct, hinv.rewalkDistinct, hu, hr, hinv.slots, ?_⟩
  intro target hflag
  obtain ⟨roomU, roomR⟩ := rings_have_room hinv target hflag
  refine ⟨roomU, roomR, ?_⟩
  intro rc next hmerge
  obtain ⟨hnext, _, hcaseU, hcaseR⟩ := merge_rings hinv hflag hmerge
  refine ⟨?_, hcaseR⟩
  rcases hcaseU with hsame | ⟨hnot, hreached, happ, hne⟩
  · exact Or.inl hsame
  · exact Or.inr ⟨hnot, happ, hne, fun later hlater =>
      (simulateReaches_rings hnext hlater).2 target hreached⟩

theorem rings_never_fill_witness :
    4 + 1 ≤ queueSlots
      (framesOrSelf (setUpFrames examplePasses true tableSwitchPrepared) tableSwitchPrepared).1 ∧
    (pendingUnwalked (afterMerges [31, 30, 29] tableSwitchData)).length ≤ 4 ∧
    5 ≤ queueSlots (afterMerges [31, 30, 29] tableSwitchData) ∧
    RingHasRoom (afterMerges [31, 30, 29] tableSwitchData).unwalkedQueue 5 0 3 ∧
    pendingUnwalked (afterMerges [31, 30, 29] tableSwitchData) = [31, 30, 29] ∧
    pendingUnwalked (afterMerges [31, 30, 29, 28] tableSwitchData) = [31, 30, 29, 28] ∧
    (afterMerges [31, 30, 29, 28] tableSwitchData).unwalkedQueueTail = 4 :=
  ⟨(rings_never_fill exampleOracle examplePasses tableSwitchData
      (afterMerges [31, 30, 29] tableSwitchData) tableSwitchData_entry
      tableSwitchData_walk).1 tableSwitchPrepared
      (framesOrSelf (setUpFrames examplePasses true tableSwitchPrepared) tableSwitchPrepared).1
      (framesOrSelf (setUpFrames examplePasses true tableSwitchPrepared) tableSwitchPrepared).2
      (by rfl) (by decide) (by decide) (fun _ => ⟨rfl, rfl⟩),
    (rings_never_fill exampleOracle examplePasses tableSwitchData
      (afterMerges [31, 30, 29] tableSwitchData) tableSwitchData_entry
      tableSwitchData_walk).2.2.2.1,
    (rings_never_fill exampleOracle examplePasses tableSwitchData
      (afterMerges [31, 30, 29] tableSwitchData) tableSwitchData_entry
      tableSwitchData_walk).2.2.2.2.2.1,
    ((rings_never_fill exampleOracle examplePasses tableSwitchData
      (afterMerges [31, 30, 29] tableSwitchData) tableSwitchData_entry
      tableSwitchData_walk).2.2.2.2.2.2 28 ⟨1, by rfl, by rfl⟩).1
      (fun ⟨v, f, hv, hf, hne⟩ => by
        cases hv
        cases hf
        exact hne rfl),
    by rfl, by rfl, by rfl⟩

/-! ## The re-walk request in the walk of simulateStack -/

/-- When the body of the loop of `mergeStacks` executes `rewalk = TRUE` for a slot,
the word of the target slot has changed or `mergeObjectTypes` was called for the two
words and returned `BCV_FAIL`. -/
theorem mergeSlot_rewalk_cases {o : ClassOracle} {vd vd1 : VerifyData} {target index : Nat}
    {sourceItem targetItem value : Nat}
    (h : mergeSlot o vd target index sourceItem targetItem =
      some (SlotOutcome.merged value true vd1)) :
    value ≠ targetItem ∨
      mergeObjectTypes o vd sourceItem targetItem = some (RC.BCV_FAIL, value, vd1) := by
  have hcall : afterMergeObjectTypes (mergeObjectTypes o vd sourceItem targetItem) =
      some (SlotOutcome.merged value true vd1) →
      mergeObjectTypes o vd sourceItem targetItem = some (RC.BCV_FAIL, value, vd1) := by
    intro hm
    obtain ⟨_, _, rc, hc, _, hiff⟩ := afterMergeObjectTypes_merged hm
    have hrc : rc = RC.BCV_FAIL := hiff.1 rfl
    subst hrc
    exact hc
  by_cases hne : sourceItem = targetItem
  · unfold mergeSlot at h
    dsimp only at h
    rw [if_neg (fun hn => hn hne)] at h
    simp only [Option.some.injEq, SlotOutcome.merged.injEq, Bool.false_eq_true, false_and,
      and_false] at h
  by_cases hlocal : (index : Int) < vd.liveStack.stackBaseIndex
  · by_cases hprim : (sourceItem ||| targetItem) &&& BCV_BASE_OR_SPECIAL ≠ 0
    · rw [mergeSlot_local_primitive o vd target index _ _ hlocal hne hprim] at h
      split_ifs at h with hc
      · simp only [Option.some.injEq, SlotOutcome.merged.injEq] at h
        rw [← h.1]
        exact Or.inl (fun e => hc.1 e.symm)
      · simp only [Option.some.injEq, SlotOutcome.merged.injEq, Bool.false_eq_true, false_and,
          and_false] at h
    · have href : (sourceItem ||| targetItem) &&& BCV_BASE_OR_SPECIAL = 0 := not_not.mp hprim
      obtain ⟨c1, c2, c3, c4⟩ := mergeSlot_local_references o vd target index _ _ hlocal hne href
      by_cases hs : sourceItem = BCV_BASE_TYPE_NULL
      · rw [c1 hs] at h
        simp only [Option.some.injEq, SlotOutcome.merged.injEq, Bool.false_eq_true, false_and,
          and_false] at h
      by_cases ht : targetItem = BCV_JAVA_LANG_OBJECT_INDEX <<< BCV_CLASS_INDEX_SHIFT
      · rw [c2 hs ht] at h
        simp only [Option.some.injEq, SlotOutcome.merged.injEq, Bool.false_eq_true, false_and,
          and_false] at h
      by_cases hn : targetItem = BCV_BASE_TYPE_NULL
      · rw [c3 hs hn] at h
        simp only [Option.some.injEq, SlotOutcome.merged.injEq] at h
        rw [← h.1]
        exact Or.inl hne
      obtain ⟨d1, d2⟩ := c4 hs ht hn
      by_cases hopt : vd.optimize = true ∧ vd.romMethod.argCount + vd.romMethod.tempCount ≤ 32
      · by_cases hidx : index < 32
        · rw [d2 hopt hidx] at h
          split_ifs at h
          · exact Or.inr (hcall h)
          · simp only [Option.some.injEq, SlotOutcome.merged.injEq] at h
            rw [← h.1]
            exact Or.inl (fun e => reference_ne_top href e.symm)
        · unfold mergeSlot at h
          dsimp only at h
          rw [if_pos hne, if_pos hlocal, if_neg hprim, if_pos ⟨hs, ht⟩, if_neg hn, if_pos hopt,
            if_neg hidx] at h
          cases h
      · rw [d1 hopt] at h
        exact Or.inr (hcall h)
  · by_cases href : (sourceItem ||| targetItem) &&& BCV_BASE_OR_SPECIAL = 0
    · rw [mergeSlot_stack_references o vd target index _ _ (by omega) hne href] at h
      exact Or.inr (hcall h)
    · unfold mergeSlot at h
      dsimp only at h
      rw [if_pos hne, if_neg hlocal, if_neg href] at h
      simp only [Option.some.injEq, SlotOutcome.merged.injEq, Bool.false_eq_true, false_and,
        and_false] at h

/-- The entries of the rewalk queue that the code at `_checkFinished` passes: each
of them is the PC whose frame is loaded from that queue, or a PC whose entry does
not carry `BRANCH_ON_REWALK_QUEUE`. -/
theorem checkFinished_passed :
    ∀ (fuel : Nat) (vd : VerifyData) (out : ServiceOutcome),
      vd.unwalkedQueueHead < queueSlots vd → vd.unwalkedQueueTail < queueSlots vd →
      vd.rewalkQueueHead < queueSlots vd → vd.rewalkQueueTail < queueSlots vd →
      queueSlots vd ≤ vd.unwalkedQueue.length → queueSlots vd ≤ vd.rewalkQueue.length →
      queueSlots vd < UDATA_RANGE →
      checkFinished fuel vd = some out →
      ∃ unwalkedHead rewalkHead passedUnwalked passedRewalk,
        unwalkedHead < queueSlots vd ∧ rewalkHead < queueSlots vd ∧
        pendingUnwalked vd = passedUnwalked ++
          pending vd.unwalkedQueue (queueSlots vd) unwalkedHead vd.unwalkedQueueTail ∧
        pendingRewalk vd = passedRewalk ++
          pending vd.rewalkQueue (queueSlots vd) rewalkHead vd.rewalkQueueTail ∧
        ((out = ServiceOutcome.finished
              { vd with unwalkedQueueHead := unwalkedHead, rewalkQueueHead := rewalkHead } ∧
            ∀ q ∈ passedRewalk, ¬ HasFlag vd.bytecodeMap q BRANCH_ON_REWALK_QUEUE) ∨
          ∃ pc v flag other branch,
            ((flag = BRANCH_ON_UNWALKED_QUEUE ∧ other = BRANCH_ON_REWALK_QUEUE ∧
                pc ∈ passedUnwalked) ∨
              (flag = BRANCH_ON_REWALK_QUEUE ∧ other = BRANCH_ON_UNWALKED_QUEUE ∧
                pc ∈ passedRewalk)) ∧
            (∀ q ∈ passedRewalk, ¬ HasFlag vd.bytecodeMap q BRANCH_ON_REWALK_QUEUE ∨
              (flag = BRANCH_ON_REWALK_QUEUE ∧ q = pc)) ∧
            vd.bytecodeMap[pc]? = some v ∧ v &&& flag ≠ 0 ∧
            vd.stackMaps[clearFlag v flag >>> BRANCH_INDEX_SHIFT]? = some branch ∧
            out = ServiceOutcome.walk pc
              { vd with
                unwalkedQueueHead := unwalkedHead
                rewalkQueueHead := rewalkHead
                bytecodeMap := vd.bytecodeMap.set pc (clearFlag v flag)
                liveStack := copyStack branch vd.liveStack }) := by
  intro fuel
  induction fuel with
  | zero =>
    intro vd out _ _ _ _ _ _ _ h
    cases h
  | succ fuel ih =>
    intro vd out huh hut hrh hrt hul hrl hword h
    unfold checkFinished at h
    split_ifs at h with hu hr
    · obtain ⟨hdq, hpend⟩ := pending_dequeue vd.unwalkedQueue (queueSlots vd)
        vd.unwalkedQueueHead vd.unwalkedQueueTail huh hut hul hword hu
      have hnext : (vd.unwalkedQueueHead + 1) % queueSlots vd < queueSlots vd :=
        Nat.mod_lt _ (by omega)
      rw [hdq] at h
      simp only at h
      generalize hv : vd.bytecodeMap[vd.unwalkedQueue.getD vd.unwalkedQueueHead 0]? = mv at h
      rcases mv with _ | v
      · cases h
      simp only at h
      split_ifs at h with hflag
      · obtain ⟨uh, rh, pu, pr, h1, h2, h3, h4, hcase⟩ :=
          ih { vd with unwalkedQueueHead := (vd.unwalkedQueueHead + 1) % queueSlots vd } out
            hnext hut hrh hrt hul hrl hword h
        refine ⟨uh, rh, vd.unwalkedQueue.getD vd.unwalkedQueueHead 0 :: pu, pr, h1, h2, ?_, h4, ?_⟩
        · show pending _ _ _ _ = _
          rw [hpend, List.cons_append]
          exact congrArg _ h3
        · rcases hcase with hfin | ⟨pc, w, flag, other, branch, hwhich, hall, hw, hwf, hb, hout⟩
          · exact Or.inl hfin
          · refine Or.inr ⟨pc, w, flag, other, branch, ?_, hall, hw, hwf, hb, hout⟩
            rcases hwhich with ⟨a, b, c⟩ | ⟨a, b, c⟩
            · exact Or.inl ⟨a, b, List.mem_cons_of_mem _ c⟩
            · exact Or.inr ⟨a, b, c⟩
      · generalize hb : vd.stackMaps[clearFlag v BRANCH_ON_UNWALKED_QUEUE >>> BRANCH_INDEX_SHIFT]? =
          mb at h
        rcases mb with _ | branch
        · cases h
        simp only [Option.some.injEq] at h
        refine ⟨(vd.unwalkedQueueHead + 1) % queueSlots vd, vd.rewalkQueueHead,
          [vd.unwalkedQueue.getD vd.unwalkedQueueHead 0], [], hnext, hrh, ?_, rfl,
          Or.inr ⟨_, v, BRANCH_ON_UNWALKED_QUEUE, BRANCH_ON_REWALK_QUEUE, branch,
            Or.inl ⟨rfl, rfl, List.mem_singleton.2 rfl⟩,
            fun q hq => absurd hq (List.not_mem_nil q), hv, hflag, hb, h.symm⟩⟩
        show pending _ _ _ _ = _
        rw [hpend]
        rfl
    · obtain ⟨hdq, hpend⟩ := pending_dequeue vd.rewalkQueue (queueSlots vd)
        vd.rewalkQueueHead vd.rewalkQueueTail hrh hrt hrl hword hr
      have hnext : (vd.rewalkQueueHead + 1) % queueSlots vd < queueSlots vd :=
        Nat.mod_lt _ (by omega)
      rw [hdq] at h
      simp only at h
      generalize hv : vd.bytecodeMap[vd.rewalkQueue.getD vd.rewalkQueueHead 0]? = mv at h
      rcases mv with _ | v
      · cases h
      simp only at h
      split_ifs at h with hflag
      · obtain ⟨uh, rh, pu, pr, h1, h2, h3, h4, hcase⟩ :=
          ih { vd with rewalkQueueHead := (vd.rewalkQueueHead + 1) % queueSlots vd } out
            huh hut hnext hrt hul hrl hword h
        refine ⟨uh, rh, pu, vd.rewalkQueue.getD vd.rewalkQueueHead 0 :: pr, h1, h2, h3, ?_, ?_⟩
        · show pending _ _ _ _ = _
          rw [hpend, List.cons_append]
          exact congrArg _ h4
        · have hskip : ¬ HasFlag vd.bytecodeMap (vd.rewalkQueue.getD vd.rewalkQueueHead 0)
              BRANCH_ON_REWALK_QUEUE := by
            rintro ⟨x, hx, hne⟩
            rw [hv] at hx
            cases hx
            exact hne hflag
          rcases hcase with ⟨hfin, hall⟩ |
            ⟨pc, w, flag, other, branch, hwhich, hall, hw, hwf, hb, hout⟩
          · refine Or.inl ⟨hfin, ?_⟩
            intro q hq
            rcases List.mem_cons.1 hq with he | hin
            · rw [he]
              exact hskip
            · exact hall q hin
          · refine Or.inr ⟨pc, w, flag, other, branch, ?_, ?_, hw, hwf, hb, hout⟩
            · rcases hwhich with ⟨a, b, c⟩ | ⟨a, b, c⟩
              · exact Or.inl ⟨a, b, c⟩
              · exact Or.inr ⟨a, b, List.mem_cons_of_mem _ c⟩
            · intro q hq
              rcases List.mem_cons.1 hq with he | hin
              · rw [he]
                exact Or.inl hskip
              · exact hall q hin
      · generalize hb : vd.stackMaps[clearFlag v BRANCH_ON_REWALK_QUEUE >>> BRANCH_INDEX_SHIFT]? =
          mb at h
        rcases mb with _ | branch
        · cases h
        simp only [Option.some.injEq] at h
        refine ⟨vd.unwalkedQueueHead, (vd.rewalkQueueHead + 1) % queueSlots vd, [],
          [vd.rewalkQueue.getD vd.rewalkQueueHead 0], huh, hnext, rfl, ?_,
          Or.inr ⟨_, v, BRANCH_ON_REWALK_QUEUE, BRANCH_ON_UNWALKED_QUEUE, branch,
            Or.inr ⟨rfl, rfl, List.mem_singleton.2 rfl⟩,
            fun q hq => Or.inr ⟨rfl, List.mem_singleton.1 hq⟩, hv, hflag, hb, h.symm⟩⟩
        show pending _ _ _ _ = _
        rw [hpend]
        rfl
    · simp only [Option.some.injEq] at h
      exact ⟨vd.unwalkedQueueHead, vd.rewalkQueueHead, [], [], huh, hrh, rfl, rfl,
        Or.inl ⟨h.symm, fun q hq => absurd hq (List.not_mem_nil q)⟩⟩

/-- Every step of the walk keeps this: a PC whose entry carries
`BRANCH_ON_REWALK_QUEUE` waits in the rewalk queue and its entry does not carry
`BRANCH_ON_UNWALKED_QUEUE`. -/
theorem rewalk_waiting_step {o : ClassOracle} {vd next : VerifyData} (hinv : RingInvariant vd)
    (hw : ∀ pc, HasFlag vd.bytecodeMap pc BRANCH_ON_REWALK_QUEUE →
      pc ∈ pendingRewalk vd ∧ ¬ HasFlag vd.bytecodeMap pc BRANCH_ON_UNWALKED_QUEUE)
    (hstep : SimulateStep o vd next) :
    ∀ pc, HasFlag next.bytecodeMap pc BRANCH_ON_REWALK_QUEUE →
      pc ∈ pendingRewalk next ∧ ¬ HasFlag next.bytecodeMap pc BRANCH_ON_UNWALKED_QUEUE := by
  cases hstep with
  | simulate liveStack names hbase => exact hw
  | merge target rc _ hflag h =>
    obtain ⟨v, targetStack, hv, hframe, hcases⟩ := mergeStacks_cases h
    have hv32 := hinv.entries target v hv
    rcases hcases with ⟨hbase, _, queue, tail, _, hnext⟩ | ⟨hbase, _, _, fin, _, hrun⟩
    · subst hnext
      intro pc hpc
      obtain ⟨x, hx, hne⟩ := hpc
      rcases eq_or_ne target pc with he | hother
      · subst he
        have hx1 : (vd.bytecodeMap.set target
            ((v ||| BRANCH_ON_UNWALKED_QUEUE) % U32_RANGE))[target]? = some x := hx
        rw [getElem?_set_same hv] at hx1
        cases hx1
        rw [(unwalked_entry_bits v hv32).2.2.2.1] at hne
        obtain ⟨y, f, hy, hf, hreached⟩ := hinv.queued target (Or.inr ⟨v, hv, hne⟩)
        rw [hv] at hy
        cases hy
        rw [hframe] at hf
        cases hf
        exact absurd hbase hreached
      · have hx1 : (vd.bytecodeMap.set target
            ((v ||| BRANCH_ON_UNWALKED_QUEUE) % U32_RANGE))[pc]? = some x := hx
        rw [getElem?_set_other hother] at hx1
        obtain ⟨h1, h2⟩ := hw pc ⟨x, hx1, hne⟩
        refine ⟨h1, ?_⟩
        rintro ⟨y, hy, hyne⟩
        have hy1 : (vd.bytecodeMap.set target
            ((v ||| BRANCH_ON_UNWALKED_QUEUE) % U32_RANGE))[pc]? = some y := hy
        rw [getElem?_set_other hother] at hy1
        exact h2 ⟨y, hy1, hyne⟩
    · rcases hrun with ⟨_, _, hnext⟩ | ⟨_, _, hend⟩
      · subst hnext
        exact hw
      rcases hend with ⟨_, hclear, queue, tail, henq, hnext⟩ | ⟨_, hnext⟩
      · have hnot : ¬ HasFlag vd.bytecodeMap target BRANCH_ON_REWALK_QUEUE := by
          rintro ⟨x, hx, hne⟩
          rw [hv] at hx
          cases hx
          exact hne hclear
        have hroom := (rings_have_room hinv target hflag).2 hnot
        obtain ⟨henq1, happ⟩ := pending_enqueue vd.rewalkQueue (queueSlots vd)
          vd.rewalkQueueHead vd.rewalkQueueTail target hroom
        rw [henq1] at henq
        simp only [Option.some.injEq, Prod.mk.injEq] at henq
        obtain ⟨hq, ht⟩ := henq
        subst hq
        subst ht
        subst hnext
        intro pc hpc
        obtain ⟨x, hx, hne⟩ := hpc
        have hpend : ∀ q, q ∈ pendingRewalk vd ∨ q = target →
            q ∈ pending (vd.rewalkQueue.set vd.rewalkQueueTail target) (queueSlots vd)
              vd.rewalkQueueHead ((vd.rewalkQueueTail + 1) % queueSlots vd) := by
          intro q hq
          rw [happ]
          rcases hq with hq | hq
          · exact List.mem_append_left _ hq
          · exact List.mem_append_right _ (List.mem_singleton.2 hq)
        rcases eq_or_ne target pc with he | hother
        · subst he
          refine ⟨hpend target (Or.inr rfl), ?_⟩
          rintro ⟨y, hy, hyne⟩
          have hy1 : (vd.bytecodeMap.set target
              (clearFlag ((v ||| BRANCH_ON_REWALK_QUEUE) % U32_RANGE)
                BRANCH_ON_UNWALKED_QUEUE))[target]? = some y := hy
          rw [getElem?_set_same hv] at hy1
          cases hy1
          exact hyne (rewalk_flag_after_enqueue v).2
        · have hx1 : (vd.bytecodeMap.set target
              (clearFlag ((v ||| BRANCH_ON_REWALK_QUEUE) % U32_RANGE)
                BRANCH_ON_UNWALKED_QUEUE))[pc]? = some x := hx
          rw [getElem?_set_other hother] at hx1
          obtain ⟨h1, h2⟩ := hw pc ⟨x, hx1, hne⟩
          refine ⟨hpend pc (Or.inl h1), ?_⟩
          rintro ⟨y, hy, hyne⟩
          have hy1 : (vd.bytecodeMap.set target
              (clearFlag ((v ||| BRANCH_ON_REWALK_QUEUE) % U32_RANGE)
                BRANCH_ON_UNWALKED_QUEUE))[pc]? = some y := hy
          rw [getElem?_set_other hother] at hy1
          exact h2 ⟨y, hy1, hyne⟩
      · subst hnext
        exact hw
  | service fuel pc _ h =>
    obtain ⟨uh, rh, pu, pr, _, _, _, h4, hcase⟩ := checkFinished_passed fuel vd _
      hinv.unwalkedHead hinv.unwalkedTail hinv.rewalkHead hinv.rewalkTail hinv.unwalkedLength
      hinv.rewalkLength hinv.word h
    rcases hcase with ⟨hfin, _⟩ | ⟨pc1, v, flag, other, branch, hwhich, hall, hv, hvf, hb, hout⟩
    · cases hfin
    simp only [ServiceOutcome.walk.injEq] at hout
    obtain ⟨hpc, hnext⟩ := hout
    subst hpc
    subst hnext
    have hv32 := hinv.entries pc v hv
    have hflags : (flag = BRANCH_ON_UNWALKED_QUEUE ∧ other = BRANCH_ON_REWALK_QUEUE) ∨
        (flag = BRANCH_ON_REWALK_QUEUE ∧ other = BRANCH_ON_UNWALKED_QUEUE) := by
      rcases hwhich with ⟨a, b, _⟩ | ⟨a, b, _⟩
      · exact Or.inl ⟨a, b⟩
      · exact Or.inr ⟨a, b⟩
    obtain ⟨_, _, _, c4, c5⟩ := cleared_entry_bits v flag other hv32 hflags
    intro q hq
    obtain ⟨x, hx, hne⟩ := hq
    have hrest : ∀ q, HasFlag vd.bytecodeMap q BRANCH_ON_REWALK_QUEUE →
        (flag = BRANCH_ON_REWALK_QUEUE → q ≠ pc) →
        q ∈ pending vd.rewalkQueue (queueSlots vd) rh vd.rewalkQueueTail := by
      intro q hq hdiff
      have hin := (hw q hq).1
      rw [h4] at hin
      rcases List.mem_append.1 hin with hp | hp
      · rcases hall q hp with hno | ⟨hf, he⟩
        · exact absurd hq hno
        · exact absurd he (hdiff hf)
      · exact hp
    rcases eq_or_ne pc q with he | hother
    · subst he
      have hx1 : (vd.bytecodeMap.set pc (clearFlag v flag))[pc]? = some x := hx
      rw [getElem?_set_same hv] at hx1
      cases hx1
      rcases hflags with ⟨hf, ho⟩ | ⟨hf, ho⟩
      · -- loaded from the unwalked queue
        rw [ho] at c4
        rw [c4] at hne
        refine ⟨hrest pc ⟨v, hv, hne⟩ (fun hr => by rw [hf] at hr; cases hr), ?_⟩
        rintro ⟨y, hy, hyne⟩
        have hy1 : (vd.bytecodeMap.set pc (clearFlag v flag))[pc]? = some y := hy
        rw [getElem?_set_same hv] at hy1
        cases hy1
        rw [hf] at c5
        exact hyne (by rw [hf]; exact c5)
      · rw [hf] at c5 hne
        exact absurd c5 hne
    · have hx1 : (vd.bytecodeMap.set pc (clearFlag v flag))[q]? = some x := hx
      rw [getElem?_set_other hother] at hx1
      refine ⟨hrest q ⟨x, hx1, hne⟩ (fun _ => Ne.symm hother), ?_⟩
      rintro ⟨y, hy, hyne⟩
      have hy1 : (vd.bytecodeMap.set pc (clearFlag v flag))[q]? = some y := hy
      rw [getElem?_set_other hother] at hy1
      exact (hw q ⟨x, hx1, hne⟩).2 ⟨y, hy1, hyne⟩
  | drained fuel _ h =>
    obtain ⟨uh, rh, pu, pr, _, _, _, h4, hcase⟩ := checkFinished_passed fuel vd _
      hinv.unwalkedHead hinv.unwalkedTail hinv.rewalkHead hinv.rewalkTail hinv.unwalkedLength
      hinv.rewalkLength hinv.word h
    rcases hcase with ⟨hfin, hall⟩ | ⟨pc1, v, flag, other, branch, _, _, _, _, _, hout⟩
    · simp only [ServiceOutcome.finished.injEq] at hfin
      subst hfin
      intro q hq
      obtain ⟨h1, h2⟩ := hw q hq
      refine ⟨?_, h2⟩
      rw [h4] at h1
      rcases List.mem_append.1 h1 with hp | hp
      · exact absurd hq (hall q hp)
      · exact hp
    · cases hout

/-- In every state of the walk a PC whose entry carries `BRANCH_ON_REWALK_QUEUE`
waits in the rewalk queue, and its entry does not carry `BRANCH_ON_UNWALKED_QUEUE`. -/
theorem rewalk_waiting {o : ClassOracle} {start vd : VerifyData} (hentry : RingsAtEntry start)
    (hwalk : SimulateReaches o start vd) :
    RingInvariant vd ∧
    ∀ pc, HasFlag vd.bytecodeMap pc BRANCH_ON_REWALK_QUEUE →
      pc ∈ pendingRewalk vd ∧ ¬ HasFlag vd.bytecodeMap pc BRANCH_ON_UNWALKED_QUEUE := by
  induction hwalk with
  | start =>
    refine ⟨ringInvariant_entry hentry, ?_⟩
    rintro pc ⟨v, hv, hne⟩
    exact absurd (hentry.2.2.2.2.2.2.2.2.2.1 v (List.getElem?_mem hv)).2.2 hne
  | step middle next _ hstep ih =>
    obtain ⟨h1, h2⟩ := ih
    exact ⟨(simulateStep_rings h1 hstep).1, rewalk_waiting_step h1 h2 hstep⟩

/-- C16, amended: for a call of `mergeStacks` in the walk of `simulateStack`, on a
target that was reached, that runs the merge to its end (it returns `BCV_SUCCESS`,
not `BCV_ERR_INSUFFICIENT_MEMORY`): when a slot of the stored frame has changed, on
return `bytecodeMap[target]` has `BRANCH_ON_REWALK_QUEUE` set and
`BRANCH_ON_UNWALKED_QUEUE` clear, the target PC waits in the rewalk queue (it was
appended by this call when the flag was clear beforehand, and the queue is as before
when the flag was set, the PC waiting there already), and the unwalked queue is as
before.  When no slot has changed, either the bytecode map and both queues are as
before, or `mergeObjectTypes` has returned `BCV_FAIL` for a slot while writing the
word that was there, the flag was clear beforehand, and the target has been flagged
and appended to the rewalk queue in the same way. -/
theorem changed_frame_is_queued_for_rewalk (o : ClassOracle) (start vd vd1 : VerifyData)
    (target v : Nat) (targetStack : J9BranchTargetStack)
    (hentry : RingsAtEntry start) (hwalk : SimulateReaches o start vd)
    (hflag : FlaggedAt vd.bytecodeMap target)
    (hv : vd.bytecodeMap[target]? = some v)
    (hframe : vd.stackMaps[v >>> BRANCH_INDEX_SHIFT]? = some targetStack)
    (hbase : targetStack.stackBaseIndex ≠ -1)
    (h : mergeStacks o vd target = some (RC.BCV_SUCCESS, vd1)) :
    ∃ f v1, vd1.stackMaps[v >>> BRANCH_INDEX_SHIFT]? = some f ∧
      vd1.bytecodeMap[target]? = some v1 ∧
      ((∃ j : Int, f.stackElements j ≠ targetStack.stackElements j) →
        v1 &&& BRANCH_ON_REWALK_QUEUE ≠ 0 ∧ v1 &&& BRANCH_ON_UNWALKED_QUEUE = 0 ∧
        target ∈ pendingRewalk vd1 ∧
        (v &&& BRANCH_ON_REWALK_QUEUE = 0 → pendingRewalk vd1 = pendingRewalk vd ++ [target]) ∧
        (v &&& BRANCH_ON_REWALK_QUEUE ≠ 0 → pendingRewalk vd1 = pendingRewalk vd) ∧
        pendingUnwalked vd1 = pendingUnwalked vd) ∧
      ((∀ j : Int, f.stackElements j = targetStack.stackElements j) →
        (vd1.bytecodeMap = vd.bytecodeMap ∧
          vd1.unwalkedQueue = vd.unwalkedQueue ∧
          vd1.unwalkedQueueHead = vd.unwalkedQueueHead ∧
          vd1.unwalkedQueueTail = vd.unwalkedQueueTail ∧
          vd1.rewalkQueue = vd.rewalkQueue ∧ vd1.rewalkQueueHead = vd.rewalkQueueHead ∧
          vd1.rewalkQueueTail = vd.rewalkQueueTail) ∨
        ((∃ (j : Nat) (names : ClassNameList) (vdAfter : VerifyData),
            (j : Int) < vd.liveStack.stackTopIndex ∧
            mergeObjectTypes o { vd with classNameList := names }
                (vd.liveStack.stackElements (j : Int)) (targetStack.stackElements (j : Int)) =
              some (RC.BCV_FAIL, targetStack.stackElements (j : Int), vdAfter)) ∧
          v &&& BRANCH_ON_REWALK_QUEUE = 0 ∧
          v1 &&& BRANCH_ON_REWALK_QUEUE ≠ 0 ∧ v1 &&& BRANCH_ON_UNWALKED_QUEUE = 0 ∧
          pendingRewalk vd1 = pendingRewalk vd ++ [target] ∧
          pendingUnwalked vd1 = pendingUnwalked vd)) := by
  obtain ⟨hinv, hw⟩ := rewalk_waiting hentry hwalk
  obtain ⟨v0, t0, hv0, hf0, hcases⟩ := mergeStacks_cases h
  rw [hv] at hv0
  cases hv0
  rw [hframe] at hf0
  cases hf0
  rcases hcases with ⟨hb, _⟩ | ⟨_, _, htop, fin, _, hrun⟩
  · exact absurd hb hbase
  rcases hrun with ⟨_, hrc, _⟩ | ⟨hloop, _, hend⟩
  · cases hrc
  obtain ⟨_, hout, hin, _, hfrom⟩ := mergeSlots_ok o target _ _ _ _ hloop
  have hchanged : (∃ j : Int, fin.targetElements j ≠ targetStack.stackElements j) →
      fin.rewalk = true := by
    rintro ⟨j, hj⟩
    rcases Int.lt_or_le j 0 with h0 | h0
    · exact absurd (hout j (Or.inl (by simpa using h0))) hj
    rcases Int.lt_or_le j vd.liveStack.stackTopIndex with h1 | h1
    · obtain ⟨names, value, signal, vdAfter, hm, hval, hsig⟩ := hin j.toNat (Nat.zero_le _) (by omega)
      have hcast : ((j.toNat : Nat) : Int) = j := Int.toNat_of_nonneg h0
      rw [hcast] at hm hval
      exact hsig ((mergeSlot_merged hm).2 (by rw [← hval]; exact hj))
    · exact absurd (hout j (Or.inr (by simp only [Nat.cast_zero, zero_add]; omega))) hj
  have hfailed : fin.rewalk = true →
      (∀ j : Int, fin.targetElements j = targetStack.stackElements j) →
      ∃ (j : Nat) (names : ClassNameList) (vdAfter : VerifyData),
        (j : Int) < vd.liveStack.stackTopIndex ∧
        mergeObjectTypes o { vd with classNameList := names }
            (vd.liveStack.stackElements (j : Int)) (targetStack.stackElements (j : Int)) =
          some (RC.BCV_FAIL, targetStack.stackElements (j : Int), vdAfter) := by
    intro hrw hsame
    rcases hfrom hrw with hinit | ⟨j, _, hj, names, value, vdAfter, hm, hval⟩
    · cases hinit
    · have hvalue : value = targetStack.stackElements (j : Int) := by
        rw [← hval]
        exact hsame j
      subst hvalue
      refine ⟨j, names, vdAfter, by omega, ?_⟩
      rcases mergeSlot_rewalk_cases hm with hne | hcall
      · exact absurd rfl hne
      · exact hcall
  rcases hend with ⟨hrw, hclear, queue, tail, henq, hvd1⟩ | ⟨hno, hvd1⟩
  · subst hvd1
    have hnot : ¬ HasFlag vd.bytecodeMap target BRANCH_ON_REWALK_QUEUE := by
      rintro ⟨x, hx, hne⟩
      rw [hv] at hx
      cases hx
      exact hne hclear
    have hroom := (rings_have_room hinv target hflag).2 hnot
    obtain ⟨henq1, hpend⟩ := pending_enqueue vd.rewalkQueue (queueSlots vd) vd.rewalkQueueHead
      vd.rewalkQueueTail target hroom
    rw [henq1] at henq
    simp only [Option.some.injEq, Prod.mk.injEq] at henq
    obtain ⟨hq, ht⟩ := henq
    subst hq ht
    have hp : pendingRewalk
        { vd with
          classNameList := fin.verifyData.classNameList
          stackMaps := vd.stackMaps.set (v >>> BRANCH_INDEX_SHIFT)
            { targetStack with stackElements := fin.targetElements }
          rewalkQueue := vd.rewalkQueue.set vd.rewalkQueueTail target
          rewalkQueueTail := (vd.rewalkQueueTail + 1) % queueSlots vd
          bytecodeMap := vd.bytecodeMap.set target
            (clearFlag ((v ||| BRANCH_ON_REWALK_QUEUE) % U32_RANGE)
              BRANCH_ON_UNWALKED_QUEUE) } = pendingRewalk vd ++ [target] := hpend
    refine ⟨_, _, getElem?_set_same hframe, getElem?_set_same hv, ?_, ?_⟩
    · intro _
      refine ⟨(rewalk_flag_after_enqueue v).1, (rewalk_flag_after_enqueue v).2, ?_,
        fun _ => hp, fun hset => absurd hclear hset, rfl⟩
      rw [hp]
      exact List.mem_append_right _ (List.mem_singleton_self target)
    · intro hsame
      exact Or.inr ⟨hfailed hrw hsame, hclear, (rewalk_flag_after_enqueue v).1,
        (rewalk_flag_after_enqueue v).2, hp, rfl⟩
  · subst hvd1
    refine ⟨_, _, getElem?_set_same hframe, hv, ?_, ?_⟩
    · intro hch
      have hrw := hchanged hch
      have hset : v &&& BRANCH_ON_REWALK_QUEUE ≠ 0 := by
        rcases hno with hno | hno
        · rw [hrw] at hno; cases hno
        · exact hno
      obtain ⟨hwait, hnou⟩ := hw target ⟨v, hv, hset⟩
      refine ⟨hset, ?_, hwait, fun hc => absurd hc hset, fun _ => rfl, rfl⟩
      by_contra hu
      exact hnou ⟨v, hv, hu⟩
    · intro _
      exact Or.inl ⟨rfl, rfl, rfl, rfl, rfl, rfl, rfl⟩

/-- A stored frame whose slots below the stack top are as before the call of
`mergeStacks` is as before in every slot. -/
theorem stored_frame_unchanged (o : ClassOracle) (vd vd1 : VerifyData) (target v : Nat)
    (targetStack f : J9BranchTargetStack)
    (hv : vd.bytecodeMap[target]? = some v)
    (hframe : vd.stackMaps[v >>> BRANCH_INDEX_SHIFT]? = some targetStack)
    (hbase : targetStack.stackBaseIndex ≠ -1)
    (h : mergeStacks o vd target = some (RC.BCV_SUCCESS, vd1))
    (hf : vd1.stackMaps[v >>> BRANCH_INDEX_SHIFT]? = some f) (n : Nat)
    (htop : vd.liveStack.stackTopIndex = (n : Int))
    (hsame : ∀ k : Nat, k < n → f.stackElements (k : Int) = targetStack.stackElements (k : Int)) :
    ∀ j : Int, f.stackElements j = targetStack.stackElements j := by
  obtain ⟨g, _, hg, _, _, _, _, _, hout⟩ := mergeStacks_slot hv hframe hbase h
  rw [hf] at hg
  cases hg
  intro j
  rcases Int.lt_or_le j 0 with h0 | h0
  · exact hout j (Or.inl h0)
  rcases Int.lt_or_le j (n : Int) with h1 | h1
  · have hcast : ((j.toNat : Nat) : Int) = j := Int.toNat_of_nonneg h0
    rw [← hcast]
    exact hsame j.toNat (by omega)
  · exact hout j (Or.inr (by rw [htop]; exact h1))

/-- The walk of `tableSwitchMethod` can merge into 31 and then store an `int` in
local 0. -/
theorem storedIntData_walk : SimulateReaches exampleOracle tableSwitchData storedIntData :=
  SimulateReaches.step _ (afterMerges [31] tableSwitchData) _
    (SimulateReaches.step _ tableSwitchData _ (SimulateReaches.start _)
      (SimulateStep.merge _ 31 RC.BCV_SUCCESS _ ⟨49, by rfl, by rfl⟩ (by rfl)))
    (SimulateStep.simulate _ _ _ (by rfl))

/-- The frame store of `objectStackData` holds one frame for each flagged PC. -/
theorem objectStackData_store :
    FrameStoreMatches objectStackData.bytecodeMap objectStackData.stackMaps := by
  apply frameStoreMatches_of
  intro pc v hv hflag
  have hlt : pc < 4 := getElem?_lt hv
  interval_cases pc
  · have hv0 : v = 0x01 := Option.some.inj (hv.symm.trans (by rfl : objectStackData.bytecodeMap[0]? = some 0x01))
    subst hv0
    refine ⟨⟨_, by rfl, by rfl⟩, ?_⟩
    intro k f hk hpc
    have hk2 : k < 2 := getElem?_lt hk
    interval_cases k
    · rfl
    · have hf : f = exampleFrame 2 (-1) (-1) [] :=
        Option.some.inj (hk.symm.trans (by rfl : objectStackData.stackMaps[1]? = some (exampleFrame 2 (-1) (-1) [])))
      subst hf
      exact absurd hpc (by decide)
  · have hv0 : v = 0 := Option.some.inj (hv.symm.trans (by rfl : objectStackData.bytecodeMap[1]? = some 0))
    subst hv0
    exact absurd hflag (by decide)
  · have hv0 : v = 0x11 := Option.some.inj (hv.symm.trans (by rfl : objectStackData.bytecodeMap[2]? = some 0x11))
    subst hv0
    refine ⟨⟨_, by rfl, by rfl⟩, ?_⟩
    intro k f hk hpc
    have hk2 : k < 2 := getElem?_lt hk
    interval_cases k
    · have hf : f = exampleFrame 0 2 3 [0x11, 0x10, 0x00] :=
        Option.some.inj (hk.symm.trans (by rfl : objectStackData.stackMaps[0]? = some (exampleFrame 0 2 3 [0x11, 0x10, 0x00])))
      subst hf
      exact absurd hpc (by decide)
    · rfl
  · have hv0 : v = 0 := Option.some.inj (hv.symm.trans (by rfl : objectStackData.bytecodeMap[3]? = some 0))
    subst hv0
    exact absurd hflag (by decide)

/-- The walk of `simulateStack` can begin in `objectStackData`. -/
theorem objectStackData_entry : RingsAtEntry objectStackData :=
  ⟨by rfl, by rfl, by rfl, by rfl, by rfl, by decide, by decide, by decide, by decide,
    by unfold NoQueueFlags; decide, objectStackData_store, by decide⟩

theorem changed_frame_is_queued_for_rewalk_witness :
    (∃ f v1,
      (mergedOrSelf (mergeStacks exampleOracle storedIntData 31) storedIntData).stackMaps[3]? =
        some f ∧
      (mergedOrSelf (mergeStacks exampleOracle storedIntData 31) storedIntData).bytecodeMap[31]? =
        some v1 ∧
      f.stackElements 0 = BCV_BASE_TYPE_TOP ∧
      v1 &&& BRANCH_ON_REWALK_QUEUE ≠ 0 ∧ v1 &&& BRANCH_ON_UNWALKED_QUEUE = 0 ∧
      31 ∈ pendingRewalk (mergedOrSelf (mergeStacks exampleOracle storedIntData 31)
        storedIntData) ∧
      pendingRewalk (mergedOrSelf (mergeStacks exampleOracle storedIntData 31) storedIntData) =
        pendingRewalk storedIntData ++ [31]) ∧
    pendingRewalk (mergedOrSelf
        (mergeStacks (failingOracle RC.BCV_ERR_INTERNAL_ERROR) objectStackData 0)
        objectStackData) = pendingRewalk objectStackData ++ [0] ∧
    (mergedOrSelf (mergeStacks exampleOracle (afterMerges [31] tableSwitchData) 31)
        (afterMerges [31] tableSwitchData)).bytecodeMap =
      (afterMerges [31] tableSwitchData).bytecodeMap ∧
    (mergedOrSelf (mergeStacks exampleOracle (afterMerges [31] tableSwitchData) 31)
        (afterMerges [31] tableSwitchData)).rewalkQueueTail =
      (afterMerges [31] tableSwitchData).rewalkQueueTail := by
  refine ⟨?_, ?_, ?_⟩
  · obtain ⟨f, v1, hf, hv1, hchanged, _⟩ := changed_frame_is_queued_for_rewalk exampleOracle
      tableSwitchData storedIntData
      (mergedOrSelf (mergeStacks exampleOracle storedIntData 31) storedIntData) 31 0x35
      (storedIntData.stackMaps.getD 3 (exampleFrame 0 0 0 [])) tableSwitchData_entry
      storedIntData_walk ⟨0x35, by rfl, by rfl⟩ (by rfl) (by rfl) (by decide) (by rfl)
    have hget : (mergedOrSelf (mergeStacks exampleOracle storedIntData 31)
        storedIntData).stackMaps[3]? =
        some ((mergedOrSelf (mergeStacks exampleOracle storedIntData 31)
          storedIntData).stackMaps.getD 3 (exampleFrame 0 0 0 [])) := by rfl
    have hf0 : f = (mergedOrSelf (mergeStacks exampleOracle storedIntData 31)
        storedIntData).stackMaps.getD 3 (exampleFrame 0 0 0 []) :=
      Option.some.inj (hf.symm.trans hget)
    have hslot : f.stackElements 0 = BCV_BASE_TYPE_TOP := by
      rw [hf0]
      rfl
    obtain ⟨q1, q2, q3, q4, _, _⟩ := hchanged ⟨0, by rw [hslot]; decide⟩
    exact ⟨f, v1, hf, hv1, hslot, q1, q2, q3, q4 (by decide)⟩
  · obtain ⟨f, v1, hf, hv1, _, hkept⟩ := changed_frame_is_queued_for_rewalk
      (failingOracle RC.BCV_ERR_INTERNAL_ERROR) objectStackData objectStackData
      (mergedOrSelf (mergeStacks (failingOracle RC.BCV_ERR_INTERNAL_ERROR) objectStackData 0)
        objectStackData) 0 0x01 (exampleFrame 0 2 3 [0x11, 0x10, 0x00]) objectStackData_entry
      (SimulateReaches.start _) ⟨0x01, by rfl, by rfl⟩ (by rfl) (by rfl) (by decide) (by rfl)
    have hget : (mergedOrSelf
        (mergeStacks (failingOracle RC.BCV_ERR_INTERNAL_ERROR) objectStackData 0)
        objectStackData).stackMaps[0]? =
        some ((mergedOrSelf
          (mergeStacks (failingOracle RC.BCV_ERR_INTERNAL_ERROR) objectStackData 0)
          objectStackData).stackMaps.getD 0 (exampleFrame 0 0 0 [])) := by rfl
    have hf0 : f = (mergedOrSelf
        (mergeStacks (failingOracle RC.BCV_ERR_INTERNAL_ERROR) objectStackData 0)
        objectStackData).stackMaps.getD 0 (exampleFrame 0 0 0 []) :=
      Option.some.inj (hf.symm.trans hget)
    have hsame := stored_frame_unchanged (failingOracle RC.BCV_ERR_INTERNAL_ERROR) objectStackData
      (mergedOrSelf (mergeStacks (failingOracle RC.BCV_ERR_INTERNAL_ERROR) objectStackData 0)
        objectStackData) 0 0x01 (exampleFrame 0 2 3 [0x11, 0x10, 0x00]) f
      (by rfl) (by rfl) (by decide) (by rfl) hf 3 (by rfl) (by
        intro k hk
        rw [hf0]
        interval_cases k <;> rfl)
    rcases hkept hsame with hn | ⟨_, _, _, _, happ, _⟩
    · exact absurd hn.2.2.2.2.2.2 (by decide)
    · exact happ
  · obtain ⟨f, v1, hf, hv1, _, hkept⟩ := changed_frame_is_queued_for_rewalk exampleOracle
      tableSwitchData (afterMerges [31] tableSwitchData)
      (mergedOrSelf (mergeStacks exampleOracle (afterMerges [31] tableSwitchData) 31)
        (afterMerges [31] tableSwitchData)) 31 0x35
      ((afterMerges [31] tableSwitchData).stackMaps.getD 3 (exampleFrame 0 0 0 []))
      tableSwitchData_entry
      (SimulateReaches.step _ tableSwitchData _ (SimulateReaches.start _)
        (SimulateStep.merge _ 31 RC.BCV_SUCCESS _ ⟨49, by rfl, by rfl⟩ (by rfl)))
      ⟨0x35, by rfl, by rfl⟩ (by rfl) (by rfl) (by decide) (by rfl)
    have hget : (mergedOrSelf (mergeStacks exampleOracle (afterMerges [31] tableSwitchData) 31)
        (afterMerges [31] tableSwitchData)).stackMaps[3]? =
        some ((mergedOrSelf (mergeStacks exampleOracle (afterMerges [31] tableSwitchData) 31)
          (afterMerges [31] tableSwitchData)).stackMaps.getD 3 (exampleFrame 0 0 0 [])) := by
      rfl
    have hf0 : f = (mergedOrSelf (mergeStacks exampleOracle (afterMerges [31] tableSwitchData) 31)
        (afterMerges [31] tableSwitchData)).stackMaps.getD 3 (exampleFrame 0 0 0 []) :=
      Option.some.inj (hf.symm.trans hget)
    have hentry : (mergedOrSelf (mergeStacks exampleOracle (afterMerges [31] tableSwitchData) 31)
        (afterMerges [31] tableSwitchData)).bytecodeMap[31]? = some 0x35 := by rfl
    have hv0 : v1 = 0x35 := Option.some.inj (hv1.symm.trans hentry)
    have hsame := stored_frame_unchanged exampleOracle (afterMerges [31] tableSwitchData)
      (mergedOrSelf (mergeStacks exampleOracle (afterMerges [31] tableSwitchData) 31)
        (afterMerges [31] tableSwitchData)) 31 0x35
      ((afterMerges [31] tableSwitchData).stackMaps.getD 3 (exampleFrame 0 0 0 [])) f
      (by rfl) (by rfl) (by decide) (by rfl) hf 5 (by rfl) (by
        intro k hk
        rw [hf0]
        interval_cases k <;> rfl)
    rcases hkept hsame with hn | ⟨_, _, hset, _⟩
    · exact ⟨hn.1, hn.2.2.2.2.2.2⟩
    · rw [hv0] at hset
      exact absurd (by decide) hset

/-- C16 as stated fails, in both parts.  With a compatibility lookup that runs out
of memory, the call of `mergeStacks` for PC 0 changes local 0 of the stored frame
from `int` to `top`, then leaves the loop at local 1 with
`BCV_ERR_INSUFFICIENT_MEMORY`, and `bytecodeMap[0]` does not carry
`BRANCH_ON_REWALK_QUEUE` on return.  With a compatibility lookup that fails with an
internal error, the call for PC 0 in `objectStackData` is completed and returns
`BCV_SUCCESS`; `mergeObjectTypes` writes `java/lang/Object` over `java/lang/Object`
on the operand stack and returns `BCV_FAIL`, so that no slot of the stored frame
changes, and yet `bytecodeMap[0]` goes from 1 to 9 and PC 0 is appended to the rewalk
queue. -/
theorem changed_frame_counterexample :
    ¬ (∀ (rc : RC) (vd1 : VerifyData) (f : J9BranchTargetStack) (v1 : Nat),
        mergeStacks (failingOracle RC.BCV_ERR_INSUFFICIENT_MEMORY) mergeVerifyData 0 =
          some (rc, vd1) →
        vd1.stackMaps[0]? = some f → vd1.bytecodeMap[0]? = some v1 →
        f.stackElements 0 ≠ (exampleFrame 0 2 3 [0x11, 0x10, 0x10]).stackElements 0 →
        v1 &&& BRANCH_ON_REWALK_QUEUE ≠ 0) ∧
    ∃ vd1 f,
      mergeStacks (failingOracle RC.BCV_ERR_INTERNAL_ERROR) objectStackData 0 =
        some (RC.BCV_SUCCESS, vd1) ∧
      objectStackData.stackMaps[0]? = some (exampleFrame 0 2 3 [0x11, 0x10, 0x00]) ∧
      vd1.stackMaps[0]? = some f ∧
      (∀ j : Int, f.stackElements j = (exampleFrame 0 2 3 [0x11, 0x10, 0x00]).stackElements j) ∧
      objectStackData.bytecodeMap[0]? = some 0x01 ∧ vd1.bytecodeMap[0]? = some 0x09 ∧
      objectStackData.rewalkQueueTail = 0 ∧ vd1.rewalkQueueTail = 1 ∧
      pendingRewalk objectStackData = [] ∧ pendingRewalk vd1 = [0] := by
  constructor
  · intro hclaim
    have hrun : mergeStacks (failingOracle RC.BCV_ERR_INSUFFICIENT_MEMORY) mergeVerifyData 0 =
        some (RC.BCV_ERR_INSUFFICIENT_MEMORY,
          mergedOrSelf
            (mergeStacks (failingOracle RC.BCV_ERR_INSUFFICIENT_MEMORY) mergeVerifyData 0)
            mergeVerifyData) := by rfl
    have h := hclaim _ _
      ((mergedOrSelf
        (mergeStacks (failingOracle RC.BCV_ERR_INSUFFICIENT_MEMORY) mergeVerifyData 0)
        mergeVerifyData).stackMaps.getD 0 (exampleFrame 0 0 0 []))
      1 hrun (by rfl) (by rfl) (by decide)
    exact h (by decide)
  · refine ⟨mergedOrSelf
        (mergeStacks (failingOracle RC.BCV_ERR_INTERNAL_ERROR) objectStackData 0) objectStackData,
      (mergedOrSelf (mergeStacks (failingOracle RC.BCV_ERR_INTERNAL_ERROR) objectStackData 0)
        objectStackData).stackMaps.getD 0 (exampleFrame 0 0 0 []),
      by rfl, by rfl, by rfl, ?_, by rfl, by rfl, by rfl, by rfl, by rfl, by rfl⟩
    exact stored_frame_unchanged (failingOracle RC.BCV_ERR_INTERNAL_ERROR) objectStackData
      (mergedOrSelf (mergeStacks (failingOracle RC.BCV_ERR_INTERNAL_ERROR) objectStackData 0)
        objectStackData) 0 0x01 (exampleFrame 0 2 3 [0x11, 0x10, 0x00]) _
      (by rfl) (by rfl) (by decide) (by rfl) (by rfl) 3 (by rfl) (by
        intro k hk
        interval_cases k <;> rfl)

/-! ## The send of a constructor without a second pass; a class that does not load -/

/-- C23 as stated fails, in two ways.  In `mixedStackData` the live frame holds
`int` in the slot of the operand stack where frame 0, reached and of the same height,
holds the class `A`; `mergeStacks` returns `BCV_SUCCESS` and leaves `A` in that slot
of the stored frame, and `int` is not below `A` in the lattice order.  In
`unloadableData` the live frame holds there the class `C`, which does not load:
`mergeStacks` returns `BCV_SUCCESS` and writes `C` over `A` in the stored frame, and
`A` is not below `C` in the lattice order. -/
theorem merged_frame_counterexample :
    (mergeStacks latticeOracle mixedStackData 0).map (fun result => result.1) =
        some RC.BCV_SUCCESS ∧
      mixedStackData.liveStack.stackElements 2 = BCV_BASE_TYPE_INT ∧
      ((mergedOrSelf (mergeStacks latticeOracle mixedStackData 0) mixedStackData).stackMaps.map
          (fun frame => (frame.stackBaseIndex, frame.stackTopIndex, frame.stackElements 2)))[0]? =
        some (2, 3, 0x10) ∧
      ¬ LatticeLe latticeOracle
          (mergedOrSelf (mergeStacks latticeOracle mixedStackData 0) mixedStackData).classNameList
          BCV_BASE_TYPE_INT 0x10 ∧
      (mergeStacks latticeOracle unloadableData 0).map (fun result => result.1) =
        some RC.BCV_SUCCESS ∧
      unloadableData.classNameList[3]? = some [67] ∧
      latticeOracle.j9rtv_verifierGetRAMClass [67] = Except.error RC.BCV_ERR_INTERNAL_ERROR ∧
      unloadableData.liveStack.stackElements 2 = 0x30 ∧
      (unloadableData.stackMaps.map
          (fun frame => (frame.stackBaseIndex, frame.stackTopIndex, frame.stackElements 2)))[0]? =
        some (2, 3, 0x10) ∧
      ((mergedOrSelf (mergeStacks latticeOracle unloadableData 0) unloadableData).stackMaps.map
          (fun frame => (frame.stackBaseIndex, frame.stackTopIndex, frame.stackElements 2)))[0]? =
        some (2, 3, 0x30) ∧
      ¬ LatticeLe latticeOracle
          (mergedOrSelf (mergeStacks latticeOracle unloadableData 0) unloadableData).classNameList
          0x10 0x30 := by
  refine ⟨by rfl, by rfl, by rfl, ?_, by rfl, by rfl, by rfl, by rfl, by rfl, by rfl, ?_⟩
  · unfold LatticeLe
    decide
  · unfold LatticeLe
    decide

end BCV
